import Mathlib

/-!
Tokenizer (src/tokenize.cpp): the lexer and the post-lex passes of
`Tokenizer::tokenize`, as a shallow embedding of `Tokenizer::addtoken` and
`Tokenizer::tokenize`.

Conventions of the embedding.
* A byte is a `Char` whose code is the byte value; the C++ `char` is signed, so
  `ch < 0` is `128 ≤ ch.toNat`, and `(char)EOF` is the byte `0xFF`.
* A `std::string` is a `List Char` (it may hold NUL bytes); a C string
  (`const char[]`, `std::string::c_str()`) is the part before the first NUL.
* The doubly linked token list `_tokens … _tokensBack` is a `List Token`;
  `insertToken` inserts after a node, `deleteNext` removes the node after it.
* The line number of a node is an `unsigned int` of 32 bits: `addtoken` stores the number
  it is given modulo 2^32. The variable `lineno` of `tokenize` is kept as the number of
  the line counted without the wrap (see `LexState`).
-/

namespace Cppcheck

/-! ## Parts of the program that are not in tokenize.cpp -/

/-- What tokenize.cpp uses from filelister.cpp and from the host C library. -/
structure Host where
  /-- The function `FileLister::simplifyPath`. -/
  simplifyPath : List Char → List Char
  /-- The function `FileLister::SameFileName`. -/
  SameFileName : List Char → List Char → Bool
  /-- largest `unsigned long` of the host -/
  ULONG_MAX : Nat

/-- One node of the token list (class `Token`, token.h): text, origin, variable id. -/
structure Token where
  str : List Char
  linenr : Nat
  fileIndex : Nat
  varId : Nat
deriving DecidableEq

/-- The members of class `Tokenizer` that `tokenize` writes. -/
structure Tokenizer where
  /-- The list `_tokens` … `_tokensBack`. -/
  tokens : List Token
  /-- The vector `_files`. -/
  files : List (List Char)
deriving DecidableEq

/-! ## C library -/

/-- The function `std::isspace` in the "C" locale (argument `EOF` or a 7-bit byte). -/
def isspace (c : Char) : Bool := c.toNat = 32 ∨ (9 ≤ c.toNat ∧ c.toNat ≤ 13)

/-- The function `std::iscntrl` in the "C" locale. -/
def iscntrl (c : Char) : Bool := c.toNat < 32 ∨ c.toNat = 127

/-- The function `std::isdigit`. -/
def isdigit (c : Char) : Bool := 48 ≤ c.toNat ∧ c.toNat ≤ 57

/-- The function `std::isalpha` in the "C" locale. -/
def isalpha (c : Char) : Bool :=
  (65 ≤ c.toNat ∧ c.toNat ≤ 90) ∨ (97 ≤ c.toNat ∧ c.toNat ≤ 122)

/-- The test `strchr(s, ch) != 0`: the terminating NUL of `s` counts as part of the string. -/
def strchr (s : List Char) (ch : Char) : Bool := ch ∈ s ∨ ch = '\x00'

/-- The result of `std::string::c_str()` read as a C string: the bytes before the first NUL. -/
def c_str (s : List Char) : List Char := s.takeWhile (fun c => c ≠ '\x00')

/-- The byte `(char)EOF`, what `(char)code.get()` yields at the end of the stream. -/
def EOFchar : Char := '\xff'

/-- Value of a hexadecimal digit. -/
def hexDigit (c : Char) : Option Nat :=
  if 48 ≤ c.toNat ∧ c.toNat ≤ 57 then some (c.toNat - 48)
  else if 97 ≤ c.toNat ∧ c.toNat ≤ 102 then some (c.toNat - 87)
  else if 65 ≤ c.toNat ∧ c.toNat ≤ 70 then some (c.toNat - 55)
  else none

/-- Is `c` a hexadecimal digit. -/
def isxdigit (c : Char) : Bool := (hexDigit c).isSome

/-- Value of a run of hexadecimal digits, most significant first. -/
def hexValue (ds : List Char) : Nat :=
  ds.foldl (fun acc c => acc * 16 + (hexDigit c).getD 0) 0

/-- The call `std::strtoul(s, NULL, 16)` as the C standard defines it: leading white space,
an optional sign, an optional `0x`/`0X`, then the longest run of hexadecimal
digits; no digits give 0, a value above `ULONG_MAX` gives `ULONG_MAX`, a minus
sign negates modulo `ULONG_MAX + 1`. -/
def strtoul16 (ULONG_MAX : Nat) (s : List Char) : Nat :=
  let s1 := s.dropWhile isspace
  let neg : Bool := s1.head? = some '-'
  let s2 := if s1.head? = some '-' ∨ s1.head? = some '+' then s1.tail else s1
  let s3 :=
    match s2 with
    | '0' :: x :: d :: r => if (x = 'x' ∨ x = 'X') ∧ isxdigit d then d :: r else s2
    | _ => s2
  let v := hexValue (s3.takeWhile isxdigit)
  if ULONG_MAX < v then ULONG_MAX
  else if neg then (ULONG_MAX + 1 - v) % (ULONG_MAX + 1)
  else v

/-- The output of `ostream << unsigned long`: the decimal digits. -/
def decimal (n : Nat) : List Char := Nat.toDigits 10 n

/-! ## addtoken -/

/-- The method `Tokenizer::addtoken(str, lineno, fileno)`; `str` is a C string. An
empty string adds nothing; a text that starts with `0x` is replaced by the decimal
value of what follows. The new node goes after `_tokensBack`. The parameter `lineno`
is an `unsigned int` (32 bits): the node gets the line number modulo 2^32. -/
def addtoken (host : Host) (tokens : List Token) (str : List Char)
    (lineno fileno : Nat) : List Token :=
  if str = [] then tokens
  else
    let str2 :=
      if str.take 2 = ['0', 'x'] then decimal (strtoul16 host.ULONG_MAX (str.drop 2))
      else str
    tokens ++ [{ str := str2, linenr := lineno % 2 ^ 32, fileIndex := fileno, varId := 0 }]

/-! ## The lexer loop of `tokenize` -/

/-- A directive line handled by the lexer (history only, see `LexState.directives`). -/
inductive Directive where
  | file
  | endfile
deriving DecidableEq

/-- The variables of `Tokenizer::tokenize` while it reads the stream. The stacks
`lineNumbers` and `fileIndexes` are lists whose head is `back()`. The field `lineno`
(and each entry of `lineNumbers`) is the number of the line counted without the wrap of
the `unsigned int` of the source: the value of the variable `lineno` is
`lineno % 2 ^ 32`, which is what `addtoken` stores (the source only increments the
variable, sets it to 1, copies it to and from `lineNumbers`, and passes it to
`addtoken`). -/
structure LexState where
  tokens : List Token
  files : List (List Char)
  lineno : Nat
  CurrentToken : List Char
  lineNumbers : List Nat
  fileIndexes : List Nat
  FileIndex : Nat
  /-- history variable: the `#file` / `#endfile` directives handled so far, oldest
  first. It is only ever appended to and never read by the lexer. -/
  directives : List Directive
deriving DecidableEq

/-- The two statements `addtoken(CurrentToken.c_str(), lineno, FileIndex);` and
`CurrentToken.clear();`. -/
def LexState.flush (host : Host) (st : LexState) : LexState :=
  { st with
    tokens := addtoken host st.tokens (c_str st.CurrentToken) st.lineno st.FileIndex
    CurrentToken := [] }

/-- The test `Token::simpleMatch(_tokensBack, w)` for a one-word pattern `w`. -/
def backIs (tokens : List Token) (w : List Char) : Bool :=
  match tokens.getLast? with
  | some t => t.str = w
  | none => false

/-- The statement `_tokensBack->str(w)`. -/
def setBackStr (tokens : List Token) (w : List Char) : List Token :=
  match tokens.getLast? with
  | some t => tokens.dropLast ++ [{ t with str := w }]
  | none => tokens

/-- The bytes that start a token of their own. -/
def opChars : List Char := "#+-*/%&|^?!=<>[](){};:,.~".toList

/-- Where the loop body of `tokenize` goes next. -/
inductive Next where
  /-- Back to the loop head by `continue` (or the end of the body); `eat` tells
  that the peeked byte was read. -/
  | main (st : LexState) (eat : Bool)
  /-- inside the `do … while` of a literal, at `c = (char)code.get()` -/
  | literal (st : LexState) (quote : Char) (special : Bool)
  /-- at the head of the `while (code.good())` loop of a `#` line -/
  | hash (st : LexState) (chPrev : Char) (line : List Char)

/-- The end of the loop body, from `if (std::isspace(ch) || std::iscntrl(ch))` on. -/
def spaceOrAppend (host : Host) (st : LexState) (ch : Char) : LexState :=
  if isspace ch ∨ iscntrl ch then st.flush host
  else { st with CurrentToken := st.CurrentToken ++ [ch] }

/-- The loop body from `if (strchr("#+-*/%&|^?!=<>[](){};:,.~", ch))` on. `peek` is
`code.peek()`, `none` at the end of the stream. -/
def mainTail (host : Host) (st : LexState) (ch : Char) (peek : Option Char) :
    LexState × Bool :=
  if strchr opChars ch then
    if ch = '.' ∧ 0 < st.CurrentToken.length ∧ isdigit (st.CurrentToken.headD ' ') then
      -- Don't separate doubles "5.4"
      (spaceOrAppend host st ch, false)
    else if strchr ['+', '-'] ch ∧ 0 < st.CurrentToken.length ∧
        isdigit (st.CurrentToken.headD ' ') ∧ st.CurrentToken.getLast? = some 'e' then
      -- Don't separate doubles "4.2e+10"
      (spaceOrAppend host st ch, false)
    else
      let st1 := st.flush host
      -- Add "++", "--" or ">>" token
      let eat : Bool := (ch = '+' ∨ ch = '-' ∨ ch = '>') ∧ peek = some ch
      let st2 := { st1 with CurrentToken := if eat then [ch, ch] else [ch] }
      (st2.flush host, eat)
  else (spaceOrAppend host st ch, false)

/-- One pass of the body of the literal loop for the byte `c`: append it, count a
newline, update `special`. -/
def literalBody (st : LexState) (special : Bool) (c : Char) : LexState × Bool :=
  ({ st with
      CurrentToken := st.CurrentToken ++ [c]
      lineno := if c = '\n' then st.lineno + 1 else st.lineno },
   if special then false else decide (c = '\\'))

/-- After the literal loop: `CurrentToken += ch; addtoken(…); CurrentToken.clear();`. -/
def literalEnd (host : Host) (st : LexState) (quote : Char) : LexState :=
  LexState.flush host { st with CurrentToken := st.CurrentToken ++ [quote] }

/-- The loop body of `tokenize` for the byte `ch`. -/
def mainBody (host : Host) (st : LexState) (ch : Char) (peek : Option Char) : Next :=
  if 128 ≤ ch.toNat then .main st false
  else if ch = '\n' then
    .main { st.flush host with lineno := st.lineno + 1 } false
  else if ch = '\'' ∨ ch = '"' then
    let r := literalBody (st.flush host) false ch
    .literal r.1 ch r.2
  else if ch = '#' ∧ st.CurrentToken = [] then
    if backIs st.tokens ['#'] then
      .main { st with tokens := setBackStr st.tokens ['#', '#'] } false
    else .hash st '#' ['#']
  else
    let r := mainTail host st ch peek
    .main r.1 r.2

/-- Index `i` with `SameFileName(_files[i], name)` that the search loop leaves in
`FileIndex`: the last one, as the loop does not stop at a hit. -/
def findFile (host : Host) (name : List Char) : List (List Char) → Nat → Option Nat
  | [], _ => none
  | f :: fs, i =>
    match findFile host name fs (i + 1) with
    | some j => some j
    | none => if host.SameFileName (c_str f) (c_str name) then some i else none

/-- The file name between the first two `"` of a `#file` line:
`line.erase(0, line.find("\"") + 1); line.erase(line.find("\""))`. -/
def fileNameOf (line : List Char) : List Char :=
  ((line.dropWhile (fun c => c ≠ '"')).drop 1).takeWhile (fun c => c ≠ '"')

/-- The `#file "…"` branch. -/
def hashFile (host : Host) (st : LexState) (line : List Char) : LexState :=
  let name := fileNameOf line
  let lineno := st.lineno + 1
  let fileIndexes := st.FileIndex :: st.fileIndexes
  match findFile host name st.files 0 with
  | some i =>
    { st with
      fileIndexes := fileIndexes, FileIndex := i
      lineNumbers := lineno :: st.lineNumbers, lineno := 1
      directives := st.directives ++ [.file] }
  | none =>
    { st with
      files := st.files ++ [host.simplifyPath (c_str name)]
      fileIndexes := fileIndexes
      FileIndex := (st.files ++ [host.simplifyPath (c_str name)]).length - 1
      lineNumbers := lineno :: st.lineNumbers, lineno := 1
      directives := st.directives ++ [.file] }

/-- Result of reading the whole stream. -/
inductive Outcome where
  /-- the loop ended at the end of the stream -/
  | done (st : LexState)
  /-- The call `std::exit(0)` after "Preprocessor bug"; `st` is the state at that moment -/
  | fatal (st : LexState)
deriving DecidableEq

/-- What follows the `#` line loop when no `##` was found: `line` is the text read
and `ch` the last byte read (a newline, or `(char)EOF`). -/
inductive AfterHash where
  | main (st : LexState)
  | fatal (st : LexState)

/-- Dispatch of a `#` line: `#file "…"`, `#endfile`, or a token of its own followed
by the rest of the loop body for `ch`. -/
def hashDispatch (host : Host) (st : LexState) (line : List Char) (ch : Char) :
    AfterHash :=
  if line.take 5 = "#file".toList ∧ '"' ∈ line then
    .main (hashFile host st line)
  else if line.take 8 = "#endfile".toList then
    match st.lineNumbers, st.fileIndexes with
    | lineno :: lineNumbers, FileIndex :: fileIndexes =>
      .main { st with
        lineno := lineno, lineNumbers := lineNumbers
        FileIndex := FileIndex, fileIndexes := fileIndexes
        directives := st.directives ++ [.endfile] }
    | _, _ => .fatal { st with directives := st.directives ++ [.endfile] }
  else
    let st1 :=
      { st with tokens := addtoken host st.tokens (c_str line) st.lineno st.FileIndex }
    -- `ch` is a newline or `(char)EOF` here, `code.peek()` is not consulted
    .main (mainTail host st1 ch none).1

mutual
/-- The `for` loop of `tokenize` over the remaining bytes of the stream. -/
def lexMain (host : Host) (st : LexState) : List Char → Outcome
  | [] => .done st
  | [ch] =>
    match mainBody host st ch none with
    | .main st1 _ => .done st1
    | .literal st1 quote special => lexLiteral host st1 quote special []
    | .hash st1 chPrev line => lexHash host st1 chPrev line []
  | ch :: nx :: code =>
    match mainBody host st ch (some nx) with
    | .main st1 false => lexMain host st1 (nx :: code)
    | .main st1 true => lexMain host st1 code
    | .literal st1 quote special => lexLiteral host st1 quote special (nx :: code)
    | .hash st1 chPrev line => lexHash host st1 chPrev line (nx :: code)
termination_by structural code => code
/-- The `do … while (code.good() && (special || c != ch))` loop of a literal,
entered after the body has run for the opening quote. -/
def lexLiteral (host : Host) (st : LexState) (quote : Char) (special : Bool) :
    List Char → Outcome
  | [] => .done (literalEnd host st quote)
  | c :: code =>
    if special ∨ c ≠ quote then
      let r := literalBody st special c
      lexLiteral host r.1 quote r.2 code
    else lexMain host (literalEnd host st quote) code
termination_by structural code => code
/-- The `while (code.good())` loop that reads a `#` line. -/
def lexHash (host : Host) (st : LexState) (chPrev : Char) (line : List Char) :
    List Char → Outcome
  | [] =>
    -- `ch = (char)code.get()` is `(char)EOF`; the loop ends after this pass
    let line1 := if chPrev = '\\' then line ++ [chPrev] else line
    match hashDispatch host st (line1 ++ [EOFchar]) EOFchar with
    | .main st1 => .done st1
    | .fatal st1 => .fatal st1
  | ch :: code =>
    if chPrev ≠ '\\' ∧ ch = '\n' then
      match hashDispatch host st line ch with
      | .main st1 => lexMain host st1 code
      | .fatal st1 => .fatal st1
    else
      let line1 := if chPrev = '\\' then line ++ [chPrev] else line
      if chPrev = '#' ∧ ch = '#' then
        lexMain host
          { st with tokens := addtoken host st.tokens ['#', '#'] st.lineno st.FileIndex }
          code
      else
        lexHash host
          { st with lineno := if ch = '\n' then st.lineno + 1 else st.lineno }
          (if ch ≠ ' ' then ch else chPrev)
          (if ch ≠ '\\' ∧ ch ≠ '\n' then line1 ++ [ch] else line1)
          code
termination_by structural code => code
end

/-! ## The passes of `tokenize` that follow the lexer loop -/

/-- The table `combineWithNext` of the combine loop: first text, next text, result. -/
def combineWithNext : List (List Char × List Char × List Char) :=
  [ ("<".toList, "<".toList, "<<".toList),
    ("&".toList, "&".toList, "&&".toList),
    ("|".toList, "|".toList, "||".toList),
    ("+".toList, "=".toList, "+=".toList),
    ("-".toList, "=".toList, "-=".toList),
    ("*".toList, "=".toList, "*=".toList),
    ("/".toList, "=".toList, "/=".toList),
    ("&".toList, "=".toList, "&=".toList),
    ("|".toList, "=".toList, "|=".toList),
    ("=".toList, "=".toList, "==".toList),
    ("!".toList, "=".toList, "!=".toList),
    ("<".toList, "=".toList, "<=".toList),
    (">".toList, "=".toList, ">=".toList),
    (":".toList, ":".toList, "::".toList),
    ("-".toList, ">".toList, ".".toList),
    ("private".toList, ":".toList, "private:".toList),
    ("protected".toList, ":".toList, "protected:".toList),
    ("public".toList, ":".toList, "public:".toList) ]

/-- One pass of the inner `for (ui …)` loop for the entry `e`: `tok` and the nodes
`rest` after it. With no node after `tok` nothing can match (the source reads
`tok->next()` only behind `tok->str() == e[0]`, see `combineWithNext_result_no_key`). -/
def combineEntry (e : List Char × List Char × List Char) (p : Token × List Token) :
    Token × List Token :=
  match p.2 with
  | [] => p
  | n :: rest =>
    if p.1.str = e.1 ∧ n.str = e.2.1 then ({ p.1 with str := e.2.2 }, rest) else p

/-- The inner `for (ui …)` loop over the whole table. -/
def combineAt (tok : Token) (rest : List Token) : Token × List Token :=
  combineWithNext.foldl (fun p e => combineEntry e p) (tok, rest)

/-- Entries only ever delete the node after `tok`. -/
theorem combineEntry_length (e : List Char × List Char × List Char)
    (p : Token × List Token) : (combineEntry e p).2.length ≤ p.2.length := by
  unfold combineEntry
  split
  · exact le_refl _
  · rename_i n rest heq
    split
    · simp [heq]
    · exact le_refl _

/-- The inner loop never makes the list after `tok` longer. -/
theorem combineAt_length (tok : Token) (rest : List Token) :
    (combineAt tok rest).2.length ≤ rest.length := by
  unfold combineAt
  generalize combineWithNext = tbl
  suffices h : ∀ p : Token × List Token,
      (tbl.foldl (fun p e => combineEntry e p) p).2.length ≤ p.2.length from h (tok, rest)
  induction tbl with
  | nil => intro p; exact le_refl _
  | cons e tbl ih =>
    intro p
    exact le_trans (ih (combineEntry e p)) (combineEntry_length e p)

/-- The combine loop `for (tok = _tokens; tok && tok->next(); tok = tok->next())`. -/
def combine : List Token → List Token
  | [] => []
  | [tok] => [tok]
  | tok :: n :: rest =>
    (combineAt tok (n :: rest)).1 :: combine (combineAt tok (n :: rest)).2
termination_by ts => ts.length
decreasing_by
  have h := combineAt_length tok (n :: rest)
  simp only [List.length_cons] at h ⊢
  omega

/-- The function `std::isalnum` in the "C" locale. -/
def isalnum (c : Char) : Bool := isalpha c ∨ isdigit c

/-- Modelled from the spec: `Token::isName` (token.cpp is not among the sources).
Spec §3: "first byte is a letter or `_`, and all bytes match `[A-Za-z0-9_]`". -/
def isName (s : List Char) : Bool :=
  match s with
  | [] => false
  | c :: _ => (isalpha c ∨ c = '_') ∧ s.all (fun d => isalnum d ∨ d = '_')

/-- Modelled from the spec: the pattern atom `%type%` of `Token::Match` (token.cpp).
Spec §4.1: a name that is not `delete`. -/
def matchType (t : Token) : Bool := isName t.str ∧ t.str ≠ "delete".toList

/-- The test `Token::Match(tok, "typedef %type% %type% ;")` on the list that starts at `tok`. -/
def matchTypedef2 : List Token → Bool
  | tok :: t1 :: t2 :: t3 :: _ =>
    tok.str = "typedef".toList ∧ matchType t1 ∧ matchType t2 ∧ t3.str = [';']
  | _ => false

/-- The test `Token::Match(tok, "typedef %type% %type% %type% ;")`. -/
def matchTypedef3 : List Token → Bool
  | tok :: t1 :: t2 :: t3 :: t4 :: _ =>
    tok.str = "typedef".toList ∧ matchType t1 ∧ matchType t2 ∧ matchType t3 ∧ t4.str = [';']
  | _ => false

/-- The text `tok->strAt(i)`, the empty string past the end of the list. -/
def strAt (ts : List Token) (i : Nat) : List Char :=
  match ts.get? i with
  | some t => t.str
  | none => []

/-- Inner loop of the two-type typedef: every later `type2` becomes `type1`. -/
def replaceType (type1 type2 : List Char) : List Token → List Token
  | [] => []
  | tok2 :: rest =>
    (if tok2.str = type2 then { tok2 with str := type1 } else tok2) ::
      replaceType type1 type2 rest

/-- Modelled from the spec: `Token::insertToken` (token.cpp): the node created
after `t`. It takes the origin of `t` (spec §3: every token has a valid file
index and a 1-based line) and has no variable id. -/
def Token.inserted (t : Token) (str : List Char) : Token :=
  { str := str, linenr := t.linenr, fileIndex := t.fileIndex, varId := 0 }

/-- Inner loop of the three-type typedef: every later `type3` becomes `type1 type2`;
the loop steps over the inserted node. -/
def expandType (type1 type2 type3 : List Char) : List Token → List Token
  | [] => []
  | tok2 :: rest =>
    if tok2.str = type3 then
      { tok2 with str := type1 } :: Token.inserted { tok2 with str := type1 } type2 ::
        expandType type1 type2 type3 rest
    else tok2 :: expandType type1 type2 type3 rest

/-- Number of `;` tokens, the quantity every matched typedef uses up. -/
def semicolons (ts : List Token) : Nat := ts.countP (fun t => t.str = [';'])

/-- A name is never the text `;`. -/
theorem isName_ne_semicolon (s : List Char) (h : isName s = true) : s ≠ [';'] := by
  intro hs
  subst hs
  revert h
  decide

/-- Counting `;` tokens, one token at a time. -/
theorem semicolons_cons (t : Token) (ts : List Token) :
    semicolons (t :: ts) = semicolons ts + (if t.str = [';'] then 1 else 0) := by
  unfold semicolons
  rw [List.countP_cons]
  simp

/-- Renaming to a name leaves the number of `;` tokens as it is or lower. -/
theorem semicolons_replaceType (type1 type2 : List Char) (h : type1 ≠ [';'])
    (ts : List Token) : semicolons (replaceType type1 type2 ts) ≤ semicolons ts := by
  induction ts with
  | nil => exact le_refl _
  | cons t ts ih =>
    rw [replaceType, semicolons_cons, semicolons_cons]
    by_cases ht : t.str = type2
    · rw [if_pos ht]
      simp only [h, if_false]
      omega
    · rw [if_neg ht]
      omega

/-- Renaming keeps the number of tokens. -/
theorem length_replaceType (type1 type2 : List Char) (ts : List Token) :
    (replaceType type1 type2 ts).length = ts.length := by
  induction ts with
  | nil => rfl
  | cons t ts ih => simp [replaceType, ih]

/-- Expanding a name that is not `;` into two names adds no `;` token. -/
theorem semicolons_expandType (type1 type2 type3 : List Char) (h1 : type1 ≠ [';'])
    (h2 : type2 ≠ [';']) (ts : List Token) :
    semicolons (expandType type1 type2 type3 ts) ≤ semicolons ts := by
  induction ts with
  | nil => exact le_refl _
  | cons t ts ih =>
    rw [expandType]
    by_cases ht : t.str = type3
    · rw [if_pos ht, semicolons_cons, semicolons_cons, semicolons_cons]
      simp only [Token.inserted, h1, h2, if_false]
      omega
    · rw [if_neg ht, semicolons_cons, semicolons_cons]
      omega

/-- A matched two-type typedef: the shape of the list. -/
theorem matchTypedef2_shape (ts : List Token) (h : matchTypedef2 ts = true) :
    ∃ tok t1 t2 t3 rest, ts = tok :: t1 :: t2 :: t3 :: rest ∧
      tok.str = "typedef".toList ∧ matchType t1 = true ∧ matchType t2 = true ∧
      t3.str = [';'] := by
  match ts, h with
  | tok :: t1 :: t2 :: t3 :: rest, h =>
    simp only [matchTypedef2, Bool.decide_and, Bool.decide_eq_true, Bool.and_eq_true,
      decide_eq_true_eq] at h
    exact ⟨tok, t1, t2, t3, rest, rfl, h.1, h.2.1, h.2.2.1, h.2.2.2⟩

/-- A matched three-type typedef: the shape of the list. -/
theorem matchTypedef3_shape (ts : List Token) (h : matchTypedef3 ts = true) :
    ∃ tok t1 t2 t3 t4 rest, ts = tok :: t1 :: t2 :: t3 :: t4 :: rest ∧
      tok.str = "typedef".toList ∧ matchType t1 = true ∧ matchType t2 = true ∧
      matchType t3 = true ∧ t4.str = [';'] := by
  match ts, h with
  | tok :: t1 :: t2 :: t3 :: t4 :: rest, h =>
    simp only [matchTypedef3, Bool.decide_and, Bool.decide_eq_true, Bool.and_eq_true,
      decide_eq_true_eq] at h
    exact ⟨tok, t1, t2, t3, t4, rest, rfl, h.1, h.2.1, h.2.2.1, h.2.2.2.1, h.2.2.2.2⟩

/-- A `%type%` token is not `;`. -/
theorem matchType_ne_semicolon (t : Token) (h : matchType t = true) : t.str ≠ [';'] := by
  simp only [matchType, Bool.decide_and, Bool.decide_eq_true, Bool.and_eq_true] at h
  exact isName_ne_semicolon _ h.1

/-- The typedef loop `for (Token *tok = _tokens; tok;)`: after a matched statement
the later tokens are rewritten and the loop goes on behind the statement. -/
def typedefPass (ts : List Token) : List Token :=
  if matchTypedef2 ts then
    ts.take 4 ++ typedefPass (replaceType (strAt ts 1) (strAt ts 2) (ts.drop 4))
  else if matchTypedef3 ts then
    ts.take 5 ++ typedefPass (expandType (strAt ts 1) (strAt ts 2) (strAt ts 3) (ts.drop 5))
  else
    match ts with
    | [] => []
    | tok :: rest => tok :: typedefPass rest
termination_by (semicolons ts, ts.length)
decreasing_by
  · rename_i h
    obtain ⟨tok, t1, t2, t3, rest, rfl, -, h1, -, -⟩ := matchTypedef2_shape ts h
    have hle := semicolons_replaceType t1.str t2.str (matchType_ne_semicolon t1 h1) rest
    have hlen := length_replaceType t1.str t2.str rest
    have hs : semicolons rest ≤ semicolons (tok :: t1 :: t2 :: t3 :: rest) := by
      simp only [semicolons_cons]
      omega
    simp only [strAt, List.get?, List.drop_succ_cons, List.drop_zero, List.length_cons,
      Prod.lex_def]
    rcases Nat.lt_or_ge (semicolons (replaceType t1.str t2.str rest))
      (semicolons (tok :: t1 :: t2 :: t3 :: rest)) with hlt | hge
    · exact Or.inl hlt
    · exact Or.inr ⟨by omega, by omega⟩
  · rename_i h2 h
    obtain ⟨tok, t1, t2, t3, t4, rest, rfl, -, h1, h2, -, h4⟩ := matchTypedef3_shape ts h
    have hle := semicolons_expandType t1.str t2.str t3.str (matchType_ne_semicolon t1 h1)
      (matchType_ne_semicolon t2 h2) rest
    have hs : semicolons rest < semicolons (tok :: t1 :: t2 :: t3 :: t4 :: rest) := by
      simp only [semicolons_cons, h4, if_true]
      omega
    simp only [strAt, List.get?, List.drop_succ_cons, List.drop_zero, Prod.lex_def]
    exact Or.inl (by omega)
  · simp only [Prod.lex_def, List.length_cons, semicolons_cons]
    split_ifs
    · exact Or.inl (by omega)
    · exact Or.inr ⟨by omega, by omega⟩

mutual
/-- The `__asm` loop `for (tok = _tokens; tok; tok = tok->next())` on the list
that starts at `tok`. -/
def asmFrom : List Token → List Token
  | [] => []
  | tok :: rest =>
    if strAt rest 0 = "__asm".toList ∧ strAt rest 1 = ['{'] then tok :: asmDelete rest
    else tok :: asmFrom rest
termination_by structural ts => ts
/-- The inner `while (tok->next())` loop on the nodes after `tok`: delete up to
and including the first `}`, then go on with the outer loop behind it. -/
def asmDelete : List Token → List Token
  | [] => []
  | n :: rest => if n.str = ['}'] then asmFrom rest else asmDelete rest
termination_by structural ts => ts
end

/-- The loop `while (Token::simpleMatch(_tokens, w))` that drops leading `w` tokens. -/
def dropHeadWord (w : List Char) : List Token → List Token
  | [] => []
  | tok :: rest => if tok.str = w then dropHeadWord w rest else tok :: rest

/-- The loop `for (tok …) while (Token::simpleMatch(tok->next(), w)) tok->deleteNext();`
on the nodes after `tok`. -/
def deleteNextWord (w : List Char) : List Token → List Token
  | [] => []
  | n :: rest =>
    if n.str = w then deleteNextWord w rest else n :: deleteNextWord w rest

/-- Both loops that remove the word `w` (`volatile`, then `mutable`). -/
def removeWord (w : List Char) (ts : List Token) : List Token :=
  match dropHeadWord w ts with
  | [] => []
  | tok :: rest => tok :: deleteNextWord w rest

/-! ## tokenize -/

/-- The variables of `tokenize` before the first byte is read, for a `Tokenizer`
just constructed (`_tokens = 0`, `_files` empty). -/
def initState (host : Host) (FileName : List Char) : LexState :=
  { tokens := [], files := [host.simplifyPath FileName], lineno := 1, CurrentToken := [],
    lineNumbers := [], fileIndexes := [], FileIndex := 0, directives := [] }

/-- The lexer part of `tokenize`: the `for` loop over the stream. -/
def lex (host : Host) (code FileName : List Char) : Outcome :=
  lexMain host (initState host FileName) code

/-- The passes of `tokenize` up to and including the `__asm` removal. -/
def beforeNoise (tokens : List Token) : List Token :=
  asmFrom (typedefPass (combine tokens))

/-- The passes of `tokenize` behind the lexer loop. -/
def postLex (tokens : List Token) : List Token :=
  removeWord "mutable".toList (removeWord "volatile".toList (beforeNoise tokens))

/-- The method `Tokenizer::tokenize(code, FileName)` on a new `Tokenizer`; `none` is the
`std::exit(0)` of the "Preprocessor bug" branch. -/
def tokenize (host : Host) (code FileName : List Char) : Option Tokenizer :=
  match lex host code FileName with
  | .fatal _ => none
  | .done st =>
    some
      { tokens := postLex (addtoken host st.tokens (c_str st.CurrentToken) st.lineno st.FileIndex)
        files := st.files }

/-- Continue the lexer from where the loop body left it, on the bytes `code` that
follow the byte just handled. -/
def Next.resume (host : Host) : Next → List Char → Outcome
  | .main st eat, code => lexMain host st (if eat then code.tail else code)
  | .literal st quote special, code => lexLiteral host st quote special code
  | .hash st chPrev line, code => lexHash host st chPrev line code

/-- The state an outcome ends in. -/
def Outcome.state : Outcome → LexState
  | .done st => st
  | .fatal st => st

/-- An example host for the closed instances below: paths are kept as they are,
file names are compared byte by byte, `unsigned long` has 64 bits. -/
def exampleHost : Host :=
  { simplifyPath := fun p => p, SameFileName := fun a b => a = b, ULONG_MAX := 2 ^ 64 - 1 }

/-- The text a table entry fuses `a` and `b` to, if any. -/
def fusion (a b : List Char) : Option (List Char) :=
  (combineWithNext.find? (fun e => e.1 = a ∧ e.2.1 = b)).map (fun e => e.2.2)

/-- The output `out` arises from `ts` by fusing some adjacent pairs according to the
table and keeping all other tokens, in the original order. -/
inductive Fusion : List Token → List Token → Prop
  | nil : Fusion [] []
  | keep (t : Token) {ts out : List Token} : Fusion ts out → Fusion (t :: ts) (t :: out)
  | fuse (t n : Token) (e : List Char × List Char × List Char) {ts out : List Token} :
      e ∈ combineWithNext → t.str = e.1 → n.str = e.2.1 → Fusion ts out →
      Fusion (t :: n :: ts) ({ t with str := e.2.2 } :: out)

/-- A list in which no adjacent pair can be fused. -/
def Settled (ts : List Token) : Prop :=
  List.Chain' (fun a b => fusion a.str b.str = none) ts

/-- A byte the main loop appends to `CurrentToken`: 7-bit, no newline, no quote, no
operator byte (nor NUL), no white space, no control byte. -/
def plainByte (c : Char) : Bool :=
  decide (c.toNat < 128) && !decide (c = '\n') && !decide (c = '\'') && !decide (c = '"') &&
    !strchr opChars c && !isspace c && !iscntrl c

/-- The body of a literal as the spec describes it: every backslash escapes the
byte after it, and no closing quote occurs that is not escaped. -/
def wellEscaped (quote : Char) : List Char → Bool
  | [] => true
  | [c] => decide (c ≠ '\\' ∧ c ≠ quote)
  | c :: d :: rest =>
    if c = '\\' then wellEscaped quote rest
    else decide (c ≠ quote) && wellEscaped quote (d :: rest)

/-- Number of newline bytes. -/
def newlines (s : List Char) : Nat := s.count '\n'

/-- The state after the bytes `s` were appended to the current token inside a literal. -/
def LexState.inLiteral (st : LexState) (s : List Char) : LexState :=
  { st with CurrentToken := st.CurrentToken ++ s, lineno := st.lineno + newlines s }

/-- Continue after the dispatch of a `#` line, on the bytes `code` that follow it. -/
def AfterHash.resume (host : Host) : AfterHash → List Char → Outcome
  | .main st, code => lexMain host st code
  | .fatal st, _ => .fatal st

/-- A byte that the `#` line loop appends to the line without any other effect:
no newline, no backslash, no `#`. -/
def hashByte (c : Char) : Bool := !decide (c = '\n') && !decide (c = '\\') && !decide (c = '#')

/-- A byte of a file name in a `#file "…"` line: as `hashByte`, and no `"`. -/
def pathByte (c : Char) : Bool := hashByte c && !decide (c = '"')

/-- The text of the line `#file "x"` behind its `#`. -/
def fileLine (x : List Char) : List Char := "file \"".toList ++ x ++ ['"']

/-- The file table after a `#file "x"` line: `x` is appended unless it is found. -/
def filesWith (host : Host) (files : List (List Char)) (x : List Char) : List (List Char) :=
  match findFile host x files 0 with
  | some _ => files
  | none => files ++ [host.simplifyPath (c_str x)]

/-- The operator bytes that always form a token of their own: all of `opChars`
but `#`, `+`, `-`, `>` and `.`. -/
def soloOp (c : Char) : Bool := decide (c ∈ "*/%&|^?!=<[](){};:,~".toList)

/-- The state the loop body leaves. -/
def Next.state : Next → LexState
  | .main st _ => st
  | .literal st _ _ => st
  | .hash st _ _ => st

/-- A property `I` of the lexer state that every elementary update of the state
keeps, and a property `F` that holds at the fatal exit of a state with `I`. -/
structure LexInvariant (host : Host) (I F : LexState → Prop) : Prop where
  cur : ∀ (st : LexState) (x : List Char), I st → I { st with CurrentToken := x }
  line : ∀ st : LexState, I st → I { st with lineno := st.lineno + 1 }
  add : ∀ (st : LexState) (s : List Char), I st →
    I { st with tokens := addtoken host st.tokens s st.lineno st.FileIndex }
  back : ∀ st : LexState, I st → I { st with tokens := setBackStr st.tokens ['#', '#'] }
  file : ∀ (st : LexState) (line : List Char), I st → I (hashFile host st line)
  pop : ∀ (st : LexState) (l f : Nat) (ls fs : List Nat), I st →
    st.lineNumbers = l :: ls → st.fileIndexes = f :: fs →
    I { st with
        lineno := l, lineNumbers := ls, FileIndex := f, fileIndexes := fs
        directives := st.directives ++ [.endfile] }
  fatal : ∀ st : LexState, I st → st.lineNumbers = [] ∨ st.fileIndexes = [] →
    F { st with directives := st.directives ++ [.endfile] }

/-- The property `I` for the state at the end of the stream, `F` for the state at the fatal exit. -/
def Outcome.Holds (I F : LexState → Prop) : Outcome → Prop
  | .done st => I st
  | .fatal st => F st

/-- The property `I` when the lexer goes on after a `#` line, `F` at the fatal exit. -/
def AfterHash.Holds (I F : LexState → Prop) : AfterHash → Prop
  | .main st => I st
  | .fatal st => F st

/-- The file indexes the lexer works with are valid: every token, the current position
and every saved position have a file index inside the file table. -/
def ValidOrigins (st : LexState) : Prop :=
  (∀ t ∈ st.tokens, t.fileIndex < st.files.length) ∧ st.FileIndex < st.files.length ∧
  (∀ i ∈ st.fileIndexes, i < st.files.length)

/-- The line numbers the lexer works with are at least 1 and leave room for `k` more
lines below 2^32: every token has a line number of at least 1, and the current line and
every saved line are at least 1 and, counted `k` lines further, below 2^32. -/
def LinesWithin (k : Nat) (st : LexState) : Prop :=
  (∀ t ∈ st.tokens, 1 ≤ t.linenr) ∧ 1 ≤ st.lineno ∧ st.lineno + k < 2 ^ 32 ∧
  ∀ n ∈ st.lineNumbers, 1 ≤ n ∧ n + k < 2 ^ 32

/-- At the end of the stream every token has a line number of at least 1, and so has the
token that the last `addtoken` of `tokenize` makes of `CurrentToken` (none when it is
empty). -/
def LinesAtEnd (st : LexState) : Prop :=
  (∀ t ∈ st.tokens, 1 ≤ t.linenr) ∧
  (st.CurrentToken = [] ∨ (1 ≤ st.lineno ∧ st.lineno < 2 ^ 32))

/-- The input without its bytes that have the high bit set. -/
def dropHigh (code : List Char) : List Char := code.filter (fun c => decide (c.toNat < 128))

/-- The bytes `+`, `-`, `>`, behind which the lexer peeks at the next byte. -/
def peekOp (c : Char) : Bool := decide (c = '+' ∨ c = '-' ∨ c = '>')

/-- An input on which bytes with the high bit only ever reach the main loop: it
has no quote and no `#`, and no byte with the high bit directly follows `+`, `-`
or `>`. -/
def highSafe : List Char → Bool
  | [] => true
  | [c] => decide (c ≠ '\'' ∧ c ≠ '"' ∧ c ≠ '#')
  | c :: d :: rest =>
    decide (c ≠ '\'' ∧ c ≠ '"' ∧ c ≠ '#') && (!peekOp c || decide (d.toNat < 128)) &&
      highSafe (d :: rest)

/-- In no initial part of the history are there more `#endfile` than `#file`. -/
def Balanced (ds : List Directive) : Prop :=
  ∀ k, (ds.take k).count .endfile ≤ (ds.take k).count .file

/-- Some initial part of the history has more `#endfile` than `#file`. -/
def Unbalanced (ds : List Directive) : Prop :=
  ∃ k, (ds.take k).count .file < (ds.take k).count .endfile

/-- The include stack mirrors the history: both stacks have the same depth, which
is the number of `#file` minus the number of `#endfile` handled so far, and the
history is balanced. -/
def StackMirrorsHistory (st : LexState) : Prop :=
  st.lineNumbers.length = st.fileIndexes.length ∧
  st.directives.count .file = st.directives.count .endfile + st.lineNumbers.length ∧
  Balanced st.directives

/-- The state at the fatal exit: the include stack is empty and the directive just
read is an `#endfile` that follows as many `#endfile` as `#file`. -/
def FatalEndfile (st : LexState) : Prop :=
  st.lineNumbers = [] ∧ st.fileIndexes = [] ∧
  ∃ ds, st.directives = ds ++ [.endfile] ∧ Balanced ds ∧
    ds.count .file = ds.count .endfile

/-- An example input: a file that includes the header `h`. -/
def exampleCode : List Char := "int x;\n#file \"h\"\nint y;\n#endfile\nint z;\n".toList

/-- What `tokenize` makes of `exampleCode`. -/
def exampleResult : Tokenizer :=
  { tokens :=
      [⟨"int".toList, 1, 0, 0⟩, ⟨"x".toList, 1, 0, 0⟩, ⟨";".toList, 1, 0, 0⟩,
       ⟨"int".toList, 1, 1, 0⟩, ⟨"y".toList, 1, 1, 0⟩, ⟨";".toList, 1, 1, 0⟩,
       ⟨"int".toList, 3, 0, 0⟩, ⟨"z".toList, 3, 0, 0⟩, ⟨";".toList, 3, 0, 0⟩]
    files := ["a.c".toList, "h".toList] }

/-- The origin of a token: file index and line number. -/
def Token.origin (t : Token) : Nat × Nat := (t.fileIndex, t.linenr)

/-- Since the state `st0` no directive was handled, the current file is still the
file of `st0`, the line counted is not lower, and the tokens added since carry
that file index and the number (modulo 2^32) of a line from the line of `st0` up to the
current line. -/
def SameFileSince (st0 st : LexState) : Prop :=
  st.FileIndex = st0.FileIndex ∧ st0.lineno ≤ st.lineno ∧
  ∃ new, st.tokens.map Token.origin = st0.tokens.map Token.origin ++ new ∧
    ∀ p ∈ new, p.1 = st0.FileIndex ∧
      ∃ l, st0.lineno ≤ l ∧ l ≤ st.lineno ∧ p.2 = l % 2 ^ 32


/-- Modelled from the spec: `Token::str(s)`, the call that sets the text of a node
(token.cpp is not among the sources). Spec §3 has `var_id > 0 ⇒ is_name(t)` for
every token, whatever text a pass gives it: the node keeps its origin and has no
variable id behind the call. (In `tokenize` no node has a variable id yet, so
there the definitions set the text alone.) -/
def Token.setStr (t : Token) (s : List Char) : Token :=
  { str := s, linenr := t.linenr, fileIndex := t.fileIndex, varId := 0 }

/-- The tokens the lexer makes of the words `ws` when they stand on line 1 of the
source file (file index 0, no variable id). -/
def line1 (ws : List String) : List Token :=
  ws.map (fun w => ⟨w.toList, 1, 0, 0⟩)

/-- The texts of a token list, for display. -/
def texts (ts : List Token) : List String :=
  ts.map (fun t => String.mk t.str)

/-- The token of line 1 of the source file with the text `w` and the variable id `v`. -/
def tokenOf (w : String) (v : Nat) : Token := ⟨w.toList, 1, 0, v⟩

/-! ## simplifyTokenList: the first three loops -/

/-- The test `tok->str()[0] == '"'`. -/
def isString (t : Token) : Bool := t.str.head? = some '"'

/-- The loop "Combine strings" of `simplifyTokenList` at the node `tok`, with the
nodes behind it: the inner `while` appends the next literal to `tok` and deletes
it, and when the `while` ends the `for` goes on at the next node. -/
def combineStringsFrom (tok : Token) : List Token → List Token
  | [] => [tok]
  | n :: rest =>
    if isString tok ∧ isString n then
      combineStringsFrom (tok.setStr (c_str (tok.str.dropLast ++ n.str.drop 1))) rest
    else tok :: combineStringsFrom n rest

/-- The loop "Combine strings", from `_tokens`. -/
def combineStrings : List Token → List Token
  | [] => []
  | tok :: rest => combineStringsFrom tok rest

/-- The table `unwantedWords`. -/
def unwantedWords : List (List Char) := ["unsigned".toList, "unlikely".toList]

/-- The inner loop `for (ui = 0; ui < … && tok->next(); ui++)` of "Remove unwanted
keywords" on the nodes behind `tok`, for the words of the table not yet tried: the
first word that the next node equals deletes that node and ends the loop. -/
def deleteUnwanted : List (List Char) → List Token → List Token
  | [], rest => rest
  | _ :: _, [] => []
  | w :: ws, n :: rest => if n.str = w then rest else deleteUnwanted ws (n :: rest)

/-- The inner loop deletes at most one node. -/
theorem length_deleteUnwanted (ws : List (List Char)) (rest : List Token) :
    (deleteUnwanted ws rest).length ≤ rest.length := by
  induction ws with
  | nil => cases rest <;> simp [deleteUnwanted]
  | cons w ws ih =>
    cases rest with
    | nil => simp [deleteUnwanted]
    | cons n rest =>
      rw [deleteUnwanted]
      split
      · simp
      · exact ih

/-- The loop "Remove unwanted keywords" of `simplifyTokenList` on the list that
starts at `tok`: the inner loop works on the nodes behind `tok`, then the `for`
steps to the node that is next by then. -/
def removeUnwanted : List Token → List Token
  | [] => []
  | tok :: rest => tok :: removeUnwanted (deleteUnwanted unwantedWords rest)
termination_by ts => ts.length
decreasing_by
  have := length_deleteUnwanted unwantedWords rest
  simp only [List.length_cons]
  omega

/-- The loop "Convert + + into + and + - into -" of `simplifyTokenList` at the
node `tok`, with the nodes behind it: the inner `while` folds the next sign into
`tok` and deletes it (`continue`), and at its `break` the `for` goes on at the next
node. -/
def foldSignsFrom (tok : Token) : List Token → List Token
  | [] => [tok]
  | n :: rest =>
    if tok.str = ['+'] then
      if n.str = ['+'] then foldSignsFrom tok rest
      else if n.str = ['-'] then foldSignsFrom (tok.setStr ['-']) rest
      else tok :: foldSignsFrom n rest
    else if tok.str = ['-'] then
      if n.str = ['-'] then foldSignsFrom (tok.setStr ['+']) rest
      else if n.str = ['+'] then foldSignsFrom tok rest
      else tok :: foldSignsFrom n rest
    else tok :: foldSignsFrom n rest

/-- The sign loop, from `_tokens`. -/
def foldSigns : List Token → List Token
  | [] => []
  | tok :: rest => foldSignsFrom tok rest

/-- A well-formed string literal token: both quotes are there and, as in every C
string, no NUL byte. -/
def wellFormedLiteral (s : List Char) : Bool :=
  decide (2 ≤ s.length) && decide (s.head? = some '"') && decide (s.getLast? = some '"') &&
    decide ('\x00' ∉ s)

/-- The bytes of a literal between its quotes. -/
def literalContent (s : List Char) : List Char := (s.drop 1).dropLast

/-- A sign token. -/
def isSign (t : Token) : Bool := decide (t.str = ['+']) || decide (t.str = ['-'])

/-- The node `tok` behind one round of the inner `while` of the sign loop that
folds the sign `n` into it: `+ -` and `- -` set the text, `+ +` and `- +` leave the
node as it is. -/
def foldStep (tok n : Token) : Token :=
  if tok.str = ['+'] ∧ n.str = ['-'] then tok.setStr ['-']
  else if tok.str = ['-'] ∧ n.str = ['-'] then tok.setStr ['+']
  else tok

/-- The sign a run of sign tokens folds to: `-` for an odd number of `-`. -/
def foldedSign (run : List Token) : List Char :=
  if (run.countP (fun t => t.str = ['-'])) % 2 = 1 then ['-'] else ['+']

/-! ## The pattern matcher of token.cpp -/

/-- Modelled from the spec: `Token::isNumber` (token.cpp is not among the sources).
Spec §3: "first byte is a digit". -/
def isNumber (s : List Char) : Bool :=
  match s with
  | [] => false
  | c :: _ => isdigit c

/-- Modelled from the spec: `Token::isBool` (token.cpp). Spec §3: the text is
`true` or `false`. -/
def isBool (s : List Char) : Bool := s = "true".toList ∨ s = "false".toList

/-- Modelled from the spec: the atoms of a pattern of `Token::Match` (token.cpp),
spec §4.1. A pattern string of the source is written as the list of its atoms:
`"sizeof ( %type% )"` is `[.word "sizeof", .word "(", .type, .word ")"]`. -/
inductive Atom
  /-- a literal word: the exact text -/
  | word (s : String)
  /-- the atom `%var%`: a name -/
  | var
  /-- the atom `%type%`: a name that is not `delete` -/
  | type
  /-- the atom `%num%`: a number -/
  | num
  /-- the atom `%bool%` -/
  | bool
  /-- the atom `%any%`: any token -/
  | any
  /-- the atom `%varid%`: a token with the variable id given at the call -/
  | varid
  /-- the alternation `a|b|c`: one of the listed words -/
  | oneOf (alts : List String)
  /-- the optional atom `a|b|` (trailing bar): one of the listed words, or skipped -/
  | optional (alts : List String)
  /-- the character class `[abc]`: a token of one byte that is in the set -/
  | chars (set : String)

/-- Modelled from the spec: does the atom match the token (spec §4.1). -/
def Atom.accepts (varid : Nat) : Atom → Token → Bool
  | .word s, t => t.str = s.toList
  | .var, t => isName t.str
  | .type, t => matchType t
  | .num, t => isNumber t.str
  | .bool, t => isBool t.str
  | .any, _ => true
  | .varid, t => t.varId = varid
  | .oneOf alts, t => alts.any (fun a => t.str = a.toList)
  | .optional alts, t => alts.any (fun a => t.str = a.toList)
  | .chars set, t => set.toList.any (fun c => t.str = [c])

/-- Modelled from the spec: `Token::Match(tok, pattern, varid)` (token.cpp) on the
list that starts at `tok` (the empty list is the null pointer). Spec §4.1: the
cursor advances atom by atom, an optional atom may be skipped, and the stream must
hold a token for every other atom. -/
def MatchVarId (varid : Nat) : List Atom → List Token → Bool
  | [], _ => true
  | .optional _ :: more, [] => MatchVarId varid more []
  | _ :: _, [] => false
  | .optional alts :: more, t :: ts =>
    if (Atom.optional alts).accepts varid t then MatchVarId varid more ts
    else MatchVarId varid more (t :: ts)
  | a :: more, t :: ts => a.accepts varid t && MatchVarId varid more ts

/-- Modelled from the spec: `Token::Match(tok, pattern)`, the call without a
variable id. -/
def Match (pattern : List Atom) (ts : List Token) : Bool := MatchVarId 0 pattern ts

/-- Modelled from the spec: `Token::simpleMatch(tok, pattern)` (token.cpp): only
literal words (spec §4.1). -/
def simpleMatch (pattern : List String) (ts : List Token) : Bool :=
  Match (pattern.map Atom.word) ts

/-- Modelled from the spec: `Token::findmatch(tok, pattern, varid)` (token.cpp): the
first node from `tok` on at which the pattern matches (the list that starts
there), or the null pointer. -/
def findmatch (varid : Nat) (pattern : List Atom) : List Token → Option (List Token)
  | [] => none
  | t :: ts =>
    if MatchVarId varid pattern (t :: ts) then some (t :: ts) else findmatch varid pattern ts

/-- The variable id `tok->tokAt(i)->varId()`; 0 past the end of the list (where
the source would dereference a null pointer, the callers have matched a pattern
that reaches the node). -/
def varIdAt (ts : List Token) (i : Nat) : Nat :=
  match ts.get? i with
  | some t => t.varId
  | none => 0

/-! ## The host compiler -/

/-- What the source takes from the compiler it is built with: the values of
`sizeof` and the range of `int`. -/
structure Platform where
  /-- the value `sizeof(char)` -/
  sizeofChar : Nat
  /-- the value `sizeof(short)` -/
  sizeofShort : Nat
  /-- the value `sizeof(int)` -/
  sizeofInt : Nat
  /-- the value `sizeof(long)` -/
  sizeofLong : Nat
  /-- the value `sizeof(float)` -/
  sizeofFloat : Nat
  /-- the value `sizeof(double)` -/
  sizeofDouble : Nat
  /-- the value `sizeof(char *)` -/
  sizeofPointer : Nat
  /-- the largest `int`; the smallest is `-INT_MAX - 1` -/
  INT_MAX : Nat
  /-- the largest `long`; the smallest is `-LONG_MAX - 1` -/
  LONG_MAX : Nat
  /-- the value of `std::atof(text)`, a `double`; `none` where the value cannot be
  represented, which the C standard leaves undefined -/
  atof : List Char → Option ℚ
  /-- the conversion of a `long` to `double` -/
  longToDouble : Int → ℚ
  /-- the value that `istream >> int` stores when the number it reads is not in the
  range of `int` -/
  istreamOutOfRange : Int → Int

/-- The value of a run of decimal digits, most significant first. -/
def digitsValue (ds : List Char) : Nat :=
  ds.foldl (fun n c => 10 * n + (c.toNat - 48)) 0

/-- The quotient `num / den` rounded to the nearest natural number, a tie to the
even one. -/
def roundHalfEven (num den : Nat) : Nat :=
  if den < 2 * (num % den) ∨ (2 * (num % den) = den ∧ (num / den) % 2 = 1) then num / den + 1
  else num / den

/-- The exponent `e` of the quotient `num / den` of two positive numbers:
`2 ^ e ≤ num / den < 2 ^ (e + 1)`. -/
def binaryExponent (num den : Nat) : Int :=
  if den * 2 ^ (Nat.log2 num - Nat.log2 den) ≤ num * 2 ^ (Nat.log2 den - Nat.log2 num) then
    (Nat.log2 num : Int) - Nat.log2 den
  else (Nat.log2 num : Int) - Nat.log2 den - 1

/-- The number of the format binary64 of IEEE 754 that is nearest to `num / den`
(a tie goes to the even significand); `none` when it is not finite. -/
def binary64 (num den : Nat) : Option ℚ :=
  if num = 0 ∨ den = 0 then some 0
  else
    let k : Int := max (binaryExponent num den - 52) (-1074)
    let m : Nat := roundHalfEven (num * 2 ^ (-k).toNat) (den * 2 ^ k.toNat)
    if 2 ^ 1024 * 2 ^ (-k).toNat ≤ m * 2 ^ k.toNat then none
    else some ((m * 2 ^ k.toNat : Nat) / (2 ^ (-k).toNat : Nat))

/-- The function `atof` of the example platform: `strtod` of C89 (white space, an
optional sign, decimal digits with an optional `.`, an optional exponent) with the
result in binary64. -/
def exampleAtof (s : List Char) : Option ℚ :=
  let s1 := s.dropWhile isspace
  let s2 := if s1.head? = some '-' ∨ s1.head? = some '+' then s1.tail else s1
  let whole := s2.takeWhile isdigit
  let s3 := s2.dropWhile isdigit
  let fraction := if s3.head? = some '.' then s3.tail.takeWhile isdigit else []
  let s4 := if s3.head? = some '.' then s3.tail.dropWhile isdigit else s3
  let s5 := if s4.head? = some 'e' ∨ s4.head? = some 'E' then s4.tail else []
  let s6 := if s5.head? = some '-' ∨ s5.head? = some '+' then s5.tail else s5
  let e : Int :=
    if whole ++ fraction = [] then 0
    else if s5.head? = some '-' then -(digitsValue (s6.takeWhile isdigit) : Int)
    else digitsValue (s6.takeWhile isdigit)
  let scale : Int := e - fraction.length
  (binary64 (digitsValue (whole ++ fraction) * 10 ^ scale.toNat) (10 ^ (-scale).toNat)).map
    fun v => if s1.head? = some '-' then -v else v

/-- An example platform for the closed instances below: the LP64 data model with
`double` in the format binary64, and a stream that stores the nearest `int` for a
number out of range. -/
def examplePlatform : Platform :=
  { sizeofChar := 1, sizeofShort := 2, sizeofInt := 4, sizeofLong := 8, sizeofFloat := 4,
    sizeofDouble := 8, sizeofPointer := 8, INT_MAX := 2 ^ 31 - 1, LONG_MAX := 2 ^ 63 - 1,
    atof := exampleAtof,
    longToDouble := fun v =>
      if v < 0 then -((binary64 v.natAbs 1).getD 0) else (binary64 v.natAbs 1).getD 0,
    istreamOutOfRange := fun v => if v < 0 then -(2 ^ 31) else 2 ^ 31 - 1 }

/-! ## simplifyTokenList: the type sizes and `sizeof` -/

/-- The map `_typeSize`, newest entry first: `_typeSize[k] = v` puts `(k, v)` in
front, a lookup finds the first entry of the key. -/
abbrev TypeSize := List (List Char × Nat)

/-- The method `Tokenizer::SizeOfType(type)`: 0 for a type that is not in the map. -/
def SizeOfType (typeSize : TypeSize) (type : List Char) : Nat :=
  match typeSize.lookup type with
  | some n => n
  | none => 0

/-- The entries `_typeSize["char"] = sizeof(char)` … `_typeSize["double"] = sizeof(double)`
behind `_typeSize.clear()`. -/
def builtinTypeSize (p : Platform) : TypeSize :=
  [("double".toList, p.sizeofDouble), ("float".toList, p.sizeofFloat),
   ("long".toList, p.sizeofLong), ("int".toList, p.sizeofInt),
   ("short".toList, p.sizeofShort), ("char".toList, p.sizeofChar)]

/-- The loop behind them: every `class|struct %var%` enters the name with size 100. -/
def fillStructSizes : List Token → TypeSize → TypeSize
  | [], typeSize => typeSize
  | tok :: rest, typeSize =>
    fillStructSizes rest
      (if Match [.oneOf ["class", "struct"], .var] (tok :: rest) then
        (strAt (tok :: rest) 1, 100) :: typeSize
      else typeSize)

/-- The map `_typeSize` as "Fill the map _typeSize.." leaves it. -/
def fillTypeSize (p : Platform) (ts : List Token) : TypeSize :=
  fillStructSizes ts (builtinTypeSize p)

/-- The inner loop of "Replace 'sizeof(var)'": from `tok2` on, with the current
`indentlevel`, every `sizeof ( %varid% )` gets the type as its operand (the loop
goes on behind the operand); the loop ends at the `}` that closes the block. -/
def sizeofVarToType (varid : Nat) (type : List Char) (indentlevel : Nat)
    (ts : List Token) : List Token :=
  match ts with
  | [] => []
  | tok2 :: rest =>
    if tok2.str = ['{'] then tok2 :: sizeofVarToType varid type (indentlevel + 1) rest
    else if tok2.str = ['}'] then
      if indentlevel = 0 then tok2 :: rest
      else tok2 :: sizeofVarToType varid type (indentlevel - 1) rest
    else if MatchVarId varid [.word "sizeof", .word "(", .varid, .word ")"] (tok2 :: rest) then
      tok2 :: (rest.take 1 ++ ((rest.drop 1).take 1).map (fun v => v.setStr type) ++
        sizeofVarToType varid type indentlevel (rest.drop 2))
    else tok2 :: sizeofVarToType varid type indentlevel rest
termination_by ts.length
decreasing_by
  all_goals simp only [List.length_drop, List.length_cons]
  all_goals omega

/-- The inner loop keeps the number of tokens. -/
theorem length_sizeofVarToType (varid : Nat) (type : List Char) (indentlevel : Nat)
    (ts : List Token) : (sizeofVarToType varid type indentlevel ts).length = ts.length := by
  induction indentlevel, ts using sizeofVarToType.induct varid type with
  | case1 => rw [sizeofVarToType]
  | case2 lvl tok2 rest h ih => rw [sizeofVarToType, if_pos h]; simp [ih]
  | case3 tok2 rest h1 h2 => rw [sizeofVarToType, if_neg h1, if_pos h2]; simp
  | case4 lvl tok2 rest h1 h2 h3 ih =>
    rw [sizeofVarToType, if_neg h1, if_pos h2, if_neg h3]; simp [ih]
  | case5 lvl tok2 rest h1 h2 h3 ih =>
    rw [sizeofVarToType, if_neg h1, if_neg h2, if_pos h3]
    simp only [List.length_cons, List.length_append, List.length_map, List.length_take,
      List.length_drop, ih]
    omega
  | case6 lvl tok2 rest h1 h2 h3 ih =>
    rw [sizeofVarToType, if_neg h1, if_neg h2, if_neg h3]; simp [ih]

/-- The loop "Replace 'sizeof(var)'" on the list that starts at `tok`: behind a
declaration `[;{}] %type% %var% ;` of a variable with an id, the inner loop runs
from `tok` on; then the loop steps to the next node. -/
def replaceSizeofVar : List Token → List Token
  | [] => []
  | tok :: rest =>
    if Match [.chars ";\x7b\x7d", .type, .var, .word ";"] (tok :: rest) ∧
        0 < varIdAt (tok :: rest) 2 then
      tok :: replaceSizeofVar
        (sizeofVarToType (varIdAt (tok :: rest) 2) (strAt (tok :: rest) 1) 0 (tok :: rest)).tail
    else tok :: replaceSizeofVar rest
termination_by ts => ts.length
decreasing_by
  · simp only [List.length_tail, length_sizeofVarToType, List.length_cons]
    omega
  · simp only [List.length_cons]
    omega

/-- Where the loop "Add parenthesis around the sizeof" puts the `)`. -/
inductive Operand
  /-- the loop ends without an insertion: at its `break` for `[`, or at the end of
  the list -/
  | absent
  /-- the `)` goes behind the node with this index, counted from `tok->next()` -/
  | after (k : Nat)
  /-- the node `tempToken->tokAt(2)` behind `++` or `--` is the null pointer, and
  `insertToken` is called on it -/
  | null

/-- The loop `for (tempToken = tok->next(); tempToken; …)` on the list that starts
at `tempToken`, which has the index `k` behind `tok`. -/
def findOperand (k : Nat) (ts : List Token) : Operand :=
  match ts with
  | [] => .absent
  | tempToken :: rest =>
    if Match [.var] [tempToken] then
      if Match [.word "."] rest then findOperand (k + 2) (rest.drop 1)
      else if Match [.word "-", .word ">"] rest then findOperand (k + 3) (rest.drop 2)
      else if Match [.word "++"] rest ∨ Match [.word "--"] rest then
        if rest.drop 1 = [] then .null else .after (k + 2)
      else if Match [.word "["] rest then .absent
      else .after k
    else findOperand (k + 1) rest
termination_by ts.length
decreasing_by
  all_goals simp only [List.length_drop, List.length_cons]
  all_goals omega

/-- The block "Add parenthesis around the sizeof" for the nodes behind `tok`: a `(`
behind `tok` and a `)` behind the end of the operand; `none` for the null pointer
dereference. -/
def addParentheses (tok : Token) (rest : List Token) : Option (List Token) :=
  match findOperand 0 rest with
  | .absent => some rest
  | .null => none
  | .after k =>
    match rest.get? k with
    | none => none
    | some tempToken =>
      some (tok.inserted "(".toList ::
        (rest.take (k + 1) ++ tempToken.inserted ")".toList :: rest.drop (k + 1)))

/-- The statement `if (tok->strAt(1) != std::string("("))` in front of the
replacements: parentheses are added when `sizeof` has none. -/
def parenthesize (tok : Token) (rest : List Token) : Option (List Token) :=
  if strAt (tok :: rest) 1 ≠ ['('] then addParentheses tok rest else some rest

/-- The size that replaces `sizeof ( * %var% )` and `sizeof ( %var% [ %num% ] )`:
the default value 100, or for a variable with an id and a declaration
`%type% %varid% [` in the list `all` from `_tokens` the size of the type. -/
def sizeofElement (typeSize : TypeSize) (all : List Token) (varid : Nat) : Nat :=
  if varid ≠ 0 then
    match findmatch varid [.type, .varid, .word "["] all with
    | some decltok => SizeOfType typeSize (strAt decltok 0)
    | none => 100
  else 100

/-- The three replacements of "Replace 'sizeof(type)'" at the node `tok` (a
`sizeof`) with the nodes `rest` behind it; `all` is the list from `_tokens`. Gives
the new `tok` and the nodes behind it. -/
def sizeofReplace (p : Platform) (typeSize : TypeSize) (all : List Token) (tok : Token)
    (rest : List Token) : Token × List Token :=
  if Match [.word "sizeof", .word "(", .type, .word "*", .word ")"] (tok :: rest) then
    (tok.setStr (decimal p.sizeofPointer), rest.drop 4)
  else if Match [.word "sizeof", .word "(", .type, .word ")"] (tok :: rest) then
    let size := SizeOfType typeSize (strAt (tok :: rest) 2)
    if 0 < size then (tok.setStr (decimal size), rest.drop 3)
    else (tok, rest)
  else if Match [.word "sizeof", .word "(", .word "*", .var, .word ")"] (tok :: rest) ∨
      Match [.word "sizeof", .word "(", .var, .word "[", .num, .word "]", .word ")"]
        (tok :: rest) then
    let varid := varIdAt (tok :: rest) (if strAt (tok :: rest) 2 = ['*'] then 3 else 2)
    let sz := sizeofElement typeSize all varid
    (tok.setStr (decimal sz), (rest.dropWhile (fun t => t.str ≠ [')'])).drop 1)
  else (tok, rest)

/-- Number of `sizeof` tokens. -/
def sizeofCount (ts : List Token) : Nat := ts.countP (fun t => t.str = "sizeof".toList)

/-- The added parentheses are no `sizeof` tokens. -/
theorem sizeofCount_addParentheses (tok : Token) (rest rest1 : List Token)
    (h : addParentheses tok rest = some rest1) : sizeofCount rest1 = sizeofCount rest := by
  unfold addParentheses at h
  split at h
  · cases h; rfl
  · cases h
  · rename_i k _
    split at h
    · cases h
    · cases h
      have e : sizeofCount rest =
          sizeofCount (rest.take (k + 1)) + sizeofCount (rest.drop (k + 1)) := by
        unfold sizeofCount
        rw [← List.countP_append, List.take_append_drop]
      rw [e]
      simp [sizeofCount, List.countP_cons, List.countP_append, Token.inserted]

/-- The replacement only deletes nodes behind `tok`. -/
theorem sizeofReplace_suffix (p : Platform) (typeSize : TypeSize) (all : List Token)
    (tok : Token) (rest : List Token) :
    (sizeofReplace p typeSize all tok rest).2 <:+ rest := by
  unfold sizeofReplace
  split
  · exact List.drop_suffix _ _
  · split
    · simp only
      split
      · exact List.drop_suffix _ _
      · exact List.suffix_refl _
    · split
      · exact (List.drop_suffix _ _).trans (List.dropWhile_suffix _)
      · exact List.suffix_refl _

/-- A suffix has no more `sizeof` tokens. -/
theorem sizeofCount_suffix {a b : List Token} (h : a <:+ b) : sizeofCount a ≤ sizeofCount b :=
  h.sublist.countP_le _

/-- The loop measure falls at a token that is no `sizeof`. -/
theorem sizeofLoop_step (tok : Token) (rest : List Token) (hs : tok.str ≠ "sizeof".toList) :
    sizeofCount rest < sizeofCount (tok :: rest) ∨
      sizeofCount rest = sizeofCount (tok :: rest) ∧ rest.length < (tok :: rest).length := by
  right
  constructor
  · have hd : decide (tok.str = "sizeof".toList) = false := decide_eq_false hs
    unfold sizeofCount
    rw [List.countP_cons, hd]
    simp
  · simp

/-- The loop measure falls at a `sizeof`. -/
theorem sizeofLoop_replace (p : Platform) (typeSize : TypeSize) (all : List Token)
    (tok : Token) (rest rest1 : List Token) (hs : ¬ tok.str ≠ "sizeof".toList)
    (h : parenthesize tok rest = some rest1) :
    sizeofCount (sizeofReplace p typeSize all tok rest1).2 < sizeofCount (tok :: rest) := by
  have hs' : tok.str = "sizeof".toList := by simpa using hs
  have h1 : sizeofCount rest1 = sizeofCount rest := by
    unfold parenthesize at h
    split at h
    · exact sizeofCount_addParentheses tok rest rest1 h
    · cases h; rfl
  have h2 := sizeofCount_suffix (sizeofReplace_suffix p typeSize all tok rest1)
  have h3 : sizeofCount (tok :: rest) = sizeofCount rest + 1 := by
    simp [sizeofCount, List.countP_cons, hs']
  omega

/-- The loop "Replace 'sizeof(type)'" on the list that starts at `tok`, with the
nodes `before` in front of `tok`; `none` for the null pointer dereference in "Add
parenthesis around the sizeof". -/
def sizeofLoop (p : Platform) (typeSize : TypeSize) (before ts : List Token) :
    Option (List Token) :=
  match ts with
  | [] => some before
  | tok :: rest =>
    if tok.str ≠ "sizeof".toList then sizeofLoop p typeSize (before ++ [tok]) rest
    else
      match h : parenthesize tok rest with
      | none => none
      | some rest1 =>
        sizeofLoop p typeSize
          (before ++ [(sizeofReplace p typeSize (before ++ tok :: rest1) tok rest1).1])
          (sizeofReplace p typeSize (before ++ tok :: rest1) tok rest1).2
termination_by (sizeofCount ts, ts.length)
decreasing_by
  · simp only [Prod.lex_def]
    exact sizeofLoop_step _ _ (by assumption)
  · simp only [Prod.lex_def]
    exact Or.inl (sizeofLoop_replace p typeSize _ _ _ _ (by assumption) h)

/-- The name `type` stands behind `class` or `struct` somewhere in the list. -/
def isStructName (ts : List Token) (type : List Char) : Prop :=
  ∃ pre k n post, ts = pre ++ k :: n :: post ∧
    (k.str = "class".toList ∨ k.str = "struct".toList) ∧ isName n.str = true ∧ n.str = type

/-! ## simplifyTokenList: constants -/

/-- The inner loop of "Replace constants" from `tok2` on: `indent` is the variable
of that name, `previous` the text of `tok2->previous()`. A token with the text
`sym` that does not follow a `.` gets the text `num`; the loop ends at the `}`
that brings `indent` to 0. -/
def propagateConst (sym num : List Char) : Nat → List Char → List Token → List Token
  | _, _, [] => []
  | indent, previous, tok2 :: rest =>
    if tok2.str = ['{'] then tok2 :: propagateConst sym num (indent + 1) tok2.str rest
    else if tok2.str = ['}'] then
      if indent - 1 = 0 then tok2 :: rest
      else tok2 :: propagateConst sym num (indent - 1) tok2.str rest
    else if tok2.str = sym ∧ previous ≠ ['.'] then
      (tok2.setStr num) :: propagateConst sym num indent num rest
    else tok2 :: propagateConst sym num indent tok2.str rest

/-- The inner loop keeps the number of tokens. -/
theorem length_propagateConst (sym num : List Char) (ts : List Token) :
    ∀ (indent : Nat) (previous : List Char),
      (propagateConst sym num indent previous ts).length = ts.length := by
  induction ts with
  | nil => intro _ _; rfl
  | cons t ts ih =>
    intro indent previous
    rw [propagateConst]
    split_ifs <;> simp [ih]

/-- The loop "Replace constants" of `simplifyTokenList` on the list that starts at
`tok`: at a statement `const %type% %var% = %num% ;` the inner loop runs from the
node behind the `;`, then the loop steps to the next node. -/
def replaceConstants : List Token → List Token
  | [] => []
  | tok :: rest =>
    if Match [.word "const", .type, .var, .word "=", .num, .word ";"] (tok :: rest) then
      tok :: replaceConstants
        (rest.take 5 ++
          propagateConst (strAt (tok :: rest) 2) (strAt (tok :: rest) 4) 1 (strAt (tok :: rest) 5)
            (rest.drop 5))
    else tok :: replaceConstants rest
termination_by ts => ts.length
decreasing_by
  · simp only [List.length_append, List.length_take, length_propagateConst, List.length_drop,
      List.length_cons]
    omega
  · simp only [List.length_cons]
    omega

/-- The number of tokens from `tok2` up to the `}` that closes the block the
statement stands in (the `}` not counted), for the current `indent`; the whole
list when there is no such `}`. -/
def blockEnd : Nat → List Token → Nat
  | _, [] => 0
  | indent, t :: ts =>
    if t.str = ['{'] then blockEnd (indent + 1) ts + 1
    else if t.str = ['}'] then
      if indent - 1 = 0 then 0 else blockEnd (indent - 1) ts + 1
    else blockEnd indent ts + 1

/-- Every token with the text `sym` that does not follow a `.` gets the text `num`;
`previous` is the text in front of the first token. -/
def renameConst (sym num : List Char) : List Char → List Token → List Token
  | _, [] => []
  | previous, t :: ts =>
    (if t.str = sym ∧ previous ≠ ['.'] then (t.setStr num) else t) ::
      renameConst sym num t.str ts

/-! ## simplifyCalculations -/

/-- An `int` holds the value `v` when it is in the range of `int`; a value out of
the range is undefined behaviour (`none`). -/
def intResult (p : Platform) (v : Int) : Option Int :=
  if -(p.INT_MAX : Int) - 1 ≤ v ∧ v ≤ (p.INT_MAX : Int) then some v else none

/-- The function `std::atoi`: white space, an optional sign, then the longest run
of decimal digits; `none` (undefined behaviour) when the value is not in the range
of `int`. -/
def atoi (p : Platform) (s : List Char) : Option Int :=
  let s1 := s.dropWhile isspace
  let s2 := if s1.head? = some '-' ∨ s1.head? = some '+' then s1.tail else s1
  let v : Int := digitsValue (s2.takeWhile isdigit)
  intResult p (if s1.head? = some '-' then -v else v)

/-- The output of `ostream << int`: the decimal digits, behind a `-` for a
negative value. -/
def decimalInt (v : Int) : List Char :=
  if v < 0 then '-' :: decimal v.natAbs else decimal v.toNat

/-- The cursor of the loop of `simplifyCalculations` inside one round: the nodes
`passed` that `tok` has left behind in this round, the node `tok`, the nodes
`rest` behind it, and the variable `ret`. -/
structure Cursor where
  /-- the nodes that `tok = tok->next()` has left behind in this round -/
  passed : List Token
  /-- the node `tok` -/
  tok : Token
  /-- the nodes behind `tok` -/
  rest : List Token
  /-- the variable `ret` -/
  ret : Bool

/-- The first `if` of the loop body: `* 1` or `1 *` behind `tok` is deleted. -/
def calcTimesOne (c : Cursor) : Cursor :=
  if simpleMatch ["*", "1"] c.rest ∨ simpleMatch ["1", "*"] c.rest then
    { c with rest := c.rest.drop 2, ret := true }
  else c

/-- The `switch` on the operator byte; the division of `int` truncates. -/
def calcOperator (op : Char) (i1 i2 : Int) : Int :=
  if op = '+' then i1 + i2
  else if op = '-' then i1 - i2
  else if op = '*' then i1 * i2
  else if op = '/' then Int.tdiv i1 i2
  else i1

/-- The second `if` of the loop body: `tok` opens a calculation of two numbers.
The result is the cursor and whether `continue` was executed; `none` is undefined
behaviour (an operand or the result is not in the range of `int`). -/
def calcFold (p : Platform) (c : Cursor) : Option (Cursor × Bool) :=
  if Match [.chars "[,(=<>", .num, .chars "+-*/", .num, .chars "],);=<>"] (c.tok :: c.rest) then
    match atoi p (strAt (c.tok :: c.rest) 1), atoi p (strAt (c.tok :: c.rest) 3),
        (strAt (c.tok :: c.rest) 2).head?, c.rest with
    | some i1, some i2, some op, n :: _ =>
      if i2 = 0 ∧ op = '/' then some (c, true)
      else
        match intResult p (calcOperator op i1 i2) with
        | none => none
        | some i =>
          some ({ passed := c.passed ++ [c.tok], tok := n.setStr (decimalInt i),
                  rest := c.rest.drop 3, ret := true }, false)
    | _, _, _, _ => none
  else some (c, false)

/-- The third `if` of the loop body: "Remove parantheses around number". -/
def calcNumber (c : Cursor) : Cursor :=
  if ¬ isName c.tok.str ∧ Match [.word "(", .num, .word ")"] c.rest then
    match c.rest with
    | _ :: n :: _ :: rest => { passed := c.passed ++ [c.tok], tok := n, rest := rest, ret := true }
    | _ => c
  else c

/-- The fourth `if` of the loop body: "Remove parantheses around variable". -/
def calcVariable (c : Cursor) : Cursor :=
  if ¬ isName c.tok.str ∧ c.tok.str ≠ ['>'] ∧
      Match [.word "(", .var, .word ")", .chars ";),+-*/><]"] c.rest then
    match c.rest with
    | _ :: n :: _ :: rest => { passed := c.passed ++ [c.tok], tok := n, rest := rest, ret := true }
    | _ => c
  else c

/-- The body of the loop of `simplifyCalculations` at the node `tok`. -/
def calcBody (p : Platform) (c : Cursor) : Option Cursor :=
  match calcFold p (calcTimesOne c) with
  | none => none
  | some (c2, true) => some c2
  | some (c2, false) => some (calcVariable (calcNumber c2))

/-- The loop body never makes the list behind `tok` longer. -/
theorem calcBody_rest (p : Platform) (c c' : Cursor) (h : calcBody p c = some c') :
    c'.rest.length ≤ c.rest.length := by
  have h1 : (calcTimesOne c).rest.length ≤ c.rest.length := by
    unfold calcTimesOne
    split
    · simp
    · exact le_refl _
  have h2 : ∀ c2 b, calcFold p (calcTimesOne c) = some (c2, b) →
      c2.rest.length ≤ (calcTimesOne c).rest.length := by
    intro c2 b hf
    unfold calcFold at hf
    split at hf
    · split at hf
      · split at hf
        · cases hf; exact le_refl _
        · split at hf
          · cases hf
          · cases hf; simp
      · cases hf
    · cases hf; exact le_refl _
  have h3 : ∀ c2 : Cursor, (calcNumber c2).rest.length ≤ c2.rest.length := by
    intro c2
    unfold calcNumber
    split
    · split
      · rename_i heq
        rw [heq]
        simp only [List.length_cons]
        omega
      · exact le_refl _
    · exact le_refl _
  have h4 : ∀ c2 : Cursor, (calcVariable c2).rest.length ≤ c2.rest.length := by
    intro c2
    unfold calcVariable
    split
    · split
      · rename_i heq
        rw [heq]
        simp only [List.length_cons]
        omega
      · exact le_refl _
    · exact le_refl _
  unfold calcBody at h
  split at h
  · cases h
  · rename_i c2 hf
    cases h
    exact (h2 _ _ hf).trans h1
  · rename_i c2 hf
    cases h
    exact ((h4 _).trans (h3 _)).trans ((h2 _ _ hf).trans h1)

/-- The loop of `simplifyCalculations` on the list that starts at `tok`; `passed`
are the nodes in front of `tok`. Gives the list and `ret`; `none` is undefined
behaviour. -/
def calcLoop (p : Platform) (passed ts : List Token) (ret : Bool) :
    Option (List Token × Bool) :=
  match ts with
  | [] => some (passed, ret)
  | tok :: rest =>
    match h : calcBody p ⟨[], tok, rest, ret⟩ with
    | none => none
    | some c => calcLoop p (passed ++ c.passed ++ [c.tok]) c.rest c.ret
termination_by ts.length
decreasing_by
  have := calcBody_rest p _ _ h
  simp only [List.length_cons] at this ⊢
  omega

/-- The method `Tokenizer::simplifyCalculations()`: the new list and the result. -/
def simplifyCalculations (p : Platform) (ts : List Token) : Option (List Token × Bool) :=
  calcLoop p [] ts false

/-- The result of the calculation `a op b` on two numbers that are not negative
(the division truncates). -/
def calcResult (op : Char) (a b : Nat) : Int :=
  if op = '+' then (a : Int) + b
  else if op = '-' then (a : Int) - b
  else if op = '*' then (a : Int) * b
  else ((a / b : Nat) : Int)

/-! ## simplifyTokenList: the other steps in front of the fixpoint loop -/

/-- The product `size * std::atoi(…)` of two `int`; `none` is undefined behaviour
(an operand or the product is not in the range of `int`). -/
def intTimes (p : Platform) (size : Nat) (s : List Char) : Option Int :=
  match atoi p s with
  | none => none
  | some n => intResult p ((size : Int) * n)

/-- The inner loop of the second "Replace 'sizeof(var)'": from `tok2` on, with the
current `indentlevel`, every `sizeof ( %varid% )` becomes the one token `total`;
the loop ends at the `}` that closes the block. -/
def sizeofArrayInner (varid : Nat) (total : List Char) (indentlevel : Nat)
    (ts : List Token) : List Token :=
  match ts with
  | [] => []
  | tok2 :: rest =>
    if tok2.str = ['{'] then tok2 :: sizeofArrayInner varid total (indentlevel + 1) rest
    else if tok2.str = ['}'] then
      if indentlevel = 0 then tok2 :: rest
      else tok2 :: sizeofArrayInner varid total (indentlevel - 1) rest
    else if MatchVarId varid [.word "sizeof", .word "(", .varid, .word ")"] (tok2 :: rest) then
      (tok2.setStr total) :: sizeofArrayInner varid total indentlevel (rest.drop 3)
    else tok2 :: sizeofArrayInner varid total indentlevel rest
termination_by ts.length
decreasing_by
  all_goals simp only [List.length_drop, List.length_cons]
  all_goals omega

/-- The inner loop adds no token. -/
theorem length_sizeofArrayInner (varid : Nat) (total : List Char) (indentlevel : Nat)
    (ts : List Token) : (sizeofArrayInner varid total indentlevel ts).length ≤ ts.length := by
  induction indentlevel, ts using sizeofArrayInner.induct varid total with
  | case1 => rw [sizeofArrayInner]
  | case2 lvl tok2 rest h ih =>
    rw [sizeofArrayInner, if_pos h]
    simp only [List.length_cons]
    omega
  | case3 tok2 rest h1 h2 => rw [sizeofArrayInner, if_neg h1, if_pos h2]; simp
  | case4 lvl tok2 rest h1 h2 h3 ih =>
    rw [sizeofArrayInner, if_neg h1, if_pos h2, if_neg h3]
    simp only [List.length_cons]
    omega
  | case5 lvl tok2 rest h1 h2 h3 ih =>
    rw [sizeofArrayInner, if_neg h1, if_neg h2, if_pos h3]
    simp only [List.length_cons, List.length_drop] at ih ⊢
    omega
  | case6 lvl tok2 rest h1 h2 h3 ih =>
    rw [sizeofArrayInner, if_neg h1, if_neg h2, if_neg h3]
    simp only [List.length_cons]
    omega

/-- The inner loop behind the first tokens of the declaration adds no token. -/
theorem length_sizeofArrayInner_drop (varid : Nat) (total : List Char) (k : Nat)
    (rest : List Token) :
    (rest.take k ++ sizeofArrayInner varid total 0 (rest.drop k)).length ≤ rest.length := by
  have h := length_sizeofArrayInner varid total 0 (rest.drop k)
  simp only [List.length_append, List.length_take, List.length_drop] at h ⊢
  omega

/-- The second loop "Replace 'sizeof(var)'" of `simplifyTokenList` on the list that
starts at `tok`: behind an array declaration `%type% %var% [ %num% ] ;` of a type
with a size and a variable with an id, every `sizeof ( var )` of the block becomes
the size of the array; `none` is undefined behaviour in the product. -/
def replaceSizeofArray (p : Platform) (typeSize : TypeSize) (ts : List Token) :
    Option (List Token) :=
  match ts with
  | [] => some []
  | tok :: rest =>
    if ¬ Match [.type, .var, .word "[", .num, .word "]", .word ";"] (tok :: rest) then
      (replaceSizeofArray p typeSize rest).map (tok :: ·)
    else if SizeOfType typeSize tok.str = 0 then
      (replaceSizeofArray p typeSize rest).map (tok :: ·)
    else if varIdAt (tok :: rest) 1 = 0 then
      (replaceSizeofArray p typeSize rest).map (tok :: ·)
    else
      match intTimes p (SizeOfType typeSize tok.str) (strAt (tok :: rest) 3) with
      | none => none
      | some total_size =>
        (replaceSizeofArray p typeSize
          (rest.take 4 ++
            sizeofArrayInner (varIdAt (tok :: rest) 1) (decimalInt total_size) 0
              (rest.drop 4))).map (tok :: ·)
termination_by ts.length
decreasing_by
  · simp only [List.length_cons]; omega
  · simp only [List.length_cons]; omega
  · simp only [List.length_cons]; omega
  · simp only [List.length_cons]
    exact Nat.lt_succ_of_le (length_sizeofArrayInner_drop _ _ _ _)

/-! ## simplifyCasts -/

/-- The loop of `simplifyCasts` that looks for the `)` of a cast with
`dynamic_cast<…>(`: `tok2` steps forward while it has a next node and `parlevel`
is not negative, and at the end the next node of `tok2`, if any, is deleted. The
list holds the nodes behind `tok2`. -/
def deleteClosing : Int → List Token → List Token
  | _, [] => []
  | parlevel, t :: rest =>
    if parlevel < 0 then rest
    else
      t :: deleteClosing
        (if simpleMatch ["("] rest then parlevel + 1
         else if simpleMatch [")"] rest then parlevel - 1
         else parlevel) rest

/-- The loop deletes at most one node. -/
theorem length_deleteClosing (ts : List Token) :
    ∀ parlevel : Int, (deleteClosing parlevel ts).length ≤ ts.length := by
  induction ts with
  | nil => intro _; simp [deleteClosing]
  | cons t ts ih =>
    intro parlevel
    rw [deleteClosing]
    split
    · simp
    · simp only [List.length_cons]
      exact Nat.succ_le_succ (ih _)

/-- The body of the loop of `simplifyCasts` for the nodes `rest` behind `tok`: the
nodes behind `tok` afterwards; `none` is the call of `deleteNext` on a node
without a next node. -/
def castBody (tok : Token) (rest : List Token) : Option (List Token) :=
  if Match [.word "(", .type, .optional ["*"], .word ")"] rest ∨
      Match [.word "(", .type, .type, .optional ["*"], .word ")"] rest then
    if isName tok.str ∧ tok.str ≠ "return".toList then some rest
    else if ¬ Match [.word ")", .var] ((rest.drop 2).dropWhile (fun t => t.str ≠ [')'])) then
      some rest
    else some ((rest.dropWhile (fun t => t.str ≠ [')'])).drop 1)
  else if Match [.oneOf ["dynamic_cast", "reinterpret_cast", "const_cast", "static_cast"],
      .word "<"] rest then
    match rest.dropWhile (fun t => t.str ≠ ['>']) with
    | _ :: _ :: rest2 => some (deleteClosing 0 rest2)
    | _ => none
  else some rest

/-- The loop body never makes the list behind `tok` longer. -/
theorem length_castBody (tok : Token) (rest rest1 : List Token)
    (h : castBody tok rest = some rest1) : rest1.length ≤ rest.length := by
  unfold castBody at h
  split at h
  · split at h
    · cases h; exact le_refl _
    · split at h
      · cases h; exact le_refl _
      · cases h
        exact ((List.drop_suffix _ _).trans (List.dropWhile_suffix _)).length_le
  · split at h
    · split at h
      · rename_i rest2 heq
        cases h
        have h1 := (List.dropWhile_suffix (fun t : Token => t.str ≠ ['>']) (l := rest)).length_le
        rw [heq] at h1
        have h2 := length_deleteClosing rest2 0
        simp only [List.length_cons] at h1
        omega
      · cases h
    · cases h; exact le_refl _

/-- The method `Tokenizer::simplifyCasts()` on the list that starts at `tok` (the
result `bool` is not used by `simplifyTokenList`). -/
def simplifyCasts (ts : List Token) : Option (List Token) :=
  match ts with
  | [] => some []
  | tok :: rest =>
    match h : castBody tok rest with
    | none => none
    | some rest1 => (simplifyCasts rest1).map (tok :: ·)
termination_by ts.length
decreasing_by
  have := length_castBody _ _ _ h
  simp only [List.length_cons]
  omega

/-! ## simplifyTokenList: pointer arithmetic -/

/-- The first byte `tok->aaaa0()` of the text of a token, NUL for the empty text. -/
def Token.aaaa0 (t : Token) : Char := t.str.headD '\x00'

/-- The loop "Replace *(str + num) => str[num]" of `simplifyTokenList` on the list
that starts at `tok`. -/
def replacePointerSum : List Token → List Token
  | [] => []
  | [tok] => [tok]
  | tok :: n1 :: n2 :: n3 :: n4 :: n5 :: n6 :: rest =>
    if ¬ strchr ";\x7b\x7d(=<>".toList tok.aaaa0 then
      tok :: replacePointerSum (n1 :: n2 :: n3 :: n4 :: n5 :: n6 :: rest)
    else if Match [.word "*", .word "(", .var, .word "+", .num, .word ")"]
        (n1 :: n2 :: n3 :: n4 :: n5 :: n6 :: rest) then
      tok :: n1.setStr n3.str :: n2.setStr ['['] :: n3.setStr n5.str :: n4.setStr [']'] ::
        replacePointerSum rest
    else tok :: replacePointerSum (n1 :: n2 :: n3 :: n4 :: n5 :: n6 :: rest)
  | tok :: rest => tok :: replacePointerSum rest

/-! ## simplifyTokenList: declarations -/

/-- How a run of a loop with a bound on its rounds ends. -/
inductive Result (α : Type) where
  /-- the loop has ended with this value -/
  | ok (a : α)
  /-- undefined behaviour: a null pointer is dereferenced, or an `int` overflows -/
  | undefined
  /-- the bound on the rounds was reached before the loop ended -/
  | unfinished
  deriving DecidableEq

/-- Go on with the value of a run that has ended. -/
def Result.bind {α β : Type} (r : Result α) (f : α → Result β) : Result β :=
  match r with
  | .ok a => f a
  | .undefined => .undefined
  | .unfinished => .unfinished

/-- Change the value of a run that has ended. -/
def Result.map {α β : Type} (f : α → β) (r : Result α) : Result β :=
  r.bind (fun a => .ok (f a))

/-- The result of a step that can only be undefined. -/
def Result.ofOption {α : Type} : Option α → Result α
  | some a => .ok a
  | none => .undefined

/-- The method `Tokenizer::InsertTokens(dest, src, n)`: the nodes put behind `dest`
are copies (text, file index, line, variable id) of the `n` nodes from `src` on. The
callers pass a `src` with at least `n` nodes. -/
def InsertTokens (src : List Token) (n : Nat) : List Token := src.take n

/-- The six patterns of "Split up variable declarations" on the list that starts
at `type0`: the index of `tok2` behind `type0`, and `typelen`; `none` when `tok2`
stays null. -/
def splitPoint (ts : List Token) : Option (Nat × Nat) :=
  if Match [.type, .var, .oneOf [",", "="]] ts then
    if strAt ts 1 ≠ "operator".toList then some (2, 1) else none
  else if Match [.type, .word "*", .var, .oneOf [",", "="]] ts then
    if strAt ts 2 ≠ "operator".toList then some (3, 1) else none
  else if Match [.type, .var, .word "[", .num, .word "]", .word ","] ts then some (5, 1)
  else if Match [.type, .word "*", .var, .word "[", .num, .word "]", .word ","] ts then
    some (6, 1)
  else if Match [.word "struct", .type, .var, .oneOf [",", "="]] ts then some (3, 2)
  else if Match [.word "struct", .type, .word "*", .var, .oneOf [",", "="]] ts then some (4, 2)
  else none

/-- The loop `while (tok2)` behind a `=`, on the list that starts at `tok2`: the
index (from `tok2`) of the `;` or `,` at `parlevel` 0 that ends the initialiser;
`none` when the loop ends without it. -/
def initialiserEnd : Int → List Token → Option Nat
  | _, [] => none
  | parlevel, tok2 :: rest =>
    if strchr "\x7b(".toList tok2.aaaa0 then (initialiserEnd (parlevel + 1) rest).map (· + 1)
    else if strchr "\x7d)".toList tok2.aaaa0 then
      if parlevel < 0 then none else (initialiserEnd (parlevel - 1) rest).map (· + 1)
    else if parlevel = 0 ∧ strchr ";,".toList tok2.aaaa0 then some 0
    else (initialiserEnd parlevel rest).map (· + 1)

/-- The block `if (tok2)` of "Split up variable declarations" on the list `ts` that
starts at `type0`, with `tok2` at the index `k`: the list afterwards. -/
def splitDeclaration (ts : List Token) (k typelen : Nat) : List Token :=
  match ts.get? k with
  | none => ts
  | some tok2 =>
    if tok2.str = [','] then
      ts.take k ++ (tok2.setStr [';']) :: (InsertTokens ts typelen ++ ts.drop (k + 1))
    else
      match initialiserEnd 0 (ts.drop k) with
      | none => ts
      | some j =>
        match ts.get? (k + j) with
        | none => ts
        | some last =>
          ts.take k ++ (tok2.setStr [';']) ::
            (InsertTokens
                (ts.drop (if (strAt ts typelen).headD '\x00' = '*' then typelen + 1 else typelen))
                2 ++
              (ts.drop (k + 1)).take (j - 1) ++
              (if last.str = [','] then (last.setStr [';']) :: InsertTokens ts typelen
               else [last]) ++
              ts.drop (k + j + 1))

/-- The body of the loop "Split up variable declarations" for the nodes `rest`
behind `tok`: the nodes behind `tok` afterwards. -/
def splitBody (tok : Token) (rest : List Token) : List Token :=
  if ¬ Match [.chars "\x7b\x7d;"] [tok] then rest
  else if ¬ Match [.type] rest then rest
  else if Match [.oneOf ["else", "return"]] rest then rest
  else
    match splitPoint rest with
    | none => rest
    | some (k, typelen) => splitDeclaration rest k typelen

/-- The loop "Split up variable declarations" of `simplifyTokenList` on the list
that starts at `tok`, for at most `fuel` rounds. -/
def splitDeclarations : Nat → List Token → Result (List Token)
  | _, [] => .ok []
  | 0, _ :: _ => .unfinished
  | fuel + 1, tok :: rest => (splitDeclarations fuel (splitBody tok rest)).map (tok :: ·)

/-! ## setVarId -/

/-- The loop `while (tok2 && ! Token::Match(tok2, "[;[=(]"))` of `setVarId` on the
list that starts at `tok2`: the last name seen is the variable name. Gives
`varname` (`none` is the null pointer) and the list that starts at the final
`tok2`. -/
def declaredName : Option (List Char) → List Token → Option (List Char) × List Token
  | varname, [] => (varname, [])
  | varname, tok2 :: rest =>
    if Match [.chars ";[=("] (tok2 :: rest) then (varname, tok2 :: rest)
    else if isName tok2.str then declaredName (some tok2.str) rest
    else if tok2.str ≠ ['*'] then (varname, tok2 :: rest)
    else declaredName varname rest

/-- The loop `for (tok2 = tok->next(); tok2; tok2 = tok2->next())` of `setVarId`
that gives the id `varId` to the tokens with the text `varname`, on the list that
starts at `tok2`, with the variables `indentlevel`, `parlevel` and `dot`. -/
def markVariable (varname : List Char) (varId : Nat) :
    Int → Int → Bool → List Token → List Token
  | _, _, _, [] => []
  | indentlevel, parlevel, dot, tok2 :: rest =>
    if ¬ dot ∧ tok2.str = varname then
      { tok2 with varId := varId } ::
        markVariable varname varId indentlevel parlevel (tok2.str = ['.']) rest
    else if tok2.str = ['{'] then
      tok2 :: markVariable varname varId (indentlevel + 1) parlevel (tok2.str = ['.']) rest
    else if tok2.str = ['}'] then
      if indentlevel - 1 < 0 then tok2 :: rest
      else tok2 :: markVariable varname varId (indentlevel - 1) parlevel (tok2.str = ['.']) rest
    else if tok2.str = ['('] then
      tok2 :: markVariable varname varId indentlevel (parlevel + 1) (tok2.str = ['.']) rest
    else if tok2.str = [')'] then
      if parlevel = 0 ∧ indentlevel = 0 ∧
          Match [.word ")", .optional ["const"], .word "\x7b"] (tok2 :: rest) then
        tok2 :: markVariable varname varId indentlevel parlevel (tok2.str = ['.']) rest
      else
        tok2 :: markVariable varname varId indentlevel (parlevel - 1) (tok2.str = ['.']) rest
    else if parlevel < 0 ∧ tok2.str = [';'] then tok2 :: rest
    else tok2 :: markVariable varname varId indentlevel parlevel (tok2.str = ['.']) rest

/-- The marking keeps the number of tokens. -/
theorem length_markVariable (varname : List Char) (varId : Nat) (ts : List Token) :
    ∀ (indentlevel parlevel : Int) (dot : Bool),
      (markVariable varname varId indentlevel parlevel dot ts).length = ts.length := by
  induction ts with
  | nil => intro _ _ _; rfl
  | cons t ts ih =>
    intro i p d
    rw [markVariable]
    split_ifs <;> simp [ih]

/-- The part of the body of the loop "Set variable ids" behind the first
`continue`, at the node `tok` (after the step over a `[;{}(]` in front of a type)
with the nodes `rest` behind it: the nodes behind `tok` afterwards and the counter
`_varId`. -/
def declareVariable (varId : Nat) (tok : Token) (rest : List Token) : List Token × Nat :=
  if Match [.oneOf ["else", "return"]] [tok] then (rest, varId)
  else if Match [.chars ";[="] (declaredName none rest).2 ∧ (declaredName none rest).1.isSome
  then
    (markVariable ((declaredName none rest).1.getD []) (varId + 1) 0 0 false rest, varId + 1)
  else (rest, varId)

/-- Declaring a variable keeps the number of tokens. -/
theorem length_declareVariable (varId : Nat) (tok : Token) (rest : List Token) :
    (declareVariable varId tok rest).1.length = rest.length := by
  unfold declareVariable
  split_ifs <;> simp [length_markVariable]

/-- The loop "Set variable ids" of `setVarId` on the list that starts at `tok`;
`first` says that `tok` is `_tokens`, `varId` is the counter `_varId`. Gives the
list and the counter. -/
def setVarIdLoop (first : Bool) (varId : Nat) (ts : List Token) : List Token × Nat :=
  match ts with
  | [] => ([], varId)
  | tok :: rest =>
    if ¬ first ∧ ¬ Match [.chars ";\x7b\x7d("] [tok] then
      ((setVarIdLoop false varId rest).1.cons tok, (setVarIdLoop false varId rest).2)
    else if Match [.chars ";\x7b\x7d(", .type] (tok :: rest) then
      match rest with
      | [] => ([tok], varId)
      | type :: rest1 =>
        (tok :: type ::
            (setVarIdLoop false (declareVariable varId type rest1).2
              (declareVariable varId type rest1).1).1,
          (setVarIdLoop false (declareVariable varId type rest1).2
            (declareVariable varId type rest1).1).2)
    else
      (tok ::
          (setVarIdLoop false (declareVariable varId tok rest).2
            (declareVariable varId tok rest).1).1,
        (setVarIdLoop false (declareVariable varId tok rest).2
          (declareVariable varId tok rest).1).2)
termination_by ts.length
decreasing_by
  · simp only [List.length_cons]; omega
  · simp only [length_declareVariable, List.length_cons]; omega
  · simp only [length_declareVariable, List.length_cons]; omega

/-- Give the id `varId` to the node with the index `i`. -/
def setVarIdAt (varId : Nat) : Nat → List Token → List Token
  | _, [] => []
  | 0, t :: ts => { t with varId := varId } :: ts
  | i + 1, t :: ts => t :: setVarIdAt varId i ts

/-- Setting an id keeps the number of tokens. -/
theorem length_setVarIdAt (varId : Nat) (l : List Token) :
    ∀ i : Nat, (setVarIdAt varId i l).length = l.length := by
  induction l with
  | nil => intro i; cases i <;> rfl
  | cons a l ih => intro i; cases i <;> simp [setVarIdAt, ih]

/-- The inner loop of "Struct/Class members" on the list that starts at `tok2`:
behind every token with the id `owner`, a member `. name` gets the id `varId`. -/
def markMember (owner : Nat) (name : List Char) (varId : Nat) (ts : List Token) :
    List Token :=
  match ts with
  | [] => []
  | tok2 :: rest =>
    if tok2.varId = owner ∧ simpleMatch [".", String.mk name] rest then
      tok2 :: markMember owner name varId (setVarIdAt varId 1 rest)
    else tok2 :: markMember owner name varId rest
termination_by ts.length
decreasing_by
  · simp only [length_setVarIdAt, List.length_cons]
    omega
  · simp only [List.length_cons]; omega

/-- The inner loop keeps the number of tokens. -/
theorem length_markMember (owner : Nat) (name : List Char) (varId : Nat) (ts : List Token) :
    (markMember owner name varId ts).length = ts.length := by
  induction ts using markMember.induct owner name varId with
  | case1 => rw [markMember]
  | case2 tok2 rest h ih =>
    rw [markMember, if_pos h]
    simp only [List.length_cons, ih, length_setVarIdAt]
  | case3 tok2 rest h ih =>
    rw [markMember, if_neg h]
    simp only [List.length_cons, ih]

/-- The loop "Struct/Class members" of `setVarId` on the list that starts at `tok`,
with the counter `_varId`. -/
def setMemberIds (varId : Nat) (ts : List Token) : List Token :=
  match ts with
  | [] => []
  | tok :: rest =>
    if tok.varId ≠ 0 ∧ Match [.word ".", .var] rest ∧ varIdAt (tok :: rest) 2 = 0 then
      tok :: setMemberIds (varId + 1)
        (markMember tok.varId (strAt (tok :: rest) 2) (varId + 1) (tok :: rest)).tail
    else tok :: setMemberIds varId rest
termination_by ts.length
decreasing_by
  · simp only [List.length_tail, length_markMember, List.length_cons]
    omega
  · simp only [List.length_cons]; omega

/-- The method `Tokenizer::setVarId()`. -/
def setVarId (ts : List Token) : List Token :=
  setMemberIds (setVarIdLoop true 0 (ts.map (fun t => { t with varId := 0 }))).2
    (setVarIdLoop true 0 (ts.map (fun t => { t with varId := 0 }))).1

/-! ## simplifyTokenList: NULL -/

/-- The loop "Replace NULL with 0". -/
def replaceNULL (ts : List Token) : List Token :=
  ts.map (fun tok => if tok.str = "NULL".toList then (tok.setStr ['0']) else tok)

/-- The loop "Replace pointer casts of 0" of `simplifyTokenList` on the list that
starts at `tok`. -/
def removeNullCasts (ts : List Token) : List Token :=
  match ts with
  | [] => []
  | tok :: rest =>
    if Match [.word "(", .type, .word "*", .word ")", .word "0"] rest ∨
        Match [.word "(", .type, .type, .word "*", .word ")", .word "0"] rest then
      tok :: removeNullCasts (rest.dropWhile (fun t => ¬ simpleMatch ["0"] [t]))
    else tok :: removeNullCasts rest
termination_by ts.length
decreasing_by
  · simp only [List.length_cons]
    exact Nat.lt_succ_of_le (List.dropWhile_suffix _).length_le
  · simp only [List.length_cons]; omega

/-! ## Loops over the token list with a cursor -/

/-- What one round of a loop `for (tok = …; tok; tok = tok->next())` leaves. -/
structure Step (σ : Type) where
  /-- the nodes in front of the node the round started at -/
  before : List Token
  /-- the nodes from there up to the node `tok` stands on at the end of the round
  (none when `tok` has stepped back) -/
  passed : List Token
  /-- the nodes behind `tok` -/
  rest : List Token
  /-- the local variables of the function -/
  state : σ
  /-- the round left the loop (`break`, `return`, or `tok` is null) -/
  stop : Bool

/-- A loop `for (tok = …; tok; tok = tok->next())` whose body may move `tok` and may
change the whole list, for at most `fuel` rounds: `before` are the nodes in front
of `tok`, the last list starts at `tok`. Gives the whole list and the local
variables. -/
def cursorLoop {σ : Type} (body : σ → List Token → Token → List Token → Result (Step σ)) :
    Nat → σ → List Token → List Token → Result (List Token × σ)
  | _, s, before, [] => .ok (before, s)
  | 0, _, _, _ :: _ => .unfinished
  | fuel + 1, s, before, tok :: rest =>
    (body s before tok rest).bind fun st =>
      if st.stop then .ok (st.before ++ st.passed ++ st.rest, st.state)
      else cursorLoop body fuel st.state (st.before ++ st.passed) st.rest

/-! ## simplifyIfAddBraces -/

/-- The loop "Goto the ending ')'" on the nodes behind `tok`, with `parlevel`: the
index of the node at which `parlevel` falls below 1; `none` when `tok` gets null. -/
def parenEnd : Int → List Token → Option Nat
  | _, [] => none
  | parlevel, t :: rest =>
    if t.str = ['('] then
      if parlevel + 1 ≥ 1 then (parenEnd (parlevel + 1) rest).map (· + 1) else some 0
    else if t.str = [')'] then
      if parlevel - 1 ≥ 1 then (parenEnd (parlevel - 1) rest).map (· + 1) else some 0
    else if parlevel ≥ 1 then (parenEnd parlevel rest).map (· + 1)
    else some 0

/-- The loop that looks for the end of the statement, on the nodes behind `tok`,
with `parlevel` and `indentlevel`: the index of the node of the `break`; `none`
when `tok` gets null. -/
def statementEnd : Int → Int → List Token → Option Nat
  | _, _, [] => none
  | parlevel, indentlevel, t :: rest =>
    if t.str = ['{'] then (statementEnd parlevel (indentlevel + 1) rest).map (· + 1)
    else if t.str = ['}'] then
      if indentlevel - 1 = 0 then some 0
      else (statementEnd parlevel (indentlevel - 1) rest).map (· + 1)
    else if t.str = ['('] then (statementEnd (parlevel + 1) indentlevel rest).map (· + 1)
    else if t.str = [')'] then (statementEnd (parlevel - 1) indentlevel rest).map (· + 1)
    else if indentlevel = 0 ∧ parlevel = 0 ∧ t.str = [';'] then some 0
    else (statementEnd parlevel indentlevel rest).map (· + 1)

/-- The second half of the body of the loop of `simplifyIfAddBraces`: `tok` stands
on the node `c` with the nodes `passed` of this round in front of it and `after`
behind it. A brace is inserted behind `c`, and one behind the end of the
statement. -/
def insertBraces (ret : Bool) (before passed : List Token) (c : Token) (after : List Token) :
    Step Bool :=
  match statementEnd 0 0 after with
  | none =>
    { before := before, passed := passed ++ c :: c.inserted ['{'] :: after, rest := [],
      state := ret, stop := true }
  | some j =>
    { before := before, passed := passed ++ c :: c.inserted ['{'] :: after.take (j + 1),
      rest := ((after.drop j).take 1).map (fun e => e.inserted ['}']) ++ after.drop (j + 1),
      state := true, stop := false }

/-- The body of the loop of `simplifyIfAddBraces`; the state is `ret`. -/
def addBracesBody (ret : Bool) (before : List Token) (tok : Token) (rest : List Token) :
    Result (Step Bool) :=
  if Match [.oneOf ["if", "for", "while"], .word "("] (tok :: rest) then
    match parenEnd 1 (rest.drop 1) with
    | none =>
      .ok { before := before, passed := tok :: rest, rest := [], state := ret, stop := true }
    | some i =>
      if simpleMatch [")", "\x7b"] (rest.drop (i + 1)) then
        .ok { before := before, passed := tok :: rest.take (i + 2), rest := rest.drop (i + 2),
              state := ret, stop := false }
      else
        match rest.drop (i + 1) with
        | [] => .undefined
        | c :: after => .ok (insertBraces ret before (tok :: rest.take (i + 1)) c after)
  else if tok.str = "else".toList then
    if Match [.word "else", .oneOf ["if", "\x7b"]] (tok :: rest) then
      .ok { before := before, passed := [tok], rest := rest, state := ret, stop := false }
    else .ok (insertBraces ret before [] tok rest)
  else .ok { before := before, passed := [tok], rest := rest, state := ret, stop := false }

/-- The method `Tokenizer::simplifyIfAddBraces()`, for at most `fuel` rounds of
its loop: the list and the result. -/
def simplifyIfAddBraces (fuel : Nat) (ts : List Token) : Result (List Token × Bool) :=
  cursorLoop addBracesBody fuel false [] ts

/-! ## elseif -/

/-- The inner loop of `elseif` on the list that starts at `tok2`, with `indent`:
the index of the node `tok2` behind which the closing brace is inserted; `none`
when the loop ends without an insertion. -/
def elseifEnd : Int → List Token → Option Nat
  | _, [] => none
  | indent, tok2 :: rest =>
    if indent < 0 then none
    else
      if (if Match [.oneOf ["(", "\x7b"]] [tok2] then indent + 1
          else if Match [.oneOf [")", "\x7d"]] [tok2] then indent - 1
          else indent) = 0 ∧ Match [.oneOf ["\x7d", ";"]] [tok2] ∧
          ¬ simpleMatch ["else"] rest then some 0
      else
        (elseifEnd
          (if Match [.oneOf ["(", "\x7b"]] [tok2] then indent + 1
           else if Match [.oneOf [")", "\x7d"]] [tok2] then indent - 1
           else indent) rest).map (· + 1)

/-- The body of the loop of `elseif`; the state is `ret`. -/
def elseifBody (ret : Bool) (before : List Token) (tok : Token) (rest : List Token) :
    Result (Step Bool) :=
  if ¬ simpleMatch ["else", "if"] (tok :: rest) then
    .ok { before := before, passed := [tok], rest := rest, state := ret, stop := false }
  else
    match elseifEnd 0 (tok :: rest) with
    | none =>
      .ok { before := before, passed := [tok], rest := rest, state := ret, stop := false }
    | some j =>
      .ok { before := before, passed := [tok],
            rest := tok.inserted ['{'] :: ((tok :: rest).take (j + 1)).tail ++
              (((tok :: rest).drop j).take 1).map (fun e => e.inserted ['}']) ++
              (tok :: rest).drop (j + 1),
            state := true, stop := false }

/-- The method `Tokenizer::elseif()`, for at most `fuel` rounds of its loop. -/
def elseif (fuel : Nat) (ts : List Token) : Result (List Token × Bool) :=
  cursorLoop elseifBody fuel false [] ts

/-! ## simplifyTokenList: case and default -/

/-- The body of the loop behind `elseif()` in `simplifyTokenList`: a `;` is put
behind `case %any% :` and `default :` in front of a name. -/
def caseBody (_ : Unit) (before : List Token) (tok : Token) (rest : List Token) :
    Result (Step Unit) :=
  if Match [.word "case", .any, .word ":", .var] (tok :: rest) then
    .ok { before := before, passed := [tok],
          rest := rest.take 2 ++ ((rest.drop 1).take 1).map (fun c => c.inserted [';']) ++
            rest.drop 2,
          state := (), stop := false }
  else if Match [.word "default", .word ":", .var] (tok :: rest) then
    .ok { before := before, passed := [tok],
          rest := rest.take 1 ++ (rest.take 1).map (fun c => c.inserted [';']) ++ rest.drop 1,
          state := (), stop := false }
  else .ok { before := before, passed := [tok], rest := rest, state := (), stop := false }

/-- The loop behind `elseif()` in `simplifyTokenList`, for at most `fuel` rounds. -/
def insertCaseSemicolons (fuel : Nat) (ts : List Token) : Result (List Token) :=
  (cursorLoop caseBody fuel () [] ts).map (·.1)

/-! ## simplifyFunctionParameters -/

/-- How the loop "Get list of argument names" ends. -/
inductive Arguments
  /-- `bailOut` is set at the node with this index behind the function name -/
  | bailOut (k : Nat)
  /-- `tok` is null -/
  | null
  /-- the `)` is reached: the map `argumentNames` (name, index of its node behind the
  function name; `none` for a node that has been replaced) and the index of the
  node behind the `)` -/
  | names (argumentNames : List (List Char × Option Nat)) (start : Nat)

/-- The loop `for (tok = tok->tokAt(2); tok; tok = tok->tokAt(2))` on the list that
starts at `tok`, which has the index `k` behind the function name. -/
def getArguments : Nat → List (List Char × Option Nat) → List Token → Arguments
  | _, _, [] => .null
  | k, argumentNames, [tok] =>
    if ¬ Match [.var, .chars ",)"] [tok] then .bailOut k else .names argumentNames k
  | k, argumentNames, tok :: sep :: rest =>
    if ¬ Match [.var, .chars ",)"] (tok :: sep :: rest) then .bailOut k
    else if sep.str = [')'] then
      .names ((tok.str, some k) :: argumentNames.filter (fun e => e.1 ≠ tok.str)) (k + 2)
    else
      getArguments (k + 2)
        ((tok.str, some k) :: argumentNames.filter (fun e => e.1 ≠ tok.str)) rest

/-- How the loop `while (tok && tok->str() != "{")` ends. -/
inductive Declarations
  /-- `tok` is null: the list (all of it in front of `tok`) -/
  | null (head : List Token) (ret : Bool)
  /-- `bailOut` is set: the nodes up to `tok`, the nodes behind it -/
  | bailOut (head rest : List Token) (ret : Bool)
  /-- the opening brace is reached: the nodes up to it, the nodes behind it -/
  | body (head rest : List Token) (ret : Bool)
  /-- a node of `argumentNames` that has been replaced is used again -/
  | undefined

/-- Modelled from the spec: `Token::replace(replaceThis, start, end)` (token.cpp is
not among the sources; spec §3: replacement of a contiguous range): the nodes
`chunk` from `start` to `end` take the place of the node with the index `i` of
`head`. -/
def Token.replace (head : List Token) (i : Nat) (chunk : List Token) : List Token :=
  head.take i ++ chunk ++ head.drop (i + 1)

/-- The loop `while (tok && tok->str() != "{")` on the list that starts at `tok`:
`head` are the nodes from the function name to the `)`, `chunk` the nodes from
`start` up to `tok`. At a `;` the nodes of `chunk` replace the argument whose name
is the text in front of the `;`. -/
def moveDeclarations (head : List Token) (argumentNames : List (List Char × Option Nat))
    (chunk : List Token) (ret : Bool) : List Token → Declarations
  | [] => .null (head ++ chunk) ret
  | tok :: rest =>
    if tok.str = ['{'] then .body (head ++ chunk ++ [tok]) rest ret
    else if tok.str = [';'] then
      match argumentNames.lookup (strAt ((head ++ chunk).reverse) 0) with
      | none => .bailOut (head ++ chunk) (tok :: rest) ret
      | some none => .undefined
      | some (some i) =>
        moveDeclarations (Token.replace head i chunk)
          (argumentNames.map (fun e =>
            if e.1 = strAt ((head ++ chunk).reverse) 0 then (e.1, none)
            else (e.1, e.2.map (fun j => if i < j then j + chunk.length - 1 else j))))
          [] true rest
    else moveDeclarations head argumentNames (chunk ++ [tok]) ret rest

/-- The body of the loop of `simplifyFunctionParameters`; the state is
`indentlevel` and `ret`. -/
def functionParametersBody (s : Int × Bool) (before : List Token) (tok : Token)
    (rest : List Token) : Result (Step (Int × Bool)) :=
  if tok.str = ['{'] then
    .ok { before := before, passed := [tok], rest := rest, state := (s.1 + 1, s.2),
          stop := false }
  else if tok.str = ['}'] then
    .ok { before := before, passed := [tok], rest := rest, state := (s.1 - 1, s.2),
          stop := false }
  else if s.1 = 0 ∧ Match [.var, .word "(", .var, .chars ",)"] (tok :: rest) then
    match getArguments 1 [] (rest.drop 1) with
    | .bailOut k =>
      .ok { before := before, passed := tok :: rest.take (k + 1), rest := rest.drop (k + 1),
            state := s, stop := false }
    | .null =>
      .ok { before := before, passed := tok :: rest, rest := [], state := s, stop := true }
    | .names argumentNames start =>
      match moveDeclarations (tok :: rest.take start)
          (argumentNames.map (fun e => (e.1, e.2.map (· + 1)))) [] s.2 (rest.drop start) with
      | .null head ret =>
        .ok { before := before, passed := head, rest := [], state := (s.1, ret), stop := true }
      | .bailOut head rest1 ret =>
        .ok { before := before, passed := head, rest := rest1, state := (s.1, ret),
              stop := false }
      | .body head rest1 ret =>
        .ok { before := before, passed := head, rest := rest1, state := (s.1 + 1, ret),
              stop := false }
      | .undefined => .undefined
  else .ok { before := before, passed := [tok], rest := rest, state := s, stop := false }

/-- The method `Tokenizer::simplifyFunctionParameters()`, for at most `fuel`
rounds of its loop: the list and the result. -/
def simplifyFunctionParameters (fuel : Nat) (ts : List Token) : Result (List Token × Bool) :=
  (cursorLoop functionParametersBody fuel (0, false) [] ts).map (fun r => (r.1, r.2.2))

/-! ## simplifyConditions -/

/-- The list with the text of the node with the index `i` set to `s`
(`tok->tokAt(i)->str(s)`). -/
def setStrAt (i : Nat) (s : List Char) (ts : List Token) : List Token :=
  ts.take i ++ ((ts.drop i).take 1).map (fun t => t.setStr s) ++ ts.drop (i + 1)

/-- The text `(str != "0") ? "true" : "false"`. -/
def truthText (str : List Char) : List Char :=
  if str ≠ ['0'] then "true".toList else "false".toList

/-- The text `result ? "true" : "false"`. -/
def boolText (result : Bool) : List Char :=
  if result then "true".toList else "false".toList

/-- The test `strstr(s, pat)`: the text `pat` occurs in `s`. -/
def strstr (pat : List Char) : List Char → Bool
  | [] => pat = []
  | c :: s => (c :: s).take pat.length = pat || strstr pat s

/-- The call `std::strtol(s, 0, 16)` as the C standard defines it: leading white
space, an optional sign, an optional `0x`/`0X`, then the longest run of hexadecimal
digits; no digits give 0, a value out of the range of `long` gives the nearest
`long`. -/
def strtol16 (LONG_MAX : Nat) (s : List Char) : Int :=
  let s1 := s.dropWhile isspace
  let s2 := if s1.head? = some '-' ∨ s1.head? = some '+' then s1.tail else s1
  let s3 :=
    match s2 with
    | '0' :: x :: d :: r => if (x = 'x' ∨ x = 'X') ∧ isxdigit d then d :: r else s2
    | _ => s2
  let v := hexValue (s3.takeWhile isxdigit)
  if s1.head? = some '-' then
    if LONG_MAX + 1 < v then -((LONG_MAX : Int) + 1) else -(v : Int)
  else if LONG_MAX < v then LONG_MAX
  else v

/-- The operand `(strstr(text, "0x")) ? std::strtol(text, 0, 16) : std::atof(text)`
as a `double`; `none` is undefined behaviour. -/
def operand (p : Platform) (text : List Char) : Option ℚ :=
  if strstr ['0', 'x'] text then some (p.longToDouble (strtol16 p.LONG_MAX text))
  else p.atof text

/-- The chain of `if (cmp == …)`: the result of the comparison, `none` when `cmp`
is none of the six operators (`cmp = ""`). -/
def compareOperands (cmp : List Char) (op1 op2 : ℚ) : Option Bool :=
  if cmp = "==".toList then some (decide (op1 = op2))
  else if cmp = "!=".toList then some (decide (op1 ≠ op2))
  else if cmp = ">=".toList then some (decide (op1 ≥ op2))
  else if cmp = ">".toList then some (decide (op1 > op2))
  else if cmp = "<=".toList then some (decide (op1 ≤ op2))
  else if cmp = "<".toList then some (decide (op1 < op2))
  else none

/-- The first `if … else if` of the loop body: `true &&` or `false ||` behind
`tok` is deleted. The result is the list behind `tok` and `ret`. -/
def conditionsDelete (tok : Token) (rest : List Token) (ret : Bool) : List Token × Bool :=
  if simpleMatch ["(", "true", "&&"] (tok :: rest) ∨
      simpleMatch ["&&", "true", "&&"] (tok :: rest) ∨
      simpleMatch ["&&", "true", ")"] rest then (rest.drop 2, true)
  else if simpleMatch ["(", "false", "||"] (tok :: rest) ∨
      simpleMatch ["||", "false", "||"] (tok :: rest) ∨
      simpleMatch ["||", "false", ")"] rest then (rest.drop 2, true)
  else (rest, ret)

/-- The `if` "Change numeric constant in condition to true or false"; `none` when
`tok->tokAt(3)` is null, which the source dereferences. -/
def conditionsNumber (tok : Token) (rest : List Token) (ret : Bool) :
    Option (List Token × Bool) :=
  if Match [.oneOf ["if", "while"], .word "(", .num] (tok :: rest) then
    match rest.get? 2 with
    | none => none
    | some t3 =>
      if t3.str = [')'] ∨ t3.str = "||".toList ∨ t3.str = "&&".toList then
        some (setStrAt 1 (truthText (strAt rest 1)) rest, true)
      else some (rest, ret)
  else some (rest, ret)

/-- The `if` on `tok2 = tok->tokAt(2)`: a number between two connectives. -/
def conditionsConnective (tok : Token) (rest : List Token) (ret : Bool) : List Token × Bool :=
  match rest.get? 1 with
  | none => (rest, ret)
  | some tok2 =>
    if (tok.str = "&&".toList ∨ tok.str = "||".toList) ∧ Match [.num] rest ∧
        (tok2.str = [')'] ∨ tok2.str = "&&".toList ∨ tok2.str = "||".toList) then
      (setStrAt 0 (truthText (strAt rest 0)) rest, true)
    else (rest, ret)

/-- The part "Reduce (%num% == %num%)" of the loop body. -/
def conditionsCompare (p : Platform) (before : List Token) (tok : Token) (rest : List Token)
    (ret : Bool) : Result (Step Bool) :=
  match rest.get? 3 with
  | none => .ok { before := before, passed := [tok], rest := rest, state := ret, stop := true }
  | some tok4 =>
    if (tok.str = "&&".toList ∨ tok.str = "||".toList ∨ tok.str = ['(']) ∧
        Match [.num, .any, .num] rest ∧
        (tok4.str = "&&".toList ∨ tok4.str = "||".toList ∨ tok4.str = [')']) then
      match operand p (strAt rest 0), operand p (strAt rest 2) with
      | some op1, some op2 =>
        match compareOperands (strAt rest 1) op1 op2 with
        | some result =>
          .ok { before := before,
                passed := tok :: (rest.take 1).map (fun t => t.setStr (boolText result)),
                rest := rest.drop 3, state := true, stop := false }
        | none =>
          .ok { before := before, passed := [tok], rest := rest, state := ret, stop := false }
      | _, _ => .undefined
    else .ok { before := before, passed := [tok], rest := rest, state := ret, stop := false }

/-- The body of the loop of `simplifyConditions`; the state is `ret`. -/
def conditionsBody (p : Platform) (ret : Bool) (before : List Token) (tok : Token)
    (rest : List Token) : Result (Step Bool) :=
  match conditionsNumber tok (conditionsDelete tok rest ret).1 (conditionsDelete tok rest ret).2 with
  | none => .undefined
  | some r =>
    conditionsCompare p before tok (conditionsConnective tok r.1 r.2).1
      (conditionsConnective tok r.1 r.2).2

/-- The method `Tokenizer::simplifyConditions()`, for at most `fuel` rounds of its
loop: the list and the result. -/
def simplifyConditions (p : Platform) (fuel : Nat) (ts : List Token) :
    Result (List Token × Bool) :=
  cursorLoop (conditionsBody p) fuel false [] ts

/-! ## simplifyFunctionReturn -/

/-- The inner loop of `simplifyFunctionReturn` on the list that starts at `tok2`:
the call `name ( )` in a window of the pattern becomes the number `num`
(`tok->strAt(5)`: the nodes from `tok` to there are in no window, the node behind
their `( )` is a brace). Every node is paired with whether it is the node `tok` of
the outer loop; `none` when that node is deleted. The result is the list and
whether a window was found. -/
def replaceCalls (pattern : List Atom) (num : List Char) :
    List (Token × Bool) → Option (List (Token × Bool) × Bool)
  | [] => some ([], false)
  | tok2 :: l =>
    if Match pattern ((tok2 :: l).map Prod.fst) then
      match l with
      | n :: a :: b :: l1 =>
        if a.2 ∨ b.2 then none
        else (replaceCalls pattern num l1).map
          fun r => (tok2 :: (n.1.setStr num, n.2) :: r.1, true)
      | _ => some (tok2 :: l, false)
    else (replaceCalls pattern num l).map fun r => (tok2 :: r.1, r.2)

/-- The body of the loop of `simplifyFunctionReturn`; the state is `indentlevel`
and `ret`. -/
def functionReturnBody (s : Int × Bool) (before : List Token) (tok : Token)
    (rest : List Token) : Result (Step (Int × Bool)) :=
  if tok.str = ['{'] then
    .ok { before := before, passed := [tok], rest := rest, state := (s.1 + 1, s.2),
          stop := false }
  else if tok.str = ['}'] then
    .ok { before := before, passed := [tok], rest := rest, state := (s.1 - 1, s.2),
          stop := false }
  else if s.1 = 0 ∧ Match [.var, .word "(", .word ")", .word "\x7b", .word "return", .num,
      .word ";", .word "\x7d"] (tok :: rest) then
    match replaceCalls
        [.chars "(=+-*/", .word (String.mk tok.str), .word "(", .word ")", .chars ";)+-*/"]
        (strAt rest 4)
        (before.map (fun t => (t, false)) ++ (tok, true) :: rest.map (fun t => (t, false))) with
    | none => .undefined
    | some r =>
      .ok { before := (r.1.takeWhile (fun e => !e.2)).map Prod.fst,
            passed := ((r.1.dropWhile (fun e => !e.2)).take 1).map Prod.fst,
            rest := ((r.1.dropWhile (fun e => !e.2)).drop 1).map Prod.fst,
            state := (s.1, s.2 || r.2), stop := false }
  else .ok { before := before, passed := [tok], rest := rest, state := s, stop := false }

/-- The method `Tokenizer::simplifyFunctionReturn()`, for at most `fuel` rounds of
its loop: the list and the result. -/
def simplifyFunctionReturn (fuel : Nat) (ts : List Token) : Result (List Token × Bool) :=
  (cursorLoop functionReturnBody fuel (0, false) [] ts).map (fun r => (r.1, r.2.2))

/-! ## simplifyKnownVariables -/

/-- What `istr >> ivalue` stores in `ivalue`, which was 0: white space, an optional
sign, then the longest run of decimal digits; 0 when there is no digit. -/
def istreamInt (p : Platform) (s : List Char) : Int :=
  let s1 := s.dropWhile isspace
  let s2 := if s1.head? = some '-' ∨ s1.head? = some '+' then s1.tail else s1
  let v : Int :=
    if s1.head? = some '-' then -(digitsValue (s2.takeWhile isdigit) : Int)
    else digitsValue (s2.takeWhile isdigit)
  if s2.takeWhile isdigit = [] then 0
  else if -(p.INT_MAX : Int) - 1 ≤ v ∧ v ≤ (p.INT_MAX : Int) then v
  else p.istreamOutOfRange v

/-- The function `incdec(value, op)`: the new text of `value`; `none` (undefined
behaviour) when the `int` overflows. -/
def incdec (p : Platform) (value op : List Char) : Option (List Char) :=
  if op = "++".toList then (intResult p (istreamInt p value + 1)).map decimalInt
  else if op = "--".toList then (intResult p (istreamInt p value - 1)).map decimalInt
  else some (decimalInt (istreamInt p value))

/-- The cursor of the loop over `tok3` inside one round: the nodes `before` from
`tok2->next()` up to the node the round started at, the nodes `passed` that `tok3`
has left behind in this round, the node `tok3`, the nodes `rest` behind it, the
variable `value` and the variable `ret`. -/
structure Known where
  /-- the nodes from `tok2->next()` up to the node the round started at -/
  before : List Token
  /-- the nodes that `tok3` has left behind in this round -/
  passed : List Token
  /-- the node `tok3` -/
  tok : Token
  /-- the nodes behind `tok3` -/
  rest : List Token
  /-- the variable `value` -/
  value : List Char
  /-- the variable `ret` -/
  ret : Bool

/-- The statement `tok2->tokAt(2)->str(value.c_str())`: `tok2->tokAt(2)` is the
second node from `tok2->next()` on. -/
def Known.setLiteral (c : Known) : Known :=
  if 2 ≤ c.before.length then { c with before := setStrAt 1 c.value c.before }
  else if 2 ≤ c.before.length + c.passed.length then
    { c with passed := setStrAt (1 - c.before.length) c.value c.passed }
  else if 2 ≤ c.before.length + c.passed.length + 1 then
    { c with tok := c.tok.setStr c.value }
  else { c with rest := setStrAt (1 - (c.before.length + c.passed.length + 1)) c.value c.rest }

/-- The `if` "Replace variable with numeric constant": `if ( %varid% )`. -/
def knownCondition (varid : Nat) (c : Known) : Known :=
  if MatchVarId varid [.word "if", .word "(", .varid, .word ")"] (c.tok :: c.rest) then
    match c.rest with
    | n1 :: n2 :: rest =>
      { c with passed := c.passed ++ [c.tok, n1], tok := n2.setStr c.value,
               rest := rest, ret := true }
    | _ => c
  else c

/-- The `if` "Variable is used in calculation". -/
def knownCalculation (varid : Nat) (c : Known) : Known :=
  if MatchVarId varid [.chars "=+-*/[", .varid, .chars "+-*/;]"] (c.tok :: c.rest) then
    match c.rest with
    | n1 :: rest =>
      { c with passed := c.passed ++ [c.tok], tok := n1.setStr c.value,
               rest := rest, ret := true }
    | _ => c
  else c

/-- The `if` on `%varid% ++|--` behind `tok3`; `none` is undefined behaviour. -/
def knownAfter (p : Platform) (varid : Nat) (c : Known) : Option Known :=
  if MatchVarId varid [.varid, .oneOf ["++", "--"]] c.rest then
    match incdec p c.value (strAt c.rest 1) with
    | none => none
    | some value =>
      if Match [.word ";", .any, .any, .word ";"] (c.tok :: c.rest) then
        some (Known.setLiteral { c with rest := c.rest.drop 2, value := value, ret := true })
      else
        match c.rest with
        | n1 :: rest =>
          some (Known.setLiteral
            { c with passed := c.passed ++ [c.tok], tok := n1.setStr c.value,
                     rest := rest.drop 1, value := value, ret := true })
        | _ => some c
  else some c

/-- The `if` on `++|-- %varid%` behind `tok3`; `none` is undefined behaviour. -/
def knownBefore (p : Platform) (varid : Nat) (c : Known) : Option Known :=
  if MatchVarId varid [.oneOf ["++", "--"], .varid] c.rest then
    match incdec p c.value (strAt c.rest 0) with
    | none => none
    | some value =>
      let c1 := Known.setLiteral { c with value := value }
      match
        (if Match [.word ";", .any, .any, .word ";"] (c1.tok :: c1.rest) then c1.rest.drop 2
         else setStrAt 0 value (c1.rest.drop 1)) with
      | [] => none
      | n1 :: rest =>
        some { c1 with passed := c1.passed ++ [c1.tok], tok := n1, rest := rest, ret := true }
  else some c

/-- The body of the loop over `tok3`; the state is `value` and `ret`. -/
def knownBody (p : Platform) (varid : Nat) (s : List Char × Bool) (before : List Token)
    (tok : Token) (rest : List Token) : Result (Step (List Char × Bool)) :=
  if Match [.chars "\x7b\x7d"] (tok :: rest) ∨ tok.varId = varid then
    .ok { before := before, passed := [tok], rest := rest, state := s, stop := true }
  else
    match (knownAfter p varid
        (knownCalculation varid
          (knownCondition varid
            { before := before, passed := [], tok := tok, rest := rest, value := s.1,
              ret := s.2 }))).bind (knownBefore p varid) with
    | none => .undefined
    | some c =>
      .ok { before := c.before, passed := c.passed ++ [c.tok], rest := c.rest,
            state := (c.value, c.ret), stop := false }

/-- The body of the loop over `tok2`, "parse the block of code"; the state is
`indentlevel` and `ret`. -/
def knownBlockBody (p : Platform) (fuel : Nat) (s : Int × Bool) (before : List Token)
    (tok2 : Token) (rest : List Token) : Result (Step (Int × Bool)) :=
  if tok2.str = ['{'] then
    .ok { before := before, passed := [tok2], rest := rest, state := (s.1 + 1, s.2),
          stop := false }
  else if tok2.str = ['}'] then
    .ok { before := before, passed := [tok2], rest := rest, state := (s.1 - 1, s.2),
          stop := decide (s.1 - 1 ≤ 0) }
  else if Match [.var, .word "=", .num, .word ";"] (tok2 :: rest) ∨
      Match [.var, .word "=", .bool, .word ";"] (tok2 :: rest) then
    if tok2.varId = 0 then
      .ok { before := before, passed := [tok2], rest := rest, state := s, stop := false }
    else
      (cursorLoop (knownBody p tok2.varId) fuel (strAt rest 1, s.2) [] rest).map fun r =>
        { before := before, passed := [tok2], rest := r.1, state := (s.1, r.2.2),
          stop := false }
  else .ok { before := before, passed := [tok2], rest := rest, state := s, stop := false }

/-- The body of the loop of `simplifyKnownVariables`; the state is `ret`. -/
def knownVariablesBody (p : Platform) (fuel : Nat) (ret : Bool) (before : List Token)
    (tok : Token) (rest : List Token) : Result (Step Bool) :=
  if ¬ Match [.word ")", .optional ["const"], .word "\x7b"] (tok :: rest) then
    .ok { before := before, passed := [tok], rest := rest, state := ret, stop := false }
  else
    (cursorLoop (knownBlockBody p fuel) fuel (0, ret) [] (tok :: rest)).map fun r =>
      { before := before, passed := r.1.take 1, rest := r.1.drop 1, state := r.2.2,
        stop := false }

/-- The method `Tokenizer::simplifyKnownVariables()`, for at most `fuel` rounds of
each of its loops: the list and the result. -/
def simplifyKnownVariables (p : Platform) (fuel : Nat) (ts : List Token) :
    Result (List Token × Bool) :=
  cursorLoop (knownVariablesBody p fuel) fuel false [] ts

/-! ## removeReduntantConditions -/

/-- The function `Tokenizer::findClosing(tok, start, end)` on the nodes behind a
`tok` that is not null, with `indentLevel`: the index of the node `closing` that
is returned; `none` for the null pointer. -/
def findClosing (start finish : List Char) : Int → List Token → Option Nat
  | _, [] => none
  | indentLevel, closing :: rest =>
    if closing.str = start then (findClosing start finish (indentLevel + 1) rest).map (· + 1)
    else if (if closing.str = finish then indentLevel - 1 else indentLevel) ≥ 0 then
      (findClosing start finish (if closing.str = finish then indentLevel - 1 else indentLevel)
        rest).map (· + 1)
    else some 0

/-- Modelled from the spec: `Token::eraseTokens(begin, end)` (token.cpp is not
among the sources; spec §3: removal of a contiguous range): the nodes between
the node with the index `b` and the node with the index `e` are deleted, all
nodes behind `b` when `e` is null or is not behind `b`. -/
def eraseTokens (ts : List Token) (b : Nat) (e : Option Nat) : List Token :=
  match e with
  | some e => if b < e then ts.take (b + 1) ++ ts.drop e else ts.take (b + 1)
  | none => ts.take (b + 1)

/-- The index of the node `tok->tokAt(k)` for the node `tok` with the index `i`;
`none` for the null pointer. -/
def indexAt (ts : List Token) (i k : Nat) : Option Nat :=
  if i + k < ts.length then some (i + k) else none

/-- The loop `while (lastTagInIf)` of "Keep first if, remove every else if and
else after it", for at most `fuel` rounds, on the list that starts at
`lastTagInIf`, the node with the index `pos`: the index of `lastTagInIf` behind
the loop, `none` when it is null. A null pointer that is dereferenced is
`undefined`. -/
def lastTagInIf : Nat → Nat → List Token → Result (Option Nat)
  | _, _, [] => .ok none
  | 0, _, _ :: _ => .unfinished
  | fuel + 1, pos, t :: r =>
    match (if t.str = ['('] then
        (findClosing ['('] [')'] 0 r).map (fun j => (pos + j + 2, r.drop (j + 1)))
      else some (pos, t :: r)) with
    | none => .undefined
    | some (_, []) => .undefined
    | some (pos1, _ :: r1) =>
      match findClosing ['{'] ['}'] 0 r1 with
      | none => .undefined
      | some j =>
        if ¬ simpleMatch ["else"] (r1.drop (j + 1)) then
          .ok (if r1.drop (j + 1) = [] then none else some (pos1 + j + 2))
        else if simpleMatch ["if"] (r1.drop (j + 2)) then
          lastTagInIf fuel (pos1 + j + 4) (r1.drop (j + 3))
        else lastTagInIf fuel (pos1 + j + 3) (r1.drop (j + 2))

/-- The round of a loop that ends with `tok` on the node with the index `c` of
the list `ts`. -/
def stepAt {σ : Type} (ts : List Token) (c : Nat) (s : σ) : Step σ :=
  { before := ts.take c, passed := (ts.drop c).take 1, rest := ts.drop (c + 1), state := s,
    stop := false }

/-- The statements `if (tok->previous()) tok = tok->previous(); else tok->str(";");`
for the node `tok` with the index `i`: the list and the index of `tok`. -/
def stepBack (ts : List Token) (i : Nat) : List Token × Nat :=
  if 0 < i then (ts, i - 1) else (setStrAt i [';'] ts, i)

/-- The part "Handle if with else" of the loop body for an `if` with the index `i`
in the list `ts` and the `else` with the index `t`; `boolValue` is the condition.
The state is `ret`. -/
def redundantElse (fuel : Nat) (ts : List Token) (i t : Nat) (boolValue : Bool) :
    Result (Step Bool) :=
  if simpleMatch ["if"] (ts.drop (t + 1)) then
    if boolValue = false then .ok (stepAt (eraseTokens ts i (indexAt ts t 2)) i true)
    else
      (lastTagInIf fuel (t + 2) (ts.drop (t + 2))).map fun last =>
        stepAt (eraseTokens ts (t - 1) last) i true
  else if boolValue = false then
    .ok (stepAt (eraseTokens (stepBack ts i).1 (stepBack ts i).2 (indexAt ts t 1))
      (stepBack ts i).2 true)
  else if simpleMatch ["\x7b"] (ts.drop (t + 1)) then
    match findClosing ['{'] ['}'] 0 (ts.drop (t + 2)) with
    | none => .ok { stepAt ts i false with stop := true }
    | some j =>
      .ok (stepAt
        (eraseTokens (stepBack (eraseTokens ts (t - 1) (indexAt ts (t + 1 + j + 1) 1)) i).1
          (stepBack (eraseTokens ts (t - 1) (indexAt ts (t + 1 + j + 1) 1)) i).2
          (indexAt (eraseTokens ts (t - 1) (indexAt ts (t + 1 + j + 1) 1))
            (stepBack (eraseTokens ts (t - 1) (indexAt ts (t + 1 + j + 1) 1)) i).2 5))
        (stepBack ts i).2 true)
  else
    .ok (stepAt
      (eraseTokens (stepBack ts i).1 (stepBack ts i).2 (indexAt ts (stepBack ts i).2 5))
      (stepBack ts i).2 true)

/-- The part "Handle if without else" of the loop body; `elseTag` is the index of
the node behind the closing brace, `none` when it is null. -/
def redundantIf (ts : List Token) (i : Nat) (elseTag : Option Nat) (boolValue : Bool) :
    Step Bool :=
  if boolValue = false then
    stepAt (eraseTokens (stepBack ts i).1 (stepBack ts i).2 elseTag) (stepBack ts i).2 true
  else
    stepAt (eraseTokens (stepBack ts i).1 (stepBack ts i).2 (indexAt ts (stepBack ts i).2 5))
      (stepBack ts i).2 true

/-- The body of the loop of `removeReduntantConditions`; the state is `ret`, and
`return false` stops the loop with the state `false`. -/
def redundantBody (fuel : Nat) (ret : Bool) (before : List Token) (tok : Token)
    (rest : List Token) : Result (Step Bool) :=
  if ¬ simpleMatch ["if"] (tok :: rest) then
    .ok { before := before, passed := [tok], rest := rest, state := ret, stop := false }
  else if ¬ Match [.word "(", .bool, .word ")", .word "\x7b"] rest then
    .ok { before := before, passed := [tok], rest := rest, state := ret, stop := false }
  else
    match (findClosing ['{'] ['}'] 0 (rest.drop 4)).bind
        (fun j => indexAt (before ++ tok :: rest) (before.length + 5 + j) 1) with
    | none =>
      .ok (redundantIf (before ++ tok :: rest) before.length none
        (decide (strAt rest 1 = "true".toList)))
    | some t =>
      if strAt (before ++ tok :: rest) t = "else".toList then
        redundantElse fuel (before ++ tok :: rest) before.length t
          (decide (strAt rest 1 = "true".toList))
      else
        .ok (redundantIf (before ++ tok :: rest) before.length (some t)
          (decide (strAt rest 1 = "true".toList)))

/-- The method `Tokenizer::removeReduntantConditions()`, for at most `fuel` rounds
of each of its loops: the list and the result. -/
def removeReduntantConditions (fuel : Nat) (ts : List Token) : Result (List Token × Bool) :=
  cursorLoop (redundantBody fuel) fuel false [] ts

/-! ## simplifyRedundantParanthesis -/

/-- The inner loop of `simplifyRedundantParanthesis` on the list that starts at
`tok2`, with `parlevel`: the index of the `)` at which `parlevel` gets 1; `none`
when the loop ends without it. -/
def redundantEnd : Int → List Token → Option Nat
  | _, [] => none
  | parlevel, tok2 :: rest =>
    if tok2.str = ['('] then (redundantEnd (parlevel + 1) rest).map (· + 1)
    else if tok2.str = [')'] then
      if parlevel - 1 = 1 then some 0 else (redundantEnd (parlevel - 1) rest).map (· + 1)
    else (redundantEnd parlevel rest).map (· + 1)

/-- The body of the loop of `simplifyRedundantParanthesis`: `ret` is never set. -/
def paranthesisBody (_ : Unit) (before : List Token) (tok : Token) (rest : List Token) :
    Result (Step Unit) :=
  if simpleMatch ["(", "("] (tok :: rest) then
    match redundantEnd 0 (tok :: rest) with
    | none => .ok { before := before, passed := [tok], rest := rest, state := (), stop := false }
    | some j =>
      if simpleMatch [")", ")"] ((tok :: rest).drop j) then
        .ok { before := before, passed := [tok],
              rest := (rest.drop 1).take (j - 1) ++ rest.drop (j + 1),
              state := (), stop := false }
      else .ok { before := before, passed := [tok], rest := rest, state := (), stop := false }
  else .ok { before := before, passed := [tok], rest := rest, state := (), stop := false }

/-- The method `Tokenizer::simplifyRedundantParanthesis()`, for at most `fuel`
rounds of its loop: the list and the result, which is always `false`. -/
def simplifyRedundantParanthesis (fuel : Nat) (ts : List Token) :
    Result (List Token × Bool) :=
  (cursorLoop paranthesisBody fuel () [] ts).map (fun r => (r.1, false))

/-! ## simplifyTokenList -/

/-- The loop `while (simplifyCalculations()) ;`, for at most `fuel` rounds. -/
def calculationsLoop (p : Platform) : Nat → List Token → Result (List Token)
  | 0, _ => .unfinished
  | fuel + 1, ts =>
    (Result.ofOption (simplifyCalculations p ts)).bind fun r =>
      if r.2 then calculationsLoop p fuel r.1 else .ok r.1

/-- One round of the loop `while (modified)`: the six methods in their order, each
loop of theirs for at most `fuel` rounds. The result is the list and `modified`. -/
def simplifyRound (p : Platform) (fuel : Nat) (ts : List Token) : Result (List Token × Bool) :=
  (simplifyConditions p fuel ts).bind fun r1 =>
  (simplifyFunctionReturn fuel r1.1).bind fun r2 =>
  (simplifyKnownVariables p fuel r2.1).bind fun r3 =>
  (removeReduntantConditions fuel r3.1).bind fun r4 =>
  (simplifyRedundantParanthesis fuel r4.1).bind fun r5 =>
  (Result.ofOption (simplifyCalculations p r5.1)).bind fun r6 =>
    .ok (r6.1, r1.2 || r2.2 || r3.2 || r4.2 || r5.2 || r6.2)

/-- The loop `while (modified)`, for at most `rounds` rounds. -/
def modifiedLoop (p : Platform) (fuel : Nat) : Nat → List Token → Result (List Token)
  | 0, _ => .unfinished
  | rounds + 1, ts =>
    (simplifyRound p fuel ts).bind fun r =>
      if r.2 then modifiedLoop p fuel rounds r.1 else .ok r.1

/-- The part of `simplifyTokenList` up to the call `simplifyCasts()`; `none` is
undefined behaviour. -/
def simplifySizes (p : Platform) (ts : List Token) : Option (List Token) :=
  (sizeofLoop p (fillTypeSize p (foldSigns (removeUnwanted (combineStrings ts)))) []
    (replaceSizeofVar (foldSigns (removeUnwanted (combineStrings ts))))).bind fun ts1 =>
  (replaceSizeofArray p (fillTypeSize p (foldSigns (removeUnwanted (combineStrings ts)))) ts1).bind
    fun ts2 => simplifyCasts (replaceConstants ts2)

/-- The part of `simplifyTokenList` from the loop `while (simplifyCalculations())`
to the call `setVarId()` and the two loops behind it. -/
def simplifyDeclarations (p : Platform) (fuel : Nat) (ts : List Token) : Result (List Token) :=
  (calculationsLoop p fuel ts).bind fun ts1 =>
  (splitDeclarations fuel (replacePointerSum ts1)).map fun ts2 =>
    removeNullCasts (replaceNULL (setVarId ts2))

/-- The part of `simplifyTokenList` from the call `simplifyIfAddBraces()` to the
loop on `case` and `default`. -/
def simplifyBraces (fuel : Nat) (ts : List Token) : Result (List Token) :=
  (simplifyIfAddBraces fuel ts).bind fun r1 =>
  (simplifyFunctionParameters fuel r1.1).bind fun r2 =>
  (elseif fuel r2.1).bind fun r3 => insertCaseSemicolons fuel r3.1

/-- The method `Tokenizer::simplifyTokenList()` on the token list, each loop of
which the end is not plain for at most `fuel` rounds: the list it leaves. -/
def simplifyTokenList (p : Platform) (fuel : Nat) (ts : List Token) : Result (List Token) :=
  (Result.ofOption (simplifySizes p ts)).bind fun ts1 =>
  (simplifyDeclarations p fuel ts1).bind fun ts2 =>
  (simplifyBraces fuel ts2).bind fun ts3 => modifiedLoop p fuel fuel ts3

/-! ## Example streams -/

/-- The stream `typedef int U ; int v ;` in which `setVarId` has given `U` the
variable id 1 and `v` the variable id 2. -/
def typedefTokens : List Token :=
  [tokenOf "typedef" 0, tokenOf "int" 0, tokenOf "U" 1, tokenOf ";" 0, tokenOf "int" 0,
   tokenOf "v" 2, tokenOf ";" 0]

/-! ## The function list -/

/-- The function `Tokenizer::GetFunctionTokenByName(funcname)` on the vector
`_functionList` (its nodes, by value): the first node with the text `funcname`;
`none` is `NULL`. -/
def GetFunctionTokenByName (functionList : List Token) (funcname : List Char) :
    Option Token :=
  functionList.find? (fun t => t.str = funcname)

/-- The loop "Check if this is the first token of a function implementation" of
`fillFunctionList` on the list that starts at `tok2`, the node with the index `k`
behind `tok`: whether `tok` is pushed to `_functionList`, and the index of the
node that `tok` is set to (`none` when `tok` is not set). -/
def implementationEnd : Nat → List Token → Bool × Option Nat
  | _, [] => (false, none)
  | k, tok2 :: rest =>
    if tok2.str = [';'] then (false, some k)
    else if tok2.str = ['{'] then (false, none)
    else if tok2.str = [')'] then
      if Match [.word ")", .optional ["const"], .word "\x7b"] (tok2 :: rest) then (true, some k)
      else (false, some (k + (rest.takeWhile (fun t => ¬ strchr [';', '{'] t.aaaa0)).length))
    else implementationEnd (k + 1) rest

/-- The variable `indentlevel` behind the first `if … else if` of the loop body. -/
def nextIndent (indentlevel : Int) (tok : Token) : Int :=
  if tok.str = ['{'] then indentlevel + 1
  else if tok.str = ['}'] then indentlevel - 1
  else indentlevel

/-- The first loop of `fillFunctionList` on the list that starts at `tok`, with
`indentlevel`: the nodes that are pushed to `_functionList`, in their order. -/
def functionStarts (indentlevel : Int) (ts : List Token) : List Token :=
  match ts with
  | [] => []
  | tok :: rest =>
    if nextIndent indentlevel tok > 0 then functionStarts (nextIndent indentlevel tok) rest
    else if Match [.var, .word "("] (tok :: rest) then
      (if (implementationEnd 1 (rest.drop 1)).1 then [tok] else []) ++
        functionStarts (nextIndent indentlevel tok)
          (rest.drop (((implementationEnd 1 (rest.drop 1)).2.map (· + 1)).getD 0))
    else functionStarts (nextIndent indentlevel tok) rest
termination_by ts.length
decreasing_by
  · simp only [List.length_cons]; omega
  · simp only [List.length_drop, List.length_cons]; omega
  · simp only [List.length_cons]; omega

/-- The inner loop `for (func2 = func1 + 1; …)` of the second loop on the entries
behind `func1`, whose text is `name`: the entries with that text are erased. Gives
the entries that stay and `hasDuplicates`. -/
def eraseDuplicates (name : List Char) : List Token → List Token × Bool
  | [] => ([], false)
  | g :: rest =>
    if name = g.str then ((eraseDuplicates name rest).1, true)
    else (g :: (eraseDuplicates name rest).1, (eraseDuplicates name rest).2)

/-- The inner loop adds no entry. -/
theorem length_eraseDuplicates (name : List Char) (l : List Token) :
    (eraseDuplicates name l).1.length ≤ l.length := by
  induction l with
  | nil => exact le_refl _
  | cons g rest ih =>
    rw [eraseDuplicates]
    split
    · simp only [List.length_cons]; omega
    · simp only [List.length_cons]; omega

/-- The second loop of `fillFunctionList`, "If the _functionList functions with
duplicate names, remove them", on the entries from `func1` on. -/
def removeDuplicates (functionList : List Token) : List Token :=
  match functionList with
  | [] => []
  | f :: rest =>
    if (eraseDuplicates f.str rest).2 then removeDuplicates (eraseDuplicates f.str rest).1
    else f :: removeDuplicates (eraseDuplicates f.str rest).1
termination_by functionList.length
decreasing_by
  · simp only [List.length_cons]
    exact Nat.lt_succ_of_le (length_eraseDuplicates _ _)
  · simp only [List.length_cons]
    exact Nat.lt_succ_of_le (length_eraseDuplicates _ _)

/-- The method `Tokenizer::fillFunctionList()`: the vector `_functionList` it
leaves for the token list `ts`. -/
def fillFunctionList (ts : List Token) : List Token :=
  removeDuplicates (functionStarts 0 ts)

/-- Every token of the list with a variable id is a name. -/
def Named (ts : List Token) : Prop := ∀ t ∈ ts, t.varId ≠ 0 → isName t.str = true

/-! ## Names that no pattern names -/

/-- The words that are operands of a comparison or part of a pattern in
`simplifyTokenList` and the methods it calls (`delete` is the name that `%type%`
does not match). -/
def patternWords : List String :=
  ["NULL", "case", "class", "const", "const_cast", "default", "delete", "dynamic_cast", "else",
   "false", "for", "if", "operator", "reinterpret_cast", "return", "sizeof", "static_cast",
   "struct", "true", "unlikely", "unsigned", "while"]

/-- A name that is none of the words of the patterns. -/
def plainName (s : List Char) : Bool :=
  isName s && patternWords.all (fun w => decide (s ≠ w.toList))

/-! ## Example streams -/

/-- The tokens with the texts `ws` as `tokenize` makes them of a one-line input
(line 1 of the source file, no variable id). -/
def lineOf (ws : List (List Char)) : List Token :=
  ws.map (fun w => ⟨w, 1, 0, 0⟩)

/-- The tokens of the one-line input `int x = n; if (x == n) \x7b f(); \x7d` as
`tokenize` makes them (line 1 of the source file), the two tokens `x` with the
variable id `v`. -/
def knownStream (x n f : List Char) (v : Nat) : List Token :=
  [⟨"int".toList, 1, 0, 0⟩, ⟨x, 1, 0, v⟩, ⟨"=".toList, 1, 0, 0⟩, ⟨n, 1, 0, 0⟩,
   ⟨";".toList, 1, 0, 0⟩, ⟨"if".toList, 1, 0, 0⟩, ⟨"(".toList, 1, 0, 0⟩, ⟨x, 1, 0, v⟩,
   ⟨"==".toList, 1, 0, 0⟩, ⟨n, 1, 0, 0⟩, ⟨")".toList, 1, 0, 0⟩, ⟨"\x7b".toList, 1, 0, 0⟩,
   ⟨f, 1, 0, 0⟩, ⟨"(".toList, 1, 0, 0⟩, ⟨")".toList, 1, 0, 0⟩, ⟨";".toList, 1, 0, 0⟩,
   ⟨"\x7d".toList, 1, 0, 0⟩]

/-- The variable ids of the list link names: every token with an id has an id up to `c`,
and its text is the name `name` of that id. -/
def Linked (c : Nat) (name : Nat → List Char) (ts : List Token) : Prop :=
  ∀ t ∈ ts, t.varId ≠ 0 → t.varId ≤ c ∧ t.str = name t.varId

/-- The tokens of line 1 of the source file with the given texts and variable ids. -/
def idLine (ws : List (List Char × Nat)) : List Token :=
  ws.map (fun w => ⟨w.1, 1, 0, w.2⟩)

/-- The index of the node at which the marking loop of `setVarId` for a variable (a
name) leaves with `break`, on the list that starts at `tok2`, with `indentlevel` and
`parlevel`: the `\x7d` that makes `indentlevel` negative, or a `;` with a negative
`parlevel`; `none` when the loop runs to the end of the list. -/
def markEnd : Int → Int → List Token → Option Nat
  | _, _, [] => none
  | indentlevel, parlevel, tok2 :: rest =>
    if tok2.str = ['{'] then (markEnd (indentlevel + 1) parlevel rest).map (· + 1)
    else if tok2.str = ['}'] then
      if indentlevel - 1 < 0 then some 0
      else (markEnd (indentlevel - 1) parlevel rest).map (· + 1)
    else if tok2.str = ['('] then (markEnd indentlevel (parlevel + 1) rest).map (· + 1)
    else if tok2.str = [')'] then
      if parlevel = 0 ∧ indentlevel = 0 ∧
          Match [.word ")", .optional ["const"], .word "\x7b"] (tok2 :: rest) then
        (markEnd indentlevel parlevel rest).map (· + 1)
      else (markEnd indentlevel (parlevel - 1) rest).map (· + 1)
    else if parlevel < 0 ∧ tok2.str = [';'] then some 0
    else (markEnd indentlevel parlevel rest).map (· + 1)

/-- The list in which every token with the text `varname` that is not behind a `.` has
the id `varId`; `dot` says that a `.` is in front of the list. -/
def markNames (varname : List Char) (varId : Nat) : Bool → List Token → List Token
  | _, [] => []
  | dot, t :: rest =>
    (if ¬ dot ∧ t.str = varname then { t with varId := varId } else t) ::
      markNames varname varId (t.str = ['.']) rest

/-- The weight of a token in the measure of a stream: 3, and 2 more with a variable id,
and 1 more for a number. -/
def tokenWeight (t : Token) : Nat :=
  3 + (if t.varId ≠ 0 then 2 else 0) + (if isNumber t.str then 1 else 0)

/-- The measure of a stream: the sum of the weights of its tokens. -/
def streamMeasure (ts : List Token) : Nat := (ts.map tokenWeight).sum

/-- The measure of the nodes that a cursor of the loop over `tok3` holds. -/
def Known.total (c : Known) : Nat :=
  streamMeasure c.before + streamMeasure c.passed + tokenWeight c.tok + streamMeasure c.rest

/-! ## Theorems -/

/-! ### The combine loop -/

/-- No fused text is the first text of a table entry. After a fusion no later
entry matches, so `tok->next()` is never read when it is null. -/
theorem combineWithNext_result_no_key :
    ∀ e ∈ combineWithNext, ∀ e' ∈ combineWithNext, e.2.2 ≠ e'.1 := by
  decide

/-- No fused text is the second text of a table entry. -/
theorem combineWithNext_result_no_second :
    ∀ e ∈ combineWithNext, ∀ e' ∈ combineWithNext, e.2.2 ≠ e'.2.1 := by
  decide

/-- With no matching entry the inner loop changes nothing. -/
theorem foldl_combineEntry_none (tbl : List (List Char × List Char × List Char))
    (tok : Token) (rest : List Token)
    (h : ∀ e ∈ tbl, ∀ n ∈ rest.head?, ¬(tok.str = e.1 ∧ n.str = e.2.1)) :
    tbl.foldl (fun p e => combineEntry e p) (tok, rest) = (tok, rest) := by
  induction tbl with
  | nil => rfl
  | cons e tbl ih =>
    have he : combineEntry e (tok, rest) = (tok, rest) := by
      unfold combineEntry
      cases rest with
      | nil => rfl
      | cons n rest =>
        have := h e (List.mem_cons_self _ _) n (by simp)
        simp only [this, if_false]
    rw [List.foldl_cons, he]
    exact ih (fun e' he' => h e' (List.mem_cons_of_mem _ he'))

/-- The inner loop on a table none of whose results is a first text: the first
matching entry fuses, and nothing else happens. -/
theorem foldl_combineEntry (tbl : List (List Char × List Char × List Char))
    (hkey : ∀ e ∈ tbl, ∀ e' ∈ tbl, e.2.2 ≠ e'.1) (tok n : Token) (rest : List Token) :
    tbl.foldl (fun p e => combineEntry e p) (tok, n :: rest) =
      match tbl.find? (fun e => e.1 = tok.str ∧ e.2.1 = n.str) with
      | some e => ({ tok with str := e.2.2 }, rest)
      | none => (tok, n :: rest) := by
  induction tbl with
  | nil => rfl
  | cons e tbl ih =>
    rw [List.foldl_cons, List.find?_cons]
    by_cases hm : tok.str = e.1 ∧ n.str = e.2.1
    · have he : combineEntry e (tok, n :: rest) = ({ tok with str := e.2.2 }, rest) := by
        simp only [combineEntry, hm, and_self, if_true]
      have hd : decide (e.1 = tok.str ∧ e.2.1 = n.str) = true := by
        simp [hm.1, hm.2]
      rw [he, hd]
      apply foldl_combineEntry_none
      intro e' he' _ _ hc
      exact hkey e (List.mem_cons_self _ _) e' (List.mem_cons_of_mem _ he') hc.1
    · have he : combineEntry e (tok, n :: rest) = (tok, n :: rest) := by
        simp only [combineEntry, hm, if_false]
      have hd : decide (e.1 = tok.str ∧ e.2.1 = n.str) = false := by
        simp only [decide_eq_false_iff_not]
        exact fun hc => hm ⟨hc.1.symm, hc.2.symm⟩
      rw [he, hd]
      exact ih (fun a ha b hb => hkey a (List.mem_cons_of_mem _ ha) b (List.mem_cons_of_mem _ hb))

/-- The inner loop of the combine pass, read off the table. -/
theorem combineAt_cons (tok n : Token) (rest : List Token) :
    combineAt tok (n :: rest) =
      match fusion tok.str n.str with
      | some s => ({ tok with str := s }, rest)
      | none => (tok, n :: rest) := by
  unfold combineAt fusion
  rw [foldl_combineEntry combineWithNext combineWithNext_result_no_key]
  cases combineWithNext.find? (fun e => e.1 = tok.str ∧ e.2.1 = n.str) <;> rfl

/-- What `fusion` finds is an entry of the table. -/
theorem fusion_some {a b s : List Char} (h : fusion a b = some s) :
    ∃ e ∈ combineWithNext, e.1 = a ∧ e.2.1 = b ∧ e.2.2 = s := by
  unfold fusion at h
  cases hf : combineWithNext.find? (fun e => e.1 = a ∧ e.2.1 = b) with
  | none => rw [hf] at h; cases h
  | some e =>
    rw [hf] at h
    have hp := List.find?_some hf
    simp only [decide_eq_true_eq] at hp
    simp only [Option.map_some', Option.some.injEq] at h
    exact ⟨e, List.mem_of_find?_eq_some hf, hp.1, hp.2, h⟩

/-- A fused text is fused with nothing after it. -/
theorem fusion_result_left {a b s : List Char} (h : fusion a b = some s) (c : List Char) :
    fusion s c = none := by
  obtain ⟨e, he, -, -, rfl⟩ := fusion_some h
  cases hf : fusion e.2.2 c with
  | none => rfl
  | some s' =>
    obtain ⟨e', he', h1, -, -⟩ := fusion_some hf
    exact absurd h1.symm (combineWithNext_result_no_key e he e' he')

/-- Nothing is fused with a fused text after it. -/
theorem fusion_result_right {a b s : List Char} (h : fusion a b = some s) (c : List Char) :
    fusion c s = none := by
  obtain ⟨e, he, -, -, rfl⟩ := fusion_some h
  cases hf : fusion c e.2.2 with
  | none => rfl
  | some s' =>
    obtain ⟨e', he', -, h2, -⟩ := fusion_some hf
    exact absurd h2.symm (combineWithNext_result_no_second e he e' he')

/-- The combine loop at a fused pair. -/
theorem combine_fused (tok n : Token) (rest : List Token) {s : List Char}
    (h : fusion tok.str n.str = some s) :
    combine (tok :: n :: rest) = { tok with str := s } :: combine rest := by
  rw [combine, combineAt_cons, h]

/-- The combine loop at a pair that is not fused. -/
theorem combine_kept (tok n : Token) (rest : List Token)
    (h : fusion tok.str n.str = none) :
    combine (tok :: n :: rest) = tok :: combine (n :: rest) := by
  rw [combine, combineAt_cons, h]

/-- The first token of the output is the first token of the input, or it is fused. -/
theorem combine_head (tok : Token) (rest : List Token) :
    ∃ out, combine (tok :: rest) = tok :: out ∨
      ∃ n s, fusion tok.str n = some s ∧ combine (tok :: rest) = { tok with str := s } :: out := by
  cases rest with
  | nil => exact ⟨[], Or.inl (by rw [combine])⟩
  | cons n rest =>
    cases h : fusion tok.str n.str with
    | none => exact ⟨_, Or.inl (combine_kept tok n rest h)⟩
    | some s => exact ⟨_, Or.inr ⟨n.str, s, h, combine_fused tok n rest h⟩⟩

/-- The combine loop leaves a settled list as it is. -/
theorem combine_of_settled (ts : List Token) (h : Settled ts) : combine ts = ts := by
  induction ts with
  | nil => rw [combine]
  | cons tok rest ih =>
    cases rest with
    | nil => rw [combine]
    | cons n rest =>
      unfold Settled at h ih
      rw [List.chain'_cons] at h
      rw [combine_kept tok n rest h.1, ih h.2]

/-- The output of the combine loop is settled. -/
theorem combine_settled (ts : List Token) : Settled (combine ts) := by
  generalize h : ts.length = k
  induction k using Nat.strong_induction_on generalizing ts with
  | _ k ih =>
    match ts, h with
    | [], _ => rw [combine]; exact List.chain'_nil
    | [tok], _ => rw [combine]; exact List.chain'_singleton _
    | tok :: n :: rest, h =>
      simp only [List.length_cons] at h
      cases hf : fusion tok.str n.str with
      | some s =>
        rw [combine_fused tok n rest hf]
        have hrest := ih rest.length (by omega) rest rfl
        unfold Settled at hrest ⊢
        cases hc : combine rest with
        | nil => exact List.chain'_singleton _
        | cons x xs =>
          rw [hc] at hrest
          rw [List.chain'_cons]
          exact ⟨fusion_result_left hf _, hrest⟩
      | none =>
        rw [combine_kept tok n rest hf]
        have hrest := ih (n :: rest).length (by simp only [List.length_cons]; omega)
          (n :: rest) rfl
        unfold Settled at hrest ⊢
        obtain ⟨out, ho | ⟨m, s, hm, ho⟩⟩ := combine_head n rest
        · rw [ho] at hrest ⊢
          rw [List.chain'_cons]
          exact ⟨hf, hrest⟩
        · rw [ho] at hrest ⊢
          rw [List.chain'_cons]
          exact ⟨fusion_result_right hm _, hrest⟩

/-- The combine loop only fuses adjacent pairs of the table, in order. -/
theorem combine_fusion (ts : List Token) : Fusion ts (combine ts) := by
  generalize h : ts.length = k
  induction k using Nat.strong_induction_on generalizing ts with
  | _ k ih =>
    match ts, h with
    | [], _ => rw [combine]; exact Fusion.nil
    | [tok], _ => rw [combine]; exact Fusion.keep tok Fusion.nil
    | tok :: n :: rest, h =>
      simp only [List.length_cons] at h
      cases hf : fusion tok.str n.str with
      | some s =>
        rw [combine_fused tok n rest hf]
        obtain ⟨e, he, h1, h2, rfl⟩ := fusion_some hf
        exact Fusion.fuse tok n e he h1.symm h2.symm (ih rest.length (by omega) rest rfl)
      | none =>
        rw [combine_kept tok n rest hf]
        exact Fusion.keep tok
          (ih (n :: rest).length (by simp only [List.length_cons]; omega) (n :: rest) rfl)

/-- C9. The combine loop of `tokenize` is idempotent and order-preserving: run on
its own output it changes nothing, and its output arises from the input by
fusing adjacent pairs of the table `combineWithNext` (the first token of a pair
takes the fused text, the second is deleted) while every other token is kept,
in the original order. -/
theorem combine_idempotent_order_preserving (ts : List Token) :
    combine (combine ts) = combine ts ∧ Fusion ts (combine ts) :=
  ⟨combine_of_settled _ (combine_settled ts), combine_fusion ts⟩

/-! ### Removal of `volatile` and `mutable` -/

/-- Deleting every `w` after `tok` is filtering. -/
theorem deleteNextWord_eq_filter (w : List Char) (ts : List Token) :
    deleteNextWord w ts = ts.filter (fun t => decide (t.str ≠ w)) := by
  induction ts with
  | nil => rfl
  | cons t ts ih =>
    by_cases h : t.str = w
    · simp [deleteNextWord, h, ih]
    · simp [deleteNextWord, h, ih]

/-- The two loops that remove the word `w` keep exactly the tokens that differ
from `w`, in their order. -/
theorem removeWord_eq_filter (w : List Char) (ts : List Token) :
    removeWord w ts = ts.filter (fun t => decide (t.str ≠ w)) := by
  induction ts with
  | nil => rfl
  | cons t ts ih =>
    by_cases h : t.str = w
    · have hd : dropHeadWord w (t :: ts) = dropHeadWord w ts := by
        simp [dropHeadWord, h]
      have hr : removeWord w (t :: ts) = removeWord w ts := by
        unfold removeWord
        rw [hd]
      rw [hr, ih]
      simp [h]
    · have hd : dropHeadWord w (t :: ts) = t :: ts := by
        simp [dropHeadWord, h]
      unfold removeWord
      rw [hd]
      simp [h, deleteNextWord_eq_filter]

/-- The passes behind the lexer end by keeping exactly the tokens that are neither
`volatile` nor `mutable`. -/
theorem postLex_eq_filter (ts : List Token) :
    postLex ts = (beforeNoise ts).filter
      (fun t => decide (t.str ≠ "volatile".toList ∧ t.str ≠ "mutable".toList)) := by
  unfold postLex
  rw [removeWord_eq_filter, removeWord_eq_filter, List.filter_filter]
  congr 1
  funext t
  simp only [ne_eq, decide_not, Bool.decide_and]
  exact Bool.and_comm _ _

/-- What `tokenize` returns, in terms of the lexer outcome. -/
theorem tokenize_eq_some {host : Host} {code FileName : List Char} {r : Tokenizer}
    (h : tokenize host code FileName = some r) :
    ∃ st, lex host code FileName = .done st ∧
      r.tokens =
        postLex (addtoken host st.tokens (c_str st.CurrentToken) st.lineno st.FileIndex) ∧
      r.files = st.files := by
  unfold tokenize at h
  cases hl : lex host code FileName with
  | fatal st => rw [hl] at h; cases h
  | done st =>
    rw [hl] at h
    simp only [Option.some.injEq] at h
    subst h
    exact ⟨st, rfl, rfl, rfl⟩

/-- C10. After `tokenize` no token of the stream has the text `volatile` or
`mutable`, the head of the stream included, and the stream is what the earlier
passes left with exactly these tokens taken out: all other tokens are kept in
their relative order. -/
theorem tokenize_removes_volatile_mutable (host : Host) (code FileName : List Char)
    (r : Tokenizer) (h : tokenize host code FileName = some r) :
    (∀ t ∈ r.tokens, t.str ≠ "volatile".toList ∧ t.str ≠ "mutable".toList) ∧
    ∃ st, lex host code FileName = .done st ∧
      r.tokens =
        (beforeNoise
          (addtoken host st.tokens (c_str st.CurrentToken) st.lineno st.FileIndex)).filter
          (fun t => decide (t.str ≠ "volatile".toList ∧ t.str ≠ "mutable".toList)) := by
  obtain ⟨st, hl, ht, -⟩ := tokenize_eq_some h
  rw [postLex_eq_filter] at ht
  refine ⟨?_, st, hl, ht⟩
  intro t hmem
  rw [ht, List.mem_filter] at hmem
  simpa using hmem.2

/-- Without a `typedef` token the typedef loop changes nothing. -/
theorem typedefPass_of_no_typedef (ts : List Token)
    (h : ∀ t ∈ ts, t.str ≠ "typedef".toList) : typedefPass ts = ts := by
  induction ts with
  | nil => rw [typedefPass]; rfl
  | cons t ts ih =>
    have ht := h t (List.mem_cons_self _ _)
    have h2 : matchTypedef2 (t :: ts) = false := by
      match ts with
      | [] => rfl
      | [_] => rfl
      | [_, _] => rfl
      | _ :: _ :: _ :: _ =>
        simp only [matchTypedef2]
        exact decide_eq_false (fun hc => ht hc.1)
    have h3 : matchTypedef3 (t :: ts) = false := by
      match ts with
      | [] => rfl
      | [_] => rfl
      | [_, _] => rfl
      | [_, _, _] => rfl
      | _ :: _ :: _ :: _ :: _ =>
        simp only [matchTypedef3]
        exact decide_eq_false (fun hc => ht hc.1)
    rw [typedefPass, h2, h3, ih (fun t ht => h t (List.mem_cons_of_mem _ ht))]
    simp

/-- An instance of C10: in `volatile int mutable x;` both words go, the rest stays. -/
theorem tokenize_removes_volatile_mutable_witness :
    tokenize exampleHost "volatile int mutable x;".toList "a.c".toList =
      some { tokens := [⟨"int".toList, 1, 0, 0⟩, ⟨"x".toList, 1, 0, 0⟩, ⟨";".toList, 1, 0, 0⟩],
             files := ["a.c".toList] } ∧
    ((∀ t ∈ [(⟨"int".toList, 1, 0, 0⟩ : Token), ⟨"x".toList, 1, 0, 0⟩, ⟨";".toList, 1, 0, 0⟩],
        t.str ≠ "volatile".toList ∧ t.str ≠ "mutable".toList) ∧
      ∃ st, lex exampleHost "volatile int mutable x;".toList "a.c".toList = .done st ∧
        [(⟨"int".toList, 1, 0, 0⟩ : Token), ⟨"x".toList, 1, 0, 0⟩, ⟨";".toList, 1, 0, 0⟩] =
          (beforeNoise
            (addtoken exampleHost st.tokens (c_str st.CurrentToken) st.lineno
              st.FileIndex)).filter
            (fun t => decide (t.str ≠ "volatile".toList ∧ t.str ≠ "mutable".toList))) := by
  have hl : lex exampleHost "volatile int mutable x;".toList "a.c".toList =
      .done ⟨[⟨"volatile".toList, 1, 0, 0⟩, ⟨"int".toList, 1, 0, 0⟩,
        ⟨"mutable".toList, 1, 0, 0⟩, ⟨"x".toList, 1, 0, 0⟩, ⟨";".toList, 1, 0, 0⟩],
        ["a.c".toList], 1, [], [], [], 0, []⟩ := by decide
  have ht : tokenize exampleHost "volatile int mutable x;".toList "a.c".toList =
      some { tokens := [⟨"int".toList, 1, 0, 0⟩, ⟨"x".toList, 1, 0, 0⟩, ⟨";".toList, 1, 0, 0⟩],
             files := ["a.c".toList] } := by
    unfold tokenize
    rw [hl]
    simp [postLex, beforeNoise, addtoken, c_str, combine, combineAt, combineWithNext,
      combineEntry, typedefPass, matchTypedef2, matchTypedef3, asmFrom, strAt, removeWord,
      dropHeadWord, deleteNextWord]
  exact ⟨ht, tokenize_removes_volatile_mutable _ _ _ _ ht⟩

/-! ### Unfolding the lexer -/

/-- One step of the main loop: the loop body, then whatever it asks for. -/
theorem lexMain_cons (host : Host) (st : LexState) (ch : Char) (code : List Char) :
    lexMain host st (ch :: code) = (mainBody host st ch code.head?).resume host code := by
  cases code with
  | nil =>
    rw [lexMain]
    simp only [List.head?_nil]
    cases mainBody host st ch none with
    | main st1 eat => cases eat <;> simp [Next.resume, lexMain]
    | literal st1 quote special => rfl
    | hash st1 chPrev line => rfl
  | cons nx code =>
    rw [lexMain]
    simp only [List.head?_cons]
    cases mainBody host st ch (some nx) with
    | main st1 eat => cases eat <;> simp [Next.resume]
    | literal st1 quote special => rfl
    | hash st1 chPrev line => rfl

/-- A 7-bit character is determined by its code. -/
theorem char_eq_ofNat (c : Char) : c = Char.ofNat c.toNat := by
  simp [Char.ofNat_toNat]

/-- To show a property of all 7-bit characters, check the 128 codes. -/
theorem forall_ascii (P : Char → Prop) (h : ∀ n, n < 128 → P (Char.ofNat n)) (c : Char)
    (hc : c.toNat < 128) : P c := by
  rw [char_eq_ofNat c]
  exact h c.toNat hc

/-- The loop body appends a plain byte to the current token. -/
theorem mainBody_plain (host : Host) (st : LexState) (c : Char) (peek : Option Char)
    (h : plainByte c = true) :
    mainBody host st c peek = .main { st with CurrentToken := st.CurrentToken ++ [c] } false := by
  simp only [plainByte, Bool.and_eq_true, decide_eq_true_eq, Bool.not_eq_true',
    decide_eq_false_iff_not] at h
  obtain ⟨⟨⟨⟨⟨⟨h1, h2⟩, h3⟩, h4⟩, h5⟩, h6⟩, h7⟩ := h
  have hhash : c ≠ '#' := by
    intro hc
    subst hc
    revert h5
    decide
  have hlt : ¬(128 ≤ c.toNat) := by omega
  simp only [mainBody, hlt, if_false, h2, h3, h4, or_self, hhash, false_and, mainTail, h5,
    Bool.false_eq_true, spaceOrAppend, h6, h7]

/-- The main loop appends a run of plain bytes to the current token. -/
theorem lexMain_plain (host : Host) (cs : List Char) (h : ∀ c ∈ cs, plainByte c = true) :
    ∀ (st : LexState) (rest : List Char),
      lexMain host st (cs ++ rest) =
        lexMain host { st with CurrentToken := st.CurrentToken ++ cs } rest := by
  induction cs with
  | nil => intro st rest; simp
  | cons c cs ih =>
    intro st rest
    rw [List.cons_append, lexMain_cons, mainBody_plain host st c _ (h c (List.mem_cons_self _ _))]
    simp only [Next.resume, Bool.false_eq_true, if_false]
    rw [ih (fun d hd => h d (List.mem_cons_of_mem _ hd))]
    simp

/-- A plain byte is not NUL. -/
theorem plainByte_ne_nul (c : Char) (h : plainByte c = true) : c ≠ '\x00' := by
  intro hc
  subst hc
  revert h
  decide

/-- A string of plain bytes is its own C string. -/
theorem c_str_of_plain (cs : List Char) (h : ∀ c ∈ cs, plainByte c = true) : c_str cs = cs := by
  unfold c_str
  rw [List.takeWhile_eq_self_iff]
  intro c hc
  simpa using plainByte_ne_nul c (h c hc)

/-! ### Hexadecimal numbers -/

/-- Hexadecimal digits are plain bytes, no sign, no white space and not `x`. -/
theorem isxdigit_facts (c : Char) (h : isxdigit c = true) :
    plainByte c = true ∧ isspace c = false ∧ c ≠ '-' ∧ c ≠ '+' ∧ c ≠ 'x' ∧ c ≠ 'X' := by
  have hlt : c.toNat < 128 := by
    simp only [isxdigit, hexDigit] at h
    by_contra hc
    have h1 : ¬(48 ≤ c.toNat ∧ c.toNat ≤ 57) := by omega
    have h2 : ¬(97 ≤ c.toNat ∧ c.toNat ≤ 102) := by omega
    have h3 : ¬(65 ≤ c.toNat ∧ c.toNat ≤ 70) := by omega
    simp [h1, h2, h3] at h
  revert h
  refine forall_ascii (fun c => isxdigit c = true →
    plainByte c = true ∧ isspace c = false ∧ c ≠ '-' ∧ c ≠ '+' ∧ c ≠ 'x' ∧ c ≠ 'X') ?_ c hlt
  decide

/-- On a non-empty run of hexadecimal digits whose value fits, `strtoul` returns the
value of the run. -/
theorem strtoul16_hex (U : Nat) (h : List Char) (hhex : ∀ c ∈ h, isxdigit c = true)
    (hfit : hexValue h ≤ U) : strtoul16 U h = hexValue h := by
  have htake : h.takeWhile isxdigit = h := by
    rw [List.takeWhile_eq_self_iff]
    exact hhex
  cases h with
  | nil => simp [strtoul16, hexValue]
  | cons c cs =>
    obtain ⟨-, hsp, hm, hp, -, -⟩ := isxdigit_facts c (hhex c (List.mem_cons_self _ _))
    have hdrop : (c :: cs).dropWhile isspace = c :: cs := by
      simp [List.dropWhile_cons, hsp]
    have hs3 : (match c :: cs with
        | '0' :: x :: d :: r => if (x = 'x' ∨ x = 'X') ∧ isxdigit d = true then d :: r else c :: cs
        | _ => c :: cs) = c :: cs := by
      split
      · rename_i x d r heq
        have hx : x ∈ c :: cs := by
          simp only [List.cons.injEq] at heq
          rw [heq.2]
          simp
        obtain ⟨-, -, -, -, hx1, hx2⟩ := isxdigit_facts x (hhex x hx)
        simp [hx1, hx2]
      · rfl
    unfold strtoul16
    simp only [hdrop, List.head?_cons, Option.some.injEq, hm, hp, or_self, if_false,
      decide_False, hs3, htake, Bool.false_eq_true]
    rw [if_neg (by omega)]

/-- The digits `Nat.toDigitsCore` puts in front of a list of decimal digits. -/
theorem toDigitsCore_digits (fuel n : Nat) (ds : List Char)
    (hds : ∀ c ∈ ds, isdigit c = true) :
    ∀ c ∈ Nat.toDigitsCore 10 fuel n ds, isdigit c = true := by
  induction fuel generalizing n ds with
  | zero => simpa [Nat.toDigitsCore] using hds
  | succ fuel ih =>
    have hd : isdigit (Nat.digitChar (n % 10)) = true := by
      have hlt : n % 10 < 10 := Nat.mod_lt _ (by decide)
      generalize n % 10 = m at hlt
      revert m
      decide
    have hcons : ∀ c ∈ Nat.digitChar (n % 10) :: ds, isdigit c = true := by
      intro c hc
      rcases List.mem_cons.1 hc with rfl | hc
      · exact hd
      · exact hds c hc
    unfold Nat.toDigitsCore
    simp only
    split
    · exact hcons
    · exact ih (n / 10) _ hcons

/-- With fuel left, `Nat.toDigitsCore` returns at least one digit. -/
theorem toDigitsCore_ne_nil (fuel n : Nat) (ds : List Char) :
    Nat.toDigitsCore 10 (fuel + 1) n ds ≠ [] := by
  induction fuel generalizing n ds with
  | zero =>
    unfold Nat.toDigitsCore
    simp only
    split
    · simp
    · simp [Nat.toDigitsCore]
  | succ fuel ih =>
    unfold Nat.toDigitsCore
    simp only
    split
    · simp
    · exact ih _ _

/-- The decimal text of a number is a non-empty string of decimal digits. -/
theorem decimal_digits (n : Nat) :
    decimal n ≠ [] ∧ ∀ c ∈ decimal n, isdigit c = true :=
  ⟨toDigitsCore_ne_nil n n [], toDigitsCore_digits (n + 1) n [] (by simp)⟩

/-- A text that starts with a decimal digit is no keyword. -/
theorem decimal_ne_word (n : Nat) (w : List Char) (hw : ∀ c ∈ w.head?, isdigit c = false) :
    decimal n ≠ w := by
  obtain ⟨hne, hd⟩ := decimal_digits n
  intro heq
  cases hdec : decimal n with
  | nil => exact hne hdec
  | cons c cs =>
    have h1 := hd c (by rw [hdec]; simp)
    have h2 := hw c (by rw [← heq, hdec]; simp)
    rw [h1] at h2
    cases h2

/-- The passes behind the lexer leave a single token alone, unless it is `volatile`
or `mutable`. -/
theorem postLex_singleton (t : Token) (h1 : t.str ≠ "volatile".toList)
    (h2 : t.str ≠ "mutable".toList) : postLex [t] = [t] := by
  have hc : combine [t] = [t] := by rw [combine]
  have ht : typedefPass [t] = [t] := by
    rw [typedefPass]
    simp [matchTypedef2, matchTypedef3, typedefPass]
  have ha : asmFrom [t] = [t] := by
    simp [asmFrom, strAt]
  rw [postLex_eq_filter, beforeNoise, hc, ht, ha, List.filter_cons,
    if_pos (decide_eq_true ⟨h1, h2⟩)]
  rfl

/-- Line 1 is stored as it is: 1 is below 2^32. -/
theorem one_mod_wrap : 1 % 2 ^ 32 = 1 := by decide

/-- C4. For every string `h` of hexadecimal digits whose value fits in an
`unsigned long`, `tokenize` of the text `0x` followed by `h` yields a single token,
and its text is the decimal representation of the value of `h`. -/
theorem tokenize_hex_literal (host : Host) (FileName h : List Char)
    (hhex : ∀ c ∈ h, isxdigit c = true) (hfit : hexValue h ≤ host.ULONG_MAX) :
    tokenize host ('0' :: 'x' :: h) FileName =
      some { tokens := [⟨decimal (hexValue h), 1, 0, 0⟩],
             files := [host.simplifyPath FileName] } := by
  have hplain : ∀ c ∈ '0' :: 'x' :: h, plainByte c = true := by
    intro c hc
    rcases List.mem_cons.1 hc with rfl | hc
    · decide
    · rcases List.mem_cons.1 hc with rfl | hc
      · decide
      · exact (isxdigit_facts c (hhex c hc)).1
  have hl : lex host ('0' :: 'x' :: h) FileName =
      .done { initState host FileName with CurrentToken := '0' :: 'x' :: h } := by
    have hrun := lexMain_plain host _ hplain (initState host FileName) []
    rw [List.append_nil] at hrun
    unfold lex
    rw [hrun, lexMain]
    rfl
  have hv1 : decimal (hexValue h) ≠ "volatile".toList := decimal_ne_word _ _ (by decide)
  have hv2 : decimal (hexValue h) ≠ "mutable".toList := decimal_ne_word _ _ (by decide)
  unfold tokenize
  rw [hl]
  simp only [c_str_of_plain _ hplain, initState, addtoken, List.take_succ_cons, List.take_zero,
    List.drop_succ_cons, List.drop_zero, if_true, strtoul16_hex _ h hhex hfit, List.nil_append,
    reduceCtorEq, if_false, one_mod_wrap]
  rw [postLex_singleton _ hv1 hv2]

/-- The instance `0xFF` of C4: the single token `255`. -/
theorem tokenize_hex_literal_witness :
    tokenize exampleHost "0xFF".toList "a.c".toList =
      some { tokens := [⟨"255".toList, 1, 0, 0⟩], files := ["a.c".toList] } :=
  tokenize_hex_literal exampleHost "a.c".toList ['F', 'F'] (by decide) (by decide)

/-! ### Character and string literals -/

/-- The literal loop goes on at an escaped byte and at any byte that is not the quote. -/
theorem lexLiteral_step (host : Host) (st : LexState) (quote : Char) (special : Bool)
    (c : Char) (code : List Char) (h : special = true ∨ c ≠ quote) :
    lexLiteral host st quote special (c :: code) =
      lexLiteral host (literalBody st special c).1 quote (literalBody st special c).2 code := by
  rw [lexLiteral, if_pos h]

/-- The literal loop ends at a quote that is not escaped. -/
theorem lexLiteral_close (host : Host) (st : LexState) (quote : Char) (code : List Char) :
    lexLiteral host st quote false (quote :: code) =
      lexMain host (literalEnd host st quote) code := by
  rw [lexLiteral, if_neg (by simp)]

/-- The state after one pass of the literal loop body. -/
theorem literalBody_state (st : LexState) (special : Bool) (c : Char) :
    (literalBody st special c).1 = st.inLiteral [c] := by
  by_cases hn : c = '\n'
  · simp [literalBody, LexState.inLiteral, newlines, hn]
  · have hn2 : ¬('\n' = c) := fun h => hn h.symm
    simp [literalBody, LexState.inLiteral, newlines, hn, List.count_cons, hn2]

/-- Appending to the current token in two steps. -/
theorem inLiteral_inLiteral (st : LexState) (a b : List Char) :
    (st.inLiteral a).inLiteral b = st.inLiteral (a ++ b) := by
  simp [LexState.inLiteral, newlines, List.count_append, Nat.add_assoc]

/-- The literal loop on a well-escaped body followed by the closing quote: the
body is appended, its newlines are counted, and the loop ends at the quote. -/
theorem lexLiteral_body (host : Host) (quote : Char) (hq : quote ≠ '\\') (s : List Char) :
    wellEscaped quote s = true →
    ∀ (st : LexState) (rest : List Char),
      lexLiteral host st quote false (s ++ quote :: rest) =
        lexMain host (literalEnd host (st.inLiteral s) quote) rest := by
  generalize hk : s.length = k
  induction k using Nat.strong_induction_on generalizing s with
  | _ k ih =>
    intro hw st rest
    match s, hk, hw with
    | [], _, _ =>
      rw [List.nil_append, lexLiteral_close]
      simp [LexState.inLiteral, newlines]
    | [c], _, hw =>
      simp only [wellEscaped, decide_eq_true_eq] at hw
      rw [List.singleton_append, lexLiteral_step host st quote false c _ (Or.inr hw.2),
        literalBody_state]
      have hsp : (literalBody st false c).2 = false := by simp [literalBody, hw.1]
      rw [hsp, lexLiteral_close]
    | c :: d :: s', hk, hw =>
      simp only [List.length_cons] at hk
      rw [wellEscaped] at hw
      by_cases hc : c = '\\'
      · subst hc
        rw [if_pos rfl] at hw
        have hsp : (literalBody st false '\\').2 = true := by simp [literalBody]
        rw [List.cons_append, List.cons_append,
          lexLiteral_step host st quote false '\\' _ (Or.inr hq.symm), literalBody_state, hsp,
          lexLiteral_step host _ quote true d _ (Or.inl rfl), literalBody_state]
        have hsp2 : (literalBody (st.inLiteral ['\\']) true d).2 = false := by
          simp [literalBody]
        rw [hsp2, ih s'.length (by omega) s' rfl hw, inLiteral_inLiteral, inLiteral_inLiteral]
        rfl
      · rw [if_neg hc] at hw
        simp only [Bool.and_eq_true, decide_eq_true_eq] at hw
        have hsp : (literalBody st false c).2 = false := by simp [literalBody, hc]
        rw [List.cons_append, lexLiteral_step host st quote false c _ (Or.inr hw.1),
          literalBody_state, hsp,
          ih (d :: s').length (by simp only [List.length_cons]; omega) (d :: s') rfl hw.2,
          inLiteral_inLiteral]
        rfl

/-- The C string of a string without NUL bytes is the string. -/
theorem c_str_of_no_nul (s : List Char) (h : '\x00' ∉ s) : c_str s = s := by
  unfold c_str
  rw [List.takeWhile_eq_self_iff]
  intro c hc
  have hne : c ≠ '\x00' := fun hz => h (hz ▸ hc)
  simpa using hne

/-- C3 (amended). For every literal body `s` without NUL bytes in which each
backslash escapes the following byte and no unescaped closing quote occurs,
`tokenize` of quote, `s`, quote (the quote being `'` or `"`) yields exactly one
token, and its text is the whole literal with both quotes: escapes, spaces,
operator bytes, `#`, newlines and bytes with the high bit inside `s` do not
split it. (Its line is the line of the closing quote, as an `unsigned int`.) -/
theorem tokenize_literal (host : Host) (FileName : List Char) (quote : Char) (s : List Char)
    (hq : quote = '\'' ∨ quote = '"') (hw : wellEscaped quote s = true)
    (hnul : '\x00' ∉ s) :
    tokenize host (quote :: (s ++ [quote])) FileName =
      some { tokens := [⟨quote :: (s ++ [quote]), (1 + newlines s) % 2 ^ 32, 0, 0⟩],
             files := [host.simplifyPath FileName] } := by
  have hq1 : quote ≠ '\\' := by rcases hq with rfl | rfl <;> decide
  have hq0 : quote ≠ '\x00' := by rcases hq with rfl | rfl <;> decide
  have hbody : ∀ pk, mainBody host (initState host FileName) quote pk =
      .literal ((initState host FileName).inLiteral [quote]) quote false := by
    intro pk
    rcases hq with rfl | rfl <;>
      simp [mainBody, LexState.flush, initState, c_str, addtoken, literalBody,
        LexState.inLiteral, newlines]
  have hnul2 : '\x00' ∉ quote :: (s ++ [quote]) := by
    intro h
    rcases List.mem_cons.1 h with h | h
    · exact hq0 h.symm
    · rcases List.mem_append.1 h with h | h
      · exact hnul h
      · exact hq0 (List.mem_singleton.1 h).symm
  have hl : lex host (quote :: (s ++ [quote])) FileName =
      .done (literalEnd host (((initState host FileName).inLiteral [quote]).inLiteral s) quote) := by
    unfold lex
    rw [lexMain_cons, hbody]
    simp only [Next.resume]
    rw [lexLiteral_body host quote hq1 s hw, lexMain]
  have hstr : (quote :: (s ++ [quote])).take 2 ≠ ['0', 'x'] := by
    intro h
    cases s with
    | nil =>
      simp only [List.nil_append, List.take_succ_cons, List.take_zero, List.cons.injEq] at h
      rcases hq with rfl | rfl <;> exact absurd h.1 (by decide)
    | cons c s =>
      simp only [List.cons_append, List.take_succ_cons, List.take_zero, List.cons.injEq] at h
      rcases hq with rfl | rfl <;> exact absurd h.1 (by decide)
  have hv1 : quote :: (s ++ [quote]) ≠ "volatile".toList := by
    intro h
    have h0 := congrArg List.head? h
    simp only [List.head?_cons, Option.some.injEq] at h0
    rcases hq with rfl | rfl <;> exact absurd h0 (by decide)
  have hv2 : quote :: (s ++ [quote]) ≠ "mutable".toList := by
    intro h
    have h0 := congrArg List.head? h
    simp only [List.head?_cons, Option.some.injEq] at h0
    rcases hq with rfl | rfl <;> exact absurd h0 (by decide)
  have htoks : (literalEnd host (((initState host FileName).inLiteral [quote]).inLiteral s)
      quote).tokens = [⟨quote :: (s ++ [quote]), (1 + newlines s) % 2 ^ 32, 0, 0⟩] := by
    have hcs : c_str (quote :: (s ++ [quote])) = quote :: (s ++ [quote]) :=
      c_str_of_no_nul _ hnul2
    have hn : newlines [quote] = 0 := by
      rcases hq with rfl | rfl <;> decide
    simp only [literalEnd, LexState.flush, LexState.inLiteral, initState, List.nil_append,
      List.cons_append, hcs, addtoken, hstr, if_false, reduceCtorEq, hn, Nat.add_zero]
  unfold tokenize
  rw [hl]
  simp only [htoks]
  have hcur : (literalEnd host (((initState host FileName).inLiteral [quote]).inLiteral s)
      quote).CurrentToken = [] := rfl
  have hfiles : (literalEnd host (((initState host FileName).inLiteral [quote]).inLiteral s)
      quote).files = [host.simplifyPath FileName] := rfl
  rw [hcur, hfiles]
  simp only [c_str, List.takeWhile_nil, addtoken, if_true]
  rw [postLex_singleton _ hv1 hv2]

/-- The instance `"a\"+ b"` of C3: one token, escape and operator inside. -/
theorem tokenize_literal_witness :
    tokenize exampleHost "\"a\\\"+ b\"".toList "a.c".toList =
      some { tokens := [⟨"\"a\\\"+ b\"".toList, 1, 0, 0⟩], files := ["a.c".toList] } :=
  tokenize_literal exampleHost "a.c".toList '"' "a\\\"+ b".toList (Or.inr rfl) (by decide)
    (by decide)

/-- The claim C3 fails for a literal body with a NUL byte: the token text is cut at
the NUL, as `addtoken` takes a C string. -/
theorem tokenize_literal_nul_counterexample :
    wellEscaped '"' ['a', '\x00', 'b'] = true ∧
    tokenize exampleHost ['"', 'a', '\x00', 'b', '"'] "a.c".toList =
      some { tokens := [⟨['"', 'a'], 1, 0, 0⟩], files := ["a.c".toList] } ∧
    ¬ ∃ t, Option.map Tokenizer.tokens
        (tokenize exampleHost ['"', 'a', '\x00', 'b', '"'] "a.c".toList) = some [t] ∧
      t.str = ['"', 'a', '\x00', 'b', '"'] := by
  have hl : lex exampleHost ['"', 'a', '\x00', 'b', '"'] "a.c".toList =
      .done ⟨[⟨['"', 'a'], 1, 0, 0⟩], ["a.c".toList], 1, [], [], [], 0, []⟩ := by decide
  have ht : tokenize exampleHost ['"', 'a', '\x00', 'b', '"'] "a.c".toList =
      some { tokens := [⟨['"', 'a'], 1, 0, 0⟩], files := ["a.c".toList] } := by
    unfold tokenize
    rw [hl]
    simp only [c_str, List.takeWhile_nil, addtoken, if_true]
    rw [postLex_singleton _ (by decide) (by decide)]
  refine ⟨by decide, ht, ?_⟩
  rintro ⟨t, h1, h2⟩
  rw [ht] at h1
  simp only [Option.map_some', Option.some.injEq, List.cons.injEq, and_true] at h1
  subst h1
  revert h2
  decide

/-! ### `#` lines -/

/-- The `#` line loop reads a run of ordinary bytes up to the newline that ends
the line, and then dispatches on the line. -/
theorem lexHash_line (host : Host) (w : List Char) (hw : ∀ c ∈ w, hashByte c = true) :
    ∀ (st : LexState) (chPrev : Char) (line rest : List Char), chPrev ≠ '\\' →
      lexHash host st chPrev line (w ++ '\n' :: rest) =
        (hashDispatch host st (line ++ w) '\n').resume host rest := by
  induction w with
  | nil =>
    intro st chPrev line rest hp
    rw [List.nil_append, List.append_nil, lexHash, if_pos ⟨hp, rfl⟩]
    cases hashDispatch host st line '\n' <;> rfl
  | cons c w ih =>
    intro st chPrev line rest hp
    have hc := hw c (List.mem_cons_self _ _)
    simp only [hashByte, Bool.and_eq_true, Bool.not_eq_true', decide_eq_false_iff_not] at hc
    obtain ⟨⟨hc1, hc2⟩, hc3⟩ := hc
    have hp' : (if c ≠ ' ' then c else chPrev) ≠ '\\' := by
      split
      · exact hc2
      · exact hp
    rw [List.cons_append, lexHash, if_neg (fun h => hc1 h.2), if_neg (fun h => hc3 h.2)]
    simp only [hp, if_false, hc1, hc2, ne_eq, not_false_eq_true, and_self, if_true]
    have hst : { st with lineno := st.lineno } = st := rfl
    rw [hst, ih (fun d hd => hw d (List.mem_cons_of_mem _ hd)) st _ _ rest hp']
    simp

/-- A `#` at the start of a token, when the last token is not `#`, starts a `#` line. -/
theorem lexMain_hash (host : Host) (st : LexState) (code : List Char)
    (hcur : st.CurrentToken = []) (hback : backIs st.tokens ['#'] = false) :
    lexMain host st ('#' :: code) = lexHash host st '#' ['#'] code := by
  rw [lexMain_cons]
  simp [mainBody, hcur, hback, Next.resume]

/-- A whole `#` line of ordinary bytes: the lexer dispatches on its text. -/
theorem lexMain_hash_line (host : Host) (st : LexState) (w rest : List Char)
    (hcur : st.CurrentToken = []) (hback : backIs st.tokens ['#'] = false)
    (hw : ∀ c ∈ w, hashByte c = true) :
    lexMain host st ('#' :: (w ++ '\n' :: rest)) =
      (hashDispatch host st ('#' :: w) '\n').resume host rest := by
  rw [lexMain_hash host st _ hcur hback, lexHash_line host w hw st '#' ['#'] rest (by decide)]
  rfl

/-- The bytes of `#file "x"` behind the `#` are ordinary bytes of a `#` line. -/
theorem fileLine_hashByte (x : List Char) (hx : ∀ c ∈ x, pathByte c = true) :
    ∀ c ∈ fileLine x, hashByte c = true := by
  intro c hc
  unfold fileLine at hc
  rcases List.mem_append.1 hc with hc | hc
  · rcases List.mem_append.1 hc with hc | hc
    · exact (by decide : ∀ c ∈ "file \"".toList, hashByte c = true) c hc
    · have := hx c hc
      simp only [pathByte, Bool.and_eq_true] at this
      exact this.1
  · rw [List.mem_singleton.1 hc]
    decide

/-- The file name read off the line `#file "x"` is `x`. -/
theorem fileNameOf_fileLine (x : List Char) (hx : ∀ c ∈ x, pathByte c = true) :
    fileNameOf ('#' :: fileLine x) = x := by
  have hq : ∀ c ∈ x, (fun c => decide (c ≠ '"')) c = true := by
    intro c hc
    have := hx c hc
    simp only [pathByte, Bool.and_eq_true, Bool.not_eq_true', decide_eq_false_iff_not] at this
    simpa using this.2
  simp only [fileNameOf, fileLine, String.toList, List.cons_append, List.dropWhile_cons,
    List.nil_append]
  simp only [ne_eq, Char.reduceEq, not_false_eq_true, decide_True, if_true, not_true_eq_false,
    decide_False, Bool.false_eq_true, if_false, List.drop_succ_cons, List.drop_zero]
  rw [List.takeWhile_append_of_pos hq]
  simp

/-- Dispatch of the line `#file "x"`. -/
theorem hashDispatch_file (host : Host) (st : LexState) (x : List Char)
    (hx : ∀ c ∈ x, pathByte c = true) :
    hashDispatch host st ('#' :: fileLine x) '\n' =
      .main
        { st with
          files := filesWith host st.files x
          fileIndexes := st.FileIndex :: st.fileIndexes
          FileIndex := (findFile host x st.files 0).getD st.files.length
          lineNumbers := (st.lineno + 1) :: st.lineNumbers
          lineno := 1
          directives := st.directives ++ [.file] } := by
  have h5 : ('#' :: fileLine x).take 5 = "#file".toList := by
    simp [fileLine]
  have hq : '"' ∈ '#' :: fileLine x := by
    simp [fileLine]
  unfold hashDispatch
  rw [if_pos ⟨h5, hq⟩]
  unfold hashFile filesWith
  simp only [fileNameOf_fileLine x hx]
  cases findFile host x st.files 0 with
  | some i => rfl
  | none => simp

/-- Dispatch of the line `#endfile` with a non-empty include stack: pop it. -/
theorem hashDispatch_endfile (host : Host) (st : LexState) (lineno FileIndex : Nat)
    (lineNumbers fileIndexes : List Nat) (h1 : st.lineNumbers = lineno :: lineNumbers)
    (h2 : st.fileIndexes = FileIndex :: fileIndexes) :
    hashDispatch host st ('#' :: "endfile".toList) '\n' =
      .main
        { st with
          lineno := lineno, lineNumbers := lineNumbers
          FileIndex := FileIndex, fileIndexes := fileIndexes
          directives := st.directives ++ [.endfile] } := by
  unfold hashDispatch
  rw [if_neg (by decide), if_pos (by decide), h1, h2]

/-- Dispatch of the line `#endfile` with an empty include stack: the fatal exit. -/
theorem hashDispatch_endfile_empty (host : Host) (st : LexState)
    (h : st.lineNumbers = [] ∨ st.fileIndexes = []) :
    hashDispatch host st ('#' :: "endfile".toList) '\n' =
      .fatal { st with directives := st.directives ++ [.endfile] } := by
  unfold hashDispatch
  rw [if_neg (by decide), if_pos (by decide)]
  rcases h with h | h
  · rw [h]
  · rw [h]
    cases st.lineNumbers <;> rfl

/-- C6 (amended). A line `#file "x"` immediately followed by a line `#endfile`,
read at the start of a token: behind both lines the lexer is in the state it had
before the `#file` line (same tokens, same current file index, same include
stack), except that the line number is one higher, that `x` has joined the file
table if it was not in it, and that the two directives are in the history. -/
theorem file_endfile_restores (host : Host) (st : LexState) (x rest : List Char)
    (hcur : st.CurrentToken = []) (hback : backIs st.tokens ['#'] = false)
    (hx : ∀ c ∈ x, pathByte c = true) :
    lexMain host st
        ('#' :: (fileLine x ++ '\n' :: '#' :: ("endfile".toList ++ '\n' :: rest))) =
      lexMain host
        { st with
          lineno := st.lineno + 1
          files := filesWith host st.files x
          directives := st.directives ++ [.file, .endfile] } rest := by
  rw [lexMain_hash_line host st _ _ hcur hback (fileLine_hashByte x hx), hashDispatch_file host st x hx]
  simp only [AfterHash.resume]
  have hend := lexMain_hash_line host
    { st with
      files := filesWith host st.files x
      fileIndexes := st.FileIndex :: st.fileIndexes
      FileIndex := (findFile host x st.files 0).getD st.files.length
      lineNumbers := (st.lineno + 1) :: st.lineNumbers
      lineno := 1
      directives := st.directives ++ [.file] }
    "endfile".toList rest hcur hback (by decide)
  rw [hend, hashDispatch_endfile host _ (st.lineno + 1) st.FileIndex st.lineNumbers
    st.fileIndexes rfl rfl]
  simp [AfterHash.resume]

/-- An instance of C6: from the start state, `#file "x"` and `#endfile` lead to the
start state with line number 2 and `x` in the file table. -/
theorem file_endfile_restores_witness :
    lexMain exampleHost (initState exampleHost "a.c".toList)
        ('#' :: (fileLine "x".toList ++ '\n' :: '#' :: ("endfile".toList ++ '\n' :: []))) =
      lexMain exampleHost
        { initState exampleHost "a.c".toList with
          lineno := (initState exampleHost "a.c".toList).lineno + 1
          files := filesWith exampleHost (initState exampleHost "a.c".toList).files "x".toList
          directives := (initState exampleHost "a.c".toList).directives ++ [.file, .endfile] }
        [] :=
  file_endfile_restores exampleHost (initState exampleHost "a.c".toList) "x".toList [] rfl
    (by decide) (by decide)

/-- The claim C6 fails for the line number: before the line `#file "x"` it is 1,
behind the line `#endfile` it is 2; the file index is 0 before and after. -/
theorem file_endfile_line_counterexample :
    (initState exampleHost "a.c".toList).lineno = 1 ∧
    (initState exampleHost "a.c".toList).FileIndex = 0 ∧
    ∃ st, lex exampleHost "#file \"x\"\n#endfile\n".toList "a.c".toList = .done st ∧
      st.FileIndex = 0 ∧ st.lineno = 2 ∧
      st.lineno ≠ (initState exampleHost "a.c".toList).lineno :=
  ⟨rfl, rfl, ⟨[], ["a.c".toList, "x".toList], 2, [], [], [], 0, [.file, .endfile]⟩,
    by decide, rfl, rfl, by decide⟩

/-! ### Single steps of the main loop -/

/-- A blank ends the current token. -/
theorem lexMain_blank (host : Host) (st : LexState) (code : List Char) :
    lexMain host st (' ' :: code) = lexMain host (st.flush host) code := by
  have h1 : strchr opChars ' ' = false := by decide
  have h2 : isspace ' ' = true := by decide
  rw [lexMain_cons]
  simp [mainBody, mainTail, h1, spaceOrAppend, h2, Next.resume]

/-- A newline ends the current token and the line. -/
theorem lexMain_newline (host : Host) (st : LexState) (code : List Char) :
    lexMain host st ('\n' :: code) =
      lexMain host { st.flush host with lineno := st.lineno + 1 } code := by
  rw [lexMain_cons]
  simp [mainBody, Next.resume]

/-- An operator byte other than `#`, `+`, `-`, `>`, `.` ends the current token and
is a token of its own. -/
theorem lexMain_soloOp (host : Host) (st : LexState) (c : Char) (code : List Char)
    (hc : soloOp c = true) :
    lexMain host st (c :: code) =
      lexMain host (LexState.flush host { st.flush host with CurrentToken := [c] }) code := by
  have hfacts : ∀ c, soloOp c = true →
      c.toNat < 128 ∧ c ≠ '\n' ∧ c ≠ '\'' ∧ c ≠ '"' ∧ c ≠ '#' ∧ strchr opChars c = true ∧
        c ≠ '.' ∧ strchr ['+', '-'] c = false ∧ c ≠ '+' ∧ c ≠ '-' ∧ c ≠ '>' := by
    intro c hc
    simp only [soloOp, decide_eq_true_eq] at hc
    revert c
    decide
  obtain ⟨h1, h2, h3, h4, h5, h6, h7, h8, h9, h10, h11⟩ := hfacts c hc
  have hlt : ¬(128 ≤ c.toNat) := by omega
  rw [lexMain_cons]
  simp [mainBody, hlt, h2, h3, h4, h5, mainTail, h6, h7, h8, h9, h10, h11, Next.resume]

/-! ### A nested `#file` block -/

/-- The search of the file table fails when no entry is the same file. -/
theorem findFile_none (host : Host) (name : List Char) (files : List (List Char))
    (h : ∀ f ∈ files, host.SameFileName (c_str f) (c_str name) = false) (i : Nat) :
    findFile host name files i = none := by
  induction files generalizing i with
  | nil => rfl
  | cons f fs ih =>
    rw [findFile, ih (fun g hg => h g (List.mem_cons_of_mem _ hg))]
    simp [h f (List.mem_cons_self _ _)]

/-! ### Invariants of the lexer loop -/

/-- Flushing the current token keeps an invariant. -/
theorem inv_flush {host : Host} {I F : LexState → Prop}
    (inv : LexInvariant host I F) (st : LexState) (h : I st) : I (st.flush host) :=
  inv.cur _ [] (inv.add st (c_str st.CurrentToken) h)

/-- The end of the loop body keeps an invariant. -/
theorem inv_mainTail {host : Host} {I F : LexState → Prop}
    (inv : LexInvariant host I F) (st : LexState) (ch : Char) (peek : Option Char)
    (h : I st) : I (mainTail host st ch peek).1 := by
  have hsp : I (spaceOrAppend host st ch) := by
    unfold spaceOrAppend
    split
    · exact inv_flush inv st h
    · exact inv.cur st _ h
  unfold mainTail
  split
  · split
    · exact hsp
    · split
      · exact hsp
      · exact inv_flush inv _ (inv.cur _ _ (inv_flush inv st h))
  · exact hsp

/-- One pass of the literal loop keeps an invariant. -/
theorem inv_literalBody {host : Host} {I F : LexState → Prop}
    (inv : LexInvariant host I F) (st : LexState) (special : Bool) (c : Char)
    (h : I st) : I (literalBody st special c).1 := by
  unfold literalBody
  by_cases hc : c = '\n'
  · simp only [hc, if_true]
    exact inv.cur _ _ (inv.line st h)
  · simp only [hc, if_false]
    exact inv.cur st _ h

/-- The end of a literal keeps an invariant. -/
theorem inv_literalEnd {host : Host} {I F : LexState → Prop}
    (inv : LexInvariant host I F) (st : LexState) (quote : Char) (h : I st) :
    I (literalEnd host st quote) :=
  inv_flush inv _ (inv.cur st _ h)

/-- The loop body keeps an invariant. -/
theorem inv_mainBody {host : Host} {I F : LexState → Prop}
    (inv : LexInvariant host I F) (st : LexState) (ch : Char) (peek : Option Char)
    (h : I st) : I (mainBody host st ch peek).state := by
  unfold mainBody
  split
  · exact h
  · split
    · exact inv.line _ (inv_flush inv st h)
    · split
      · exact inv_literalBody inv _ _ _ (inv_flush inv st h)
      · split
        · split
          · exact inv.back st h
          · exact h
        · exact inv_mainTail inv st ch peek h

/-- The dispatch of a `#` line keeps an invariant, or ends in `F`. -/
theorem inv_hashDispatch {host : Host} {I F : LexState → Prop}
    (inv : LexInvariant host I F) (st : LexState) (line : List Char) (ch : Char)
    (h : I st) : (hashDispatch host st line ch).Holds I F := by
  unfold hashDispatch
  split
  · exact inv.file st line h
  · split
    · split
      · rename_i l ls f fs h1 h2
        exact inv.pop st l f ls fs h h1 h2
      · rename_i hne
        apply inv.fatal st h
        cases h1 : st.lineNumbers with
        | nil => exact Or.inl rfl
        | cons l ls =>
          cases h2 : st.fileIndexes with
          | nil => exact Or.inr rfl
          | cons f fs => exact absurd h2 (hne l ls f fs h1)
    · exact inv_mainTail inv _ ch none (inv.add st (c_str line) h)

/-- Every invariant of the elementary updates holds when the lexer stops, whatever
loop it starts in: `I` at the end of the stream, `F` at the fatal exit. -/
theorem inv_lex_all {host : Host} {I F : LexState → Prop}
    (inv : LexInvariant host I F) (n : Nat) :
    ∀ code : List Char, code.length = n →
      (∀ st, I st → (lexMain host st code).Holds I F) ∧
      (∀ st quote special, I st → (lexLiteral host st quote special code).Holds I F) ∧
      (∀ st chPrev line, I st → (lexHash host st chPrev line code).Holds I F) := by
  induction n using Nat.strong_induction_on with
  | _ n ih =>
    intro code hn
    cases code with
    | nil =>
      refine ⟨?_, ?_, ?_⟩
      · intro st h
        rw [lexMain]
        exact h
      · intro st quote special h
        rw [lexLiteral]
        exact inv_literalEnd inv st quote h
      · intro st chPrev line h
        rw [lexHash]
        have hd := inv_hashDispatch inv st
          ((if chPrev = '\\' then line ++ [chPrev] else line) ++ [EOFchar]) EOFchar h
        cases hdis : hashDispatch host st
            ((if chPrev = '\\' then line ++ [chPrev] else line) ++ [EOFchar]) EOFchar with
        | main st1 => rw [hdis] at hd; exact hd
        | fatal st1 => rw [hdis] at hd; exact hd
    | cons c rest =>
      simp only [List.length_cons] at hn
      have ihr := ih rest.length (by omega) rest rfl
      refine ⟨?_, ?_, ?_⟩
      · intro st h
        rw [lexMain_cons]
        have hb := inv_mainBody inv st c rest.head? h
        cases hm : mainBody host st c rest.head? with
        | main st1 eat =>
          rw [hm] at hb
          simp only [Next.resume]
          cases eat with
          | false => exact ihr.1 st1 hb
          | true =>
            cases rest with
            | nil => exact ihr.1 st1 hb
            | cons d rest2 =>
              exact (ih rest2.length (by simp only [List.length_cons] at hn; omega) rest2 rfl).1
                st1 hb
        | literal st1 quote special =>
          rw [hm] at hb
          exact ihr.2.1 st1 quote special hb
        | hash st1 chPrev line =>
          rw [hm] at hb
          exact ihr.2.2 st1 chPrev line hb
      · intro st quote special h
        rw [lexLiteral]
        split
        · exact ihr.2.1 _ _ _ (inv_literalBody inv st special c h)
        · exact ihr.1 _ (inv_literalEnd inv st quote h)
      · intro st chPrev line h
        rw [lexHash]
        split
        · have hd := inv_hashDispatch inv st line c h
          cases hdis : hashDispatch host st line c with
          | main st1 => rw [hdis] at hd; exact ihr.1 st1 hd
          | fatal st1 => rw [hdis] at hd; exact hd
        · simp only
          split
          · exact ihr.1 _ (inv.add st _ h)
          · apply ihr.2.2
            by_cases hc : c = '\n'
            · simp only [hc, if_true]
              exact inv.line st h
            · simp only [hc, if_false]
              exact h

/-- An invariant of the elementary updates that holds at the start holds for the
outcome of the lexer. -/
theorem inv_lex {host : Host} {I F : LexState → Prop}
    (inv : LexInvariant host I F) (code FileName : List Char)
    (h : I (initState host FileName)) : (lex host code FileName).Holds I F :=
  (inv_lex_all inv code.length code rfl).1 _ h

/-! ### What the lexer and the passes do to single tokens -/

/-- A token of the list after `addtoken` is an old one, or the new one: its text
is not empty and it has the given line (modulo 2^32) and file. -/
theorem mem_addtoken {host : Host} {tokens : List Token} {s : List Char} {l f : Nat}
    {t : Token} (h : t ∈ addtoken host tokens s l f) :
    t ∈ tokens ∨ (t.str ≠ [] ∧ t.linenr = l % 2 ^ 32 ∧ t.fileIndex = f) := by
  unfold addtoken at h
  split at h
  · exact Or.inl h
  · rename_i hs
    rcases List.mem_append.1 h with h | h
    · exact Or.inl h
    · right
      rw [List.mem_singleton.1 h]
      refine ⟨?_, rfl, rfl⟩
      simp only
      split
      · exact (decimal_digits _).1
      · exact hs

/-- A token of the list after `_tokensBack->str(w)` is an old one, or an old one
with the text `w`. -/
theorem mem_setBackStr {tokens : List Token} {w : List Char} {t : Token}
    (h : t ∈ setBackStr tokens w) :
    t ∈ tokens ∨ ∃ t0 ∈ tokens, t = { t0 with str := w } := by
  unfold setBackStr at h
  split at h
  · rename_i t0 h0
    rcases List.mem_append.1 h with h | h
    · exact Or.inl (List.mem_of_mem_dropLast h)
    · exact Or.inr ⟨t0, List.mem_of_getLast?_eq_some h0, List.mem_singleton.1 h⟩
  · exact Or.inl h

/-- The `#file` branch leaves the token list alone. -/
theorem hashFile_tokens (host : Host) (st : LexState) (line : List Char) :
    (hashFile host st line).tokens = st.tokens := by
  unfold hashFile
  simp only
  split <;> rfl

/-- Every fused text of the table is non-empty. -/
theorem combineWithNext_result_ne_nil : ∀ e ∈ combineWithNext, e.2.2 ≠ [] := by
  decide

/-- A property of tokens that a change of the text to a non-empty text keeps is
kept by fusion. -/
theorem Fusion.forall {P : Token → Prop}
    (hstr : ∀ (t : Token) (s : List Char), P t → s ≠ [] → P { t with str := s })
    {ts out : List Token} (hf : Fusion ts out) (h : ∀ t ∈ ts, P t) : ∀ t ∈ out, P t := by
  induction hf with
  | nil => exact h
  | keep t _ ih =>
    intro x hx
    rcases List.mem_cons.1 hx with rfl | hx
    · exact h _ (List.mem_cons_self _ _)
    · exact ih (fun y hy => h y (List.mem_cons_of_mem _ hy)) x hx
  | fuse t n e he _ _ _ ih =>
    intro x hx
    rcases List.mem_cons.1 hx with rfl | hx
    · exact hstr t _ (h t (List.mem_cons_self _ _)) (combineWithNext_result_ne_nil e he)
    · exact ih (fun y hy => h y (List.mem_cons_of_mem _ (List.mem_cons_of_mem _ hy))) x hx

/-- A name is not the empty text. -/
theorem matchType_ne_nil (t : Token) (h : matchType t = true) : t.str ≠ [] := by
  intro hs
  simp only [matchType, hs, isName] at h
  simp at h

/-- Renaming keeps a property that a change of the text keeps. -/
theorem replaceType_forall {P : Token → Prop} (type1 type2 : List Char)
    (h1 : ∀ t : Token, P t → P { t with str := type1 }) (ts : List Token)
    (h : ∀ t ∈ ts, P t) : ∀ t ∈ replaceType type1 type2 ts, P t := by
  induction ts with
  | nil => intro t ht; cases ht
  | cons a ts ih =>
    intro t ht
    rw [replaceType] at ht
    rcases List.mem_cons.1 ht with rfl | ht
    · split
      · exact h1 a (h a (List.mem_cons_self _ _))
      · exact h a (List.mem_cons_self _ _)
    · exact ih (fun y hy => h y (List.mem_cons_of_mem _ hy)) t ht

/-- Expansion keeps a property that a change of the text and an insertion keep. -/
theorem expandType_forall {P : Token → Prop} (type1 type2 type3 : List Char)
    (h1 : ∀ t : Token, P t → P { t with str := type1 })
    (h2 : ∀ t : Token, P t → P (t.inserted type2)) (ts : List Token)
    (h : ∀ t ∈ ts, P t) : ∀ t ∈ expandType type1 type2 type3 ts, P t := by
  induction ts with
  | nil => intro t ht; cases ht
  | cons a ts ih =>
    intro t ht
    have ha := h a (List.mem_cons_self _ _)
    have iht := ih (fun y hy => h y (List.mem_cons_of_mem _ hy))
    rw [expandType] at ht
    split at ht
    · rcases List.mem_cons.1 ht with rfl | ht
      · exact h1 a ha
      · rcases List.mem_cons.1 ht with rfl | ht
        · exact h2 _ (h1 a ha)
        · exact iht t ht
    · rcases List.mem_cons.1 ht with rfl | ht
      · exact ha
      · exact iht t ht

/-- The `typedef` loop keeps every property of tokens that a change of the text to
a non-empty text and the insertion of a token with a non-empty text keep. -/
theorem typedefPass_forall {P : Token → Prop}
    (hstr : ∀ (t : Token) (s : List Char), P t → s ≠ [] → P { t with str := s })
    (hins : ∀ (t : Token) (s : List Char), P t → s ≠ [] → P (t.inserted s))
    (ts : List Token) (h : ∀ t ∈ ts, P t) : ∀ t ∈ typedefPass ts, P t := by
  induction ts using typedefPass.induct with
  | case1 ts hm ih =>
    obtain ⟨tok, t1, t2, t3, rest, rfl, -, h1, -, -⟩ := matchTypedef2_shape ts hm
    rw [typedefPass, if_pos hm]
    intro t ht
    rcases List.mem_append.1 ht with ht | ht
    · exact h t (List.mem_of_mem_take ht)
    · refine ih ?_ t ht
      apply replaceType_forall
      · intro a ha
        exact hstr a _ ha (by simpa [strAt] using matchType_ne_nil t1 h1)
      · intro a ha
        exact h a (List.mem_of_mem_drop ha)
  | case2 ts hm2 hm ih =>
    obtain ⟨tok, t1, t2, t3, t4, rest, rfl, -, h1, h2, -, -⟩ := matchTypedef3_shape ts hm
    rw [typedefPass, if_neg hm2, if_pos hm]
    intro t ht
    rcases List.mem_append.1 ht with ht | ht
    · exact h t (List.mem_of_mem_take ht)
    · refine ih ?_ t ht
      apply expandType_forall
      · intro a ha
        exact hstr a _ ha (by simpa [strAt] using matchType_ne_nil t1 h1)
      · intro a ha
        exact hins a _ ha (by simpa [strAt] using matchType_ne_nil t2 h2)
      · intro a ha
        exact h a (List.mem_of_mem_drop ha)
  | case3 hm2 hm3 =>
    rw [typedefPass, if_neg hm2, if_neg hm3]
    exact h
  | case4 tok rest hm2 hm3 ih =>
    rw [typedefPass, if_neg hm2, if_neg hm3]
    intro t ht
    rcases List.mem_cons.1 ht with rfl | ht
    · exact h _ (List.mem_cons_self _ _)
    · exact ih (fun y hy => h y (List.mem_cons_of_mem _ hy)) t ht

/-- The `__asm` loop only deletes tokens. -/
theorem asm_subset (ts : List Token) :
    (∀ t ∈ asmFrom ts, t ∈ ts) ∧ (∀ t ∈ asmDelete ts, t ∈ ts) := by
  induction ts with
  | nil =>
    constructor
    · intro t ht; rw [asmFrom] at ht; exact ht
    · intro t ht; rw [asmDelete] at ht; exact ht
  | cons a ts ih =>
    constructor
    · intro t ht
      rw [asmFrom] at ht
      split at ht
      · rcases List.mem_cons.1 ht with rfl | ht
        · exact List.mem_cons_self _ _
        · exact List.mem_cons_of_mem _ (ih.2 t ht)
      · rcases List.mem_cons.1 ht with rfl | ht
        · exact List.mem_cons_self _ _
        · exact List.mem_cons_of_mem _ (ih.1 t ht)
    · intro t ht
      rw [asmDelete] at ht
      split at ht
      · exact List.mem_cons_of_mem _ (ih.1 t ht)
      · exact List.mem_cons_of_mem _ (ih.2 t ht)

/-- The passes behind the lexer keep every property of tokens that a change of the
text to a non-empty text and the insertion of a token with a non-empty text keep. -/
theorem postLex_forall {P : Token → Prop}
    (hstr : ∀ (t : Token) (s : List Char), P t → s ≠ [] → P { t with str := s })
    (hins : ∀ (t : Token) (s : List Char), P t → s ≠ [] → P (t.inserted s))
    (ts : List Token) (h : ∀ t ∈ ts, P t) : ∀ t ∈ postLex ts, P t := by
  intro t ht
  rw [postLex_eq_filter] at ht
  have h1 := (List.mem_filter.1 ht).1
  unfold beforeNoise at h1
  have h2 := (asm_subset _).1 t h1
  exact typedefPass_forall hstr hins _ (Fusion.forall hstr (combine_fusion ts) h) t h2

/-! ### C1: no empty token -/

/-- The property "no token has an empty text" is an invariant of the lexer. -/
theorem nonEmpty_invariant (host : Host) :
    LexInvariant host (fun st => ∀ t ∈ st.tokens, t.str ≠ []) (fun _ => True) where
  cur := fun _ _ h => h
  line := fun _ h => h
  add := by
    intro st s h t ht
    rcases mem_addtoken ht with ht | ht
    · exact h t ht
    · exact ht.1
  back := by
    intro st h t ht
    rcases mem_setBackStr ht with ht | ⟨t0, -, rfl⟩
    · exact h t ht
    · simp
  file := by
    intro st line h t ht
    rw [hashFile_tokens] at ht
    exact h t ht
  pop := fun _ _ _ _ _ h _ _ => h
  fatal := fun _ _ _ => trivial

/-- C1. For every byte stream and file name, after `tokenize` no token of the
stream has an empty text. -/
theorem tokenize_no_empty_token (host : Host) (code FileName : List Char) (r : Tokenizer)
    (h : tokenize host code FileName = some r) : ∀ t ∈ r.tokens, t.str ≠ [] := by
  obtain ⟨st, hl, ht, -⟩ := tokenize_eq_some h
  have hinv := inv_lex (nonEmpty_invariant host) code FileName
    (by intro t ht; cases ht)
  rw [hl] at hinv
  rw [ht]
  apply postLex_forall
  · intro t s _ hs
    exact hs
  · intro t s _ hs
    exact hs
  · intro t ht
    rcases mem_addtoken ht with ht | ht
    · exact hinv t ht
    · exact ht.1

/-! ### C2: valid origins -/

/-- An index found in the file table lies inside it. -/
theorem findFile_lt (host : Host) (name : List Char) (files : List (List Char)) (i j : Nat)
    (h : findFile host name files i = some j) : j < i + files.length := by
  induction files generalizing i with
  | nil => rw [findFile] at h; cases h
  | cons f fs ih =>
    rw [findFile] at h
    simp only [List.length_cons]
    cases hr : findFile host name fs (i + 1) with
    | some k =>
      rw [hr] at h
      simp only [Option.some.injEq] at h
      have := ih (i + 1) (h ▸ hr)
      omega
    | none =>
      rw [hr] at h
      simp only at h
      split at h
      · simp only [Option.some.injEq] at h
        omega
      · cases h

/-- The property "all file indexes are valid" is an invariant of the lexer. -/
theorem validOrigins_invariant (host : Host) :
    LexInvariant host ValidOrigins (fun _ => True) where
  cur := fun _ _ h => h
  line := fun _ h => h
  add := by
    intro st s h
    obtain ⟨h1, h3, h5⟩ := h
    refine ⟨?_, h3, h5⟩
    intro t ht
    rcases mem_addtoken ht with ht | ht
    · exact h1 t ht
    · rw [ht.2.2]
      exact h3
  back := by
    intro st h
    obtain ⟨h1, h3, h5⟩ := h
    refine ⟨?_, h3, h5⟩
    intro t ht
    rcases mem_setBackStr ht with ht | ⟨t0, ht0, rfl⟩
    · exact h1 t ht
    · exact h1 t0 ht0
  file := by
    intro st line h
    obtain ⟨h1, h3, h5⟩ := h
    unfold hashFile
    simp only
    cases hf : findFile host (fileNameOf line) st.files 0 with
    | some i =>
      have hi := findFile_lt host _ _ 0 i hf
      refine ⟨h1, ?_, ?_⟩
      · show i < st.files.length
        omega
      · intro k hk
        rcases List.mem_cons.1 hk with rfl | hk
        · exact h3
        · exact h5 k hk
    | none =>
      have hlen : (st.files ++ [host.simplifyPath (c_str (fileNameOf line))]).length =
          st.files.length + 1 := by simp
      refine ⟨?_, ?_, ?_⟩
      · intro t ht
        have := h1 t ht
        show t.fileIndex < (st.files ++ [host.simplifyPath (c_str (fileNameOf line))]).length
        rw [hlen]
        omega
      · show (st.files ++ [host.simplifyPath (c_str (fileNameOf line))]).length - 1 <
          (st.files ++ [host.simplifyPath (c_str (fileNameOf line))]).length
        rw [hlen]
        omega
      · intro k hk
        show k < (st.files ++ [host.simplifyPath (c_str (fileNameOf line))]).length
        rw [hlen]
        rcases List.mem_cons.1 hk with rfl | hk
        · omega
        · have := h5 k hk
          omega
  pop := by
    intro st l f ls fs h hl hf
    obtain ⟨h1, h3, h5⟩ := h
    rw [hf] at h5
    exact ⟨h1, h5 f (List.mem_cons_self _ _), fun k hk => h5 k (List.mem_cons_of_mem _ hk)⟩
  fatal := fun _ _ _ => trivial

/-- The newline bytes of a stream: one more for a newline in front. -/
theorem newlines_cons (c : Char) (rest : List Char) :
    newlines (c :: rest) = newlines rest + (if c = '\n' then 1 else 0) := by
  unfold newlines
  rw [List.count_cons]
  simp only [beq_iff_eq]

/-- Room for more lines is room for fewer. -/
theorem linesWithin_le {k m : Nat} (hkm : k ≤ m) (st : LexState) (h : LinesWithin m st) :
    LinesWithin k st := by
  obtain ⟨h1, h2, h3, h4⟩ := h
  refine ⟨h1, h2, by omega, fun n hn => ⟨(h4 n hn).1, ?_⟩⟩
  have := (h4 n hn).2
  omega

/-- The statement `++lineno` uses up the room for one line. -/
theorem linesWithin_line (k : Nat) (st : LexState) (h : LinesWithin (k + 1) st) :
    LinesWithin k { st with lineno := st.lineno + 1 } := by
  obtain ⟨h1, h2, h3, h4⟩ := h
  refine ⟨h1, Nat.le_succ_of_le h2, ?_, fun n hn => ⟨(h4 n hn).1, ?_⟩⟩
  · show st.lineno + 1 + k < 2 ^ 32
    omega
  · have := (h4 n hn).2
    omega

/-- The call `addtoken(s, lineno, FileIndex)` adds a token with the current line, which is
at least 1 and below 2^32. -/
theorem linesWithin_add (host : Host) (k : Nat) (st : LexState) (s : List Char)
    (h : LinesWithin k st) :
    LinesWithin k { st with tokens := addtoken host st.tokens s st.lineno st.FileIndex } := by
  obtain ⟨h1, h2, h3, h4⟩ := h
  refine ⟨?_, h2, h3, h4⟩
  intro t ht
  rcases mem_addtoken ht with ht | ht
  · exact h1 t ht
  · rw [ht.2.1, Nat.mod_eq_of_lt (by omega)]
    exact h2

/-- Flushing the current token keeps the room. -/
theorem linesWithin_flush (host : Host) (k : Nat) (st : LexState) (h : LinesWithin k st) :
    LinesWithin k (st.flush host) :=
  linesWithin_add host k st (c_str st.CurrentToken) h

/-- The end of the loop body keeps the room. -/
theorem linesWithin_mainTail (host : Host) (k : Nat) (st : LexState) (ch : Char)
    (peek : Option Char) (h : LinesWithin k st) : LinesWithin k (mainTail host st ch peek).1 := by
  have hsp : LinesWithin k (spaceOrAppend host st ch) := by
    unfold spaceOrAppend
    split
    · exact linesWithin_flush host k st h
    · exact h
  unfold mainTail
  split
  · split
    · exact hsp
    · split
      · exact hsp
      · exact linesWithin_flush host k _ (linesWithin_flush host k st h)
  · exact hsp

/-- The `#file` branch uses up the room for one line: it saves the next line and goes on
at line 1. -/
theorem linesWithin_file (host : Host) (k : Nat) (st : LexState) (line : List Char)
    (h : LinesWithin (k + 1) st) : LinesWithin k (hashFile host st line) := by
  obtain ⟨h1, h2, h3, h4⟩ := h
  have hn : ∀ n ∈ (st.lineno + 1) :: st.lineNumbers, 1 ≤ n ∧ n + k < 2 ^ 32 := by
    intro n hn
    rcases List.mem_cons.1 hn with rfl | hn
    · omega
    · have := h4 n hn
      omega
  unfold hashFile
  simp only
  split
  · exact ⟨h1, le_refl 1, by show 1 + k < 2 ^ 32; omega, hn⟩
  · exact ⟨h1, le_refl 1, by show 1 + k < 2 ^ 32; omega, hn⟩

/-- The dispatch of a `#` line that ends with a newline uses up the room for one line at
most. -/
theorem linesWithin_hashDispatch (host : Host) (k : Nat) (st : LexState) (line : List Char)
    (ch : Char) (h : LinesWithin (k + 1) st) :
    (hashDispatch host st line ch).Holds (LinesWithin k) (fun _ => True) := by
  have h0 := linesWithin_le (Nat.le_succ k) st h
  unfold hashDispatch
  split
  · exact linesWithin_file host k st line h
  · split
    · split
      · rename_i l ls f fs hl hf
        obtain ⟨h1, h2, h3, h4⟩ := h0
        rw [hl] at h4
        exact ⟨h1, (h4 l (List.mem_cons_self _ _)).1, (h4 l (List.mem_cons_self _ _)).2,
          fun n hn => h4 n (List.mem_cons_of_mem _ hn)⟩
      · trivial
    · exact linesWithin_mainTail host k _ ch none (linesWithin_add host k st (c_str line) h0)

/-- With no room left the lines are still valid at the end of the stream. -/
theorem linesWithin_end (st : LexState) (h : LinesWithin 0 st) : LinesAtEnd st :=
  ⟨h.1, Or.inr ⟨h.2.1, h.2.2.1⟩⟩

/-- The dispatch of a `#` line that ends with the stream: the `#file` branch counts a
line, but no token gets its number, as the current token is empty. -/
theorem linesAtEnd_hashDispatch (host : Host) (st : LexState) (line : List Char) (ch : Char)
    (h : LinesWithin 0 st) (hcur : st.CurrentToken = []) :
    (hashDispatch host st line ch).Holds LinesAtEnd (fun _ => True) := by
  unfold hashDispatch
  split
  · refine ⟨?_, Or.inl ?_⟩
    · rw [hashFile_tokens]
      exact h.1
    · unfold hashFile
      simp only
      split <;> exact hcur
  · split
    · split
      · rename_i l ls f fs hl hf
        obtain ⟨h1, h2, h3, h4⟩ := h
        exact ⟨h1, Or.inl hcur⟩
      · trivial
    · exact linesWithin_end _
        (linesWithin_mainTail host 0 _ ch none (linesWithin_add host 0 st (c_str line) h))

/-- The loop body uses up the room for one line when the byte is a newline, and enters
the loop of a `#` line only with an empty current token. -/
theorem linesWithin_mainBody (host : Host) (st : LexState) (c : Char) (rest : List Char)
    (peek : Option Char) (h : LinesWithin (newlines (c :: rest)) st) :
    LinesWithin (newlines rest) (mainBody host st c peek).state ∧
    ∀ st1 chPrev line, mainBody host st c peek = .hash st1 chPrev line →
      st1.CurrentToken = [] := by
  have hle : newlines rest ≤ newlines (c :: rest) := by
    rw [newlines_cons]
    omega
  have h0 := linesWithin_le hle st h
  unfold mainBody
  split
  · exact ⟨h0, fun _ _ _ e => (by cases e)⟩
  · split
    · rename_i hc
      refine ⟨?_, fun _ _ _ e => (by cases e)⟩
      rw [newlines_cons, if_pos hc] at h
      exact linesWithin_line _ _ (linesWithin_flush host _ st h)
    · split
      · refine ⟨?_, fun _ _ _ e => (by cases e)⟩
        rename_i hc _
        show LinesWithin (newlines rest) (literalBody (st.flush host) false c).1
        unfold literalBody
        simp only [hc, if_false]
        exact linesWithin_flush host _ st h0
      · split
        · rename_i hh
          split
          · exact ⟨⟨fun t ht => by
                rcases mem_setBackStr ht with ht | ⟨t0, ht0, rfl⟩
                · exact h0.1 t ht
                · exact h0.1 t0 ht0, h0.2⟩, fun _ _ _ e => (by cases e)⟩
          · refine ⟨h0, fun st1 chPrev line e => ?_⟩
            cases e
            exact hh.2
        · exact ⟨linesWithin_mainTail host _ st c peek h0, fun _ _ _ e => (by cases e)⟩

/-- The lexer keeps the line numbers valid when the stream has room for its newlines:
whatever loop it starts in with room for the newline bytes of the rest of the stream, at
the end of the stream every token has a line number of at least 1. -/
theorem linesWithin_lex_all (host : Host) (n : Nat) :
    ∀ code : List Char, code.length = n →
      (∀ st, LinesWithin (newlines code) st →
        (lexMain host st code).Holds LinesAtEnd (fun _ => True)) ∧
      (∀ st quote special, LinesWithin (newlines code) st →
        (lexLiteral host st quote special code).Holds LinesAtEnd (fun _ => True)) ∧
      (∀ st chPrev line, LinesWithin (newlines code) st → st.CurrentToken = [] →
        (lexHash host st chPrev line code).Holds LinesAtEnd (fun _ => True)) := by
  induction n using Nat.strong_induction_on with
  | _ n ih =>
    intro code hn
    cases code with
    | nil =>
      refine ⟨?_, ?_, ?_⟩
      · intro st h
        rw [lexMain]
        exact linesWithin_end st h
      · intro st quote special h
        rw [lexLiteral]
        exact linesWithin_end _ (linesWithin_flush host 0 _ h)
      · intro st chPrev line h hcur
        rw [lexHash]
        have hd := linesAtEnd_hashDispatch host st
          ((if chPrev = '\\' then line ++ [chPrev] else line) ++ [EOFchar]) EOFchar h hcur
        cases hdis : hashDispatch host st
            ((if chPrev = '\\' then line ++ [chPrev] else line) ++ [EOFchar]) EOFchar with
        | main st1 => rw [hdis] at hd; exact hd
        | fatal st1 => trivial
    | cons c rest =>
      simp only [List.length_cons] at hn
      have ihr := ih rest.length (by omega) rest rfl
      have hle : newlines rest ≤ newlines (c :: rest) := by
        rw [newlines_cons]
        omega
      refine ⟨?_, ?_, ?_⟩
      · intro st h
        rw [lexMain_cons]
        obtain ⟨hb, hcur⟩ := linesWithin_mainBody host st c rest rest.head? h
        cases hm : mainBody host st c rest.head? with
        | main st1 eat =>
          rw [hm] at hb
          simp only [Next.resume]
          cases eat with
          | false => exact ihr.1 st1 hb
          | true =>
            cases rest with
            | nil => exact ihr.1 st1 hb
            | cons d rest2 =>
              refine (ih rest2.length (by simp only [List.length_cons] at hn; omega) rest2
                rfl).1 st1 (linesWithin_le ?_ st1 hb)
              rw [newlines_cons]
              omega
        | literal st1 quote special =>
          rw [hm] at hb
          exact ihr.2.1 st1 quote special hb
        | hash st1 chPrev line =>
          rw [hm] at hb
          exact ihr.2.2 st1 chPrev line hb (hcur st1 chPrev line hm)
      · intro st quote special h
        rw [lexLiteral]
        split
        · apply ihr.2.1
          unfold literalBody
          by_cases hc : c = '\n'
          · rw [newlines_cons, if_pos hc] at h
            simp only [hc, if_true]
            exact linesWithin_line _ _ h
          · simp only [hc, if_false]
            exact linesWithin_le hle st h
        · exact ihr.1 _ (linesWithin_flush host _ _ (linesWithin_le hle st h))
      · intro st chPrev line h hcur
        rw [lexHash]
        split
        · rename_i hc
          rw [newlines_cons, if_pos hc.2] at h
          have hd := linesWithin_hashDispatch host (newlines rest) st line c h
          cases hdis : hashDispatch host st line c with
          | main st1 => rw [hdis] at hd; exact ihr.1 st1 hd
          | fatal st1 => trivial
        · simp only
          split
          · exact ihr.1 _ (linesWithin_add host _ st _ (linesWithin_le hle st h))
          · apply ihr.2.2
            · by_cases hc : c = '\n'
              · rw [newlines_cons, if_pos hc] at h
                simp only [hc, if_true]
                exact linesWithin_line _ _ h
              · simp only [hc, if_false]
                exact linesWithin_le hle st h
            · exact hcur

/-- The main loop on a run of newlines at the start of a token: the lines are counted. -/
theorem lexMain_newlines (host : Host) (n : Nat) :
    ∀ (st : LexState) (code : List Char), st.CurrentToken = [] →
      lexMain host st (List.replicate n '\n' ++ code) =
        lexMain host { st with lineno := st.lineno + n } code := by
  induction n with
  | zero => intro st code _; rfl
  | succ n ih =>
    intro st code hcur
    have hflush : st.flush host = st := by
      cases st
      simp only at hcur
      subst hcur
      rfl
    have h1 := lexMain_newline host st (List.replicate n '\n' ++ code)
    rw [hflush] at h1
    rw [List.replicate_succ, List.cons_append, h1]
    refine (ih { st with lineno := st.lineno + 1 } code hcur).trans ?_
    congr 1
    simp only [LexState.mk.injEq, true_and, and_true]
    omega

/-- C2 (amended). For every input on which `tokenize` does not take the fatal `#endfile`
exit, every token of the resulting stream has a file index smaller than the size of the
file table; and when the input has fewer than 2^32 - 1 newline bytes, every token has a
line number of at least 1. -/
theorem tokenize_valid_origins (host : Host) (code FileName : List Char) (r : Tokenizer)
    (h : tokenize host code FileName = some r) :
    (∀ t ∈ r.tokens, t.fileIndex < r.files.length) ∧
    (newlines code + 1 < 2 ^ 32 → ∀ t ∈ r.tokens, 1 ≤ t.linenr) := by
  obtain ⟨st, hl, ht, hfiles⟩ := tokenize_eq_some h
  refine ⟨?_, fun hroom => ?_⟩
  · have hinit : ValidOrigins (initState host FileName) := by
      unfold ValidOrigins initState
      simp
    have hinv := inv_lex (validOrigins_invariant host) code FileName hinit
    rw [hl] at hinv
    obtain ⟨h1, h3, -⟩ := hinv
    rw [ht, hfiles]
    apply postLex_forall (P := fun t => t.fileIndex < st.files.length)
    · intro t s ht _
      exact ht
    · intro t s ht _
      exact ht
    · intro t ht
      rcases mem_addtoken ht with ht | ht
      · exact h1 t ht
      · rw [ht.2.2]
        exact h3
  · have hinit : LinesWithin (newlines code) (initState host FileName) := by
      refine ⟨fun t ht => (by cases ht), le_refl 1, ?_, fun n hn => (by cases hn)⟩
      show 1 + newlines code < 2 ^ 32
      omega
    have hinv := (linesWithin_lex_all host code.length code rfl).1 _ hinit
    unfold lex at hl
    rw [hl] at hinv
    obtain ⟨h1, h2⟩ := hinv
    rw [ht]
    apply postLex_forall (P := fun t => 1 ≤ t.linenr)
    · intro t s ht _
      exact ht
    · intro t s ht _
      exact ht
    · intro t ht
      rcases h2 with h2 | h2
      · rw [h2] at ht
        exact h1 t ht
      · rcases mem_addtoken ht with ht | ht
        · exact h1 t ht
        · rw [ht.2.1, Nat.mod_eq_of_lt h2.2]
          exact h2.1

/-- A file of `n` empty lines followed by the name `a`: the only token is `a`, its line is
`1 + n` as an `unsigned int`. -/
theorem tokenize_lines_then_name (n : Nat) :
    tokenize exampleHost (List.replicate n '\n' ++ ['a']) "a.c".toList =
      some { tokens := [⟨['a'], (1 + n) % 2 ^ 32, 0, 0⟩], files := ["a.c".toList] } := by
  have hl : lex exampleHost (List.replicate n '\n' ++ ['a']) "a.c".toList =
      .done { initState exampleHost "a.c".toList with
        lineno := 1 + n, CurrentToken := ['a'] } := by
    have hrun := lexMain_plain exampleHost ['a'] (by decide)
      { initState exampleHost "a.c".toList with lineno := 1 + n } []
    rw [List.append_nil] at hrun
    unfold lex
    rw [lexMain_newlines exampleHost _ _ _ rfl]
    exact hrun.trans (by rw [lexMain]; rfl)
  have hadd : addtoken exampleHost [] (c_str ['a']) (1 + n) 0 =
      [⟨['a'], (1 + n) % 2 ^ 32, 0, 0⟩] := rfl
  have hpost : postLex [(⟨['a'], (1 + n) % 2 ^ 32, 0, 0⟩ : Token)] =
      [⟨['a'], (1 + n) % 2 ^ 32, 0, 0⟩] :=
    postLex_singleton _ (show ['a'] ≠ "volatile".toList by decide)
      (show ['a'] ≠ "mutable".toList by decide)
  have hp : exampleHost.simplifyPath "a.c".toList = "a.c".toList := rfl
  unfold tokenize
  rw [hl]
  simp only [hadd, hpost, initState, hp]

/-- The claim C2 fails for the line number: behind 2^32 - 1 newlines the line counter of
the source, an `unsigned int`, is 0, and the token `a` gets the line number 0. -/
theorem tokenize_line_wrap_counterexample :
    tokenize exampleHost (List.replicate (2 ^ 32 - 1) '\n' ++ ['a']) "a.c".toList =
      some { tokens := [⟨['a'], 0, 0, 0⟩], files := ["a.c".toList] } ∧
    ¬ ∀ r, tokenize exampleHost (List.replicate (2 ^ 32 - 1) '\n' ++ ['a']) "a.c".toList =
        some r → ∀ t ∈ r.tokens, t.fileIndex < r.files.length ∧ 1 ≤ t.linenr :=
  have ht : tokenize exampleHost (List.replicate (2 ^ 32 - 1) '\n' ++ ['a']) "a.c".toList =
      some { tokens := [⟨['a'], 0, 0, 0⟩], files := ["a.c".toList] } :=
    (tokenize_lines_then_name (2 ^ 32 - 1)).trans
      (congrArg (fun l => some ({ tokens := [⟨['a'], l, 0, 0⟩], files := ["a.c".toList] } : Tokenizer))
        (by decide : (1 + (2 ^ 32 - 1)) % 2 ^ 32 = 0))
  ⟨ht, fun hall => absurd (hall _ ht (⟨['a'], 0, 0, 0⟩ : Token) (List.mem_singleton.2 rfl)).2
    (by decide)⟩
/-! ### C5: bytes with the high bit set -/

/-- The main loop skips a byte with the high bit set. -/
theorem lexMain_high (host : Host) (st : LexState) (c : Char) (code : List Char)
    (hc : 128 ≤ c.toNat) : lexMain host st (c :: code) = lexMain host st code := by
  rw [lexMain_cons]
  simp [mainBody, hc, Next.resume]

/-- The first byte of a safe input is no quote and no `#`. -/
theorem highSafe_head (c : Char) (rest : List Char) (h : highSafe (c :: rest) = true) :
    c ≠ '\'' ∧ c ≠ '"' ∧ c ≠ '#' := by
  cases rest with
  | nil => simpa [highSafe] using h
  | cons d rest =>
    simp only [highSafe, Bool.and_eq_true, decide_eq_true_eq] at h
    exact h.1.1

/-- The rest of a safe input is safe. -/
theorem highSafe_tail (c : Char) (rest : List Char) (h : highSafe (c :: rest) = true) :
    highSafe rest = true := by
  cases rest with
  | nil => rfl
  | cons d rest =>
    simp only [highSafe, Bool.and_eq_true] at h
    exact h.2

/-- Behind `+`, `-` or `>` a safe input goes on with a 7-bit byte. -/
theorem highSafe_peek (c d : Char) (rest : List Char) (h : highSafe (c :: d :: rest) = true)
    (hc : peekOp c = true) : d.toNat < 128 := by
  simp only [highSafe, Bool.and_eq_true, Bool.or_eq_true, Bool.not_eq_true',
    decide_eq_true_eq] at h
  rcases h.1.2 with h1 | h1
  · rw [hc] at h1; cases h1
  · exact h1

/-- Away from quotes and `#` the loop body ends with `continue`; it reads the
peeked byte only behind `+`, `-`, `>`, and only if that byte is the same. -/
theorem mainBody_main (host : Host) (st : LexState) (c : Char) (peek : Option Char)
    (h1 : c ≠ '\'') (h2 : c ≠ '"') (h3 : c ≠ '#') :
    ∃ st1 eat, mainBody host st c peek = .main st1 eat ∧
      (eat = true → peekOp c = true ∧ peek = some c) := by
  unfold mainBody
  split
  · exact ⟨_, _, rfl, fun h => nomatch h⟩
  · split
    · exact ⟨_, _, rfl, fun h => nomatch h⟩
    · rw [if_neg (by simp [h1, h2]), if_neg (by simp [h3])]
      refine ⟨_, _, rfl, ?_⟩
      unfold mainTail
      split
      · split
        · exact fun h => nomatch h
        · split
          · exact fun h => nomatch h
          · intro h
            simpa [peekOp] using h
      · exact fun h => nomatch h

/-- The loop body looks at the peeked byte only behind `+`, `-`, `>`. -/
theorem mainBody_congr_peek (host : Host) (st : LexState) (c : Char) (p q : Option Char)
    (h : peekOp c = true → p = q) : mainBody host st c p = mainBody host st c q := by
  by_cases hc : peekOp c = true
  · rw [h hc]
  · have hc' : ¬(c = '+' ∨ c = '-' ∨ c = '>') := by simpa [peekOp] using hc
    simp [mainBody, mainTail, hc']

/-- On a safe input the lexer does the same with and without the bytes that have
the high bit set. -/
theorem lexMain_dropHigh (host : Host) (n : Nat) :
    ∀ (code : List Char), code.length = n → highSafe code = true →
      ∀ st, lexMain host st code = lexMain host st (dropHigh code) := by
  induction n using Nat.strong_induction_on with
  | _ n ih =>
    intro code hn hs st
    cases code with
    | nil => rfl
    | cons c rest =>
      simp only [List.length_cons] at hn
      have hrest := highSafe_tail c rest hs
      by_cases hc : 128 ≤ c.toNat
      · have hd : dropHigh (c :: rest) = dropHigh rest := by
          simp [dropHigh, List.filter_cons, Nat.not_lt.2 hc]
        rw [hd, lexMain_high host st c rest hc]
        exact ih rest.length (by omega) rest rfl hrest st
      · have hd : dropHigh (c :: rest) = c :: dropHigh rest := by
          simp [dropHigh, List.filter_cons, Nat.lt_of_not_le hc]
        obtain ⟨q1, q2, q3⟩ := highSafe_head c rest hs
        have hpeek : peekOp c = true → rest.head? = (dropHigh rest).head? := by
          intro hp
          cases rest with
          | nil => rfl
          | cons d rest2 =>
            have hdlt := highSafe_peek c d rest2 hs hp
            simp [dropHigh, List.filter_cons, hdlt]
        obtain ⟨st1, eat, hb, heat⟩ := mainBody_main host st c rest.head? q1 q2 q3
        rw [hd, lexMain_cons, lexMain_cons, ← mainBody_congr_peek host st c _ _ hpeek, hb]
        simp only [Next.resume]
        cases eat with
        | false =>
          exact ih rest.length (by omega) rest rfl hrest st1
        | true =>
          obtain ⟨hp, hhead⟩ := heat rfl
          cases rest with
          | nil => cases hhead
          | cons d rest2 =>
            have hdlt := highSafe_peek c d rest2 hs hp
            have hd2 : dropHigh (d :: rest2) = d :: dropHigh rest2 := by
              simp [dropHigh, List.filter_cons, hdlt]
            simp only [if_true, List.tail_cons, hd2]
            exact ih rest2.length (by simp only [List.length_cons] at hn; omega) rest2 rfl
              (highSafe_tail d rest2 hrest) st1

/-- C5 (amended). A byte with the high bit set is dropped wherever the main loop of
the lexer reads it: if behind the bytes `pre` the lexer is at the head of its
main loop (in some state `st1`, whatever follows), then the input with such a
byte behind `pre` is lexed like the input without it. And for every input
without quotes and `#` in which no such byte directly follows `+`, `-` or `>`,
`tokenize` yields the same result (token texts, file indexes, line numbers, file
table) as for the input with all bytes of 0x80 and above removed. -/
theorem tokenize_dropHigh (host : Host) (code FileName : List Char)
    (h : highSafe code = true) :
    (∀ (st st1 : LexState) (pre : List Char),
      (∀ rest, lexMain host st (pre ++ rest) = lexMain host st1 rest) →
      ∀ (c : Char) (post : List Char), 128 ≤ c.toNat →
        lexMain host st (pre ++ c :: post) = lexMain host st (pre ++ post)) ∧
    tokenize host code FileName = tokenize host (dropHigh code) FileName := by
  refine ⟨?_, ?_⟩
  · intro st st1 pre hpre c post hc
    rw [hpre, hpre, lexMain_high host st1 c post hc]
  · unfold tokenize lex
    rw [lexMain_dropHigh host code.length code rfl h]

/-! ### C8: the fatal exit -/

/-- A balanced history stays balanced when a directive is added that does not
tip the whole history. -/
theorem Balanced.append (ds : List Directive) (d : Directive) (h : Balanced ds)
    (hd : (ds ++ [d]).count .endfile ≤ (ds ++ [d]).count .file) : Balanced (ds ++ [d]) := by
  intro k
  by_cases hk : k ≤ ds.length
  · rw [List.take_append_of_le_length hk]
    exact h k
  · rw [List.take_of_length_le (by simp only [List.length_append, List.length_singleton]; omega)]
    exact hd

/-- The property "the include stack mirrors the history" is an invariant of the lexer, and the
fatal exit is taken at an `#endfile` that has no `#file` to close. -/
theorem history_invariant (host : Host) :
    LexInvariant host StackMirrorsHistory FatalEndfile where
  cur := fun _ _ h => h
  line := fun _ h => h
  add := fun _ _ h => h
  back := fun _ h => h
  file := by
    intro st line h
    obtain ⟨h1, h2, h3⟩ := h
    have key : StackMirrorsHistory
        { st with
          fileIndexes := st.FileIndex :: st.fileIndexes
          lineNumbers := (st.lineno + 1) :: st.lineNumbers
          directives := st.directives ++ [.file] } := by
      have c1 : List.count Directive.file [Directive.file] = 1 := by decide
      have c2 : List.count Directive.endfile [Directive.file] = 0 := by decide
      refine ⟨by simp [h1], ?_, ?_⟩
      · show (st.directives ++ [Directive.file]).count .file =
          (st.directives ++ [Directive.file]).count .endfile +
            ((st.lineno + 1) :: st.lineNumbers).length
        rw [List.count_append, List.count_append, c1, c2, List.length_cons]
        omega
      · apply Balanced.append _ _ h3
        rw [List.count_append, List.count_append, c1, c2]
        omega
    unfold hashFile
    simp only
    split <;> exact key
  pop := by
    intro st l f ls fs h hl hf
    obtain ⟨h1, h2, h3⟩ := h
    rw [hl, hf] at h1
    rw [hl] at h2
    simp only [List.length_cons] at h1 h2
    have c1 : List.count Directive.file [Directive.endfile] = 0 := by decide
    have c2 : List.count Directive.endfile [Directive.endfile] = 1 := by decide
    refine ⟨by simpa using h1, ?_, ?_⟩
    · show (st.directives ++ [Directive.endfile]).count .file =
        (st.directives ++ [Directive.endfile]).count .endfile + ls.length
      rw [List.count_append, List.count_append, c1, c2]
      omega
    · apply Balanced.append _ _ h3
      rw [List.count_append, List.count_append, c1, c2]
      omega
  fatal := by
    intro st h he
    obtain ⟨h1, h2, h3⟩ := h
    have hl : st.lineNumbers = [] := by
      rcases he with he | he
      · exact he
      · rw [he] at h1
        exact List.length_eq_zero.1 h1
    have hf : st.fileIndexes = [] := by
      rw [hl] at h1
      exact List.length_eq_zero.1 h1.symm
    refine ⟨hl, hf, st.directives, rfl, h3, ?_⟩
    rw [hl] at h2
    simpa using h2

/-- C8. `tokenize` ends in the fatal "Preprocessor bug" exit if and only if the
history of the directive lines the lexer handles, reading the input front to
back, has an initial part with more `#endfile` than `#file`. In that case the
lexer stopped at an `#endfile` line with an empty include stack, all directives
before it being balanced; in the other case the lexer reads the whole stream,
`tokenize` returns its result, and the depth of the include stack is the number
of `#file` minus the number of `#endfile` handled. Moreover an `#endfile` line
that the main loop reaches at the start of a token with an empty include stack
always leads to the fatal exit. -/
theorem fatal_iff_unbalanced_endfile (host : Host) (code FileName : List Char) :
    (tokenize host code FileName = none ↔
      Unbalanced (lex host code FileName).state.directives) ∧
    (tokenize host code FileName = none →
      ∃ st, lex host code FileName = .fatal st ∧ FatalEndfile st) ∧
    (¬Unbalanced (lex host code FileName).state.directives →
      ∃ st r, lex host code FileName = .done st ∧ tokenize host code FileName = some r ∧
        StackMirrorsHistory st) ∧
    (∀ (st : LexState) (rest : List Char), st.CurrentToken = [] →
      backIs st.tokens ['#'] = false → st.lineNumbers = [] ∨ st.fileIndexes = [] →
      lexMain host st ('#' :: ("endfile".toList ++ '\n' :: rest)) =
        .fatal { st with directives := st.directives ++ [.endfile] }) := by
  have hreach : ∀ (st : LexState) (rest : List Char), st.CurrentToken = [] →
      backIs st.tokens ['#'] = false → st.lineNumbers = [] ∨ st.fileIndexes = [] →
      lexMain host st ('#' :: ("endfile".toList ++ '\n' :: rest)) =
        .fatal { st with directives := st.directives ++ [.endfile] } := by
    intro st rest hcur hback hempty
    rw [lexMain_hash_line host st _ _ hcur hback (by decide),
      hashDispatch_endfile_empty host st hempty]
    rfl
  have hinit : StackMirrorsHistory (initState host FileName) := by
    refine ⟨rfl, rfl, ?_⟩
    intro k
    simp [initState]
  have hinv := inv_lex (history_invariant host) code FileName hinit
  cases hl : lex host code FileName with
  | done st =>
    rw [hl] at hinv
    have hbal : ¬Unbalanced st.directives := by
      rintro ⟨k, hk⟩
      have := hinv.2.2 k
      omega
    have hsome : tokenize host code FileName =
        some { tokens := postLex
                 (addtoken host st.tokens (c_str st.CurrentToken) st.lineno st.FileIndex)
               files := st.files } := by
      unfold tokenize
      rw [hl]
    refine ⟨?_, ?_, ?_, hreach⟩
    · rw [hsome]
      simp only [Outcome.state, reduceCtorEq, false_iff]
      exact hbal
    · rw [hsome]
      intro h
      cases h
    · intro _
      exact ⟨st, _, rfl, hsome, hinv⟩
  | fatal st =>
    rw [hl] at hinv
    have hnone : tokenize host code FileName = none := by
      unfold tokenize
      rw [hl]
    obtain ⟨h1, h2, ds, h3, h4, h5⟩ := hinv
    have hun : Unbalanced st.directives := by
      refine ⟨ds.length + 1, ?_⟩
      have c1 : List.count Directive.file [Directive.endfile] = 0 := by decide
      have c2 : List.count Directive.endfile [Directive.endfile] = 1 := by decide
      rw [h3, List.take_of_length_le (by simp), List.count_append, List.count_append, c1, c2]
      omega
    refine ⟨?_, ?_, ?_, hreach⟩
    · simp only [hnone, Outcome.state, true_iff]
      exact hun
    · intro _
      exact ⟨st, rfl, h1, h2, ds, h3, h4, h5⟩
    · intro h
      exact absurd hun h

/-! ### Closed instances -/

/-- The example input evaluated: the tokens of the header carry file 1 and line 1,
the tokens behind `#endfile` carry file 0 and line 3. -/
theorem tokenize_exampleCode :
    tokenize exampleHost exampleCode "a.c".toList = some exampleResult := by
  have hl : lex exampleHost exampleCode "a.c".toList =
      .done ⟨exampleResult.tokens, exampleResult.files, 4, [], [], [], 0,
        [.file, .endfile]⟩ := by decide
  unfold tokenize
  rw [hl]
  simp [exampleResult, postLex, beforeNoise, addtoken, c_str, combine, combineAt,
    combineWithNext, combineEntry, typedefPass, matchTypedef2, matchTypedef3, asmFrom, strAt,
    removeWord, dropHeadWord, deleteNextWord]

/-- An instance of C1: the tokens of the example input. -/
theorem tokenize_no_empty_token_witness :
    tokenize exampleHost exampleCode "a.c".toList = some exampleResult ∧
    ∀ t ∈ exampleResult.tokens, t.str ≠ [] :=
  ⟨tokenize_exampleCode,
    tokenize_no_empty_token exampleHost exampleCode "a.c".toList exampleResult
      tokenize_exampleCode⟩

/-- An instance of C2 (amended): the tokens of the example input, which has 5 newline
bytes. -/
theorem tokenize_valid_origins_witness :
    tokenize exampleHost exampleCode "a.c".toList = some exampleResult ∧
    newlines exampleCode + 1 < 2 ^ 32 ∧
    (∀ t ∈ exampleResult.tokens, t.fileIndex < exampleResult.files.length) ∧
    ∀ t ∈ exampleResult.tokens, 1 ≤ t.linenr :=
  ⟨tokenize_exampleCode, by decide,
    (tokenize_valid_origins exampleHost exampleCode "a.c".toList exampleResult
      tokenize_exampleCode).1,
    (tokenize_valid_origins exampleHost exampleCode "a.c".toList exampleResult
      tokenize_exampleCode).2 (by decide)⟩

/-- An instance of C5: bytes with the high bit between and inside words. -/
theorem tokenize_dropHigh_witness :
    tokenize exampleHost ['a', '\x80', 'b', ' ', '+', ' ', '\xe9', 'c'] "a.c".toList =
      tokenize exampleHost (dropHigh ['a', '\x80', 'b', ' ', '+', ' ', '\xe9', 'c'])
        "a.c".toList ∧
    dropHigh ['a', '\x80', 'b', ' ', '+', ' ', '\xe9', 'c'] = ['a', 'b', ' ', '+', ' ', 'c'] :=
  ⟨(tokenize_dropHigh exampleHost ['a', '\x80', 'b', ' ', '+', ' ', '\xe9', 'c'] "a.c".toList
    (by decide)).2, by decide⟩

/-- The claim C5 fails between two `+` and inside a literal: `+`, 0x80, `+` gives
two tokens `+` but `++` without the byte, and the literal keeps the byte. -/
theorem tokenize_dropHigh_counterexample :
    tokenize exampleHost ['+', '\x80', '+'] "a.c".toList =
      some { tokens := [⟨['+'], 1, 0, 0⟩, ⟨['+'], 1, 0, 0⟩], files := ["a.c".toList] } ∧
    tokenize exampleHost (dropHigh ['+', '\x80', '+']) "a.c".toList =
      some { tokens := [⟨['+', '+'], 1, 0, 0⟩], files := ["a.c".toList] } ∧
    tokenize exampleHost ['"', '\x80', '"'] "a.c".toList =
      some { tokens := [⟨['"', '\x80', '"'], 1, 0, 0⟩], files := ["a.c".toList] } ∧
    tokenize exampleHost (dropHigh ['"', '\x80', '"']) "a.c".toList =
      some { tokens := [⟨['"', '"'], 1, 0, 0⟩], files := ["a.c".toList] } := by
  have h1 : lex exampleHost ['+', '\x80', '+'] "a.c".toList =
      .done ⟨[⟨['+'], 1, 0, 0⟩, ⟨['+'], 1, 0, 0⟩], ["a.c".toList], 1, [], [], [], 0, []⟩ := by
    decide
  have h2 : lex exampleHost (dropHigh ['+', '\x80', '+']) "a.c".toList =
      .done ⟨[⟨['+', '+'], 1, 0, 0⟩], ["a.c".toList], 1, [], [], [], 0, []⟩ := by
    decide
  have h3 : lex exampleHost ['"', '\x80', '"'] "a.c".toList =
      .done ⟨[⟨['"', '\x80', '"'], 1, 0, 0⟩], ["a.c".toList], 1, [], [], [], 0, []⟩ := by
    decide
  have h4 : lex exampleHost (dropHigh ['"', '\x80', '"']) "a.c".toList =
      .done ⟨[⟨['"', '"'], 1, 0, 0⟩], ["a.c".toList], 1, [], [], [], 0, []⟩ := by
    decide
  refine ⟨?_, ?_, ?_, ?_⟩
  · unfold tokenize
    rw [h1]
    simp [postLex, beforeNoise, addtoken, c_str, combine, combineAt, combineWithNext,
      combineEntry, typedefPass, matchTypedef2, matchTypedef3, asmFrom, strAt, removeWord,
      dropHeadWord, deleteNextWord]
  · unfold tokenize
    rw [h2]
    simp only [c_str, List.takeWhile_nil, addtoken, if_true]
    rw [postLex_singleton _ (by decide) (by decide)]
  · unfold tokenize
    rw [h3]
    simp only [c_str, List.takeWhile_nil, addtoken, if_true]
    rw [postLex_singleton _ (by decide) (by decide)]
  · unfold tokenize
    rw [h4]
    simp only [c_str, List.takeWhile_nil, addtoken, if_true]
    rw [postLex_singleton _ (by decide) (by decide)]

/-- An instance of C8: a lone `#endfile` line is fatal, its history is unbalanced. -/
theorem fatal_iff_unbalanced_endfile_witness :
    tokenize exampleHost "#endfile\n".toList "a.c".toList = none ∧
    Unbalanced (lex exampleHost "#endfile\n".toList "a.c".toList).state.directives ∧
    tokenize exampleHost exampleCode "a.c".toList = some exampleResult ∧
    ¬Unbalanced (lex exampleHost exampleCode "a.c".toList).state.directives := by
  have h1 : tokenize exampleHost "#endfile\n".toList "a.c".toList = none := by decide
  have h2 := (fatal_iff_unbalanced_endfile exampleHost "#endfile\n".toList "a.c".toList).1
  have h3 := (fatal_iff_unbalanced_endfile exampleHost exampleCode "a.c".toList).1
  refine ⟨h1, h2.1 h1, tokenize_exampleCode, ?_⟩
  intro hu
  have := h3.2 hu
  rw [tokenize_exampleCode] at this
  cases this
/-- The lexer on a block `#file "h"`, `int y;`, `#endfile` for a new file `h`: the
state behind the block. -/
theorem lexMain_file_block (host : Host) (st : LexState) (h rest : List Char)
    (hcur : st.CurrentToken = []) (hback : backIs st.tokens ['#'] = false)
    (hh : ∀ c ∈ h, pathByte c = true)
    (hnew : ∀ f ∈ st.files, host.SameFileName (c_str f) (c_str h) = false) :
    lexMain host st
        ('#' :: (fileLine h ++ '\n' :: ("int y;\n".toList ++
          '#' :: ("endfile".toList ++ '\n' :: rest)))) =
      lexMain host
        { st with
          tokens := st.tokens ++
            [⟨"int".toList, 1, st.files.length, 0⟩, ⟨"y".toList, 1, st.files.length, 0⟩,
             ⟨";".toList, 1, st.files.length, 0⟩]
          files := st.files ++ [host.simplifyPath (c_str h)]
          lineno := st.lineno + 1
          directives := st.directives ++ [.file, .endfile] } rest := by
  have hfind := findFile_none host h st.files hnew 0
  rw [lexMain_hash_line host st _ _ hcur hback (fileLine_hashByte h hh),
    hashDispatch_file host st h hh]
  simp only [AfterHash.resume, filesWith, hfind, Option.getD_none]
  have hint : "int y;\n".toList ++ '#' :: ("endfile".toList ++ '\n' :: rest) =
      ['i', 'n', 't'] ++ ' ' :: (['y'] ++ ';' :: '\n' :: '#' ::
        ("endfile".toList ++ '\n' :: rest)) := by
    simp
  rw [hint, lexMain_plain host ['i', 'n', 't'] (by decide), lexMain_blank,
    lexMain_plain host ['y'] (by decide), lexMain_soloOp host _ ';' _ (by decide),
    lexMain_newline]
  simp only [hcur, LexState.flush, List.nil_append, c_str, addtoken, List.takeWhile_cons,
    List.takeWhile_nil, ne_eq, Char.reduceEq, not_false_eq_true, decide_True, if_true,
    reduceCtorEq, if_false, List.take_succ_cons, List.take_zero, List.cons.injEq,
    false_and, and_false, List.append_assoc, List.singleton_append, List.cons_append,
    decide_False, Bool.false_eq_true, one_mod_wrap]
  have hb : backIs (st.tokens ++
      [⟨['i', 'n', 't'], 1, st.files.length, 0⟩, ⟨['y'], 1, st.files.length, 0⟩,
       ⟨[';'], 1, st.files.length, 0⟩]) ['#'] = false := by
    simp [backIs, List.getLast?_append]
  have hend := lexMain_hash_line host
    { st with
      tokens := st.tokens ++
        [⟨['i', 'n', 't'], 1, st.files.length, 0⟩, ⟨['y'], 1, st.files.length, 0⟩,
         ⟨[';'], 1, st.files.length, 0⟩]
      files := st.files ++ [host.simplifyPath (c_str h)]
      fileIndexes := st.FileIndex :: st.fileIndexes
      FileIndex := st.files.length
      lineNumbers := (st.lineno + 1) :: st.lineNumbers
      lineno := 1 + 1
      CurrentToken := []
      directives := st.directives ++ [.file] }
    "endfile".toList rest rfl hb (by decide)
  rw [hashDispatch_endfile host _ (st.lineno + 1) st.FileIndex st.lineNumbers
    st.fileIndexes rfl rfl] at hend
  simp only [AfterHash.resume, List.append_assoc, List.singleton_append, c_str] at hend
  rw [hend]
  simp [hcur]


/-! ### Tokens lexed while no directive is handled -/

/-- The origins after `addtoken`: the old ones, and at most one new one with the
given file and line (modulo 2^32). -/
theorem map_origin_addtoken (host : Host) (tokens : List Token) (s : List Char) (l f : Nat) :
    (addtoken host tokens s l f).map Token.origin = tokens.map Token.origin ∨
    (addtoken host tokens s l f).map Token.origin =
      tokens.map Token.origin ++ [(f, l % 2 ^ 32)] := by
  unfold addtoken
  split
  · exact Or.inl rfl
  · right
    simp [Token.origin]

/-- The statement `_tokensBack->str(w)` changes no origin. -/
theorem map_origin_setBackStr (tokens : List Token) (w : List Char) :
    (setBackStr tokens w).map Token.origin = tokens.map Token.origin := by
  unfold setBackStr
  cases h : tokens.getLast? with
  | none => rfl
  | some t =>
    simp only
    have hne : tokens ≠ [] := by
      intro hn
      rw [hn] at h
      cases h
    have ht : t = tokens.getLast hne := by
      rw [List.getLast?_eq_getLast _ hne] at h
      exact (Option.some.inj h).symm
    conv_rhs => rw [← List.dropLast_append_getLast hne]
    rw [List.map_append, List.map_append, ht]
    rfl

/-- As long as no directive is handled, the lexer stays in the same file and only
adds tokens of that file, with the numbers of lines that do not go down. -/
theorem sameFile_invariant (host : Host) (st0 : LexState) :
    LexInvariant host
      (fun st => (∃ ext, st.directives = st0.directives ++ ext) ∧
        (st.directives = st0.directives → SameFileSince st0 st))
      (fun _ => True) where
  cur := fun _ _ h => h
  line := by
    intro st h
    refine ⟨h.1, fun hd => ?_⟩
    obtain ⟨h1, h2, new, h3, h4⟩ := h.2 hd
    refine ⟨h1, Nat.le_succ_of_le h2, new, h3, fun p hp => ?_⟩
    obtain ⟨h5, l, h6, h7, h8⟩ := h4 p hp
    exact ⟨h5, l, h6, Nat.le_succ_of_le h7, h8⟩
  add := by
    intro st s h
    refine ⟨h.1, fun hd => ?_⟩
    obtain ⟨h1, h2, new, h3, h4⟩ := h.2 hd
    refine ⟨h1, h2, ?_⟩
    rcases map_origin_addtoken host st.tokens s st.lineno st.FileIndex with ha | ha
    · exact ⟨new, ha.trans h3, h4⟩
    · refine ⟨new ++ [(st.FileIndex, st.lineno % 2 ^ 32)], ?_, ?_⟩
      · show (addtoken host st.tokens s st.lineno st.FileIndex).map Token.origin = _
        rw [ha, h3, List.append_assoc]
      · intro p hp
        rcases List.mem_append.1 hp with hp | hp
        · exact h4 p hp
        · rw [List.mem_singleton.1 hp]
          exact ⟨h1, st.lineno, h2, le_refl _, rfl⟩
  back := by
    intro st h
    refine ⟨h.1, fun hd => ?_⟩
    obtain ⟨h1, h2, new, h3, h4⟩ := h.2 hd
    exact ⟨h1, h2, new, (map_origin_setBackStr st.tokens _).trans h3, h4⟩
  file := by
    intro st line h
    obtain ⟨ext, hext⟩ := h.1
    have hdir : (hashFile host st line).directives = st.directives ++ [.file] := by
      unfold hashFile
      simp only
      split <;> rfl
    rw [hdir]
    refine ⟨⟨ext ++ [.file], by rw [hext, List.append_assoc]⟩, fun hd => ?_⟩
    have := congrArg List.length hd
    rw [hext] at this
    simp only [List.length_append, List.length_singleton] at this
    omega
  pop := by
    intro st l f ls fs h _ _
    obtain ⟨ext, hext⟩ := h.1
    refine ⟨⟨ext ++ [.endfile], ?_⟩, fun hd => ?_⟩
    · show st.directives ++ [Directive.endfile] = _
      rw [hext, List.append_assoc]
    · have hd' : st.directives ++ [Directive.endfile] = st0.directives := hd
      have := congrArg List.length hd'
      rw [hext] at this
      simp only [List.length_append, List.length_singleton] at this
      omega
  fatal := fun _ _ _ => trivial

/-- Every token that the lexer adds while it handles no directive carries the file
index the lexer started with and the number (modulo 2^32) of a line from the starting
line on. -/
theorem tokens_while_no_directive (host : Host) (st st2 : LexState) (code : List Char)
    (h : lexMain host st code = .done st2) (hd : st2.directives = st.directives) :
    SameFileSince st st2 := by
  have hinit : (∃ ext, st.directives = st.directives ++ ext) ∧
      (st.directives = st.directives → SameFileSince st st) :=
    ⟨⟨[], by simp⟩, fun _ => ⟨rfl, le_refl _, [], by simp, fun p hp => nomatch hp⟩⟩
  have hinv := (inv_lex_all (sameFile_invariant host st) code.length code rfl).1 st hinit
  rw [h] at hinv
  exact hinv.2 hd

/-- C7. A block `#file "h"`, newline, `int y;`, newline, `#endfile`, newline, read at
the start of a token while `h` is not yet in the file table: `h` is appended to
the file table; the tokens `int`, `y`, `;` carry the index of that new entry and
line 1; behind `#endfile` the lexer goes on in the state it had before the block
(outer file index, outer include stack) with the line number of the `#file` line
plus one; and when the rest of the stream is read, every token lexed behind the
block, as long as no further directive is handled, carries the file index of
the outer file and a line number from the line of the `#file` line plus one on: the
number, modulo 2^32, of a line between that line and the last line, which is at least
the line of the `#file` line plus one as long as the count of the lines stays below
2^32. -/
theorem nested_file_block (host : Host) (st : LexState) (h rest : List Char)
    (hcur : st.CurrentToken = []) (hback : backIs st.tokens ['#'] = false)
    (hh : ∀ c ∈ h, pathByte c = true)
    (hnew : ∀ f ∈ st.files, host.SameFileName (c_str f) (c_str h) = false) :
    lexMain host st
        ('#' :: (fileLine h ++ '\n' :: ("int y;\n".toList ++
          '#' :: ("endfile".toList ++ '\n' :: rest)))) =
      lexMain host
        { st with
          tokens := st.tokens ++
            [⟨"int".toList, 1, st.files.length, 0⟩, ⟨"y".toList, 1, st.files.length, 0⟩,
             ⟨";".toList, 1, st.files.length, 0⟩]
          files := st.files ++ [host.simplifyPath (c_str h)]
          lineno := st.lineno + 1
          directives := st.directives ++ [.file, .endfile] } rest ∧
    (st.files ++ [host.simplifyPath (c_str h)]).get? st.files.length =
      some (host.simplifyPath (c_str h)) ∧
    ∀ st2 : LexState,
      lexMain host st
          ('#' :: (fileLine h ++ '\n' :: ("int y;\n".toList ++
            '#' :: ("endfile".toList ++ '\n' :: rest)))) = .done st2 →
      st2.directives = st.directives ++ [.file, .endfile] →
      st2.FileIndex = st.FileIndex ∧ st.lineno + 1 ≤ st2.lineno ∧
      ∃ new, st2.tokens.map Token.origin =
          st.tokens.map Token.origin ++
            [(st.files.length, 1), (st.files.length, 1), (st.files.length, 1)] ++ new ∧
        ∀ p ∈ new, p.1 = st.FileIndex ∧
          (∃ l, st.lineno + 1 ≤ l ∧ l ≤ st2.lineno ∧ p.2 = l % 2 ^ 32) ∧
          (st2.lineno < 2 ^ 32 → st.lineno + 1 ≤ p.2) := by
  have hblock := lexMain_file_block host st h rest hcur hback hh hnew
  refine ⟨hblock, by simp, ?_⟩
  intro st2 hrun hdir
  rw [hblock] at hrun
  obtain ⟨h1, h2, new, h3, h4⟩ := tokens_while_no_directive host _ st2 rest hrun hdir
  refine ⟨h1, h2, new, ?_, fun p hp => ?_⟩
  · rw [h3]
    simp [Token.origin]
  · obtain ⟨h5, l, h6, h7, h8⟩ := h4 p hp
    refine ⟨h5, ⟨l, h6, h7, h8⟩, fun hlt => ?_⟩
    rw [h8, Nat.mod_eq_of_lt (by omega)]
    exact h6

/-- An instance of C7: the block for the header `h` read from the start state and
followed by `int z;`: the tokens of `int z;` carry file 0 and line 2. -/
theorem nested_file_block_witness :
    lexMain exampleHost (initState exampleHost "a.c".toList)
        ('#' :: (fileLine "h".toList ++ '\n' :: ("int y;\n".toList ++
          '#' :: ("endfile".toList ++ '\n' :: "int z;\n".toList)))) =
      .done
        { tokens :=
            [⟨"int".toList, 1, 1, 0⟩, ⟨"y".toList, 1, 1, 0⟩, ⟨";".toList, 1, 1, 0⟩,
             ⟨"int".toList, 2, 0, 0⟩, ⟨"z".toList, 2, 0, 0⟩, ⟨";".toList, 2, 0, 0⟩]
          files := ["a.c".toList, "h".toList]
          lineno := 3, CurrentToken := [], lineNumbers := [], fileIndexes := []
          FileIndex := 0, directives := [.file, .endfile] } ∧
    ∃ new,
      [(1, 1), (1, 1), (1, 1), (0, 2), (0, 2), (0, 2)] =
        [] ++ [(1, 1), (1, 1), (1, 1)] ++ new ∧
      ∀ p ∈ new, p.1 = 0 ∧ 1 + 1 ≤ p.2 :=
  ⟨by decide, by
    obtain ⟨new, h1, h2⟩ :=
      ((nested_file_block exampleHost (initState exampleHost "a.c".toList) "h".toList
        "int z;\n".toList rfl (by decide) (by decide) (by decide)).2.2
        { tokens :=
            [⟨"int".toList, 1, 1, 0⟩, ⟨"y".toList, 1, 1, 0⟩, ⟨";".toList, 1, 1, 0⟩,
             ⟨"int".toList, 2, 0, 0⟩, ⟨"z".toList, 2, 0, 0⟩, ⟨";".toList, 2, 0, 0⟩]
          files := ["a.c".toList, "h".toList]
          lineno := 3, CurrentToken := [], lineNumbers := [], fileIndexes := []
          FileIndex := 0, directives := [.file, .endfile] }
        (by decide) rfl).2.2
    exact ⟨new, h1, fun p hp => ⟨(h2 p hp).1, (h2 p hp).2.2 (by decide)⟩⟩⟩

/-- The text of a node behind `str(s)`. -/
@[simp] theorem Token.str_setStr (t : Token) (s : List Char) : (t.setStr s).str = s := rfl

/-- The line of a node behind `str(s)`. -/
@[simp] theorem Token.linenr_setStr (t : Token) (s : List Char) :
    (t.setStr s).linenr = t.linenr := rfl

/-- The file of a node behind `str(s)`. -/
@[simp] theorem Token.fileIndex_setStr (t : Token) (s : List Char) :
    (t.setStr s).fileIndex = t.fileIndex := rfl

/-- The variable id of a node behind `str(s)`. -/
@[simp] theorem Token.varId_setStr (t : Token) (s : List Char) : (t.setStr s).varId = 0 := rfl

/-- Two calls of `str` leave what the second leaves. -/
@[simp] theorem Token.setStr_setStr (t : Token) (a b : List Char) :
    (t.setStr a).setStr b = t.setStr b := rfl

/-- A token the renaming produces has the new text or is a token of the input. -/
theorem mem_replaceType (type1 type2 : List Char) (ts : List Token) (t : Token)
    (h : t ∈ replaceType type1 type2 ts) : t.str = type1 ∨ t ∈ ts := by
  induction ts with
  | nil => cases h
  | cons a ts ih =>
    rw [replaceType] at h
    rcases List.mem_cons.1 h with rfl | h
    · split
      · exact Or.inl rfl
      · exact Or.inr (List.mem_cons_self _ _)
    · exact (ih h).imp id (List.mem_cons_of_mem _)

/-- A token the expansion produces has one of the two new texts or is a token of
the input. -/
theorem mem_expandType (type1 type2 type3 : List Char) (ts : List Token) (t : Token)
    (h : t ∈ expandType type1 type2 type3 ts) :
    t.str = type1 ∨ t.str = type2 ∨ t ∈ ts := by
  induction ts with
  | nil => cases h
  | cons a ts ih =>
    rw [expandType] at h
    split at h
    · rcases List.mem_cons.1 h with rfl | h
      · exact Or.inl rfl
      · rcases List.mem_cons.1 h with rfl | h
        · exact Or.inr (Or.inl rfl)
        · exact (ih h).imp id (Or.imp id (List.mem_cons_of_mem _))
    · rcases List.mem_cons.1 h with rfl | h
      · exact Or.inr (Or.inr (List.mem_cons_self _ _))
      · exact (ih h).imp id (Or.imp id (List.mem_cons_of_mem _))

/-- The renaming is a map over the tokens. -/
theorem replaceType_eq_map (type1 type2 : List Char) (ts : List Token) :
    replaceType type1 type2 ts =
      ts.map (fun t => if t.str = type2 then { t with str := type1 } else t) := by
  induction ts with
  | nil => rfl
  | cons a ts ih => rw [replaceType, ih, List.map_cons]

/-- The typedef loop invents no text: the text of every token of the result is
the text of a token of the input. -/
theorem typedefPass_str (ts : List Token) :
    ∀ t ∈ typedefPass ts, ∃ t0 ∈ ts, t.str = t0.str := by
  induction ts using typedefPass.induct with
  | case1 ts hm ih =>
    obtain ⟨tok, t1, t2, t3, rest, rfl, -, -, -, -⟩ := matchTypedef2_shape ts hm
    rw [typedefPass, if_pos hm]
    intro t ht
    rcases List.mem_append.1 ht with ht | ht
    · exact ⟨t, List.mem_of_mem_take ht, rfl⟩
    · obtain ⟨t0, h0, e0⟩ := ih t ht
      rcases mem_replaceType _ _ _ _ h0 with h0 | h0
      · exact ⟨t1, by simp, by rw [e0, h0]; rfl⟩
      · exact ⟨t0, List.mem_of_mem_drop h0, e0⟩
  | case2 ts hm2 hm ih =>
    obtain ⟨tok, t1, t2, t3, t4, rest, rfl, -, -, -, -, -⟩ := matchTypedef3_shape ts hm
    rw [typedefPass, if_neg hm2, if_pos hm]
    intro t ht
    rcases List.mem_append.1 ht with ht | ht
    · exact ⟨t, List.mem_of_mem_take ht, rfl⟩
    · obtain ⟨t0, h0, e0⟩ := ih t ht
      rcases mem_expandType _ _ _ _ _ h0 with h0 | h0 | h0
      · exact ⟨t1, by simp, by rw [e0, h0]; rfl⟩
      · exact ⟨t2, by simp, by rw [e0, h0]; rfl⟩
      · exact ⟨t0, List.mem_of_mem_drop h0, e0⟩
  | case3 hm2 hm3 =>
    rw [typedefPass, if_neg hm2, if_neg hm3]
    intro t ht
    cases ht
  | case4 tok rest hm2 hm3 ih =>
    rw [typedefPass, if_neg hm2, if_neg hm3]
    intro t ht
    rcases List.mem_cons.1 ht with rfl | ht
    · exact ⟨t, List.mem_cons_self _ _, rfl⟩
    · obtain ⟨t0, h0, e0⟩ := ih t ht
      exact ⟨t0, List.mem_cons_of_mem _ h0, e0⟩

/-- A token that is not `typedef` starts no typedef statement. -/
theorem typedefPass_cons_of_ne (t : Token) (ts : List Token)
    (ht : t.str ≠ "typedef".toList) : typedefPass (t :: ts) = t :: typedefPass ts := by
  have h2 : matchTypedef2 (t :: ts) = false := by
    match ts with
    | [] => rfl
    | [_] => rfl
    | [_, _] => rfl
    | _ :: _ :: _ :: _ =>
      simp only [matchTypedef2]
      exact decide_eq_false (fun hc => ht hc.1)
  have h3 : matchTypedef3 (t :: ts) = false := by
    match ts with
    | [] => rfl
    | [_] => rfl
    | [_, _] => rfl
    | [_, _, _] => rfl
    | _ :: _ :: _ :: _ :: _ =>
      simp only [matchTypedef3]
      exact decide_eq_false (fun hc => ht hc.1)
  rw [typedefPass, h2, h3]
  simp

/-- The typedef loop steps over tokens in front of the first `typedef`. -/
theorem typedefPass_append (pre ts : List Token)
    (h : ∀ t ∈ pre, t.str ≠ "typedef".toList) :
    typedefPass (pre ++ ts) = pre ++ typedefPass ts := by
  induction pre with
  | nil => rfl
  | cons a pre ih =>
    rw [List.cons_append, typedefPass_cons_of_ne a _ (h a (List.mem_cons_self _ _)),
      ih (fun t ht => h t (List.mem_cons_of_mem _ ht)), List.cons_append]

/-- At a statement `typedef A B ;` the loop renames behind the statement and goes
on there. -/
theorem typedefPass_statement (tok t1 t2 t3 : Token) (rest : List Token)
    (htok : tok.str = "typedef".toList) (h1 : matchType t1 = true)
    (h2 : matchType t2 = true) (h3 : t3.str = [';']) :
    typedefPass (tok :: t1 :: t2 :: t3 :: rest) =
      tok :: t1 :: t2 :: t3 :: typedefPass (replaceType t1.str t2.str rest) := by
  have hm : matchTypedef2 (tok :: t1 :: t2 :: t3 :: rest) = true := by
    simp only [matchTypedef2]
    exact decide_eq_true ⟨htok, h1, h2, h3⟩
  rw [typedefPass, if_pos hm]
  rfl

/-- C11 (amended): in a stream in which no `typedef` token stands in front of the
statement `typedef A B ;` (`A`, `B` type names), the typedef loop of `tokenize`
keeps the tokens up to the end of the statement, gives every later token with the
text `B` the text `A`, and goes on with the loop on the renamed rest; for `A`
different from `B` no token behind the statement has the text `B` in the result;
and when neither `A` nor a later token is `typedef`, the result is the input with
every `B` behind the statement renamed to `A`. -/
theorem typedef_renames_later_tokens (pre rest : List Token) (tok t1 t2 t3 : Token)
    (hpre : ∀ t ∈ pre, t.str ≠ "typedef".toList)
    (htok : tok.str = "typedef".toList) (h1 : matchType t1 = true)
    (h2 : matchType t2 = true) (h3 : t3.str = [';']) :
    typedefPass (pre ++ tok :: t1 :: t2 :: t3 :: rest) =
        pre ++ tok :: t1 :: t2 :: t3 ::
          typedefPass
            (rest.map (fun t => if t.str = t2.str then { t with str := t1.str } else t)) ∧
    (t1.str ≠ t2.str →
      ∀ t ∈ (typedefPass (pre ++ tok :: t1 :: t2 :: t3 :: rest)).drop (pre.length + 4),
        t.str ≠ t2.str) ∧
    ((∀ t ∈ rest, t.str ≠ "typedef".toList) → t1.str ≠ "typedef".toList →
      typedefPass (pre ++ tok :: t1 :: t2 :: t3 :: rest) =
        pre ++ tok :: t1 :: t2 :: t3 ::
          rest.map (fun t => if t.str = t2.str then { t with str := t1.str } else t)) := by
  have hrun : typedefPass (pre ++ tok :: t1 :: t2 :: t3 :: rest) =
      pre ++ tok :: t1 :: t2 :: t3 ::
        typedefPass
          (rest.map (fun t => if t.str = t2.str then { t with str := t1.str } else t)) := by
    rw [typedefPass_append pre _ hpre, typedefPass_statement tok t1 t2 t3 rest htok h1 h2 h3,
      replaceType_eq_map]
  refine ⟨hrun, ?_, ?_⟩
  · intro hne t ht
    rw [hrun, List.drop_append_eq_append_drop] at ht
    have hd : List.drop (pre.length + 4) pre = [] :=
      List.drop_eq_nil_of_le (Nat.le_add_right _ _)
    have h4 : pre.length + 4 - pre.length = 4 := by omega
    rw [hd, h4, List.nil_append] at ht
    simp only [List.drop_succ_cons, List.drop_zero] at ht
    obtain ⟨t0, h0, e0⟩ := typedefPass_str _ t ht
    obtain ⟨a, -, rfl⟩ := List.mem_map.1 h0
    rw [e0]
    by_cases ha : a.str = t2.str
    · rw [if_pos ha]
      exact hne
    · rw [if_neg ha]
      exact ha
  · intro hrest hA
    rw [hrun, typedefPass_of_no_typedef]
    intro t ht
    obtain ⟨a, ha, rfl⟩ := List.mem_map.1 ht
    by_cases hb : a.str = t2.str
    · rw [if_pos hb]
      exact hA
    · rw [if_neg hb]
      exact hrest a ha

/-- An instance of C11: behind `typedef char B ;` the token `B` becomes `char`. -/
theorem typedef_renames_later_tokens_witness :
    typedefPass (line1 ["x", ";", "typedef", "char", "B", ";", "B", "y", ";"]) =
      line1 ["x", ";", "typedef", "char", "B", ";", "char", "y", ";"] :=
  (typedef_renames_later_tokens (line1 ["x", ";"]) (line1 ["B", "y", ";"])
    ⟨"typedef".toList, 1, 0, 0⟩ ⟨"char".toList, 1, 0, 0⟩ ⟨"B".toList, 1, 0, 0⟩
    ⟨";".toList, 1, 0, 0⟩ (by decide) rfl (by decide) (by decide) rfl).2.2
    (by decide) (by decide)

/-- C11 as stated fails on chained typedefs: in
`typedef int A ; typedef A B ; B y ;` the statement `typedef A B ;` is in the
stream (and is a two-type typedef statement), but the token `B` that follows it
ends with the text `int`, not `A`: the first statement has renamed the `A` of the
second one before the loop reaches it. -/
theorem typedef_chain_counterexample :
    matchTypedef2 (line1 ["typedef", "A", "B", ";", "B", "y", ";"]) = true ∧
    typedefPass
        (line1 ["typedef", "int", "A", ";", "typedef", "A", "B", ";", "B", "y", ";"]) =
      line1 ["typedef", "int", "A", ";", "typedef", "int", "B", ";", "int", "y", ";"] := by
  refine ⟨by decide, ?_⟩
  have e1 := typedefPass_statement ⟨"typedef".toList, 1, 0, 0⟩ ⟨"int".toList, 1, 0, 0⟩
    ⟨"A".toList, 1, 0, 0⟩ ⟨";".toList, 1, 0, 0⟩
    (line1 ["typedef", "A", "B", ";", "B", "y", ";"]) rfl (by decide) (by decide) rfl
  have r1 : replaceType "int".toList "A".toList
      (line1 ["typedef", "A", "B", ";", "B", "y", ";"]) =
      ⟨"typedef".toList, 1, 0, 0⟩ :: ⟨"int".toList, 1, 0, 0⟩ :: ⟨"B".toList, 1, 0, 0⟩ ::
        ⟨";".toList, 1, 0, 0⟩ :: line1 ["B", "y", ";"] := by decide
  have e2 := typedefPass_statement ⟨"typedef".toList, 1, 0, 0⟩ ⟨"int".toList, 1, 0, 0⟩
    ⟨"B".toList, 1, 0, 0⟩ ⟨";".toList, 1, 0, 0⟩ (line1 ["B", "y", ";"]) rfl (by decide)
    (by decide) rfl
  have r2 : replaceType "int".toList "B".toList (line1 ["B", "y", ";"]) =
      line1 ["int", "y", ";"] := by decide
  have e3 : typedefPass (line1 ["int", "y", ";"]) = line1 ["int", "y", ";"] :=
    typedefPass_of_no_typedef _ (by decide)
  rw [r1, e2, r2, e3] at e1
  exact e1

/-- At a statement `typedef A B C ;` the loop expands behind the statement and goes
on there. -/
theorem typedefPass_statement3 (tok t1 t2 t3 t4 : Token) (rest : List Token)
    (htok : tok.str = "typedef".toList) (h1 : matchType t1 = true)
    (h2 : matchType t2 = true) (h3 : matchType t3 = true) (h4 : t4.str = [';']) :
    typedefPass (tok :: t1 :: t2 :: t3 :: t4 :: rest) =
      tok :: t1 :: t2 :: t3 :: t4 :: typedefPass (expandType t1.str t2.str t3.str rest) := by
  have hm2 : matchTypedef2 (tok :: t1 :: t2 :: t3 :: t4 :: rest) = false := by
    simp only [matchTypedef2]
    exact decide_eq_false (fun hc => matchType_ne_semicolon t3 h3 hc.2.2.2)
  have hm3 : matchTypedef3 (tok :: t1 :: t2 :: t3 :: t4 :: rest) = true := by
    simp only [matchTypedef3]
    exact decide_eq_true ⟨htok, h1, h2, h3, h4⟩
  rw [typedefPass, hm2, hm3]
  rfl

/-- The expansion of a type name deletes no token. -/
theorem length_expandType (type1 type2 type3 : List Char) (ts : List Token) :
    ts.length ≤ (expandType type1 type2 type3 ts).length := by
  induction ts with
  | nil => exact le_refl _
  | cons t ts ih =>
    rw [expandType]
    split
    · simp only [List.length_cons]
      omega
    · simp only [List.length_cons]
      omega

/-- The typedef loop deletes no token. -/
theorem length_typedefPass (ts : List Token) : ts.length ≤ (typedefPass ts).length := by
  induction ts using typedefPass.induct with
  | case1 ts hm ih =>
    obtain ⟨tok, t1, t2, t3, rest, rfl, -, -, -, -⟩ := matchTypedef2_shape ts hm
    rw [typedefPass, if_pos hm]
    simp only [strAt, List.get?, List.drop_succ_cons, List.drop_zero, List.take_succ_cons,
      List.take_zero, List.length_append, List.length_cons, List.length_nil] at ih ⊢
    rw [length_replaceType] at ih
    omega
  | case2 ts hm2 hm ih =>
    obtain ⟨tok, t1, t2, t3, t4, rest, rfl, -, -, -, -, -⟩ := matchTypedef3_shape ts hm
    rw [typedefPass, if_neg hm2, if_pos hm]
    simp only [strAt, List.get?, List.drop_succ_cons, List.drop_zero, List.take_succ_cons,
      List.take_zero, List.length_append, List.length_cons, List.length_nil] at ih ⊢
    have := length_expandType t1.str t2.str t3.str rest
    omega
  | case3 hm2 hm3 =>
    rw [typedefPass, if_neg hm2, if_neg hm3]
  | case4 tok rest hm2 hm3 ih =>
    rw [typedefPass, if_neg hm2, if_neg hm3]
    simp only [List.length_cons]
    omega

/-- C12 (amended): the typedef loop of `tokenize` deletes no token, and it keeps
the typedef statements. In a stream in which no `typedef` token stands in front
of the statement, the loop keeps the five tokens of `typedef T1 T2 U ;` (three
type names) and goes on behind them with every later token `U` replaced by the two
tokens `T1 T2`; it keeps the four tokens of `typedef T U ;` and goes on behind
them with every later token `U` renamed to `T`. -/
theorem typedef_statement_kept (pre rest : List Token) (tok t1 t2 t3 t4 : Token)
    (hpre : ∀ t ∈ pre, t.str ≠ "typedef".toList)
    (htok : tok.str = "typedef".toList) (h1 : matchType t1 = true)
    (h2 : matchType t2 = true) :
    (matchType t3 = true → t4.str = [';'] →
      typedefPass (pre ++ tok :: t1 :: t2 :: t3 :: t4 :: rest) =
        pre ++ tok :: t1 :: t2 :: t3 :: t4 ::
          typedefPass (expandType t1.str t2.str t3.str rest)) ∧
    (t3.str = [';'] →
      typedefPass (pre ++ tok :: t1 :: t2 :: t3 :: t4 :: rest) =
        pre ++ tok :: t1 :: t2 :: t3 ::
          typedefPass (replaceType t1.str t2.str (t4 :: rest))) ∧
    (pre ++ tok :: t1 :: t2 :: t3 :: t4 :: rest).length ≤
      (typedefPass (pre ++ tok :: t1 :: t2 :: t3 :: t4 :: rest)).length := by
  refine ⟨?_, ?_, length_typedefPass _⟩
  · intro h3 h4
    rw [typedefPass_append pre _ hpre, typedefPass_statement3 tok t1 t2 t3 t4 rest htok h1 h2 h3 h4]
  · intro h3
    rw [typedefPass_append pre _ hpre, typedefPass_statement tok t1 t2 t3 (t4 :: rest) htok h1 h2 h3]

/-- An instance of C12 (amended): the typedef loop makes
`typedef unsigned int U ; unsigned int v ;` of `typedef unsigned int U ; U v ;`. -/
theorem typedef_statement_kept_witness :
    typedefPass (line1 ["typedef", "unsigned", "int", "U", ";", "U", "v", ";"]) =
      line1 ["typedef", "unsigned", "int", "U", ";", "unsigned", "int", "v", ";"] := by
  have h := (typedef_statement_kept [] (line1 ["U", "v", ";"]) ⟨"typedef".toList, 1, 0, 0⟩
    ⟨"unsigned".toList, 1, 0, 0⟩ ⟨"int".toList, 1, 0, 0⟩ ⟨"U".toList, 1, 0, 0⟩
    ⟨";".toList, 1, 0, 0⟩ (by decide) rfl (by decide) (by decide)).1 (by decide) rfl
  have e : expandType "unsigned".toList "int".toList "U".toList (line1 ["U", "v", ";"]) =
      line1 ["unsigned", "int", "v", ";"] := by decide
  have e2 : typedefPass (line1 ["unsigned", "int", "v", ";"]) =
      line1 ["unsigned", "int", "v", ";"] := typedefPass_of_no_typedef _ (by decide)
  rw [e, e2] at h
  exact h

/-- The tokens of `typedef unsigned int U; U v;` behind `tokenize`. -/
theorem tokenize_typedefExample :
    tokenize exampleHost "typedef unsigned int U; U v;".toList "a.c".toList =
      some { tokens :=
               line1 ["typedef", "unsigned", "int", "U", ";", "unsigned", "int", "v", ";"],
             files := ["a.c".toList] } := by
  have hl : lex exampleHost "typedef unsigned int U; U v;".toList "a.c".toList =
      .done ⟨line1 ["typedef", "unsigned", "int", "U", ";", "U", "v", ";"],
        ["a.c".toList], 1, [], [], [], 0, []⟩ := by decide
  unfold tokenize
  rw [hl]
  simp +decide [line1, postLex, beforeNoise, addtoken, c_str, combine, combineAt,
    combineWithNext, combineEntry, typedefPass, matchTypedef2, matchTypedef3, asmFrom, strAt,
    removeWord, dropHeadWord, deleteNextWord, expandType, Token.inserted, matchType, isName]

set_option maxRecDepth 4000 in
/-- The first part of `simplifyTokenList` on the example: `unsigned` is deleted. -/
theorem simplifySizes_typedefExample :
    simplifySizes examplePlatform
        (line1 ["typedef", "unsigned", "int", "U", ";", "unsigned", "int", "v", ";"]) =
      some (line1 ["typedef", "int", "U", ";", "int", "v", ";"]) := by
  simp +decide [simplifySizes, line1, combineStrings, combineStringsFrom, removeUnwanted,
    deleteUnwanted, unwantedWords, foldSigns, foldSignsFrom, fillTypeSize, fillStructSizes,
    replaceSizeofVar, sizeofLoop, replaceSizeofArray, replaceConstants, simplifyCasts, castBody,
    Match, MatchVarId, Atom.accepts, isString, simpleMatch, matchType, isName]

set_option maxRecDepth 8000 in
/-- The function `simplifyCalculations` finds nothing to fold in the example. -/
theorem simplifyCalculations_typedefExample (l : List Token)
    (h : l = line1 ["typedef", "int", "U", ";", "int", "v", ";"] ∨ l = typedefTokens) :
    simplifyCalculations examplePlatform l = some (l, false) := by
  rcases h with rfl | rfl <;>
  simp +decide [simplifyCalculations, line1, typedefTokens, tokenOf, calcLoop, calcBody,
    calcTimesOne, calcFold, calcNumber, calcVariable, Match, MatchVarId, Atom.accepts,
    simpleMatch, isName, isNumber]

set_option maxRecDepth 8000 in
/-- The second part of `simplifyTokenList` on the example: `setVarId` numbers `U`
and `v`. -/
theorem simplifyDeclarations_typedefExample :
    simplifyDeclarations examplePlatform 8
        (line1 ["typedef", "int", "U", ";", "int", "v", ";"]) = .ok typedefTokens := by
  have h1 : calculationsLoop examplePlatform 8
      (line1 ["typedef", "int", "U", ";", "int", "v", ";"]) =
      .ok (line1 ["typedef", "int", "U", ";", "int", "v", ";"]) := by
    rw [calculationsLoop, simplifyCalculations_typedefExample _ (Or.inl rfl)]
    rfl
  rw [simplifyDeclarations, h1]
  simp +decide [Result.bind, Result.map, line1, typedefTokens, tokenOf, replacePointerSum,
    splitDeclarations, splitBody, splitPoint, setVarId, setVarIdLoop, setMemberIds,
    declareVariable, declaredName, markVariable, replaceNULL, removeNullCasts, Match,
    MatchVarId, Atom.accepts, simpleMatch, isName, matchType, strchr, Token.aaaa0, markMember,
    setVarIdAt]

/-- One round of the loop `while (modified)` changes nothing in the example. -/
theorem simplifyRound_typedefExample :
    simplifyRound examplePlatform 8 typedefTokens = .ok (typedefTokens, false) := by
  have h1 : simplifyConditions examplePlatform 8 typedefTokens = .ok (typedefTokens, false) := by
    decide
  have h2 : simplifyFunctionReturn 8 typedefTokens = .ok (typedefTokens, false) := by decide
  have h3 : simplifyKnownVariables examplePlatform 8 typedefTokens =
      .ok (typedefTokens, false) := by decide
  have h4 : removeReduntantConditions 8 typedefTokens = .ok (typedefTokens, false) := by decide
  have h5 : simplifyRedundantParanthesis 8 typedefTokens = .ok (typedefTokens, false) := by
    decide
  rw [simplifyRound, h1]
  simp only [Result.bind]
  rw [h2]
  simp only [Result.bind]
  rw [h3]
  simp only [Result.bind]
  rw [h4]
  simp only [Result.bind]
  rw [h5]
  simp only [Result.bind]
  rw [simplifyCalculations_typedefExample _ (Or.inr rfl)]
  rfl

/-- C12 as stated fails on its own example: `tokenize` followed by
`simplifyTokenList` (no loop of which needs more than 8 rounds) makes
`typedef int U ; int v ;` of the input `typedef unsigned int U; U v;`. The typedef
statement is still in the stream, and the stream is not `int v ;`. -/
theorem typedef_statement_counterexample :
    (tokenize exampleHost "typedef unsigned int U; U v;".toList "a.c".toList).map
        (fun t => (simplifyTokenList examplePlatform 8 t.tokens).map texts) =
      some (.ok ["typedef", "int", "U", ";", "int", "v", ";"]) ∧
    (tokenize exampleHost "typedef unsigned int U; U v;".toList "a.c".toList).map
        (fun t => (simplifyTokenList examplePlatform 8 t.tokens).map texts) ≠
      some (.ok ["int", "v", ";"]) := by
  have h : (tokenize exampleHost "typedef unsigned int U; U v;".toList "a.c".toList).map
      (fun t => (simplifyTokenList examplePlatform 8 t.tokens).map texts) =
      some (.ok ["typedef", "int", "U", ";", "int", "v", ";"]) := by
    have hb : simplifyBraces 8 typedefTokens = .ok typedefTokens := by decide
    rw [tokenize_typedefExample]
    simp only [Option.map_some', simplifyTokenList, simplifySizes_typedefExample,
      Result.ofOption, Result.bind, simplifyDeclarations_typedefExample, hb]
    rw [modifiedLoop, simplifyRound_typedefExample]
    decide
  refine ⟨h, ?_⟩
  rw [h]
  decide

/-- C13 fails on the code: of two `__asm` blocks in a row only the first is
deleted. After the deletion the loop steps onto the second `__asm` token and tests
only the tokens behind it, so `f() { __asm { a } __asm { b } }` keeps the adjacent
pair `__asm` `{`. -/
theorem asm_second_block_kept :
    tokenize exampleHost "f() \x7b __asm \x7b a \x7d __asm \x7b b \x7d \x7d".toList
        "a.c".toList =
      some { tokens := line1 ["f", "(", ")", "\x7b", "__asm", "\x7b", "b", "\x7d", "\x7d"],
             files := ["a.c".toList] } := by
  have hl : lex exampleHost "f() \x7b __asm \x7b a \x7d __asm \x7b b \x7d \x7d".toList
      "a.c".toList =
      .done ⟨line1 ["f", "(", ")", "\x7b", "__asm", "\x7b", "a", "\x7d", "__asm", "\x7b",
          "b", "\x7d", "\x7d"],
        ["a.c".toList], 1, [], [], [], 0, []⟩ := by decide
  unfold tokenize
  rw [hl]
  simp [line1, postLex, beforeNoise, addtoken, c_str, combine, combineAt, combineWithNext,
    combineEntry, typedefPass, matchTypedef2, matchTypedef3, asmFrom, asmDelete, strAt,
    removeWord, dropHeadWord, deleteNextWord]

/-- A well-formed literal is its content between two quotes, without NUL byte. -/
theorem wellFormedLiteral_shape (s : List Char) (h : wellFormedLiteral s = true) :
    s = '"' :: literalContent s ++ ['"'] ∧ '\x00' ∉ literalContent s := by
  simp only [wellFormedLiteral, Bool.and_eq_true, decide_eq_true_eq] at h
  obtain ⟨⟨⟨hlen, hhead⟩, hlast⟩, hnul⟩ := h
  obtain ⟨s', rfl⟩ := List.head?_eq_some_iff.1 hhead
  obtain ⟨ys, hys⟩ := List.getLast?_eq_some_iff.1 hlast
  cases ys with
  | nil =>
    simp only [List.nil_append, List.cons.injEq] at hys
    rw [hys.2] at hlen
    simp at hlen
  | cons y ys =>
    simp only [List.cons_append, List.cons.injEq] at hys
    obtain ⟨-, rfl⟩ := hys
    refine ⟨by simp [literalContent], ?_⟩
    intro hmem
    apply hnul
    simp only [literalContent, List.drop_succ_cons, List.drop_zero, List.dropLast_concat] at hmem
    simp [hmem]

/-- Content between two quotes is a well-formed literal. -/
theorem wellFormedLiteral_quote (c : List Char) (h : '\x00' ∉ c) :
    wellFormedLiteral ('"' :: c ++ ['"']) = true := by
  simp only [wellFormedLiteral, Bool.and_eq_true, decide_eq_true_eq]
  refine ⟨⟨⟨by simp, by simp⟩, ?_⟩, ?_⟩
  · rw [List.getLast?_append]
    simp
  · simp only [List.cons_append, List.mem_cons, List.mem_append, List.mem_singleton, not_or]
    exact ⟨by decide, h, by decide⟩

/-- The content of a content between quotes. -/
theorem literalContent_quote (c : List Char) : literalContent ('"' :: c ++ ['"']) = c := by
  simp [literalContent]

/-- What one round of the inner `while` makes of two well-formed literals. -/
theorem splice_two (s1 s2 : List Char) (h1 : wellFormedLiteral s1 = true)
    (h2 : wellFormedLiteral s2 = true) :
    c_str (s1.dropLast ++ s2.drop 1) =
      '"' :: (literalContent s1 ++ literalContent s2) ++ ['"'] := by
  obtain ⟨e1, n1⟩ := wellFormedLiteral_shape s1 h1
  obtain ⟨e2, n2⟩ := wellFormedLiteral_shape s2 h2
  have hd : s1.dropLast = '"' :: literalContent s1 := by
    conv_lhs => rw [e1]
    rw [List.dropLast_concat]
  have ht : s2.drop 1 = literalContent s2 ++ ['"'] := by
    conv_lhs => rw [e2]
    rfl
  rw [hd, ht]
  have hn : '\x00' ∉ '"' :: literalContent s1 ++ (literalContent s2 ++ ['"']) := by
    intro hmem
    simp only [List.cons_append, List.mem_cons, List.mem_append, List.mem_singleton] at hmem
    rcases hmem with hmem | hmem | hmem | hmem
    · exact absurd hmem (by decide)
    · exact n1 hmem
    · exact n2 hmem
    · exact absurd hmem (by decide)
  rw [c_str_of_no_nul _ hn]
  simp

/-- A run of well-formed literals behind a well-formed literal is appended to it. -/
theorem combineStringsFrom_run (run : List Token) :
    ∀ (tok : Token) (post : List Token), isString tok = true →
      wellFormedLiteral tok.str = true →
      (∀ t ∈ run, isString t = true ∧ wellFormedLiteral t.str = true) →
      (∀ t ∈ post.head?, isString t = false) →
      combineStringsFrom tok (run ++ post) =
        (if run = [] then tok
         else tok.setStr ('"' :: (literalContent tok.str ++
            (run.map (fun t => literalContent t.str)).flatten) ++ ['"'])) ::
          combineStrings post := by
  induction run with
  | nil =>
    intro tok post _ _ _ hpost
    rw [if_pos rfl, List.nil_append]
    cases post with
    | nil => rfl
    | cons p post =>
      have hp : isString p = false := hpost p rfl
      rw [combineStringsFrom, if_neg (by simp [hp]), combineStrings]
  | cons n run ih =>
    intro tok post hs hwf hrun hpost
    have hn := hrun n (List.mem_cons_self _ _)
    rw [List.cons_append, combineStringsFrom, if_pos ⟨hs, hn.1⟩,
      splice_two _ _ hwf hn.2]
    have hnul : '\x00' ∉ literalContent tok.str ++ literalContent n.str := by
      have a1 := wellFormedLiteral_shape tok.str hwf
      have a2 := wellFormedLiteral_shape n.str hn.2
      intro hmem
      rcases List.mem_append.1 hmem with hmem | hmem
      · exact a1.2 hmem
      · exact a2.2 hmem
    rw [ih _ post (by simp [isString]) (by simpa using wellFormedLiteral_quote _ hnul)
      (fun t ht => hrun t (List.mem_cons_of_mem _ ht)) hpost, if_neg (List.cons_ne_nil _ _)]
    by_cases hr : run = []
    · subst hr
      simp
    · rw [if_neg hr, Token.setStr_setStr, Token.str_setStr, literalContent_quote]
      simp

/-- Behind a token that is no literal the loop starts afresh. -/
theorem combineStringsFrom_append (mid : List Token) :
    ∀ (tok : Token) (xs : List Token),
      (∀ t ∈ (tok :: mid).getLast?, isString t = false) →
      combineStringsFrom tok (mid ++ xs) = combineStringsFrom tok mid ++ combineStrings xs := by
  induction mid with
  | nil =>
    intro tok xs h
    have ht : isString tok = false := h tok rfl
    cases xs with
    | nil => simp [combineStringsFrom, combineStrings]
    | cons x xs => simp [combineStringsFrom, combineStrings, ht]
  | cons n mid ih =>
    intro tok xs h
    rw [List.getLast?_cons_cons] at h
    rw [List.cons_append, combineStringsFrom, combineStringsFrom]
    by_cases hc : isString tok = true ∧ isString n = true
    · rw [if_pos hc, if_pos hc]
      apply ih
      cases mid with
      | nil =>
        intro t _
        have := h n rfl
        rw [hc.2] at this
        cases this
      | cons m mid =>
        rw [List.getLast?_cons_cons] at h ⊢
        exact h
    · rw [if_neg hc, if_neg hc, ih n xs h]
      rfl

/-- No two literals stay next to each other, and a token that is no literal stays
the first token. -/
theorem combineStringsFrom_chain (rest : List Token) :
    ∀ tok : Token,
      List.Chain' (fun a b => ¬ (isString a = true ∧ isString b = true))
        (combineStringsFrom tok rest) ∧
      (isString tok = false → (combineStringsFrom tok rest).head? = some tok) := by
  induction rest with
  | nil =>
    intro tok
    exact ⟨List.chain'_singleton _, fun _ => rfl⟩
  | cons n rest ih =>
    intro tok
    rw [combineStringsFrom]
    by_cases hc : isString tok = true ∧ isString n = true
    · rw [if_pos hc]
      refine ⟨(ih _).1, ?_⟩
      intro h
      rw [hc.1] at h
      cases h
    · rw [if_neg hc]
      refine ⟨List.Chain'.cons' (ih n).1 ?_, fun _ => rfl⟩
      intro y hy hboth
      by_cases hn : isString n = true
      · exact hc ⟨hboth.1, hn⟩
      · have hhead := (ih n).2 (by simpa using hn)
        rw [hhead] at hy
        cases hy
        exact hn hboth.2

/-- C14: in a stream whose tokens that start with a quote are well-formed
literals, after the loop "Combine strings" of `simplifyTokenList` no two adjacent
tokens both start with a quote, and every maximal run of adjacent literals has
become one token, at the place of the first literal of the run, whose content is
the concatenation of the contents of the run. -/
theorem combineStrings_splices (ts : List Token)
    (hwf : ∀ t ∈ ts, isString t = true → wellFormedLiteral t.str = true) :
    List.Chain' (fun a b => ¬ (isString a = true ∧ isString b = true)) (combineStrings ts) ∧
    ∀ (pre : List Token) (tok : Token) (run post : List Token),
      ts = pre ++ tok :: (run ++ post) →
      (∀ t ∈ pre.getLast?, isString t = false) →
      (∀ t ∈ tok :: run, isString t = true) →
      (∀ t ∈ post.head?, isString t = false) →
      ∃ R : Token,
        R.str = '"' :: ((tok :: run).map (fun t => literalContent t.str)).flatten ++ ['"'] ∧
        R.linenr = tok.linenr ∧ R.fileIndex = tok.fileIndex ∧
        combineStrings ts = combineStrings pre ++ R :: combineStrings post := by
  constructor
  · cases ts with
    | nil => exact List.chain'_nil
    | cons t ts => exact (combineStringsFrom_chain ts t).1
  · intro pre tok run post hts hpre hrun hpost
    subst hts
    have hall : ∀ t ∈ tok :: run, isString t = true ∧ wellFormedLiteral t.str = true := by
      intro t ht
      have hmem : t ∈ pre ++ tok :: (run ++ post) := by
        apply List.mem_append_right
        rcases List.mem_cons.1 ht with rfl | h
        · exact List.mem_cons_self _ _
        · exact List.mem_cons_of_mem _ (List.mem_append_left _ h)
      exact ⟨hrun t ht, hwf t hmem (hrun t ht)⟩
    have htail := combineStringsFrom_run run tok post (hall tok (List.mem_cons_self _ _)).1
      (hall tok (List.mem_cons_self _ _)).2
      (fun t ht => hall t (List.mem_cons_of_mem _ ht)) hpost
    have hwhole : combineStrings (pre ++ tok :: (run ++ post)) =
        combineStrings pre ++ combineStringsFrom tok (run ++ post) := by
      cases pre with
      | nil => rfl
      | cons p pre =>
        rw [List.cons_append, combineStrings, combineStringsFrom_append pre p _ hpre]
        rfl
    rw [hwhole, htail]
    refine ⟨_, ?_, ?_, ?_, rfl⟩
    · by_cases hr : run = []
      · subst hr
        rw [if_pos rfl]
        have e := (wellFormedLiteral_shape tok.str (hall tok (List.mem_cons_self _ _)).2).1
        simpa using e
      · rw [if_neg hr]
        simp
    · by_cases hr : run = []
      · rw [if_pos hr]
      · rw [if_neg hr]
        rfl
    · by_cases hr : run = []
      · rw [if_pos hr]
      · rw [if_neg hr]
        rfl

/-- An instance of C14: the stream `x "a" "b" ;` becomes `x "ab" ;`. -/
theorem combineStrings_splices_witness :
    texts (combineStrings (line1 ["x", "\"a\"", "\"b\"", ";"])) = ["x", "\"ab\"", ";"] := by
  obtain ⟨R, h1, -, -, h4⟩ :=
    (combineStrings_splices (line1 ["x", "\"a\"", "\"b\"", ";"]) (by decide)).2
      (line1 ["x"]) ⟨"\"a\"".toList, 1, 0, 0⟩ (line1 ["\"b\""]) (line1 [";"]) rfl
      (by decide) (by decide) (by decide)
  rw [h4]
  simp only [texts, List.map_append, List.map_cons, h1]
  decide

/-- C15 fails on the code: of two unwanted words in a row only the first is
deleted. The inner loop ends at its `break` after one deletion and the `for` then
steps onto the second word, which is never the `next` of a visited node: the
stream `x unsigned unlikely y` keeps `unlikely` behind `x`. -/
theorem removeUnwanted_keeps_second_word :
    removeUnwanted (line1 ["x", "unsigned", "unlikely", "y"]) =
      line1 ["x", "unlikely", "y"] := by
  simp [line1, removeUnwanted, deleteUnwanted, unwantedWords]

/-- One round of the sign loop: two signs fold into one, anything else ends the
inner `while`. -/
theorem foldSignsFrom_cons (tok n : Token) (rest : List Token) :
    foldSignsFrom tok (n :: rest) =
      if isSign tok = true ∧ isSign n = true then foldSignsFrom (foldStep tok n) rest
      else tok :: foldSignsFrom n rest := by
  rw [foldSignsFrom]
  by_cases h1 : tok.str = ['+']
  · by_cases h2 : n.str = ['+']
    · simp [isSign, foldStep, h1, h2]
    · by_cases h3 : n.str = ['-']
      · simp [isSign, foldStep, h1, h3]
      · simp [isSign, h1, h2, h3]
  · by_cases h1' : tok.str = ['-']
    · by_cases h2 : n.str = ['-']
      · simp [isSign, foldStep, h1', h2]
      · by_cases h3 : n.str = ['+']
        · simp [isSign, foldStep, h1', h3]
        · simp [isSign, h1', h2, h3]
    · simp [isSign, h1, h1']

/-- The text of the node into which a sign was folded. -/
theorem foldStep_str (tok n : Token) (ht : isSign tok = true) (hn : isSign n = true) :
    (foldStep tok n).str = foldedSign [tok, n] := by
  simp only [isSign, Bool.or_eq_true, decide_eq_true_eq] at ht hn
  rcases ht with ht | ht <;> rcases hn with hn | hn <;> simp [foldStep, foldedSign, ht, hn]

/-- The node into which a sign was folded keeps its line and its file. -/
theorem foldStep_origin (tok n : Token) :
    (foldStep tok n).linenr = tok.linenr ∧ (foldStep tok n).fileIndex = tok.fileIndex := by
  unfold foldStep
  split
  · exact ⟨rfl, rfl⟩
  · split
    · exact ⟨rfl, rfl⟩
    · exact ⟨rfl, rfl⟩

/-- Folding the first two signs of a run first does not change the result. -/
theorem foldedSign_cons_cons (tok n t : Token) (run : List Token) (ht : isSign tok = true)
    (hn : isSign n = true) (h : t.str = foldedSign [tok, n]) :
    foldedSign (t :: run) = foldedSign (tok :: n :: run) := by
  simp only [isSign, Bool.or_eq_true, decide_eq_true_eq] at ht hn
  unfold foldedSign at h ⊢
  simp only [List.countP_cons, List.countP_nil] at h ⊢
  generalize List.countP (fun t => decide (t.str = ['-'])) run = c
  have h2 : (c + 1 + 1) % 2 = c % 2 := by omega
  rcases ht with ht | ht <;> rcases hn with hn | hn <;> simp [ht, hn] at h <;>
    simp [ht, hn, h, h2]

/-- A run of signs behind a sign folds into that sign. -/
theorem foldSignsFrom_run (run : List Token) :
    ∀ (tok : Token) (post : List Token), isSign tok = true →
      (∀ t ∈ run, isSign t = true) → (∀ t ∈ post.head?, isSign t = false) →
      ∃ R : Token, R.str = foldedSign (tok :: run) ∧ R.linenr = tok.linenr ∧
        R.fileIndex = tok.fileIndex ∧
        foldSignsFrom tok (run ++ post) = R :: foldSigns post := by
  induction run with
  | nil =>
    intro tok post hs _ hpost
    refine ⟨tok, ?_, rfl, rfl, ?_⟩
    · simp only [isSign, Bool.or_eq_true, decide_eq_true_eq] at hs
      rcases hs with h | h <;> simp [foldedSign, h]
    · rw [List.nil_append]
      cases post with
      | nil => rfl
      | cons p post =>
        have hp : isSign p = false := hpost p rfl
        rw [foldSignsFrom_cons, if_neg (by simp [hp]), foldSigns]
  | cons n run ih =>
    intro tok post hs hrun hpost
    have hn := hrun n (List.mem_cons_self _ _)
    have hstr := foldStep_str tok n hs hn
    have hsign : isSign (foldStep tok n) = true := by
      unfold isSign
      rw [hstr]
      unfold foldedSign
      split <;> simp
    obtain ⟨R, h1, h2, h3, h4⟩ :=
      ih (foldStep tok n) post hsign (fun t ht => hrun t (List.mem_cons_of_mem _ ht)) hpost
    refine ⟨R, ?_, ?_, ?_, ?_⟩
    · rw [h1, foldedSign_cons_cons tok n _ run hs hn hstr]
    · rw [h2, (foldStep_origin tok n).1]
    · rw [h3, (foldStep_origin tok n).2]
    · rw [List.cons_append, foldSignsFrom_cons, if_pos ⟨hs, hn⟩, h4]

/-- Behind a token that is no sign the loop starts afresh. -/
theorem foldSignsFrom_append (mid : List Token) :
    ∀ (tok : Token) (xs : List Token),
      (∀ t ∈ (tok :: mid).getLast?, isSign t = false) →
      foldSignsFrom tok (mid ++ xs) = foldSignsFrom tok mid ++ foldSigns xs := by
  induction mid with
  | nil =>
    intro tok xs h
    have ht : isSign tok = false := h tok rfl
    cases xs with
    | nil => simp [foldSignsFrom, foldSigns]
    | cons x xs =>
      rw [List.nil_append, foldSignsFrom_cons, if_neg (by simp [ht])]
      rfl
  | cons n mid ih =>
    intro tok xs h
    rw [List.getLast?_cons_cons] at h
    rw [List.cons_append, foldSignsFrom_cons, foldSignsFrom_cons]
    by_cases hc : isSign tok = true ∧ isSign n = true
    · rw [if_pos hc, if_pos hc]
      apply ih
      cases mid with
      | nil =>
        intro t _
        have := h n rfl
        rw [hc.2] at this
        cases this
      | cons m mid =>
        rw [List.getLast?_cons_cons] at h ⊢
        exact h
    · rw [if_neg hc, if_neg hc, ih n xs h]
      rfl

/-- No two signs stay next to each other, and a token that is no sign stays the
first token. -/
theorem foldSignsFrom_chain (rest : List Token) :
    ∀ tok : Token,
      List.Chain' (fun a b => ¬ (isSign a = true ∧ isSign b = true))
        (foldSignsFrom tok rest) ∧
      (isSign tok = false → (foldSignsFrom tok rest).head? = some tok) := by
  induction rest with
  | nil =>
    intro tok
    exact ⟨List.chain'_singleton _, fun _ => rfl⟩
  | cons n rest ih =>
    intro tok
    rw [foldSignsFrom_cons]
    by_cases hc : isSign tok = true ∧ isSign n = true
    · rw [if_pos hc]
      refine ⟨(ih _).1, ?_⟩
      intro h
      rw [hc.1] at h
      cases h
    · rw [if_neg hc]
      refine ⟨List.Chain'.cons' (ih n).1 ?_, fun _ => rfl⟩
      intro y hy hboth
      by_cases hn : isSign n = true
      · exact hc ⟨hboth.1, hn⟩
      · have hhead := (ih n).2 (by simpa using hn)
        rw [hhead] at hy
        cases hy
        exact hn hboth.2

/-- C16: after the sign loop of `simplifyTokenList` no two adjacent tokens are both
`+` or `-`, and every maximal run of adjacent `+`/`-` tokens has become one token,
at the place of the first token of the run, which is `-` exactly when the run held
an odd number of `-`. -/
theorem foldSigns_folds_runs (ts : List Token) :
    List.Chain' (fun a b => ¬ (isSign a = true ∧ isSign b = true)) (foldSigns ts) ∧
    ∀ (pre : List Token) (tok : Token) (run post : List Token),
      ts = pre ++ tok :: (run ++ post) →
      (∀ t ∈ pre.getLast?, isSign t = false) →
      (∀ t ∈ tok :: run, isSign t = true) →
      (∀ t ∈ post.head?, isSign t = false) →
      ∃ R : Token,
        R.str = (if ((tok :: run).countP (fun t => t.str = ['-'])) % 2 = 1 then ['-']
          else ['+']) ∧
        R.linenr = tok.linenr ∧ R.fileIndex = tok.fileIndex ∧
        foldSigns ts = foldSigns pre ++ R :: foldSigns post := by
  constructor
  · cases ts with
    | nil => exact List.chain'_nil
    | cons t ts => exact (foldSignsFrom_chain ts t).1
  · intro pre tok run post hts hpre hrun hpost
    subst hts
    obtain ⟨R, h1, h2, h3, h4⟩ :=
      foldSignsFrom_run run tok post (hrun tok (List.mem_cons_self _ _))
        (fun t ht => hrun t (List.mem_cons_of_mem _ ht)) hpost
    refine ⟨R, h1, h2, h3, ?_⟩
    have htail : foldSigns (tok :: (run ++ post)) = R :: foldSigns post := by
      rw [foldSigns, h4]
    cases pre with
    | nil => rw [List.nil_append, htail]; rfl
    | cons p pre =>
      rw [List.cons_append, foldSigns, foldSignsFrom_append pre p _ hpre, htail]
      rfl

/-- An instance of C16: `a - - + - b` folds to `a - b`. -/
theorem foldSigns_folds_runs_witness :
    texts (foldSigns (line1 ["a", "-", "-", "+", "-", "b"])) = ["a", "-", "b"] := by
  obtain ⟨R, h1, -, -, h4⟩ :=
    (foldSigns_folds_runs (line1 ["a", "-", "-", "+", "-", "b"])).2
      (line1 ["a"]) ⟨"-".toList, 1, 0, 0⟩ (line1 ["-", "+", "-"]) (line1 ["b"]) rfl
      (by decide) (by decide) (by decide)
  rw [h4]
  simp only [texts, List.map_append, List.map_cons, h1]
  decide

/-- The test `class|struct %var%` in terms of the two tokens. -/
theorem match_struct (tok : Token) (rest : List Token) :
    Match [.oneOf ["class", "struct"], .var] (tok :: rest) = true ↔
      (tok.str = "class".toList ∨ tok.str = "struct".toList) ∧
        ∃ n post, rest = n :: post ∧ isName n.str = true := by
  cases rest with
  | nil => simp [Match, MatchVarId]
  | cons n post => simp [Match, MatchVarId, Atom.accepts]

/-- What the struct loop leaves in the map: 100 for the names behind `class` or
`struct`, the old entry for every other name. -/
theorem lookup_fillStructSizes (type : List Char) (ts : List Token) :
    ∀ typeSize : TypeSize,
      (isStructName ts type → (fillStructSizes ts typeSize).lookup type = some 100) ∧
      (¬ isStructName ts type →
        (fillStructSizes ts typeSize).lookup type = typeSize.lookup type) := by
  induction ts with
  | nil =>
    intro m
    constructor
    · rintro ⟨pre, k, n, post, h, -⟩
      cases pre <;> cases h
    · intro _
      rfl
  | cons tok rest ih =>
    intro m
    rw [fillStructSizes]
    by_cases hrest : isStructName rest type
    · have hall : isStructName (tok :: rest) type := by
        obtain ⟨pre, k, n, post, h, hk⟩ := hrest
        exact ⟨tok :: pre, k, n, post, by rw [h]; rfl, hk⟩
      exact ⟨fun _ => (ih _).1 hrest, fun h => absurd hall h⟩
    · by_cases hm : Match [.oneOf ["class", "struct"], .var] (tok :: rest) = true
      · rw [if_pos hm, (ih _).2 hrest]
        obtain ⟨hk, n, post, rfl, hn⟩ := (match_struct tok rest).1 hm
        by_cases hty : n.str = type
        · constructor
          · intro _
            simp [strAt, hty, List.lookup]
          · intro h
            exact absurd ⟨[], tok, n, post, rfl, hk, hn, hty⟩ h
        · have hne : (type == n.str) = false := by
            simpa using (fun h : type = n.str => hty h.symm)
          constructor
          · rintro ⟨pre, k, n', post', h, hk', hn', hty'⟩
            cases pre with
            | nil =>
              simp only [List.nil_append, List.cons.injEq] at h
              obtain ⟨-, rfl, -⟩ := h
              exact absurd hty' hty
            | cons a pre =>
              simp only [List.cons_append, List.cons.injEq] at h
              exact absurd ⟨pre, k, n', post', h.2, hk', hn', hty'⟩ hrest
          · intro _
            simp [strAt, List.lookup, hne]
      · rw [if_neg hm, (ih _).2 hrest]
        constructor
        · rintro ⟨pre, k, n', post', h, hk', hn', hty'⟩
          cases pre with
          | nil =>
            simp only [List.nil_append, List.cons.injEq] at h
            obtain ⟨rfl, rfl⟩ := h
            exact absurd ((match_struct _ _).2 ⟨hk', n', post', rfl, hn'⟩) hm
          | cons a pre =>
            simp only [List.cons_append, List.cons.injEq] at h
            exact absurd ⟨pre, k, n', post', h.2, hk', hn', hty'⟩ hrest
        · intro _
          rfl

/-- The loop at a `sizeof` token. -/
theorem sizeofLoop_sizeof (p : Platform) (typeSize : TypeSize) (before rest rest1 : List Token)
    (tok : Token) (htok : tok.str = "sizeof".toList)
    (hp : parenthesize tok rest = some rest1) :
    sizeofLoop p typeSize before (tok :: rest) =
      sizeofLoop p typeSize
        (before ++ [(sizeofReplace p typeSize (before ++ tok :: rest1) tok rest1).1])
        (sizeofReplace p typeSize (before ++ tok :: rest1) tok rest1).2 := by
  rw [sizeofLoop, if_neg (by simp [htok])]
  split
  · rename_i h
    rw [hp] at h
    cases h
  · rename_i r h
    rw [hp] at h
    cases h
    rfl

/-- The loop at a token that is no `sizeof`. -/
theorem sizeofLoop_other (p : Platform) (typeSize : TypeSize) (before rest : List Token)
    (tok : Token) (htok : tok.str ≠ "sizeof".toList) :
    sizeofLoop p typeSize before (tok :: rest) =
      sizeofLoop p typeSize (before ++ [tok]) rest := by
  rw [sizeofLoop, if_pos htok]

/-- The loop at `sizeof ( T )` for a type with a size in the map. -/
theorem sizeofLoop_type_known (p : Platform) (typeSize : TypeSize)
    (before post : List Token) (tok t1 t2 t3 : Token) (htok : tok.str = "sizeof".toList)
    (h1 : t1.str = ['(']) (h2 : matchType t2 = true) (h3 : t3.str = [')'])
    (hsize : 0 < SizeOfType typeSize t2.str) :
    sizeofLoop p typeSize before (tok :: t1 :: t2 :: t3 :: post) =
      sizeofLoop p typeSize
        (before ++ [tok.setStr (decimal (SizeOfType typeSize t2.str))]) post := by
  rw [sizeofLoop_sizeof p typeSize before _ (t1 :: t2 :: t3 :: post) tok htok
    (by simp [parenthesize, strAt, h1])]
  have hr : sizeofReplace p typeSize (before ++ tok :: t1 :: t2 :: t3 :: post) tok
      (t1 :: t2 :: t3 :: post) =
      (tok.setStr (decimal (SizeOfType typeSize t2.str)), post) := by
    simp [sizeofReplace, Match, MatchVarId, Atom.accepts, htok, h1, h2, h3, strAt, hsize]
  rw [hr]

/-- The loop at `sizeof ( T )` for a type without a size in the map. -/
theorem sizeofLoop_type_unknown (p : Platform) (typeSize : TypeSize)
    (before post : List Token) (tok t1 t2 t3 : Token) (htok : tok.str = "sizeof".toList)
    (h1 : t1.str = ['(']) (h2 : matchType t2 = true) (h3 : t3.str = [')'])
    (hsize : SizeOfType typeSize t2.str = 0) :
    sizeofLoop p typeSize before (tok :: t1 :: t2 :: t3 :: post) =
      sizeofLoop p typeSize (before ++ [tok]) (t1 :: t2 :: t3 :: post) := by
  rw [sizeofLoop_sizeof p typeSize before _ (t1 :: t2 :: t3 :: post) tok htok
    (by simp [parenthesize, strAt, h1])]
  have hr : sizeofReplace p typeSize (before ++ tok :: t1 :: t2 :: t3 :: post) tok
      (t1 :: t2 :: t3 :: post) = (tok, t1 :: t2 :: t3 :: post) := by
    simp [sizeofReplace, Match, MatchVarId, Atom.accepts, htok, h1, h2, h3, strAt, hsize]
  rw [hr]

/-- The six entries for the built-in types. -/
theorem lookup_builtinTypeSize (p : Platform) (type : List Char) :
    (builtinTypeSize p).lookup type =
      if type = "char".toList then some p.sizeofChar
      else if type = "short".toList then some p.sizeofShort
      else if type = "int".toList then some p.sizeofInt
      else if type = "long".toList then some p.sizeofLong
      else if type = "float".toList then some p.sizeofFloat
      else if type = "double".toList then some p.sizeofDouble
      else none := by
  unfold builtinTypeSize
  by_cases h1 : type = "double".toList
  · subst h1; rfl
  by_cases h2 : type = "float".toList
  · subst h2; rfl
  by_cases h3 : type = "long".toList
  · subst h3; rfl
  by_cases h4 : type = "int".toList
  · subst h4; rfl
  by_cases h5 : type = "short".toList
  · subst h5; rfl
  by_cases h6 : type = "char".toList
  · subst h6; rfl
  have b : ∀ s : List Char, type ≠ s → (type == s) = false := fun s h => by simpa using h
  simp only [List.lookup, b _ h1, b _ h2, b _ h3, b _ h4, b _ h5, b _ h6, if_neg h1, if_neg h2,
    if_neg h3, if_neg h4, if_neg h5, if_neg h6]

/-- C17: at `sizeof ( T )` with a type name `T`, the loop "Replace 'sizeof(type)'"
of `simplifyTokenList` puts the decimal text of the entry of `T` in the map
`_typeSize` in the place of the four tokens when `T` has an entry, and goes on
behind the `sizeof` with the four tokens as they are when `T` has none. The map
holds 100 for every name that stands behind `class` or `struct` in the stream,
and otherwise the `sizeof` of the host for `char`, `short`, `int`, `long`, `float`
and `double` (which are positive), and nothing else. -/
theorem sizeof_type_replaced (p : Platform)
    (hp : 0 < p.sizeofChar ∧ 0 < p.sizeofShort ∧ 0 < p.sizeofInt ∧ 0 < p.sizeofLong ∧
      0 < p.sizeofFloat ∧ 0 < p.sizeofDouble)
    (ts before post : List Token) (tok t1 t2 t3 : Token)
    (htok : tok.str = "sizeof".toList) (h1 : t1.str = ['(']) (h2 : matchType t2 = true)
    (h3 : t3.str = [')']) :
    ((isStructName ts t2.str → (fillTypeSize p ts).lookup t2.str = some 100) ∧
      (¬ isStructName ts t2.str →
        (fillTypeSize p ts).lookup t2.str =
          if t2.str = "char".toList then some p.sizeofChar
          else if t2.str = "short".toList then some p.sizeofShort
          else if t2.str = "int".toList then some p.sizeofInt
          else if t2.str = "long".toList then some p.sizeofLong
          else if t2.str = "float".toList then some p.sizeofFloat
          else if t2.str = "double".toList then some p.sizeofDouble
          else none)) ∧
    (∀ n, (fillTypeSize p ts).lookup t2.str = some n →
      sizeofLoop p (fillTypeSize p ts) before (tok :: t1 :: t2 :: t3 :: post) =
        sizeofLoop p (fillTypeSize p ts) (before ++ [tok.setStr (decimal n)]) post) ∧
    ((fillTypeSize p ts).lookup t2.str = none →
      sizeofLoop p (fillTypeSize p ts) before (tok :: t1 :: t2 :: t3 :: post) =
        sizeofLoop p (fillTypeSize p ts) (before ++ [tok]) (t1 :: t2 :: t3 :: post)) := by
  have hmap := lookup_fillStructSizes t2.str ts (builtinTypeSize p)
  rw [lookup_builtinTypeSize] at hmap
  refine ⟨hmap, ?_, ?_⟩
  · intro n hn
    have hpos : 0 < n := by
      by_cases hs : isStructName ts t2.str
      · have := hmap.1 hs
        unfold fillTypeSize at hn
        rw [this] at hn
        cases hn
        decide
      · have := hmap.2 hs
        unfold fillTypeSize at hn
        rw [this] at hn
        obtain ⟨a, b, c, d, e, f⟩ := hp
        split_ifs at hn <;> cases hn <;> assumption
    have hsz : SizeOfType (fillTypeSize p ts) t2.str = n := by
      unfold SizeOfType
      rw [hn]
    have := sizeofLoop_type_known p (fillTypeSize p ts) before post tok t1 t2 t3 htok h1 h2 h3
      (by rw [hsz]; exact hpos)
    rw [hsz] at this
    exact this
  · intro hn
    exact sizeofLoop_type_unknown p (fillTypeSize p ts) before post tok t1 t2 t3 htok h1 h2 h3
      (by unfold SizeOfType; rw [hn])

/-- An instance of C17: on the LP64 example platform the loop that stands at the
`sizeof` of `x = sizeof ( int ) ;` ends with `x = 4 ;`. -/
theorem sizeof_type_replaced_witness :
    sizeofLoop examplePlatform
        (fillTypeSize examplePlatform (line1 ["x", "=", "sizeof", "(", "int", ")", ";"]))
        (line1 ["x", "="]) (line1 ["sizeof", "(", "int", ")", ";"]) =
      some (line1 ["x", "=", "4", ";"]) :=
  ((sizeof_type_replaced examplePlatform (by decide)
    (line1 ["x", "=", "sizeof", "(", "int", ")", ";"]) (line1 ["x", "="]) (line1 [";"])
    ⟨"sizeof".toList, 1, 0, 0⟩ ⟨"(".toList, 1, 0, 0⟩ ⟨"int".toList, 1, 0, 0⟩
    ⟨")".toList, 1, 0, 0⟩ rfl rfl (by decide) rfl).2.1 4 (by decide)).trans
    (by
      show sizeofLoop _ _ _ ((⟨";".toList, 1, 0, 0⟩ : Token) :: []) = _
      rw [sizeofLoop_other _ _ _ _ _ (by decide), sizeofLoop]
      decide)

set_option maxRecDepth 4000 in
/-- C18 fails on the code: for a declaration `T v [` with a type that is not in the
map `_typeSize` the literal is `0`, not 100. The default `sz = 100` is overwritten
with the result 0 of `SizeOfType`. In `bool b [ 4 ] ; n = sizeof ( * b ) ;`, where
`b` has the variable id 1, the `sizeof` becomes `0`. -/
theorem sizeof_element_unknown_type_is_zero :
    sizeofLoop examplePlatform
        (fillTypeSize examplePlatform
          (line1 ["bool"] ++ tokenOf "b" 1 :: line1 ["[", "4", "]", ";", "n", "=", "sizeof", "(", "*"] ++
            tokenOf "b" 1 :: line1 [")", ";"]))
        []
        (replaceSizeofVar
          (line1 ["bool"] ++ tokenOf "b" 1 :: line1 ["[", "4", "]", ";", "n", "=", "sizeof", "(", "*"] ++
            tokenOf "b" 1 :: line1 [")", ";"])) =
      some (line1 ["bool"] ++ tokenOf "b" 1 :: line1 ["[", "4", "]", ";", "n", "=", "0", ";"]) := by
  simp +decide [line1, tokenOf, replaceSizeofVar, sizeofLoop, Match, MatchVarId, Atom.accepts,
    varIdAt, strAt, parenthesize, sizeofReplace, sizeofElement, findmatch, SizeOfType, fillTypeSize,
    fillStructSizes, builtinTypeSize, matchType, isName, isNumber, decimal, List.lookup]

/-- A name is not the text `.`, `{` or `}`. -/
theorem isName_ne_punct (s : List Char) (h : isName s = true) :
    s ≠ ['.'] ∧ s ≠ ['{'] ∧ s ≠ ['}'] := by
  refine ⟨?_, ?_, ?_⟩ <;> intro hs <;> subst hs <;> revert h <;> decide

/-- A number is not the text `.`. -/
theorem isNumber_ne_dot (s : List Char) (h : isNumber s = true) : s ≠ ['.'] := by
  intro hs
  subst hs
  revert h
  decide

/-- The inner loop renames inside the block and leaves the rest as it is. -/
theorem propagateConst_eq (sym num : List Char) (hsym : isName sym = true)
    (hnum : isNumber num = true) (ts : List Token) :
    ∀ (indent : Nat) (previous original : List Char),
      (previous = ['.'] ↔ original = ['.']) →
      propagateConst sym num indent previous ts =
        renameConst sym num original (ts.take (blockEnd indent ts)) ++
          ts.drop (blockEnd indent ts) := by
  obtain ⟨hdot, hopen, hclose⟩ := isName_ne_punct sym hsym
  have hnd := isNumber_ne_dot num hnum
  induction ts with
  | nil => intro _ _ _ _; rfl
  | cons t ts ih =>
    intro indent previous original hprev
    rw [propagateConst, blockEnd]
    by_cases h1 : t.str = ['{']
    · have hne : ¬ (t.str = sym ∧ original ≠ ['.']) := fun h => hopen (h.1.symm.trans h1)
      rw [if_pos h1, if_pos h1, List.take_succ_cons, List.drop_succ_cons, renameConst,
        if_neg hne, ih _ _ _ Iff.rfl]
      rfl
    · rw [if_neg h1, if_neg h1]
      by_cases h2 : t.str = ['}']
      · have hne : ¬ (t.str = sym ∧ original ≠ ['.']) := fun h => hclose (h.1.symm.trans h2)
        rw [if_pos h2, if_pos h2]
        by_cases h3 : indent - 1 = 0
        · rw [if_pos h3, if_pos h3]
          rfl
        · rw [if_neg h3, if_neg h3, List.take_succ_cons, List.drop_succ_cons, renameConst,
            if_neg hne, ih _ _ _ Iff.rfl]
          rfl
      · rw [if_neg h2, if_neg h2, List.take_succ_cons, List.drop_succ_cons, renameConst]
        by_cases h3 : t.str = sym ∧ previous ≠ ['.']
        · have h3' : t.str = sym ∧ original ≠ ['.'] := ⟨h3.1, fun h => h3.2 (hprev.2 h)⟩
          rw [if_pos h3, if_pos h3', ih _ num t.str
            ⟨fun h => absurd h hnd, fun h => absurd (h3.1.symm.trans h) hdot⟩]
          rfl
        · have h3' : ¬ (t.str = sym ∧ original ≠ ['.']) :=
            fun h => h3 ⟨h.1, fun hp => h.2 (hprev.1 hp)⟩
          rw [if_neg h3, if_neg h3', ih _ _ _ Iff.rfl]
          rfl

/-- A pattern that starts with a word does not match at a token with another text. -/
theorem match_word_ne (w : String) (more : List Atom) (a : Token) (l : List Token)
    (ha : a.str ≠ w.toList) : Match (.word w :: more) (a :: l) = false := by
  unfold Match
  rw [MatchVarId]
  · simp only [Atom.accepts]
    rw [decide_eq_false ha, Bool.false_and]
  · intro alts h
    cases h

/-- The test `const %type% %var% = %num% ;` on six tokens. -/
theorem match_const (tok t1 t2 t3 t4 t5 : Token) (rest : List Token)
    (htok : tok.str = "const".toList) (h1 : matchType t1 = true) (h2 : isName t2.str = true)
    (h3 : t3.str = ['=']) (h4 : isNumber t4.str = true) (h5 : t5.str = [';']) :
    Match [.word "const", .type, .var, .word "=", .num, .word ";"]
      (tok :: t1 :: t2 :: t3 :: t4 :: t5 :: rest) = true := by
  simp [Match, MatchVarId, Atom.accepts, htok, h1, h2, h3, h4, h5]

/-- No statement `const %type% %var% = %num% ;` starts at a token whose second
follower is not a name, or that is not `const`. -/
theorem replaceConstants_cons_of_not (tok : Token) (rest : List Token)
    (h : Match [.word "const", .type, .var, .word "=", .num, .word ";"] (tok :: rest) = false) :
    replaceConstants (tok :: rest) = tok :: replaceConstants rest := by
  rw [replaceConstants, if_neg (by simp [h])]

/-- C19: at a statement `const T name = NUM ;` the loop "Replace constants" of
`simplifyTokenList` keeps the statement and goes on with the later tokens in which
every token with the text `name` that lies in the enclosing block (in front of the
`}` that closes it) and does not follow a `.` has the text `NUM`, and in which the
tokens behind a `.` and the tokens from that `}` on are as they were. -/
theorem const_propagated (tok t1 t2 t3 t4 t5 : Token) (rest : List Token)
    (htok : tok.str = "const".toList) (h1 : matchType t1 = true) (h2 : isName t2.str = true)
    (h3 : t3.str = ['=']) (h4 : isNumber t4.str = true) (h5 : t5.str = [';']) :
    replaceConstants (tok :: t1 :: t2 :: t3 :: t4 :: t5 :: rest) =
      tok :: t1 :: t2 :: t3 :: t4 :: t5 ::
        replaceConstants
          (renameConst t2.str t4.str [';'] (rest.take (blockEnd 1 rest)) ++
            rest.drop (blockEnd 1 rest)) := by
  have hm := match_const tok t1 t2 t3 t4 t5 rest htok h1 h2 h3 h4 h5
  rw [replaceConstants, if_pos hm]
  simp only [strAt, List.get?, List.take_succ_cons, List.take_zero, List.drop_succ_cons,
    List.drop_zero, List.cons_append, List.nil_append]
  rw [propagateConst_eq t2.str t4.str h2 h4 rest 1 t5.str [';'] (by rw [h5])]
  have hv3 : isName t3.str = false := by rw [h3]; decide
  have ht3 : matchType t3 = false := by simp [matchType, hv3]
  have hc3 : t3.str ≠ "const".toList := by rw [h3]; decide
  have hc4 : t4.str ≠ "const".toList := by
    intro h
    rw [h] at h4
    revert h4
    decide
  have hc5 : t5.str ≠ "const".toList := by rw [h5]; decide
  rw [replaceConstants_cons_of_not t1 _ (by simp [Match, MatchVarId, Atom.accepts, hv3]),
    replaceConstants_cons_of_not t2 _ (by simp [Match, MatchVarId, Atom.accepts, ht3]),
    replaceConstants_cons_of_not t3 _ (match_word_ne _ _ _ _ hc3),
    replaceConstants_cons_of_not t4 _ (match_word_ne _ _ _ _ hc4),
    replaceConstants_cons_of_not t5 _ (match_word_ne _ _ _ _ hc5)]

/-- An instance of C19: `const int N = 4 ; int a [ N ] ;` becomes
`const int N = 4 ; int a [ 4 ] ;`. -/
theorem const_propagated_witness :
    replaceConstants (line1 ["const", "int", "N", "=", "4", ";", "int", "a", "[", "N", "]", ";"]) =
      line1 ["const", "int", "N", "=", "4", ";", "int", "a", "[", "4", "]", ";"] :=
  (const_propagated ⟨"const".toList, 1, 0, 0⟩ ⟨"int".toList, 1, 0, 0⟩ ⟨"N".toList, 1, 0, 0⟩
    ⟨"=".toList, 1, 0, 0⟩ ⟨"4".toList, 1, 0, 0⟩ ⟨";".toList, 1, 0, 0⟩
    (line1 ["int", "a", "[", "N", "]", ";"]) rfl (by decide) (by decide) rfl (by decide)
    rfl).trans
    (by
      have e : renameConst "N".toList "4".toList [';']
            ((line1 ["int", "a", "[", "N", "]", ";"]).take
              (blockEnd 1 (line1 ["int", "a", "[", "N", "]", ";"]))) ++
          (line1 ["int", "a", "[", "N", "]", ";"]).drop
            (blockEnd 1 (line1 ["int", "a", "[", "N", "]", ";"])) =
          line1 ["int", "a", "[", "4", "]", ";"] := by decide
      simp only [e]
      simp +decide [line1, replaceConstants, Match, MatchVarId, Atom.accepts])

/-- The value of digits read behind a value already read. -/
theorem foldl_digits (ds : List Char) :
    ∀ n : Nat, ds.foldl (fun n c => 10 * n + (c.toNat - 48)) n =
      n * 10 ^ ds.length + ds.foldl (fun n c => 10 * n + (c.toNat - 48)) 0 := by
  induction ds with
  | nil => intro n; simp
  | cons d ds ih =>
    intro n
    simp only [List.foldl_cons, List.length_cons]
    rw [ih (10 * n + (d.toNat - 48)), ih (10 * 0 + (d.toNat - 48))]
    ring

/-- The value of a digit in front of digits. -/
theorem digitsValue_cons (d : Char) (ds : List Char) :
    digitsValue (d :: ds) = (d.toNat - 48) * 10 ^ ds.length + digitsValue ds := by
  unfold digitsValue
  rw [List.foldl_cons, foldl_digits]
  simp

/-- The code of the digit character of a number below ten. -/
theorem digitChar_value (m : Nat) (h : m < 10) : (Nat.digitChar m).toNat - 48 = m := by
  revert m
  decide

/-- The value of the digits `Nat.toDigitsCore` puts in front of a list. -/
theorem digitsValue_toDigitsCore (fuel : Nat) :
    ∀ (n : Nat) (ds : List Char), n < fuel →
      digitsValue (Nat.toDigitsCore 10 fuel n ds) = n * 10 ^ ds.length + digitsValue ds := by
  induction fuel with
  | zero => intro n ds h; omega
  | succ fuel ih =>
    intro n ds h
    unfold Nat.toDigitsCore
    simp only
    have hd := digitChar_value (n % 10) (Nat.mod_lt _ (by decide))
    split
    · rename_i h0
      rw [digitsValue_cons, hd]
      have : n % 10 = n := by omega
      rw [this]
    · rename_i h0
      have hlt : n / 10 < fuel := by omega
      rw [ih (n / 10) _ hlt, digitsValue_cons, hd]
      simp only [List.length_cons, pow_succ]
      have := Nat.div_add_mod n 10
      conv_rhs => rw [← this]
      ring

/-- Reading the decimal text of a number gives the number. -/
theorem digitsValue_decimal (n : Nat) : digitsValue (decimal n) = n := by
  unfold decimal Nat.toDigits
  rw [digitsValue_toDigitsCore (n + 1) n [] (Nat.lt_succ_self n)]
  simp [digitsValue]

/-- The decimal text of a number starts with a digit. -/
theorem decimal_head (n : Nat) : ∃ d ds, decimal n = d :: ds ∧ isdigit d = true := by
  obtain ⟨hne, hd⟩ := decimal_digits n
  cases h : decimal n with
  | nil => exact absurd h hne
  | cons d ds => exact ⟨d, ds, rfl, hd d (by rw [h]; simp)⟩

/-- The decimal text of a number is a number token. -/
theorem isNumber_decimal (n : Nat) : isNumber (decimal n) = true := by
  obtain ⟨d, ds, h, hd⟩ := decimal_head n
  rw [h]
  exact hd

/-- The function `atoi` reads the decimal text of a number in the range of `int`. -/
theorem atoi_decimal (p : Platform) (n : Nat) (h : n ≤ p.INT_MAX) :
    atoi p (decimal n) = some (n : Int) := by
  obtain ⟨d, ds, hdec, hd⟩ := decimal_head n
  have hall := (decimal_digits n).2
  have hsp : isspace d = false := by
    revert hd
    generalize hk : d.toNat = k
    simp only [isdigit, isspace, hk]
    intro hd
    simp only [Bool.decide_and, Bool.and_eq_true, decide_eq_true_eq] at hd
    simp only [Bool.decide_or, Bool.decide_and, Bool.or_eq_false_iff, decide_eq_false_iff_not,
      Bool.and_eq_false_iff]
    omega
  have hm : d ≠ '-' := by rintro rfl; revert hd; decide
  have hp : d ≠ '+' := by rintro rfl; revert hd; decide
  have h1 : (decimal n).dropWhile isspace = decimal n := by
    rw [hdec, List.dropWhile_cons_of_neg (by simp [hsp])]
  have h2 : (decimal n).takeWhile isdigit = decimal n :=
    List.takeWhile_eq_self_iff.2 hall
  unfold atoi
  simp only [h1]
  have hh : (decimal n).head? = some d := by rw [hdec]; rfl
  simp only [hh, Option.some.injEq, hm, hp, or_self, if_false, h2, digitsValue_decimal]
  unfold intResult
  rw [if_pos]
  constructor
  · have : (0 : Int) ≤ (n : Int) := Int.ofNat_nonneg n
    have : (0 : Int) ≤ (p.INT_MAX : Int) := Int.ofNat_nonneg _
    omega
  · exact_mod_cast h

/-- A token of one byte in the set matches the character class. -/
theorem accepts_chars (set : String) (v : Nat) (t : Token) (c : Char) (hc : c ∈ set.toList)
    (ht : t.str = [c]) : (Atom.chars set).accepts v t = true := by
  simp only [Atom.accepts, List.any_eq_true, decide_eq_true_eq]
  exact ⟨c, hc, ht⟩

/-- A token of one byte that is not in the set does not match the character class. -/
theorem accepts_chars_not (set : String) (v : Nat) (t : Token) (c : Char) (hc : c ∉ set.toList)
    (ht : t.str = [c]) : (Atom.chars set).accepts v t = false := by
  rw [Bool.eq_false_iff]
  intro h
  simp only [Atom.accepts, List.any_eq_true, decide_eq_true_eq] at h
  obtain ⟨c', hc', h'⟩ := h
  rw [ht] at h'
  cases h'
  exact hc hc'

/-- A number of several digits, or a digit, is no token of one byte of a set
without digits. -/
theorem accepts_chars_decimal (set : String) (v : Nat) (t : Token) (n : Nat)
    (hset : ∀ c ∈ set.toList, isdigit c = false) (ht : t.str = decimal n) :
    (Atom.chars set).accepts v t = false := by
  rw [Bool.eq_false_iff]
  intro h
  simp only [Atom.accepts, List.any_eq_true, decide_eq_true_eq] at h
  obtain ⟨c', hc', h'⟩ := h
  have := (decimal_digits n).2 c' (by rw [← ht, h']; simp)
  rw [hset c' hc'] at this
  cases this

/-- The decimal text of a number is not a word that starts with another byte. -/
theorem word_ne_decimal (w : String) (v : Nat) (t : Token) (n : Nat)
    (hw : ∀ c ∈ w.toList.head?, isdigit c = false) (ht : t.str = decimal n) :
    (Atom.word w).accepts v t = false := by
  rw [Bool.eq_false_iff]
  intro h
  simp only [Atom.accepts, decide_eq_true_eq] at h
  exact decimal_ne_word n w.toList hw (ht.symm.trans h)

/-- Only 1 has the decimal text `1`. -/
theorem decimal_eq_one (n : Nat) (h : decimal n = ['1']) : n = 1 := by
  have := digitsValue_decimal n
  rw [h] at this
  rw [← this]
  decide

/-- One round of the loop of `simplifyCalculations`. -/
theorem calcLoop_cons (p : Platform) (passed rest : List Token) (tok : Token) (ret : Bool)
    (c : Cursor) (h : calcBody p ⟨[], tok, rest, ret⟩ = some c) :
    calcLoop p passed (tok :: rest) ret =
      calcLoop p (passed ++ c.passed ++ [c.tok]) c.rest c.ret := by
  rw [calcLoop]
  split
  · rename_i h'
    rw [h] at h'
    cases h'
  · rename_i c' h'
    rw [h] at h'
    cases h'
    rfl

/-- The `switch` computes that result. -/
theorem calcOperator_eq (op : Char) (hop : op ∈ ['+', '-', '*', '/']) (a b : Nat) :
    calcOperator op (a : Int) (b : Int) = calcResult op a b := by
  unfold calcOperator calcResult
  simp only [List.mem_cons, List.mem_singleton, List.not_mem_nil, or_false] at hop
  rcases hop with rfl | rfl | rfl | rfl <;> simp [Int.tdiv]

/-- The loop body at the opening delimiter of `d1 A op B d2`, unless the window is
`d1 1 * B d2`: the second `if` puts the result in the place of `A op B`. -/
theorem calcBody_window (p : Platform) (post : List Token) (d1 A op B d2 : Token)
    (c1 c c2 : Char) (a b : Nat) (ret : Bool)
    (hc1 : c1 ∈ ['[', ',', '(', '=', '<', '>']) (hd1 : d1.str = [c1])
    (hA : A.str = decimal a) (hc : c ∈ ['+', '-', '*', '/']) (hop : op.str = [c])
    (hB : B.str = decimal b) (hc2 : c2 ∈ [']', ',', ')', ';', '=', '<', '>'])
    (hd2 : d2.str = [c2]) (hdiv : c = '/' → b ≠ 0) (ha : a ≤ p.INT_MAX) (hb : b ≤ p.INT_MAX)
    (hr : -(p.INT_MAX : Int) - 1 ≤ calcResult c a b ∧ calcResult c a b ≤ (p.INT_MAX : Int))
    (hs : ¬ (a = 1 ∧ c = '*')) :
    calcBody p ⟨[], d1, A :: op :: B :: d2 :: post, ret⟩ =
      some ⟨[d1], A.setStr (decimalInt (calcResult c a b)), d2 :: post, true⟩ := by
  have hAstar : A.str ≠ "*".toList := by rw [hA]; exact decimal_ne_word a _ (by decide)
  have hd2par : d2.str ≠ "(".toList := by
    rw [hd2]
    intro h
    cases h
    revert hc2
    decide
  have hT : calcTimesOne ⟨[], d1, A :: op :: B :: d2 :: post, ret⟩ =
      ⟨[], d1, A :: op :: B :: d2 :: post, ret⟩ := by
    unfold calcTimesOne
    rw [if_neg]
    rintro (h | h)
    · rw [simpleMatch, List.map_cons, match_word_ne _ _ _ _ hAstar] at h
      cases h
    · simp only [simpleMatch, List.map_cons, List.map_nil, Match, MatchVarId, Atom.accepts,
        Bool.and_eq_true, decide_eq_true_eq] at h
      apply hs
      refine ⟨decimal_eq_one a (hA.symm.trans h.1), ?_⟩
      have := hop.symm.trans h.2.1
      cases this
      rfl
  have hM : Match [.chars "[,(=<>", .num, .chars "+-*/", .num, .chars "],);=<>"]
      (d1 :: A :: op :: B :: d2 :: post) = true := by
    simp only [Match, MatchVarId, Bool.and_eq_true]
    refine ⟨accepts_chars _ _ _ c1 hc1 hd1, ?_, accepts_chars _ _ _ c hc hop, ?_,
      accepts_chars _ _ _ c2 hc2 hd2, trivial⟩
    · simp only [Atom.accepts, hA, isNumber_decimal]
    · simp only [Atom.accepts, hB, isNumber_decimal]
  have hF : calcFold p ⟨[], d1, A :: op :: B :: d2 :: post, ret⟩ =
      some (⟨[d1], A.setStr (decimalInt (calcResult c a b)), d2 :: post, true⟩,
        false) := by
    unfold calcFold
    rw [if_pos hM]
    simp only [strAt, List.get?, hA, hB, hop, atoi_decimal p a ha, atoi_decimal p b hb,
      List.head?_cons]
    have hz : ¬ ((b : Int) = 0 ∧ c = '/') := fun h => hdiv h.2 (by exact_mod_cast h.1)
    rw [if_neg hz, calcOperator_eq c hc, intResult, if_pos hr]
    rfl
  have hN : ∀ x : Cursor, x.rest = d2 :: post → calcNumber x = x := by
    intro x hx
    unfold calcNumber
    rw [if_neg]
    rintro ⟨-, h⟩
    rw [hx, match_word_ne _ _ _ _ hd2par] at h
    cases h
  have hV : ∀ x : Cursor, x.rest = d2 :: post → calcVariable x = x := by
    intro x hx
    unfold calcVariable
    rw [if_neg]
    rintro ⟨-, -, h⟩
    rw [hx, match_word_ne _ _ _ _ hd2par] at h
    cases h
  unfold calcBody
  rw [hT, hF]
  simp only
  rw [hN _ rfl, hV _ rfl]

/-- The loop has no result when the body has none. -/
theorem calcLoop_none (p : Platform) (passed rest : List Token) (tok : Token) (ret : Bool)
    (h : calcBody p ⟨[], tok, rest, ret⟩ = none) :
    calcLoop p passed (tok :: rest) ret = none := by
  rw [calcLoop]
  split
  · rfl
  · rename_i c' h'
    rw [h] at h'
    cases h'

/-- What the loop body keeps: `ret` stays `true`, and the first node that the
round leaves behind is `tok` as it was. -/
theorem calcBody_keeps (p : Platform) (c c' : Cursor) (h : calcBody p c = some c') :
    (c.ret = true → c'.ret = true) ∧
      ∃ more, c'.passed ++ [c'.tok] = c.passed ++ c.tok :: more := by
  have h1 : ((calcTimesOne c).ret = true ∨ (calcTimesOne c).ret = c.ret) ∧
      (calcTimesOne c).passed = c.passed ∧ (calcTimesOne c).tok = c.tok := by
    unfold calcTimesOne
    split
    · exact ⟨Or.inl rfl, rfl, rfl⟩
    · exact ⟨Or.inr rfl, rfl, rfl⟩
  have h2 : ∀ x x' b, calcFold p x = some (x', b) →
      (x.ret = true → x'.ret = true) ∧
        ∃ more, x'.passed ++ [x'.tok] = x.passed ++ x.tok :: more := by
    intro x x' b hf
    unfold calcFold at hf
    split at hf
    · split at hf
      · split at hf
        · cases hf
          exact ⟨id, [], rfl⟩
        · split at hf
          · cases hf
          · cases hf
            exact ⟨fun _ => rfl, _, List.append_assoc _ _ _⟩
      · cases hf
    · cases hf
      exact ⟨id, [], rfl⟩
  have h3 : ∀ x : Cursor, ((calcNumber x).ret = true ∨ (calcNumber x).ret = x.ret) ∧
      ∃ more, (calcNumber x).passed ++ [(calcNumber x).tok] = x.passed ++ x.tok :: more := by
    intro x
    unfold calcNumber
    split
    · split
      · exact ⟨Or.inl rfl, _, List.append_assoc _ _ _⟩
      · exact ⟨Or.inr rfl, [], rfl⟩
    · exact ⟨Or.inr rfl, [], rfl⟩
  have h4 : ∀ x : Cursor, ((calcVariable x).ret = true ∨ (calcVariable x).ret = x.ret) ∧
      ∃ more, (calcVariable x).passed ++ [(calcVariable x).tok] = x.passed ++ x.tok :: more := by
    intro x
    unfold calcVariable
    split
    · split
      · exact ⟨Or.inl rfl, _, List.append_assoc _ _ _⟩
      · exact ⟨Or.inr rfl, [], rfl⟩
    · exact ⟨Or.inr rfl, [], rfl⟩
  unfold calcBody at h
  split at h
  · cases h
  · rename_i x' hf
    cases h
    obtain ⟨r2, m2, e2⟩ := h2 _ _ _ hf
    refine ⟨fun hr => r2 (by rcases h1.1 with h | h <;> simp [h, hr]), m2, ?_⟩
    rw [e2, h1.2.1, h1.2.2]
  · rename_i x' hf
    cases h
    obtain ⟨r2, m2, e2⟩ := h2 _ _ _ hf
    obtain ⟨r3, m3, e3⟩ := h3 x'
    obtain ⟨r4, m4, e4⟩ := h4 (calcNumber x')
    constructor
    · intro hr
      have a2 : x'.ret = true := r2 (by rcases h1.1 with h | h <;> simp [h, hr])
      have a3 : (calcNumber x').ret = true := by rcases r3 with h | h <;> simp [h, a2]
      rcases r4 with h | h <;> simp [h, a3]
    · refine ⟨m2 ++ m3 ++ m4, ?_⟩
      rw [e4]
      have e3' : (calcNumber x').passed ++ (calcNumber x').tok :: m4 =
          ((calcNumber x').passed ++ [(calcNumber x').tok]) ++ m4 := by simp
      rw [e3', e3]
      have e2' : x'.passed ++ x'.tok :: m3 ++ m4 = (x'.passed ++ [x'.tok]) ++ (m3 ++ m4) := by
        simp
      rw [e2', e2, h1.2.1, h1.2.2]
      simp

/-- What the loop keeps: the nodes in front and the first node stay, and `ret`
stays `true`. -/
theorem calcLoop_keeps (p : Platform) (ts : List Token) :
    ∀ (passed : List Token) (ret : Bool) (out : List Token) (r : Bool),
      calcLoop p passed ts ret = some (out, r) →
      (ret = true → r = true) ∧ ∃ more, out = passed ++ ts.head?.toList ++ more := by
  generalize hk : ts.length = k
  induction k using Nat.strong_induction_on generalizing ts with
  | _ k ih =>
    intro passed ret out r h
    cases ts with
    | nil =>
      rw [calcLoop] at h
      cases h
      exact ⟨id, [], by simp⟩
    | cons tok rest =>
      cases hb : calcBody p ⟨[], tok, rest, ret⟩ with
      | none =>
        rw [calcLoop_none p passed rest tok ret hb] at h
        cases h
      | some c =>
        rw [calcLoop_cons p passed rest tok ret c hb] at h
        have hlen := calcBody_rest p _ _ hb
        obtain ⟨hr, more, hm⟩ := calcBody_keeps p _ _ hb
        obtain ⟨hr', more', hm'⟩ := ih c.rest.length (by
          simp only [List.length_cons] at hk hlen
          omega) c.rest rfl _ _ _ _ h
        refine ⟨fun h0 => hr' (hr h0), more ++ c.rest.head?.toList ++ more', ?_⟩
        rw [hm']
        simp only [List.nil_append] at hm
        rw [List.append_assoc passed, hm]
        simp

/-- A pattern does not match when its first atom does not accept the token. -/
theorem match_head_not (a : Atom) (more : List Atom) (t : Token) (l : List Token)
    (hopt : ∀ alts, a ≠ .optional alts) (h : a.accepts 0 t = false) :
    Match (a :: more) (t :: l) = false := by
  unfold Match
  rw [MatchVarId]
  · rw [h, Bool.false_and]
  · exact hopt

/-- The loop body at the opening delimiter of `d1 1 * B d2`: the first `if`
deletes `1 *`, and the node `tok` stays where it is. -/
theorem calcBody_timesOne (p : Platform) (post : List Token) (d1 A op B d2 : Token)
    (c2 : Char) (b : Nat) (ret : Bool)
    (hA : A.str = ['1']) (hop : op.str = ['*'])
    (hB : B.str = decimal b) (hc2 : c2 ∈ [']', ',', ')', ';', '=', '<', '>'])
    (hd2 : d2.str = [c2]) :
    calcBody p ⟨[], d1, A :: op :: B :: d2 :: post, ret⟩ =
      some ⟨[], d1, B :: d2 :: post, true⟩ := by
  have hBpar : B.str ≠ "(".toList := by rw [hB]; exact decimal_ne_word b _ (by decide)
  have hT : calcTimesOne ⟨[], d1, A :: op :: B :: d2 :: post, ret⟩ =
      ⟨[], d1, B :: d2 :: post, true⟩ := by
    unfold calcTimesOne
    rw [if_pos]
    · rfl
    · right
      simp [simpleMatch, Match, MatchVarId, Atom.accepts, hA, hop]
  have hM : Match [.chars "[,(=<>", .num, .chars "+-*/", .num, .chars "],);=<>"]
      (d1 :: B :: d2 :: post) = false := by
    have h2 : (Atom.chars "+-*/").accepts 0 d2 = false :=
      accepts_chars_not _ _ _ c2
        ((by decide : ∀ x ∈ [']', ',', ')', ';', '=', '<', '>'], x ∉ "+-*/".toList) c2 hc2) hd2
    simp only [Match, MatchVarId, h2, Bool.false_and, Bool.and_false]
  have hF : calcFold p ⟨[], d1, B :: d2 :: post, true⟩ =
      some (⟨[], d1, B :: d2 :: post, true⟩, false) := by
    unfold calcFold
    rw [if_neg (by simp [hM])]
  have hN : ∀ x : Cursor, x.rest = B :: d2 :: post → calcNumber x = x := by
    intro x hx
    unfold calcNumber
    rw [if_neg]
    rintro ⟨-, h⟩
    rw [hx, match_word_ne _ _ _ _ hBpar] at h
    cases h
  have hV : ∀ x : Cursor, x.rest = B :: d2 :: post → calcVariable x = x := by
    intro x hx
    unfold calcVariable
    rw [if_neg]
    rintro ⟨-, -, h⟩
    rw [hx, match_word_ne _ _ _ _ hBpar] at h
    cases h
  unfold calcBody
  rw [hT, hF]
  simp only
  rw [hN _ rfl, hV _ rfl]

/-- The loop body at a number in front of a closing delimiter changes nothing. -/
theorem calcBody_number (p : Platform) (post : List Token) (B d2 : Token)
    (c2 : Char) (b : Nat) (ret : Bool)
    (hB : B.str = decimal b) (hc2 : c2 ∈ [']', ',', ')', ';', '=', '<', '>'])
    (hd2 : d2.str = [c2]) :
    calcBody p ⟨[], B, d2 :: post, ret⟩ = some ⟨[], B, d2 :: post, ret⟩ := by
  have hd2par : d2.str ≠ "(".toList := by
    rw [hd2]; intro h; cases h; revert hc2; decide
  have hd2star : d2.str ≠ "*".toList := by
    rw [hd2]; intro h; cases h; revert hc2; decide
  have hd2one : d2.str ≠ "1".toList := by
    rw [hd2]; intro h; cases h; revert hc2; decide
  have hT : calcTimesOne ⟨[], B, d2 :: post, ret⟩ = ⟨[], B, d2 :: post, ret⟩ := by
    unfold calcTimesOne
    rw [if_neg]
    rintro (h | h)
    · rw [simpleMatch, List.map_cons, match_word_ne _ _ _ _ hd2star] at h
      cases h
    · rw [simpleMatch, List.map_cons, match_word_ne _ _ _ _ hd2one] at h
      cases h
  have hM : Match [.chars "[,(=<>", .num, .chars "+-*/", .num, .chars "],);=<>"]
      (B :: d2 :: post) = false :=
    match_head_not _ _ _ _ (fun _ h => by cases h)
      (accepts_chars_decimal _ _ _ b (by decide) hB)
  have hF : calcFold p ⟨[], B, d2 :: post, ret⟩ = some (⟨[], B, d2 :: post, ret⟩, false) := by
    unfold calcFold
    rw [if_neg (by simp [hM])]
  have hN : ∀ x : Cursor, x.rest = d2 :: post → calcNumber x = x := by
    intro x hx
    unfold calcNumber
    rw [if_neg]
    rintro ⟨-, h⟩
    rw [hx, match_word_ne _ _ _ _ hd2par] at h
    cases h
  have hV : ∀ x : Cursor, x.rest = d2 :: post → calcVariable x = x := by
    intro x hx
    unfold calcVariable
    rw [if_neg]
    rintro ⟨-, -, h⟩
    rw [hx, match_word_ne _ _ _ _ hd2par] at h
    cases h
  unfold calcBody
  rw [hT, hF]
  simp only
  rw [hN _ rfl, hV _ rfl]

/-- The loop body at the last node changes nothing. -/
theorem calcBody_last (p : Platform) (d2 : Token) (ret : Bool) :
    calcBody p ⟨[], d2, [], ret⟩ = some ⟨[], d2, [], ret⟩ := by
  simp [calcBody, calcTimesOne, calcFold, calcNumber, calcVariable, simpleMatch, Match,
    MatchVarId]

/-- C20: for an opening delimiter `d1` of `[ , ( = < >`, a closing delimiter `d2`
of `] , ) ; = < >`, an operator of `+ - * /` and the decimal texts `A`, `B` of two
numbers in the range of `int` (`B` not 0 for `/`) whose result is in the range of
`int`, `simplifyCalculations` rewrites the window `d1 A op B d2` to `d1 R d2`,
where `R` has the decimal text of the result (the division truncates), and
returns `true`: that is the result on the window alone, and with any tokens `post`
behind the window the loop goes on at `d2` with `ret` set, so that every result of
the function starts with `d1 R d2` and is `true`. -/
theorem calc_window_folded (p : Platform) (d1 A op B d2 : Token) (c1 c c2 : Char) (a b : Nat)
    (hc1 : c1 ∈ ['[', ',', '(', '=', '<', '>']) (hd1 : d1.str = [c1])
    (hA : A.str = decimal a) (hc : c ∈ ['+', '-', '*', '/']) (hop : op.str = [c])
    (hB : B.str = decimal b) (hc2 : c2 ∈ [']', ',', ')', ';', '=', '<', '>'])
    (hd2 : d2.str = [c2]) (hdiv : c = '/' → b ≠ 0) (ha : a ≤ p.INT_MAX) (hb : b ≤ p.INT_MAX)
    (hr : -(p.INT_MAX : Int) - 1 ≤ calcResult c a b ∧ calcResult c a b ≤ (p.INT_MAX : Int)) :
    ∃ R : Token, R.str = decimalInt (calcResult c a b) ∧
      simplifyCalculations p [d1, A, op, B, d2] = some ([d1, R, d2], true) ∧
      ∀ post : List Token,
        (∀ passed ret, calcLoop p passed (d1 :: A :: op :: B :: d2 :: post) ret =
          calcLoop p (passed ++ [d1, R]) (d2 :: post) true) ∧
        (∀ out r, simplifyCalculations p (d1 :: A :: op :: B :: d2 :: post) = some (out, r) →
          r = true ∧ ∃ more, out = d1 :: R :: d2 :: more) := by
  have hloop : ∃ R : Token, R.str = decimalInt (calcResult c a b) ∧
      ∀ (post passed : List Token) (ret : Bool),
        calcLoop p passed (d1 :: A :: op :: B :: d2 :: post) ret =
          calcLoop p (passed ++ [d1, R]) (d2 :: post) true := by
    by_cases hs : a = 1 ∧ c = '*'
    · obtain ⟨rfl, rfl⟩ := hs
      refine ⟨B, ?_, ?_⟩
      · rw [hB]
        have e : calcResult '*' 1 b = (b : Int) := by simp [calcResult]
        rw [e, decimalInt, if_neg (by omega)]
        rfl
      · intro post passed ret
        rw [calcLoop_cons p passed _ d1 ret _
          (calcBody_timesOne p post d1 A op B d2 c2 b ret hA hop hB hc2 hd2),
          calcLoop_cons p _ _ B true _ (calcBody_number p post B d2 c2 b true hB hc2 hd2)]
        simp
    · refine ⟨A.setStr (decimalInt (calcResult c a b)), rfl, ?_⟩
      intro post passed ret
      rw [calcLoop_cons p passed _ d1 ret _
        (calcBody_window p post d1 A op B d2 c1 c c2 a b ret hc1 hd1 hA hc hop hB hc2 hd2 hdiv
          ha hb hr hs)]
      simp
  obtain ⟨R, hR, hl⟩ := hloop
  refine ⟨R, hR, ?_, fun post => ⟨fun passed ret => hl post passed ret, ?_⟩⟩
  · rw [simplifyCalculations, hl [] [] false, calcLoop_cons p _ _ d2 true _ (calcBody_last p d2 true),
      calcLoop]
    rfl
  · intro out r h
    rw [simplifyCalculations, hl post [] false] at h
    obtain ⟨hret, more, hm⟩ := calcLoop_keeps p _ _ _ _ _ h
    exact ⟨hret rfl, more, by rw [hm]; rfl⟩

/-- An instance of C20: on the example platform `( 7 / 2 )` becomes `( 3 )`, and
the function returns `true`. -/
theorem calc_window_folded_witness :
    ∃ R : Token, R.str = "3".toList ∧
      simplifyCalculations examplePlatform (line1 ["(", "7", "/", "2", ")"]) =
        some ([⟨"(".toList, 1, 0, 0⟩, R, ⟨")".toList, 1, 0, 0⟩], true) :=
  (calc_window_folded examplePlatform ⟨"(".toList, 1, 0, 0⟩ ⟨"7".toList, 1, 0, 0⟩
    ⟨"/".toList, 1, 0, 0⟩ ⟨"2".toList, 1, 0, 0⟩ ⟨")".toList, 1, 0, 0⟩ '(' '/' ')' 7 2
    (by decide) rfl rfl (by decide) rfl rfl (by decide) rfl (by decide) (by decide) (by decide)
    (by decide)).imp (fun _ h => ⟨h.1.trans (by decide), h.2.1⟩)

/-- The inner loop keeps the entries with another text, and reports whether an
entry had the text. -/
theorem eraseDuplicates_eq (name : List Char) (l : List Token) :
    eraseDuplicates name l =
      (l.filter (fun g => !decide (g.str = name)),
        decide (0 < l.countP (fun g => decide (g.str = name)))) := by
  induction l with
  | nil => rfl
  | cons g rest ih =>
    rw [eraseDuplicates, ih]
    by_cases h : name = g.str
    · subst h
      rw [if_pos rfl, List.filter_cons_of_neg (by simp), List.countP_cons_of_pos _ _ (by simp)]
      simp
    · have h' : g.str ≠ name := fun e => h e.symm
      rw [if_neg h, List.filter_cons_of_pos (by simpa using h'),
        List.countP_cons_of_neg _ _ (by simpa using h')]

/-- The number of entries with the text `name` does not change when the entries
with another text `other` are erased. -/
theorem countP_filter_ne (name other : List Char) (h : name ≠ other) (l : List Token) :
    (l.filter (fun g => !decide (g.str = other))).countP (fun g => decide (g.str = name)) =
      l.countP (fun g => decide (g.str = name)) := by
  induction l with
  | nil => rfl
  | cons g rest ih =>
    by_cases hg : g.str = other
    · have hn : g.str ≠ name := fun e => h (e.symm.trans hg)
      rw [List.filter_cons_of_neg (by simpa using hg),
        List.countP_cons_of_neg _ _ (by simpa using hn), ih]
    · rw [List.filter_cons_of_pos (by simpa using hg)]
      by_cases hn : g.str = name
      · rw [List.countP_cons_of_pos _ _ (by simpa using hn),
          List.countP_cons_of_pos _ _ (by simpa using hn), ih]
      · rw [List.countP_cons_of_neg _ _ (by simpa using hn),
          List.countP_cons_of_neg _ _ (by simpa using hn), ih]

/-- The second loop keeps exactly the entries whose text no other entry has. -/
theorem removeDuplicates_eq_filter (l : List Token) :
    removeDuplicates l =
      l.filter (fun t => decide (l.countP (fun g => decide (g.str = t.str)) = 1)) := by
  generalize hk : l.length = k
  induction k using Nat.strong_induction_on generalizing l with
  | _ k ih =>
    cases l with
    | nil => rw [removeDuplicates]; rfl
    | cons f rest =>
      have hlen : (rest.filter (fun g => !decide (g.str = f.str))).length < k := by
        rw [← hk, List.length_cons]
        exact Nat.lt_succ_of_le (List.length_filter_le _ _)
      have hrec := ih _ hlen (rest.filter (fun g => !decide (g.str = f.str))) rfl
      have hfilter : (rest.filter (fun g => !decide (g.str = f.str))).filter
          (fun t => decide ((rest.filter (fun g => !decide (g.str = f.str))).countP
            (fun g => decide (g.str = t.str)) = 1)) =
          rest.filter (fun t => decide ((f :: rest).countP (fun g => decide (g.str = t.str)) = 1)) := by
        rw [List.filter_filter]
        apply List.filter_congr
        intro t htmem
        by_cases ht : t.str = f.str
        · have hpos : 0 < rest.countP (fun g => decide (g.str = t.str)) :=
            List.countP_pos_iff.2 ⟨t, htmem, by simp⟩
          have hc : (f :: rest).countP (fun g => decide (g.str = t.str)) ≠ 1 := by
            rw [List.countP_cons_of_pos _ _ (by simpa using ht.symm)]
            omega
          rw [decide_eq_false hc, decide_eq_true ht]
          simp
        · have hne : ¬ f.str = t.str := fun e => ht e.symm
          rw [countP_filter_ne t.str f.str ht rest,
            List.countP_cons_of_neg _ _ (by simpa using hne), decide_eq_false ht]
          simp
      rw [removeDuplicates, eraseDuplicates_eq]
      by_cases hd : 0 < rest.countP (fun g => decide (g.str = f.str))
      · rw [if_pos (by simpa using hd), hrec, hfilter, List.filter_cons_of_neg]
        rw [decide_eq_true_eq, List.countP_cons_of_pos _ _ (by simp)]
        omega
      · rw [if_neg (by simpa using hd), hrec, hfilter, List.filter_cons_of_pos]
        rw [decide_eq_true_eq, List.countP_cons_of_pos _ _ (by simp)]
        omega

/-- The number of entries with a text, counted on the texts. -/
theorem count_map_str (name : List Char) (l : List Token) :
    (l.map (fun t => t.str)).countP (fun n => decide (n = name)) =
      l.countP (fun g => decide (g.str = name)) := by
  rw [List.countP_map]
  rfl

/-- C29: after `fillFunctionList` the names in `_functionList` are pairwise
distinct; a name is in the list exactly when the first loop has detected exactly
one function start with that name (so two or more detected starts with one name
leave none of them in the list), and `GetFunctionTokenByName` finds every entry by
its name. -/
theorem functionList_names_unique (ts : List Token) :
    ((fillFunctionList ts).map (fun t => t.str)).Nodup ∧
    (∀ name : List Char,
      name ∈ (fillFunctionList ts).map (fun t => t.str) ↔
        (functionStarts 0 ts).countP (fun t => decide (t.str = name)) = 1) ∧
    (∀ name : List Char,
      2 ≤ (functionStarts 0 ts).countP (fun t => decide (t.str = name)) →
        ∀ t ∈ fillFunctionList ts, t.str ≠ name) ∧
    (∀ t ∈ fillFunctionList ts, GetFunctionTokenByName (fillFunctionList ts) t.str = some t) := by
  have hmem : ∀ t, t ∈ fillFunctionList ts ↔
      t ∈ functionStarts 0 ts ∧
        (functionStarts 0 ts).countP (fun g => decide (g.str = t.str)) = 1 := by
    intro t
    rw [fillFunctionList, removeDuplicates_eq_filter, List.mem_filter, decide_eq_true_eq]
  have hcount : ∀ name : List Char,
      @List.count (List Char) instBEqOfDecidableEq name
        ((fillFunctionList ts).map (fun t => t.str)) ≤ 1 := by
    intro name
    change ((fillFunctionList ts).map (fun t => t.str)).countP (fun n => decide (n = name)) ≤ 1
    rw [count_map_str, fillFunctionList, removeDuplicates_eq_filter, List.countP_filter]
    by_cases h1 : (functionStarts 0 ts).countP (fun g => decide (g.str = name)) = 1
    · rw [← h1]
      apply List.countP_mono_left
      intro t _ ht
      simp only [Bool.and_eq_true, decide_eq_true_eq] at ht
      simpa using ht.1
    · have h0 : (functionStarts 0 ts).countP
          (fun t => decide (t.str = name) &&
            decide ((functionStarts 0 ts).countP (fun g => decide (g.str = t.str)) = 1)) = 0 := by
        rw [List.countP_eq_zero]
        intro t _ ht
        simp only [Bool.and_eq_true, decide_eq_true_eq] at ht
        rw [ht.1] at ht
        exact h1 ht.2
      omega
  have hnodup : ((fillFunctionList ts).map (fun t => t.str)).Nodup :=
    List.nodup_iff_count_le_one.2 hcount
  refine ⟨hnodup, ?_, ?_, ?_⟩
  · intro name
    rw [List.mem_map]
    constructor
    · rintro ⟨t, ht, rfl⟩
      exact ((hmem t).1 ht).2
    · intro h1
      have hpos : 0 < (functionStarts 0 ts).countP (fun g => decide (g.str = name)) := by omega
      obtain ⟨t, ht, hname⟩ := List.countP_pos_iff.1 hpos
      have hname' : t.str = name := by simpa using hname
      exact ⟨t, (hmem t).2 ⟨ht, by rw [hname']; exact h1⟩, hname'⟩
  · intro name h2 t ht hname
    have := ((hmem t).1 ht).2
    rw [hname] at this
    omega
  · intro t ht
    rw [GetFunctionTokenByName]
    cases hf : (fillFunctionList ts).find? (fun g => decide (g.str = t.str)) with
    | none =>
      have := List.find?_eq_none.1 hf t ht
      simp at this
    | some g =>
      have hg : g ∈ fillFunctionList ts := List.mem_of_find?_eq_some hf
      have hs : g.str = t.str := by simpa using List.find?_some hf
      rw [List.inj_on_of_nodup_map hnodup hg ht hs]

set_option maxRecDepth 8000 in
/-- The function starts that the first loop detects in
`f ( ) { } g ( ) { } f ( ) { }`. -/
theorem functionStarts_example :
    functionStarts 0
        (line1 ["f", "(", ")", "\x7b", "\x7d", "g", "(", ")", "\x7b", "\x7d", "f", "(", ")",
          "\x7b", "\x7d"]) =
      line1 ["f", "g", "f"] := by
  simp +decide [functionStarts, line1, nextIndent, implementationEnd, Match, MatchVarId,
    Atom.accepts, isName]

/-- An instance of C29: in `f ( ) { } g ( ) { } f ( ) { }` two function starts
`f` are detected, so no `f` is in the list, and the one `g` is. -/
theorem functionList_names_unique_witness :
    (∀ t ∈ fillFunctionList
        (line1 ["f", "(", ")", "\x7b", "\x7d", "g", "(", ")", "\x7b", "\x7d", "f", "(", ")",
          "\x7b", "\x7d"]), t.str ≠ "f".toList) ∧
    "g".toList ∈ (fillFunctionList
        (line1 ["f", "(", ")", "\x7b", "\x7d", "g", "(", ")", "\x7b", "\x7d", "f", "(", ")",
          "\x7b", "\x7d"])).map (fun t => t.str) :=
  ⟨(functionList_names_unique _).2.2.1 "f".toList (by rw [functionStarts_example]; decide),
    ((functionList_names_unique _).2.1 "g".toList).2 (by rw [functionStarts_example]; decide)⟩

/-- The variable name that the loop of `setVarId` finds is a name. -/
theorem declaredName_isName (ts : List Token) :
    ∀ varname : Option (List Char), (∀ s, varname = some s → isName s = true) →
      ∀ s, (declaredName varname ts).1 = some s → isName s = true := by
  induction ts with
  | nil =>
    intro varname h s hs
    exact h s hs
  | cons tok2 rest ih =>
    intro varname h s hs
    rw [declaredName] at hs
    split at hs
    · exact h s hs
    · split at hs
      · rename_i hname
        exact ih (some tok2.str) (fun s' e => by cases e; exact hname) s hs
      · split at hs
        · exact h s hs
        · exact ih varname h s hs

/-- A token behind the marking loop is a token of the input or has the text of
the variable. -/
theorem mem_markVariable (varname : List Char) (varId : Nat) (ts : List Token) :
    ∀ (indentlevel parlevel : Int) (dot : Bool) (t : Token),
      t ∈ markVariable varname varId indentlevel parlevel dot ts →
      t ∈ ts ∨ t.str = varname := by
  induction ts with
  | nil =>
    intro _ _ _ t h
    rw [markVariable] at h
    cases h
  | cons tok2 rest ih =>
    intro i p d t h
    rw [markVariable] at h
    split_ifs at h with h1 h2 h3 h4 h5 h6 h7 h8
    all_goals
      first
      | exact Or.inl h
      | (rcases List.mem_cons.1 h with rfl | h
         · first
           | exact Or.inl (List.mem_cons_self _ _)
           | exact Or.inr h1.2
         · exact (ih _ _ _ t h).imp (List.mem_cons_of_mem _) id)

/-- The marking loop keeps the invariant when the variable has a name. -/
theorem named_markVariable (varname : List Char) (varId : Nat) (ts : List Token)
    (hn : isName varname = true) (h : Named ts) (indentlevel parlevel : Int) (dot : Bool) :
    Named (markVariable varname varId indentlevel parlevel dot ts) := by
  intro t ht hv
  rcases mem_markVariable varname varId ts indentlevel parlevel dot t ht with h1 | h1
  · exact h t h1 hv
  · rw [h1]
    exact hn

/-- A declaration keeps the invariant. -/
theorem named_declareVariable (varId : Nat) (tok : Token) (rest : List Token)
    (h : Named rest) : Named (declareVariable varId tok rest).1 := by
  unfold declareVariable
  split_ifs with h1 h2
  · exact h
  · cases hd : (declaredName none rest).1 with
    | none =>
      rw [hd] at h2
      simp at h2
    | some s =>
      have hs := declaredName_isName rest none (fun _ e => by cases e) s hd
      simpa [hd] using named_markVariable s (varId + 1) rest hs h 0 0 false
  · exact h

/-- The invariant of a list with one more token. -/
theorem named_cons (t : Token) (ts : List Token) (ht : t.varId ≠ 0 → isName t.str = true)
    (h : Named ts) : Named (t :: ts) := by
  intro x hx hv
  rcases List.mem_cons.1 hx with rfl | hx
  · exact ht hv
  · exact h x hx hv

/-- The loop "Set variable ids" keeps the invariant. -/
theorem named_setVarIdLoop (ts : List Token) :
    ∀ (first : Bool) (varId : Nat), Named ts → Named (setVarIdLoop first varId ts).1 := by
  generalize hk : ts.length = k
  induction k using Nat.strong_induction_on generalizing ts with
  | _ k ih =>
    intro first varId h
    cases ts with
    | nil => rw [setVarIdLoop.eq_def]; exact h
    | cons tok rest =>
      have htok : tok.varId ≠ 0 → isName tok.str = true := h tok (List.mem_cons_self _ _)
      have hrest : Named rest := fun t ht => h t (List.mem_cons_of_mem _ ht)
      have hlen : rest.length < k := by rw [← hk]; simp
      rw [setVarIdLoop.eq_def]
      dsimp only
      split_ifs with h1 h2
      · exact named_cons _ _ htok (ih _ hlen rest rfl false varId hrest)
      · cases rest with
        | nil => exact h
        | cons type rest1 =>
          have htype : type.varId ≠ 0 → isName type.str = true :=
            hrest type (List.mem_cons_self _ _)
          have hrest1 : Named rest1 := fun t ht => hrest t (List.mem_cons_of_mem _ ht)
          have hlen1 : (declareVariable varId type rest1).1.length < k := by
            rw [length_declareVariable, ← hk]
            simp only [List.length_cons]
            omega
          exact named_cons _ _ htok (named_cons _ _ htype
            (ih _ hlen1 _ rfl false _ (named_declareVariable varId type rest1 hrest1)))
      · have hlen1 : (declareVariable varId tok rest).1.length < k := by
          rw [length_declareVariable]
          exact hlen
        exact named_cons _ _ htok
          (ih _ hlen1 _ rfl false _ (named_declareVariable varId tok rest hrest))

/-- The second token behind a matched `. name` has the text `name`. -/
theorem simpleMatch_dot_name (name : List Char) (rest : List Token)
    (h : simpleMatch [".", String.mk name] rest = true) :
    ∃ d m more, rest = d :: m :: more ∧ m.str = name := by
  match rest, h with
  | [], h => simp [simpleMatch, Match, MatchVarId] at h
  | [_], h => simp [simpleMatch, Match, MatchVarId] at h
  | d :: m :: more, h =>
    refine ⟨d, m, more, rfl, ?_⟩
    simp only [simpleMatch, List.map_cons, List.map_nil, Match, MatchVarId, Atom.accepts,
      Bool.and_eq_true, decide_eq_true_eq] at h
    exact h.2.1

/-- The inner loop of "Struct/Class members" keeps the invariant when the member
has a name. -/
theorem named_markMember (owner : Nat) (name : List Char) (varId : Nat)
    (hn : isName name = true) (ts : List Token) :
    Named ts → Named (markMember owner name varId ts) := by
  generalize hk : ts.length = k
  induction k using Nat.strong_induction_on generalizing ts with
  | _ k ih =>
    intro h
    cases ts with
    | nil => rw [markMember]; exact h
    | cons tok2 rest =>
      have htok : tok2.varId ≠ 0 → isName tok2.str = true := h tok2 (List.mem_cons_self _ _)
      have hrest : Named rest := fun t ht => h t (List.mem_cons_of_mem _ ht)
      rw [markMember]
      split_ifs with h1
      · obtain ⟨d, m, more, rfl, hm⟩ := simpleMatch_dot_name name rest h1.2
        have hnew : Named (setVarIdAt varId 1 (d :: m :: more)) := by
          intro t ht hv
          simp only [setVarIdAt, List.mem_cons] at ht
          rcases ht with rfl | rfl | ht
          · exact hrest _ (List.mem_cons_self _ _) hv
          · exact hm ▸ hn
          · exact hrest t (List.mem_cons_of_mem _ (List.mem_cons_of_mem _ ht)) hv
        have hlen : (setVarIdAt varId 1 (d :: m :: more)).length < k := by
          rw [length_setVarIdAt, ← hk]
          simp
        exact named_cons _ _ htok (ih _ hlen _ rfl hnew)
      · have hlen : rest.length < k := by rw [← hk]; simp
        exact named_cons _ _ htok (ih _ hlen rest rfl hrest)

/-- The name behind a matched `. %var%`. -/
theorem match_dot_var (rest : List Token) (h : Match [.word ".", .var] rest = true) :
    ∀ tok : Token, isName (strAt (tok :: rest) 2) = true := by
  intro tok
  match rest, h with
  | [], h => simp [Match, MatchVarId] at h
  | [_], h => simp [Match, MatchVarId] at h
  | d :: m :: more, h =>
    simp only [Match, MatchVarId, Atom.accepts, Bool.and_eq_true, decide_eq_true_eq] at h
    simpa [strAt] using h.2.1

/-- The loop "Struct/Class members" keeps the invariant. -/
theorem named_setMemberIds (ts : List Token) :
    ∀ varId : Nat, Named ts → Named (setMemberIds varId ts) := by
  generalize hk : ts.length = k
  induction k using Nat.strong_induction_on generalizing ts with
  | _ k ih =>
    intro varId h
    cases ts with
    | nil => rw [setMemberIds]; exact h
    | cons tok rest =>
      have htok : tok.varId ≠ 0 → isName tok.str = true := h tok (List.mem_cons_self _ _)
      have hrest : Named rest := fun t ht => h t (List.mem_cons_of_mem _ ht)
      rw [setMemberIds]
      split_ifs with h1
      · have hmark := named_markMember tok.varId (strAt (tok :: rest) 2) (varId + 1)
          (match_dot_var rest h1.2.1 tok) (tok :: rest) h
        have htail : Named (markMember tok.varId (strAt (tok :: rest) 2) (varId + 1)
            (tok :: rest)).tail := fun t ht => hmark t (List.mem_of_mem_tail ht)
        have hlen : (markMember tok.varId (strAt (tok :: rest) 2) (varId + 1)
            (tok :: rest)).tail.length < k := by
          rw [List.length_tail, length_markMember, ← hk]
          simp
        exact named_cons _ _ htok (ih _ hlen _ rfl _ htail)
      · have hlen : rest.length < k := by rw [← hk]; simp
        exact named_cons _ _ htok (ih _ hlen rest rfl varId hrest)

/-- C28: after `setVarId` every token with a variable id above 0 is a name; so a
token that is no name has the variable id 0: a number, a string or character
literal, an operator. -/
theorem setVarId_ids_on_names (ts : List Token) :
    ∀ t ∈ setVarId ts,
      (0 < t.varId → isName t.str = true) ∧
      (isName t.str = false → t.varId = 0) ∧
      (isNumber t.str = true → t.varId = 0) ∧
      (t.str.head? = some '"' ∨ t.str.head? = some '\'' → t.varId = 0) ∧
      (∀ c : Char, t.str = [c] → isalpha c = false → c ≠ '_' → t.varId = 0) := by
  have hall : Named (setVarId ts) := by
    unfold setVarId
    apply named_setMemberIds
    apply named_setVarIdLoop
    intro t ht hv
    obtain ⟨a, -, rfl⟩ := List.mem_map.1 ht
    exact absurd rfl hv
  intro t ht
  have hname : 0 < t.varId → isName t.str = true := fun h => hall t ht (by omega)
  have hzero : isName t.str = false → t.varId = 0 := by
    intro hn
    by_contra hv
    rw [hall t ht hv] at hn
    cases hn
  refine ⟨hname, hzero, ?_, ?_, ?_⟩
  · intro hnum
    apply hzero
    cases hs : t.str with
    | nil => rfl
    | cons c s =>
      rw [hs] at hnum
      simp only [isNumber] at hnum
      have hd : 48 ≤ c.toNat ∧ c.toNat ≤ 57 := by simpa [isdigit] using hnum
      have ha : isalpha c = false := by
        simp only [isalpha, Bool.decide_or, Bool.decide_and, Bool.or_eq_false_iff,
          Bool.and_eq_false_iff, decide_eq_false_iff_not]
        omega
      have hu : c ≠ '_' := by
        rintro rfl
        revert hd
        decide
      simp [isName, ha, hu]
  · intro hq
    apply hzero
    cases hs : t.str with
    | nil => rfl
    | cons c s =>
      rw [hs] at hq
      simp only [List.head?_cons, Option.some.injEq] at hq
      rcases hq with rfl | rfl <;> simp [isName, isalpha]
  · intro c hc ha hu
    apply hzero
    rw [hc]
    simp [isName, ha, hu]

set_option maxRecDepth 4000 in
/-- An instance of C28: in `int v = 5 ;` the only token with an id is the name `v`,
and the number `5` has none. -/
theorem setVarId_ids_on_names_witness :
    setVarId (line1 ["int", "v", "=", "5", ";"]) =
      [tokenOf "int" 0, tokenOf "v" 1, tokenOf "=" 0, tokenOf "5" 0, tokenOf ";" 0] ∧
    isName (tokenOf "v" 1).str = true := by
  have h : setVarId (line1 ["int", "v", "=", "5", ";"]) =
      [tokenOf "int" 0, tokenOf "v" 1, tokenOf "=" 0, tokenOf "5" 0, tokenOf ";" 0] := by
    simp +decide [setVarId, line1, tokenOf, setVarIdLoop, declareVariable, declaredName,
      markVariable, setMemberIds, Match, MatchVarId, Atom.accepts, isName, matchType, varIdAt]
  exact ⟨h, (setVarId_ids_on_names (line1 ["int", "v", "=", "5", ";"]) (tokenOf "v" 1)
    (by rw [h]; decide)).1 (by decide)⟩

/-- A name is not a byte that is neither a letter nor `_`. -/
theorem isName_ne_single (s : List Char) (h : isName s = true) (c : Char)
    (hc : isalpha c = false) (hu : c ≠ '_') : s ≠ [c] := by
  intro hs
  subst hs
  simp [isName, hc, hu] at h

/-- A name is no token of a character class without letters and `_`. -/
theorem accepts_chars_name (set : String) (v : Nat) (t : Token) (h : isName t.str = true)
    (hset : ∀ c ∈ set.toList, isalpha c = false ∧ c ≠ '_') :
    (Atom.chars set).accepts v t = false := by
  rw [Bool.eq_false_iff]
  intro ha
  simp only [Atom.accepts, List.any_eq_true, decide_eq_true_eq] at ha
  obtain ⟨c, hc, hs⟩ := ha
  exact isName_ne_single t.str h c (hset c hc).1 (hset c hc).2 hs

/-- The token `;` is no name. -/
theorem semicolon_not_name (s : Token) (hs : s.str = [';']) : isName s.str = false := by
  rw [hs]
  decide

set_option maxRecDepth 4000 in
/-- C27 (amended): a declaration `T v ;` that is the whole stream (`T` a name other
than `else` and `return`, `v` a name) gives `v` the variable id 1 and no other
token an id: the declared name is the only token with its id. -/
theorem setVarId_declaration_alone (T v s : Token) (hT : isName T.str = true)
    (hTe : T.str ≠ "else".toList) (hTr : T.str ≠ "return".toList)
    (hv : isName v.str = true) (hs : s.str = [';']) :
    setVarId [T, v, s] =
      [{ T with varId := 0 }, { v with varId := 1 }, { s with varId := 0 }] ∧
    (setVarId [T, v, s]).countP (fun t => decide (t.varId = 1)) = 1 := by
  have hTp : ∀ c ∈ [';', '{', '}', '(', ')', '[', '=', '*', '.'], T.str ≠ [c] :=
    fun c hc => isName_ne_single _ hT c
      ((by decide : ∀ c ∈ [';', '{', '}', '(', ')', '[', '=', '*', '.'],
        isalpha c = false ∧ c ≠ '_') c hc).1
      ((by decide : ∀ c ∈ [';', '{', '}', '(', ')', '[', '=', '*', '.'],
        isalpha c = false ∧ c ≠ '_') c hc).2
  have hvp : ∀ c ∈ [';', '{', '}', '(', ')', '[', '=', '*', '.'], v.str ≠ [c] :=
    fun c hc => isName_ne_single _ hv c
      ((by decide : ∀ c ∈ [';', '{', '}', '(', ')', '[', '=', '*', '.'],
        isalpha c = false ∧ c ≠ '_') c hc).1
      ((by decide : ∀ c ∈ [';', '{', '}', '(', ')', '[', '=', '*', '.'],
        isalpha c = false ∧ c ≠ '_') c hc).2
  simp only [List.mem_cons, List.mem_singleton, forall_eq_or_imp, forall_eq,
    List.not_mem_nil, IsEmpty.forall_iff, implies_true, and_true] at hTp hvp
  have hvs : ¬ [';'] = v.str := fun e => hvp.1 e.symm
  have hTe' : T.str ≠ ['e', 'l', 's', 'e'] := hTe
  have hTr' : T.str ≠ ['r', 'e', 't', 'u', 'r', 'n'] := hTr
  have heq : setVarId [T, v, s] =
      [{ T with varId := 0 }, { v with varId := 1 }, { s with varId := 0 }] := by
    unfold setVarId
    simp only [List.map_cons, List.map_nil]
    have h1 : setVarIdLoop true 0 [{ T with varId := 0 }, { v with varId := 0 }, { s with varId := 0 }] =
        ([{ T with varId := 0 }, { v with varId := 1 }, { s with varId := 0 }], 1) := by
      simp [setVarIdLoop, declareVariable, declaredName, markVariable, Match, MatchVarId,
        hTp, hvp, hvs, hTe', hTr', hv, hs, Atom.accepts, matchType]
    rw [h1]
    simp [setMemberIds, Match, MatchVarId, Atom.accepts, hs, varIdAt]
  refine ⟨heq, ?_⟩
  rw [heq]
  simp

/-- An instance of C27 (amended): in `int v ;` the token `v` gets the id 1. -/
theorem setVarId_declaration_alone_witness :
    setVarId (line1 ["int", "v", ";"]) = [tokenOf "int" 0, tokenOf "v" 1, tokenOf ";" 0] :=
  (setVarId_declaration_alone ⟨"int".toList, 1, 0, 0⟩ ⟨"v".toList, 1, 0, 0⟩
    ⟨";".toList, 1, 0, 0⟩ (by decide) (by decide) (by decide) (by decide) rfl).1

set_option maxRecDepth 4000 in
/-- C27 as stated fails for a variable that is declared and not used: in `int v ;`
the token `v` has the variable id 1 and no other token has it. -/
theorem setVarId_lone_id_counterexample :
    ¬ ∀ t ∈ setVarId (line1 ["int", "v", ";"]), 0 < t.varId →
        2 ≤ (setVarId (line1 ["int", "v", ";"])).countP (fun x => decide (x.varId = t.varId)) := by
  have h : setVarId (line1 ["int", "v", ";"]) =
      [tokenOf "int" 0, tokenOf "v" 1, tokenOf ";" 0] := by
    simp +decide [setVarId, line1, tokenOf, setVarIdLoop, declareVariable, declaredName,
      markVariable, setMemberIds, Match, MatchVarId, Atom.accepts, isName, matchType, varIdAt]
  rw [h]
  decide

/-- A number is no token of one byte of a set without digits. -/
theorem accepts_chars_number (set : String) (v : Nat) (t : Token)
    (hset : ∀ c ∈ set.toList, isdigit c = false) (ht : isNumber t.str = true) :
    (Atom.chars set).accepts v t = false := by
  rw [Bool.eq_false_iff]
  intro h
  simp only [Atom.accepts, List.any_eq_true, decide_eq_true_eq] at h
  obtain ⟨c, hc, h'⟩ := h
  rw [h', isNumber, hset c hc] at ht
  cases ht

/-- A number is not a word that starts with another byte. -/
theorem number_ne_word (t : Token) (w : List Char) (hw : ∀ c ∈ w.head?, isdigit c = false)
    (ht : isNumber t.str = true) : t.str ≠ w := by
  intro h
  rw [h] at ht
  cases w with
  | nil => cases ht
  | cons c cs =>
    rw [isNumber, hw c (by simp)] at ht
    cases ht

/-- The loop body changes nothing at a node that opens no calculation, when the
node behind it is none of `*`, `1` and `(`. -/
theorem calcBody_plain (p : Platform) (tok x : Token) (more : List Token) (ret : Bool)
    (h1 : x.str ≠ "*".toList) (h2 : x.str ≠ "1".toList) (h3 : x.str ≠ "(".toList)
    (ht : (Atom.chars "[,(=<>").accepts 0 tok = false) :
    calcBody p ⟨[], tok, x :: more, ret⟩ = some ⟨[], tok, x :: more, ret⟩ := by
  have hT : calcTimesOne ⟨[], tok, x :: more, ret⟩ = ⟨[], tok, x :: more, ret⟩ := by
    unfold calcTimesOne
    rw [if_neg]
    rintro (h | h)
    · rw [simpleMatch, List.map_cons, match_word_ne _ _ _ _ h1] at h
      cases h
    · rw [simpleMatch, List.map_cons, match_word_ne _ _ _ _ h2] at h
      cases h
  have hM : Match [.chars "[,(=<>", .num, .chars "+-*/", .num, .chars "],);=<>"]
      (tok :: x :: more) = false :=
    match_head_not _ _ _ _ (fun _ h => by cases h) ht
  have hF : calcFold p ⟨[], tok, x :: more, ret⟩ = some (⟨[], tok, x :: more, ret⟩, false) := by
    unfold calcFold
    rw [if_neg (by simp [hM])]
  have hN : ∀ c : Cursor, c.rest = x :: more → calcNumber c = c := by
    intro c hc
    unfold calcNumber
    rw [if_neg]
    rintro ⟨-, h⟩
    rw [hc, match_word_ne _ _ _ _ h3] at h
    cases h
  have hV : ∀ c : Cursor, c.rest = x :: more → calcVariable c = c := by
    intro c hc
    unfold calcVariable
    rw [if_neg]
    rintro ⟨-, -, h⟩
    rw [hc, match_word_ne _ _ _ _ h3] at h
    cases h
  unfold calcBody
  rw [hT, hF]
  simp only
  rw [hN _ rfl, hV _ rfl]

/-- The loop body at the opening delimiter of `d1 A / 0 d2`: the division by zero
executes `continue`, and nothing is changed. -/
theorem calcBody_divZero (p : Platform) (post : List Token) (d1 A op Z d2 : Token)
    (c1 c2 : Char) (i1 : Int) (ret : Bool)
    (hc1 : c1 ∈ ['[', ',', '(', '=', '<', '>']) (hd1 : d1.str = [c1])
    (hA : isNumber A.str = true) (hi : atoi p A.str = some i1) (hop : op.str = ['/'])
    (hZ : Z.str = ['0']) (hc2 : c2 ∈ [']', ',', ')', ';', '=', '<', '>'])
    (hd2 : d2.str = [c2]) :
    calcBody p ⟨[], d1, A :: op :: Z :: d2 :: post, ret⟩ =
      some ⟨[], d1, A :: op :: Z :: d2 :: post, ret⟩ := by
  have hAstar : A.str ≠ "*".toList := number_ne_word A _ (by decide) hA
  have hT : calcTimesOne ⟨[], d1, A :: op :: Z :: d2 :: post, ret⟩ =
      ⟨[], d1, A :: op :: Z :: d2 :: post, ret⟩ := by
    unfold calcTimesOne
    rw [if_neg]
    rintro (h | h)
    · rw [simpleMatch, List.map_cons, match_word_ne _ _ _ _ hAstar] at h
      cases h
    · simp only [simpleMatch, List.map_cons, List.map_nil, Match, MatchVarId, Atom.accepts,
        Bool.and_eq_true, decide_eq_true_eq] at h
      have := hop.symm.trans h.2.1
      cases this
  have hM : Match [.chars "[,(=<>", .num, .chars "+-*/", .num, .chars "],);=<>"]
      (d1 :: A :: op :: Z :: d2 :: post) = true := by
    simp only [Match, MatchVarId, Bool.and_eq_true]
    refine ⟨accepts_chars _ _ _ c1 hc1 hd1, ?_, accepts_chars _ _ _ '/' (by decide) hop, ?_,
      accepts_chars _ _ _ c2 hc2 hd2, trivial⟩
    · simp only [Atom.accepts, hA]
    · simp only [Atom.accepts, hZ]
      decide
  have h0 : atoi p ['0'] = some 0 := atoi_decimal p 0 (Nat.zero_le _)
  unfold calcBody
  rw [hT]
  unfold calcFold
  rw [if_pos hM]
  simp only [strAt, List.get?, hi, hZ, hop, h0, List.head?_cons]
  simp

/-- C22: for an opening delimiter `d1` of `[ , ( = < >`, a closing delimiter `d2`
of `] , ) ; = < >` and a number token `A` whose value is in the range of `int`,
`simplifyCalculations` leaves the window `d1 A / 0 d2` as it is and returns
`false` on it; with any tokens in front of and behind the window the loop walks
from `d1` to `d2` with the five nodes and the variable `ret` unchanged. -/
theorem calc_division_by_zero_skipped (p : Platform) (d1 A op Z d2 : Token) (c1 c2 : Char)
    (i1 : Int) (hc1 : c1 ∈ ['[', ',', '(', '=', '<', '>']) (hd1 : d1.str = [c1])
    (hA : isNumber A.str = true) (hi : atoi p A.str = some i1) (hop : op.str = ['/'])
    (hZ : Z.str = ['0']) (hc2 : c2 ∈ [']', ',', ')', ';', '=', '<', '>'])
    (hd2 : d2.str = [c2]) :
    simplifyCalculations p [d1, A, op, Z, d2] = some ([d1, A, op, Z, d2], false) ∧
    ∀ (post passed : List Token) (ret : Bool),
      calcLoop p passed (d1 :: A :: op :: Z :: d2 :: post) ret =
        calcLoop p (passed ++ [d1, A, op, Z]) (d2 :: post) ret := by
  have hopS : op.str ≠ "*".toList := by rw [hop]; decide
  have hop1 : op.str ≠ "1".toList := by rw [hop]; decide
  have hopP : op.str ≠ "(".toList := by rw [hop]; decide
  have hZS : Z.str ≠ "*".toList := by rw [hZ]; decide
  have hZ1 : Z.str ≠ "1".toList := by rw [hZ]; decide
  have hZP : Z.str ≠ "(".toList := by rw [hZ]; decide
  have hdS : d2.str ≠ "*".toList := by rw [hd2]; intro h; cases h; revert hc2; decide
  have hd1' : d2.str ≠ "1".toList := by rw [hd2]; intro h; cases h; revert hc2; decide
  have hdP : d2.str ≠ "(".toList := by rw [hd2]; intro h; cases h; revert hc2; decide
  have hZn : isNumber Z.str = true := by rw [hZ]; decide
  have hAc := accepts_chars_number "[,(=<>" 0 A (by decide) hA
  have hZc := accepts_chars_number "[,(=<>" 0 Z (by decide) hZn
  have hoc := accepts_chars_not "[,(=<>" 0 op '/' (by decide) hop
  have hl : ∀ (post passed : List Token) (ret : Bool),
      calcLoop p passed (d1 :: A :: op :: Z :: d2 :: post) ret =
        calcLoop p (passed ++ [d1, A, op, Z]) (d2 :: post) ret := by
    intro post passed ret
    rw [calcLoop_cons p passed _ d1 ret _
        (calcBody_divZero p post d1 A op Z d2 c1 c2 i1 ret hc1 hd1 hA hi hop hZ hc2 hd2),
      calcLoop_cons p _ _ A ret _ (calcBody_plain p A op _ ret hopS hop1 hopP hAc),
      calcLoop_cons p _ _ op ret _ (calcBody_plain p op Z _ ret hZS hZ1 hZP hoc),
      calcLoop_cons p _ _ Z ret _ (calcBody_plain p Z d2 _ ret hdS hd1' hdP hZc)]
    simp
  refine ⟨?_, hl⟩
  rw [simplifyCalculations, hl [] [] false, calcLoop_cons p _ _ d2 false _ (calcBody_last p d2 false),
    calcLoop]
  rfl

/-- An instance of C22: on the example platform `( 7 / 0 )` stays as it is, and the
function returns `false`. -/
theorem calc_division_by_zero_skipped_witness :
    simplifyCalculations examplePlatform (line1 ["(", "7", "/", "0", ")"]) =
      some (line1 ["(", "7", "/", "0", ")"], false) :=
  (calc_division_by_zero_skipped examplePlatform ⟨"(".toList, 1, 0, 0⟩ ⟨"7".toList, 1, 0, 0⟩
    ⟨"/".toList, 1, 0, 0⟩ ⟨"0".toList, 1, 0, 0⟩ ⟨")".toList, 1, 0, 0⟩ '(' ')' 7
    (by decide) rfl (by decide) (atoi_decimal examplePlatform 7 (by decide)) rfl rfl
    (by decide) rfl).1

/-- The loop "Goto the ending ')'" ends on a node of the list. -/
theorem parenEnd_lt (l : List Token) : ∀ (k : Int) (i : Nat), parenEnd k l = some i →
    i < l.length := by
  induction l with
  | nil => intro k i h; cases h
  | cons t rest ih =>
    intro k i h
    rw [parenEnd] at h
    simp only [List.length_cons]
    split at h
    · split at h
      · simp only [Option.map_eq_some'] at h
        obtain ⟨j, hj, rfl⟩ := h
        have := ih _ _ hj
        omega
      · cases h; omega
    · split at h
      · split at h
        · simp only [Option.map_eq_some'] at h
          obtain ⟨j, hj, rfl⟩ := h
          have := ih _ _ hj
          omega
        · cases h; omega
      · split at h
        · simp only [Option.map_eq_some'] at h
          obtain ⟨j, hj, rfl⟩ := h
          have := ih _ _ hj
          omega
        · cases h; omega

/-- Started inside the parentheses, the loop "Goto the ending ')'" ends on a `)`. -/
theorem parenEnd_close (l : List Token) : ∀ (k : Int) (i : Nat), 1 ≤ k →
    parenEnd k l = some i → ∃ c, l.get? i = some c ∧ c.str = [')'] := by
  induction l with
  | nil => intro k i _ h; cases h
  | cons t rest ih =>
    intro k i hk h
    rw [parenEnd] at h
    split at h
    · split at h
      · simp only [Option.map_eq_some'] at h
        obtain ⟨j, hj, rfl⟩ := h
        exact ih _ _ (by omega) hj
      · omega
    · rename_i hno
      split at h
      · rename_i hc
        split at h
        · rename_i hge
          simp only [Option.map_eq_some'] at h
          obtain ⟨j, hj, rfl⟩ := h
          exact ih _ _ hge hj
        · cases h
          exact ⟨t, rfl, hc⟩
      · simp only [Option.map_eq_some'] at h
        obtain ⟨j, hj, rfl⟩ := h
        exact ih _ _ hk hj

/-- The loop that looks for the end of the statement ends on a node of the list. -/
theorem statementEnd_lt (l : List Token) : ∀ (a b : Int) (j : Nat),
    statementEnd a b l = some j → j < l.length := by
  induction l with
  | nil => intro a b j h; cases h
  | cons t rest ih =>
    intro a b j h
    rw [statementEnd] at h
    simp only [List.length_cons]
    have step : ∀ a' b', (statementEnd a' b' rest).map (· + 1) = some j → j < rest.length + 1 := by
      intro a' b' h'
      simp only [Option.map_eq_some'] at h'
      obtain ⟨m, hm, rfl⟩ := h'
      have := ih _ _ _ hm
      omega
    split at h
    · exact step _ _ h
    · split at h
      · split at h
        · cases h; omega
        · exact step _ _ h
      · split at h
        · exact step _ _ h
        · split at h
          · exact step _ _ h
          · split at h
            · cases h; omega
            · exact step _ _ h

/-- What the second half of the loop body leaves: the nodes in front stay, the node
`c` stays behind the nodes passed before, with a `\x7b` behind it, and the list
behind the cursor is not longer than the list behind `c`. -/
theorem insertBraces_step (ret : Bool) (before passed : List Token) (c : Token)
    (after : List Token) :
    (insertBraces ret before passed c after).before = before ∧
    (∃ more, (insertBraces ret before passed c after).passed ++
        (insertBraces ret before passed c after).rest =
      passed ++ c :: c.inserted ['{'] :: more ∧
      ∃ q, (insertBraces ret before passed c after).passed =
        passed ++ c :: c.inserted ['{'] :: q) ∧
    (insertBraces ret before passed c after).rest.length ≤ after.length := by
  unfold insertBraces
  split
  · exact ⟨rfl, ⟨after, by simp, after, rfl⟩, by simp⟩
  · rename_i j hj
    have := statementEnd_lt _ _ _ _ hj
    refine ⟨rfl, ⟨_, by simp only [List.append_assoc, List.cons_append]; rfl, _, rfl⟩, ?_⟩
    simp only [List.length_append, List.length_map, List.length_take, List.length_drop]
    omega

/-- A loop with a cursor ends when the number of rounds allowed is at least the
number of nodes from the cursor on, and its list starts with the nodes in front of
the cursor and the node of the cursor, when each round keeps them and does not
make the list behind the cursor longer. -/
theorem cursorLoop_total {σ : Type} (body : σ → List Token → Token → List Token → Result (Step σ))
    (hb : ∀ s before tok rest, ∃ st, body s before tok rest = .ok st ∧ st.before = before ∧
      (∃ q, st.passed = tok :: q) ∧ st.rest.length ≤ rest.length) :
    ∀ (fuel : Nat) (s : σ) (before ts : List Token), ts.length ≤ fuel →
      ∃ out, cursorLoop body fuel s before ts = .ok out ∧
        ∃ more, out.1 = before ++ ts.take 1 ++ more := by
  intro fuel
  induction fuel with
  | zero =>
    intro s before ts h
    cases ts with
    | nil => exact ⟨(before, s), rfl, [], by simp⟩
    | cons t r => simp at h
  | succ n ih =>
    intro s before ts h
    cases ts with
    | nil => exact ⟨(before, s), by rw [cursorLoop], [], by simp⟩
    | cons t r =>
      obtain ⟨st, hst, hbef, ⟨q, hq⟩, hlen⟩ := hb s before t r
      rw [cursorLoop, hst]
      simp only [Result.bind]
      split
      · exact ⟨_, rfl, q ++ st.rest, by simp [hbef, hq]⟩
      · have hl : st.rest.length ≤ n := by
          simp only [List.length_cons] at h
          omega
        obtain ⟨out, ho, more, hm⟩ := ih st.state (st.before ++ st.passed) st.rest hl
        exact ⟨out, ho, q ++ st.rest.take 1 ++ more, by rw [hm, hbef, hq]; simp⟩

/-- The nodes up to the closing parenthesis and the node behind it. -/
theorem take_succ_of_drop (l : List Token) (n : Nat) (c : Token) (after : List Token)
    (h : l.drop n = c :: after) : l.take (n + 1) = l.take n ++ [c] ∧ l.drop (n + 1) = after := by
  have h1 : l.drop (n + 1) = after := by
    have := congrArg (List.drop 1) h
    simpa [List.drop_drop, Nat.add_comm] using this
  refine ⟨?_, h1⟩
  have h2 : l.take (n + 1) = l.take n ++ (l.drop n).take 1 := by
    rw [List.take_succ]
    congr 1
    rw [h]
    cases hg : l.get? n with
    | none =>
      have := List.get?_eq_none.mp hg
      have : l.drop n = [] := List.drop_eq_nil_of_le this
      rw [this] at h
      cases h
    | some x =>
      have : (l.drop n).head? = some x := by rw [List.head?_drop]; simpa using hg
      rw [h] at this
      simp at this
      subst this
      simp only [List.get?_eq_getElem?] at hg
      simp [hg]
  rw [h2, h]
  rfl

/-- What a round of the loop of `simplifyIfAddBraces` leaves: the nodes in front
of the cursor and the node of the cursor stay, and the list behind the cursor does
not get longer. The round has no undefined behaviour. -/
theorem addBracesBody_step (ret : Bool) (before : List Token) (tok : Token) (rest : List Token) :
    ∃ st, addBracesBody ret before tok rest = .ok st ∧ st.before = before ∧
      (∃ q, st.passed = tok :: q) ∧ st.rest.length ≤ rest.length := by
  unfold addBracesBody
  split
  · split
    · exact ⟨_, rfl, rfl, ⟨_, rfl⟩, by simp⟩
    · rename_i i hi
      split
      · exact ⟨_, rfl, rfl, ⟨_, rfl⟩, by simp⟩
      · have hlt := parenEnd_lt _ _ _ hi
        split
        · rename_i hnil
          have := congrArg List.length hnil
          simp only [List.length_drop, List.length_nil] at this hlt
          omega
        · rename_i c after hc
          obtain ⟨h1, ⟨more, -, q, hq⟩, h3⟩ :=
            insertBraces_step ret before (tok :: rest.take (i + 1)) c after
          refine ⟨_, rfl, h1, ⟨_, by rw [hq]; rfl⟩, h3.trans ?_⟩
          have := congrArg List.length hc
          simp only [List.length_drop, List.length_cons] at this
          omega
  · split
    · split
      · exact ⟨_, rfl, rfl, ⟨_, rfl⟩, le_refl _⟩
      · obtain ⟨h1, ⟨more, -, q, hq⟩, h3⟩ := insertBraces_step ret before [] tok rest
        exact ⟨_, rfl, h1, ⟨_, by rw [hq]; rfl⟩, h3⟩
    · exact ⟨_, rfl, rfl, ⟨_, rfl⟩, le_refl _⟩

/-- The list of `simplifyIfAddBraces` behind a round that has left the nodes `P`
and then the node `x` behind the nodes in front of the cursor: it starts with
them. -/
theorem addBraces_loop_shape (fuel : Nat) (ret : Bool) (before : List Token) (tok : Token)
    (rest : List Token) (st : Step Bool) (P : List Token) (x : Token)
    (hst : addBracesBody ret before tok rest = .ok st) (hbef : st.before = before)
    (hshape : (∃ q, st.passed = P ++ x :: q) ∨
      (st.stop = false ∧ st.passed = P ∧ ∃ more, st.rest = x :: more))
    (hf : rest.length + 1 ≤ fuel) (out : List Token × Bool)
    (ho : cursorLoop addBracesBody fuel ret before (tok :: rest) = .ok out) :
    ∃ more, out.1 = before ++ P ++ x :: more := by
  obtain ⟨st', hst', -, -, hlen⟩ := addBracesBody_step ret before tok rest
  rw [hst] at hst'
  cases hst'
  cases fuel with
  | zero => omega
  | succ n =>
    rw [cursorLoop, hst] at ho
    simp only [Result.bind] at ho
    split at ho
    · rename_i hstop
      cases ho
      rcases hshape with ⟨q, hq⟩ | ⟨hns, -, -⟩
      · exact ⟨q ++ st.rest, by simp [hbef, hq]⟩
      · rw [hns] at hstop
        cases hstop
    · obtain ⟨out', ho', more, hm⟩ := cursorLoop_total addBracesBody addBracesBody_step n
        st.state (st.before ++ st.passed) st.rest (by omega)
      rw [ho'] at ho
      cases ho
      rcases hshape with ⟨q, hq⟩ | ⟨-, hP, more', hm'⟩
      · exact ⟨q ++ st.rest.take 1 ++ more, by rw [hm, hbef, hq]; simp⟩
      · exact ⟨more, by rw [hm, hbef, hP, hm']; simp⟩

/-- The tokens that `) \x7b` matches. -/
theorem simpleMatch_close_brace (l : List Token) (h : simpleMatch [")", "\x7b"] l = true) :
    ∃ c b more, l = c :: b :: more ∧ c.str = [')'] ∧ b.str = ['{'] := by
  match l, h with
  | [], h => simp [simpleMatch, Match, MatchVarId] at h
  | [_], h => simp [simpleMatch, Match, MatchVarId] at h
  | c :: b :: more, h =>
    simp only [simpleMatch, List.map_cons, List.map_nil, Match, MatchVarId, Atom.accepts,
      Bool.and_eq_true, decide_eq_true_eq] at h
    exact ⟨c, b, more, rfl, h.1, h.2.1⟩

/-- The round of the loop at `if|for|while (` whose parentheses are closed: the `)`
that matches has a `\x7b` behind it, either passed in this round or the next node
of the loop. -/
theorem addBraces_if_shape (ret : Bool) (before : List Token) (tok : Token) (rest : List Token)
    (i : Nat) (hM : Match [.oneOf ["if", "for", "while"], .word "("] (tok :: rest) = true)
    (hp : parenEnd 1 (rest.drop 1) = some i) :
    ∃ st c b, addBracesBody ret before tok rest = .ok st ∧ st.before = before ∧
      rest.get? (i + 1) = some c ∧ c.str = [')'] ∧ b.str = ['{'] ∧
      ((∃ q, st.passed = (tok :: rest.take (i + 1) ++ [c]) ++ b :: q) ∨
        (st.stop = false ∧ st.passed = tok :: rest.take (i + 1) ++ [c] ∧
          ∃ more, st.rest = b :: more)) := by
  obtain ⟨c, hc, hcs⟩ := parenEnd_close _ _ _ (le_refl _) hp
  have hget : rest.get? (i + 1) = some c := by
    simpa [List.get?_eq_getElem?, List.getElem?_drop, Nat.add_comm] using hc
  have hdrop : ∃ after, rest.drop (i + 1) = c :: after := by
    cases hd : rest.drop (i + 1) with
    | nil =>
      have := List.drop_eq_nil_iff.mp hd
      have h2 := List.get?_eq_none.mpr this
      rw [hget] at h2
      cases h2
    | cons x after =>
      have : (rest.drop (i + 1)).head? = some c := by
        rw [List.head?_drop]; simpa [List.get?_eq_getElem?] using hget
      rw [hd] at this
      simp at this
      subst this
      exact ⟨after, rfl⟩
  obtain ⟨after, hafter⟩ := hdrop
  obtain ⟨ht1, ht2⟩ := take_succ_of_drop rest (i + 1) c after hafter
  unfold addBracesBody
  rw [if_pos hM, hp]
  simp only
  split
  · rename_i hs
    obtain ⟨c', b, more, hl, -, hb⟩ := simpleMatch_close_brace _ hs
    rw [hafter] at hl
    cases hl
    exact ⟨_, c, b, rfl, rfl, hget, hcs, hb, Or.inr ⟨rfl, by rw [ht1]; simp, more, ht2⟩⟩
  · rw [hafter]
    simp only
    obtain ⟨h1, ⟨more, -, q, hq⟩, -⟩ :=
      insertBraces_step ret before (tok :: rest.take (i + 1)) c after
    exact ⟨_, c, c.inserted ['{'], rfl, h1, hget, hcs, rfl, Or.inl ⟨q, by rw [hq]; simp⟩⟩

/-- The round of the loop at `else`: a `\x7b` or an `if` is behind it, either
passed in this round or the next node of the loop. -/
theorem addBraces_else_shape (ret : Bool) (before : List Token) (tok : Token)
    (rest : List Token) (he : tok.str = "else".toList) :
    ∃ st n, addBracesBody ret before tok rest = .ok st ∧ st.before = before ∧
      (n.str = ['{'] ∨ n.str = "if".toList) ∧
      ((∃ q, st.passed = [tok] ++ n :: q) ∨
        (st.stop = false ∧ st.passed = [tok] ∧ ∃ more, st.rest = n :: more)) := by
  have hM : Match [.oneOf ["if", "for", "while"], .word "("] (tok :: rest) = false := by
    apply match_head_not _ _ _ _ (fun _ h => by cases h)
    simp only [Atom.accepts, he]
    decide
  unfold addBracesBody
  rw [hM]
  simp only [Bool.false_eq_true, if_false]
  rw [if_pos he]
  split
  · rename_i h2
    match rest, h2 with
    | [], h2 => simp [Match, MatchVarId] at h2
    | n :: more, h2 =>
      simp only [Match, MatchVarId, Atom.accepts, Bool.and_eq_true, decide_eq_true_eq,
        List.any_cons, List.any_nil, Bool.or_false, Bool.or_eq_true] at h2
      refine ⟨_, n, rfl, rfl, ?_, Or.inr ⟨rfl, rfl, more, rfl⟩⟩
      rcases h2.2.1 with h | h
      · exact Or.inr h
      · exact Or.inl h
  · obtain ⟨h1, ⟨more, -, q, hq⟩, -⟩ := insertBraces_step ret before [] tok rest
    exact ⟨_, tok.inserted ['{'], rfl, h1, Or.inl rfl, Or.inl ⟨q, by rw [hq]; simp⟩⟩

/-- The text that `ostream << int` writes starts with `-` or with a digit. -/
theorem decimalInt_head (v : Int) :
    ∃ d ds, decimalInt v = d :: ds ∧ (d = '-' ∨ isdigit d = true) := by
  unfold decimalInt
  split
  · exact ⟨'-', _, rfl, Or.inl rfl⟩
  · obtain ⟨d, ds, h, hd⟩ := decimal_head v.toNat
    exact ⟨d, ds, h, Or.inr hd⟩

/-- The text that `ostream << int` writes is not a word that starts with another
byte. -/
theorem decimalInt_ne_word (v : Int) (w : List Char)
    (hw : ∀ c ∈ w.head?, c ≠ '-' ∧ isdigit c = false) : decimalInt v ≠ w := by
  obtain ⟨d, ds, h, hd⟩ := decimalInt_head v
  intro heq
  rw [h] at heq
  subst heq
  obtain ⟨h1, h2⟩ := hw d (by simp)
  rcases hd with hd | hd
  · exact h1 hd
  · rw [h2] at hd
    cases hd

/-- The loop of `simplifyCalculations` at the window `d1 A op B d2`: it goes on at
`d2` with the result in the place of `A op B` and with `ret` set. -/
theorem calc_window_loop (p : Platform) (d1 A op B d2 : Token) (c1 c c2 : Char) (a b : Nat)
    (hc1 : c1 ∈ ['[', ',', '(', '=', '<', '>']) (hd1 : d1.str = [c1])
    (hA : A.str = decimal a) (hc : c ∈ ['+', '-', '*', '/']) (hop : op.str = [c])
    (hB : B.str = decimal b) (hc2 : c2 ∈ [']', ',', ')', ';', '=', '<', '>'])
    (hd2 : d2.str = [c2]) (hdiv : c = '/' → b ≠ 0) (ha : a ≤ p.INT_MAX) (hb : b ≤ p.INT_MAX)
    (hr : -(p.INT_MAX : Int) - 1 ≤ calcResult c a b ∧ calcResult c a b ≤ (p.INT_MAX : Int)) :
    ∃ R : Token, R.str = decimalInt (calcResult c a b) ∧
      ∀ (post passed : List Token) (ret : Bool),
        calcLoop p passed (d1 :: A :: op :: B :: d2 :: post) ret =
          calcLoop p (passed ++ [d1, R]) (d2 :: post) true := by
  by_cases hs : a = 1 ∧ c = '*'
  · obtain ⟨rfl, rfl⟩ := hs
    refine ⟨B, ?_, ?_⟩
    · rw [hB]
      have e : calcResult '*' 1 b = (b : Int) := by simp [calcResult]
      rw [e, decimalInt, if_neg (by omega)]
      rfl
    · intro post passed ret
      rw [calcLoop_cons p passed _ d1 ret _
        (calcBody_timesOne p post d1 A op B d2 c2 b ret hA hop hB hc2 hd2),
        calcLoop_cons p _ _ B true _ (calcBody_number p post B d2 c2 b true hB hc2 hd2)]
      simp
  · refine ⟨A.setStr (decimalInt (calcResult c a b)), rfl, ?_⟩
    intro post passed ret
    rw [calcLoop_cons p passed _ d1 ret _
      (calcBody_window p post d1 A op B d2 c1 c c2 a b ret hc1 hd1 hA hc hop hB hc2 hd2 hdiv
        ha hb hr hs)]
    simp

/-- The loop body at the `(` of `( R )`, where `R` is the result of a calculation:
nothing is changed, for the third `if` looks at the `(` behind `tok`. -/
theorem calcBody_open_result (p : Platform) (d1 R d2 : Token) (v : Int) (ret : Bool)
    (hR : R.str = decimalInt v) (hd2 : d2.str = [')']) :
    calcBody p ⟨[], d1, [R, d2], ret⟩ = some ⟨[], d1, [R, d2], ret⟩ := by
  have hRstar : R.str ≠ "*".toList := by rw [hR]; exact decimalInt_ne_word v _ (by decide)
  have hRpar : R.str ≠ "(".toList := by rw [hR]; exact decimalInt_ne_word v _ (by decide)
  have hT : calcTimesOne ⟨[], d1, [R, d2], ret⟩ = ⟨[], d1, [R, d2], ret⟩ := by
    unfold calcTimesOne
    rw [if_neg]
    rintro (h | h)
    · rw [simpleMatch, List.map_cons, match_word_ne _ _ _ _ hRstar] at h
      cases h
    · simp only [simpleMatch, List.map_cons, List.map_nil, Match, MatchVarId, Atom.accepts,
        Bool.and_eq_true, decide_eq_true_eq] at h
      have := hd2.symm.trans h.2.1
      cases this
  have hM : Match [.chars "[,(=<>", .num, .chars "+-*/", .num, .chars "],);=<>"]
      [d1, R, d2] = false := by
    have h2 : (Atom.chars "+-*/").accepts 0 d2 = false :=
      accepts_chars_not _ _ _ ')' (by decide) hd2
    simp only [Match, MatchVarId, h2, Bool.false_and, Bool.and_false]
  have hF : calcFold p ⟨[], d1, [R, d2], ret⟩ = some (⟨[], d1, [R, d2], ret⟩, false) := by
    unfold calcFold
    rw [if_neg (by simp [hM])]
  have hN : ∀ x : Cursor, x.rest = [R, d2] → calcNumber x = x := by
    intro x hx
    unfold calcNumber
    rw [if_neg]
    rintro ⟨-, h⟩
    rw [hx, match_word_ne _ _ _ _ hRpar] at h
    cases h
  have hV : ∀ x : Cursor, x.rest = [R, d2] → calcVariable x = x := by
    intro x hx
    unfold calcVariable
    rw [if_neg]
    rintro ⟨-, -, h⟩
    rw [hx, match_word_ne _ _ _ _ hRpar] at h
    cases h
  unfold calcBody
  rw [hT, hF]
  simp only
  rw [hN _ rfl, hV _ rfl]

/-- The function `simplifyCalculations` changes nothing in `( R )`, where `R` is
the result of a calculation, and returns `false`. -/
theorem simplifyCalculations_result (p : Platform) (d1 R d2 : Token) (v : Int)
    (hR : R.str = decimalInt v) (hd2 : d2.str = [')']) :
    simplifyCalculations p [d1, R, d2] = some ([d1, R, d2], false) := by
  have hdS : d2.str ≠ "*".toList := by rw [hd2]; decide
  have hd1' : d2.str ≠ "1".toList := by rw [hd2]; decide
  have hdP : d2.str ≠ "(".toList := by rw [hd2]; decide
  have hRc : (Atom.chars "[,(=<>").accepts 0 R = false := by
    rw [Bool.eq_false_iff]
    intro h
    simp only [Atom.accepts, List.any_eq_true, decide_eq_true_eq] at h
    obtain ⟨c, hc, h'⟩ := h
    rw [hR] at h'
    have hall : ∀ x ∈ "[,(=<>".toList, x ≠ '-' ∧ isdigit x = false := by decide
    exact decimalInt_ne_word v [c] (by
      intro x hx
      simp only [List.head?_cons, Option.mem_def, Option.some.injEq] at hx
      rw [← hx]
      exact hall c hc) h'
  rw [simplifyCalculations,
    calcLoop_cons p _ _ d1 false _ (calcBody_open_result p d1 R d2 v false hR hd2),
    calcLoop_cons p _ _ R false _ (calcBody_plain p R d2 _ false hdS hd1' hdP hRc),
    calcLoop_cons p _ _ d2 false _ (calcBody_last p d2 false), calcLoop]
  rfl

/-- One round of the loop of `simplifyCasts`. -/
theorem simplifyCasts_cons (tok : Token) (rest rest1 : List Token)
    (h : castBody tok rest = some rest1) :
    simplifyCasts (tok :: rest) = (simplifyCasts rest1).map (tok :: ·) := by
  rw [simplifyCasts]
  split
  · rename_i h'
    rw [h] at h'
    cases h'
  · rename_i r h'
    rw [h] at h'
    cases h'
    rfl

/-- The loop body of `simplifyCasts` changes nothing in front of a token that is
neither `(` nor the name of a cast. -/
theorem castBody_plain (tok x : Token) (more : List Token) (h1 : x.str ≠ "(".toList)
    (h2 : ∀ w ∈ ["dynamic_cast", "reinterpret_cast", "const_cast", "static_cast"],
      x.str ≠ String.toList w) :
    castBody tok (x :: more) = some (x :: more) := by
  have hc : Match [.oneOf ["dynamic_cast", "reinterpret_cast", "const_cast", "static_cast"],
      .word "<"] (x :: more) = false := by
    apply match_head_not _ _ _ _ (fun _ h => by cases h)
    rw [Bool.eq_false_iff]
    intro h
    simp only [Atom.accepts, List.any_eq_true, decide_eq_true_eq] at h
    obtain ⟨w, hw, hx⟩ := h
    exact h2 w hw hx
  unfold castBody
  rw [match_word_ne _ _ _ _ h1, match_word_ne _ _ _ _ h1, hc]
  simp

/-- The function `simplifyCasts` changes nothing when no token behind the first is
`(` or the name of a cast. -/
theorem simplifyCasts_plain (rest : List Token) : ∀ (tok : Token),
    (∀ x ∈ rest, x.str ≠ "(".toList ∧
      ∀ w ∈ ["dynamic_cast", "reinterpret_cast", "const_cast", "static_cast"],
        x.str ≠ String.toList w) →
    simplifyCasts (tok :: rest) = some (tok :: rest) := by
  induction rest with
  | nil =>
    intro tok _
    have h : castBody tok [] = some [] := by
      simp [castBody, Match, MatchVarId]
    rw [simplifyCasts_cons tok [] [] h, simplifyCasts]
    rfl
  | cons x more ih =>
    intro tok h
    obtain ⟨h1, h2⟩ := h x (by simp)
    rw [simplifyCasts_cons tok _ _ (castBody_plain tok x more h1 h2),
      ih x (fun y hy => h y (by simp [hy]))]
    rfl

set_option maxRecDepth 8000 in
set_option maxHeartbeats 1000000 in
/-- The first part of `simplifyTokenList` changes nothing in `( A op B )`. -/
theorem simplifySizes_calculation (p : Platform) (d1 A op B d2 : Token) (c : Char) (a b : Nat)
    (hd1 : d1.str = ['(']) (hA : A.str = decimal a) (hc : c ∈ ['+', '-', '*', '/'])
    (hop : op.str = [c]) (hB : B.str = decimal b) (hd2 : d2.str = [')']) :
    simplifySizes p [d1, A, op, B, d2] = some [d1, A, op, B, d2] := by
  have hAw : ∀ w : List Char, (∀ x ∈ w.head?, isdigit x = false) → (A.str = w) = False := by
    intro w hw
    rw [hA]
    exact eq_false (decimal_ne_word a w hw)
  have hBw : ∀ w : List Char, (∀ x ∈ w.head?, isdigit x = false) → (B.str = w) = False := by
    intro w hw
    rw [hB]
    exact eq_false (decimal_ne_word b w hw)
  have hAn : isNumber A.str = true := by rw [hA]; exact isNumber_decimal a
  have hBn : isNumber B.str = true := by rw [hB]; exact isNumber_decimal b
  have hcast : simplifyCasts [d1, A, op, B, d2] = some [d1, A, op, B, d2] := by
    apply simplifyCasts_plain
    intro x hx
    simp only [List.mem_cons, List.mem_singleton, List.not_mem_nil, or_false] at hx hc
    rcases hx with rfl | rfl | rfl | rfl
    · exact ⟨by rw [hA]; exact decimal_ne_word a _ (by decide),
        fun w hw => by rw [hA]; exact decimal_ne_word a _ (by revert w; decide)⟩
    · rw [hop]
      rcases hc with rfl | rfl | rfl | rfl <;> exact ⟨by decide, by decide⟩
    · exact ⟨by rw [hB]; exact decimal_ne_word b _ (by decide),
        fun w hw => by rw [hB]; exact decimal_ne_word b _ (by revert w; decide)⟩
    · rw [hd2]
      exact ⟨by decide, by decide⟩
  simp only [List.mem_cons, List.mem_singleton, List.not_mem_nil, or_false] at hc
  rcases hc with rfl | rfl | rfl | rfl <;>
  simp +decide [simplifySizes, combineStrings, combineStringsFrom, removeUnwanted,
    deleteUnwanted, unwantedWords, foldSigns, foldSignsFrom, fillTypeSize, fillStructSizes,
    replaceSizeofVar, sizeofLoop, replaceSizeofArray, replaceConstants,
    Match, MatchVarId, Atom.accepts, isString, simpleMatch, matchType, isName, hd1, hd2, hop,
    hAw, hBw, hAn, hBn, hcast]

/-- The text that `ostream << int` writes is no name. -/
theorem isName_decimalInt (v : Int) : isName (decimalInt v) = false := by
  obtain ⟨d, ds, h, hd⟩ := decimalInt_head v
  rw [h, isName]
  have h1 : isalpha d = false := by
    rcases hd with rfl | hd
    · decide
    · have hd' : 48 ≤ d.toNat ∧ d.toNat ≤ 57 := by simpa [isdigit] using hd
      simp only [isalpha, Bool.decide_or, Bool.decide_and, Bool.or_eq_false_iff,
        Bool.and_eq_false_iff, decide_eq_false_iff_not]
      omega
  have h2 : d ≠ '_' := by
    rcases hd with rfl | hd
    · decide
    · rintro rfl
      revert hd
      decide
  simp [h1, h2]

/-- The loop `while (simplifyCalculations())` on `( A op B )`: the first call leaves
`( R )`, the second call changes nothing. -/
theorem calculationsLoop_calculation (p : Platform) (n : Nat) (d1 A op B d2 : Token) (c : Char)
    (a b : Nat) (hd1 : d1.str = ['(']) (hA : A.str = decimal a)
    (hc : c ∈ ['+', '-', '*', '/']) (hop : op.str = [c]) (hB : B.str = decimal b)
    (hd2 : d2.str = [')']) (hdiv : c = '/' → b ≠ 0) (ha : a ≤ p.INT_MAX) (hb : b ≤ p.INT_MAX)
    (hr : -(p.INT_MAX : Int) - 1 ≤ calcResult c a b ∧ calcResult c a b ≤ (p.INT_MAX : Int)) :
    ∃ R : Token, R.str = decimalInt (calcResult c a b) ∧
      calculationsLoop p (n + 2) [d1, A, op, B, d2] = .ok [d1, R, d2] := by
  obtain ⟨R, hR, hl⟩ := calc_window_loop p d1 A op B d2 '(' c ')' a b (by decide) hd1 hA hc hop
    hB (by decide) hd2 hdiv ha hb hr
  refine ⟨R, hR, ?_⟩
  have h1 : simplifyCalculations p [d1, A, op, B, d2] = some ([d1, R, d2], true) := by
    rw [simplifyCalculations, hl [] [] false,
      calcLoop_cons p _ _ d2 true _ (calcBody_last p d2 true), calcLoop]
    rfl
  rw [calculationsLoop, h1]
  simp only [Result.ofOption, Result.bind, if_true]
  rw [calculationsLoop, simplifyCalculations_result p d1 R d2 _ hR hd2]
  rfl

set_option maxRecDepth 8000 in
set_option maxHeartbeats 1000000 in
/-- The passes of `simplifyTokenList` from "Replace pointer sum" to the loops behind
`setVarId` change no text in `( R )`, where `R` is the result of a calculation;
`setVarId` gives no token a variable id. -/
theorem declarations_result (n : Nat) (x R y : Token) (v : Int)
    (hx : x.str = ['(']) (hR : R.str = decimalInt v) (hy : y.str = [')']) :
    (splitDeclarations (n + 3) (replacePointerSum [x, R, y])).map
        (fun ts2 => removeNullCasts (replaceNULL (setVarId ts2))) =
      .ok [{ x with varId := 0 }, { R with varId := 0 }, { y with varId := 0 }] := by
  have hRw : ∀ w : List Char, (∀ c ∈ w.head?, c ≠ '-' ∧ isdigit c = false) →
      (R.str = w) = False := by
    intro w hw
    rw [hR]
    exact eq_false (decimalInt_ne_word v w hw)
  have hRn : isName R.str = false := by rw [hR]; exact isName_decimalInt v
  simp +decide [Result.bind, Result.map, replacePointerSum,
    splitDeclarations, splitBody, splitPoint, setVarId, setVarIdLoop, setMemberIds,
    declareVariable, declaredName, markVariable, replaceNULL, removeNullCasts, Match,
    MatchVarId, Atom.accepts, simpleMatch, matchType, strchr, Token.aaaa0, markMember,
    setVarIdAt, cursorLoop, hx, hy, hRw, hRn]

set_option maxRecDepth 8000 in
set_option maxHeartbeats 1000000 in
/-- The passes of `simplifyTokenList` from `simplifyIfAddBraces` to the loop on
`case` change nothing in `( R )`. -/
theorem simplifyBraces_result (n : Nat) (x R y : Token) (v : Int)
    (hx : x.str = ['(']) (hR : R.str = decimalInt v) (hy : y.str = [')']) :
    simplifyBraces (n + 3) [x, R, y] = .ok [x, R, y] := by
  have hRw : ∀ w : List Char, (∀ c ∈ w.head?, c ≠ '-' ∧ isdigit c = false) →
      (R.str = w) = False := by
    intro w hw
    rw [hR]
    exact eq_false (decimalInt_ne_word v w hw)
  have hRn : isName R.str = false := by rw [hR]; exact isName_decimalInt v
  simp +decide [Result.bind, Result.map, simplifyBraces, simplifyIfAddBraces, addBracesBody,
    simplifyFunctionParameters, functionParametersBody, elseif, elseifBody,
    insertCaseSemicolons, caseBody, Match, MatchVarId, Atom.accepts, simpleMatch, matchType,
    strchr, Token.aaaa0, cursorLoop, hx, hy, hRw, hRn]

set_option maxRecDepth 8000 in
set_option maxHeartbeats 1000000 in
/-- One round of the loop `while (modified)` changes nothing in `( R )`. -/
theorem simplifyRound_result (p : Platform) (n : Nat) (x R y : Token) (v : Int)
    (hx : x.str = ['(']) (hR : R.str = decimalInt v) (hy : y.str = [')']) :
    simplifyRound p (n + 3) [x, R, y] = .ok ([x, R, y], false) := by
  have hRw : ∀ w : List Char, (∀ c ∈ w.head?, c ≠ '-' ∧ isdigit c = false) →
      (R.str = w) = False := by
    intro w hw
    rw [hR]
    exact eq_false (decimalInt_ne_word v w hw)
  have hRn : isName R.str = false := by rw [hR]; exact isName_decimalInt v
  simp +decide [Result.bind, Result.map, Result.ofOption, simplifyRound, simplifyConditions,
    conditionsBody, conditionsDelete, conditionsNumber, conditionsConnective,
    conditionsCompare, simplifyFunctionReturn, functionReturnBody, simplifyKnownVariables,
    knownVariablesBody, removeReduntantConditions, redundantBody,
    simplifyRedundantParanthesis, paranthesisBody, simplifyCalculations_result p x R y v hR hy,
    Match, MatchVarId, Atom.accepts, simpleMatch, matchType, strchr, Token.aaaa0, cursorLoop,
    hx, hy, hRw, hRn]

/-- The whole of `simplifyTokenList` on `( A op B )`, stage by stage. -/
theorem simplifyTokenList_calculation (p : Platform) (n : Nat) (d1 A op B d2 : Token) (c : Char)
    (a b : Nat) (hd1 : d1.str = ['(']) (hA : A.str = decimal a)
    (hc : c ∈ ['+', '-', '*', '/']) (hop : op.str = [c]) (hB : B.str = decimal b)
    (hd2 : d2.str = [')']) (hdiv : c = '/' → b ≠ 0) (ha : a ≤ p.INT_MAX) (hb : b ≤ p.INT_MAX)
    (hr : -(p.INT_MAX : Int) - 1 ≤ calcResult c a b ∧ calcResult c a b ≤ (p.INT_MAX : Int)) :
    ∃ R : Token, R.str = decimalInt (calcResult c a b) ∧
      simplifyTokenList p (n + 3) [d1, A, op, B, d2] =
        .ok [{ d1 with varId := 0 }, { R with varId := 0 }, { d2 with varId := 0 }] := by
  obtain ⟨R, hR, hl⟩ := calculationsLoop_calculation p (n + 1) d1 A op B d2 c a b hd1 hA hc hop
    hB hd2 hdiv ha hb hr
  refine ⟨R, hR, ?_⟩
  rw [simplifyTokenList, simplifySizes_calculation p d1 A op B d2 c a b hd1 hA hc hop hB hd2]
  simp only [Result.ofOption, Result.bind]
  rw [simplifyDeclarations, hl]
  simp only [Result.bind]
  rw [declarations_result n d1 R d2 _ hd1 hR hd2]
  simp only [Result.bind]
  rw [simplifyBraces_result n { d1 with varId := 0 } { R with varId := 0 }
    { d2 with varId := 0 } (calcResult c a b) hd1 hR hd2]
  simp only [Result.bind]
  rw [modifiedLoop, simplifyRound_result p n { d1 with varId := 0 } { R with varId := 0 }
    { d2 with varId := 0 } (calcResult c a b) hd1 hR hd2]
  rfl

/-- C21 (amended): for the decimal texts `A`, `B` of two numbers in the range of
`int` and an operator of `+ - * /` (`B` not 0 for `/`) whose result is in the range
of `int`, `simplifyTokenList` (each loop for at least three rounds) makes of the
token stream `( A op B )` the three tokens `( R )`, where `R` has the decimal text
of the result: the parentheses stay. -/
theorem calculation_in_parentheses (p : Platform) (n : Nat) (d1 A op B d2 : Token) (c : Char)
    (a b : Nat) (hd1 : d1.str = ['(']) (hA : A.str = decimal a)
    (hc : c ∈ ['+', '-', '*', '/']) (hop : op.str = [c]) (hB : B.str = decimal b)
    (hd2 : d2.str = [')']) (hdiv : c = '/' → b ≠ 0) (ha : a ≤ p.INT_MAX) (hb : b ≤ p.INT_MAX)
    (hr : -(p.INT_MAX : Int) - 1 ≤ calcResult c a b ∧ calcResult c a b ≤ (p.INT_MAX : Int)) :
    ∃ out, simplifyTokenList p (n + 3) [d1, A, op, B, d2] = .ok out ∧
      out.map (fun t => t.str) = [['('], decimalInt (calcResult c a b), [')']] := by
  obtain ⟨R, hR, h⟩ := simplifyTokenList_calculation p n d1 A op B d2 c a b hd1 hA hc hop hB hd2
    hdiv ha hb hr
  exact ⟨_, h, by simp [hd1, hR, hd2]⟩

/-- An instance of C21 (amended): on the example platform `( 6 * 7 )` becomes
`( 42 )`. -/
theorem calculation_in_parentheses_witness :
    ∃ out, simplifyTokenList examplePlatform 3 (line1 ["(", "6", "*", "7", ")"]) = .ok out ∧
      out.map (fun t => t.str) = [['('], ['4', '2'], [')']] := by
  obtain ⟨out, h1, h2⟩ := calculation_in_parentheses examplePlatform 0 ⟨"(".toList, 1, 0, 0⟩
    ⟨"6".toList, 1, 0, 0⟩ ⟨"*".toList, 1, 0, 0⟩ ⟨"7".toList, 1, 0, 0⟩ ⟨")".toList, 1, 0, 0⟩
    '*' 6 7 rfl (by decide) (by decide) rfl (by decide) rfl (by decide) (by decide) (by decide)
    (by decide)
  exact ⟨out, h1, h2.trans (by decide)⟩

/-- The tokens of `( 1 + 2 )` behind `tokenize`. -/
theorem tokenize_sumExample :
    tokenize exampleHost "( 1 + 2 )".toList "a.c".toList =
      some { tokens := line1 ["(", "1", "+", "2", ")"], files := ["a.c".toList] } := by
  have hl : lex exampleHost "( 1 + 2 )".toList "a.c".toList =
      .done ⟨line1 ["(", "1", "+", "2", ")"], ["a.c".toList], 1, [], [], [], 0, []⟩ := by
    decide
  unfold tokenize
  rw [hl]
  simp +decide [line1, postLex, beforeNoise, addtoken, c_str, combine, combineAt,
    combineWithNext, combineEntry, typedefPass, matchTypedef2, matchTypedef3, asmFrom, strAt,
    removeWord, dropHeadWord, deleteNextWord, expandType, Token.inserted, matchType, isName]

/-- C21 as stated fails on `( 1 + 2 )`: `tokenize` followed by `simplifyTokenList`
gives the three tokens `( 3 )`, not the single token `3`. -/
theorem calculation_in_parentheses_counterexample :
    (tokenize exampleHost "( 1 + 2 )".toList "a.c".toList).map
        (fun t => (simplifyTokenList examplePlatform 3 t.tokens).map texts) =
      some (.ok ["(", "3", ")"]) ∧
    (tokenize exampleHost "( 1 + 2 )".toList "a.c".toList).map
        (fun t => (simplifyTokenList examplePlatform 3 t.tokens).map texts) ≠
      some (.ok ["3"]) := by
  have h : (tokenize exampleHost "( 1 + 2 )".toList "a.c".toList).map
      (fun t => (simplifyTokenList examplePlatform 3 t.tokens).map texts) =
      some (.ok ["(", "3", ")"]) := by
    obtain ⟨R, hR, hs⟩ := simplifyTokenList_calculation examplePlatform 0 ⟨"(".toList, 1, 0, 0⟩
      ⟨"1".toList, 1, 0, 0⟩ ⟨"+".toList, 1, 0, 0⟩ ⟨"2".toList, 1, 0, 0⟩ ⟨")".toList, 1, 0, 0⟩
      '+' 1 2 rfl (by decide) (by decide) rfl (by decide) rfl (by decide) (by decide)
      (by decide) (by decide)
    have hR' : R.str = ['3'] := hR.trans (by decide)
    rw [tokenize_sumExample]
    simp only [Option.map_some']
    have e : line1 ["(", "1", "+", "2", ")"] =
        [⟨"(".toList, 1, 0, 0⟩, ⟨"1".toList, 1, 0, 0⟩, ⟨"+".toList, 1, 0, 0⟩,
          ⟨"2".toList, 1, 0, 0⟩, ⟨")".toList, 1, 0, 0⟩] := rfl
    rw [e, hs]
    simp only [Result.map, Result.bind, texts, List.map_cons, List.map_nil, hR']
    rfl
  refine ⟨h, ?_⟩
  rw [h]
  decide

/-- The first node of a list. -/
theorem getElem?_first (a : Token) (l : List Token) : (a :: l)[0]? = some a := by simp

/-- A name is no number. -/
theorem isName_not_number (s : List Char) (h : isName s = true) : isNumber s = false := by
  cases s with
  | nil => rfl
  | cons c cs =>
    rw [Bool.eq_false_iff]
    intro hn
    simp only [isNumber] at hn
    have hd : 48 ≤ c.toNat ∧ c.toNat ≤ 57 := by simpa [isdigit] using hn
    have ha : isalpha c = false := by
      simp only [isalpha, Bool.decide_or, Bool.decide_and, Bool.or_eq_false_iff,
        Bool.and_eq_false_iff, decide_eq_false_iff_not]
      omega
    have hu : c ≠ '_' := by
      rintro rfl
      revert hd
      decide
    simp [isName, ha, hu] at h

/-- The first byte of a name is a letter or `_`. -/
theorem isName_head (s : List Char) (h : isName s = true) (ch : Char)
    (h1 : isalpha ch = false) (h2 : ch ≠ '_') : (s.head? = some ch) = False := by
  apply eq_false
  intro hs
  cases s with
  | nil => cases hs
  | cons c cs =>
    simp only [List.head?_cons, Option.some.injEq] at hs
    subst hs
    simp [isName, h1, h2] at h

/-- A name is no single byte that is neither a letter nor `_`. -/
theorem isName_ne_byte (s : List Char) (h : isName s = true) (ch : Char)
    (h1 : isalpha ch = false) (h2 : ch ≠ '_') : (s = [ch]) = False := by
  apply eq_false
  intro hs
  have := isName_head s h ch h1 h2
  rw [hs] at this
  simp at this

/-- A single byte that is neither a letter nor `_` is no name. -/
theorem byte_ne_isName (s : List Char) (h : isName s = true) (ch : Char)
    (h1 : isalpha ch = false) (h2 : ch ≠ '_') : ([ch] = s) = False := by
  apply eq_false
  intro hs
  have := isName_ne_byte s h ch h1 h2
  rw [← hs] at this
  simp at this

/-- The first byte `aaaa0` of a name is a letter or `_`. -/
theorem isName_aaaa0 (t : Token) (h : isName t.str = true) (ch : Char)
    (h1 : isalpha ch = false) (h2 : ch ≠ '_') : (t.aaaa0 = ch) = False := by
  apply eq_false
  intro hs
  cases hstr : t.str with
  | nil => rw [hstr] at h; cases h
  | cons c cs =>
    have := isName_head t.str h ch h1 h2
    rw [hstr] at this
    simp only [Token.aaaa0, hstr, List.headD_cons] at hs
    subst hs
    simp at this

/-- The body of the loop "Split up variable declarations" at a delimiter in front
of `T a ,`: the comma becomes a `;` and a copy of `T` is put behind it. -/
theorem splitBody_comma (d T a k : Token) (more : List Token) (ch : Char)
    (hch : ch ∈ ['{', '}', ';']) (hd : d.str = [ch]) (hT : isName T.str = true)
    (hTd : T.str ≠ "delete".toList) (hTe : T.str ≠ "else".toList)
    (hTr : T.str ≠ "return".toList) (ha : isName a.str = true)
    (hao : a.str ≠ "operator".toList) (hk : k.str = [',']) :
    splitBody d (T :: a :: k :: more) = T :: a :: k.setStr [';'] :: T :: more := by
  have hTd' : T.str ≠ ['d', 'e', 'l', 'e', 't', 'e'] := hTd
  have hTe' : T.str ≠ ['e', 'l', 's', 'e'] := hTe
  have hTr' : T.str ≠ ['r', 'e', 't', 'u', 'r', 'n'] := hTr
  have hao' : a.str ≠ ['o', 'p', 'e', 'r', 'a', 't', 'o', 'r'] := hao
  have hsp : splitPoint (T :: a :: k :: more) = some (2, 1) := by
    simp [splitPoint, Match, MatchVarId, Atom.accepts, matchType, strAt, hT, hTd', ha, hk, hao']
  have hM : Match [.chars "\x7b\x7d;"] [d] = true := by
    simp only [List.mem_cons, List.mem_singleton, List.not_mem_nil, or_false] at hch
    rcases hch with rfl | rfl | rfl <;> simp +decide [Match, MatchVarId, Atom.accepts, hd]
  have hty : Match [.type] (T :: a :: k :: more) = true := by
    simp [Match, MatchVarId, Atom.accepts, matchType, hT, hTd']
  have her : Match [.oneOf ["else", "return"]] (T :: a :: k :: more) = false := by
    simp [Match, MatchVarId, Atom.accepts, hTe', hTr']
  unfold splitBody
  rw [hM, hty, her, hsp]
  simp [splitDeclaration, hk, InsertTokens]

/-- The body of the loop "Split up variable declarations" at a token that is none
of `\x7b`, `\x7d` and `;` changes nothing. -/
theorem splitBody_skip (tok : Token) (rest : List Token)
    (h : ∀ ch ∈ ['{', '}', ';'], tok.str ≠ [ch]) : splitBody tok rest = rest := by
  have hM : Match [.chars "\x7b\x7d;"] [tok] = false := by
    apply match_head_not _ _ _ _ (fun _ h => by cases h)
    rw [Bool.eq_false_iff]
    intro h'
    simp only [Atom.accepts, List.any_eq_true, decide_eq_true_eq] at h'
    obtain ⟨ch, hch, e⟩ := h'
    exact h ch hch e
  unfold splitBody
  rw [hM]
  simp

/-- The body of the loop "Split up variable declarations" in front of `T c ;`
changes nothing. -/
theorem splitBody_single (d T c s : Token) (more : List Token) (hc : isName c.str = true)
    (hs : s.str = [';']) : splitBody d (T :: c :: s :: more) = T :: c :: s :: more := by
  have hsp : splitPoint (T :: c :: s :: more) = none := by
    simp +decide (disch := decide) [splitPoint, Match, MatchVarId, Atom.accepts, matchType,
      strAt, hc, hs, isName_ne_byte c.str hc]
  unfold splitBody
  split
  · rfl
  · split
    · rfl
    · split
      · rfl
      · rw [hsp]

/-- One round of the loop "Split up variable declarations". -/
theorem splitDeclarations_cons (fuel : Nat) (tok : Token) (rest : List Token) :
    splitDeclarations (fuel + 1) (tok :: rest) =
      (splitDeclarations fuel (splitBody tok rest)).map (tok :: ·) := by
  rw [splitDeclarations]

/-- The loop "Split up variable declarations" on `d T a , b , c ;` behind a
delimiter `d`: both commas become `;`, each with a copy of `T` behind it. -/
theorem splitDeclarations_three (n : Nat) (d T a k1 b k2 c s : Token) (ch : Char)
    (hch : ch ∈ ['{', '}', ';']) (hd : d.str = [ch]) (hT : isName T.str = true)
    (hTd : T.str ≠ "delete".toList) (hTe : T.str ≠ "else".toList)
    (hTr : T.str ≠ "return".toList) (ha : isName a.str = true)
    (hao : a.str ≠ "operator".toList) (hk1 : k1.str = [',']) (hb : isName b.str = true)
    (hbo : b.str ≠ "operator".toList) (hk2 : k2.str = [',']) (hc : isName c.str = true)
    (hs : s.str = [';']) :
    splitDeclarations (n + 10) [d, T, a, k1, b, k2, c, s] =
      .ok [d, T, a, k1.setStr [';'], T, b, k2.setStr [';'], T, c, s] := by
  have hname : ∀ t : Token, isName t.str = true → ∀ x ∈ ['{', '}', ';'], t.str ≠ [x] := by
    intro t ht x hx e
    have hx' : isalpha x = false ∧ x ≠ '_' :=
      (by decide : ∀ y ∈ ['{', '}', ';'], isalpha y = false ∧ y ≠ '_') x hx
    have := isName_ne_byte t.str ht x hx'.1 hx'.2
    rw [e] at this
    simp at this
  have hsemi : ∀ t : Token, t.str = [';'] → ∀ tl, Match [.type] (t :: tl) = false := by
    intro t ht tl
    simp +decide [Match, MatchVarId, Atom.accepts, matchType, ht]
  rw [splitDeclarations_cons,
    splitBody_comma d T a k1 _ ch hch hd hT hTd hTe hTr ha hao hk1,
    splitDeclarations_cons, splitBody_skip T _ (hname T hT),
    splitDeclarations_cons, splitBody_skip a _ (hname a ha),
    splitDeclarations_cons,
    splitBody_comma (k1.setStr [';']) T b k2 _ ';' (by decide) rfl hT hTd hTe hTr hb hbo hk2,
    splitDeclarations_cons, splitBody_skip T _ (hname T hT),
    splitDeclarations_cons, splitBody_skip b _ (hname b hb),
    splitDeclarations_cons, splitBody_single (k2.setStr [';']) T c s [] hc hs,
    splitDeclarations_cons, splitBody_skip T _ (hname T hT),
    splitDeclarations_cons, splitBody_skip c _ (hname c hc),
    splitDeclarations_cons]
  have hlast : splitBody s [] = [] := by
    simp [splitBody, Match, MatchVarId]
  rw [hlast, splitDeclarations]
  rfl

/-- A plain name is a name, and it is none of the words of the patterns. -/
theorem plainName_facts (s : List Char) (h : plainName s = true) :
    isName s = true ∧
      s ≠ ['N', 'U', 'L', 'L'] ∧
      s ≠ ['c', 'a', 's', 'e'] ∧
      s ≠ ['c', 'l', 'a', 's', 's'] ∧
      s ≠ ['c', 'o', 'n', 's', 't'] ∧
      s ≠ ['c', 'o', 'n', 's', 't', '_', 'c', 'a', 's', 't'] ∧
      s ≠ ['d', 'e', 'f', 'a', 'u', 'l', 't'] ∧
      s ≠ ['d', 'e', 'l', 'e', 't', 'e'] ∧
      s ≠ ['d', 'y', 'n', 'a', 'm', 'i', 'c', '_', 'c', 'a', 's', 't'] ∧
      s ≠ ['e', 'l', 's', 'e'] ∧
      s ≠ ['f', 'a', 'l', 's', 'e'] ∧
      s ≠ ['f', 'o', 'r'] ∧
      s ≠ ['i', 'f'] ∧
      s ≠ ['o', 'p', 'e', 'r', 'a', 't', 'o', 'r'] ∧
      s ≠ ['r', 'e', 'i', 'n', 't', 'e', 'r', 'p', 'r', 'e', 't', '_', 'c', 'a', 's', 't'] ∧
      s ≠ ['r', 'e', 't', 'u', 'r', 'n'] ∧
      s ≠ ['s', 'i', 'z', 'e', 'o', 'f'] ∧
      s ≠ ['s', 't', 'a', 't', 'i', 'c', '_', 'c', 'a', 's', 't'] ∧
      s ≠ ['s', 't', 'r', 'u', 'c', 't'] ∧
      s ≠ ['t', 'r', 'u', 'e'] ∧
      s ≠ ['u', 'n', 'l', 'i', 'k', 'e', 'l', 'y'] ∧
      s ≠ ['u', 'n', 's', 'i', 'g', 'n', 'e', 'd'] ∧
      s ≠ ['w', 'h', 'i', 'l', 'e'] := by
  simpa [plainName, patternWords] using h

/-- The loop body of `simplifyCalculations` changes nothing at a node in front of a
token that is no number and none of `*` and `(`. -/
theorem calcBody_inert (p : Platform) (tok : Token) (rest : List Token) (ret : Bool)
    (h : ∀ x ∈ rest.head?, isNumber x.str = false ∧ x.str ≠ "*".toList ∧
      x.str ≠ "(".toList) :
    calcBody p ⟨[], tok, rest, ret⟩ = some ⟨[], tok, rest, ret⟩ := by
  cases rest with
  | nil => exact calcBody_last p tok ret
  | cons x more =>
    obtain ⟨hn, h1, h3⟩ := h x (by simp)
    have h2 : x.str ≠ "1".toList := by
      intro e
      rw [e] at hn
      revert hn
      decide
    have hT : calcTimesOne ⟨[], tok, x :: more, ret⟩ = ⟨[], tok, x :: more, ret⟩ := by
      unfold calcTimesOne
      rw [if_neg]
      rintro (h | h)
      · rw [simpleMatch, List.map_cons, match_word_ne _ _ _ _ h1] at h
        cases h
      · rw [simpleMatch, List.map_cons, match_word_ne _ _ _ _ h2] at h
        cases h
    have hM : Match [.chars "[,(=<>", .num, .chars "+-*/", .num, .chars "],);=<>"]
        (tok :: x :: more) = false := by
      simp only [Match, MatchVarId, Atom.accepts, hn, Bool.false_and, Bool.and_false]
    have hF : calcFold p ⟨[], tok, x :: more, ret⟩ =
        some (⟨[], tok, x :: more, ret⟩, false) := by
      unfold calcFold
      rw [if_neg (by simp [hM])]
    have hN : ∀ c : Cursor, c.rest = x :: more → calcNumber c = c := by
      intro c hc
      unfold calcNumber
      rw [if_neg]
      rintro ⟨-, h⟩
      rw [hc, match_word_ne _ _ _ _ h3] at h
      cases h
    have hV : ∀ c : Cursor, c.rest = x :: more → calcVariable c = c := by
      intro c hc
      unfold calcVariable
      rw [if_neg]
      rintro ⟨-, -, h⟩
      rw [hc, match_word_ne _ _ _ _ h3] at h
      cases h
    unfold calcBody
    rw [hT, hF]
    simp only
    rw [hN _ rfl, hV _ rfl]

/-- The loop of `simplifyCalculations` changes nothing in a list without numbers,
`*` and `(` behind its first token. -/
theorem calcLoop_inert (p : Platform) (ts : List Token) : ∀ (passed : List Token) (ret : Bool),
    (∀ x ∈ ts.tail, isNumber x.str = false ∧ x.str ≠ "*".toList ∧ x.str ≠ "(".toList) →
    calcLoop p passed ts ret = some (passed ++ ts, ret) := by
  induction ts with
  | nil =>
    intro passed ret _
    rw [calcLoop]
    simp
  | cons tok rest ih =>
    intro passed ret h
    rw [calcLoop_cons p passed rest tok ret _
      (calcBody_inert p tok rest ret (fun x hx => h x (by
        cases rest with
        | nil => cases hx
        | cons y more =>
          simp only [List.head?_cons, Option.mem_def, Option.some.injEq] at hx
          subst hx
          simp)))]
    rw [ih _ _ (fun x hx => h x (List.mem_of_mem_tail hx))]
    simp

/-- The function `simplifyCalculations` changes nothing in a list without numbers,
`*` and `(` behind its first token, and returns `false`. -/
theorem simplifyCalculations_inert (p : Platform) (ts : List Token)
    (h : ∀ x ∈ ts.tail, isNumber x.str = false ∧ x.str ≠ "*".toList ∧ x.str ≠ "(".toList) :
    simplifyCalculations p ts = some (ts, false) := by
  rw [simplifyCalculations, calcLoop_inert p ts [] false h]
  rfl

set_option maxRecDepth 8000 in
set_option maxHeartbeats 4000000 in
/-- The first part of `simplifyTokenList` changes nothing in `d T a , b , c ;`. -/
theorem simplifySizes_declaration (p : Platform) (d T a k1 b k2 c s : Token) (ch : Char)
    (hch : ch ∈ ['{', '}', ';']) (hd : d.str = [ch]) (hT : plainName T.str = true)
    (ha : plainName a.str = true) (hk1 : k1.str = [',']) (hb : plainName b.str = true)
    (hk2 : k2.str = [',']) (hc : plainName c.str = true) (hs : s.str = [';']) :
    simplifySizes p [d, T, a, k1, b, k2, c, s] = some [d, T, a, k1, b, k2, c, s] := by
  have fT := plainName_facts _ hT
  have fa := plainName_facts _ ha
  have fb := plainName_facts _ hb
  have fc := plainName_facts _ hc
  have hcast : simplifyCasts [d, T, a, k1, b, k2, c, s] = some [d, T, a, k1, b, k2, c, s] := by
    apply simplifyCasts_plain
    intro x hx
    simp only [List.mem_cons, List.mem_singleton, List.not_mem_nil, or_false] at hx
    have hname : ∀ t : Token, plainName t.str = true → t.str ≠ "(".toList ∧
        ∀ w ∈ ["dynamic_cast", "reinterpret_cast", "const_cast", "static_cast"],
          t.str ≠ String.toList w := by
      intro t ht
      have ft := plainName_facts _ ht
      refine ⟨fun e => ?_, ?_⟩
      · have := isName_ne_byte t.str ft.1 '(' (by decide) (by decide)
        rw [e] at this
        simp at this
      · intro w hw
        simp only [List.mem_cons, List.mem_singleton, List.not_mem_nil, or_false] at hw
        rcases hw with rfl | rfl | rfl | rfl
        · exact ft.2.2.2.2.2.2.2.2.1
        · exact ft.2.2.2.2.2.2.2.2.2.2.2.2.2.2.1
        · exact ft.2.2.2.2.2.1
        · exact ft.2.2.2.2.2.2.2.2.2.2.2.2.2.2.2.2.2.1
    rcases hx with rfl | rfl | rfl | rfl | rfl | rfl | rfl
    · exact hname _ hT
    · exact hname _ ha
    · rw [hk1]; exact ⟨by decide, by decide⟩
    · exact hname _ hb
    · rw [hk2]; exact ⟨by decide, by decide⟩
    · exact hname _ hc
    · rw [hs]; exact ⟨by decide, by decide⟩
  simp only [List.mem_cons, List.mem_singleton, List.not_mem_nil, or_false] at hch
  rcases hch with rfl | rfl | rfl <;>
  simp +decide (disch := decide) [simplifySizes, combineStrings, combineStringsFrom,
    removeUnwanted, deleteUnwanted, unwantedWords, foldSigns, foldSignsFrom, fillTypeSize,
    fillStructSizes, replaceSizeofVar, sizeofLoop, replaceSizeofArray, replaceConstants,
    Match, MatchVarId, Atom.accepts, isString, simpleMatch, matchType, getElem?_first,
    hd, hk1, hk2, hs, hcast, fT, fa, fb, fc,
    isName_not_number _ fT.1, isName_not_number _ fa.1, isName_not_number _ fb.1,
    isName_not_number _ fc.1, isName_ne_byte _ fT.1, isName_ne_byte _ fa.1,
    isName_ne_byte _ fb.1, isName_ne_byte _ fc.1, isName_head _ fT.1, isName_head _ fa.1,
    isName_head _ fb.1, isName_head _ fc.1]

/-- The loop `while (simplifyCalculations())` changes nothing in a list without
numbers, `*` and `(` behind its first token. -/
theorem calculationsLoop_inert (p : Platform) (n : Nat) (ts : List Token)
    (h : ∀ x ∈ ts.tail, isNumber x.str = false ∧ x.str ≠ "*".toList ∧ x.str ≠ "(".toList) :
    calculationsLoop p (n + 1) ts = .ok ts := by
  rw [calculationsLoop, simplifyCalculations_inert p ts h]
  rfl

/-- A name and the tokens `,` and `;` are no numbers and none of `*` and `(`. -/
theorem inert_of_name (t : Token)
    (h : isName t.str = true ∨ t.str = [','] ∨ t.str = [';']) :
    isNumber t.str = false ∧ t.str ≠ "*".toList ∧ t.str ≠ "(".toList := by
  rcases h with h | h | h
  · refine ⟨isName_not_number _ h, fun e => ?_, fun e => ?_⟩
    · have := isName_ne_byte t.str h '*' (by decide) (by decide)
      rw [e] at this
      simp at this
    · have := isName_ne_byte t.str h '(' (by decide) (by decide)
      rw [e] at this
      simp at this
  · rw [h]; decide
  · rw [h]; decide

set_option maxRecDepth 8000 in
set_option maxHeartbeats 4000000 in
/-- The method `setVarId` and the two loops behind it on `d T a ; T b ; T c ;`: the
names `a`, `b`, `c` get the ids 1, 2, 3 and no other token gets an id. -/
theorem setVarId_declarations (d T a k1 T2 b k2 T3 c s : Token) (ch : Char)
    (hch : ch ∈ ['{', '}', ';']) (hd : d.str = [ch]) (hT : plainName T.str = true)
    (ha : plainName a.str = true) (hk1 : k1.str = [';']) (hT2 : T2.str = T.str)
    (hb : plainName b.str = true) (hk2 : k2.str = [';']) (hT3 : T3.str = T.str)
    (hc : plainName c.str = true) (hs : s.str = [';'])
    (hab : a.str ≠ b.str) (hac : a.str ≠ c.str) (hbc : b.str ≠ c.str)
    (hTa : T.str ≠ a.str) (hTb : T.str ≠ b.str) :
    removeNullCasts (replaceNULL (setVarId [d, T, a, k1, T2, b, k2, T3, c, s])) =
      [{ d with varId := 0 }, { T with varId := 0 }, { a with varId := 1 },
        { k1 with varId := 0 }, { T2 with varId := 0 }, { b with varId := 2 },
        { k2 with varId := 0 }, { T3 with varId := 0 }, { c with varId := 3 },
        { s with varId := 0 }] := by
  have fT := plainName_facts _ hT
  have fa := plainName_facts _ ha
  have fb := plainName_facts _ hb
  have fc := plainName_facts _ hc
  have hba := hab.symm
  have hca := hac.symm
  have hcb := hbc.symm
  simp only [List.mem_cons, List.mem_singleton, List.not_mem_nil, or_false] at hch
  rcases hch with rfl | rfl | rfl <;>
  simp +decide (disch := decide) [setVarId, setVarIdLoop, setMemberIds, declareVariable,
    declaredName, markVariable, replaceNULL, removeNullCasts, Match, MatchVarId, Atom.accepts,
    simpleMatch, matchType, strchr, markMember, setVarIdAt, strAt, varIdAt, getElem?_first,
    hd, hk1, hk2, hs, hT2, hT3, fT, fa, fb, fc, hab, hac, hbc, hTa, hTb, hba, hca, hcb,
    isName_not_number _ fT.1, isName_not_number _ fa.1, isName_not_number _ fb.1,
    isName_not_number _ fc.1, isName_ne_byte _ fT.1, isName_ne_byte _ fa.1,
    isName_ne_byte _ fb.1, isName_ne_byte _ fc.1, isName_head _ fT.1, isName_head _ fa.1,
    isName_head _ fb.1, isName_head _ fc.1, byte_ne_isName _ fT.1, byte_ne_isName _ fa.1,
    byte_ne_isName _ fb.1, byte_ne_isName _ fc.1]

set_option maxRecDepth 8000 in
set_option maxHeartbeats 4000000 in
/-- The passes of `simplifyTokenList` from `simplifyIfAddBraces` to the loop on
`case` change nothing in `d T a ; T b ; T c ;`. -/
theorem simplifyBraces_declarations (n : Nat) (d T a k1 T2 b k2 T3 c s : Token) (ch : Char)
    (hch : ch ∈ ['{', '}', ';']) (hd : d.str = [ch]) (hT : plainName T.str = true)
    (ha : plainName a.str = true) (hk1 : k1.str = [';']) (hT2 : T2.str = T.str)
    (hb : plainName b.str = true) (hk2 : k2.str = [';']) (hT3 : T3.str = T.str)
    (hc : plainName c.str = true) (hs : s.str = [';']) :
    simplifyBraces (n + 10) [d, T, a, k1, T2, b, k2, T3, c, s] =
      .ok [d, T, a, k1, T2, b, k2, T3, c, s] := by
  have fT := plainName_facts _ hT
  have fa := plainName_facts _ ha
  have fb := plainName_facts _ hb
  have fc := plainName_facts _ hc
  simp only [List.mem_cons, List.mem_singleton, List.not_mem_nil, or_false] at hch
  rcases hch with rfl | rfl | rfl <;>
  simp +decide (disch := decide) [Result.bind, Result.map, simplifyBraces, simplifyIfAddBraces,
    addBracesBody, simplifyFunctionParameters, functionParametersBody, elseif, elseifBody,
    insertCaseSemicolons, caseBody, Match, MatchVarId, Atom.accepts, simpleMatch, matchType,
    strchr, cursorLoop, strAt, getElem?_first,
    hd, hk1, hk2, hs, hT2, hT3, fT, fa, fb, fc,
    isName_not_number _ fT.1, isName_not_number _ fa.1, isName_not_number _ fb.1,
    isName_not_number _ fc.1, isName_ne_byte _ fT.1, isName_ne_byte _ fa.1,
    isName_ne_byte _ fb.1, isName_ne_byte _ fc.1, isName_head _ fT.1, isName_head _ fa.1,
    isName_head _ fb.1, isName_head _ fc.1, byte_ne_isName _ fT.1, byte_ne_isName _ fa.1,
    byte_ne_isName _ fb.1, byte_ne_isName _ fc.1]

set_option maxRecDepth 8000 in
set_option maxHeartbeats 4000000 in
/-- One round of the loop `while (modified)` changes nothing in
`d T a ; T b ; T c ;`. -/
theorem simplifyRound_declarations (p : Platform) (n : Nat) (d T a k1 T2 b k2 T3 c s : Token)
    (ch : Char) (hch : ch ∈ ['{', '}', ';']) (hd : d.str = [ch])
    (hT : plainName T.str = true) (ha : plainName a.str = true) (hk1 : k1.str = [';'])
    (hT2 : T2.str = T.str) (hb : plainName b.str = true) (hk2 : k2.str = [';'])
    (hT3 : T3.str = T.str) (hc : plainName c.str = true) (hs : s.str = [';']) :
    simplifyRound p (n + 10) [d, T, a, k1, T2, b, k2, T3, c, s] =
      .ok ([d, T, a, k1, T2, b, k2, T3, c, s], false) := by
  have fT := plainName_facts _ hT
  have fa := plainName_facts _ ha
  have fb := plainName_facts _ hb
  have fc := plainName_facts _ hc
  have hT2n : isName T2.str = true := by rw [hT2]; exact fT.1
  have hT3n : isName T3.str = true := by rw [hT3]; exact fT.1
  have hcalc : simplifyCalculations p [d, T, a, k1, T2, b, k2, T3, c, s] =
      some ([d, T, a, k1, T2, b, k2, T3, c, s], false) := by
    apply simplifyCalculations_inert
    intro x hx
    simp only [List.tail_cons, List.mem_cons, List.mem_singleton, List.not_mem_nil,
      or_false] at hx
    apply inert_of_name
    rcases hx with rfl | rfl | rfl | rfl | rfl | rfl | rfl | rfl | rfl
    · exact Or.inl fT.1
    · exact Or.inl fa.1
    · exact Or.inr (Or.inr hk1)
    · exact Or.inl hT2n
    · exact Or.inl fb.1
    · exact Or.inr (Or.inr hk2)
    · exact Or.inl hT3n
    · exact Or.inl fc.1
    · exact Or.inr (Or.inr hs)
  simp only [List.mem_cons, List.mem_singleton, List.not_mem_nil, or_false] at hch
  rcases hch with rfl | rfl | rfl <;>
  simp +decide (disch := decide) [Result.bind, Result.map, Result.ofOption, simplifyRound,
    simplifyConditions, conditionsBody, conditionsDelete, conditionsNumber,
    conditionsConnective, conditionsCompare, simplifyFunctionReturn, functionReturnBody,
    simplifyKnownVariables, knownVariablesBody, removeReduntantConditions, redundantBody,
    simplifyRedundantParanthesis, paranthesisBody, hcalc, Match, MatchVarId, Atom.accepts,
    simpleMatch, matchType, strchr, cursorLoop, strAt, varIdAt, getElem?_first,
    hd, hk1, hk2, hs, hT2, hT3, fT, fa, fb, fc,
    isName_not_number _ fT.1, isName_not_number _ fa.1, isName_not_number _ fb.1,
    isName_not_number _ fc.1, isName_ne_byte _ fT.1, isName_ne_byte _ fa.1,
    isName_ne_byte _ fb.1, isName_ne_byte _ fc.1, isName_head _ fT.1, isName_head _ fa.1,
    isName_head _ fb.1, isName_head _ fc.1, byte_ne_isName _ fT.1, byte_ne_isName _ fa.1,
    byte_ne_isName _ fb.1, byte_ne_isName _ fc.1]

set_option maxRecDepth 8000 in
/-- The loop "Replace pointer sum" changes nothing in `d T a , b , c ;`. -/
theorem replacePointerSum_declaration (d T a k1 b k2 c s : Token) (hT : isName T.str = true)
    (ha : isName a.str = true) (hk1 : k1.str = [',']) (hb : isName b.str = true)
    (hk2 : k2.str = [',']) (hc : isName c.str = true) (hs : s.str = [';']) :
    replacePointerSum [d, T, a, k1, b, k2, c, s] = [d, T, a, k1, b, k2, c, s] := by
  simp +decide (disch := decide) [replacePointerSum, Match, MatchVarId, Atom.accepts,
    simpleMatch, strchr, strAt, getElem?_first, hk1, hk2, hs, isName_ne_byte _ hT,
    isName_ne_byte _ ha, isName_ne_byte _ hb, isName_ne_byte _ hc, isName_aaaa0 _ hT,
    isName_aaaa0 _ ha, isName_aaaa0 _ hb, isName_aaaa0 _ hc]

/-- The whole of `simplifyTokenList` on `d T a , b , c ;`, stage by stage. -/
theorem simplifyTokenList_declaration (p : Platform) (n : Nat) (d T a k1 b k2 c s : Token)
    (ch : Char) (hch : ch ∈ ['{', '}', ';']) (hd : d.str = [ch])
    (hT : plainName T.str = true) (ha : plainName a.str = true) (hk1 : k1.str = [','])
    (hb : plainName b.str = true) (hk2 : k2.str = [',']) (hc : plainName c.str = true)
    (hs : s.str = [';']) (hab : a.str ≠ b.str) (hac : a.str ≠ c.str) (hbc : b.str ≠ c.str)
    (hTa : T.str ≠ a.str) (hTb : T.str ≠ b.str) :
    simplifyTokenList p (n + 10) [d, T, a, k1, b, k2, c, s] =
      .ok [{ d with varId := 0 }, { T with varId := 0 }, { a with varId := 1 },
        { k1.setStr [';'] with varId := 0 }, { T with varId := 0 }, { b with varId := 2 },
        { k2.setStr [';'] with varId := 0 }, { T with varId := 0 }, { c with varId := 3 },
        { s with varId := 0 }] := by
  have fT := plainName_facts _ hT
  have fa := plainName_facts _ ha
  have fb := plainName_facts _ hb
  have fc := plainName_facts _ hc
  have hcalc : calculationsLoop p (n + 9 + 1) [d, T, a, k1, b, k2, c, s] =
      .ok [d, T, a, k1, b, k2, c, s] := by
    apply calculationsLoop_inert
    intro x hx
    simp only [List.tail_cons, List.mem_cons, List.mem_singleton, List.not_mem_nil,
      or_false] at hx
    apply inert_of_name
    rcases hx with rfl | rfl | rfl | rfl | rfl | rfl | rfl
    · exact Or.inl fT.1
    · exact Or.inl fa.1
    · exact Or.inr (Or.inl hk1)
    · exact Or.inl fb.1
    · exact Or.inr (Or.inl hk2)
    · exact Or.inl fc.1
    · exact Or.inr (Or.inr hs)
  rw [simplifyTokenList, simplifySizes_declaration p d T a k1 b k2 c s ch hch hd hT ha hk1 hb
    hk2 hc hs]
  simp only [Result.ofOption, Result.bind]
  rw [simplifyDeclarations, hcalc]
  simp only [Result.bind]
  rw [replacePointerSum_declaration d T a k1 b k2 c s fT.1 fa.1 hk1 fb.1 hk2 fc.1 hs,
    splitDeclarations_three n d T a k1 b k2 c s ch hch hd fT.1 fT.2.2.2.2.2.2.2.1
      fT.2.2.2.2.2.2.2.2.2.1 fT.2.2.2.2.2.2.2.2.2.2.2.2.2.2.2.1 fa.1
      fa.2.2.2.2.2.2.2.2.2.2.2.2.2.1 hk1 fb.1 fb.2.2.2.2.2.2.2.2.2.2.2.2.2.1 hk2 fc.1 hs]
  simp only [Result.map, Result.bind]
  rw [setVarId_declarations d T a (k1.setStr [';']) T b (k2.setStr [';']) T c s ch hch hd hT ha
    rfl rfl hb rfl rfl hc hs hab hac hbc hTa hTb]
  rw [simplifyBraces_declarations n { d with varId := 0 } { T with varId := 0 }
    { a with varId := 1 } { k1.setStr [';'] with varId := 0 } { T with varId := 0 }
    { b with varId := 2 } { k2.setStr [';'] with varId := 0 } { T with varId := 0 }
    { c with varId := 3 } { s with varId := 0 } ch hch hd hT ha rfl rfl hb rfl rfl hc hs]
  simp only [Result.bind]
  rw [modifiedLoop, simplifyRound_declarations p n { d with varId := 0 } { T with varId := 0 }
    { a with varId := 1 } { k1.setStr [';'] with varId := 0 } { T with varId := 0 }
    { b with varId := 2 } { k2.setStr [';'] with varId := 0 } { T with varId := 0 }
    { c with varId := 3 } { s with varId := 0 } ch hch hd hT ha rfl rfl hb rfl rfl hc hs]
  rfl

/-- C23 (amended): for plain names `T`, `a`, `b`, `c` (names that are none of the
words of the patterns), `a`, `b`, `c` pairwise distinct and `T` none of `a`, `b`,
and a declaration `T a , b , c ;` that stands behind a token `d` of `\x7b`, `\x7d`
and `;`, `simplifyTokenList` (each loop for at least ten rounds) makes of the token
stream `d T a , b , c ;` the stream `d T a ; T b ; T c ;`, in which `a`, `b`, `c`
carry the variable ids 1, 2, 3 and no other token has an id. -/
theorem declaration_split (p : Platform) (n : Nat) (d T a k1 b k2 c s : Token)
    (ch : Char) (hch : ch ∈ ['{', '}', ';']) (hd : d.str = [ch])
    (hT : plainName T.str = true) (ha : plainName a.str = true) (hk1 : k1.str = [','])
    (hb : plainName b.str = true) (hk2 : k2.str = [',']) (hc : plainName c.str = true)
    (hs : s.str = [';']) (hab : a.str ≠ b.str) (hac : a.str ≠ c.str) (hbc : b.str ≠ c.str)
    (hTa : T.str ≠ a.str) (hTb : T.str ≠ b.str) :
    ∃ out, simplifyTokenList p (n + 10) [d, T, a, k1, b, k2, c, s] = .ok out ∧
      out.map (fun t => t.str) =
        [[ch], T.str, a.str, [';'], T.str, b.str, [';'], T.str, c.str, [';']] ∧
      out.map (fun t => t.varId) = [0, 0, 1, 0, 0, 2, 0, 0, 3, 0] :=
  ⟨_, simplifyTokenList_declaration p n d T a k1 b k2 c s ch hch hd hT ha hk1 hb hk2 hc hs hab
    hac hbc hTa hTb, by simp [hd, hs], by simp⟩

/-- An instance of C23 (amended): on the example platform `; int a , b , c ;`
becomes `; int a ; int b ; int c ;` with the ids 1, 2, 3. -/
theorem declaration_split_witness :
    ∃ out, simplifyTokenList examplePlatform 10
        (line1 [";", "int", "a", ",", "b", ",", "c", ";"]) = .ok out ∧
      texts out = [";", "int", "a", ";", "int", "b", ";", "int", "c", ";"] ∧
      out.map (fun t => t.varId) = [0, 0, 1, 0, 0, 2, 0, 0, 3, 0] := by
  obtain ⟨out, h1, h2, h3⟩ := declaration_split examplePlatform 0 ⟨";".toList, 1, 0, 0⟩
    ⟨"int".toList, 1, 0, 0⟩ ⟨"a".toList, 1, 0, 0⟩ ⟨",".toList, 1, 0, 0⟩ ⟨"b".toList, 1, 0, 0⟩
    ⟨",".toList, 1, 0, 0⟩ ⟨"c".toList, 1, 0, 0⟩ ⟨";".toList, 1, 0, 0⟩ ';' (by decide) rfl
    (by decide) (by decide) rfl (by decide) rfl (by decide) rfl (by decide) (by decide)
    (by decide) (by decide) (by decide)
  refine ⟨out, h1, ?_, h3⟩
  have e : texts out = (out.map (fun t => t.str)).map String.mk := by
    simp [texts, List.map_map, Function.comp_def]
  rw [e, h2]
  rfl

/-- The tokens of `int a, b, c;` behind `tokenize`. -/
theorem tokenize_declExample :
    tokenize exampleHost "int a, b, c;".toList "a.c".toList =
      some { tokens := line1 ["int", "a", ",", "b", ",", "c", ";"],
             files := ["a.c".toList] } := by
  have hl : lex exampleHost "int a, b, c;".toList "a.c".toList =
      .done ⟨line1 ["int", "a", ",", "b", ",", "c", ";"], ["a.c".toList], 1, [], [], [], 0,
        []⟩ := by decide
  unfold tokenize
  rw [hl]
  simp +decide [line1, postLex, beforeNoise, addtoken, c_str, combine, combineAt,
    combineWithNext, combineEntry, typedefPass, matchTypedef2, matchTypedef3, asmFrom, strAt,
    removeWord, dropHeadWord, deleteNextWord, expandType, Token.inserted, matchType, isName]

set_option maxRecDepth 8000 in
/-- The first part of `simplifyTokenList` changes nothing in `int a , b , c ;`. -/
theorem simplifySizes_declExample :
    simplifySizes examplePlatform (line1 ["int", "a", ",", "b", ",", "c", ";"]) =
      some (line1 ["int", "a", ",", "b", ",", "c", ";"]) := by
  simp +decide [simplifySizes, line1, combineStrings, combineStringsFrom, removeUnwanted,
    deleteUnwanted, unwantedWords, foldSigns, foldSignsFrom, fillTypeSize, fillStructSizes,
    replaceSizeofVar, sizeofLoop, replaceSizeofArray, replaceConstants, simplifyCasts, castBody,
    Match, MatchVarId, Atom.accepts, isString, simpleMatch, matchType, isName]

set_option maxRecDepth 8000 in
/-- The second part of `simplifyTokenList` changes nothing in `int a , b , c ;` at
the start of the stream: the declaration is not split, and no token gets an id. -/
theorem simplifyDeclarations_declExample :
    simplifyDeclarations examplePlatform 8 (line1 ["int", "a", ",", "b", ",", "c", ";"]) =
      .ok (line1 ["int", "a", ",", "b", ",", "c", ";"]) := by
  have h1 : calculationsLoop examplePlatform (7 + 1)
      (line1 ["int", "a", ",", "b", ",", "c", ";"]) =
      .ok (line1 ["int", "a", ",", "b", ",", "c", ";"]) :=
    calculationsLoop_inert _ _ _ (by decide)
  rw [simplifyDeclarations, h1]
  simp +decide [Result.bind, Result.map, line1, replacePointerSum,
    splitDeclarations, splitBody, splitPoint, setVarId, setVarIdLoop, setMemberIds,
    declareVariable, declaredName, markVariable, replaceNULL, removeNullCasts, Match,
    MatchVarId, Atom.accepts, simpleMatch, isName, matchType, strchr, Token.aaaa0, markMember,
    setVarIdAt]

/-- One round of the loop `while (modified)` changes nothing in
`int a , b , c ;`. -/
theorem simplifyRound_declExample :
    simplifyRound examplePlatform 8 (line1 ["int", "a", ",", "b", ",", "c", ";"]) =
      .ok (line1 ["int", "a", ",", "b", ",", "c", ";"], false) := by
  have h1 : simplifyConditions examplePlatform 8
      (line1 ["int", "a", ",", "b", ",", "c", ";"]) =
      .ok (line1 ["int", "a", ",", "b", ",", "c", ";"], false) := by decide
  have h2 : simplifyFunctionReturn 8 (line1 ["int", "a", ",", "b", ",", "c", ";"]) =
      .ok (line1 ["int", "a", ",", "b", ",", "c", ";"], false) := by decide
  have h3 : simplifyKnownVariables examplePlatform 8
      (line1 ["int", "a", ",", "b", ",", "c", ";"]) =
      .ok (line1 ["int", "a", ",", "b", ",", "c", ";"], false) := by decide
  have h4 : removeReduntantConditions 8 (line1 ["int", "a", ",", "b", ",", "c", ";"]) =
      .ok (line1 ["int", "a", ",", "b", ",", "c", ";"], false) := by decide
  have h5 : simplifyRedundantParanthesis 8 (line1 ["int", "a", ",", "b", ",", "c", ";"]) =
      .ok (line1 ["int", "a", ",", "b", ",", "c", ";"], false) := by decide
  have h6 : simplifyCalculations examplePlatform
      (line1 ["int", "a", ",", "b", ",", "c", ";"]) =
      some (line1 ["int", "a", ",", "b", ",", "c", ";"], false) :=
    simplifyCalculations_inert _ _ (by decide)
  rw [simplifyRound, h1]
  simp only [Result.bind]
  rw [h2]
  simp only [Result.bind]
  rw [h3]
  simp only [Result.bind]
  rw [h4]
  simp only [Result.bind]
  rw [h5]
  simp only [Result.bind]
  rw [h6]
  rfl

/-- C23 as stated fails on its own example: `tokenize` followed by
`simplifyTokenList` leaves `int a , b , c ;` as it is, for the declaration is at the
start of the stream, where no `\x7b`, `\x7d` or `;` is in front of it; no token
gets a variable id. -/
theorem declaration_split_counterexample :
    (tokenize exampleHost "int a, b, c;".toList "a.c".toList).map
        (fun t => (simplifyTokenList examplePlatform 8 t.tokens).map
          (fun r => (texts r, r.map (fun x => x.varId)))) =
      some (.ok (["int", "a", ",", "b", ",", "c", ";"], [0, 0, 0, 0, 0, 0, 0])) := by
  have hb : simplifyBraces 8 (line1 ["int", "a", ",", "b", ",", "c", ";"]) =
      .ok (line1 ["int", "a", ",", "b", ",", "c", ";"]) := by decide
  rw [tokenize_declExample]
  simp only [Option.map_some', simplifyTokenList, simplifySizes_declExample,
    Result.ofOption, Result.bind, simplifyDeclarations_declExample, hb]
  rw [modifiedLoop, simplifyRound_declExample]
  decide

/-- One round of the loop of `simplifyCasts`, as an equation. -/
theorem simplifyCasts_step (tok : Token) (rest : List Token) :
    simplifyCasts (tok :: rest) =
      match castBody tok rest with
      | none => none
      | some rest1 => (simplifyCasts rest1).map (tok :: ·) := by
  cases h : castBody tok rest with
  | none =>
    rw [simplifyCasts]
    split
    · rfl
    · rename_i r h'
      rw [h] at h'
      cases h'
  | some rest1 => exact simplifyCasts_cons tok rest rest1 h

/-- One round of the loop of `simplifyCalculations`, as an equation. -/
theorem calcLoop_step (p : Platform) (passed rest : List Token) (tok : Token) (ret : Bool) :
    calcLoop p passed (tok :: rest) ret =
      match calcBody p ⟨[], tok, rest, ret⟩ with
      | none => none
      | some c => calcLoop p (passed ++ c.passed ++ [c.tok]) c.rest c.ret := by
  cases h : calcBody p ⟨[], tok, rest, ret⟩ with
  | none => exact calcLoop_none p passed rest tok ret h
  | some c => exact calcLoop_cons p passed rest tok ret c h

/-- The loop of `simplifyCalculations` at the end of the list. -/
theorem calcLoop_nil (p : Platform) (passed : List Token) (ret : Bool) :
    calcLoop p passed [] ret = some (passed, ret) := by
  rw [calcLoop]

/-- The decimal text of a number starts with a digit. -/
theorem decimal_ne_cons (n : Nat) (ch : Char) (cs : List Char) (h : isdigit ch = false) :
    (decimal n = ch :: cs) = False :=
  eq_false (decimal_ne_word n (ch :: cs) (by
    intro x hx
    simp only [List.head?_cons, Option.mem_def, Option.some.injEq] at hx
    rw [← hx]
    exact h))

/-- The decimal text of a number is not empty. -/
theorem decimal_ne_nil (n : Nat) : (decimal n = []) = False :=
  eq_false (decimal_digits n).1

/-- The decimal text of a number is no name. -/
theorem isName_decimal (n : Nat) : isName (decimal n) = false := by
  have h := isName_decimalInt (n : Int)
  rw [decimalInt, if_neg (by omega)] at h
  exact h

/-- The first byte of the decimal text of a number is a digit. -/
theorem decimal_headD (n : Nat) (ch : Char) (h : isdigit ch = false) :
    ((decimal n).headD '\x00' = ch) = False := by
  obtain ⟨d, ds, hd, hdig⟩ := decimal_head n
  apply eq_false
  rw [hd]
  intro e
  simp only [List.headD_cons] at e
  rw [e, h] at hdig
  cases hdig

/-- The first byte of the decimal text of a number is a digit. -/
theorem decimal_head? (n : Nat) (ch : Char) (h : isdigit ch = false) :
    ((decimal n).head? = some ch) = False := by
  obtain ⟨d, ds, hd, hdig⟩ := decimal_head n
  apply eq_false
  rw [hd]
  intro e
  simp only [List.head?_cons, Option.some.injEq] at e
  rw [e, h] at hdig
  cases hdig

/-- A name does not start with a byte that is neither a letter nor `_`. -/
theorem isName_ne_cons (s : List Char) (h : isName s = true) (ch : Char) (cs : List Char)
    (h1 : isalpha ch = false) (h2 : ch ≠ '_') : (s = ch :: cs) = False := by
  apply eq_false
  intro hs
  have := isName_head s h ch h1 h2
  rw [hs] at this
  simp at this

/-- A text that starts with a byte that is neither a letter nor `_` is no name. -/
theorem cons_ne_isName (s : List Char) (h : isName s = true) (ch : Char) (cs : List Char)
    (h1 : isalpha ch = false) (h2 : ch ≠ '_') : (ch :: cs = s) = False := by
  apply eq_false
  intro hs
  have := isName_ne_cons s h ch cs h1 h2
  rw [← hs] at this
  simp at this

/-- None of the words of the patterns is a plain name. -/
theorem plainName_symm (s : List Char) (h : plainName s = true) :
    ['N', 'U', 'L', 'L'] ≠ s ∧
      ['c', 'a', 's', 'e'] ≠ s ∧
      ['c', 'l', 'a', 's', 's'] ≠ s ∧
      ['c', 'o', 'n', 's', 't'] ≠ s ∧
      ['c', 'o', 'n', 's', 't', '_', 'c', 'a', 's', 't'] ≠ s ∧
      ['d', 'e', 'f', 'a', 'u', 'l', 't'] ≠ s ∧
      ['d', 'e', 'l', 'e', 't', 'e'] ≠ s ∧
      ['d', 'y', 'n', 'a', 'm', 'i', 'c', '_', 'c', 'a', 's', 't'] ≠ s ∧
      ['e', 'l', 's', 'e'] ≠ s ∧
      ['f', 'a', 'l', 's', 'e'] ≠ s ∧
      ['f', 'o', 'r'] ≠ s ∧
      ['i', 'f'] ≠ s ∧
      ['o', 'p', 'e', 'r', 'a', 't', 'o', 'r'] ≠ s ∧
      ['r', 'e', 'i', 'n', 't', 'e', 'r', 'p', 'r', 'e', 't', '_', 'c', 'a', 's', 't'] ≠ s ∧
      ['r', 'e', 't', 'u', 'r', 'n'] ≠ s ∧
      ['s', 'i', 'z', 'e', 'o', 'f'] ≠ s ∧
      ['s', 't', 'a', 't', 'i', 'c', '_', 'c', 'a', 's', 't'] ≠ s ∧
      ['s', 't', 'r', 'u', 'c', 't'] ≠ s ∧
      ['t', 'r', 'u', 'e'] ≠ s ∧
      ['u', 'n', 'l', 'i', 'k', 'e', 'l', 'y'] ≠ s ∧
      ['u', 'n', 's', 'i', 'g', 'n', 'e', 'd'] ≠ s ∧
      ['w', 'h', 'i', 'l', 'e'] ≠ s := by
  have f := plainName_facts s h
  simp only [ne_comm (a := s)] at f
  exact f.2

/-- A plain name is not the decimal text of a number. -/
theorem plainName_ne_decimal (s : List Char) (h : plainName s = true) (n : Nat) :
    s ≠ decimal n := by
  intro e
  have := (plainName_facts s h).1
  rw [e, isName_decimal] at this
  cases this

/-- The loop of `simplifyCasts` at the end of the list. -/
theorem simplifyCasts_nil : simplifyCasts [] = some [] := by rw [simplifyCasts]

set_option maxRecDepth 8000 in
set_option maxHeartbeats 4000000 in
/-- The pass `combineStrings` on the stream `int x = n ; if ( x == n ) \x7b f ( ) ; \x7d`. -/
theorem combineStrings_known (n : Nat) (v : Nat) (x f : List Char)
    (hx : plainName x = true) (hf : plainName f = true) (hxf : x ≠ f) :
    combineStrings (knownStream x (decimal n) f v) = knownStream x (decimal n) f v := by
  have fx := plainName_facts _ hx
  have ff := plainName_facts _ hf
  have gx := plainName_symm _ hx
  have gf := plainName_symm _ hf
  have hxn := plainName_ne_decimal x hx n
  have hfn := plainName_ne_decimal f hf n
  simp +decide (disch := decide) [knownStream, combineStrings, combineStringsFrom,
    removeUnwanted, deleteUnwanted, unwantedWords, foldSigns, foldSignsFrom, fillTypeSize,
    fillStructSizes, replaceSizeofVar, sizeofLoop, replaceSizeofArray, replaceConstants,
    simplifyCasts_step, simplifyCasts_nil, castBody, simplifyCalculations, calcLoop_step,
    calcLoop_nil, calcBody, calcTimesOne, calcFold, calcNumber, calcVariable,
    replacePointerSum, splitDeclarations, splitBody, splitPoint, setVarIdLoop,
    setMemberIds, declareVariable, declaredName, markVariable, replaceNULL, removeNullCasts,
    markMember, setVarIdAt, simplifyIfAddBraces, addBracesBody, simplifyFunctionParameters,
    functionParametersBody, elseif, elseifBody, insertCaseSemicolons, caseBody,
    simplifyConditions, conditionsBody, conditionsDelete, conditionsNumber,
    conditionsConnective, conditionsCompare, simplifyFunctionReturn, functionReturnBody,
    simplifyKnownVariables, knownVariablesBody, knownBlockBody, removeReduntantConditions,
    redundantBody, simplifyRedundantParanthesis, paranthesisBody, parenEnd, cursorLoop,
    Result.bind, Result.map, Result.ofOption, Match, MatchVarId, Atom.accepts, isString,
    simpleMatch, matchType, strchr, strAt, varIdAt, Token.aaaa0, getElem?_first, fx, ff, gx,
    gf, hxf, hxf.symm, hxn, hxn.symm, hfn, hfn.symm, isName_not_number _ fx.1,
    isName_not_number _ ff.1, isName_ne_cons _ fx.1, isName_ne_cons _ ff.1,
    cons_ne_isName _ fx.1, cons_ne_isName _ ff.1, isName_head _ fx.1, isName_head _ ff.1,
    decimal_ne_cons, decimal_ne_nil, isName_decimal, isNumber_decimal, decimal_head?,
    decimal_headD]

set_option maxRecDepth 8000 in
set_option maxHeartbeats 4000000 in
/-- The pass `removeUnwanted` on the stream `int x = n ; if ( x == n ) \x7b f ( ) ; \x7d`. -/
theorem removeUnwanted_known (n : Nat) (v : Nat) (x f : List Char)
    (hx : plainName x = true) (hf : plainName f = true) (hxf : x ≠ f) :
    removeUnwanted (knownStream x (decimal n) f v) = knownStream x (decimal n) f v := by
  have fx := plainName_facts _ hx
  have ff := plainName_facts _ hf
  have gx := plainName_symm _ hx
  have gf := plainName_symm _ hf
  have hxn := plainName_ne_decimal x hx n
  have hfn := plainName_ne_decimal f hf n
  simp +decide (disch := decide) [knownStream, combineStrings, combineStringsFrom,
    removeUnwanted, deleteUnwanted, unwantedWords, foldSigns, foldSignsFrom, fillTypeSize,
    fillStructSizes, replaceSizeofVar, sizeofLoop, replaceSizeofArray, replaceConstants,
    simplifyCasts_step, simplifyCasts_nil, castBody, simplifyCalculations, calcLoop_step,
    calcLoop_nil, calcBody, calcTimesOne, calcFold, calcNumber, calcVariable,
    replacePointerSum, splitDeclarations, splitBody, splitPoint, setVarIdLoop,
    setMemberIds, declareVariable, declaredName, markVariable, replaceNULL, removeNullCasts,
    markMember, setVarIdAt, simplifyIfAddBraces, addBracesBody, simplifyFunctionParameters,
    functionParametersBody, elseif, elseifBody, insertCaseSemicolons, caseBody,
    simplifyConditions, conditionsBody, conditionsDelete, conditionsNumber,
    conditionsConnective, conditionsCompare, simplifyFunctionReturn, functionReturnBody,
    simplifyKnownVariables, knownVariablesBody, knownBlockBody, removeReduntantConditions,
    redundantBody, simplifyRedundantParanthesis, paranthesisBody, parenEnd, cursorLoop,
    Result.bind, Result.map, Result.ofOption, Match, MatchVarId, Atom.accepts, isString,
    simpleMatch, matchType, strchr, strAt, varIdAt, Token.aaaa0, getElem?_first, fx, ff, gx,
    gf, hxf, hxf.symm, hxn, hxn.symm, hfn, hfn.symm, isName_not_number _ fx.1,
    isName_not_number _ ff.1, isName_ne_cons _ fx.1, isName_ne_cons _ ff.1,
    cons_ne_isName _ fx.1, cons_ne_isName _ ff.1, isName_head _ fx.1, isName_head _ ff.1,
    decimal_ne_cons, decimal_ne_nil, isName_decimal, isNumber_decimal, decimal_head?,
    decimal_headD]

set_option maxRecDepth 8000 in
set_option maxHeartbeats 4000000 in
/-- The pass `foldSigns` on the stream `int x = n ; if ( x == n ) \x7b f ( ) ; \x7d`. -/
theorem foldSigns_known (n : Nat) (v : Nat) (x f : List Char)
    (hx : plainName x = true) (hf : plainName f = true) (hxf : x ≠ f) :
    foldSigns (knownStream x (decimal n) f v) = knownStream x (decimal n) f v := by
  have fx := plainName_facts _ hx
  have ff := plainName_facts _ hf
  have gx := plainName_symm _ hx
  have gf := plainName_symm _ hf
  have hxn := plainName_ne_decimal x hx n
  have hfn := plainName_ne_decimal f hf n
  simp +decide (disch := decide) [knownStream, combineStrings, combineStringsFrom,
    removeUnwanted, deleteUnwanted, unwantedWords, foldSigns, foldSignsFrom, fillTypeSize,
    fillStructSizes, replaceSizeofVar, sizeofLoop, replaceSizeofArray, replaceConstants,
    simplifyCasts_step, simplifyCasts_nil, castBody, simplifyCalculations, calcLoop_step,
    calcLoop_nil, calcBody, calcTimesOne, calcFold, calcNumber, calcVariable,
    replacePointerSum, splitDeclarations, splitBody, splitPoint, setVarIdLoop,
    setMemberIds, declareVariable, declaredName, markVariable, replaceNULL, removeNullCasts,
    markMember, setVarIdAt, simplifyIfAddBraces, addBracesBody, simplifyFunctionParameters,
    functionParametersBody, elseif, elseifBody, insertCaseSemicolons, caseBody,
    simplifyConditions, conditionsBody, conditionsDelete, conditionsNumber,
    conditionsConnective, conditionsCompare, simplifyFunctionReturn, functionReturnBody,
    simplifyKnownVariables, knownVariablesBody, knownBlockBody, removeReduntantConditions,
    redundantBody, simplifyRedundantParanthesis, paranthesisBody, parenEnd, cursorLoop,
    Result.bind, Result.map, Result.ofOption, Match, MatchVarId, Atom.accepts, isString,
    simpleMatch, matchType, strchr, strAt, varIdAt, Token.aaaa0, getElem?_first, fx, ff, gx,
    gf, hxf, hxf.symm, hxn, hxn.symm, hfn, hfn.symm, isName_not_number _ fx.1,
    isName_not_number _ ff.1, isName_ne_cons _ fx.1, isName_ne_cons _ ff.1,
    cons_ne_isName _ fx.1, cons_ne_isName _ ff.1, isName_head _ fx.1, isName_head _ ff.1,
    decimal_ne_cons, decimal_ne_nil, isName_decimal, isNumber_decimal, decimal_head?,
    decimal_headD]

set_option maxRecDepth 8000 in
set_option maxHeartbeats 4000000 in
/-- The pass `fillTypeSize` on the stream `int x = n ; if ( x == n ) \x7b f ( ) ; \x7d`. -/
theorem fillTypeSize_known (p : Platform) (n : Nat) (v : Nat) (x f : List Char)
    (hx : plainName x = true) (hf : plainName f = true) (hxf : x ≠ f) :
    fillTypeSize p (knownStream x (decimal n) f v) = builtinTypeSize p := by
  have fx := plainName_facts _ hx
  have ff := plainName_facts _ hf
  have gx := plainName_symm _ hx
  have gf := plainName_symm _ hf
  have hxn := plainName_ne_decimal x hx n
  have hfn := plainName_ne_decimal f hf n
  simp +decide (disch := decide) [knownStream, combineStrings, combineStringsFrom,
    removeUnwanted, deleteUnwanted, unwantedWords, foldSigns, foldSignsFrom, fillTypeSize,
    fillStructSizes, replaceSizeofVar, sizeofLoop, replaceSizeofArray, replaceConstants,
    simplifyCasts_step, simplifyCasts_nil, castBody, simplifyCalculations, calcLoop_step,
    calcLoop_nil, calcBody, calcTimesOne, calcFold, calcNumber, calcVariable,
    replacePointerSum, splitDeclarations, splitBody, splitPoint, setVarIdLoop,
    setMemberIds, declareVariable, declaredName, markVariable, replaceNULL, removeNullCasts,
    markMember, setVarIdAt, simplifyIfAddBraces, addBracesBody, simplifyFunctionParameters,
    functionParametersBody, elseif, elseifBody, insertCaseSemicolons, caseBody,
    simplifyConditions, conditionsBody, conditionsDelete, conditionsNumber,
    conditionsConnective, conditionsCompare, simplifyFunctionReturn, functionReturnBody,
    simplifyKnownVariables, knownVariablesBody, knownBlockBody, removeReduntantConditions,
    redundantBody, simplifyRedundantParanthesis, paranthesisBody, parenEnd, cursorLoop,
    Result.bind, Result.map, Result.ofOption, Match, MatchVarId, Atom.accepts, isString,
    simpleMatch, matchType, strchr, strAt, varIdAt, Token.aaaa0, getElem?_first, fx, ff, gx,
    gf, hxf, hxf.symm, hxn, hxn.symm, hfn, hfn.symm, isName_not_number _ fx.1,
    isName_not_number _ ff.1, isName_ne_cons _ fx.1, isName_ne_cons _ ff.1,
    cons_ne_isName _ fx.1, cons_ne_isName _ ff.1, isName_head _ fx.1, isName_head _ ff.1,
    decimal_ne_cons, decimal_ne_nil, isName_decimal, isNumber_decimal, decimal_head?,
    decimal_headD]

set_option maxRecDepth 8000 in
set_option maxHeartbeats 4000000 in
/-- The pass `replaceSizeofVar` on the stream `int x = n ; if ( x == n ) \x7b f ( ) ; \x7d`. -/
theorem replaceSizeofVar_known (n : Nat) (v : Nat) (x f : List Char)
    (hx : plainName x = true) (hf : plainName f = true) (hxf : x ≠ f) :
    replaceSizeofVar (knownStream x (decimal n) f v) = knownStream x (decimal n) f v := by
  have fx := plainName_facts _ hx
  have ff := plainName_facts _ hf
  have gx := plainName_symm _ hx
  have gf := plainName_symm _ hf
  have hxn := plainName_ne_decimal x hx n
  have hfn := plainName_ne_decimal f hf n
  simp +decide (disch := decide) [knownStream, combineStrings, combineStringsFrom,
    removeUnwanted, deleteUnwanted, unwantedWords, foldSigns, foldSignsFrom, fillTypeSize,
    fillStructSizes, replaceSizeofVar, sizeofLoop, replaceSizeofArray, replaceConstants,
    simplifyCasts_step, simplifyCasts_nil, castBody, simplifyCalculations, calcLoop_step,
    calcLoop_nil, calcBody, calcTimesOne, calcFold, calcNumber, calcVariable,
    replacePointerSum, splitDeclarations, splitBody, splitPoint, setVarIdLoop,
    setMemberIds, declareVariable, declaredName, markVariable, replaceNULL, removeNullCasts,
    markMember, setVarIdAt, simplifyIfAddBraces, addBracesBody, simplifyFunctionParameters,
    functionParametersBody, elseif, elseifBody, insertCaseSemicolons, caseBody,
    simplifyConditions, conditionsBody, conditionsDelete, conditionsNumber,
    conditionsConnective, conditionsCompare, simplifyFunctionReturn, functionReturnBody,
    simplifyKnownVariables, knownVariablesBody, knownBlockBody, removeReduntantConditions,
    redundantBody, simplifyRedundantParanthesis, paranthesisBody, parenEnd, cursorLoop,
    Result.bind, Result.map, Result.ofOption, Match, MatchVarId, Atom.accepts, isString,
    simpleMatch, matchType, strchr, strAt, varIdAt, Token.aaaa0, getElem?_first, fx, ff, gx,
    gf, hxf, hxf.symm, hxn, hxn.symm, hfn, hfn.symm, isName_not_number _ fx.1,
    isName_not_number _ ff.1, isName_ne_cons _ fx.1, isName_ne_cons _ ff.1,
    cons_ne_isName _ fx.1, cons_ne_isName _ ff.1, isName_head _ fx.1, isName_head _ ff.1,
    decimal_ne_cons, decimal_ne_nil, isName_decimal, isNumber_decimal, decimal_head?,
    decimal_headD]

set_option maxRecDepth 8000 in
set_option maxHeartbeats 4000000 in
/-- The pass `sizeofLoop` on the stream `int x = n ; if ( x == n ) \x7b f ( ) ; \x7d`. -/
theorem sizeofLoop_known (p : Platform) (n : Nat) (v : Nat) (x f : List Char)
    (hx : plainName x = true) (hf : plainName f = true) (hxf : x ≠ f) :
    sizeofLoop p (builtinTypeSize p) [] (knownStream x (decimal n) f v) = some (knownStream x (decimal n) f v) := by
  have fx := plainName_facts _ hx
  have ff := plainName_facts _ hf
  have gx := plainName_symm _ hx
  have gf := plainName_symm _ hf
  have hxn := plainName_ne_decimal x hx n
  have hfn := plainName_ne_decimal f hf n
  simp +decide (disch := decide) [knownStream, combineStrings, combineStringsFrom,
    removeUnwanted, deleteUnwanted, unwantedWords, foldSigns, foldSignsFrom, fillTypeSize,
    fillStructSizes, replaceSizeofVar, sizeofLoop, replaceSizeofArray, replaceConstants,
    simplifyCasts_step, simplifyCasts_nil, castBody, simplifyCalculations, calcLoop_step,
    calcLoop_nil, calcBody, calcTimesOne, calcFold, calcNumber, calcVariable,
    replacePointerSum, splitDeclarations, splitBody, splitPoint, setVarIdLoop,
    setMemberIds, declareVariable, declaredName, markVariable, replaceNULL, removeNullCasts,
    markMember, setVarIdAt, simplifyIfAddBraces, addBracesBody, simplifyFunctionParameters,
    functionParametersBody, elseif, elseifBody, insertCaseSemicolons, caseBody,
    simplifyConditions, conditionsBody, conditionsDelete, conditionsNumber,
    conditionsConnective, conditionsCompare, simplifyFunctionReturn, functionReturnBody,
    simplifyKnownVariables, knownVariablesBody, knownBlockBody, removeReduntantConditions,
    redundantBody, simplifyRedundantParanthesis, paranthesisBody, parenEnd, cursorLoop,
    Result.bind, Result.map, Result.ofOption, Match, MatchVarId, Atom.accepts, isString,
    simpleMatch, matchType, strchr, strAt, varIdAt, Token.aaaa0, getElem?_first, fx, ff, gx,
    gf, hxf, hxf.symm, hxn, hxn.symm, hfn, hfn.symm, isName_not_number _ fx.1,
    isName_not_number _ ff.1, isName_ne_cons _ fx.1, isName_ne_cons _ ff.1,
    cons_ne_isName _ fx.1, cons_ne_isName _ ff.1, isName_head _ fx.1, isName_head _ ff.1,
    decimal_ne_cons, decimal_ne_nil, isName_decimal, isNumber_decimal, decimal_head?,
    decimal_headD]

set_option maxRecDepth 8000 in
set_option maxHeartbeats 4000000 in
/-- The pass `replaceSizeofArray` on the stream `int x = n ; if ( x == n ) \x7b f ( ) ; \x7d`. -/
theorem replaceSizeofArray_known (p : Platform) (n : Nat) (v : Nat) (x f : List Char)
    (hx : plainName x = true) (hf : plainName f = true) (hxf : x ≠ f) :
    replaceSizeofArray p (builtinTypeSize p) (knownStream x (decimal n) f v) = some (knownStream x (decimal n) f v) := by
  have fx := plainName_facts _ hx
  have ff := plainName_facts _ hf
  have gx := plainName_symm _ hx
  have gf := plainName_symm _ hf
  have hxn := plainName_ne_decimal x hx n
  have hfn := plainName_ne_decimal f hf n
  simp +decide (disch := decide) [knownStream, combineStrings, combineStringsFrom,
    removeUnwanted, deleteUnwanted, unwantedWords, foldSigns, foldSignsFrom, fillTypeSize,
    fillStructSizes, replaceSizeofVar, sizeofLoop, replaceSizeofArray, replaceConstants,
    simplifyCasts_step, simplifyCasts_nil, castBody, simplifyCalculations, calcLoop_step,
    calcLoop_nil, calcBody, calcTimesOne, calcFold, calcNumber, calcVariable,
    replacePointerSum, splitDeclarations, splitBody, splitPoint, setVarIdLoop,
    setMemberIds, declareVariable, declaredName, markVariable, replaceNULL, removeNullCasts,
    markMember, setVarIdAt, simplifyIfAddBraces, addBracesBody, simplifyFunctionParameters,
    functionParametersBody, elseif, elseifBody, insertCaseSemicolons, caseBody,
    simplifyConditions, conditionsBody, conditionsDelete, conditionsNumber,
    conditionsConnective, conditionsCompare, simplifyFunctionReturn, functionReturnBody,
    simplifyKnownVariables, knownVariablesBody, knownBlockBody, removeReduntantConditions,
    redundantBody, simplifyRedundantParanthesis, paranthesisBody, parenEnd, cursorLoop,
    Result.bind, Result.map, Result.ofOption, Match, MatchVarId, Atom.accepts, isString,
    simpleMatch, matchType, strchr, strAt, varIdAt, Token.aaaa0, getElem?_first, fx, ff, gx,
    gf, hxf, hxf.symm, hxn, hxn.symm, hfn, hfn.symm, isName_not_number _ fx.1,
    isName_not_number _ ff.1, isName_ne_cons _ fx.1, isName_ne_cons _ ff.1,
    cons_ne_isName _ fx.1, cons_ne_isName _ ff.1, isName_head _ fx.1, isName_head _ ff.1,
    decimal_ne_cons, decimal_ne_nil, isName_decimal, isNumber_decimal, decimal_head?,
    decimal_headD]

set_option maxRecDepth 8000 in
set_option maxHeartbeats 4000000 in
/-- The pass `replaceConstants` on the stream `int x = n ; if ( x == n ) \x7b f ( ) ; \x7d`. -/
theorem replaceConstants_known (n : Nat) (v : Nat) (x f : List Char)
    (hx : plainName x = true) (hf : plainName f = true) (hxf : x ≠ f) :
    replaceConstants (knownStream x (decimal n) f v) = knownStream x (decimal n) f v := by
  have fx := plainName_facts _ hx
  have ff := plainName_facts _ hf
  have gx := plainName_symm _ hx
  have gf := plainName_symm _ hf
  have hxn := plainName_ne_decimal x hx n
  have hfn := plainName_ne_decimal f hf n
  simp +decide (disch := decide) [knownStream, combineStrings, combineStringsFrom,
    removeUnwanted, deleteUnwanted, unwantedWords, foldSigns, foldSignsFrom, fillTypeSize,
    fillStructSizes, replaceSizeofVar, sizeofLoop, replaceSizeofArray, replaceConstants,
    simplifyCasts_step, simplifyCasts_nil, castBody, simplifyCalculations, calcLoop_step,
    calcLoop_nil, calcBody, calcTimesOne, calcFold, calcNumber, calcVariable,
    replacePointerSum, splitDeclarations, splitBody, splitPoint, setVarIdLoop,
    setMemberIds, declareVariable, declaredName, markVariable, replaceNULL, removeNullCasts,
    markMember, setVarIdAt, simplifyIfAddBraces, addBracesBody, simplifyFunctionParameters,
    functionParametersBody, elseif, elseifBody, insertCaseSemicolons, caseBody,
    simplifyConditions, conditionsBody, conditionsDelete, conditionsNumber,
    conditionsConnective, conditionsCompare, simplifyFunctionReturn, functionReturnBody,
    simplifyKnownVariables, knownVariablesBody, knownBlockBody, removeReduntantConditions,
    redundantBody, simplifyRedundantParanthesis, paranthesisBody, parenEnd, cursorLoop,
    Result.bind, Result.map, Result.ofOption, Match, MatchVarId, Atom.accepts, isString,
    simpleMatch, matchType, strchr, strAt, varIdAt, Token.aaaa0, getElem?_first, fx, ff, gx,
    gf, hxf, hxf.symm, hxn, hxn.symm, hfn, hfn.symm, isName_not_number _ fx.1,
    isName_not_number _ ff.1, isName_ne_cons _ fx.1, isName_ne_cons _ ff.1,
    cons_ne_isName _ fx.1, cons_ne_isName _ ff.1, isName_head _ fx.1, isName_head _ ff.1,
    decimal_ne_cons, decimal_ne_nil, isName_decimal, isNumber_decimal, decimal_head?,
    decimal_headD]

set_option maxRecDepth 8000 in
set_option maxHeartbeats 4000000 in
/-- The pass `simplifyCasts` on the stream `int x = n ; if ( x == n ) \x7b f ( ) ; \x7d`. -/
theorem simplifyCasts_known (n : Nat) (v : Nat) (x f : List Char)
    (hx : plainName x = true) (hf : plainName f = true) (hxf : x ≠ f) :
    simplifyCasts (knownStream x (decimal n) f v) = some (knownStream x (decimal n) f v) := by
  have fx := plainName_facts _ hx
  have ff := plainName_facts _ hf
  have gx := plainName_symm _ hx
  have gf := plainName_symm _ hf
  have hxn := plainName_ne_decimal x hx n
  have hfn := plainName_ne_decimal f hf n
  simp +decide (disch := decide) [knownStream, combineStrings, combineStringsFrom,
    removeUnwanted, deleteUnwanted, unwantedWords, foldSigns, foldSignsFrom, fillTypeSize,
    fillStructSizes, replaceSizeofVar, sizeofLoop, replaceSizeofArray, replaceConstants,
    simplifyCasts_step, simplifyCasts_nil, castBody, simplifyCalculations, calcLoop_step,
    calcLoop_nil, calcBody, calcTimesOne, calcFold, calcNumber, calcVariable,
    replacePointerSum, splitDeclarations, splitBody, splitPoint, setVarIdLoop,
    setMemberIds, declareVariable, declaredName, markVariable, replaceNULL, removeNullCasts,
    markMember, setVarIdAt, simplifyIfAddBraces, addBracesBody, simplifyFunctionParameters,
    functionParametersBody, elseif, elseifBody, insertCaseSemicolons, caseBody,
    simplifyConditions, conditionsBody, conditionsDelete, conditionsNumber,
    conditionsConnective, conditionsCompare, simplifyFunctionReturn, functionReturnBody,
    simplifyKnownVariables, knownVariablesBody, knownBlockBody, removeReduntantConditions,
    redundantBody, simplifyRedundantParanthesis, paranthesisBody, parenEnd, cursorLoop,
    Result.bind, Result.map, Result.ofOption, Match, MatchVarId, Atom.accepts, isString,
    simpleMatch, matchType, strchr, strAt, varIdAt, Token.aaaa0, getElem?_first, fx, ff, gx,
    gf, hxf, hxf.symm, hxn, hxn.symm, hfn, hfn.symm, isName_not_number _ fx.1,
    isName_not_number _ ff.1, isName_ne_cons _ fx.1, isName_ne_cons _ ff.1,
    cons_ne_isName _ fx.1, cons_ne_isName _ ff.1, isName_head _ fx.1, isName_head _ ff.1,
    decimal_ne_cons, decimal_ne_nil, isName_decimal, isNumber_decimal, decimal_head?,
    decimal_headD]

set_option maxRecDepth 8000 in
set_option maxHeartbeats 4000000 in
/-- The pass `simplifyCalculations` on the stream `int x = n ; if ( x == n ) \x7b f ( ) ; \x7d`. -/
theorem simplifyCalculations_known (p : Platform) (n : Nat) (v : Nat) (x f : List Char)
    (hx : plainName x = true) (hf : plainName f = true) (hxf : x ≠ f) :
    simplifyCalculations p (knownStream x (decimal n) f v) = some (knownStream x (decimal n) f v, false) := by
  have fx := plainName_facts _ hx
  have ff := plainName_facts _ hf
  have gx := plainName_symm _ hx
  have gf := plainName_symm _ hf
  have hxn := plainName_ne_decimal x hx n
  have hfn := plainName_ne_decimal f hf n
  simp +decide (disch := decide) [knownStream, combineStrings, combineStringsFrom,
    removeUnwanted, deleteUnwanted, unwantedWords, foldSigns, foldSignsFrom, fillTypeSize,
    fillStructSizes, replaceSizeofVar, sizeofLoop, replaceSizeofArray, replaceConstants,
    simplifyCasts_step, simplifyCasts_nil, castBody, simplifyCalculations, calcLoop_step,
    calcLoop_nil, calcBody, calcTimesOne, calcFold, calcNumber, calcVariable,
    replacePointerSum, splitDeclarations, splitBody, splitPoint, setVarIdLoop,
    setMemberIds, declareVariable, declaredName, markVariable, replaceNULL, removeNullCasts,
    markMember, setVarIdAt, simplifyIfAddBraces, addBracesBody, simplifyFunctionParameters,
    functionParametersBody, elseif, elseifBody, insertCaseSemicolons, caseBody,
    simplifyConditions, conditionsBody, conditionsDelete, conditionsNumber,
    conditionsConnective, conditionsCompare, simplifyFunctionReturn, functionReturnBody,
    simplifyKnownVariables, knownVariablesBody, knownBlockBody, removeReduntantConditions,
    redundantBody, simplifyRedundantParanthesis, paranthesisBody, parenEnd, cursorLoop,
    Result.bind, Result.map, Result.ofOption, Match, MatchVarId, Atom.accepts, isString,
    simpleMatch, matchType, strchr, strAt, varIdAt, Token.aaaa0, getElem?_first, fx, ff, gx,
    gf, hxf, hxf.symm, hxn, hxn.symm, hfn, hfn.symm, isName_not_number _ fx.1,
    isName_not_number _ ff.1, isName_ne_cons _ fx.1, isName_ne_cons _ ff.1,
    cons_ne_isName _ fx.1, cons_ne_isName _ ff.1, isName_head _ fx.1, isName_head _ ff.1,
    decimal_ne_cons, decimal_ne_nil, isName_decimal, isNumber_decimal, decimal_head?,
    decimal_headD]

set_option maxRecDepth 8000 in
set_option maxHeartbeats 4000000 in
/-- The pass `replacePointerSum` on the stream `int x = n ; if ( x == n ) \x7b f ( ) ; \x7d`. -/
theorem replacePointerSum_known (n : Nat) (v : Nat) (x f : List Char)
    (hx : plainName x = true) (hf : plainName f = true) (hxf : x ≠ f) :
    replacePointerSum (knownStream x (decimal n) f v) = knownStream x (decimal n) f v := by
  have fx := plainName_facts _ hx
  have ff := plainName_facts _ hf
  have gx := plainName_symm _ hx
  have gf := plainName_symm _ hf
  have hxn := plainName_ne_decimal x hx n
  have hfn := plainName_ne_decimal f hf n
  simp +decide (disch := decide) [knownStream, combineStrings, combineStringsFrom,
    removeUnwanted, deleteUnwanted, unwantedWords, foldSigns, foldSignsFrom, fillTypeSize,
    fillStructSizes, replaceSizeofVar, sizeofLoop, replaceSizeofArray, replaceConstants,
    simplifyCasts_step, simplifyCasts_nil, castBody, simplifyCalculations, calcLoop_step,
    calcLoop_nil, calcBody, calcTimesOne, calcFold, calcNumber, calcVariable,
    replacePointerSum, splitDeclarations, splitBody, splitPoint, setVarIdLoop,
    setMemberIds, declareVariable, declaredName, markVariable, replaceNULL, removeNullCasts,
    markMember, setVarIdAt, simplifyIfAddBraces, addBracesBody, simplifyFunctionParameters,
    functionParametersBody, elseif, elseifBody, insertCaseSemicolons, caseBody,
    simplifyConditions, conditionsBody, conditionsDelete, conditionsNumber,
    conditionsConnective, conditionsCompare, simplifyFunctionReturn, functionReturnBody,
    simplifyKnownVariables, knownVariablesBody, knownBlockBody, removeReduntantConditions,
    redundantBody, simplifyRedundantParanthesis, paranthesisBody, parenEnd, cursorLoop,
    Result.bind, Result.map, Result.ofOption, Match, MatchVarId, Atom.accepts, isString,
    simpleMatch, matchType, strchr, strAt, varIdAt, Token.aaaa0, getElem?_first, fx, ff, gx,
    gf, hxf, hxf.symm, hxn, hxn.symm, hfn, hfn.symm, isName_not_number _ fx.1,
    isName_not_number _ ff.1, isName_ne_cons _ fx.1, isName_ne_cons _ ff.1,
    cons_ne_isName _ fx.1, cons_ne_isName _ ff.1, isName_head _ fx.1, isName_head _ ff.1,
    decimal_ne_cons, decimal_ne_nil, isName_decimal, isNumber_decimal, decimal_head?,
    decimal_headD]

set_option maxRecDepth 8000 in
set_option maxHeartbeats 4000000 in
/-- The pass `splitDeclarations` on the stream `int x = n ; if ( x == n ) \x7b f ( ) ; \x7d`. -/
theorem splitDeclarations_known (m : Nat) (n : Nat) (v : Nat) (x f : List Char)
    (hx : plainName x = true) (hf : plainName f = true) (hxf : x ≠ f) :
    splitDeclarations (m + 17) (knownStream x (decimal n) f v) = .ok (knownStream x (decimal n) f v) := by
  have fx := plainName_facts _ hx
  have ff := plainName_facts _ hf
  have gx := plainName_symm _ hx
  have gf := plainName_symm _ hf
  have hxn := plainName_ne_decimal x hx n
  have hfn := plainName_ne_decimal f hf n
  simp +decide (disch := decide) [knownStream, combineStrings, combineStringsFrom,
    removeUnwanted, deleteUnwanted, unwantedWords, foldSigns, foldSignsFrom, fillTypeSize,
    fillStructSizes, replaceSizeofVar, sizeofLoop, replaceSizeofArray, replaceConstants,
    simplifyCasts_step, simplifyCasts_nil, castBody, simplifyCalculations, calcLoop_step,
    calcLoop_nil, calcBody, calcTimesOne, calcFold, calcNumber, calcVariable,
    replacePointerSum, splitDeclarations, splitBody, splitPoint, setVarIdLoop,
    setMemberIds, declareVariable, declaredName, markVariable, replaceNULL, removeNullCasts,
    markMember, setVarIdAt, simplifyIfAddBraces, addBracesBody, simplifyFunctionParameters,
    functionParametersBody, elseif, elseifBody, insertCaseSemicolons, caseBody,
    simplifyConditions, conditionsBody, conditionsDelete, conditionsNumber,
    conditionsConnective, conditionsCompare, simplifyFunctionReturn, functionReturnBody,
    simplifyKnownVariables, knownVariablesBody, knownBlockBody, removeReduntantConditions,
    redundantBody, simplifyRedundantParanthesis, paranthesisBody, parenEnd, cursorLoop,
    Result.bind, Result.map, Result.ofOption, Match, MatchVarId, Atom.accepts, isString,
    simpleMatch, matchType, strchr, strAt, varIdAt, Token.aaaa0, getElem?_first, fx, ff, gx,
    gf, hxf, hxf.symm, hxn, hxn.symm, hfn, hfn.symm, isName_not_number _ fx.1,
    isName_not_number _ ff.1, isName_ne_cons _ fx.1, isName_ne_cons _ ff.1,
    cons_ne_isName _ fx.1, cons_ne_isName _ ff.1, isName_head _ fx.1, isName_head _ ff.1,
    decimal_ne_cons, decimal_ne_nil, isName_decimal, isNumber_decimal, decimal_head?,
    decimal_headD]

set_option maxRecDepth 8000 in
set_option maxHeartbeats 4000000 in
/-- The pass `declareVariable` on the stream `int x = n ; if ( x == n ) \x7b f ( ) ; \x7d`. -/
theorem declareVariable_known (n : Nat) (x f : List Char)
    (hx : plainName x = true) (hf : plainName f = true) (hxf : x ≠ f) :
    declareVariable 0 ⟨"int".toList, 1, 0, 0⟩ (knownStream x (decimal n) f 0).tail =
      ((knownStream x (decimal n) f 1).tail, 1) := by
  have fx := plainName_facts _ hx
  have ff := plainName_facts _ hf
  have gx := plainName_symm _ hx
  have gf := plainName_symm _ hf
  have hxn := plainName_ne_decimal x hx n
  have hfn := plainName_ne_decimal f hf n
  simp +decide (disch := decide) [knownStream, combineStrings, combineStringsFrom,
    removeUnwanted, deleteUnwanted, unwantedWords, foldSigns, foldSignsFrom, fillTypeSize,
    fillStructSizes, replaceSizeofVar, sizeofLoop, replaceSizeofArray, replaceConstants,
    simplifyCasts_step, simplifyCasts_nil, castBody, simplifyCalculations, calcLoop_step,
    calcLoop_nil, calcBody, calcTimesOne, calcFold, calcNumber, calcVariable,
    replacePointerSum, splitDeclarations, splitBody, splitPoint, setVarIdLoop,
    setMemberIds, declareVariable, declaredName, markVariable, replaceNULL, removeNullCasts,
    markMember, setVarIdAt, simplifyIfAddBraces, addBracesBody, simplifyFunctionParameters,
    functionParametersBody, elseif, elseifBody, insertCaseSemicolons, caseBody,
    simplifyConditions, conditionsBody, conditionsDelete, conditionsNumber,
    conditionsConnective, conditionsCompare, simplifyFunctionReturn, functionReturnBody,
    simplifyKnownVariables, knownVariablesBody, knownBlockBody, removeReduntantConditions,
    redundantBody, simplifyRedundantParanthesis, paranthesisBody, parenEnd, cursorLoop,
    Result.bind, Result.map, Result.ofOption, Match, MatchVarId, Atom.accepts, isString,
    simpleMatch, matchType, strchr, strAt, varIdAt, Token.aaaa0, getElem?_first, fx, ff, gx,
    gf, hxf, hxf.symm, hxn, hxn.symm, hfn, hfn.symm, isName_not_number _ fx.1,
    isName_not_number _ ff.1, isName_ne_cons _ fx.1, isName_ne_cons _ ff.1,
    cons_ne_isName _ fx.1, cons_ne_isName _ ff.1, isName_head _ fx.1, isName_head _ ff.1,
    decimal_ne_cons, decimal_ne_nil, isName_decimal, isNumber_decimal, decimal_head?,
    decimal_headD]

set_option maxRecDepth 8000 in
set_option maxHeartbeats 4000000 in
/-- The pass `setVarIdLoop` on the stream `int x = n ; if ( x == n ) \x7b f ( ) ; \x7d`. -/
theorem setVarIdLoop_known (n : Nat) (x f : List Char)
    (hx : plainName x = true) (hf : plainName f = true) (hxf : x ≠ f) :
    setVarIdLoop false 1 (knownStream x (decimal n) f 1).tail = ((knownStream x (decimal n) f 1).tail, 1) := by
  have fx := plainName_facts _ hx
  have ff := plainName_facts _ hf
  have gx := plainName_symm _ hx
  have gf := plainName_symm _ hf
  have hxn := plainName_ne_decimal x hx n
  have hfn := plainName_ne_decimal f hf n
  simp +decide (disch := decide) [knownStream, combineStrings, combineStringsFrom,
    removeUnwanted, deleteUnwanted, unwantedWords, foldSigns, foldSignsFrom, fillTypeSize,
    fillStructSizes, replaceSizeofVar, sizeofLoop, replaceSizeofArray, replaceConstants,
    simplifyCasts_step, simplifyCasts_nil, castBody, simplifyCalculations, calcLoop_step,
    calcLoop_nil, calcBody, calcTimesOne, calcFold, calcNumber, calcVariable,
    replacePointerSum, splitDeclarations, splitBody, splitPoint, setVarIdLoop,
    setMemberIds, declareVariable, declaredName, markVariable, replaceNULL, removeNullCasts,
    markMember, setVarIdAt, simplifyIfAddBraces, addBracesBody, simplifyFunctionParameters,
    functionParametersBody, elseif, elseifBody, insertCaseSemicolons, caseBody,
    simplifyConditions, conditionsBody, conditionsDelete, conditionsNumber,
    conditionsConnective, conditionsCompare, simplifyFunctionReturn, functionReturnBody,
    simplifyKnownVariables, knownVariablesBody, knownBlockBody, removeReduntantConditions,
    redundantBody, simplifyRedundantParanthesis, paranthesisBody, parenEnd, cursorLoop,
    Result.bind, Result.map, Result.ofOption, Match, MatchVarId, Atom.accepts, isString,
    simpleMatch, matchType, strchr, strAt, varIdAt, Token.aaaa0, getElem?_first, fx, ff, gx,
    gf, hxf, hxf.symm, hxn, hxn.symm, hfn, hfn.symm, isName_not_number _ fx.1,
    isName_not_number _ ff.1, isName_ne_cons _ fx.1, isName_ne_cons _ ff.1,
    cons_ne_isName _ fx.1, cons_ne_isName _ ff.1, isName_head _ fx.1, isName_head _ ff.1,
    decimal_ne_cons, decimal_ne_nil, isName_decimal, isNumber_decimal, decimal_head?,
    decimal_headD]

set_option maxRecDepth 8000 in
set_option maxHeartbeats 4000000 in
/-- The pass `setMemberIds` on the stream `int x = n ; if ( x == n ) \x7b f ( ) ; \x7d`. -/
theorem setMemberIds_known (n : Nat) (x f : List Char)
    (hx : plainName x = true) (hf : plainName f = true) (hxf : x ≠ f) :
    removeNullCasts (replaceNULL (setMemberIds 1 (knownStream x (decimal n) f 1))) = knownStream x (decimal n) f 1 := by
  have fx := plainName_facts _ hx
  have ff := plainName_facts _ hf
  have gx := plainName_symm _ hx
  have gf := plainName_symm _ hf
  have hxn := plainName_ne_decimal x hx n
  have hfn := plainName_ne_decimal f hf n
  simp +decide (disch := decide) [knownStream, combineStrings, combineStringsFrom,
    removeUnwanted, deleteUnwanted, unwantedWords, foldSigns, foldSignsFrom, fillTypeSize,
    fillStructSizes, replaceSizeofVar, sizeofLoop, replaceSizeofArray, replaceConstants,
    simplifyCasts_step, simplifyCasts_nil, castBody, simplifyCalculations, calcLoop_step,
    calcLoop_nil, calcBody, calcTimesOne, calcFold, calcNumber, calcVariable,
    replacePointerSum, splitDeclarations, splitBody, splitPoint, setVarIdLoop,
    setMemberIds, declareVariable, declaredName, markVariable, replaceNULL, removeNullCasts,
    markMember, setVarIdAt, simplifyIfAddBraces, addBracesBody, simplifyFunctionParameters,
    functionParametersBody, elseif, elseifBody, insertCaseSemicolons, caseBody,
    simplifyConditions, conditionsBody, conditionsDelete, conditionsNumber,
    conditionsConnective, conditionsCompare, simplifyFunctionReturn, functionReturnBody,
    simplifyKnownVariables, knownVariablesBody, knownBlockBody, removeReduntantConditions,
    redundantBody, simplifyRedundantParanthesis, paranthesisBody, parenEnd, cursorLoop,
    Result.bind, Result.map, Result.ofOption, Match, MatchVarId, Atom.accepts, isString,
    simpleMatch, matchType, strchr, strAt, varIdAt, Token.aaaa0, getElem?_first, fx, ff, gx,
    gf, hxf, hxf.symm, hxn, hxn.symm, hfn, hfn.symm, isName_not_number _ fx.1,
    isName_not_number _ ff.1, isName_ne_cons _ fx.1, isName_ne_cons _ ff.1,
    cons_ne_isName _ fx.1, cons_ne_isName _ ff.1, isName_head _ fx.1, isName_head _ ff.1,
    decimal_ne_cons, decimal_ne_nil, isName_decimal, isNumber_decimal, decimal_head?,
    decimal_headD]

set_option maxRecDepth 8000 in
set_option maxHeartbeats 4000000 in
/-- The pass `simplifyIfAddBraces` on the stream `int x = n ; if ( x == n ) \x7b f ( ) ; \x7d`. -/
theorem simplifyIfAddBraces_known (m : Nat) (n : Nat) (v : Nat) (x f : List Char)
    (hx : plainName x = true) (hf : plainName f = true) (hxf : x ≠ f) :
    simplifyIfAddBraces (m + 17) (knownStream x (decimal n) f v) = .ok (knownStream x (decimal n) f v, false) := by
  have fx := plainName_facts _ hx
  have ff := plainName_facts _ hf
  have gx := plainName_symm _ hx
  have gf := plainName_symm _ hf
  have hxn := plainName_ne_decimal x hx n
  have hfn := plainName_ne_decimal f hf n
  simp +decide (disch := decide) [knownStream, combineStrings, combineStringsFrom,
    removeUnwanted, deleteUnwanted, unwantedWords, foldSigns, foldSignsFrom, fillTypeSize,
    fillStructSizes, replaceSizeofVar, sizeofLoop, replaceSizeofArray, replaceConstants,
    simplifyCasts_step, simplifyCasts_nil, castBody, simplifyCalculations, calcLoop_step,
    calcLoop_nil, calcBody, calcTimesOne, calcFold, calcNumber, calcVariable,
    replacePointerSum, splitDeclarations, splitBody, splitPoint, setVarIdLoop,
    setMemberIds, declareVariable, declaredName, markVariable, replaceNULL, removeNullCasts,
    markMember, setVarIdAt, simplifyIfAddBraces, addBracesBody, simplifyFunctionParameters,
    functionParametersBody, elseif, elseifBody, insertCaseSemicolons, caseBody,
    simplifyConditions, conditionsBody, conditionsDelete, conditionsNumber,
    conditionsConnective, conditionsCompare, simplifyFunctionReturn, functionReturnBody,
    simplifyKnownVariables, knownVariablesBody, knownBlockBody, removeReduntantConditions,
    redundantBody, simplifyRedundantParanthesis, paranthesisBody, parenEnd, cursorLoop,
    Result.bind, Result.map, Result.ofOption, Match, MatchVarId, Atom.accepts, isString,
    simpleMatch, matchType, strchr, strAt, varIdAt, Token.aaaa0, getElem?_first, fx, ff, gx,
    gf, hxf, hxf.symm, hxn, hxn.symm, hfn, hfn.symm, isName_not_number _ fx.1,
    isName_not_number _ ff.1, isName_ne_cons _ fx.1, isName_ne_cons _ ff.1,
    cons_ne_isName _ fx.1, cons_ne_isName _ ff.1, isName_head _ fx.1, isName_head _ ff.1,
    decimal_ne_cons, decimal_ne_nil, isName_decimal, isNumber_decimal, decimal_head?,
    decimal_headD]

set_option maxRecDepth 8000 in
set_option maxHeartbeats 4000000 in
/-- The pass `simplifyFunctionParameters` on the stream `int x = n ; if ( x == n ) \x7b f ( ) ; \x7d`. -/
theorem simplifyFunctionParameters_known (m : Nat) (n : Nat) (v : Nat) (x f : List Char)
    (hx : plainName x = true) (hf : plainName f = true) (hxf : x ≠ f) :
    simplifyFunctionParameters (m + 17) (knownStream x (decimal n) f v) = .ok (knownStream x (decimal n) f v, false) := by
  have fx := plainName_facts _ hx
  have ff := plainName_facts _ hf
  have gx := plainName_symm _ hx
  have gf := plainName_symm _ hf
  have hxn := plainName_ne_decimal x hx n
  have hfn := plainName_ne_decimal f hf n
  simp +decide (disch := decide) [knownStream, combineStrings, combineStringsFrom,
    removeUnwanted, deleteUnwanted, unwantedWords, foldSigns, foldSignsFrom, fillTypeSize,
    fillStructSizes, replaceSizeofVar, sizeofLoop, replaceSizeofArray, replaceConstants,
    simplifyCasts_step, simplifyCasts_nil, castBody, simplifyCalculations, calcLoop_step,
    calcLoop_nil, calcBody, calcTimesOne, calcFold, calcNumber, calcVariable,
    replacePointerSum, splitDeclarations, splitBody, splitPoint, setVarIdLoop,
    setMemberIds, declareVariable, declaredName, markVariable, replaceNULL, removeNullCasts,
    markMember, setVarIdAt, simplifyIfAddBraces, addBracesBody, simplifyFunctionParameters,
    functionParametersBody, elseif, elseifBody, insertCaseSemicolons, caseBody,
    simplifyConditions, conditionsBody, conditionsDelete, conditionsNumber,
    conditionsConnective, conditionsCompare, simplifyFunctionReturn, functionReturnBody,
    simplifyKnownVariables, knownVariablesBody, knownBlockBody, removeReduntantConditions,
    redundantBody, simplifyRedundantParanthesis, paranthesisBody, parenEnd, cursorLoop,
    Result.bind, Result.map, Result.ofOption, Match, MatchVarId, Atom.accepts, isString,
    simpleMatch, matchType, strchr, strAt, varIdAt, Token.aaaa0, getElem?_first, fx, ff, gx,
    gf, hxf, hxf.symm, hxn, hxn.symm, hfn, hfn.symm, isName_not_number _ fx.1,
    isName_not_number _ ff.1, isName_ne_cons _ fx.1, isName_ne_cons _ ff.1,
    cons_ne_isName _ fx.1, cons_ne_isName _ ff.1, isName_head _ fx.1, isName_head _ ff.1,
    decimal_ne_cons, decimal_ne_nil, isName_decimal, isNumber_decimal, decimal_head?,
    decimal_headD]

set_option maxRecDepth 8000 in
set_option maxHeartbeats 4000000 in
/-- The pass `elseif` on the stream `int x = n ; if ( x == n ) \x7b f ( ) ; \x7d`. -/
theorem elseif_known (m : Nat) (n : Nat) (v : Nat) (x f : List Char)
    (hx : plainName x = true) (hf : plainName f = true) (hxf : x ≠ f) :
    elseif (m + 17) (knownStream x (decimal n) f v) = .ok (knownStream x (decimal n) f v, false) := by
  have fx := plainName_facts _ hx
  have ff := plainName_facts _ hf
  have gx := plainName_symm _ hx
  have gf := plainName_symm _ hf
  have hxn := plainName_ne_decimal x hx n
  have hfn := plainName_ne_decimal f hf n
  simp +decide (disch := decide) [knownStream, combineStrings, combineStringsFrom,
    removeUnwanted, deleteUnwanted, unwantedWords, foldSigns, foldSignsFrom, fillTypeSize,
    fillStructSizes, replaceSizeofVar, sizeofLoop, replaceSizeofArray, replaceConstants,
    simplifyCasts_step, simplifyCasts_nil, castBody, simplifyCalculations, calcLoop_step,
    calcLoop_nil, calcBody, calcTimesOne, calcFold, calcNumber, calcVariable,
    replacePointerSum, splitDeclarations, splitBody, splitPoint, setVarIdLoop,
    setMemberIds, declareVariable, declaredName, markVariable, replaceNULL, removeNullCasts,
    markMember, setVarIdAt, simplifyIfAddBraces, addBracesBody, simplifyFunctionParameters,
    functionParametersBody, elseif, elseifBody, insertCaseSemicolons, caseBody,
    simplifyConditions, conditionsBody, conditionsDelete, conditionsNumber,
    conditionsConnective, conditionsCompare, simplifyFunctionReturn, functionReturnBody,
    simplifyKnownVariables, knownVariablesBody, knownBlockBody, removeReduntantConditions,
    redundantBody, simplifyRedundantParanthesis, paranthesisBody, parenEnd, cursorLoop,
    Result.bind, Result.map, Result.ofOption, Match, MatchVarId, Atom.accepts, isString,
    simpleMatch, matchType, strchr, strAt, varIdAt, Token.aaaa0, getElem?_first, fx, ff, gx,
    gf, hxf, hxf.symm, hxn, hxn.symm, hfn, hfn.symm, isName_not_number _ fx.1,
    isName_not_number _ ff.1, isName_ne_cons _ fx.1, isName_ne_cons _ ff.1,
    cons_ne_isName _ fx.1, cons_ne_isName _ ff.1, isName_head _ fx.1, isName_head _ ff.1,
    decimal_ne_cons, decimal_ne_nil, isName_decimal, isNumber_decimal, decimal_head?,
    decimal_headD]

set_option maxRecDepth 8000 in
set_option maxHeartbeats 4000000 in
/-- The pass `insertCaseSemicolons` on the stream `int x = n ; if ( x == n ) \x7b f ( ) ; \x7d`. -/
theorem insertCaseSemicolons_known (m : Nat) (n : Nat) (v : Nat) (x f : List Char)
    (hx : plainName x = true) (hf : plainName f = true) (hxf : x ≠ f) :
    insertCaseSemicolons (m + 17) (knownStream x (decimal n) f v) = .ok (knownStream x (decimal n) f v) := by
  have fx := plainName_facts _ hx
  have ff := plainName_facts _ hf
  have gx := plainName_symm _ hx
  have gf := plainName_symm _ hf
  have hxn := plainName_ne_decimal x hx n
  have hfn := plainName_ne_decimal f hf n
  simp +decide (disch := decide) [knownStream, combineStrings, combineStringsFrom,
    removeUnwanted, deleteUnwanted, unwantedWords, foldSigns, foldSignsFrom, fillTypeSize,
    fillStructSizes, replaceSizeofVar, sizeofLoop, replaceSizeofArray, replaceConstants,
    simplifyCasts_step, simplifyCasts_nil, castBody, simplifyCalculations, calcLoop_step,
    calcLoop_nil, calcBody, calcTimesOne, calcFold, calcNumber, calcVariable,
    replacePointerSum, splitDeclarations, splitBody, splitPoint, setVarIdLoop,
    setMemberIds, declareVariable, declaredName, markVariable, replaceNULL, removeNullCasts,
    markMember, setVarIdAt, simplifyIfAddBraces, addBracesBody, simplifyFunctionParameters,
    functionParametersBody, elseif, elseifBody, insertCaseSemicolons, caseBody,
    simplifyConditions, conditionsBody, conditionsDelete, conditionsNumber,
    conditionsConnective, conditionsCompare, simplifyFunctionReturn, functionReturnBody,
    simplifyKnownVariables, knownVariablesBody, knownBlockBody, removeReduntantConditions,
    redundantBody, simplifyRedundantParanthesis, paranthesisBody, parenEnd, cursorLoop,
    Result.bind, Result.map, Result.ofOption, Match, MatchVarId, Atom.accepts, isString,
    simpleMatch, matchType, strchr, strAt, varIdAt, Token.aaaa0, getElem?_first, fx, ff, gx,
    gf, hxf, hxf.symm, hxn, hxn.symm, hfn, hfn.symm, isName_not_number _ fx.1,
    isName_not_number _ ff.1, isName_ne_cons _ fx.1, isName_ne_cons _ ff.1,
    cons_ne_isName _ fx.1, cons_ne_isName _ ff.1, isName_head _ fx.1, isName_head _ ff.1,
    decimal_ne_cons, decimal_ne_nil, isName_decimal, isNumber_decimal, decimal_head?,
    decimal_headD]

set_option maxRecDepth 8000 in
set_option maxHeartbeats 4000000 in
/-- The pass `simplifyConditions` on the stream `int x = n ; if ( x == n ) \x7b f ( ) ; \x7d`. -/
theorem simplifyConditions_known (p : Platform) (m : Nat) (n : Nat) (v : Nat) (x f : List Char)
    (hx : plainName x = true) (hf : plainName f = true) (hxf : x ≠ f) :
    simplifyConditions p (m + 17) (knownStream x (decimal n) f v) = .ok (knownStream x (decimal n) f v, false) := by
  have fx := plainName_facts _ hx
  have ff := plainName_facts _ hf
  have gx := plainName_symm _ hx
  have gf := plainName_symm _ hf
  have hxn := plainName_ne_decimal x hx n
  have hfn := plainName_ne_decimal f hf n
  simp +decide (disch := decide) [knownStream, combineStrings, combineStringsFrom,
    removeUnwanted, deleteUnwanted, unwantedWords, foldSigns, foldSignsFrom, fillTypeSize,
    fillStructSizes, replaceSizeofVar, sizeofLoop, replaceSizeofArray, replaceConstants,
    simplifyCasts_step, simplifyCasts_nil, castBody, simplifyCalculations, calcLoop_step,
    calcLoop_nil, calcBody, calcTimesOne, calcFold, calcNumber, calcVariable,
    replacePointerSum, splitDeclarations, splitBody, splitPoint, setVarIdLoop,
    setMemberIds, declareVariable, declaredName, markVariable, replaceNULL, removeNullCasts,
    markMember, setVarIdAt, simplifyIfAddBraces, addBracesBody, simplifyFunctionParameters,
    functionParametersBody, elseif, elseifBody, insertCaseSemicolons, caseBody,
    simplifyConditions, conditionsBody, conditionsDelete, conditionsNumber,
    conditionsConnective, conditionsCompare, simplifyFunctionReturn, functionReturnBody,
    simplifyKnownVariables, knownVariablesBody, knownBlockBody, removeReduntantConditions,
    redundantBody, simplifyRedundantParanthesis, paranthesisBody, parenEnd, cursorLoop,
    Result.bind, Result.map, Result.ofOption, Match, MatchVarId, Atom.accepts, isString,
    simpleMatch, matchType, strchr, strAt, varIdAt, Token.aaaa0, getElem?_first, fx, ff, gx,
    gf, hxf, hxf.symm, hxn, hxn.symm, hfn, hfn.symm, isName_not_number _ fx.1,
    isName_not_number _ ff.1, isName_ne_cons _ fx.1, isName_ne_cons _ ff.1,
    cons_ne_isName _ fx.1, cons_ne_isName _ ff.1, isName_head _ fx.1, isName_head _ ff.1,
    decimal_ne_cons, decimal_ne_nil, isName_decimal, isNumber_decimal, decimal_head?,
    decimal_headD]

set_option maxRecDepth 8000 in
set_option maxHeartbeats 4000000 in
/-- The pass `simplifyFunctionReturn` on the stream `int x = n ; if ( x == n ) \x7b f ( ) ; \x7d`. -/
theorem simplifyFunctionReturn_known (m : Nat) (n : Nat) (v : Nat) (x f : List Char)
    (hx : plainName x = true) (hf : plainName f = true) (hxf : x ≠ f) :
    simplifyFunctionReturn (m + 17) (knownStream x (decimal n) f v) = .ok (knownStream x (decimal n) f v, false) := by
  have fx := plainName_facts _ hx
  have ff := plainName_facts _ hf
  have gx := plainName_symm _ hx
  have gf := plainName_symm _ hf
  have hxn := plainName_ne_decimal x hx n
  have hfn := plainName_ne_decimal f hf n
  simp +decide (disch := decide) [knownStream, combineStrings, combineStringsFrom,
    removeUnwanted, deleteUnwanted, unwantedWords, foldSigns, foldSignsFrom, fillTypeSize,
    fillStructSizes, replaceSizeofVar, sizeofLoop, replaceSizeofArray, replaceConstants,
    simplifyCasts_step, simplifyCasts_nil, castBody, simplifyCalculations, calcLoop_step,
    calcLoop_nil, calcBody, calcTimesOne, calcFold, calcNumber, calcVariable,
    replacePointerSum, splitDeclarations, splitBody, splitPoint, setVarIdLoop,
    setMemberIds, declareVariable, declaredName, markVariable, replaceNULL, removeNullCasts,
    markMember, setVarIdAt, simplifyIfAddBraces, addBracesBody, simplifyFunctionParameters,
    functionParametersBody, elseif, elseifBody, insertCaseSemicolons, caseBody,
    simplifyConditions, conditionsBody, conditionsDelete, conditionsNumber,
    conditionsConnective, conditionsCompare, simplifyFunctionReturn, functionReturnBody,
    simplifyKnownVariables, knownVariablesBody, knownBlockBody, removeReduntantConditions,
    redundantBody, simplifyRedundantParanthesis, paranthesisBody, parenEnd, cursorLoop,
    Result.bind, Result.map, Result.ofOption, Match, MatchVarId, Atom.accepts, isString,
    simpleMatch, matchType, strchr, strAt, varIdAt, Token.aaaa0, getElem?_first, fx, ff, gx,
    gf, hxf, hxf.symm, hxn, hxn.symm, hfn, hfn.symm, isName_not_number _ fx.1,
    isName_not_number _ ff.1, isName_ne_cons _ fx.1, isName_ne_cons _ ff.1,
    cons_ne_isName _ fx.1, cons_ne_isName _ ff.1, isName_head _ fx.1, isName_head _ ff.1,
    decimal_ne_cons, decimal_ne_nil, isName_decimal, isNumber_decimal, decimal_head?,
    decimal_headD]

set_option maxRecDepth 8000 in
set_option maxHeartbeats 4000000 in
/-- The pass `simplifyKnownVariables` on the stream `int x = n ; if ( x == n ) \x7b f ( ) ; \x7d`. -/
theorem simplifyKnownVariables_known (p : Platform) (m : Nat) (n : Nat) (v : Nat) (x f : List Char)
    (hx : plainName x = true) (hf : plainName f = true) (hxf : x ≠ f) :
    simplifyKnownVariables p (m + 17) (knownStream x (decimal n) f v) = .ok (knownStream x (decimal n) f v, false) := by
  have fx := plainName_facts _ hx
  have ff := plainName_facts _ hf
  have gx := plainName_symm _ hx
  have gf := plainName_symm _ hf
  have hxn := plainName_ne_decimal x hx n
  have hfn := plainName_ne_decimal f hf n
  simp +decide (disch := decide) [knownStream, combineStrings, combineStringsFrom,
    removeUnwanted, deleteUnwanted, unwantedWords, foldSigns, foldSignsFrom, fillTypeSize,
    fillStructSizes, replaceSizeofVar, sizeofLoop, replaceSizeofArray, replaceConstants,
    simplifyCasts_step, simplifyCasts_nil, castBody, simplifyCalculations, calcLoop_step,
    calcLoop_nil, calcBody, calcTimesOne, calcFold, calcNumber, calcVariable,
    replacePointerSum, splitDeclarations, splitBody, splitPoint, setVarIdLoop,
    setMemberIds, declareVariable, declaredName, markVariable, replaceNULL, removeNullCasts,
    markMember, setVarIdAt, simplifyIfAddBraces, addBracesBody, simplifyFunctionParameters,
    functionParametersBody, elseif, elseifBody, insertCaseSemicolons, caseBody,
    simplifyConditions, conditionsBody, conditionsDelete, conditionsNumber,
    conditionsConnective, conditionsCompare, simplifyFunctionReturn, functionReturnBody,
    simplifyKnownVariables, knownVariablesBody, knownBlockBody, removeReduntantConditions,
    redundantBody, simplifyRedundantParanthesis, paranthesisBody, parenEnd, cursorLoop,
    Result.bind, Result.map, Result.ofOption, Match, MatchVarId, Atom.accepts, isString,
    simpleMatch, matchType, strchr, strAt, varIdAt, Token.aaaa0, getElem?_first, fx, ff, gx,
    gf, hxf, hxf.symm, hxn, hxn.symm, hfn, hfn.symm, isName_not_number _ fx.1,
    isName_not_number _ ff.1, isName_ne_cons _ fx.1, isName_ne_cons _ ff.1,
    cons_ne_isName _ fx.1, cons_ne_isName _ ff.1, isName_head _ fx.1, isName_head _ ff.1,
    decimal_ne_cons, decimal_ne_nil, isName_decimal, isNumber_decimal, decimal_head?,
    decimal_headD]

set_option maxRecDepth 8000 in
set_option maxHeartbeats 4000000 in
/-- The pass `removeReduntantConditions` on the stream `int x = n ; if ( x == n ) \x7b f ( ) ; \x7d`. -/
theorem removeReduntantConditions_known (m : Nat) (n : Nat) (v : Nat) (x f : List Char)
    (hx : plainName x = true) (hf : plainName f = true) (hxf : x ≠ f) :
    removeReduntantConditions (m + 17) (knownStream x (decimal n) f v) = .ok (knownStream x (decimal n) f v, false) := by
  have fx := plainName_facts _ hx
  have ff := plainName_facts _ hf
  have gx := plainName_symm _ hx
  have gf := plainName_symm _ hf
  have hxn := plainName_ne_decimal x hx n
  have hfn := plainName_ne_decimal f hf n
  simp +decide (disch := decide) [knownStream, combineStrings, combineStringsFrom,
    removeUnwanted, deleteUnwanted, unwantedWords, foldSigns, foldSignsFrom, fillTypeSize,
    fillStructSizes, replaceSizeofVar, sizeofLoop, replaceSizeofArray, replaceConstants,
    simplifyCasts_step, simplifyCasts_nil, castBody, simplifyCalculations, calcLoop_step,
    calcLoop_nil, calcBody, calcTimesOne, calcFold, calcNumber, calcVariable,
    replacePointerSum, splitDeclarations, splitBody, splitPoint, setVarIdLoop,
    setMemberIds, declareVariable, declaredName, markVariable, replaceNULL, removeNullCasts,
    markMember, setVarIdAt, simplifyIfAddBraces, addBracesBody, simplifyFunctionParameters,
    functionParametersBody, elseif, elseifBody, insertCaseSemicolons, caseBody,
    simplifyConditions, conditionsBody, conditionsDelete, conditionsNumber,
    conditionsConnective, conditionsCompare, simplifyFunctionReturn, functionReturnBody,
    simplifyKnownVariables, knownVariablesBody, knownBlockBody, removeReduntantConditions,
    redundantBody, simplifyRedundantParanthesis, paranthesisBody, parenEnd, cursorLoop,
    Result.bind, Result.map, Result.ofOption, Match, MatchVarId, Atom.accepts, isString,
    simpleMatch, matchType, strchr, strAt, varIdAt, Token.aaaa0, getElem?_first, fx, ff, gx,
    gf, hxf, hxf.symm, hxn, hxn.symm, hfn, hfn.symm, isName_not_number _ fx.1,
    isName_not_number _ ff.1, isName_ne_cons _ fx.1, isName_ne_cons _ ff.1,
    cons_ne_isName _ fx.1, cons_ne_isName _ ff.1, isName_head _ fx.1, isName_head _ ff.1,
    decimal_ne_cons, decimal_ne_nil, isName_decimal, isNumber_decimal, decimal_head?,
    decimal_headD]

set_option maxRecDepth 8000 in
set_option maxHeartbeats 4000000 in
/-- The pass `simplifyRedundantParanthesis` on the stream `int x = n ; if ( x == n ) \x7b f ( ) ; \x7d`. -/
theorem simplifyRedundantParanthesis_known (m : Nat) (n : Nat) (v : Nat) (x f : List Char)
    (hx : plainName x = true) (hf : plainName f = true) (hxf : x ≠ f) :
    simplifyRedundantParanthesis (m + 17) (knownStream x (decimal n) f v) = .ok (knownStream x (decimal n) f v, false) := by
  have fx := plainName_facts _ hx
  have ff := plainName_facts _ hf
  have gx := plainName_symm _ hx
  have gf := plainName_symm _ hf
  have hxn := plainName_ne_decimal x hx n
  have hfn := plainName_ne_decimal f hf n
  simp +decide (disch := decide) [knownStream, combineStrings, combineStringsFrom,
    removeUnwanted, deleteUnwanted, unwantedWords, foldSigns, foldSignsFrom, fillTypeSize,
    fillStructSizes, replaceSizeofVar, sizeofLoop, replaceSizeofArray, replaceConstants,
    simplifyCasts_step, simplifyCasts_nil, castBody, simplifyCalculations, calcLoop_step,
    calcLoop_nil, calcBody, calcTimesOne, calcFold, calcNumber, calcVariable,
    replacePointerSum, splitDeclarations, splitBody, splitPoint, setVarIdLoop,
    setMemberIds, declareVariable, declaredName, markVariable, replaceNULL, removeNullCasts,
    markMember, setVarIdAt, simplifyIfAddBraces, addBracesBody, simplifyFunctionParameters,
    functionParametersBody, elseif, elseifBody, insertCaseSemicolons, caseBody,
    simplifyConditions, conditionsBody, conditionsDelete, conditionsNumber,
    conditionsConnective, conditionsCompare, simplifyFunctionReturn, functionReturnBody,
    simplifyKnownVariables, knownVariablesBody, knownBlockBody, removeReduntantConditions,
    redundantBody, simplifyRedundantParanthesis, paranthesisBody, parenEnd, cursorLoop,
    Result.bind, Result.map, Result.ofOption, Match, MatchVarId, Atom.accepts, isString,
    simpleMatch, matchType, strchr, strAt, varIdAt, Token.aaaa0, getElem?_first, fx, ff, gx,
    gf, hxf, hxf.symm, hxn, hxn.symm, hfn, hfn.symm, isName_not_number _ fx.1,
    isName_not_number _ ff.1, isName_ne_cons _ fx.1, isName_ne_cons _ ff.1,
    cons_ne_isName _ fx.1, cons_ne_isName _ ff.1, isName_head _ fx.1, isName_head _ ff.1,
    decimal_ne_cons, decimal_ne_nil, isName_decimal, isNumber_decimal, decimal_head?,
    decimal_headD]

set_option maxRecDepth 8000 in
/-- The method `setVarId` and the two loops behind it on the stream
`int x = n ; if ( x == n ) \x7b f ( ) ; \x7d`: the two tokens `x` get the id 1. -/
theorem setVarId_known (n : Nat) (x f : List Char)
    (hx : plainName x = true) (hf : plainName f = true) (hxf : x ≠ f) :
    removeNullCasts (replaceNULL (setVarId (knownStream x (decimal n) f 0))) =
      knownStream x (decimal n) f 1 := by
  have h0 : (knownStream x (decimal n) f 0).map (fun t => { t with varId := 0 }) =
      ⟨"int".toList, 1, 0, 0⟩ :: (knownStream x (decimal n) f 0).tail := rfl
  have h1 : setVarIdLoop true 0
      (⟨"int".toList, 1, 0, 0⟩ :: (knownStream x (decimal n) f 0).tail) =
      (knownStream x (decimal n) f 1, 1) := by
    rw [setVarIdLoop.eq_def]
    simp +decide only [Match, MatchVarId, Atom.accepts, Bool.not_true, Bool.false_eq_true,
      not_false_eq_true, and_false, if_false, List.any_cons, List.any_nil]
    rw [declareVariable_known n x f hx hf hxf, setVarIdLoop_known n x f hx hf hxf]
    rfl
  rw [setVarId, h0, h1]
  exact setMemberIds_known n x f hx hf hxf

/-- The first part of `simplifyTokenList` changes nothing in the stream. -/
theorem simplifySizes_known (p : Platform) (n : Nat) (x f : List Char)
    (hx : plainName x = true) (hf : plainName f = true) (hxf : x ≠ f) :
    simplifySizes p (knownStream x (decimal n) f 0) = some (knownStream x (decimal n) f 0) := by
  rw [simplifySizes, combineStrings_known n 0 x f hx hf hxf,
    removeUnwanted_known n 0 x f hx hf hxf, foldSigns_known n 0 x f hx hf hxf,
    fillTypeSize_known p n 0 x f hx hf hxf, replaceSizeofVar_known n 0 x f hx hf hxf,
    sizeofLoop_known p n 0 x f hx hf hxf]
  simp only [Option.bind]
  rw [replaceSizeofArray_known p n 0 x f hx hf hxf]
  simp only [Option.bind]
  rw [replaceConstants_known n 0 x f hx hf hxf, simplifyCasts_known n 0 x f hx hf hxf]

/-- The second part of `simplifyTokenList` on the stream: the declaration at the
start of the stream is not split, and `setVarId` gives the tokens `x` the id 1. -/
theorem simplifyDeclarations_known (p : Platform) (m n : Nat) (x f : List Char)
    (hx : plainName x = true) (hf : plainName f = true) (hxf : x ≠ f) :
    simplifyDeclarations p (m + 17) (knownStream x (decimal n) f 0) =
      .ok (knownStream x (decimal n) f 1) := by
  rw [simplifyDeclarations, calculationsLoop, simplifyCalculations_known p n 0 x f hx hf hxf]
  simp only [Result.ofOption, Result.bind, Bool.false_eq_true, if_false]
  rw [replacePointerSum_known n 0 x f hx hf hxf, splitDeclarations_known m n 0 x f hx hf hxf]
  simp only [Result.map, Result.bind]
  rw [setVarId_known n x f hx hf hxf]

/-- The third part of `simplifyTokenList` changes nothing in the stream. -/
theorem simplifyBraces_known (m n v : Nat) (x f : List Char)
    (hx : plainName x = true) (hf : plainName f = true) (hxf : x ≠ f) :
    simplifyBraces (m + 17) (knownStream x (decimal n) f v) =
      .ok (knownStream x (decimal n) f v) := by
  rw [simplifyBraces, simplifyIfAddBraces_known m n v x f hx hf hxf]
  simp only [Result.bind]
  rw [simplifyFunctionParameters_known m n v x f hx hf hxf]
  simp only [Result.bind]
  rw [elseif_known m n v x f hx hf hxf]
  simp only [Result.bind]
  rw [insertCaseSemicolons_known m n v x f hx hf hxf]

/-- One round of the loop `while (modified)` changes nothing in the stream: no
method of the round has a pattern for `( x ==`. -/
theorem simplifyRound_known (p : Platform) (m n v : Nat) (x f : List Char)
    (hx : plainName x = true) (hf : plainName f = true) (hxf : x ≠ f) :
    simplifyRound p (m + 17) (knownStream x (decimal n) f v) =
      .ok (knownStream x (decimal n) f v, false) := by
  rw [simplifyRound, simplifyConditions_known p m n v x f hx hf hxf]
  simp only [Result.bind]
  rw [simplifyFunctionReturn_known m n v x f hx hf hxf]
  simp only [Result.bind]
  rw [simplifyKnownVariables_known p m n v x f hx hf hxf]
  simp only [Result.bind]
  rw [removeReduntantConditions_known m n v x f hx hf hxf]
  simp only [Result.bind]
  rw [simplifyRedundantParanthesis_known m n v x f hx hf hxf]
  simp only [Result.bind]
  rw [simplifyCalculations_known p n v x f hx hf hxf]
  rfl

/-- The whole of `simplifyTokenList` on the stream. -/
theorem simplifyTokenList_known (p : Platform) (m n : Nat) (x f : List Char)
    (hx : plainName x = true) (hf : plainName f = true) (hxf : x ≠ f) :
    simplifyTokenList p (m + 17) (knownStream x (decimal n) f 0) =
      .ok (knownStream x (decimal n) f 1) := by
  rw [simplifyTokenList, simplifySizes_known p n x f hx hf hxf]
  simp only [Result.ofOption, Result.bind]
  rw [simplifyDeclarations_known p m n x f hx hf hxf]
  simp only [Result.bind]
  rw [simplifyBraces_known m n 1 x f hx hf hxf]
  simp only [Result.bind]
  rw [modifiedLoop, simplifyRound_known p m n 1 x f hx hf hxf]
  rfl

/-- C24 (amended): for plain names `x` and `f` (`x` not `f`) and the decimal text
`n` of a number, `simplifyTokenList` (each loop for at least 17 rounds) leaves the
texts of the token stream of `int x = n; if (x == n) \x7b f(); \x7d` as they are:
the declaration at the start of the stream is not split from its initialiser, the
condition is not folded and the `if` stays. The two tokens `x` get the variable
id 1. -/
theorem known_condition_kept (p : Platform) (m n : Nat) (x f : List Char)
    (hx : plainName x = true) (hf : plainName f = true) (hxf : x ≠ f) :
    ∃ out, simplifyTokenList p (m + 17) (knownStream x (decimal n) f 0) = .ok out ∧
      out.map (fun t => t.str) =
        ["int".toList, x, ['='], decimal n, [';'], "if".toList, ['('], x, "==".toList,
          decimal n, [')'], ['{'], f, ['('], [')'], [';'], ['}']] ∧
      out.map (fun t => t.varId) = [0, 1, 0, 0, 0, 0, 0, 1, 0, 0, 0, 0, 0, 0, 0, 0, 0] :=
  ⟨_, simplifyTokenList_known p m n x f hx hf hxf, rfl, rfl⟩

/-- An instance of C24 (amended): on the example platform the stream of
`int x = 5; if (x == 5) \x7b f(); \x7d` keeps its texts. -/
theorem known_condition_kept_witness :
    ∃ out, simplifyTokenList examplePlatform 17 (knownStream ['x'] ['5'] ['f'] 0) = .ok out ∧
      texts out = ["int", "x", "=", "5", ";", "if", "(", "x", "==", "5", ")", "\x7b", "f", "(",
        ")", ";", "\x7d"] := by
  obtain ⟨out, h1, h2, -⟩ := known_condition_kept examplePlatform 0 5 ['x'] ['f'] (by decide)
    (by decide) (by decide)
  have e5 : decimal 5 = ['5'] := by decide
  rw [e5] at h1 h2
  refine ⟨out, h1, ?_⟩
  have e : texts out = (out.map (fun t => t.str)).map String.mk := by
    simp [texts, List.map_map, Function.comp_def]
  rw [e, h2]
  rfl

/-- The tokens of `int x = 5; if (x == 5) \x7b f(); \x7d` behind `tokenize`. -/
theorem tokenize_knownExample :
    tokenize exampleHost "int x = 5; if (x == 5) \x7b f(); \x7d".toList "a.c".toList =
      some { tokens := knownStream ['x'] ['5'] ['f'] 0, files := ["a.c".toList] } := by
  have hl : lex exampleHost "int x = 5; if (x == 5) \x7b f(); \x7d".toList "a.c".toList =
      .done ⟨line1 ["int", "x", "=", "5", ";", "if", "(", "x", "=", "=", "5", ")", "\x7b", "f",
        "(", ")", ";", "\x7d"], ["a.c".toList], 1, [], [], [], 0, []⟩ := by decide
  unfold tokenize
  rw [hl]
  simp +decide [line1, knownStream, postLex, beforeNoise, addtoken, c_str, combine, combineAt,
    combineWithNext, combineEntry, typedefPass, matchTypedef2, matchTypedef3, asmFrom, strAt,
    removeWord, dropHeadWord, deleteNextWord, expandType, Token.inserted, matchType, isName]

/-- C24 as stated fails on its own example: `tokenize` followed by
`simplifyTokenList` leaves `int x = 5 ; if ( x == 5 ) \x7b f ( ) ; \x7d` as it is;
the result is not `int x ; x = 5 ; \x7b f ( ) ; \x7d`. -/
theorem known_condition_counterexample :
    (tokenize exampleHost "int x = 5; if (x == 5) \x7b f(); \x7d".toList "a.c".toList).map
        (fun t => (simplifyTokenList examplePlatform 17 t.tokens).map texts) =
      some (.ok ["int", "x", "=", "5", ";", "if", "(", "x", "==", "5", ")", "\x7b", "f", "(",
        ")", ";", "\x7d"]) ∧
    (tokenize exampleHost "int x = 5; if (x == 5) \x7b f(); \x7d".toList "a.c".toList).map
        (fun t => (simplifyTokenList examplePlatform 17 t.tokens).map texts) ≠
      some (.ok ["int", "x", ";", "x", "=", "5", ";", "\x7b", "f", "(", ")", ";", "\x7d"]) := by
  have h : (tokenize exampleHost "int x = 5; if (x == 5) \x7b f(); \x7d".toList
      "a.c".toList).map
        (fun t => (simplifyTokenList examplePlatform 17 t.tokens).map texts) =
      some (.ok ["int", "x", "=", "5", ";", "if", "(", "x", "==", "5", ")", "\x7b", "f", "(",
        ")", ";", "\x7d"]) := by
    have e5 : decimal 5 = ['5'] := by decide
    have hs := simplifyTokenList_known examplePlatform 0 5 ['x'] ['f'] (by decide) (by decide)
      (by decide)
    rw [e5] at hs
    rw [tokenize_knownExample]
    simp only [Option.map_some', hs, Result.map, Result.bind]
    rfl
  refine ⟨h, ?_⟩
  rw [h]
  decide

set_option maxRecDepth 8000 in
set_option maxHeartbeats 4000000 in
/-- The pass `combineStrings` on a stream of the example `; if ( true ) x ; else y ;`. -/
theorem combineStrings_ifelse (x y : List Char)
    (hx : plainName x = true) (hy : plainName y = true) :
    combineStrings (lineOf [[';'], "if".toList, ['('], "true".toList, [')'], x, [';'], "else".toList, y, [';']]) =
      lineOf [[';'], "if".toList, ['('], "true".toList, [')'], x, [';'], "else".toList, y, [';']] := by
  have fx := plainName_facts _ hx
  have fy := plainName_facts _ hy
  have gx := plainName_symm _ hx
  have gy := plainName_symm _ hy
  simp +decide (disch := decide) [lineOf, combineStrings, combineStringsFrom,
    removeUnwanted, deleteUnwanted, unwantedWords, foldSigns, foldSignsFrom, fillTypeSize,
    fillStructSizes, replaceSizeofVar, sizeofLoop, replaceSizeofArray, replaceConstants,
    simplifyCasts_step, simplifyCasts_nil, castBody, simplifyCalculations, calcLoop_step,
    calcLoop_nil, calcBody, calcTimesOne, calcFold, calcNumber, calcVariable,
    replacePointerSum, splitDeclarations, splitBody, splitPoint, setVarId, setVarIdLoop,
    setMemberIds, declareVariable, declaredName, markVariable, replaceNULL, removeNullCasts,
    markMember, setVarIdAt, simplifyIfAddBraces, addBracesBody, insertBraces, statementEnd,
    Token.inserted, simplifyFunctionParameters, getArguments, moveDeclarations, Token.replace,
    functionParametersBody, elseif, elseifBody, elseifEnd, insertCaseSemicolons, caseBody,
    simplifyConditions, conditionsBody, conditionsDelete, conditionsNumber,
    conditionsConnective, conditionsCompare, simplifyFunctionReturn, functionReturnBody,
    simplifyKnownVariables, knownVariablesBody, knownBlockBody, knownBody,
    removeReduntantConditions,
    redundantBody, redundantIf, redundantElse, findClosing, eraseTokens, indexAt, stepAt,
    stepBack, lastTagInIf, simplifyRedundantParanthesis, paranthesisBody, parenEnd, cursorLoop,
    Result.bind, Result.map, Result.ofOption, Match, MatchVarId, Atom.accepts, isString,
    isBool, simpleMatch, matchType, strchr, strAt, varIdAt, Token.aaaa0, getElem?_first,
    fx, fy, gx, gy, isName_not_number _ fx.1,
    isName_not_number _ fy.1, isName_ne_cons _ fx.1, isName_ne_cons _ fy.1,
    cons_ne_isName _ fx.1, cons_ne_isName _ fy.1, isName_head _ fx.1, isName_head _ fy.1]

set_option maxRecDepth 8000 in
set_option maxHeartbeats 4000000 in
/-- The pass `removeUnwanted` on a stream of the example `; if ( true ) x ; else y ;`. -/
theorem removeUnwanted_ifelse (x y : List Char)
    (hx : plainName x = true) (hy : plainName y = true) :
    removeUnwanted (lineOf [[';'], "if".toList, ['('], "true".toList, [')'], x, [';'], "else".toList, y, [';']]) =
      lineOf [[';'], "if".toList, ['('], "true".toList, [')'], x, [';'], "else".toList, y, [';']] := by
  have fx := plainName_facts _ hx
  have fy := plainName_facts _ hy
  have gx := plainName_symm _ hx
  have gy := plainName_symm _ hy
  simp +decide (disch := decide) [lineOf, combineStrings, combineStringsFrom,
    removeUnwanted, deleteUnwanted, unwantedWords, foldSigns, foldSignsFrom, fillTypeSize,
    fillStructSizes, replaceSizeofVar, sizeofLoop, replaceSizeofArray, replaceConstants,
    simplifyCasts_step, simplifyCasts_nil, castBody, simplifyCalculations, calcLoop_step,
    calcLoop_nil, calcBody, calcTimesOne, calcFold, calcNumber, calcVariable,
    replacePointerSum, splitDeclarations, splitBody, splitPoint, setVarId, setVarIdLoop,
    setMemberIds, declareVariable, declaredName, markVariable, replaceNULL, removeNullCasts,
    markMember, setVarIdAt, simplifyIfAddBraces, addBracesBody, insertBraces, statementEnd,
    Token.inserted, simplifyFunctionParameters, getArguments, moveDeclarations, Token.replace,
    functionParametersBody, elseif, elseifBody, elseifEnd, insertCaseSemicolons, caseBody,
    simplifyConditions, conditionsBody, conditionsDelete, conditionsNumber,
    conditionsConnective, conditionsCompare, simplifyFunctionReturn, functionReturnBody,
    simplifyKnownVariables, knownVariablesBody, knownBlockBody, knownBody,
    removeReduntantConditions,
    redundantBody, redundantIf, redundantElse, findClosing, eraseTokens, indexAt, stepAt,
    stepBack, lastTagInIf, simplifyRedundantParanthesis, paranthesisBody, parenEnd, cursorLoop,
    Result.bind, Result.map, Result.ofOption, Match, MatchVarId, Atom.accepts, isString,
    isBool, simpleMatch, matchType, strchr, strAt, varIdAt, Token.aaaa0, getElem?_first,
    fx, fy, gx, gy, isName_not_number _ fx.1,
    isName_not_number _ fy.1, isName_ne_cons _ fx.1, isName_ne_cons _ fy.1,
    cons_ne_isName _ fx.1, cons_ne_isName _ fy.1, isName_head _ fx.1, isName_head _ fy.1]

set_option maxRecDepth 8000 in
set_option maxHeartbeats 4000000 in
/-- The pass `foldSigns` on a stream of the example `; if ( true ) x ; else y ;`. -/
theorem foldSigns_ifelse (x y : List Char)
    (hx : plainName x = true) (hy : plainName y = true) :
    foldSigns (lineOf [[';'], "if".toList, ['('], "true".toList, [')'], x, [';'], "else".toList, y, [';']]) =
      lineOf [[';'], "if".toList, ['('], "true".toList, [')'], x, [';'], "else".toList, y, [';']] := by
  have fx := plainName_facts _ hx
  have fy := plainName_facts _ hy
  have gx := plainName_symm _ hx
  have gy := plainName_symm _ hy
  simp +decide (disch := decide) [lineOf, combineStrings, combineStringsFrom,
    removeUnwanted, deleteUnwanted, unwantedWords, foldSigns, foldSignsFrom, fillTypeSize,
    fillStructSizes, replaceSizeofVar, sizeofLoop, replaceSizeofArray, replaceConstants,
    simplifyCasts_step, simplifyCasts_nil, castBody, simplifyCalculations, calcLoop_step,
    calcLoop_nil, calcBody, calcTimesOne, calcFold, calcNumber, calcVariable,
    replacePointerSum, splitDeclarations, splitBody, splitPoint, setVarId, setVarIdLoop,
    setMemberIds, declareVariable, declaredName, markVariable, replaceNULL, removeNullCasts,
    markMember, setVarIdAt, simplifyIfAddBraces, addBracesBody, insertBraces, statementEnd,
    Token.inserted, simplifyFunctionParameters, getArguments, moveDeclarations, Token.replace,
    functionParametersBody, elseif, elseifBody, elseifEnd, insertCaseSemicolons, caseBody,
    simplifyConditions, conditionsBody, conditionsDelete, conditionsNumber,
    conditionsConnective, conditionsCompare, simplifyFunctionReturn, functionReturnBody,
    simplifyKnownVariables, knownVariablesBody, knownBlockBody, knownBody,
    removeReduntantConditions,
    redundantBody, redundantIf, redundantElse, findClosing, eraseTokens, indexAt, stepAt,
    stepBack, lastTagInIf, simplifyRedundantParanthesis, paranthesisBody, parenEnd, cursorLoop,
    Result.bind, Result.map, Result.ofOption, Match, MatchVarId, Atom.accepts, isString,
    isBool, simpleMatch, matchType, strchr, strAt, varIdAt, Token.aaaa0, getElem?_first,
    fx, fy, gx, gy, isName_not_number _ fx.1,
    isName_not_number _ fy.1, isName_ne_cons _ fx.1, isName_ne_cons _ fy.1,
    cons_ne_isName _ fx.1, cons_ne_isName _ fy.1, isName_head _ fx.1, isName_head _ fy.1]

set_option maxRecDepth 8000 in
set_option maxHeartbeats 4000000 in
/-- The pass `fillTypeSize` on a stream of the example `; if ( true ) x ; else y ;`. -/
theorem fillTypeSize_ifelse (p : Platform) (x y : List Char)
    (hx : plainName x = true) (hy : plainName y = true) :
    fillTypeSize p (lineOf [[';'], "if".toList, ['('], "true".toList, [')'], x, [';'], "else".toList, y, [';']]) =
      builtinTypeSize p := by
  have fx := plainName_facts _ hx
  have fy := plainName_facts _ hy
  have gx := plainName_symm _ hx
  have gy := plainName_symm _ hy
  simp +decide (disch := decide) [lineOf, combineStrings, combineStringsFrom,
    removeUnwanted, deleteUnwanted, unwantedWords, foldSigns, foldSignsFrom, fillTypeSize,
    fillStructSizes, replaceSizeofVar, sizeofLoop, replaceSizeofArray, replaceConstants,
    simplifyCasts_step, simplifyCasts_nil, castBody, simplifyCalculations, calcLoop_step,
    calcLoop_nil, calcBody, calcTimesOne, calcFold, calcNumber, calcVariable,
    replacePointerSum, splitDeclarations, splitBody, splitPoint, setVarId, setVarIdLoop,
    setMemberIds, declareVariable, declaredName, markVariable, replaceNULL, removeNullCasts,
    markMember, setVarIdAt, simplifyIfAddBraces, addBracesBody, insertBraces, statementEnd,
    Token.inserted, simplifyFunctionParameters, getArguments, moveDeclarations, Token.replace,
    functionParametersBody, elseif, elseifBody, elseifEnd, insertCaseSemicolons, caseBody,
    simplifyConditions, conditionsBody, conditionsDelete, conditionsNumber,
    conditionsConnective, conditionsCompare, simplifyFunctionReturn, functionReturnBody,
    simplifyKnownVariables, knownVariablesBody, knownBlockBody, knownBody,
    removeReduntantConditions,
    redundantBody, redundantIf, redundantElse, findClosing, eraseTokens, indexAt, stepAt,
    stepBack, lastTagInIf, simplifyRedundantParanthesis, paranthesisBody, parenEnd, cursorLoop,
    Result.bind, Result.map, Result.ofOption, Match, MatchVarId, Atom.accepts, isString,
    isBool, simpleMatch, matchType, strchr, strAt, varIdAt, Token.aaaa0, getElem?_first,
    fx, fy, gx, gy, isName_not_number _ fx.1,
    isName_not_number _ fy.1, isName_ne_cons _ fx.1, isName_ne_cons _ fy.1,
    cons_ne_isName _ fx.1, cons_ne_isName _ fy.1, isName_head _ fx.1, isName_head _ fy.1]

set_option maxRecDepth 8000 in
set_option maxHeartbeats 4000000 in
/-- The pass `replaceSizeofVar` on a stream of the example `; if ( true ) x ; else y ;`. -/
theorem replaceSizeofVar_ifelse (x y : List Char)
    (hx : plainName x = true) (hy : plainName y = true) :
    replaceSizeofVar (lineOf [[';'], "if".toList, ['('], "true".toList, [')'], x, [';'], "else".toList, y, [';']]) =
      lineOf [[';'], "if".toList, ['('], "true".toList, [')'], x, [';'], "else".toList, y, [';']] := by
  have fx := plainName_facts _ hx
  have fy := plainName_facts _ hy
  have gx := plainName_symm _ hx
  have gy := plainName_symm _ hy
  simp +decide (disch := decide) [lineOf, combineStrings, combineStringsFrom,
    removeUnwanted, deleteUnwanted, unwantedWords, foldSigns, foldSignsFrom, fillTypeSize,
    fillStructSizes, replaceSizeofVar, sizeofLoop, replaceSizeofArray, replaceConstants,
    simplifyCasts_step, simplifyCasts_nil, castBody, simplifyCalculations, calcLoop_step,
    calcLoop_nil, calcBody, calcTimesOne, calcFold, calcNumber, calcVariable,
    replacePointerSum, splitDeclarations, splitBody, splitPoint, setVarId, setVarIdLoop,
    setMemberIds, declareVariable, declaredName, markVariable, replaceNULL, removeNullCasts,
    markMember, setVarIdAt, simplifyIfAddBraces, addBracesBody, insertBraces, statementEnd,
    Token.inserted, simplifyFunctionParameters, getArguments, moveDeclarations, Token.replace,
    functionParametersBody, elseif, elseifBody, elseifEnd, insertCaseSemicolons, caseBody,
    simplifyConditions, conditionsBody, conditionsDelete, conditionsNumber,
    conditionsConnective, conditionsCompare, simplifyFunctionReturn, functionReturnBody,
    simplifyKnownVariables, knownVariablesBody, knownBlockBody, knownBody,
    removeReduntantConditions,
    redundantBody, redundantIf, redundantElse, findClosing, eraseTokens, indexAt, stepAt,
    stepBack, lastTagInIf, simplifyRedundantParanthesis, paranthesisBody, parenEnd, cursorLoop,
    Result.bind, Result.map, Result.ofOption, Match, MatchVarId, Atom.accepts, isString,
    isBool, simpleMatch, matchType, strchr, strAt, varIdAt, Token.aaaa0, getElem?_first,
    fx, fy, gx, gy, isName_not_number _ fx.1,
    isName_not_number _ fy.1, isName_ne_cons _ fx.1, isName_ne_cons _ fy.1,
    cons_ne_isName _ fx.1, cons_ne_isName _ fy.1, isName_head _ fx.1, isName_head _ fy.1]

set_option maxRecDepth 8000 in
set_option maxHeartbeats 4000000 in
/-- The pass `sizeofLoop` on a stream of the example `; if ( true ) x ; else y ;`. -/
theorem sizeofLoop_ifelse (p : Platform) (x y : List Char)
    (hx : plainName x = true) (hy : plainName y = true) :
    sizeofLoop p (builtinTypeSize p) [] (lineOf [[';'], "if".toList, ['('], "true".toList, [')'], x, [';'], "else".toList, y, [';']]) =
      some (lineOf [[';'], "if".toList, ['('], "true".toList, [')'], x, [';'], "else".toList, y, [';']]) := by
  have fx := plainName_facts _ hx
  have fy := plainName_facts _ hy
  have gx := plainName_symm _ hx
  have gy := plainName_symm _ hy
  simp +decide (disch := decide) [lineOf, combineStrings, combineStringsFrom,
    removeUnwanted, deleteUnwanted, unwantedWords, foldSigns, foldSignsFrom, fillTypeSize,
    fillStructSizes, replaceSizeofVar, sizeofLoop, replaceSizeofArray, replaceConstants,
    simplifyCasts_step, simplifyCasts_nil, castBody, simplifyCalculations, calcLoop_step,
    calcLoop_nil, calcBody, calcTimesOne, calcFold, calcNumber, calcVariable,
    replacePointerSum, splitDeclarations, splitBody, splitPoint, setVarId, setVarIdLoop,
    setMemberIds, declareVariable, declaredName, markVariable, replaceNULL, removeNullCasts,
    markMember, setVarIdAt, simplifyIfAddBraces, addBracesBody, insertBraces, statementEnd,
    Token.inserted, simplifyFunctionParameters, getArguments, moveDeclarations, Token.replace,
    functionParametersBody, elseif, elseifBody, elseifEnd, insertCaseSemicolons, caseBody,
    simplifyConditions, conditionsBody, conditionsDelete, conditionsNumber,
    conditionsConnective, conditionsCompare, simplifyFunctionReturn, functionReturnBody,
    simplifyKnownVariables, knownVariablesBody, knownBlockBody, knownBody,
    removeReduntantConditions,
    redundantBody, redundantIf, redundantElse, findClosing, eraseTokens, indexAt, stepAt,
    stepBack, lastTagInIf, simplifyRedundantParanthesis, paranthesisBody, parenEnd, cursorLoop,
    Result.bind, Result.map, Result.ofOption, Match, MatchVarId, Atom.accepts, isString,
    isBool, simpleMatch, matchType, strchr, strAt, varIdAt, Token.aaaa0, getElem?_first,
    fx, fy, gx, gy, isName_not_number _ fx.1,
    isName_not_number _ fy.1, isName_ne_cons _ fx.1, isName_ne_cons _ fy.1,
    cons_ne_isName _ fx.1, cons_ne_isName _ fy.1, isName_head _ fx.1, isName_head _ fy.1]

set_option maxRecDepth 8000 in
set_option maxHeartbeats 4000000 in
/-- The pass `replaceSizeofArray` on a stream of the example `; if ( true ) x ; else y ;`. -/
theorem replaceSizeofArray_ifelse (p : Platform) (x y : List Char)
    (hx : plainName x = true) (hy : plainName y = true) :
    replaceSizeofArray p (builtinTypeSize p) (lineOf [[';'], "if".toList, ['('], "true".toList, [')'], x, [';'], "else".toList, y, [';']]) =
      some (lineOf [[';'], "if".toList, ['('], "true".toList, [')'], x, [';'], "else".toList, y, [';']]) := by
  have fx := plainName_facts _ hx
  have fy := plainName_facts _ hy
  have gx := plainName_symm _ hx
  have gy := plainName_symm _ hy
  simp +decide (disch := decide) [lineOf, combineStrings, combineStringsFrom,
    removeUnwanted, deleteUnwanted, unwantedWords, foldSigns, foldSignsFrom, fillTypeSize,
    fillStructSizes, replaceSizeofVar, sizeofLoop, replaceSizeofArray, replaceConstants,
    simplifyCasts_step, simplifyCasts_nil, castBody, simplifyCalculations, calcLoop_step,
    calcLoop_nil, calcBody, calcTimesOne, calcFold, calcNumber, calcVariable,
    replacePointerSum, splitDeclarations, splitBody, splitPoint, setVarId, setVarIdLoop,
    setMemberIds, declareVariable, declaredName, markVariable, replaceNULL, removeNullCasts,
    markMember, setVarIdAt, simplifyIfAddBraces, addBracesBody, insertBraces, statementEnd,
    Token.inserted, simplifyFunctionParameters, getArguments, moveDeclarations, Token.replace,
    functionParametersBody, elseif, elseifBody, elseifEnd, insertCaseSemicolons, caseBody,
    simplifyConditions, conditionsBody, conditionsDelete, conditionsNumber,
    conditionsConnective, conditionsCompare, simplifyFunctionReturn, functionReturnBody,
    simplifyKnownVariables, knownVariablesBody, knownBlockBody, knownBody,
    removeReduntantConditions,
    redundantBody, redundantIf, redundantElse, findClosing, eraseTokens, indexAt, stepAt,
    stepBack, lastTagInIf, simplifyRedundantParanthesis, paranthesisBody, parenEnd, cursorLoop,
    Result.bind, Result.map, Result.ofOption, Match, MatchVarId, Atom.accepts, isString,
    isBool, simpleMatch, matchType, strchr, strAt, varIdAt, Token.aaaa0, getElem?_first,
    fx, fy, gx, gy, isName_not_number _ fx.1,
    isName_not_number _ fy.1, isName_ne_cons _ fx.1, isName_ne_cons _ fy.1,
    cons_ne_isName _ fx.1, cons_ne_isName _ fy.1, isName_head _ fx.1, isName_head _ fy.1]

set_option maxRecDepth 8000 in
set_option maxHeartbeats 4000000 in
/-- The pass `replaceConstants` on a stream of the example `; if ( true ) x ; else y ;`. -/
theorem replaceConstants_ifelse (x y : List Char)
    (hx : plainName x = true) (hy : plainName y = true) :
    replaceConstants (lineOf [[';'], "if".toList, ['('], "true".toList, [')'], x, [';'], "else".toList, y, [';']]) =
      lineOf [[';'], "if".toList, ['('], "true".toList, [')'], x, [';'], "else".toList, y, [';']] := by
  have fx := plainName_facts _ hx
  have fy := plainName_facts _ hy
  have gx := plainName_symm _ hx
  have gy := plainName_symm _ hy
  simp +decide (disch := decide) [lineOf, combineStrings, combineStringsFrom,
    removeUnwanted, deleteUnwanted, unwantedWords, foldSigns, foldSignsFrom, fillTypeSize,
    fillStructSizes, replaceSizeofVar, sizeofLoop, replaceSizeofArray, replaceConstants,
    simplifyCasts_step, simplifyCasts_nil, castBody, simplifyCalculations, calcLoop_step,
    calcLoop_nil, calcBody, calcTimesOne, calcFold, calcNumber, calcVariable,
    replacePointerSum, splitDeclarations, splitBody, splitPoint, setVarId, setVarIdLoop,
    setMemberIds, declareVariable, declaredName, markVariable, replaceNULL, removeNullCasts,
    markMember, setVarIdAt, simplifyIfAddBraces, addBracesBody, insertBraces, statementEnd,
    Token.inserted, simplifyFunctionParameters, getArguments, moveDeclarations, Token.replace,
    functionParametersBody, elseif, elseifBody, elseifEnd, insertCaseSemicolons, caseBody,
    simplifyConditions, conditionsBody, conditionsDelete, conditionsNumber,
    conditionsConnective, conditionsCompare, simplifyFunctionReturn, functionReturnBody,
    simplifyKnownVariables, knownVariablesBody, knownBlockBody, knownBody,
    removeReduntantConditions,
    redundantBody, redundantIf, redundantElse, findClosing, eraseTokens, indexAt, stepAt,
    stepBack, lastTagInIf, simplifyRedundantParanthesis, paranthesisBody, parenEnd, cursorLoop,
    Result.bind, Result.map, Result.ofOption, Match, MatchVarId, Atom.accepts, isString,
    isBool, simpleMatch, matchType, strchr, strAt, varIdAt, Token.aaaa0, getElem?_first,
    fx, fy, gx, gy, isName_not_number _ fx.1,
    isName_not_number _ fy.1, isName_ne_cons _ fx.1, isName_ne_cons _ fy.1,
    cons_ne_isName _ fx.1, cons_ne_isName _ fy.1, isName_head _ fx.1, isName_head _ fy.1]

set_option maxRecDepth 8000 in
set_option maxHeartbeats 4000000 in
/-- The pass `simplifyCasts` on a stream of the example `; if ( true ) x ; else y ;`. -/
theorem simplifyCasts_ifelse (x y : List Char)
    (hx : plainName x = true) (hy : plainName y = true) :
    simplifyCasts (lineOf [[';'], "if".toList, ['('], "true".toList, [')'], x, [';'], "else".toList, y, [';']]) =
      some (lineOf [[';'], "if".toList, ['('], "true".toList, [')'], x, [';'], "else".toList, y, [';']]) := by
  have fx := plainName_facts _ hx
  have fy := plainName_facts _ hy
  have gx := plainName_symm _ hx
  have gy := plainName_symm _ hy
  simp +decide (disch := decide) [lineOf, combineStrings, combineStringsFrom,
    removeUnwanted, deleteUnwanted, unwantedWords, foldSigns, foldSignsFrom, fillTypeSize,
    fillStructSizes, replaceSizeofVar, sizeofLoop, replaceSizeofArray, replaceConstants,
    simplifyCasts_step, simplifyCasts_nil, castBody, simplifyCalculations, calcLoop_step,
    calcLoop_nil, calcBody, calcTimesOne, calcFold, calcNumber, calcVariable,
    replacePointerSum, splitDeclarations, splitBody, splitPoint, setVarId, setVarIdLoop,
    setMemberIds, declareVariable, declaredName, markVariable, replaceNULL, removeNullCasts,
    markMember, setVarIdAt, simplifyIfAddBraces, addBracesBody, insertBraces, statementEnd,
    Token.inserted, simplifyFunctionParameters, getArguments, moveDeclarations, Token.replace,
    functionParametersBody, elseif, elseifBody, elseifEnd, insertCaseSemicolons, caseBody,
    simplifyConditions, conditionsBody, conditionsDelete, conditionsNumber,
    conditionsConnective, conditionsCompare, simplifyFunctionReturn, functionReturnBody,
    simplifyKnownVariables, knownVariablesBody, knownBlockBody, knownBody,
    removeReduntantConditions,
    redundantBody, redundantIf, redundantElse, findClosing, eraseTokens, indexAt, stepAt,
    stepBack, lastTagInIf, simplifyRedundantParanthesis, paranthesisBody, parenEnd, cursorLoop,
    Result.bind, Result.map, Result.ofOption, Match, MatchVarId, Atom.accepts, isString,
    isBool, simpleMatch, matchType, strchr, strAt, varIdAt, Token.aaaa0, getElem?_first,
    fx, fy, gx, gy, isName_not_number _ fx.1,
    isName_not_number _ fy.1, isName_ne_cons _ fx.1, isName_ne_cons _ fy.1,
    cons_ne_isName _ fx.1, cons_ne_isName _ fy.1, isName_head _ fx.1, isName_head _ fy.1]

set_option maxRecDepth 8000 in
set_option maxHeartbeats 4000000 in
/-- The pass `simplifyCalculations` on a stream of the example `; if ( true ) x ; else y ;`. -/
theorem simplifyCalculations_ifelse (p : Platform) (x y : List Char)
    (hx : plainName x = true) (hy : plainName y = true) :
    simplifyCalculations p (lineOf [[';'], "if".toList, ['('], "true".toList, [')'], x, [';'], "else".toList, y, [';']]) =
      some (lineOf [[';'], "if".toList, ['('], "true".toList, [')'], x, [';'], "else".toList, y, [';']], false) := by
  have fx := plainName_facts _ hx
  have fy := plainName_facts _ hy
  have gx := plainName_symm _ hx
  have gy := plainName_symm _ hy
  simp +decide (disch := decide) [lineOf, combineStrings, combineStringsFrom,
    removeUnwanted, deleteUnwanted, unwantedWords, foldSigns, foldSignsFrom, fillTypeSize,
    fillStructSizes, replaceSizeofVar, sizeofLoop, replaceSizeofArray, replaceConstants,
    simplifyCasts_step, simplifyCasts_nil, castBody, simplifyCalculations, calcLoop_step,
    calcLoop_nil, calcBody, calcTimesOne, calcFold, calcNumber, calcVariable,
    replacePointerSum, splitDeclarations, splitBody, splitPoint, setVarId, setVarIdLoop,
    setMemberIds, declareVariable, declaredName, markVariable, replaceNULL, removeNullCasts,
    markMember, setVarIdAt, simplifyIfAddBraces, addBracesBody, insertBraces, statementEnd,
    Token.inserted, simplifyFunctionParameters, getArguments, moveDeclarations, Token.replace,
    functionParametersBody, elseif, elseifBody, elseifEnd, insertCaseSemicolons, caseBody,
    simplifyConditions, conditionsBody, conditionsDelete, conditionsNumber,
    conditionsConnective, conditionsCompare, simplifyFunctionReturn, functionReturnBody,
    simplifyKnownVariables, knownVariablesBody, knownBlockBody, knownBody,
    removeReduntantConditions,
    redundantBody, redundantIf, redundantElse, findClosing, eraseTokens, indexAt, stepAt,
    stepBack, lastTagInIf, simplifyRedundantParanthesis, paranthesisBody, parenEnd, cursorLoop,
    Result.bind, Result.map, Result.ofOption, Match, MatchVarId, Atom.accepts, isString,
    isBool, simpleMatch, matchType, strchr, strAt, varIdAt, Token.aaaa0, getElem?_first,
    fx, fy, gx, gy, isName_not_number _ fx.1,
    isName_not_number _ fy.1, isName_ne_cons _ fx.1, isName_ne_cons _ fy.1,
    cons_ne_isName _ fx.1, cons_ne_isName _ fy.1, isName_head _ fx.1, isName_head _ fy.1]

set_option maxRecDepth 8000 in
set_option maxHeartbeats 4000000 in
/-- The pass `replacePointerSum` on a stream of the example `; if ( true ) x ; else y ;`. -/
theorem replacePointerSum_ifelse (x y : List Char)
    (hx : plainName x = true) (hy : plainName y = true) :
    replacePointerSum (lineOf [[';'], "if".toList, ['('], "true".toList, [')'], x, [';'], "else".toList, y, [';']]) =
      lineOf [[';'], "if".toList, ['('], "true".toList, [')'], x, [';'], "else".toList, y, [';']] := by
  have fx := plainName_facts _ hx
  have fy := plainName_facts _ hy
  have gx := plainName_symm _ hx
  have gy := plainName_symm _ hy
  simp +decide (disch := decide) [lineOf, combineStrings, combineStringsFrom,
    removeUnwanted, deleteUnwanted, unwantedWords, foldSigns, foldSignsFrom, fillTypeSize,
    fillStructSizes, replaceSizeofVar, sizeofLoop, replaceSizeofArray, replaceConstants,
    simplifyCasts_step, simplifyCasts_nil, castBody, simplifyCalculations, calcLoop_step,
    calcLoop_nil, calcBody, calcTimesOne, calcFold, calcNumber, calcVariable,
    replacePointerSum, splitDeclarations, splitBody, splitPoint, setVarId, setVarIdLoop,
    setMemberIds, declareVariable, declaredName, markVariable, replaceNULL, removeNullCasts,
    markMember, setVarIdAt, simplifyIfAddBraces, addBracesBody, insertBraces, statementEnd,
    Token.inserted, simplifyFunctionParameters, getArguments, moveDeclarations, Token.replace,
    functionParametersBody, elseif, elseifBody, elseifEnd, insertCaseSemicolons, caseBody,
    simplifyConditions, conditionsBody, conditionsDelete, conditionsNumber,
    conditionsConnective, conditionsCompare, simplifyFunctionReturn, functionReturnBody,
    simplifyKnownVariables, knownVariablesBody, knownBlockBody, knownBody,
    removeReduntantConditions,
    redundantBody, redundantIf, redundantElse, findClosing, eraseTokens, indexAt, stepAt,
    stepBack, lastTagInIf, simplifyRedundantParanthesis, paranthesisBody, parenEnd, cursorLoop,
    Result.bind, Result.map, Result.ofOption, Match, MatchVarId, Atom.accepts, isString,
    isBool, simpleMatch, matchType, strchr, strAt, varIdAt, Token.aaaa0, getElem?_first,
    fx, fy, gx, gy, isName_not_number _ fx.1,
    isName_not_number _ fy.1, isName_ne_cons _ fx.1, isName_ne_cons _ fy.1,
    cons_ne_isName _ fx.1, cons_ne_isName _ fy.1, isName_head _ fx.1, isName_head _ fy.1]

set_option maxRecDepth 8000 in
set_option maxHeartbeats 4000000 in
/-- The pass `splitDeclarations` on a stream of the example `; if ( true ) x ; else y ;`. -/
theorem splitDeclarations_ifelse (m : Nat) (x y : List Char)
    (hx : plainName x = true) (hy : plainName y = true) :
    splitDeclarations (m + 14) (lineOf [[';'], "if".toList, ['('], "true".toList, [')'], x, [';'], "else".toList, y, [';']]) =
      .ok (lineOf [[';'], "if".toList, ['('], "true".toList, [')'], x, [';'], "else".toList, y, [';']]) := by
  have fx := plainName_facts _ hx
  have fy := plainName_facts _ hy
  have gx := plainName_symm _ hx
  have gy := plainName_symm _ hy
  simp +decide (disch := decide) [lineOf, combineStrings, combineStringsFrom,
    removeUnwanted, deleteUnwanted, unwantedWords, foldSigns, foldSignsFrom, fillTypeSize,
    fillStructSizes, replaceSizeofVar, sizeofLoop, replaceSizeofArray, replaceConstants,
    simplifyCasts_step, simplifyCasts_nil, castBody, simplifyCalculations, calcLoop_step,
    calcLoop_nil, calcBody, calcTimesOne, calcFold, calcNumber, calcVariable,
    replacePointerSum, splitDeclarations, splitBody, splitPoint, setVarId, setVarIdLoop,
    setMemberIds, declareVariable, declaredName, markVariable, replaceNULL, removeNullCasts,
    markMember, setVarIdAt, simplifyIfAddBraces, addBracesBody, insertBraces, statementEnd,
    Token.inserted, simplifyFunctionParameters, getArguments, moveDeclarations, Token.replace,
    functionParametersBody, elseif, elseifBody, elseifEnd, insertCaseSemicolons, caseBody,
    simplifyConditions, conditionsBody, conditionsDelete, conditionsNumber,
    conditionsConnective, conditionsCompare, simplifyFunctionReturn, functionReturnBody,
    simplifyKnownVariables, knownVariablesBody, knownBlockBody, knownBody,
    removeReduntantConditions,
    redundantBody, redundantIf, redundantElse, findClosing, eraseTokens, indexAt, stepAt,
    stepBack, lastTagInIf, simplifyRedundantParanthesis, paranthesisBody, parenEnd, cursorLoop,
    Result.bind, Result.map, Result.ofOption, Match, MatchVarId, Atom.accepts, isString,
    isBool, simpleMatch, matchType, strchr, strAt, varIdAt, Token.aaaa0, getElem?_first,
    fx, fy, gx, gy, isName_not_number _ fx.1,
    isName_not_number _ fy.1, isName_ne_cons _ fx.1, isName_ne_cons _ fy.1,
    cons_ne_isName _ fx.1, cons_ne_isName _ fy.1, isName_head _ fx.1, isName_head _ fy.1]

set_option maxRecDepth 8000 in
set_option maxHeartbeats 4000000 in
/-- The pass `setVarId` on a stream of the example `; if ( true ) x ; else y ;`. -/
theorem setVarId_ifelse (x y : List Char)
    (hx : plainName x = true) (hy : plainName y = true) :
    removeNullCasts (replaceNULL (setVarId (lineOf [[';'], "if".toList, ['('], "true".toList, [')'], x, [';'], "else".toList, y, [';']]))) =
      lineOf [[';'], "if".toList, ['('], "true".toList, [')'], x, [';'], "else".toList, y, [';']] := by
  have fx := plainName_facts _ hx
  have fy := plainName_facts _ hy
  have gx := plainName_symm _ hx
  have gy := plainName_symm _ hy
  simp +decide (disch := decide) [lineOf, combineStrings, combineStringsFrom,
    removeUnwanted, deleteUnwanted, unwantedWords, foldSigns, foldSignsFrom, fillTypeSize,
    fillStructSizes, replaceSizeofVar, sizeofLoop, replaceSizeofArray, replaceConstants,
    simplifyCasts_step, simplifyCasts_nil, castBody, simplifyCalculations, calcLoop_step,
    calcLoop_nil, calcBody, calcTimesOne, calcFold, calcNumber, calcVariable,
    replacePointerSum, splitDeclarations, splitBody, splitPoint, setVarId, setVarIdLoop,
    setMemberIds, declareVariable, declaredName, markVariable, replaceNULL, removeNullCasts,
    markMember, setVarIdAt, simplifyIfAddBraces, addBracesBody, insertBraces, statementEnd,
    Token.inserted, simplifyFunctionParameters, getArguments, moveDeclarations, Token.replace,
    functionParametersBody, elseif, elseifBody, elseifEnd, insertCaseSemicolons, caseBody,
    simplifyConditions, conditionsBody, conditionsDelete, conditionsNumber,
    conditionsConnective, conditionsCompare, simplifyFunctionReturn, functionReturnBody,
    simplifyKnownVariables, knownVariablesBody, knownBlockBody, knownBody,
    removeReduntantConditions,
    redundantBody, redundantIf, redundantElse, findClosing, eraseTokens, indexAt, stepAt,
    stepBack, lastTagInIf, simplifyRedundantParanthesis, paranthesisBody, parenEnd, cursorLoop,
    Result.bind, Result.map, Result.ofOption, Match, MatchVarId, Atom.accepts, isString,
    isBool, simpleMatch, matchType, strchr, strAt, varIdAt, Token.aaaa0, getElem?_first,
    fx, fy, gx, gy, isName_not_number _ fx.1,
    isName_not_number _ fy.1, isName_ne_cons _ fx.1, isName_ne_cons _ fy.1,
    cons_ne_isName _ fx.1, cons_ne_isName _ fy.1, isName_head _ fx.1, isName_head _ fy.1]

set_option maxRecDepth 8000 in
set_option maxHeartbeats 4000000 in
/-- The pass `simplifyIfAddBraces` on a stream of the example `; if ( true ) x ; else y ;`. -/
theorem simplifyIfAddBraces_ifelse (m : Nat) (x y : List Char)
    (hx : plainName x = true) (hy : plainName y = true) :
    simplifyIfAddBraces (m + 14) (lineOf [[';'], "if".toList, ['('], "true".toList, [')'], x, [';'], "else".toList, y, [';']]) =
      .ok (lineOf [[';'], "if".toList, ['('], "true".toList, [')'], ['{'], x, [';'], ['}'], "else".toList, ['{'], y, [';'], ['}']], true) := by
  have fx := plainName_facts _ hx
  have fy := plainName_facts _ hy
  have gx := plainName_symm _ hx
  have gy := plainName_symm _ hy
  simp +decide (disch := decide) [lineOf, combineStrings, combineStringsFrom,
    removeUnwanted, deleteUnwanted, unwantedWords, foldSigns, foldSignsFrom, fillTypeSize,
    fillStructSizes, replaceSizeofVar, sizeofLoop, replaceSizeofArray, replaceConstants,
    simplifyCasts_step, simplifyCasts_nil, castBody, simplifyCalculations, calcLoop_step,
    calcLoop_nil, calcBody, calcTimesOne, calcFold, calcNumber, calcVariable,
    replacePointerSum, splitDeclarations, splitBody, splitPoint, setVarId, setVarIdLoop,
    setMemberIds, declareVariable, declaredName, markVariable, replaceNULL, removeNullCasts,
    markMember, setVarIdAt, simplifyIfAddBraces, addBracesBody, insertBraces, statementEnd,
    Token.inserted, simplifyFunctionParameters, getArguments, moveDeclarations, Token.replace,
    functionParametersBody, elseif, elseifBody, elseifEnd, insertCaseSemicolons, caseBody,
    simplifyConditions, conditionsBody, conditionsDelete, conditionsNumber,
    conditionsConnective, conditionsCompare, simplifyFunctionReturn, functionReturnBody,
    simplifyKnownVariables, knownVariablesBody, knownBlockBody, knownBody,
    removeReduntantConditions,
    redundantBody, redundantIf, redundantElse, findClosing, eraseTokens, indexAt, stepAt,
    stepBack, lastTagInIf, simplifyRedundantParanthesis, paranthesisBody, parenEnd, cursorLoop,
    Result.bind, Result.map, Result.ofOption, Match, MatchVarId, Atom.accepts, isString,
    isBool, simpleMatch, matchType, strchr, strAt, varIdAt, Token.aaaa0, getElem?_first,
    fx, fy, gx, gy, isName_not_number _ fx.1,
    isName_not_number _ fy.1, isName_ne_cons _ fx.1, isName_ne_cons _ fy.1,
    cons_ne_isName _ fx.1, cons_ne_isName _ fy.1, isName_head _ fx.1, isName_head _ fy.1]

set_option maxRecDepth 8000 in
set_option maxHeartbeats 4000000 in
/-- The pass `simplifyFunctionParameters` on a stream of the example `; if ( true ) x ; else y ;`. -/
theorem simplifyFunctionParameters_braced (m : Nat) (x y : List Char)
    (hx : plainName x = true) (hy : plainName y = true) :
    simplifyFunctionParameters (m + 14) (lineOf [[';'], "if".toList, ['('], "true".toList, [')'], ['{'], x, [';'], ['}'], "else".toList, ['{'], y, [';'], ['}']]) =
      .ok (lineOf [[';'], "if".toList, ['('], "true".toList, [')'], ['{'], x, [';'], ['}'], "else".toList, ['{'], y, [';'], ['}']], false) := by
  have fx := plainName_facts _ hx
  have fy := plainName_facts _ hy
  have gx := plainName_symm _ hx
  have gy := plainName_symm _ hy
  simp +decide (disch := decide) [lineOf, combineStrings, combineStringsFrom,
    removeUnwanted, deleteUnwanted, unwantedWords, foldSigns, foldSignsFrom, fillTypeSize,
    fillStructSizes, replaceSizeofVar, sizeofLoop, replaceSizeofArray, replaceConstants,
    simplifyCasts_step, simplifyCasts_nil, castBody, simplifyCalculations, calcLoop_step,
    calcLoop_nil, calcBody, calcTimesOne, calcFold, calcNumber, calcVariable,
    replacePointerSum, splitDeclarations, splitBody, splitPoint, setVarId, setVarIdLoop,
    setMemberIds, declareVariable, declaredName, markVariable, replaceNULL, removeNullCasts,
    markMember, setVarIdAt, simplifyIfAddBraces, addBracesBody, insertBraces, statementEnd,
    Token.inserted, simplifyFunctionParameters, getArguments, moveDeclarations, Token.replace,
    functionParametersBody, elseif, elseifBody, elseifEnd, insertCaseSemicolons, caseBody,
    simplifyConditions, conditionsBody, conditionsDelete, conditionsNumber,
    conditionsConnective, conditionsCompare, simplifyFunctionReturn, functionReturnBody,
    simplifyKnownVariables, knownVariablesBody, knownBlockBody, knownBody,
    removeReduntantConditions,
    redundantBody, redundantIf, redundantElse, findClosing, eraseTokens, indexAt, stepAt,
    stepBack, lastTagInIf, simplifyRedundantParanthesis, paranthesisBody, parenEnd, cursorLoop,
    Result.bind, Result.map, Result.ofOption, Match, MatchVarId, Atom.accepts, isString,
    isBool, simpleMatch, matchType, strchr, strAt, varIdAt, Token.aaaa0, getElem?_first,
    fx, fy, gx, gy, isName_not_number _ fx.1,
    isName_not_number _ fy.1, isName_ne_cons _ fx.1, isName_ne_cons _ fy.1,
    cons_ne_isName _ fx.1, cons_ne_isName _ fy.1, isName_head _ fx.1, isName_head _ fy.1]

set_option maxRecDepth 8000 in
set_option maxHeartbeats 4000000 in
/-- The pass `elseif` on a stream of the example `; if ( true ) x ; else y ;`. -/
theorem elseif_braced (m : Nat) (x y : List Char)
    (hx : plainName x = true) (hy : plainName y = true) :
    elseif (m + 14) (lineOf [[';'], "if".toList, ['('], "true".toList, [')'], ['{'], x, [';'], ['}'], "else".toList, ['{'], y, [';'], ['}']]) =
      .ok (lineOf [[';'], "if".toList, ['('], "true".toList, [')'], ['{'], x, [';'], ['}'], "else".toList, ['{'], y, [';'], ['}']], false) := by
  have fx := plainName_facts _ hx
  have fy := plainName_facts _ hy
  have gx := plainName_symm _ hx
  have gy := plainName_symm _ hy
  simp +decide (disch := decide) [lineOf, combineStrings, combineStringsFrom,
    removeUnwanted, deleteUnwanted, unwantedWords, foldSigns, foldSignsFrom, fillTypeSize,
    fillStructSizes, replaceSizeofVar, sizeofLoop, replaceSizeofArray, replaceConstants,
    simplifyCasts_step, simplifyCasts_nil, castBody, simplifyCalculations, calcLoop_step,
    calcLoop_nil, calcBody, calcTimesOne, calcFold, calcNumber, calcVariable,
    replacePointerSum, splitDeclarations, splitBody, splitPoint, setVarId, setVarIdLoop,
    setMemberIds, declareVariable, declaredName, markVariable, replaceNULL, removeNullCasts,
    markMember, setVarIdAt, simplifyIfAddBraces, addBracesBody, insertBraces, statementEnd,
    Token.inserted, simplifyFunctionParameters, getArguments, moveDeclarations, Token.replace,
    functionParametersBody, elseif, elseifBody, elseifEnd, insertCaseSemicolons, caseBody,
    simplifyConditions, conditionsBody, conditionsDelete, conditionsNumber,
    conditionsConnective, conditionsCompare, simplifyFunctionReturn, functionReturnBody,
    simplifyKnownVariables, knownVariablesBody, knownBlockBody, knownBody,
    removeReduntantConditions,
    redundantBody, redundantIf, redundantElse, findClosing, eraseTokens, indexAt, stepAt,
    stepBack, lastTagInIf, simplifyRedundantParanthesis, paranthesisBody, parenEnd, cursorLoop,
    Result.bind, Result.map, Result.ofOption, Match, MatchVarId, Atom.accepts, isString,
    isBool, simpleMatch, matchType, strchr, strAt, varIdAt, Token.aaaa0, getElem?_first,
    fx, fy, gx, gy, isName_not_number _ fx.1,
    isName_not_number _ fy.1, isName_ne_cons _ fx.1, isName_ne_cons _ fy.1,
    cons_ne_isName _ fx.1, cons_ne_isName _ fy.1, isName_head _ fx.1, isName_head _ fy.1]

set_option maxRecDepth 8000 in
set_option maxHeartbeats 4000000 in
/-- The pass `insertCaseSemicolons` on a stream of the example `; if ( true ) x ; else y ;`. -/
theorem insertCaseSemicolons_braced (m : Nat) (x y : List Char)
    (hx : plainName x = true) (hy : plainName y = true) :
    insertCaseSemicolons (m + 14) (lineOf [[';'], "if".toList, ['('], "true".toList, [')'], ['{'], x, [';'], ['}'], "else".toList, ['{'], y, [';'], ['}']]) =
      .ok (lineOf [[';'], "if".toList, ['('], "true".toList, [')'], ['{'], x, [';'], ['}'], "else".toList, ['{'], y, [';'], ['}']]) := by
  have fx := plainName_facts _ hx
  have fy := plainName_facts _ hy
  have gx := plainName_symm _ hx
  have gy := plainName_symm _ hy
  simp +decide (disch := decide) [lineOf, combineStrings, combineStringsFrom,
    removeUnwanted, deleteUnwanted, unwantedWords, foldSigns, foldSignsFrom, fillTypeSize,
    fillStructSizes, replaceSizeofVar, sizeofLoop, replaceSizeofArray, replaceConstants,
    simplifyCasts_step, simplifyCasts_nil, castBody, simplifyCalculations, calcLoop_step,
    calcLoop_nil, calcBody, calcTimesOne, calcFold, calcNumber, calcVariable,
    replacePointerSum, splitDeclarations, splitBody, splitPoint, setVarId, setVarIdLoop,
    setMemberIds, declareVariable, declaredName, markVariable, replaceNULL, removeNullCasts,
    markMember, setVarIdAt, simplifyIfAddBraces, addBracesBody, insertBraces, statementEnd,
    Token.inserted, simplifyFunctionParameters, getArguments, moveDeclarations, Token.replace,
    functionParametersBody, elseif, elseifBody, elseifEnd, insertCaseSemicolons, caseBody,
    simplifyConditions, conditionsBody, conditionsDelete, conditionsNumber,
    conditionsConnective, conditionsCompare, simplifyFunctionReturn, functionReturnBody,
    simplifyKnownVariables, knownVariablesBody, knownBlockBody, knownBody,
    removeReduntantConditions,
    redundantBody, redundantIf, redundantElse, findClosing, eraseTokens, indexAt, stepAt,
    stepBack, lastTagInIf, simplifyRedundantParanthesis, paranthesisBody, parenEnd, cursorLoop,
    Result.bind, Result.map, Result.ofOption, Match, MatchVarId, Atom.accepts, isString,
    isBool, simpleMatch, matchType, strchr, strAt, varIdAt, Token.aaaa0, getElem?_first,
    fx, fy, gx, gy, isName_not_number _ fx.1,
    isName_not_number _ fy.1, isName_ne_cons _ fx.1, isName_ne_cons _ fy.1,
    cons_ne_isName _ fx.1, cons_ne_isName _ fy.1, isName_head _ fx.1, isName_head _ fy.1]

set_option maxRecDepth 8000 in
set_option maxHeartbeats 4000000 in
/-- The pass `simplifyConditions` on a stream of the example `; if ( true ) x ; else y ;`. -/
theorem simplifyConditions_braced (p : Platform) (m : Nat) (x y : List Char)
    (hx : plainName x = true) (hy : plainName y = true) :
    simplifyConditions p (m + 14) (lineOf [[';'], "if".toList, ['('], "true".toList, [')'], ['{'], x, [';'], ['}'], "else".toList, ['{'], y, [';'], ['}']]) =
      .ok (lineOf [[';'], "if".toList, ['('], "true".toList, [')'], ['{'], x, [';'], ['}'], "else".toList, ['{'], y, [';'], ['}']], false) := by
  have fx := plainName_facts _ hx
  have fy := plainName_facts _ hy
  have gx := plainName_symm _ hx
  have gy := plainName_symm _ hy
  simp +decide (disch := decide) [lineOf, combineStrings, combineStringsFrom,
    removeUnwanted, deleteUnwanted, unwantedWords, foldSigns, foldSignsFrom, fillTypeSize,
    fillStructSizes, replaceSizeofVar, sizeofLoop, replaceSizeofArray, replaceConstants,
    simplifyCasts_step, simplifyCasts_nil, castBody, simplifyCalculations, calcLoop_step,
    calcLoop_nil, calcBody, calcTimesOne, calcFold, calcNumber, calcVariable,
    replacePointerSum, splitDeclarations, splitBody, splitPoint, setVarId, setVarIdLoop,
    setMemberIds, declareVariable, declaredName, markVariable, replaceNULL, removeNullCasts,
    markMember, setVarIdAt, simplifyIfAddBraces, addBracesBody, insertBraces, statementEnd,
    Token.inserted, simplifyFunctionParameters, getArguments, moveDeclarations, Token.replace,
    functionParametersBody, elseif, elseifBody, elseifEnd, insertCaseSemicolons, caseBody,
    simplifyConditions, conditionsBody, conditionsDelete, conditionsNumber,
    conditionsConnective, conditionsCompare, simplifyFunctionReturn, functionReturnBody,
    simplifyKnownVariables, knownVariablesBody, knownBlockBody, knownBody,
    removeReduntantConditions,
    redundantBody, redundantIf, redundantElse, findClosing, eraseTokens, indexAt, stepAt,
    stepBack, lastTagInIf, simplifyRedundantParanthesis, paranthesisBody, parenEnd, cursorLoop,
    Result.bind, Result.map, Result.ofOption, Match, MatchVarId, Atom.accepts, isString,
    isBool, simpleMatch, matchType, strchr, strAt, varIdAt, Token.aaaa0, getElem?_first,
    fx, fy, gx, gy, isName_not_number _ fx.1,
    isName_not_number _ fy.1, isName_ne_cons _ fx.1, isName_ne_cons _ fy.1,
    cons_ne_isName _ fx.1, cons_ne_isName _ fy.1, isName_head _ fx.1, isName_head _ fy.1]

set_option maxRecDepth 8000 in
set_option maxHeartbeats 4000000 in
/-- The pass `simplifyFunctionReturn` on a stream of the example `; if ( true ) x ; else y ;`. -/
theorem simplifyFunctionReturn_braced (m : Nat) (x y : List Char)
    (hx : plainName x = true) (hy : plainName y = true) :
    simplifyFunctionReturn (m + 14) (lineOf [[';'], "if".toList, ['('], "true".toList, [')'], ['{'], x, [';'], ['}'], "else".toList, ['{'], y, [';'], ['}']]) =
      .ok (lineOf [[';'], "if".toList, ['('], "true".toList, [')'], ['{'], x, [';'], ['}'], "else".toList, ['{'], y, [';'], ['}']], false) := by
  have fx := plainName_facts _ hx
  have fy := plainName_facts _ hy
  have gx := plainName_symm _ hx
  have gy := plainName_symm _ hy
  simp +decide (disch := decide) [lineOf, combineStrings, combineStringsFrom,
    removeUnwanted, deleteUnwanted, unwantedWords, foldSigns, foldSignsFrom, fillTypeSize,
    fillStructSizes, replaceSizeofVar, sizeofLoop, replaceSizeofArray, replaceConstants,
    simplifyCasts_step, simplifyCasts_nil, castBody, simplifyCalculations, calcLoop_step,
    calcLoop_nil, calcBody, calcTimesOne, calcFold, calcNumber, calcVariable,
    replacePointerSum, splitDeclarations, splitBody, splitPoint, setVarId, setVarIdLoop,
    setMemberIds, declareVariable, declaredName, markVariable, replaceNULL, removeNullCasts,
    markMember, setVarIdAt, simplifyIfAddBraces, addBracesBody, insertBraces, statementEnd,
    Token.inserted, simplifyFunctionParameters, getArguments, moveDeclarations, Token.replace,
    functionParametersBody, elseif, elseifBody, elseifEnd, insertCaseSemicolons, caseBody,
    simplifyConditions, conditionsBody, conditionsDelete, conditionsNumber,
    conditionsConnective, conditionsCompare, simplifyFunctionReturn, functionReturnBody,
    simplifyKnownVariables, knownVariablesBody, knownBlockBody, knownBody,
    removeReduntantConditions,
    redundantBody, redundantIf, redundantElse, findClosing, eraseTokens, indexAt, stepAt,
    stepBack, lastTagInIf, simplifyRedundantParanthesis, paranthesisBody, parenEnd, cursorLoop,
    Result.bind, Result.map, Result.ofOption, Match, MatchVarId, Atom.accepts, isString,
    isBool, simpleMatch, matchType, strchr, strAt, varIdAt, Token.aaaa0, getElem?_first,
    fx, fy, gx, gy, isName_not_number _ fx.1,
    isName_not_number _ fy.1, isName_ne_cons _ fx.1, isName_ne_cons _ fy.1,
    cons_ne_isName _ fx.1, cons_ne_isName _ fy.1, isName_head _ fx.1, isName_head _ fy.1]

set_option maxRecDepth 8000 in
set_option maxHeartbeats 4000000 in
/-- The pass `simplifyKnownVariables` on a stream of the example `; if ( true ) x ; else y ;`. -/
theorem simplifyKnownVariables_braced (p : Platform) (m : Nat) (x y : List Char)
    (hx : plainName x = true) (hy : plainName y = true) :
    simplifyKnownVariables p (m + 14) (lineOf [[';'], "if".toList, ['('], "true".toList, [')'], ['{'], x, [';'], ['}'], "else".toList, ['{'], y, [';'], ['}']]) =
      .ok (lineOf [[';'], "if".toList, ['('], "true".toList, [')'], ['{'], x, [';'], ['}'], "else".toList, ['{'], y, [';'], ['}']], false) := by
  have fx := plainName_facts _ hx
  have fy := plainName_facts _ hy
  have gx := plainName_symm _ hx
  have gy := plainName_symm _ hy
  simp +decide (disch := decide) [lineOf, combineStrings, combineStringsFrom,
    removeUnwanted, deleteUnwanted, unwantedWords, foldSigns, foldSignsFrom, fillTypeSize,
    fillStructSizes, replaceSizeofVar, sizeofLoop, replaceSizeofArray, replaceConstants,
    simplifyCasts_step, simplifyCasts_nil, castBody, simplifyCalculations, calcLoop_step,
    calcLoop_nil, calcBody, calcTimesOne, calcFold, calcNumber, calcVariable,
    replacePointerSum, splitDeclarations, splitBody, splitPoint, setVarId, setVarIdLoop,
    setMemberIds, declareVariable, declaredName, markVariable, replaceNULL, removeNullCasts,
    markMember, setVarIdAt, simplifyIfAddBraces, addBracesBody, insertBraces, statementEnd,
    Token.inserted, simplifyFunctionParameters, getArguments, moveDeclarations, Token.replace,
    functionParametersBody, elseif, elseifBody, elseifEnd, insertCaseSemicolons, caseBody,
    simplifyConditions, conditionsBody, conditionsDelete, conditionsNumber,
    conditionsConnective, conditionsCompare, simplifyFunctionReturn, functionReturnBody,
    simplifyKnownVariables, knownVariablesBody, knownBlockBody, knownBody,
    removeReduntantConditions,
    redundantBody, redundantIf, redundantElse, findClosing, eraseTokens, indexAt, stepAt,
    stepBack, lastTagInIf, simplifyRedundantParanthesis, paranthesisBody, parenEnd, cursorLoop,
    Result.bind, Result.map, Result.ofOption, Match, MatchVarId, Atom.accepts, isString,
    isBool, simpleMatch, matchType, strchr, strAt, varIdAt, Token.aaaa0, getElem?_first,
    fx, fy, gx, gy, isName_not_number _ fx.1,
    isName_not_number _ fy.1, isName_ne_cons _ fx.1, isName_ne_cons _ fy.1,
    cons_ne_isName _ fx.1, cons_ne_isName _ fy.1, isName_head _ fx.1, isName_head _ fy.1]

set_option maxRecDepth 8000 in
set_option maxHeartbeats 4000000 in
/-- The pass `removeReduntantConditions` on a stream of the example `; if ( true ) x ; else y ;`. -/
theorem removeReduntantConditions_braced (m : Nat) (x y : List Char)
    (hx : plainName x = true) (hy : plainName y = true) :
    removeReduntantConditions (m + 14) (lineOf [[';'], "if".toList, ['('], "true".toList, [')'], ['{'], x, [';'], ['}'], "else".toList, ['{'], y, [';'], ['}']]) =
      .ok (lineOf [[';'], ['{'], x, [';'], ['}']], true) := by
  have fx := plainName_facts _ hx
  have fy := plainName_facts _ hy
  have gx := plainName_symm _ hx
  have gy := plainName_symm _ hy
  simp +decide (disch := decide) [lineOf, combineStrings, combineStringsFrom,
    removeUnwanted, deleteUnwanted, unwantedWords, foldSigns, foldSignsFrom, fillTypeSize,
    fillStructSizes, replaceSizeofVar, sizeofLoop, replaceSizeofArray, replaceConstants,
    simplifyCasts_step, simplifyCasts_nil, castBody, simplifyCalculations, calcLoop_step,
    calcLoop_nil, calcBody, calcTimesOne, calcFold, calcNumber, calcVariable,
    replacePointerSum, splitDeclarations, splitBody, splitPoint, setVarId, setVarIdLoop,
    setMemberIds, declareVariable, declaredName, markVariable, replaceNULL, removeNullCasts,
    markMember, setVarIdAt, simplifyIfAddBraces, addBracesBody, insertBraces, statementEnd,
    Token.inserted, simplifyFunctionParameters, getArguments, moveDeclarations, Token.replace,
    functionParametersBody, elseif, elseifBody, elseifEnd, insertCaseSemicolons, caseBody,
    simplifyConditions, conditionsBody, conditionsDelete, conditionsNumber,
    conditionsConnective, conditionsCompare, simplifyFunctionReturn, functionReturnBody,
    simplifyKnownVariables, knownVariablesBody, knownBlockBody, knownBody,
    removeReduntantConditions,
    redundantBody, redundantIf, redundantElse, findClosing, eraseTokens, indexAt, stepAt,
    stepBack, lastTagInIf, simplifyRedundantParanthesis, paranthesisBody, parenEnd, cursorLoop,
    Result.bind, Result.map, Result.ofOption, Match, MatchVarId, Atom.accepts, isString,
    isBool, simpleMatch, matchType, strchr, strAt, varIdAt, Token.aaaa0, getElem?_first,
    fx, fy, gx, gy, isName_not_number _ fx.1,
    isName_not_number _ fy.1, isName_ne_cons _ fx.1, isName_ne_cons _ fy.1,
    cons_ne_isName _ fx.1, cons_ne_isName _ fy.1, isName_head _ fx.1, isName_head _ fy.1]

set_option maxRecDepth 8000 in
set_option maxHeartbeats 4000000 in
/-- The pass `simplifyRedundantParanthesis` on a stream of the example `; if ( true ) x ; else y ;`. -/
theorem simplifyRedundantParanthesis_kept (m : Nat) (x y : List Char)
    (hx : plainName x = true) (hy : plainName y = true) :
    simplifyRedundantParanthesis (m + 14) (lineOf [[';'], ['{'], x, [';'], ['}']]) =
      .ok (lineOf [[';'], ['{'], x, [';'], ['}']], false) := by
  have fx := plainName_facts _ hx
  have fy := plainName_facts _ hy
  have gx := plainName_symm _ hx
  have gy := plainName_symm _ hy
  simp +decide (disch := decide) [lineOf, combineStrings, combineStringsFrom,
    removeUnwanted, deleteUnwanted, unwantedWords, foldSigns, foldSignsFrom, fillTypeSize,
    fillStructSizes, replaceSizeofVar, sizeofLoop, replaceSizeofArray, replaceConstants,
    simplifyCasts_step, simplifyCasts_nil, castBody, simplifyCalculations, calcLoop_step,
    calcLoop_nil, calcBody, calcTimesOne, calcFold, calcNumber, calcVariable,
    replacePointerSum, splitDeclarations, splitBody, splitPoint, setVarId, setVarIdLoop,
    setMemberIds, declareVariable, declaredName, markVariable, replaceNULL, removeNullCasts,
    markMember, setVarIdAt, simplifyIfAddBraces, addBracesBody, insertBraces, statementEnd,
    Token.inserted, simplifyFunctionParameters, getArguments, moveDeclarations, Token.replace,
    functionParametersBody, elseif, elseifBody, elseifEnd, insertCaseSemicolons, caseBody,
    simplifyConditions, conditionsBody, conditionsDelete, conditionsNumber,
    conditionsConnective, conditionsCompare, simplifyFunctionReturn, functionReturnBody,
    simplifyKnownVariables, knownVariablesBody, knownBlockBody, knownBody,
    removeReduntantConditions,
    redundantBody, redundantIf, redundantElse, findClosing, eraseTokens, indexAt, stepAt,
    stepBack, lastTagInIf, simplifyRedundantParanthesis, paranthesisBody, parenEnd, cursorLoop,
    Result.bind, Result.map, Result.ofOption, Match, MatchVarId, Atom.accepts, isString,
    isBool, simpleMatch, matchType, strchr, strAt, varIdAt, Token.aaaa0, getElem?_first,
    fx, fy, gx, gy, isName_not_number _ fx.1,
    isName_not_number _ fy.1, isName_ne_cons _ fx.1, isName_ne_cons _ fy.1,
    cons_ne_isName _ fx.1, cons_ne_isName _ fy.1, isName_head _ fx.1, isName_head _ fy.1]

set_option maxRecDepth 8000 in
set_option maxHeartbeats 4000000 in
/-- The pass `simplifyCalculations` on a stream of the example `; if ( true ) x ; else y ;`. -/
theorem simplifyCalculations_kept (p : Platform) (x y : List Char)
    (hx : plainName x = true) (hy : plainName y = true) :
    simplifyCalculations p (lineOf [[';'], ['{'], x, [';'], ['}']]) =
      some (lineOf [[';'], ['{'], x, [';'], ['}']], false) := by
  have fx := plainName_facts _ hx
  have fy := plainName_facts _ hy
  have gx := plainName_symm _ hx
  have gy := plainName_symm _ hy
  simp +decide (disch := decide) [lineOf, combineStrings, combineStringsFrom,
    removeUnwanted, deleteUnwanted, unwantedWords, foldSigns, foldSignsFrom, fillTypeSize,
    fillStructSizes, replaceSizeofVar, sizeofLoop, replaceSizeofArray, replaceConstants,
    simplifyCasts_step, simplifyCasts_nil, castBody, simplifyCalculations, calcLoop_step,
    calcLoop_nil, calcBody, calcTimesOne, calcFold, calcNumber, calcVariable,
    replacePointerSum, splitDeclarations, splitBody, splitPoint, setVarId, setVarIdLoop,
    setMemberIds, declareVariable, declaredName, markVariable, replaceNULL, removeNullCasts,
    markMember, setVarIdAt, simplifyIfAddBraces, addBracesBody, insertBraces, statementEnd,
    Token.inserted, simplifyFunctionParameters, getArguments, moveDeclarations, Token.replace,
    functionParametersBody, elseif, elseifBody, elseifEnd, insertCaseSemicolons, caseBody,
    simplifyConditions, conditionsBody, conditionsDelete, conditionsNumber,
    conditionsConnective, conditionsCompare, simplifyFunctionReturn, functionReturnBody,
    simplifyKnownVariables, knownVariablesBody, knownBlockBody, knownBody,
    removeReduntantConditions,
    redundantBody, redundantIf, redundantElse, findClosing, eraseTokens, indexAt, stepAt,
    stepBack, lastTagInIf, simplifyRedundantParanthesis, paranthesisBody, parenEnd, cursorLoop,
    Result.bind, Result.map, Result.ofOption, Match, MatchVarId, Atom.accepts, isString,
    isBool, simpleMatch, matchType, strchr, strAt, varIdAt, Token.aaaa0, getElem?_first,
    fx, fy, gx, gy, isName_not_number _ fx.1,
    isName_not_number _ fy.1, isName_ne_cons _ fx.1, isName_ne_cons _ fy.1,
    cons_ne_isName _ fx.1, cons_ne_isName _ fy.1, isName_head _ fx.1, isName_head _ fy.1]

set_option maxRecDepth 8000 in
set_option maxHeartbeats 4000000 in
/-- The pass `simplifyConditions` on a stream of the example `; if ( true ) x ; else y ;`. -/
theorem simplifyConditions_kept (p : Platform) (m : Nat) (x y : List Char)
    (hx : plainName x = true) (hy : plainName y = true) :
    simplifyConditions p (m + 14) (lineOf [[';'], ['{'], x, [';'], ['}']]) =
      .ok (lineOf [[';'], ['{'], x, [';'], ['}']], false) := by
  have fx := plainName_facts _ hx
  have fy := plainName_facts _ hy
  have gx := plainName_symm _ hx
  have gy := plainName_symm _ hy
  simp +decide (disch := decide) [lineOf, combineStrings, combineStringsFrom,
    removeUnwanted, deleteUnwanted, unwantedWords, foldSigns, foldSignsFrom, fillTypeSize,
    fillStructSizes, replaceSizeofVar, sizeofLoop, replaceSizeofArray, replaceConstants,
    simplifyCasts_step, simplifyCasts_nil, castBody, simplifyCalculations, calcLoop_step,
    calcLoop_nil, calcBody, calcTimesOne, calcFold, calcNumber, calcVariable,
    replacePointerSum, splitDeclarations, splitBody, splitPoint, setVarId, setVarIdLoop,
    setMemberIds, declareVariable, declaredName, markVariable, replaceNULL, removeNullCasts,
    markMember, setVarIdAt, simplifyIfAddBraces, addBracesBody, insertBraces, statementEnd,
    Token.inserted, simplifyFunctionParameters, getArguments, moveDeclarations, Token.replace,
    functionParametersBody, elseif, elseifBody, elseifEnd, insertCaseSemicolons, caseBody,
    simplifyConditions, conditionsBody, conditionsDelete, conditionsNumber,
    conditionsConnective, conditionsCompare, simplifyFunctionReturn, functionReturnBody,
    simplifyKnownVariables, knownVariablesBody, knownBlockBody, knownBody,
    removeReduntantConditions,
    redundantBody, redundantIf, redundantElse, findClosing, eraseTokens, indexAt, stepAt,
    stepBack, lastTagInIf, simplifyRedundantParanthesis, paranthesisBody, parenEnd, cursorLoop,
    Result.bind, Result.map, Result.ofOption, Match, MatchVarId, Atom.accepts, isString,
    isBool, simpleMatch, matchType, strchr, strAt, varIdAt, Token.aaaa0, getElem?_first,
    fx, fy, gx, gy, isName_not_number _ fx.1,
    isName_not_number _ fy.1, isName_ne_cons _ fx.1, isName_ne_cons _ fy.1,
    cons_ne_isName _ fx.1, cons_ne_isName _ fy.1, isName_head _ fx.1, isName_head _ fy.1]

set_option maxRecDepth 8000 in
set_option maxHeartbeats 4000000 in
/-- The pass `simplifyFunctionReturn` on a stream of the example `; if ( true ) x ; else y ;`. -/
theorem simplifyFunctionReturn_kept (m : Nat) (x y : List Char)
    (hx : plainName x = true) (hy : plainName y = true) :
    simplifyFunctionReturn (m + 14) (lineOf [[';'], ['{'], x, [';'], ['}']]) =
      .ok (lineOf [[';'], ['{'], x, [';'], ['}']], false) := by
  have fx := plainName_facts _ hx
  have fy := plainName_facts _ hy
  have gx := plainName_symm _ hx
  have gy := plainName_symm _ hy
  simp +decide (disch := decide) [lineOf, combineStrings, combineStringsFrom,
    removeUnwanted, deleteUnwanted, unwantedWords, foldSigns, foldSignsFrom, fillTypeSize,
    fillStructSizes, replaceSizeofVar, sizeofLoop, replaceSizeofArray, replaceConstants,
    simplifyCasts_step, simplifyCasts_nil, castBody, simplifyCalculations, calcLoop_step,
    calcLoop_nil, calcBody, calcTimesOne, calcFold, calcNumber, calcVariable,
    replacePointerSum, splitDeclarations, splitBody, splitPoint, setVarId, setVarIdLoop,
    setMemberIds, declareVariable, declaredName, markVariable, replaceNULL, removeNullCasts,
    markMember, setVarIdAt, simplifyIfAddBraces, addBracesBody, insertBraces, statementEnd,
    Token.inserted, simplifyFunctionParameters, getArguments, moveDeclarations, Token.replace,
    functionParametersBody, elseif, elseifBody, elseifEnd, insertCaseSemicolons, caseBody,
    simplifyConditions, conditionsBody, conditionsDelete, conditionsNumber,
    conditionsConnective, conditionsCompare, simplifyFunctionReturn, functionReturnBody,
    simplifyKnownVariables, knownVariablesBody, knownBlockBody, knownBody,
    removeReduntantConditions,
    redundantBody, redundantIf, redundantElse, findClosing, eraseTokens, indexAt, stepAt,
    stepBack, lastTagInIf, simplifyRedundantParanthesis, paranthesisBody, parenEnd, cursorLoop,
    Result.bind, Result.map, Result.ofOption, Match, MatchVarId, Atom.accepts, isString,
    isBool, simpleMatch, matchType, strchr, strAt, varIdAt, Token.aaaa0, getElem?_first,
    fx, fy, gx, gy, isName_not_number _ fx.1,
    isName_not_number _ fy.1, isName_ne_cons _ fx.1, isName_ne_cons _ fy.1,
    cons_ne_isName _ fx.1, cons_ne_isName _ fy.1, isName_head _ fx.1, isName_head _ fy.1]

set_option maxRecDepth 8000 in
set_option maxHeartbeats 4000000 in
/-- The pass `simplifyKnownVariables` on a stream of the example `; if ( true ) x ; else y ;`. -/
theorem simplifyKnownVariables_kept (p : Platform) (m : Nat) (x y : List Char)
    (hx : plainName x = true) (hy : plainName y = true) :
    simplifyKnownVariables p (m + 14) (lineOf [[';'], ['{'], x, [';'], ['}']]) =
      .ok (lineOf [[';'], ['{'], x, [';'], ['}']], false) := by
  have fx := plainName_facts _ hx
  have fy := plainName_facts _ hy
  have gx := plainName_symm _ hx
  have gy := plainName_symm _ hy
  simp +decide (disch := decide) [lineOf, combineStrings, combineStringsFrom,
    removeUnwanted, deleteUnwanted, unwantedWords, foldSigns, foldSignsFrom, fillTypeSize,
    fillStructSizes, replaceSizeofVar, sizeofLoop, replaceSizeofArray, replaceConstants,
    simplifyCasts_step, simplifyCasts_nil, castBody, simplifyCalculations, calcLoop_step,
    calcLoop_nil, calcBody, calcTimesOne, calcFold, calcNumber, calcVariable,
    replacePointerSum, splitDeclarations, splitBody, splitPoint, setVarId, setVarIdLoop,
    setMemberIds, declareVariable, declaredName, markVariable, replaceNULL, removeNullCasts,
    markMember, setVarIdAt, simplifyIfAddBraces, addBracesBody, insertBraces, statementEnd,
    Token.inserted, simplifyFunctionParameters, getArguments, moveDeclarations, Token.replace,
    functionParametersBody, elseif, elseifBody, elseifEnd, insertCaseSemicolons, caseBody,
    simplifyConditions, conditionsBody, conditionsDelete, conditionsNumber,
    conditionsConnective, conditionsCompare, simplifyFunctionReturn, functionReturnBody,
    simplifyKnownVariables, knownVariablesBody, knownBlockBody, knownBody,
    removeReduntantConditions,
    redundantBody, redundantIf, redundantElse, findClosing, eraseTokens, indexAt, stepAt,
    stepBack, lastTagInIf, simplifyRedundantParanthesis, paranthesisBody, parenEnd, cursorLoop,
    Result.bind, Result.map, Result.ofOption, Match, MatchVarId, Atom.accepts, isString,
    isBool, simpleMatch, matchType, strchr, strAt, varIdAt, Token.aaaa0, getElem?_first,
    fx, fy, gx, gy, isName_not_number _ fx.1,
    isName_not_number _ fy.1, isName_ne_cons _ fx.1, isName_ne_cons _ fy.1,
    cons_ne_isName _ fx.1, cons_ne_isName _ fy.1, isName_head _ fx.1, isName_head _ fy.1]

set_option maxRecDepth 8000 in
set_option maxHeartbeats 4000000 in
/-- The pass `removeReduntantConditions` on a stream of the example `; if ( true ) x ; else y ;`. -/
theorem removeReduntantConditions_kept (m : Nat) (x y : List Char)
    (hx : plainName x = true) (hy : plainName y = true) :
    removeReduntantConditions (m + 14) (lineOf [[';'], ['{'], x, [';'], ['}']]) =
      .ok (lineOf [[';'], ['{'], x, [';'], ['}']], false) := by
  have fx := plainName_facts _ hx
  have fy := plainName_facts _ hy
  have gx := plainName_symm _ hx
  have gy := plainName_symm _ hy
  simp +decide (disch := decide) [lineOf, combineStrings, combineStringsFrom,
    removeUnwanted, deleteUnwanted, unwantedWords, foldSigns, foldSignsFrom, fillTypeSize,
    fillStructSizes, replaceSizeofVar, sizeofLoop, replaceSizeofArray, replaceConstants,
    simplifyCasts_step, simplifyCasts_nil, castBody, simplifyCalculations, calcLoop_step,
    calcLoop_nil, calcBody, calcTimesOne, calcFold, calcNumber, calcVariable,
    replacePointerSum, splitDeclarations, splitBody, splitPoint, setVarId, setVarIdLoop,
    setMemberIds, declareVariable, declaredName, markVariable, replaceNULL, removeNullCasts,
    markMember, setVarIdAt, simplifyIfAddBraces, addBracesBody, insertBraces, statementEnd,
    Token.inserted, simplifyFunctionParameters, getArguments, moveDeclarations, Token.replace,
    functionParametersBody, elseif, elseifBody, elseifEnd, insertCaseSemicolons, caseBody,
    simplifyConditions, conditionsBody, conditionsDelete, conditionsNumber,
    conditionsConnective, conditionsCompare, simplifyFunctionReturn, functionReturnBody,
    simplifyKnownVariables, knownVariablesBody, knownBlockBody, knownBody,
    removeReduntantConditions,
    redundantBody, redundantIf, redundantElse, findClosing, eraseTokens, indexAt, stepAt,
    stepBack, lastTagInIf, simplifyRedundantParanthesis, paranthesisBody, parenEnd, cursorLoop,
    Result.bind, Result.map, Result.ofOption, Match, MatchVarId, Atom.accepts, isString,
    isBool, simpleMatch, matchType, strchr, strAt, varIdAt, Token.aaaa0, getElem?_first,
    fx, fy, gx, gy, isName_not_number _ fx.1,
    isName_not_number _ fy.1, isName_ne_cons _ fx.1, isName_ne_cons _ fy.1,
    cons_ne_isName _ fx.1, cons_ne_isName _ fy.1, isName_head _ fx.1, isName_head _ fy.1]

set_option maxRecDepth 8000 in
set_option maxHeartbeats 4000000 in
/-- The pass `combineStrings` on a stream of the example `if ( true ) x ; else y ;`. -/
theorem combineStrings_ifelse0 (x y : List Char)
    (hx : plainName x = true) (hy : plainName y = true) :
    combineStrings (lineOf ["if".toList, ['('], "true".toList, [')'], x, [';'], "else".toList, y, [';']]) =
      lineOf ["if".toList, ['('], "true".toList, [')'], x, [';'], "else".toList, y, [';']] := by
  have fx := plainName_facts _ hx
  have fy := plainName_facts _ hy
  have gx := plainName_symm _ hx
  have gy := plainName_symm _ hy
  simp +decide (disch := decide) [lineOf, combineStrings, combineStringsFrom,
    removeUnwanted, deleteUnwanted, unwantedWords, foldSigns, foldSignsFrom, fillTypeSize,
    fillStructSizes, replaceSizeofVar, sizeofLoop, replaceSizeofArray, replaceConstants,
    simplifyCasts_step, simplifyCasts_nil, castBody, simplifyCalculations, calcLoop_step,
    calcLoop_nil, calcBody, calcTimesOne, calcFold, calcNumber, calcVariable,
    replacePointerSum, splitDeclarations, splitBody, splitPoint, setVarId, setVarIdLoop,
    setMemberIds, declareVariable, declaredName, markVariable, replaceNULL, removeNullCasts,
    markMember, setVarIdAt, simplifyIfAddBraces, addBracesBody, insertBraces, statementEnd,
    Token.inserted, simplifyFunctionParameters, getArguments, moveDeclarations, Token.replace,
    setStrAt, Token.setStr,
    functionParametersBody, elseif, elseifBody, elseifEnd, insertCaseSemicolons, caseBody,
    simplifyConditions, conditionsBody, conditionsDelete, conditionsNumber,
    conditionsConnective, conditionsCompare, simplifyFunctionReturn, functionReturnBody,
    simplifyKnownVariables, knownVariablesBody, knownBlockBody, knownBody,
    removeReduntantConditions,
    redundantBody, redundantIf, redundantElse, findClosing, eraseTokens, indexAt, stepAt,
    stepBack, lastTagInIf, simplifyRedundantParanthesis, paranthesisBody, parenEnd, cursorLoop,
    Result.bind, Result.map, Result.ofOption, Match, MatchVarId, Atom.accepts, isString,
    isBool, simpleMatch, matchType, strchr, strAt, varIdAt, Token.aaaa0, getElem?_first,
    fx, fy, gx, gy, isName_not_number _ fx.1,
    isName_not_number _ fy.1, isName_ne_cons _ fx.1, isName_ne_cons _ fy.1,
    cons_ne_isName _ fx.1, cons_ne_isName _ fy.1, isName_head _ fx.1, isName_head _ fy.1]

set_option maxRecDepth 8000 in
set_option maxHeartbeats 4000000 in
/-- The pass `removeUnwanted` on a stream of the example `if ( true ) x ; else y ;`. -/
theorem removeUnwanted_ifelse0 (x y : List Char)
    (hx : plainName x = true) (hy : plainName y = true) :
    removeUnwanted (lineOf ["if".toList, ['('], "true".toList, [')'], x, [';'], "else".toList, y, [';']]) =
      lineOf ["if".toList, ['('], "true".toList, [')'], x, [';'], "else".toList, y, [';']] := by
  have fx := plainName_facts _ hx
  have fy := plainName_facts _ hy
  have gx := plainName_symm _ hx
  have gy := plainName_symm _ hy
  simp +decide (disch := decide) [lineOf, combineStrings, combineStringsFrom,
    removeUnwanted, deleteUnwanted, unwantedWords, foldSigns, foldSignsFrom, fillTypeSize,
    fillStructSizes, replaceSizeofVar, sizeofLoop, replaceSizeofArray, replaceConstants,
    simplifyCasts_step, simplifyCasts_nil, castBody, simplifyCalculations, calcLoop_step,
    calcLoop_nil, calcBody, calcTimesOne, calcFold, calcNumber, calcVariable,
    replacePointerSum, splitDeclarations, splitBody, splitPoint, setVarId, setVarIdLoop,
    setMemberIds, declareVariable, declaredName, markVariable, replaceNULL, removeNullCasts,
    markMember, setVarIdAt, simplifyIfAddBraces, addBracesBody, insertBraces, statementEnd,
    Token.inserted, simplifyFunctionParameters, getArguments, moveDeclarations, Token.replace,
    setStrAt, Token.setStr,
    functionParametersBody, elseif, elseifBody, elseifEnd, insertCaseSemicolons, caseBody,
    simplifyConditions, conditionsBody, conditionsDelete, conditionsNumber,
    conditionsConnective, conditionsCompare, simplifyFunctionReturn, functionReturnBody,
    simplifyKnownVariables, knownVariablesBody, knownBlockBody, knownBody,
    removeReduntantConditions,
    redundantBody, redundantIf, redundantElse, findClosing, eraseTokens, indexAt, stepAt,
    stepBack, lastTagInIf, simplifyRedundantParanthesis, paranthesisBody, parenEnd, cursorLoop,
    Result.bind, Result.map, Result.ofOption, Match, MatchVarId, Atom.accepts, isString,
    isBool, simpleMatch, matchType, strchr, strAt, varIdAt, Token.aaaa0, getElem?_first,
    fx, fy, gx, gy, isName_not_number _ fx.1,
    isName_not_number _ fy.1, isName_ne_cons _ fx.1, isName_ne_cons _ fy.1,
    cons_ne_isName _ fx.1, cons_ne_isName _ fy.1, isName_head _ fx.1, isName_head _ fy.1]

set_option maxRecDepth 8000 in
set_option maxHeartbeats 4000000 in
/-- The pass `foldSigns` on a stream of the example `if ( true ) x ; else y ;`. -/
theorem foldSigns_ifelse0 (x y : List Char)
    (hx : plainName x = true) (hy : plainName y = true) :
    foldSigns (lineOf ["if".toList, ['('], "true".toList, [')'], x, [';'], "else".toList, y, [';']]) =
      lineOf ["if".toList, ['('], "true".toList, [')'], x, [';'], "else".toList, y, [';']] := by
  have fx := plainName_facts _ hx
  have fy := plainName_facts _ hy
  have gx := plainName_symm _ hx
  have gy := plainName_symm _ hy
  simp +decide (disch := decide) [lineOf, combineStrings, combineStringsFrom,
    removeUnwanted, deleteUnwanted, unwantedWords, foldSigns, foldSignsFrom, fillTypeSize,
    fillStructSizes, replaceSizeofVar, sizeofLoop, replaceSizeofArray, replaceConstants,
    simplifyCasts_step, simplifyCasts_nil, castBody, simplifyCalculations, calcLoop_step,
    calcLoop_nil, calcBody, calcTimesOne, calcFold, calcNumber, calcVariable,
    replacePointerSum, splitDeclarations, splitBody, splitPoint, setVarId, setVarIdLoop,
    setMemberIds, declareVariable, declaredName, markVariable, replaceNULL, removeNullCasts,
    markMember, setVarIdAt, simplifyIfAddBraces, addBracesBody, insertBraces, statementEnd,
    Token.inserted, simplifyFunctionParameters, getArguments, moveDeclarations, Token.replace,
    setStrAt, Token.setStr,
    functionParametersBody, elseif, elseifBody, elseifEnd, insertCaseSemicolons, caseBody,
    simplifyConditions, conditionsBody, conditionsDelete, conditionsNumber,
    conditionsConnective, conditionsCompare, simplifyFunctionReturn, functionReturnBody,
    simplifyKnownVariables, knownVariablesBody, knownBlockBody, knownBody,
    removeReduntantConditions,
    redundantBody, redundantIf, redundantElse, findClosing, eraseTokens, indexAt, stepAt,
    stepBack, lastTagInIf, simplifyRedundantParanthesis, paranthesisBody, parenEnd, cursorLoop,
    Result.bind, Result.map, Result.ofOption, Match, MatchVarId, Atom.accepts, isString,
    isBool, simpleMatch, matchType, strchr, strAt, varIdAt, Token.aaaa0, getElem?_first,
    fx, fy, gx, gy, isName_not_number _ fx.1,
    isName_not_number _ fy.1, isName_ne_cons _ fx.1, isName_ne_cons _ fy.1,
    cons_ne_isName _ fx.1, cons_ne_isName _ fy.1, isName_head _ fx.1, isName_head _ fy.1]

set_option maxRecDepth 8000 in
set_option maxHeartbeats 4000000 in
/-- The pass `fillTypeSize` on a stream of the example `if ( true ) x ; else y ;`. -/
theorem fillTypeSize_ifelse0 (p : Platform) (x y : List Char)
    (hx : plainName x = true) (hy : plainName y = true) :
    fillTypeSize p (lineOf ["if".toList, ['('], "true".toList, [')'], x, [';'], "else".toList, y, [';']]) =
      builtinTypeSize p := by
  have fx := plainName_facts _ hx
  have fy := plainName_facts _ hy
  have gx := plainName_symm _ hx
  have gy := plainName_symm _ hy
  simp +decide (disch := decide) [lineOf, combineStrings, combineStringsFrom,
    removeUnwanted, deleteUnwanted, unwantedWords, foldSigns, foldSignsFrom, fillTypeSize,
    fillStructSizes, replaceSizeofVar, sizeofLoop, replaceSizeofArray, replaceConstants,
    simplifyCasts_step, simplifyCasts_nil, castBody, simplifyCalculations, calcLoop_step,
    calcLoop_nil, calcBody, calcTimesOne, calcFold, calcNumber, calcVariable,
    replacePointerSum, splitDeclarations, splitBody, splitPoint, setVarId, setVarIdLoop,
    setMemberIds, declareVariable, declaredName, markVariable, replaceNULL, removeNullCasts,
    markMember, setVarIdAt, simplifyIfAddBraces, addBracesBody, insertBraces, statementEnd,
    Token.inserted, simplifyFunctionParameters, getArguments, moveDeclarations, Token.replace,
    setStrAt, Token.setStr,
    functionParametersBody, elseif, elseifBody, elseifEnd, insertCaseSemicolons, caseBody,
    simplifyConditions, conditionsBody, conditionsDelete, conditionsNumber,
    conditionsConnective, conditionsCompare, simplifyFunctionReturn, functionReturnBody,
    simplifyKnownVariables, knownVariablesBody, knownBlockBody, knownBody,
    removeReduntantConditions,
    redundantBody, redundantIf, redundantElse, findClosing, eraseTokens, indexAt, stepAt,
    stepBack, lastTagInIf, simplifyRedundantParanthesis, paranthesisBody, parenEnd, cursorLoop,
    Result.bind, Result.map, Result.ofOption, Match, MatchVarId, Atom.accepts, isString,
    isBool, simpleMatch, matchType, strchr, strAt, varIdAt, Token.aaaa0, getElem?_first,
    fx, fy, gx, gy, isName_not_number _ fx.1,
    isName_not_number _ fy.1, isName_ne_cons _ fx.1, isName_ne_cons _ fy.1,
    cons_ne_isName _ fx.1, cons_ne_isName _ fy.1, isName_head _ fx.1, isName_head _ fy.1]

set_option maxRecDepth 8000 in
set_option maxHeartbeats 4000000 in
/-- The pass `replaceSizeofVar` on a stream of the example `if ( true ) x ; else y ;`. -/
theorem replaceSizeofVar_ifelse0 (x y : List Char)
    (hx : plainName x = true) (hy : plainName y = true) :
    replaceSizeofVar (lineOf ["if".toList, ['('], "true".toList, [')'], x, [';'], "else".toList, y, [';']]) =
      lineOf ["if".toList, ['('], "true".toList, [')'], x, [';'], "else".toList, y, [';']] := by
  have fx := plainName_facts _ hx
  have fy := plainName_facts _ hy
  have gx := plainName_symm _ hx
  have gy := plainName_symm _ hy
  simp +decide (disch := decide) [lineOf, combineStrings, combineStringsFrom,
    removeUnwanted, deleteUnwanted, unwantedWords, foldSigns, foldSignsFrom, fillTypeSize,
    fillStructSizes, replaceSizeofVar, sizeofLoop, replaceSizeofArray, replaceConstants,
    simplifyCasts_step, simplifyCasts_nil, castBody, simplifyCalculations, calcLoop_step,
    calcLoop_nil, calcBody, calcTimesOne, calcFold, calcNumber, calcVariable,
    replacePointerSum, splitDeclarations, splitBody, splitPoint, setVarId, setVarIdLoop,
    setMemberIds, declareVariable, declaredName, markVariable, replaceNULL, removeNullCasts,
    markMember, setVarIdAt, simplifyIfAddBraces, addBracesBody, insertBraces, statementEnd,
    Token.inserted, simplifyFunctionParameters, getArguments, moveDeclarations, Token.replace,
    setStrAt, Token.setStr,
    functionParametersBody, elseif, elseifBody, elseifEnd, insertCaseSemicolons, caseBody,
    simplifyConditions, conditionsBody, conditionsDelete, conditionsNumber,
    conditionsConnective, conditionsCompare, simplifyFunctionReturn, functionReturnBody,
    simplifyKnownVariables, knownVariablesBody, knownBlockBody, knownBody,
    removeReduntantConditions,
    redundantBody, redundantIf, redundantElse, findClosing, eraseTokens, indexAt, stepAt,
    stepBack, lastTagInIf, simplifyRedundantParanthesis, paranthesisBody, parenEnd, cursorLoop,
    Result.bind, Result.map, Result.ofOption, Match, MatchVarId, Atom.accepts, isString,
    isBool, simpleMatch, matchType, strchr, strAt, varIdAt, Token.aaaa0, getElem?_first,
    fx, fy, gx, gy, isName_not_number _ fx.1,
    isName_not_number _ fy.1, isName_ne_cons _ fx.1, isName_ne_cons _ fy.1,
    cons_ne_isName _ fx.1, cons_ne_isName _ fy.1, isName_head _ fx.1, isName_head _ fy.1]

set_option maxRecDepth 8000 in
set_option maxHeartbeats 4000000 in
/-- The pass `sizeofLoop` on a stream of the example `if ( true ) x ; else y ;`. -/
theorem sizeofLoop_ifelse0 (p : Platform) (x y : List Char)
    (hx : plainName x = true) (hy : plainName y = true) :
    sizeofLoop p (builtinTypeSize p) [] (lineOf ["if".toList, ['('], "true".toList, [')'], x, [';'], "else".toList, y, [';']]) =
      some (lineOf ["if".toList, ['('], "true".toList, [')'], x, [';'], "else".toList, y, [';']]) := by
  have fx := plainName_facts _ hx
  have fy := plainName_facts _ hy
  have gx := plainName_symm _ hx
  have gy := plainName_symm _ hy
  simp +decide (disch := decide) [lineOf, combineStrings, combineStringsFrom,
    removeUnwanted, deleteUnwanted, unwantedWords, foldSigns, foldSignsFrom, fillTypeSize,
    fillStructSizes, replaceSizeofVar, sizeofLoop, replaceSizeofArray, replaceConstants,
    simplifyCasts_step, simplifyCasts_nil, castBody, simplifyCalculations, calcLoop_step,
    calcLoop_nil, calcBody, calcTimesOne, calcFold, calcNumber, calcVariable,
    replacePointerSum, splitDeclarations, splitBody, splitPoint, setVarId, setVarIdLoop,
    setMemberIds, declareVariable, declaredName, markVariable, replaceNULL, removeNullCasts,
    markMember, setVarIdAt, simplifyIfAddBraces, addBracesBody, insertBraces, statementEnd,
    Token.inserted, simplifyFunctionParameters, getArguments, moveDeclarations, Token.replace,
    setStrAt, Token.setStr,
    functionParametersBody, elseif, elseifBody, elseifEnd, insertCaseSemicolons, caseBody,
    simplifyConditions, conditionsBody, conditionsDelete, conditionsNumber,
    conditionsConnective, conditionsCompare, simplifyFunctionReturn, functionReturnBody,
    simplifyKnownVariables, knownVariablesBody, knownBlockBody, knownBody,
    removeReduntantConditions,
    redundantBody, redundantIf, redundantElse, findClosing, eraseTokens, indexAt, stepAt,
    stepBack, lastTagInIf, simplifyRedundantParanthesis, paranthesisBody, parenEnd, cursorLoop,
    Result.bind, Result.map, Result.ofOption, Match, MatchVarId, Atom.accepts, isString,
    isBool, simpleMatch, matchType, strchr, strAt, varIdAt, Token.aaaa0, getElem?_first,
    fx, fy, gx, gy, isName_not_number _ fx.1,
    isName_not_number _ fy.1, isName_ne_cons _ fx.1, isName_ne_cons _ fy.1,
    cons_ne_isName _ fx.1, cons_ne_isName _ fy.1, isName_head _ fx.1, isName_head _ fy.1]

set_option maxRecDepth 8000 in
set_option maxHeartbeats 4000000 in
/-- The pass `replaceSizeofArray` on a stream of the example `if ( true ) x ; else y ;`. -/
theorem replaceSizeofArray_ifelse0 (p : Platform) (x y : List Char)
    (hx : plainName x = true) (hy : plainName y = true) :
    replaceSizeofArray p (builtinTypeSize p) (lineOf ["if".toList, ['('], "true".toList, [')'], x, [';'], "else".toList, y, [';']]) =
      some (lineOf ["if".toList, ['('], "true".toList, [')'], x, [';'], "else".toList, y, [';']]) := by
  have fx := plainName_facts _ hx
  have fy := plainName_facts _ hy
  have gx := plainName_symm _ hx
  have gy := plainName_symm _ hy
  simp +decide (disch := decide) [lineOf, combineStrings, combineStringsFrom,
    removeUnwanted, deleteUnwanted, unwantedWords, foldSigns, foldSignsFrom, fillTypeSize,
    fillStructSizes, replaceSizeofVar, sizeofLoop, replaceSizeofArray, replaceConstants,
    simplifyCasts_step, simplifyCasts_nil, castBody, simplifyCalculations, calcLoop_step,
    calcLoop_nil, calcBody, calcTimesOne, calcFold, calcNumber, calcVariable,
    replacePointerSum, splitDeclarations, splitBody, splitPoint, setVarId, setVarIdLoop,
    setMemberIds, declareVariable, declaredName, markVariable, replaceNULL, removeNullCasts,
    markMember, setVarIdAt, simplifyIfAddBraces, addBracesBody, insertBraces, statementEnd,
    Token.inserted, simplifyFunctionParameters, getArguments, moveDeclarations, Token.replace,
    setStrAt, Token.setStr,
    functionParametersBody, elseif, elseifBody, elseifEnd, insertCaseSemicolons, caseBody,
    simplifyConditions, conditionsBody, conditionsDelete, conditionsNumber,
    conditionsConnective, conditionsCompare, simplifyFunctionReturn, functionReturnBody,
    simplifyKnownVariables, knownVariablesBody, knownBlockBody, knownBody,
    removeReduntantConditions,
    redundantBody, redundantIf, redundantElse, findClosing, eraseTokens, indexAt, stepAt,
    stepBack, lastTagInIf, simplifyRedundantParanthesis, paranthesisBody, parenEnd, cursorLoop,
    Result.bind, Result.map, Result.ofOption, Match, MatchVarId, Atom.accepts, isString,
    isBool, simpleMatch, matchType, strchr, strAt, varIdAt, Token.aaaa0, getElem?_first,
    fx, fy, gx, gy, isName_not_number _ fx.1,
    isName_not_number _ fy.1, isName_ne_cons _ fx.1, isName_ne_cons _ fy.1,
    cons_ne_isName _ fx.1, cons_ne_isName _ fy.1, isName_head _ fx.1, isName_head _ fy.1]

set_option maxRecDepth 8000 in
set_option maxHeartbeats 4000000 in
/-- The pass `replaceConstants` on a stream of the example `if ( true ) x ; else y ;`. -/
theorem replaceConstants_ifelse0 (x y : List Char)
    (hx : plainName x = true) (hy : plainName y = true) :
    replaceConstants (lineOf ["if".toList, ['('], "true".toList, [')'], x, [';'], "else".toList, y, [';']]) =
      lineOf ["if".toList, ['('], "true".toList, [')'], x, [';'], "else".toList, y, [';']] := by
  have fx := plainName_facts _ hx
  have fy := plainName_facts _ hy
  have gx := plainName_symm _ hx
  have gy := plainName_symm _ hy
  simp +decide (disch := decide) [lineOf, combineStrings, combineStringsFrom,
    removeUnwanted, deleteUnwanted, unwantedWords, foldSigns, foldSignsFrom, fillTypeSize,
    fillStructSizes, replaceSizeofVar, sizeofLoop, replaceSizeofArray, replaceConstants,
    simplifyCasts_step, simplifyCasts_nil, castBody, simplifyCalculations, calcLoop_step,
    calcLoop_nil, calcBody, calcTimesOne, calcFold, calcNumber, calcVariable,
    replacePointerSum, splitDeclarations, splitBody, splitPoint, setVarId, setVarIdLoop,
    setMemberIds, declareVariable, declaredName, markVariable, replaceNULL, removeNullCasts,
    markMember, setVarIdAt, simplifyIfAddBraces, addBracesBody, insertBraces, statementEnd,
    Token.inserted, simplifyFunctionParameters, getArguments, moveDeclarations, Token.replace,
    setStrAt, Token.setStr,
    functionParametersBody, elseif, elseifBody, elseifEnd, insertCaseSemicolons, caseBody,
    simplifyConditions, conditionsBody, conditionsDelete, conditionsNumber,
    conditionsConnective, conditionsCompare, simplifyFunctionReturn, functionReturnBody,
    simplifyKnownVariables, knownVariablesBody, knownBlockBody, knownBody,
    removeReduntantConditions,
    redundantBody, redundantIf, redundantElse, findClosing, eraseTokens, indexAt, stepAt,
    stepBack, lastTagInIf, simplifyRedundantParanthesis, paranthesisBody, parenEnd, cursorLoop,
    Result.bind, Result.map, Result.ofOption, Match, MatchVarId, Atom.accepts, isString,
    isBool, simpleMatch, matchType, strchr, strAt, varIdAt, Token.aaaa0, getElem?_first,
    fx, fy, gx, gy, isName_not_number _ fx.1,
    isName_not_number _ fy.1, isName_ne_cons _ fx.1, isName_ne_cons _ fy.1,
    cons_ne_isName _ fx.1, cons_ne_isName _ fy.1, isName_head _ fx.1, isName_head _ fy.1]

set_option maxRecDepth 8000 in
set_option maxHeartbeats 4000000 in
/-- The pass `simplifyCasts` on a stream of the example `if ( true ) x ; else y ;`. -/
theorem simplifyCasts_ifelse0 (x y : List Char)
    (hx : plainName x = true) (hy : plainName y = true) :
    simplifyCasts (lineOf ["if".toList, ['('], "true".toList, [')'], x, [';'], "else".toList, y, [';']]) =
      some (lineOf ["if".toList, ['('], "true".toList, [')'], x, [';'], "else".toList, y, [';']]) := by
  have fx := plainName_facts _ hx
  have fy := plainName_facts _ hy
  have gx := plainName_symm _ hx
  have gy := plainName_symm _ hy
  simp +decide (disch := decide) [lineOf, combineStrings, combineStringsFrom,
    removeUnwanted, deleteUnwanted, unwantedWords, foldSigns, foldSignsFrom, fillTypeSize,
    fillStructSizes, replaceSizeofVar, sizeofLoop, replaceSizeofArray, replaceConstants,
    simplifyCasts_step, simplifyCasts_nil, castBody, simplifyCalculations, calcLoop_step,
    calcLoop_nil, calcBody, calcTimesOne, calcFold, calcNumber, calcVariable,
    replacePointerSum, splitDeclarations, splitBody, splitPoint, setVarId, setVarIdLoop,
    setMemberIds, declareVariable, declaredName, markVariable, replaceNULL, removeNullCasts,
    markMember, setVarIdAt, simplifyIfAddBraces, addBracesBody, insertBraces, statementEnd,
    Token.inserted, simplifyFunctionParameters, getArguments, moveDeclarations, Token.replace,
    setStrAt, Token.setStr,
    functionParametersBody, elseif, elseifBody, elseifEnd, insertCaseSemicolons, caseBody,
    simplifyConditions, conditionsBody, conditionsDelete, conditionsNumber,
    conditionsConnective, conditionsCompare, simplifyFunctionReturn, functionReturnBody,
    simplifyKnownVariables, knownVariablesBody, knownBlockBody, knownBody,
    removeReduntantConditions,
    redundantBody, redundantIf, redundantElse, findClosing, eraseTokens, indexAt, stepAt,
    stepBack, lastTagInIf, simplifyRedundantParanthesis, paranthesisBody, parenEnd, cursorLoop,
    Result.bind, Result.map, Result.ofOption, Match, MatchVarId, Atom.accepts, isString,
    isBool, simpleMatch, matchType, strchr, strAt, varIdAt, Token.aaaa0, getElem?_first,
    fx, fy, gx, gy, isName_not_number _ fx.1,
    isName_not_number _ fy.1, isName_ne_cons _ fx.1, isName_ne_cons _ fy.1,
    cons_ne_isName _ fx.1, cons_ne_isName _ fy.1, isName_head _ fx.1, isName_head _ fy.1]

set_option maxRecDepth 8000 in
set_option maxHeartbeats 4000000 in
/-- The pass `simplifyCalculations` on a stream of the example `if ( true ) x ; else y ;`. -/
theorem simplifyCalculations_ifelse0 (p : Platform) (x y : List Char)
    (hx : plainName x = true) (hy : plainName y = true) :
    simplifyCalculations p (lineOf ["if".toList, ['('], "true".toList, [')'], x, [';'], "else".toList, y, [';']]) =
      some (lineOf ["if".toList, ['('], "true".toList, [')'], x, [';'], "else".toList, y, [';']], false) := by
  have fx := plainName_facts _ hx
  have fy := plainName_facts _ hy
  have gx := plainName_symm _ hx
  have gy := plainName_symm _ hy
  simp +decide (disch := decide) [lineOf, combineStrings, combineStringsFrom,
    removeUnwanted, deleteUnwanted, unwantedWords, foldSigns, foldSignsFrom, fillTypeSize,
    fillStructSizes, replaceSizeofVar, sizeofLoop, replaceSizeofArray, replaceConstants,
    simplifyCasts_step, simplifyCasts_nil, castBody, simplifyCalculations, calcLoop_step,
    calcLoop_nil, calcBody, calcTimesOne, calcFold, calcNumber, calcVariable,
    replacePointerSum, splitDeclarations, splitBody, splitPoint, setVarId, setVarIdLoop,
    setMemberIds, declareVariable, declaredName, markVariable, replaceNULL, removeNullCasts,
    markMember, setVarIdAt, simplifyIfAddBraces, addBracesBody, insertBraces, statementEnd,
    Token.inserted, simplifyFunctionParameters, getArguments, moveDeclarations, Token.replace,
    setStrAt, Token.setStr,
    functionParametersBody, elseif, elseifBody, elseifEnd, insertCaseSemicolons, caseBody,
    simplifyConditions, conditionsBody, conditionsDelete, conditionsNumber,
    conditionsConnective, conditionsCompare, simplifyFunctionReturn, functionReturnBody,
    simplifyKnownVariables, knownVariablesBody, knownBlockBody, knownBody,
    removeReduntantConditions,
    redundantBody, redundantIf, redundantElse, findClosing, eraseTokens, indexAt, stepAt,
    stepBack, lastTagInIf, simplifyRedundantParanthesis, paranthesisBody, parenEnd, cursorLoop,
    Result.bind, Result.map, Result.ofOption, Match, MatchVarId, Atom.accepts, isString,
    isBool, simpleMatch, matchType, strchr, strAt, varIdAt, Token.aaaa0, getElem?_first,
    fx, fy, gx, gy, isName_not_number _ fx.1,
    isName_not_number _ fy.1, isName_ne_cons _ fx.1, isName_ne_cons _ fy.1,
    cons_ne_isName _ fx.1, cons_ne_isName _ fy.1, isName_head _ fx.1, isName_head _ fy.1]

set_option maxRecDepth 8000 in
set_option maxHeartbeats 4000000 in
/-- The pass `replacePointerSum` on a stream of the example `if ( true ) x ; else y ;`. -/
theorem replacePointerSum_ifelse0 (x y : List Char)
    (hx : plainName x = true) (hy : plainName y = true) :
    replacePointerSum (lineOf ["if".toList, ['('], "true".toList, [')'], x, [';'], "else".toList, y, [';']]) =
      lineOf ["if".toList, ['('], "true".toList, [')'], x, [';'], "else".toList, y, [';']] := by
  have fx := plainName_facts _ hx
  have fy := plainName_facts _ hy
  have gx := plainName_symm _ hx
  have gy := plainName_symm _ hy
  simp +decide (disch := decide) [lineOf, combineStrings, combineStringsFrom,
    removeUnwanted, deleteUnwanted, unwantedWords, foldSigns, foldSignsFrom, fillTypeSize,
    fillStructSizes, replaceSizeofVar, sizeofLoop, replaceSizeofArray, replaceConstants,
    simplifyCasts_step, simplifyCasts_nil, castBody, simplifyCalculations, calcLoop_step,
    calcLoop_nil, calcBody, calcTimesOne, calcFold, calcNumber, calcVariable,
    replacePointerSum, splitDeclarations, splitBody, splitPoint, setVarId, setVarIdLoop,
    setMemberIds, declareVariable, declaredName, markVariable, replaceNULL, removeNullCasts,
    markMember, setVarIdAt, simplifyIfAddBraces, addBracesBody, insertBraces, statementEnd,
    Token.inserted, simplifyFunctionParameters, getArguments, moveDeclarations, Token.replace,
    setStrAt, Token.setStr,
    functionParametersBody, elseif, elseifBody, elseifEnd, insertCaseSemicolons, caseBody,
    simplifyConditions, conditionsBody, conditionsDelete, conditionsNumber,
    conditionsConnective, conditionsCompare, simplifyFunctionReturn, functionReturnBody,
    simplifyKnownVariables, knownVariablesBody, knownBlockBody, knownBody,
    removeReduntantConditions,
    redundantBody, redundantIf, redundantElse, findClosing, eraseTokens, indexAt, stepAt,
    stepBack, lastTagInIf, simplifyRedundantParanthesis, paranthesisBody, parenEnd, cursorLoop,
    Result.bind, Result.map, Result.ofOption, Match, MatchVarId, Atom.accepts, isString,
    isBool, simpleMatch, matchType, strchr, strAt, varIdAt, Token.aaaa0, getElem?_first,
    fx, fy, gx, gy, isName_not_number _ fx.1,
    isName_not_number _ fy.1, isName_ne_cons _ fx.1, isName_ne_cons _ fy.1,
    cons_ne_isName _ fx.1, cons_ne_isName _ fy.1, isName_head _ fx.1, isName_head _ fy.1]

set_option maxRecDepth 8000 in
set_option maxHeartbeats 4000000 in
/-- The pass `splitDeclarations` on a stream of the example `if ( true ) x ; else y ;`. -/
theorem splitDeclarations_ifelse0 (m : Nat) (x y : List Char)
    (hx : plainName x = true) (hy : plainName y = true) :
    splitDeclarations (m + 14) (lineOf ["if".toList, ['('], "true".toList, [')'], x, [';'], "else".toList, y, [';']]) =
      .ok (lineOf ["if".toList, ['('], "true".toList, [')'], x, [';'], "else".toList, y, [';']]) := by
  have fx := plainName_facts _ hx
  have fy := plainName_facts _ hy
  have gx := plainName_symm _ hx
  have gy := plainName_symm _ hy
  simp +decide (disch := decide) [lineOf, combineStrings, combineStringsFrom,
    removeUnwanted, deleteUnwanted, unwantedWords, foldSigns, foldSignsFrom, fillTypeSize,
    fillStructSizes, replaceSizeofVar, sizeofLoop, replaceSizeofArray, replaceConstants,
    simplifyCasts_step, simplifyCasts_nil, castBody, simplifyCalculations, calcLoop_step,
    calcLoop_nil, calcBody, calcTimesOne, calcFold, calcNumber, calcVariable,
    replacePointerSum, splitDeclarations, splitBody, splitPoint, setVarId, setVarIdLoop,
    setMemberIds, declareVariable, declaredName, markVariable, replaceNULL, removeNullCasts,
    markMember, setVarIdAt, simplifyIfAddBraces, addBracesBody, insertBraces, statementEnd,
    Token.inserted, simplifyFunctionParameters, getArguments, moveDeclarations, Token.replace,
    setStrAt, Token.setStr,
    functionParametersBody, elseif, elseifBody, elseifEnd, insertCaseSemicolons, caseBody,
    simplifyConditions, conditionsBody, conditionsDelete, conditionsNumber,
    conditionsConnective, conditionsCompare, simplifyFunctionReturn, functionReturnBody,
    simplifyKnownVariables, knownVariablesBody, knownBlockBody, knownBody,
    removeReduntantConditions,
    redundantBody, redundantIf, redundantElse, findClosing, eraseTokens, indexAt, stepAt,
    stepBack, lastTagInIf, simplifyRedundantParanthesis, paranthesisBody, parenEnd, cursorLoop,
    Result.bind, Result.map, Result.ofOption, Match, MatchVarId, Atom.accepts, isString,
    isBool, simpleMatch, matchType, strchr, strAt, varIdAt, Token.aaaa0, getElem?_first,
    fx, fy, gx, gy, isName_not_number _ fx.1,
    isName_not_number _ fy.1, isName_ne_cons _ fx.1, isName_ne_cons _ fy.1,
    cons_ne_isName _ fx.1, cons_ne_isName _ fy.1, isName_head _ fx.1, isName_head _ fy.1]

set_option maxRecDepth 8000 in
set_option maxHeartbeats 4000000 in
/-- The pass `setVarId` on a stream of the example `if ( true ) x ; else y ;`. -/
theorem setVarId_ifelse0 (x y : List Char)
    (hx : plainName x = true) (hy : plainName y = true) :
    removeNullCasts (replaceNULL (setVarId (lineOf ["if".toList, ['('], "true".toList, [')'], x, [';'], "else".toList, y, [';']]))) =
      lineOf ["if".toList, ['('], "true".toList, [')'], x, [';'], "else".toList, y, [';']] := by
  have fx := plainName_facts _ hx
  have fy := plainName_facts _ hy
  have gx := plainName_symm _ hx
  have gy := plainName_symm _ hy
  simp +decide (disch := decide) [lineOf, combineStrings, combineStringsFrom,
    removeUnwanted, deleteUnwanted, unwantedWords, foldSigns, foldSignsFrom, fillTypeSize,
    fillStructSizes, replaceSizeofVar, sizeofLoop, replaceSizeofArray, replaceConstants,
    simplifyCasts_step, simplifyCasts_nil, castBody, simplifyCalculations, calcLoop_step,
    calcLoop_nil, calcBody, calcTimesOne, calcFold, calcNumber, calcVariable,
    replacePointerSum, splitDeclarations, splitBody, splitPoint, setVarId, setVarIdLoop,
    setMemberIds, declareVariable, declaredName, markVariable, replaceNULL, removeNullCasts,
    markMember, setVarIdAt, simplifyIfAddBraces, addBracesBody, insertBraces, statementEnd,
    Token.inserted, simplifyFunctionParameters, getArguments, moveDeclarations, Token.replace,
    setStrAt, Token.setStr,
    functionParametersBody, elseif, elseifBody, elseifEnd, insertCaseSemicolons, caseBody,
    simplifyConditions, conditionsBody, conditionsDelete, conditionsNumber,
    conditionsConnective, conditionsCompare, simplifyFunctionReturn, functionReturnBody,
    simplifyKnownVariables, knownVariablesBody, knownBlockBody, knownBody,
    removeReduntantConditions,
    redundantBody, redundantIf, redundantElse, findClosing, eraseTokens, indexAt, stepAt,
    stepBack, lastTagInIf, simplifyRedundantParanthesis, paranthesisBody, parenEnd, cursorLoop,
    Result.bind, Result.map, Result.ofOption, Match, MatchVarId, Atom.accepts, isString,
    isBool, simpleMatch, matchType, strchr, strAt, varIdAt, Token.aaaa0, getElem?_first,
    fx, fy, gx, gy, isName_not_number _ fx.1,
    isName_not_number _ fy.1, isName_ne_cons _ fx.1, isName_ne_cons _ fy.1,
    cons_ne_isName _ fx.1, cons_ne_isName _ fy.1, isName_head _ fx.1, isName_head _ fy.1]

set_option maxRecDepth 8000 in
set_option maxHeartbeats 4000000 in
/-- The pass `simplifyIfAddBraces` on a stream of the example `if ( true ) x ; else y ;`. -/
theorem simplifyIfAddBraces_ifelse0 (m : Nat) (x y : List Char)
    (hx : plainName x = true) (hy : plainName y = true) :
    simplifyIfAddBraces (m + 14) (lineOf ["if".toList, ['('], "true".toList, [')'], x, [';'], "else".toList, y, [';']]) =
      .ok (lineOf ["if".toList, ['('], "true".toList, [')'], ['{'], x, [';'], ['}'], "else".toList, ['{'], y, [';'], ['}']], true) := by
  have fx := plainName_facts _ hx
  have fy := plainName_facts _ hy
  have gx := plainName_symm _ hx
  have gy := plainName_symm _ hy
  simp +decide (disch := decide) [lineOf, combineStrings, combineStringsFrom,
    removeUnwanted, deleteUnwanted, unwantedWords, foldSigns, foldSignsFrom, fillTypeSize,
    fillStructSizes, replaceSizeofVar, sizeofLoop, replaceSizeofArray, replaceConstants,
    simplifyCasts_step, simplifyCasts_nil, castBody, simplifyCalculations, calcLoop_step,
    calcLoop_nil, calcBody, calcTimesOne, calcFold, calcNumber, calcVariable,
    replacePointerSum, splitDeclarations, splitBody, splitPoint, setVarId, setVarIdLoop,
    setMemberIds, declareVariable, declaredName, markVariable, replaceNULL, removeNullCasts,
    markMember, setVarIdAt, simplifyIfAddBraces, addBracesBody, insertBraces, statementEnd,
    Token.inserted, simplifyFunctionParameters, getArguments, moveDeclarations, Token.replace,
    setStrAt, Token.setStr,
    functionParametersBody, elseif, elseifBody, elseifEnd, insertCaseSemicolons, caseBody,
    simplifyConditions, conditionsBody, conditionsDelete, conditionsNumber,
    conditionsConnective, conditionsCompare, simplifyFunctionReturn, functionReturnBody,
    simplifyKnownVariables, knownVariablesBody, knownBlockBody, knownBody,
    removeReduntantConditions,
    redundantBody, redundantIf, redundantElse, findClosing, eraseTokens, indexAt, stepAt,
    stepBack, lastTagInIf, simplifyRedundantParanthesis, paranthesisBody, parenEnd, cursorLoop,
    Result.bind, Result.map, Result.ofOption, Match, MatchVarId, Atom.accepts, isString,
    isBool, simpleMatch, matchType, strchr, strAt, varIdAt, Token.aaaa0, getElem?_first,
    fx, fy, gx, gy, isName_not_number _ fx.1,
    isName_not_number _ fy.1, isName_ne_cons _ fx.1, isName_ne_cons _ fy.1,
    cons_ne_isName _ fx.1, cons_ne_isName _ fy.1, isName_head _ fx.1, isName_head _ fy.1]

set_option maxRecDepth 8000 in
set_option maxHeartbeats 4000000 in
/-- The pass `simplifyFunctionParameters` on a stream of the example `if ( true ) x ; else y ;`. -/
theorem simplifyFunctionParameters_braced0 (m : Nat) (x y : List Char)
    (hx : plainName x = true) (hy : plainName y = true) :
    simplifyFunctionParameters (m + 14) (lineOf ["if".toList, ['('], "true".toList, [')'], ['{'], x, [';'], ['}'], "else".toList, ['{'], y, [';'], ['}']]) =
      .ok (lineOf ["if".toList, ['('], "true".toList, [')'], ['{'], x, [';'], ['}'], "else".toList, ['{'], y, [';'], ['}']], false) := by
  have fx := plainName_facts _ hx
  have fy := plainName_facts _ hy
  have gx := plainName_symm _ hx
  have gy := plainName_symm _ hy
  simp +decide (disch := decide) [lineOf, combineStrings, combineStringsFrom,
    removeUnwanted, deleteUnwanted, unwantedWords, foldSigns, foldSignsFrom, fillTypeSize,
    fillStructSizes, replaceSizeofVar, sizeofLoop, replaceSizeofArray, replaceConstants,
    simplifyCasts_step, simplifyCasts_nil, castBody, simplifyCalculations, calcLoop_step,
    calcLoop_nil, calcBody, calcTimesOne, calcFold, calcNumber, calcVariable,
    replacePointerSum, splitDeclarations, splitBody, splitPoint, setVarId, setVarIdLoop,
    setMemberIds, declareVariable, declaredName, markVariable, replaceNULL, removeNullCasts,
    markMember, setVarIdAt, simplifyIfAddBraces, addBracesBody, insertBraces, statementEnd,
    Token.inserted, simplifyFunctionParameters, getArguments, moveDeclarations, Token.replace,
    setStrAt, Token.setStr,
    functionParametersBody, elseif, elseifBody, elseifEnd, insertCaseSemicolons, caseBody,
    simplifyConditions, conditionsBody, conditionsDelete, conditionsNumber,
    conditionsConnective, conditionsCompare, simplifyFunctionReturn, functionReturnBody,
    simplifyKnownVariables, knownVariablesBody, knownBlockBody, knownBody,
    removeReduntantConditions,
    redundantBody, redundantIf, redundantElse, findClosing, eraseTokens, indexAt, stepAt,
    stepBack, lastTagInIf, simplifyRedundantParanthesis, paranthesisBody, parenEnd, cursorLoop,
    Result.bind, Result.map, Result.ofOption, Match, MatchVarId, Atom.accepts, isString,
    isBool, simpleMatch, matchType, strchr, strAt, varIdAt, Token.aaaa0, getElem?_first,
    fx, fy, gx, gy, isName_not_number _ fx.1,
    isName_not_number _ fy.1, isName_ne_cons _ fx.1, isName_ne_cons _ fy.1,
    cons_ne_isName _ fx.1, cons_ne_isName _ fy.1, isName_head _ fx.1, isName_head _ fy.1]

set_option maxRecDepth 8000 in
set_option maxHeartbeats 4000000 in
/-- The pass `elseif` on a stream of the example `if ( true ) x ; else y ;`. -/
theorem elseif_braced0 (m : Nat) (x y : List Char)
    (hx : plainName x = true) (hy : plainName y = true) :
    elseif (m + 14) (lineOf ["if".toList, ['('], "true".toList, [')'], ['{'], x, [';'], ['}'], "else".toList, ['{'], y, [';'], ['}']]) =
      .ok (lineOf ["if".toList, ['('], "true".toList, [')'], ['{'], x, [';'], ['}'], "else".toList, ['{'], y, [';'], ['}']], false) := by
  have fx := plainName_facts _ hx
  have fy := plainName_facts _ hy
  have gx := plainName_symm _ hx
  have gy := plainName_symm _ hy
  simp +decide (disch := decide) [lineOf, combineStrings, combineStringsFrom,
    removeUnwanted, deleteUnwanted, unwantedWords, foldSigns, foldSignsFrom, fillTypeSize,
    fillStructSizes, replaceSizeofVar, sizeofLoop, replaceSizeofArray, replaceConstants,
    simplifyCasts_step, simplifyCasts_nil, castBody, simplifyCalculations, calcLoop_step,
    calcLoop_nil, calcBody, calcTimesOne, calcFold, calcNumber, calcVariable,
    replacePointerSum, splitDeclarations, splitBody, splitPoint, setVarId, setVarIdLoop,
    setMemberIds, declareVariable, declaredName, markVariable, replaceNULL, removeNullCasts,
    markMember, setVarIdAt, simplifyIfAddBraces, addBracesBody, insertBraces, statementEnd,
    Token.inserted, simplifyFunctionParameters, getArguments, moveDeclarations, Token.replace,
    setStrAt, Token.setStr,
    functionParametersBody, elseif, elseifBody, elseifEnd, insertCaseSemicolons, caseBody,
    simplifyConditions, conditionsBody, conditionsDelete, conditionsNumber,
    conditionsConnective, conditionsCompare, simplifyFunctionReturn, functionReturnBody,
    simplifyKnownVariables, knownVariablesBody, knownBlockBody, knownBody,
    removeReduntantConditions,
    redundantBody, redundantIf, redundantElse, findClosing, eraseTokens, indexAt, stepAt,
    stepBack, lastTagInIf, simplifyRedundantParanthesis, paranthesisBody, parenEnd, cursorLoop,
    Result.bind, Result.map, Result.ofOption, Match, MatchVarId, Atom.accepts, isString,
    isBool, simpleMatch, matchType, strchr, strAt, varIdAt, Token.aaaa0, getElem?_first,
    fx, fy, gx, gy, isName_not_number _ fx.1,
    isName_not_number _ fy.1, isName_ne_cons _ fx.1, isName_ne_cons _ fy.1,
    cons_ne_isName _ fx.1, cons_ne_isName _ fy.1, isName_head _ fx.1, isName_head _ fy.1]

set_option maxRecDepth 8000 in
set_option maxHeartbeats 4000000 in
/-- The pass `insertCaseSemicolons` on a stream of the example `if ( true ) x ; else y ;`. -/
theorem insertCaseSemicolons_braced0 (m : Nat) (x y : List Char)
    (hx : plainName x = true) (hy : plainName y = true) :
    insertCaseSemicolons (m + 14) (lineOf ["if".toList, ['('], "true".toList, [')'], ['{'], x, [';'], ['}'], "else".toList, ['{'], y, [';'], ['}']]) =
      .ok (lineOf ["if".toList, ['('], "true".toList, [')'], ['{'], x, [';'], ['}'], "else".toList, ['{'], y, [';'], ['}']]) := by
  have fx := plainName_facts _ hx
  have fy := plainName_facts _ hy
  have gx := plainName_symm _ hx
  have gy := plainName_symm _ hy
  simp +decide (disch := decide) [lineOf, combineStrings, combineStringsFrom,
    removeUnwanted, deleteUnwanted, unwantedWords, foldSigns, foldSignsFrom, fillTypeSize,
    fillStructSizes, replaceSizeofVar, sizeofLoop, replaceSizeofArray, replaceConstants,
    simplifyCasts_step, simplifyCasts_nil, castBody, simplifyCalculations, calcLoop_step,
    calcLoop_nil, calcBody, calcTimesOne, calcFold, calcNumber, calcVariable,
    replacePointerSum, splitDeclarations, splitBody, splitPoint, setVarId, setVarIdLoop,
    setMemberIds, declareVariable, declaredName, markVariable, replaceNULL, removeNullCasts,
    markMember, setVarIdAt, simplifyIfAddBraces, addBracesBody, insertBraces, statementEnd,
    Token.inserted, simplifyFunctionParameters, getArguments, moveDeclarations, Token.replace,
    setStrAt, Token.setStr,
    functionParametersBody, elseif, elseifBody, elseifEnd, insertCaseSemicolons, caseBody,
    simplifyConditions, conditionsBody, conditionsDelete, conditionsNumber,
    conditionsConnective, conditionsCompare, simplifyFunctionReturn, functionReturnBody,
    simplifyKnownVariables, knownVariablesBody, knownBlockBody, knownBody,
    removeReduntantConditions,
    redundantBody, redundantIf, redundantElse, findClosing, eraseTokens, indexAt, stepAt,
    stepBack, lastTagInIf, simplifyRedundantParanthesis, paranthesisBody, parenEnd, cursorLoop,
    Result.bind, Result.map, Result.ofOption, Match, MatchVarId, Atom.accepts, isString,
    isBool, simpleMatch, matchType, strchr, strAt, varIdAt, Token.aaaa0, getElem?_first,
    fx, fy, gx, gy, isName_not_number _ fx.1,
    isName_not_number _ fy.1, isName_ne_cons _ fx.1, isName_ne_cons _ fy.1,
    cons_ne_isName _ fx.1, cons_ne_isName _ fy.1, isName_head _ fx.1, isName_head _ fy.1]

set_option maxRecDepth 8000 in
set_option maxHeartbeats 4000000 in
/-- The pass `simplifyConditions` on a stream of the example `if ( true ) x ; else y ;`. -/
theorem simplifyConditions_braced0 (p : Platform) (m : Nat) (x y : List Char)
    (hx : plainName x = true) (hy : plainName y = true) :
    simplifyConditions p (m + 14) (lineOf ["if".toList, ['('], "true".toList, [')'], ['{'], x, [';'], ['}'], "else".toList, ['{'], y, [';'], ['}']]) =
      .ok (lineOf ["if".toList, ['('], "true".toList, [')'], ['{'], x, [';'], ['}'], "else".toList, ['{'], y, [';'], ['}']], false) := by
  have fx := plainName_facts _ hx
  have fy := plainName_facts _ hy
  have gx := plainName_symm _ hx
  have gy := plainName_symm _ hy
  simp +decide (disch := decide) [lineOf, combineStrings, combineStringsFrom,
    removeUnwanted, deleteUnwanted, unwantedWords, foldSigns, foldSignsFrom, fillTypeSize,
    fillStructSizes, replaceSizeofVar, sizeofLoop, replaceSizeofArray, replaceConstants,
    simplifyCasts_step, simplifyCasts_nil, castBody, simplifyCalculations, calcLoop_step,
    calcLoop_nil, calcBody, calcTimesOne, calcFold, calcNumber, calcVariable,
    replacePointerSum, splitDeclarations, splitBody, splitPoint, setVarId, setVarIdLoop,
    setMemberIds, declareVariable, declaredName, markVariable, replaceNULL, removeNullCasts,
    markMember, setVarIdAt, simplifyIfAddBraces, addBracesBody, insertBraces, statementEnd,
    Token.inserted, simplifyFunctionParameters, getArguments, moveDeclarations, Token.replace,
    setStrAt, Token.setStr,
    functionParametersBody, elseif, elseifBody, elseifEnd, insertCaseSemicolons, caseBody,
    simplifyConditions, conditionsBody, conditionsDelete, conditionsNumber,
    conditionsConnective, conditionsCompare, simplifyFunctionReturn, functionReturnBody,
    simplifyKnownVariables, knownVariablesBody, knownBlockBody, knownBody,
    removeReduntantConditions,
    redundantBody, redundantIf, redundantElse, findClosing, eraseTokens, indexAt, stepAt,
    stepBack, lastTagInIf, simplifyRedundantParanthesis, paranthesisBody, parenEnd, cursorLoop,
    Result.bind, Result.map, Result.ofOption, Match, MatchVarId, Atom.accepts, isString,
    isBool, simpleMatch, matchType, strchr, strAt, varIdAt, Token.aaaa0, getElem?_first,
    fx, fy, gx, gy, isName_not_number _ fx.1,
    isName_not_number _ fy.1, isName_ne_cons _ fx.1, isName_ne_cons _ fy.1,
    cons_ne_isName _ fx.1, cons_ne_isName _ fy.1, isName_head _ fx.1, isName_head _ fy.1]

set_option maxRecDepth 8000 in
set_option maxHeartbeats 4000000 in
/-- The pass `simplifyFunctionReturn` on a stream of the example `if ( true ) x ; else y ;`. -/
theorem simplifyFunctionReturn_braced0 (m : Nat) (x y : List Char)
    (hx : plainName x = true) (hy : plainName y = true) :
    simplifyFunctionReturn (m + 14) (lineOf ["if".toList, ['('], "true".toList, [')'], ['{'], x, [';'], ['}'], "else".toList, ['{'], y, [';'], ['}']]) =
      .ok (lineOf ["if".toList, ['('], "true".toList, [')'], ['{'], x, [';'], ['}'], "else".toList, ['{'], y, [';'], ['}']], false) := by
  have fx := plainName_facts _ hx
  have fy := plainName_facts _ hy
  have gx := plainName_symm _ hx
  have gy := plainName_symm _ hy
  simp +decide (disch := decide) [lineOf, combineStrings, combineStringsFrom,
    removeUnwanted, deleteUnwanted, unwantedWords, foldSigns, foldSignsFrom, fillTypeSize,
    fillStructSizes, replaceSizeofVar, sizeofLoop, replaceSizeofArray, replaceConstants,
    simplifyCasts_step, simplifyCasts_nil, castBody, simplifyCalculations, calcLoop_step,
    calcLoop_nil, calcBody, calcTimesOne, calcFold, calcNumber, calcVariable,
    replacePointerSum, splitDeclarations, splitBody, splitPoint, setVarId, setVarIdLoop,
    setMemberIds, declareVariable, declaredName, markVariable, replaceNULL, removeNullCasts,
    markMember, setVarIdAt, simplifyIfAddBraces, addBracesBody, insertBraces, statementEnd,
    Token.inserted, simplifyFunctionParameters, getArguments, moveDeclarations, Token.replace,
    setStrAt, Token.setStr,
    functionParametersBody, elseif, elseifBody, elseifEnd, insertCaseSemicolons, caseBody,
    simplifyConditions, conditionsBody, conditionsDelete, conditionsNumber,
    conditionsConnective, conditionsCompare, simplifyFunctionReturn, functionReturnBody,
    simplifyKnownVariables, knownVariablesBody, knownBlockBody, knownBody,
    removeReduntantConditions,
    redundantBody, redundantIf, redundantElse, findClosing, eraseTokens, indexAt, stepAt,
    stepBack, lastTagInIf, simplifyRedundantParanthesis, paranthesisBody, parenEnd, cursorLoop,
    Result.bind, Result.map, Result.ofOption, Match, MatchVarId, Atom.accepts, isString,
    isBool, simpleMatch, matchType, strchr, strAt, varIdAt, Token.aaaa0, getElem?_first,
    fx, fy, gx, gy, isName_not_number _ fx.1,
    isName_not_number _ fy.1, isName_ne_cons _ fx.1, isName_ne_cons _ fy.1,
    cons_ne_isName _ fx.1, cons_ne_isName _ fy.1, isName_head _ fx.1, isName_head _ fy.1]

set_option maxRecDepth 8000 in
set_option maxHeartbeats 4000000 in
/-- The pass `simplifyKnownVariables` on a stream of the example `if ( true ) x ; else y ;`. -/
theorem simplifyKnownVariables_braced0 (p : Platform) (m : Nat) (x y : List Char)
    (hx : plainName x = true) (hy : plainName y = true) :
    simplifyKnownVariables p (m + 14) (lineOf ["if".toList, ['('], "true".toList, [')'], ['{'], x, [';'], ['}'], "else".toList, ['{'], y, [';'], ['}']]) =
      .ok (lineOf ["if".toList, ['('], "true".toList, [')'], ['{'], x, [';'], ['}'], "else".toList, ['{'], y, [';'], ['}']], false) := by
  have fx := plainName_facts _ hx
  have fy := plainName_facts _ hy
  have gx := plainName_symm _ hx
  have gy := plainName_symm _ hy
  simp +decide (disch := decide) [lineOf, combineStrings, combineStringsFrom,
    removeUnwanted, deleteUnwanted, unwantedWords, foldSigns, foldSignsFrom, fillTypeSize,
    fillStructSizes, replaceSizeofVar, sizeofLoop, replaceSizeofArray, replaceConstants,
    simplifyCasts_step, simplifyCasts_nil, castBody, simplifyCalculations, calcLoop_step,
    calcLoop_nil, calcBody, calcTimesOne, calcFold, calcNumber, calcVariable,
    replacePointerSum, splitDeclarations, splitBody, splitPoint, setVarId, setVarIdLoop,
    setMemberIds, declareVariable, declaredName, markVariable, replaceNULL, removeNullCasts,
    markMember, setVarIdAt, simplifyIfAddBraces, addBracesBody, insertBraces, statementEnd,
    Token.inserted, simplifyFunctionParameters, getArguments, moveDeclarations, Token.replace,
    setStrAt, Token.setStr,
    functionParametersBody, elseif, elseifBody, elseifEnd, insertCaseSemicolons, caseBody,
    simplifyConditions, conditionsBody, conditionsDelete, conditionsNumber,
    conditionsConnective, conditionsCompare, simplifyFunctionReturn, functionReturnBody,
    simplifyKnownVariables, knownVariablesBody, knownBlockBody, knownBody,
    removeReduntantConditions,
    redundantBody, redundantIf, redundantElse, findClosing, eraseTokens, indexAt, stepAt,
    stepBack, lastTagInIf, simplifyRedundantParanthesis, paranthesisBody, parenEnd, cursorLoop,
    Result.bind, Result.map, Result.ofOption, Match, MatchVarId, Atom.accepts, isString,
    isBool, simpleMatch, matchType, strchr, strAt, varIdAt, Token.aaaa0, getElem?_first,
    fx, fy, gx, gy, isName_not_number _ fx.1,
    isName_not_number _ fy.1, isName_ne_cons _ fx.1, isName_ne_cons _ fy.1,
    cons_ne_isName _ fx.1, cons_ne_isName _ fy.1, isName_head _ fx.1, isName_head _ fy.1]

set_option maxRecDepth 8000 in
set_option maxHeartbeats 4000000 in
/-- The pass `removeReduntantConditions` on a stream of the example `if ( true ) x ; else y ;`. -/
theorem removeReduntantConditions_braced0 (m : Nat) (x y : List Char)
    (hx : plainName x = true) (hy : plainName y = true) :
    removeReduntantConditions (m + 14) (lineOf ["if".toList, ['('], "true".toList, [')'], ['{'], x, [';'], ['}'], "else".toList, ['{'], y, [';'], ['}']]) =
      .ok (lineOf [[';'], x, [';'], ['}']], true) := by
  have fx := plainName_facts _ hx
  have fy := plainName_facts _ hy
  have gx := plainName_symm _ hx
  have gy := plainName_symm _ hy
  simp +decide (disch := decide) [lineOf, combineStrings, combineStringsFrom,
    removeUnwanted, deleteUnwanted, unwantedWords, foldSigns, foldSignsFrom, fillTypeSize,
    fillStructSizes, replaceSizeofVar, sizeofLoop, replaceSizeofArray, replaceConstants,
    simplifyCasts_step, simplifyCasts_nil, castBody, simplifyCalculations, calcLoop_step,
    calcLoop_nil, calcBody, calcTimesOne, calcFold, calcNumber, calcVariable,
    replacePointerSum, splitDeclarations, splitBody, splitPoint, setVarId, setVarIdLoop,
    setMemberIds, declareVariable, declaredName, markVariable, replaceNULL, removeNullCasts,
    markMember, setVarIdAt, simplifyIfAddBraces, addBracesBody, insertBraces, statementEnd,
    Token.inserted, simplifyFunctionParameters, getArguments, moveDeclarations, Token.replace,
    setStrAt, Token.setStr,
    functionParametersBody, elseif, elseifBody, elseifEnd, insertCaseSemicolons, caseBody,
    simplifyConditions, conditionsBody, conditionsDelete, conditionsNumber,
    conditionsConnective, conditionsCompare, simplifyFunctionReturn, functionReturnBody,
    simplifyKnownVariables, knownVariablesBody, knownBlockBody, knownBody,
    removeReduntantConditions,
    redundantBody, redundantIf, redundantElse, findClosing, eraseTokens, indexAt, stepAt,
    stepBack, lastTagInIf, simplifyRedundantParanthesis, paranthesisBody, parenEnd, cursorLoop,
    Result.bind, Result.map, Result.ofOption, Match, MatchVarId, Atom.accepts, isString,
    isBool, simpleMatch, matchType, strchr, strAt, varIdAt, Token.aaaa0, getElem?_first,
    fx, fy, gx, gy, isName_not_number _ fx.1,
    isName_not_number _ fy.1, isName_ne_cons _ fx.1, isName_ne_cons _ fy.1,
    cons_ne_isName _ fx.1, cons_ne_isName _ fy.1, isName_head _ fx.1, isName_head _ fy.1]

set_option maxRecDepth 8000 in
set_option maxHeartbeats 4000000 in
/-- The pass `simplifyRedundantParanthesis` on a stream of the example `if ( true ) x ; else y ;`. -/
theorem simplifyRedundantParanthesis_kept0 (m : Nat) (x y : List Char)
    (hx : plainName x = true) (hy : plainName y = true) :
    simplifyRedundantParanthesis (m + 14) (lineOf [[';'], x, [';'], ['}']]) =
      .ok (lineOf [[';'], x, [';'], ['}']], false) := by
  have fx := plainName_facts _ hx
  have fy := plainName_facts _ hy
  have gx := plainName_symm _ hx
  have gy := plainName_symm _ hy
  simp +decide (disch := decide) [lineOf, combineStrings, combineStringsFrom,
    removeUnwanted, deleteUnwanted, unwantedWords, foldSigns, foldSignsFrom, fillTypeSize,
    fillStructSizes, replaceSizeofVar, sizeofLoop, replaceSizeofArray, replaceConstants,
    simplifyCasts_step, simplifyCasts_nil, castBody, simplifyCalculations, calcLoop_step,
    calcLoop_nil, calcBody, calcTimesOne, calcFold, calcNumber, calcVariable,
    replacePointerSum, splitDeclarations, splitBody, splitPoint, setVarId, setVarIdLoop,
    setMemberIds, declareVariable, declaredName, markVariable, replaceNULL, removeNullCasts,
    markMember, setVarIdAt, simplifyIfAddBraces, addBracesBody, insertBraces, statementEnd,
    Token.inserted, simplifyFunctionParameters, getArguments, moveDeclarations, Token.replace,
    setStrAt, Token.setStr,
    functionParametersBody, elseif, elseifBody, elseifEnd, insertCaseSemicolons, caseBody,
    simplifyConditions, conditionsBody, conditionsDelete, conditionsNumber,
    conditionsConnective, conditionsCompare, simplifyFunctionReturn, functionReturnBody,
    simplifyKnownVariables, knownVariablesBody, knownBlockBody, knownBody,
    removeReduntantConditions,
    redundantBody, redundantIf, redundantElse, findClosing, eraseTokens, indexAt, stepAt,
    stepBack, lastTagInIf, simplifyRedundantParanthesis, paranthesisBody, parenEnd, cursorLoop,
    Result.bind, Result.map, Result.ofOption, Match, MatchVarId, Atom.accepts, isString,
    isBool, simpleMatch, matchType, strchr, strAt, varIdAt, Token.aaaa0, getElem?_first,
    fx, fy, gx, gy, isName_not_number _ fx.1,
    isName_not_number _ fy.1, isName_ne_cons _ fx.1, isName_ne_cons _ fy.1,
    cons_ne_isName _ fx.1, cons_ne_isName _ fy.1, isName_head _ fx.1, isName_head _ fy.1]

set_option maxRecDepth 8000 in
set_option maxHeartbeats 4000000 in
/-- The pass `simplifyCalculations` on a stream of the example `if ( true ) x ; else y ;`. -/
theorem simplifyCalculations_kept0 (p : Platform) (x y : List Char)
    (hx : plainName x = true) (hy : plainName y = true) :
    simplifyCalculations p (lineOf [[';'], x, [';'], ['}']]) =
      some (lineOf [[';'], x, [';'], ['}']], false) := by
  have fx := plainName_facts _ hx
  have fy := plainName_facts _ hy
  have gx := plainName_symm _ hx
  have gy := plainName_symm _ hy
  simp +decide (disch := decide) [lineOf, combineStrings, combineStringsFrom,
    removeUnwanted, deleteUnwanted, unwantedWords, foldSigns, foldSignsFrom, fillTypeSize,
    fillStructSizes, replaceSizeofVar, sizeofLoop, replaceSizeofArray, replaceConstants,
    simplifyCasts_step, simplifyCasts_nil, castBody, simplifyCalculations, calcLoop_step,
    calcLoop_nil, calcBody, calcTimesOne, calcFold, calcNumber, calcVariable,
    replacePointerSum, splitDeclarations, splitBody, splitPoint, setVarId, setVarIdLoop,
    setMemberIds, declareVariable, declaredName, markVariable, replaceNULL, removeNullCasts,
    markMember, setVarIdAt, simplifyIfAddBraces, addBracesBody, insertBraces, statementEnd,
    Token.inserted, simplifyFunctionParameters, getArguments, moveDeclarations, Token.replace,
    setStrAt, Token.setStr,
    functionParametersBody, elseif, elseifBody, elseifEnd, insertCaseSemicolons, caseBody,
    simplifyConditions, conditionsBody, conditionsDelete, conditionsNumber,
    conditionsConnective, conditionsCompare, simplifyFunctionReturn, functionReturnBody,
    simplifyKnownVariables, knownVariablesBody, knownBlockBody, knownBody,
    removeReduntantConditions,
    redundantBody, redundantIf, redundantElse, findClosing, eraseTokens, indexAt, stepAt,
    stepBack, lastTagInIf, simplifyRedundantParanthesis, paranthesisBody, parenEnd, cursorLoop,
    Result.bind, Result.map, Result.ofOption, Match, MatchVarId, Atom.accepts, isString,
    isBool, simpleMatch, matchType, strchr, strAt, varIdAt, Token.aaaa0, getElem?_first,
    fx, fy, gx, gy, isName_not_number _ fx.1,
    isName_not_number _ fy.1, isName_ne_cons _ fx.1, isName_ne_cons _ fy.1,
    cons_ne_isName _ fx.1, cons_ne_isName _ fy.1, isName_head _ fx.1, isName_head _ fy.1]

set_option maxRecDepth 8000 in
set_option maxHeartbeats 4000000 in
/-- The pass `simplifyConditions` on a stream of the example `if ( true ) x ; else y ;`. -/
theorem simplifyConditions_kept0 (p : Platform) (m : Nat) (x y : List Char)
    (hx : plainName x = true) (hy : plainName y = true) :
    simplifyConditions p (m + 14) (lineOf [[';'], x, [';'], ['}']]) =
      .ok (lineOf [[';'], x, [';'], ['}']], false) := by
  have fx := plainName_facts _ hx
  have fy := plainName_facts _ hy
  have gx := plainName_symm _ hx
  have gy := plainName_symm _ hy
  simp +decide (disch := decide) [lineOf, combineStrings, combineStringsFrom,
    removeUnwanted, deleteUnwanted, unwantedWords, foldSigns, foldSignsFrom, fillTypeSize,
    fillStructSizes, replaceSizeofVar, sizeofLoop, replaceSizeofArray, replaceConstants,
    simplifyCasts_step, simplifyCasts_nil, castBody, simplifyCalculations, calcLoop_step,
    calcLoop_nil, calcBody, calcTimesOne, calcFold, calcNumber, calcVariable,
    replacePointerSum, splitDeclarations, splitBody, splitPoint, setVarId, setVarIdLoop,
    setMemberIds, declareVariable, declaredName, markVariable, replaceNULL, removeNullCasts,
    markMember, setVarIdAt, simplifyIfAddBraces, addBracesBody, insertBraces, statementEnd,
    Token.inserted, simplifyFunctionParameters, getArguments, moveDeclarations, Token.replace,
    setStrAt, Token.setStr,
    functionParametersBody, elseif, elseifBody, elseifEnd, insertCaseSemicolons, caseBody,
    simplifyConditions, conditionsBody, conditionsDelete, conditionsNumber,
    conditionsConnective, conditionsCompare, simplifyFunctionReturn, functionReturnBody,
    simplifyKnownVariables, knownVariablesBody, knownBlockBody, knownBody,
    removeReduntantConditions,
    redundantBody, redundantIf, redundantElse, findClosing, eraseTokens, indexAt, stepAt,
    stepBack, lastTagInIf, simplifyRedundantParanthesis, paranthesisBody, parenEnd, cursorLoop,
    Result.bind, Result.map, Result.ofOption, Match, MatchVarId, Atom.accepts, isString,
    isBool, simpleMatch, matchType, strchr, strAt, varIdAt, Token.aaaa0, getElem?_first,
    fx, fy, gx, gy, isName_not_number _ fx.1,
    isName_not_number _ fy.1, isName_ne_cons _ fx.1, isName_ne_cons _ fy.1,
    cons_ne_isName _ fx.1, cons_ne_isName _ fy.1, isName_head _ fx.1, isName_head _ fy.1]

set_option maxRecDepth 8000 in
set_option maxHeartbeats 4000000 in
/-- The pass `simplifyFunctionReturn` on a stream of the example `if ( true ) x ; else y ;`. -/
theorem simplifyFunctionReturn_kept0 (m : Nat) (x y : List Char)
    (hx : plainName x = true) (hy : plainName y = true) :
    simplifyFunctionReturn (m + 14) (lineOf [[';'], x, [';'], ['}']]) =
      .ok (lineOf [[';'], x, [';'], ['}']], false) := by
  have fx := plainName_facts _ hx
  have fy := plainName_facts _ hy
  have gx := plainName_symm _ hx
  have gy := plainName_symm _ hy
  simp +decide (disch := decide) [lineOf, combineStrings, combineStringsFrom,
    removeUnwanted, deleteUnwanted, unwantedWords, foldSigns, foldSignsFrom, fillTypeSize,
    fillStructSizes, replaceSizeofVar, sizeofLoop, replaceSizeofArray, replaceConstants,
    simplifyCasts_step, simplifyCasts_nil, castBody, simplifyCalculations, calcLoop_step,
    calcLoop_nil, calcBody, calcTimesOne, calcFold, calcNumber, calcVariable,
    replacePointerSum, splitDeclarations, splitBody, splitPoint, setVarId, setVarIdLoop,
    setMemberIds, declareVariable, declaredName, markVariable, replaceNULL, removeNullCasts,
    markMember, setVarIdAt, simplifyIfAddBraces, addBracesBody, insertBraces, statementEnd,
    Token.inserted, simplifyFunctionParameters, getArguments, moveDeclarations, Token.replace,
    setStrAt, Token.setStr,
    functionParametersBody, elseif, elseifBody, elseifEnd, insertCaseSemicolons, caseBody,
    simplifyConditions, conditionsBody, conditionsDelete, conditionsNumber,
    conditionsConnective, conditionsCompare, simplifyFunctionReturn, functionReturnBody,
    simplifyKnownVariables, knownVariablesBody, knownBlockBody, knownBody,
    removeReduntantConditions,
    redundantBody, redundantIf, redundantElse, findClosing, eraseTokens, indexAt, stepAt,
    stepBack, lastTagInIf, simplifyRedundantParanthesis, paranthesisBody, parenEnd, cursorLoop,
    Result.bind, Result.map, Result.ofOption, Match, MatchVarId, Atom.accepts, isString,
    isBool, simpleMatch, matchType, strchr, strAt, varIdAt, Token.aaaa0, getElem?_first,
    fx, fy, gx, gy, isName_not_number _ fx.1,
    isName_not_number _ fy.1, isName_ne_cons _ fx.1, isName_ne_cons _ fy.1,
    cons_ne_isName _ fx.1, cons_ne_isName _ fy.1, isName_head _ fx.1, isName_head _ fy.1]

set_option maxRecDepth 8000 in
set_option maxHeartbeats 4000000 in
/-- The pass `simplifyKnownVariables` on a stream of the example `if ( true ) x ; else y ;`. -/
theorem simplifyKnownVariables_kept0 (p : Platform) (m : Nat) (x y : List Char)
    (hx : plainName x = true) (hy : plainName y = true) :
    simplifyKnownVariables p (m + 14) (lineOf [[';'], x, [';'], ['}']]) =
      .ok (lineOf [[';'], x, [';'], ['}']], false) := by
  have fx := plainName_facts _ hx
  have fy := plainName_facts _ hy
  have gx := plainName_symm _ hx
  have gy := plainName_symm _ hy
  simp +decide (disch := decide) [lineOf, combineStrings, combineStringsFrom,
    removeUnwanted, deleteUnwanted, unwantedWords, foldSigns, foldSignsFrom, fillTypeSize,
    fillStructSizes, replaceSizeofVar, sizeofLoop, replaceSizeofArray, replaceConstants,
    simplifyCasts_step, simplifyCasts_nil, castBody, simplifyCalculations, calcLoop_step,
    calcLoop_nil, calcBody, calcTimesOne, calcFold, calcNumber, calcVariable,
    replacePointerSum, splitDeclarations, splitBody, splitPoint, setVarId, setVarIdLoop,
    setMemberIds, declareVariable, declaredName, markVariable, replaceNULL, removeNullCasts,
    markMember, setVarIdAt, simplifyIfAddBraces, addBracesBody, insertBraces, statementEnd,
    Token.inserted, simplifyFunctionParameters, getArguments, moveDeclarations, Token.replace,
    setStrAt, Token.setStr,
    functionParametersBody, elseif, elseifBody, elseifEnd, insertCaseSemicolons, caseBody,
    simplifyConditions, conditionsBody, conditionsDelete, conditionsNumber,
    conditionsConnective, conditionsCompare, simplifyFunctionReturn, functionReturnBody,
    simplifyKnownVariables, knownVariablesBody, knownBlockBody, knownBody,
    removeReduntantConditions,
    redundantBody, redundantIf, redundantElse, findClosing, eraseTokens, indexAt, stepAt,
    stepBack, lastTagInIf, simplifyRedundantParanthesis, paranthesisBody, parenEnd, cursorLoop,
    Result.bind, Result.map, Result.ofOption, Match, MatchVarId, Atom.accepts, isString,
    isBool, simpleMatch, matchType, strchr, strAt, varIdAt, Token.aaaa0, getElem?_first,
    fx, fy, gx, gy, isName_not_number _ fx.1,
    isName_not_number _ fy.1, isName_ne_cons _ fx.1, isName_ne_cons _ fy.1,
    cons_ne_isName _ fx.1, cons_ne_isName _ fy.1, isName_head _ fx.1, isName_head _ fy.1]

set_option maxRecDepth 8000 in
set_option maxHeartbeats 4000000 in
/-- The pass `removeReduntantConditions` on a stream of the example `if ( true ) x ; else y ;`. -/
theorem removeReduntantConditions_kept0 (m : Nat) (x y : List Char)
    (hx : plainName x = true) (hy : plainName y = true) :
    removeReduntantConditions (m + 14) (lineOf [[';'], x, [';'], ['}']]) =
      .ok (lineOf [[';'], x, [';'], ['}']], false) := by
  have fx := plainName_facts _ hx
  have fy := plainName_facts _ hy
  have gx := plainName_symm _ hx
  have gy := plainName_symm _ hy
  simp +decide (disch := decide) [lineOf, combineStrings, combineStringsFrom,
    removeUnwanted, deleteUnwanted, unwantedWords, foldSigns, foldSignsFrom, fillTypeSize,
    fillStructSizes, replaceSizeofVar, sizeofLoop, replaceSizeofArray, replaceConstants,
    simplifyCasts_step, simplifyCasts_nil, castBody, simplifyCalculations, calcLoop_step,
    calcLoop_nil, calcBody, calcTimesOne, calcFold, calcNumber, calcVariable,
    replacePointerSum, splitDeclarations, splitBody, splitPoint, setVarId, setVarIdLoop,
    setMemberIds, declareVariable, declaredName, markVariable, replaceNULL, removeNullCasts,
    markMember, setVarIdAt, simplifyIfAddBraces, addBracesBody, insertBraces, statementEnd,
    Token.inserted, simplifyFunctionParameters, getArguments, moveDeclarations, Token.replace,
    setStrAt, Token.setStr,
    functionParametersBody, elseif, elseifBody, elseifEnd, insertCaseSemicolons, caseBody,
    simplifyConditions, conditionsBody, conditionsDelete, conditionsNumber,
    conditionsConnective, conditionsCompare, simplifyFunctionReturn, functionReturnBody,
    simplifyKnownVariables, knownVariablesBody, knownBlockBody, knownBody,
    removeReduntantConditions,
    redundantBody, redundantIf, redundantElse, findClosing, eraseTokens, indexAt, stepAt,
    stepBack, lastTagInIf, simplifyRedundantParanthesis, paranthesisBody, parenEnd, cursorLoop,
    Result.bind, Result.map, Result.ofOption, Match, MatchVarId, Atom.accepts, isString,
    isBool, simpleMatch, matchType, strchr, strAt, varIdAt, Token.aaaa0, getElem?_first,
    fx, fy, gx, gy, isName_not_number _ fx.1,
    isName_not_number _ fy.1, isName_ne_cons _ fx.1, isName_ne_cons _ fy.1,
    cons_ne_isName _ fx.1, cons_ne_isName _ fy.1, isName_head _ fx.1, isName_head _ fy.1]

/-- A round of the loop `while (modified)` that has modified the list is followed
by a further round. -/
theorem modifiedLoop_next (p : Platform) (fuel rounds : Nat) (ts r : List Token)
    (h : simplifyRound p fuel ts = .ok (r, true)) :
    modifiedLoop p fuel (rounds + 1) ts = modifiedLoop p fuel rounds r := by
  rw [modifiedLoop, h]
  rfl

/-- A round of the loop `while (modified)` that has modified nothing ends the
loop. -/
theorem modifiedLoop_done (p : Platform) (fuel rounds : Nat) (ts r : List Token)
    (h : simplifyRound p fuel ts = .ok (r, false)) :
    modifiedLoop p fuel (rounds + 1) ts = .ok r := by
  rw [modifiedLoop, h]
  rfl

/-- The first part of `simplifyTokenList` changes nothing in `; if ( true ) x ; else y ;`. -/
theorem simplifySizes_ifelse (p : Platform) (x y : List Char)
    (hx : plainName x = true) (hy : plainName y = true) :
    simplifySizes p (lineOf [[';'], "if".toList, ['('], "true".toList, [')'], x, [';'], "else".toList, y, [';']]) =
      some (lineOf [[';'], "if".toList, ['('], "true".toList, [')'], x, [';'], "else".toList, y, [';']]) := by
  rw [simplifySizes, combineStrings_ifelse x y hx hy, removeUnwanted_ifelse x y hx hy,
    foldSigns_ifelse x y hx hy, fillTypeSize_ifelse p x y hx hy, replaceSizeofVar_ifelse x y hx hy,
    sizeofLoop_ifelse p x y hx hy]
  simp only [Option.bind]
  rw [replaceSizeofArray_ifelse p x y hx hy]
  simp only [Option.bind]
  rw [replaceConstants_ifelse x y hx hy, simplifyCasts_ifelse x y hx hy]

/-- The second part of `simplifyTokenList` changes nothing in `; if ( true ) x ; else y ;`. -/
theorem simplifyDeclarations_ifelse (p : Platform) (m : Nat) (x y : List Char)
    (hx : plainName x = true) (hy : plainName y = true) :
    simplifyDeclarations p (m + 14) (lineOf [[';'], "if".toList, ['('], "true".toList, [')'], x, [';'], "else".toList, y, [';']]) =
      .ok (lineOf [[';'], "if".toList, ['('], "true".toList, [')'], x, [';'], "else".toList, y, [';']]) := by
  rw [simplifyDeclarations, calculationsLoop, simplifyCalculations_ifelse p x y hx hy]
  simp only [Result.ofOption, Result.bind, Bool.false_eq_true, if_false]
  rw [replacePointerSum_ifelse x y hx hy, splitDeclarations_ifelse m x y hx hy]
  simp only [Result.map, Result.bind]
  rw [setVarId_ifelse x y hx hy]

/-- The third part of `simplifyTokenList` on `; if ( true ) x ; else y ;`: `simplifyIfAddBraces` puts
both statements in braces. -/
theorem simplifyBraces_ifelse (m : Nat) (x y : List Char)
    (hx : plainName x = true) (hy : plainName y = true) :
    simplifyBraces (m + 14) (lineOf [[';'], "if".toList, ['('], "true".toList, [')'], x, [';'], "else".toList, y, [';']]) =
      .ok (lineOf [[';'], "if".toList, ['('], "true".toList, [')'], ['{'], x, [';'], ['}'], "else".toList, ['{'], y, [';'], ['}']]) := by
  rw [simplifyBraces, simplifyIfAddBraces_ifelse m x y hx hy]
  simp only [Result.bind]
  rw [simplifyFunctionParameters_braced m x y hx hy]
  simp only [Result.bind]
  rw [elseif_braced m x y hx hy]
  simp only [Result.bind]
  rw [insertCaseSemicolons_braced m x y hx hy]

/-- The first round of the loop `while (modified)` on the stream with braces:
`removeReduntantConditions` removes the `if ( true )` and the `else` branch. -/
theorem simplifyRound_braced (p : Platform) (m : Nat) (x y : List Char)
    (hx : plainName x = true) (hy : plainName y = true) :
    simplifyRound p (m + 14) (lineOf [[';'], "if".toList, ['('], "true".toList, [')'], ['{'], x, [';'], ['}'], "else".toList, ['{'], y, [';'], ['}']]) =
      .ok (lineOf [[';'], ['{'], x, [';'], ['}']], true) := by
  rw [simplifyRound, simplifyConditions_braced p m x y hx hy]
  simp only [Result.bind]
  rw [simplifyFunctionReturn_braced m x y hx hy]
  simp only [Result.bind]
  rw [simplifyKnownVariables_braced p m x y hx hy]
  simp only [Result.bind]
  rw [removeReduntantConditions_braced m x y hx hy]
  simp only [Result.bind]
  rw [simplifyRedundantParanthesis_kept m x y hx hy]
  simp only [Result.bind]
  rw [simplifyCalculations_kept p x y hx hy]
  rfl

/-- The second round of the loop `while (modified)` changes nothing. -/
theorem simplifyRound_kept (p : Platform) (m : Nat) (x y : List Char)
    (hx : plainName x = true) (hy : plainName y = true) :
    simplifyRound p (m + 14) (lineOf [[';'], ['{'], x, [';'], ['}']]) =
      .ok (lineOf [[';'], ['{'], x, [';'], ['}']], false) := by
  rw [simplifyRound, simplifyConditions_kept p m x y hx hy]
  simp only [Result.bind]
  rw [simplifyFunctionReturn_kept m x y hx hy]
  simp only [Result.bind]
  rw [simplifyKnownVariables_kept p m x y hx hy]
  simp only [Result.bind]
  rw [removeReduntantConditions_kept m x y hx hy]
  simp only [Result.bind]
  rw [simplifyRedundantParanthesis_kept m x y hx hy]
  simp only [Result.bind]
  rw [simplifyCalculations_kept p x y hx hy]
  rfl

/-- The whole of `simplifyTokenList` on `; if ( true ) x ; else y ;`. -/
theorem simplifyTokenList_ifelse (p : Platform) (m : Nat) (x y : List Char)
    (hx : plainName x = true) (hy : plainName y = true) :
    simplifyTokenList p (m + 14) (lineOf [[';'], "if".toList, ['('], "true".toList, [')'], x, [';'], "else".toList, y, [';']]) =
      .ok (lineOf [[';'], ['{'], x, [';'], ['}']]) := by
  rw [simplifyTokenList, simplifySizes_ifelse p x y hx hy]
  simp only [Result.ofOption, Result.bind]
  rw [simplifyDeclarations_ifelse p m x y hx hy]
  simp only [Result.bind]
  rw [simplifyBraces_ifelse m x y hx hy]
  simp only [Result.bind]
  rw [modifiedLoop_next p (m + 14) (m + 13) _ _ (simplifyRound_braced p m x y hx hy),
    modifiedLoop_done p (m + 14) (m + 12) _ _ (simplifyRound_kept p m x y hx hy)]

/-- The first part of `simplifyTokenList` changes nothing in `if ( true ) x ; else y ;`. -/
theorem simplifySizes_ifelse0 (p : Platform) (x y : List Char)
    (hx : plainName x = true) (hy : plainName y = true) :
    simplifySizes p (lineOf ["if".toList, ['('], "true".toList, [')'], x, [';'], "else".toList, y, [';']]) =
      some (lineOf ["if".toList, ['('], "true".toList, [')'], x, [';'], "else".toList, y, [';']]) := by
  rw [simplifySizes, combineStrings_ifelse0 x y hx hy, removeUnwanted_ifelse0 x y hx hy,
    foldSigns_ifelse0 x y hx hy, fillTypeSize_ifelse0 p x y hx hy, replaceSizeofVar_ifelse0 x y hx hy,
    sizeofLoop_ifelse0 p x y hx hy]
  simp only [Option.bind]
  rw [replaceSizeofArray_ifelse0 p x y hx hy]
  simp only [Option.bind]
  rw [replaceConstants_ifelse0 x y hx hy, simplifyCasts_ifelse0 x y hx hy]

/-- The second part of `simplifyTokenList` changes nothing in `if ( true ) x ; else y ;`. -/
theorem simplifyDeclarations_ifelse0 (p : Platform) (m : Nat) (x y : List Char)
    (hx : plainName x = true) (hy : plainName y = true) :
    simplifyDeclarations p (m + 14) (lineOf ["if".toList, ['('], "true".toList, [')'], x, [';'], "else".toList, y, [';']]) =
      .ok (lineOf ["if".toList, ['('], "true".toList, [')'], x, [';'], "else".toList, y, [';']]) := by
  rw [simplifyDeclarations, calculationsLoop, simplifyCalculations_ifelse0 p x y hx hy]
  simp only [Result.ofOption, Result.bind, Bool.false_eq_true, if_false]
  rw [replacePointerSum_ifelse0 x y hx hy, splitDeclarations_ifelse0 m x y hx hy]
  simp only [Result.map, Result.bind]
  rw [setVarId_ifelse0 x y hx hy]

/-- The third part of `simplifyTokenList` on `if ( true ) x ; else y ;`: `simplifyIfAddBraces` puts
both statements in braces. -/
theorem simplifyBraces_ifelse0 (m : Nat) (x y : List Char)
    (hx : plainName x = true) (hy : plainName y = true) :
    simplifyBraces (m + 14) (lineOf ["if".toList, ['('], "true".toList, [')'], x, [';'], "else".toList, y, [';']]) =
      .ok (lineOf ["if".toList, ['('], "true".toList, [')'], ['{'], x, [';'], ['}'], "else".toList, ['{'], y, [';'], ['}']]) := by
  rw [simplifyBraces, simplifyIfAddBraces_ifelse0 m x y hx hy]
  simp only [Result.bind]
  rw [simplifyFunctionParameters_braced0 m x y hx hy]
  simp only [Result.bind]
  rw [elseif_braced0 m x y hx hy]
  simp only [Result.bind]
  rw [insertCaseSemicolons_braced0 m x y hx hy]

/-- The first round of the loop `while (modified)` on the stream with braces:
`removeReduntantConditions` removes the `if ( true )` and the `else` branch. -/
theorem simplifyRound_braced0 (p : Platform) (m : Nat) (x y : List Char)
    (hx : plainName x = true) (hy : plainName y = true) :
    simplifyRound p (m + 14) (lineOf ["if".toList, ['('], "true".toList, [')'], ['{'], x, [';'], ['}'], "else".toList, ['{'], y, [';'], ['}']]) =
      .ok (lineOf [[';'], x, [';'], ['}']], true) := by
  rw [simplifyRound, simplifyConditions_braced0 p m x y hx hy]
  simp only [Result.bind]
  rw [simplifyFunctionReturn_braced0 m x y hx hy]
  simp only [Result.bind]
  rw [simplifyKnownVariables_braced0 p m x y hx hy]
  simp only [Result.bind]
  rw [removeReduntantConditions_braced0 m x y hx hy]
  simp only [Result.bind]
  rw [simplifyRedundantParanthesis_kept0 m x y hx hy]
  simp only [Result.bind]
  rw [simplifyCalculations_kept0 p x y hx hy]
  rfl

/-- The second round of the loop `while (modified)` changes nothing. -/
theorem simplifyRound_kept0 (p : Platform) (m : Nat) (x y : List Char)
    (hx : plainName x = true) (hy : plainName y = true) :
    simplifyRound p (m + 14) (lineOf [[';'], x, [';'], ['}']]) =
      .ok (lineOf [[';'], x, [';'], ['}']], false) := by
  rw [simplifyRound, simplifyConditions_kept0 p m x y hx hy]
  simp only [Result.bind]
  rw [simplifyFunctionReturn_kept0 m x y hx hy]
  simp only [Result.bind]
  rw [simplifyKnownVariables_kept0 p m x y hx hy]
  simp only [Result.bind]
  rw [removeReduntantConditions_kept0 m x y hx hy]
  simp only [Result.bind]
  rw [simplifyRedundantParanthesis_kept0 m x y hx hy]
  simp only [Result.bind]
  rw [simplifyCalculations_kept0 p x y hx hy]
  rfl

/-- The whole of `simplifyTokenList` on `if ( true ) x ; else y ;`. -/
theorem simplifyTokenList_ifelse0 (p : Platform) (m : Nat) (x y : List Char)
    (hx : plainName x = true) (hy : plainName y = true) :
    simplifyTokenList p (m + 14) (lineOf ["if".toList, ['('], "true".toList, [')'], x, [';'], "else".toList, y, [';']]) =
      .ok (lineOf [[';'], x, [';'], ['}']]) := by
  rw [simplifyTokenList, simplifySizes_ifelse0 p x y hx hy]
  simp only [Result.ofOption, Result.bind]
  rw [simplifyDeclarations_ifelse0 p m x y hx hy]
  simp only [Result.bind]
  rw [simplifyBraces_ifelse0 m x y hx hy]
  simp only [Result.bind]
  rw [modifiedLoop_next p (m + 14) (m + 13) _ _ (simplifyRound_braced0 p m x y hx hy),
    modifiedLoop_done p (m + 14) (m + 12) _ _ (simplifyRound_kept0 p m x y hx hy)]

/-- The statement `if (true) x; else y;` behind another token: for plain names `x` and
`y`, `simplifyTokenList` (each loop for at least 14 rounds) makes of the token stream
`; if ( true ) x ; else y ;` the stream `; \x7b x ; \x7d`. Here `tok->previous()` exists
in `removeReduntantConditions`, and `Token::eraseTokens(tok, tok->tokAt(5))` deletes the
four tokens `if ( true )`, as its comment `=> "\x7baaa;\x7d"` says. -/
theorem true_branch_kept (p : Platform) (m : Nat) (x y : List Char)
    (hx : plainName x = true) (hy : plainName y = true) :
    ∃ out, simplifyTokenList p (m + 14)
        (lineOf [[';'], "if".toList, ['('], "true".toList, [')'], x, [';'], "else".toList, y,
          [';']]) = .ok out ∧
      out.map (fun t => t.str) = [[';'], ['{'], x, [';'], ['}']] :=
  ⟨_, simplifyTokenList_ifelse p m x y hx hy, rfl⟩

/-- On the example platform `; if ( true ) x ; else y ;` becomes `; \x7b x ; \x7d`. -/
theorem true_branch_kept_witness :
    ∃ out, simplifyTokenList examplePlatform 14
        (line1 [";", "if", "(", "true", ")", "x", ";", "else", "y", ";"]) = .ok out ∧
      texts out = [";", "\x7b", "x", ";", "\x7d"] := by
  obtain ⟨out, h1, h2⟩ := true_branch_kept examplePlatform 0 ['x'] ['y'] (by decide) (by decide)
  refine ⟨out, h1, ?_⟩
  have e : texts out = (out.map (fun t => t.str)).map String.mk := by
    simp [texts, List.map_map, Function.comp_def]
  rw [e, h2]
  rfl

/-- The tokens of `if (true) x; else y;` behind `tokenize`. -/
theorem tokenize_ifelseExample :
    tokenize exampleHost "if (true) x; else y;".toList "a.c".toList =
      some { tokens := line1 ["if", "(", "true", ")", "x", ";", "else", "y", ";"],
             files := ["a.c".toList] } := by
  have hl : lex exampleHost "if (true) x; else y;".toList "a.c".toList =
      .done ⟨line1 ["if", "(", "true", ")", "x", ";", "else", "y", ";"], ["a.c".toList], 1, [],
        [], [], 0, []⟩ := by decide
  unfold tokenize
  rw [hl]
  simp +decide [line1, postLex, beforeNoise, addtoken, c_str, combine, combineAt,
    combineWithNext, combineEntry, typedefPass, matchTypedef2, matchTypedef3, asmFrom, strAt,
    removeWord, dropHeadWord, deleteNextWord, expandType, Token.inserted, matchType, isName]

/-- C25, evaluated on the input of the claim: `tokenize` followed by `simplifyTokenList`
makes `; x ; \x7d` of `if (true) x; else y;`, which is not `\x7b x ; \x7d` and has no
opening brace for its closing one. The `if` is the first token, so
`removeReduntantConditions` turns it into `;` and stays on it, and
`Token::eraseTokens(tok, tok->tokAt(5))` then deletes `( true ) \x7b`, one token further
than with a token in front. -/
theorem true_branch_at_stream_start :
    (tokenize exampleHost "if (true) x; else y;".toList "a.c".toList).map
        (fun t => (simplifyTokenList examplePlatform 14 t.tokens).map texts) =
      some (.ok [";", "x", ";", "\x7d"]) ∧
    (tokenize exampleHost "if (true) x; else y;".toList "a.c".toList).map
        (fun t => (simplifyTokenList examplePlatform 14 t.tokens).map texts) ≠
      some (.ok ["\x7b", "x", ";", "\x7d"]) := by
  have h : (tokenize exampleHost "if (true) x; else y;".toList "a.c".toList).map
      (fun t => (simplifyTokenList examplePlatform 14 t.tokens).map texts) =
      some (.ok [";", "x", ";", "\x7d"]) := by
    have hs := simplifyTokenList_ifelse0 examplePlatform 0 ['x'] ['y'] (by decide) (by decide)
    rw [tokenize_ifelseExample]
    have e : line1 ["if", "(", "true", ")", "x", ";", "else", "y", ";"] =
        lineOf ["if".toList, ['('], "true".toList, [')'], ['x'], [';'], "else".toList, ['y'],
          [';']] := rfl
    rw [e]
    simp only [Option.map_some', hs, Result.map, Result.bind]
    rfl
  refine ⟨h, ?_⟩
  rw [h]
  decide

/-- The method `simplifyTokenList` is its four parts in a row. -/
theorem simplifyTokenList_stages (p : Platform) (fuel : Nat) (ts ts1 ts2 ts3 r : List Token)
    (h1 : simplifySizes p ts = some ts1)
    (h2 : simplifyDeclarations p (fuel + 1) ts1 = .ok ts2)
    (h3 : simplifyBraces (fuel + 1) ts2 = .ok ts3)
    (h4 : modifiedLoop p (fuel + 1) (fuel + 1) ts3 = .ok r) :
    simplifyTokenList p (fuel + 1) ts = .ok r := by
  rw [simplifyTokenList, h1]
  simp only [Result.ofOption, Result.bind]
  rw [h2]
  simp only [Result.bind]
  rw [h3]
  simp only [Result.bind]
  exact h4

set_option maxRecDepth 8000 in
set_option maxHeartbeats 4000000 in
/-- The first run of `simplifyCalculations` on `x = 4 / 1 * 2 ;`: standing at `/`, the
test `simpleMatch(tok->next(), "1 *")` holds and the two tokens `1 *` are deleted, which
leaves `x = 4 / 2 ;`. -/
theorem simplifyCalculations_oneTimes (p : Platform) :
    simplifyCalculations p (line1 ["x", "=", "4", "/", "1", "*", "2", ";"]) =
      some (line1 ["x", "=", "4", "/", "2", ";"], true) := by
  simp +decide [line1, simplifyCalculations, calcLoop_step, calcLoop_nil, calcBody,
    calcTimesOne, calcFold, calcNumber, calcVariable, Match, Atom.accepts, simpleMatch,
    strchr, strAt, Token.aaaa0, getElem?_first, isName]

set_option maxRecDepth 8000 in
set_option maxHeartbeats 4000000 in
/-- The second run of `simplifyCalculations`: `= 4 / 2 ;` is folded to `= 2 ;`. -/
theorem simplifyCalculations_quotient :
    simplifyCalculations examplePlatform (line1 ["x", "=", "4", "/", "2", ";"]) =
      some (line1 ["x", "=", "2", ";"], true) := by
  have h1 : atoi examplePlatform ['4'] = some 4 := by decide
  have h2 : atoi examplePlatform ['2'] = some 2 := by decide
  have h3 : intResult examplePlatform (calcOperator '/' 4 2) = some 2 := by decide
  have h4 : decimalInt 2 = ['2'] := by decide
  simp +decide [line1, simplifyCalculations, calcLoop_step, calcLoop_nil, calcBody,
    calcTimesOne, calcFold, calcNumber, calcVariable, Match, Atom.accepts, simpleMatch,
    strchr, strAt, Token.aaaa0, getElem?_first, isName, h1, h2, h3, h4, Token.setStr]

set_option maxRecDepth 8000 in
set_option maxHeartbeats 4000000 in
/-- The third run of `simplifyCalculations` changes nothing. -/
theorem simplifyCalculations_folded (p : Platform) :
    simplifyCalculations p (line1 ["x", "=", "2", ";"]) =
      some (line1 ["x", "=", "2", ";"], false) := by
  simp +decide [line1, simplifyCalculations, calcLoop_step, calcLoop_nil, calcBody,
    calcTimesOne, calcFold, calcNumber, calcVariable, Match, Atom.accepts, simpleMatch,
    strchr, strAt, Token.aaaa0, getElem?_first, isName]

/-- C40, the code at the failing input `x = 4 / 1 * 2 ;`: the loop
`while (simplifyCalculations())` reduces the expression `4 / 1 * 2` between `=` and `;`
to the single literal `2` (the collapse of `1 *` turns it into `4 / 2`), while its value
under C precedence and left-to-right associativity is `(4 / 1) * 2 = 8`. -/
theorem calculations_timesOne_value :
    (calculationsLoop examplePlatform 3 (line1 ["x", "=", "4", "/", "1", "*", "2", ";"])).map
        texts = .ok ["x", "=", "2", ";"] ∧
      calcOperator '*' (calcOperator '/' 4 1) 2 = 8 := by
  refine ⟨?_, by decide⟩
  simp only [calculationsLoop, simplifyCalculations_oneTimes, simplifyCalculations_quotient,
    simplifyCalculations_folded, Result.ofOption, Result.bind, Result.map, if_true]
  decide

set_option maxRecDepth 8000 in
set_option maxHeartbeats 4000000 in
/-- C35, the code at the failing input `if ( 00 ) \x7b x ; \x7d`: the literal `00` has the
value zero, and `simplifyConditions` rewrites it to `true`, because the source compares
the text with `"0"` (`tok->tokAt(2)->str() != "0"`); the spelling `0` becomes `false`. -/
theorem simplifyConditions_zero_spelling (p : Platform) :
    simplifyConditions p 8 (line1 ["if", "(", "00", ")", "\x7b", "x", ";", "\x7d"]) =
        .ok (line1 ["if", "(", "true", ")", "\x7b", "x", ";", "\x7d"], true) ∧
      simplifyConditions p 8 (line1 ["if", "(", "0.0", ")", "\x7b", "x", ";", "\x7d"]) =
        .ok (line1 ["if", "(", "true", ")", "\x7b", "x", ";", "\x7d"], true) ∧
      simplifyConditions p 8 (line1 ["if", "(", "0", ")", "\x7b", "x", ";", "\x7d"]) =
        .ok (line1 ["if", "(", "false", ")", "\x7b", "x", ";", "\x7d"], true) := by
  refine ⟨?_, ?_, ?_⟩ <;>
  simp +decide [line1, simplifyConditions, conditionsBody, conditionsDelete, conditionsNumber,
    conditionsConnective, conditionsCompare, cursorLoop, Result.bind, truthText, setStrAt,
    Token.setStr, Match, Atom.accepts, simpleMatch, strchr, strAt, Token.aaaa0, getElem?_first,
    isName]

/-- The result of `simplifyRedundantParanthesis` is `false` whenever the method returns:
the variable `ret` is set only at its declaration. -/
theorem simplifyRedundantParanthesis_false (fuel : Nat) (ts : List Token)
    (r : List Token × Bool) (h : simplifyRedundantParanthesis fuel ts = .ok r) :
    r.2 = false := by
  unfold simplifyRedundantParanthesis at h
  cases hc : cursorLoop paranthesisBody fuel () [] ts with
  | ok v => rw [hc] at h; simp only [Result.map, Result.bind, Result.ok.injEq] at h; rw [← h]
  | undefined => rw [hc] at h; simp [Result.map, Result.bind] at h
  | unfinished => rw [hc] at h; simp [Result.map, Result.bind] at h

set_option maxRecDepth 8000 in
set_option maxHeartbeats 4000000 in
/-- The part of `simplifyTokenList` up to `simplifyCasts()` keeps
`x = ( ( ( a + b ) ) ) ;`. -/
theorem simplifySizes_parens (p : Platform) :
    simplifySizes p (line1 ["x", "=", "(", "(", "(", "a", "+", "b", ")", ")", ")", ";"]) =
      some (line1 ["x", "=", "(", "(", "(", "a", "+", "b", ")", ")", ")", ";"]) := by
  simp +decide [line1, simplifySizes, combineStrings, combineStringsFrom,
    removeUnwanted, deleteUnwanted, unwantedWords, foldSigns, foldSignsFrom, fillTypeSize,
    fillStructSizes, replaceSizeofVar, sizeofLoop, replaceSizeofArray, replaceConstants,
    simplifyCasts_step, simplifyCasts_nil, castBody, Token.inserted, Token.replace,
    setStrAt, Token.setStr, Result.bind, Result.map, Result.ofOption, Match, MatchVarId,
    Atom.accepts, isString, isBool, simpleMatch, matchType, strchr, strAt, varIdAt,
    Token.aaaa0, getElem?_first, isName]

set_option maxRecDepth 8000 in
set_option maxHeartbeats 4000000 in
/-- The part of `simplifyTokenList` from `while (simplifyCalculations())` to `setVarId()`
keeps `x = ( ( ( a + b ) ) ) ;`. -/
theorem simplifyDeclarations_parens (p : Platform) (m : Nat) :
    simplifyDeclarations p (m + 14)
        (line1 ["x", "=", "(", "(", "(", "a", "+", "b", ")", ")", ")", ";"]) =
      .ok (line1 ["x", "=", "(", "(", "(", "a", "+", "b", ")", ")", ")", ";"]) := by
  simp +decide [line1, simplifyDeclarations, calculationsLoop, simplifyCalculations,
    calcLoop_step, calcLoop_nil, calcBody, calcTimesOne, calcFold, calcNumber, calcVariable,
    replacePointerSum, splitDeclarations, splitBody, splitPoint, setVarId, setVarIdLoop,
    setMemberIds, declareVariable, declaredName, markVariable, replaceNULL, removeNullCasts,
    markMember, setVarIdAt, Token.inserted, Token.replace, setStrAt, Token.setStr, cursorLoop,
    Result.bind, Result.map, Result.ofOption, Match, MatchVarId, Atom.accepts, isString,
    isBool, simpleMatch, matchType, strchr, strAt, varIdAt, Token.aaaa0, getElem?_first, isName]

set_option maxRecDepth 8000 in
set_option maxHeartbeats 4000000 in
/-- The part of `simplifyTokenList` from `simplifyIfAddBraces()` to the loop on `case`
keeps `x = ( ( ( a + b ) ) ) ;`. -/
theorem simplifyBraces_parens (m : Nat) :
    simplifyBraces (m + 14)
        (line1 ["x", "=", "(", "(", "(", "a", "+", "b", ")", ")", ")", ";"]) =
      .ok (line1 ["x", "=", "(", "(", "(", "a", "+", "b", ")", ")", ")", ";"]) := by
  simp +decide [line1, simplifyBraces, simplifyIfAddBraces, addBracesBody, insertBraces,
    statementEnd, Token.inserted, simplifyFunctionParameters, getArguments, moveDeclarations,
    Token.replace, setStrAt, Token.setStr, functionParametersBody, elseif, elseifBody,
    elseifEnd, insertCaseSemicolons, caseBody, parenEnd, cursorLoop,
    Result.bind, Result.map, Result.ofOption, Match, MatchVarId, Atom.accepts, isString,
    isBool, simpleMatch, matchType, strchr, strAt, varIdAt, Token.aaaa0, getElem?_first, isName]

set_option maxRecDepth 8000 in
set_option maxHeartbeats 4000000 in
/-- The call of `simplifyRedundantParanthesis` on `x = ( ( ( a + b ) ) ) ;` deletes one pair
of parentheses and returns `false`. -/
theorem simplifyRedundantParanthesis_parens (m : Nat) :
    simplifyRedundantParanthesis (m + 14)
        (line1 ["x", "=", "(", "(", "(", "a", "+", "b", ")", ")", ")", ";"]) =
      .ok (line1 ["x", "=", "(", "(", "a", "+", "b", ")", ")", ";"], false) := by
  simp +decide [line1, simplifyRedundantParanthesis, paranthesisBody, redundantEnd, cursorLoop,
    Result.bind, Result.map, Result.ofOption, Match, MatchVarId, Atom.accepts, isString,
    isBool, simpleMatch, matchType, strchr, strAt, varIdAt, Token.aaaa0, getElem?_first, isName]

set_option maxRecDepth 8000 in
set_option maxHeartbeats 4000000 in
/-- The call of `simplifyRedundantParanthesis` on `x = ( ( a + b ) ) ;` deletes one more pair
of parentheses and returns `false`. -/
theorem simplifyRedundantParanthesis_parens1 (m : Nat) :
    simplifyRedundantParanthesis (m + 14)
        (line1 ["x", "=", "(", "(", "a", "+", "b", ")", ")", ";"]) =
      .ok (line1 ["x", "=", "(", "a", "+", "b", ")", ";"], false) := by
  simp +decide [line1, simplifyRedundantParanthesis, paranthesisBody, redundantEnd, cursorLoop,
    Result.bind, Result.map, Result.ofOption, Match, MatchVarId, Atom.accepts, isString,
    isBool, simpleMatch, matchType, strchr, strAt, varIdAt, Token.aaaa0, getElem?_first, isName]

set_option maxRecDepth 8000 in
set_option maxHeartbeats 4000000 in
/-- The first round of the loop `while (modified)` on `x = ( ( ( a + b ) ) ) ;`: one pair of
parentheses is deleted and `modified` stays `false`. -/
theorem simplifyRound_parens (p : Platform) (m : Nat) :
    simplifyRound p (m + 14)
        (line1 ["x", "=", "(", "(", "(", "a", "+", "b", ")", ")", ")", ";"]) =
      .ok (line1 ["x", "=", "(", "(", "a", "+", "b", ")", ")", ";"], false) := by
  have h1 : simplifyConditions p (m + 14)
      (line1 ["x", "=", "(", "(", "(", "a", "+", "b", ")", ")", ")", ";"]) =
      .ok (line1 ["x", "=", "(", "(", "(", "a", "+", "b", ")", ")", ")", ";"], false) := by
    simp +decide [line1, simplifyConditions, conditionsBody, conditionsDelete,
      conditionsNumber, conditionsConnective, conditionsCompare, cursorLoop, Result.bind,
      Match, Atom.accepts, simpleMatch, strchr, strAt, Token.aaaa0, getElem?_first, isName]
  have h2 : simplifyFunctionReturn (m + 14)
      (line1 ["x", "=", "(", "(", "(", "a", "+", "b", ")", ")", ")", ";"]) =
      .ok (line1 ["x", "=", "(", "(", "(", "a", "+", "b", ")", ")", ")", ";"], false) := by
    simp +decide [line1, simplifyFunctionReturn, functionReturnBody, cursorLoop, Result.bind,
      Match, Atom.accepts, simpleMatch, strchr, strAt, Token.aaaa0, getElem?_first, isName]
  have h3 : simplifyKnownVariables p (m + 14)
      (line1 ["x", "=", "(", "(", "(", "a", "+", "b", ")", ")", ")", ";"]) =
      .ok (line1 ["x", "=", "(", "(", "(", "a", "+", "b", ")", ")", ")", ";"], false) := by
    simp +decide [line1, simplifyKnownVariables, knownVariablesBody, knownBlockBody, knownBody,
      cursorLoop, Result.bind, Match, MatchVarId, Atom.accepts, simpleMatch, strchr, strAt,
      varIdAt, Token.aaaa0, getElem?_first, isName]
  have h4 : removeReduntantConditions (m + 14)
      (line1 ["x", "=", "(", "(", "(", "a", "+", "b", ")", ")", ")", ";"]) =
      .ok (line1 ["x", "=", "(", "(", "(", "a", "+", "b", ")", ")", ")", ";"], false) := by
    simp +decide [line1, removeReduntantConditions, redundantBody, redundantIf, redundantElse,
      findClosing, eraseTokens, indexAt, stepAt, stepBack, lastTagInIf, cursorLoop,
      Result.bind, Match, Atom.accepts, simpleMatch, strchr, strAt, Token.aaaa0,
      getElem?_first, isName]
  have h6 : simplifyCalculations p
      (line1 ["x", "=", "(", "(", "a", "+", "b", ")", ")", ";"]) =
      some (line1 ["x", "=", "(", "(", "a", "+", "b", ")", ")", ";"], false) := by
    simp +decide [line1, simplifyCalculations, calcLoop_step, calcLoop_nil, calcBody,
      calcTimesOne, calcFold, calcNumber, calcVariable, Match, Atom.accepts, simpleMatch,
      strchr, strAt, Token.aaaa0, getElem?_first, isName]
  rw [simplifyRound, h1]
  simp only [Result.bind]
  rw [h2]
  simp only [Result.bind]
  rw [h3]
  simp only [Result.bind]
  rw [h4]
  simp only [Result.bind]
  rw [simplifyRedundantParanthesis_parens m]
  simp only [Result.bind]
  rw [h6]
  rfl

/-- C31, the code at the failing input `x = ( ( ( a + b ) ) ) ;`: `simplifyTokenList` returns
`x = ( ( a + b ) ) ;` after one round of its fixpoint loop, since the call of
`simplifyRedundantParanthesis` that deleted a pair of parentheses returned `false`; and
`simplifyRedundantParanthesis` applied to this result changes it to `x = ( a + b ) ;`,
again with the result `false`. -/
theorem simplifyTokenList_not_fixpoint (p : Platform) (m : Nat) :
    simplifyTokenList p (m + 14)
        (line1 ["x", "=", "(", "(", "(", "a", "+", "b", ")", ")", ")", ";"]) =
      .ok (line1 ["x", "=", "(", "(", "a", "+", "b", ")", ")", ";"]) ∧
    simplifyRedundantParanthesis (m + 14)
        (line1 ["x", "=", "(", "(", "a", "+", "b", ")", ")", ";"]) =
      .ok (line1 ["x", "=", "(", "a", "+", "b", ")", ";"], false) ∧
    line1 ["x", "=", "(", "a", "+", "b", ")", ";"] ≠
      line1 ["x", "=", "(", "(", "a", "+", "b", ")", ")", ";"] :=
  ⟨simplifyTokenList_stages p (m + 13) _ _ _ _ _ (simplifySizes_parens p)
      (simplifyDeclarations_parens p m) (simplifyBraces_parens m)
      (modifiedLoop_done p (m + 14) (m + 13) _ _ (simplifyRound_parens p m)),
    simplifyRedundantParanthesis_parens1 m, by decide⟩

set_option maxRecDepth 8000 in
set_option maxHeartbeats 4000000 in
/-- C32, the code at the failing input `; if ( true ) \x7b a ; \x7d else if ( b ) \x7b c ;`,
where the `\x7d` that closes the block of the `else if` is missing: in the loop
`while (lastTagInIf)` the call `findClosing(lastTagInIf, "\x7b", "\x7d")` returns the null
pointer and `lastTagInIf->next()` dereferences it, so the run is undefined; and on
`; if ( false ) \x7b a ;` the method finds no closing `\x7d` and erases every token behind
the first one. -/
theorem removeReduntantConditions_missing_brace (m : Nat) :
    removeReduntantConditions (m + 3)
        (line1 [";", "if", "(", "true", ")", "\x7b", "a", ";", "\x7d", "else", "if", "(", "b", ")",
          "\x7b", "c", ";"]) = .undefined ∧
      removeReduntantConditions (m + 3) (line1 [";", "if", "(", "false", ")", "\x7b", "a", ";"]) =
        .ok (line1 [";"], true) := by
  refine ⟨?_, ?_⟩ <;>
  simp +decide [line1, removeReduntantConditions, redundantBody, redundantIf, redundantElse,
    findClosing, eraseTokens, indexAt, stepAt, stepBack, lastTagInIf, cursorLoop,
    Result.bind, Result.map, Match, Atom.accepts, isBool, simpleMatch, strchr, strAt,
    Token.aaaa0, getElem?_first, isName, setStrAt, Token.setStr]

/-- The loop "Check if this is the first token of a function implementation" walks over
tokens other than `;`, `\x7b` and `)` and stops at the first `)`; with `\x7b` or
`const \x7b` behind it, `tok` is pushed. -/
theorem implementationEnd_first_close (args tail : List Token) (c : Token) (k : Nat)
    (hargs : ∀ t ∈ args, t.str ≠ [';'] ∧ t.str ≠ ['{'] ∧ t.str ≠ [')'])
    (hc : c.str = [')'])
    (htail : Match [.word ")", .optional ["const"], .word "\x7b"] (c :: tail) = true) :
    implementationEnd k (args ++ c :: tail) = (true, some (k + args.length)) := by
  induction args generalizing k with
  | nil =>
    rw [List.nil_append, implementationEnd, if_neg (by rw [hc]; decide),
      if_neg (by rw [hc]; decide), if_pos hc, if_pos htail]
    rfl
  | cons a args ih =>
    have ha := hargs a (List.mem_cons_self _ _)
    rw [List.cons_append, implementationEnd, if_neg ha.1, if_neg ha.2.1, if_neg ha.2.2,
      ih (k + 1) (fun t ht => hargs t (List.mem_cons_of_mem _ ht)), List.length_cons]
    congr 2
    omega

/-- A name changes `indentlevel` not. -/
theorem nextIndent_name (indentlevel : Int) (N : Token) (hN : isName N.str = true) :
    nextIndent indentlevel N = indentlevel := by
  rw [nextIndent, if_neg (by rw [isName_ne_cons _ hN '{' [] (by decide) (by decide)]; exact id),
    if_neg (by rw [isName_ne_cons _ hN '}' [] (by decide) (by decide)]; exact id)]

/-- The first loop of `fillFunctionList` standing on a name `N` with `indentlevel ≤ 0`:
with `(` behind `N`, no `;`, `\x7b` or `)` up to the first `)`, and `\x7b` or `const \x7b`
behind that, `N` is pushed and the loop goes on behind the `)`. -/
theorem functionStarts_detect (indentlevel : Int) (N o c : Token) (args tail : List Token)
    (hi : indentlevel ≤ 0) (hN : isName N.str = true) (ho : o.str = ['('])
    (hargs : ∀ t ∈ args, t.str ≠ [';'] ∧ t.str ≠ ['{'] ∧ t.str ≠ [')'])
    (hc : c.str = [')'])
    (htail : Match [.word ")", .optional ["const"], .word "\x7b"] (c :: tail) = true) :
    functionStarts indentlevel (N :: o :: (args ++ c :: tail)) =
      N :: functionStarts indentlevel tail := by
  have hM : Match [.var, .word "("] (N :: o :: (args ++ c :: tail)) = true := by
    simp [Match, MatchVarId, Atom.accepts, hN, ho]
  rw [functionStarts, nextIndent_name _ _ hN, if_neg (by omega), if_pos hM]
  simp only [List.drop_succ_cons, List.drop_zero]
  have hE := implementationEnd_first_close args tail c 1 hargs hc htail
  have hD : List.drop (1 + args.length + 1) (o :: (args ++ c :: tail)) = tail := by
    have h1 : 1 + args.length + 1 = (o :: args).length + 1 := by
      rw [List.length_cons]; omega
    have h2 : o :: (args ++ c :: tail) = (o :: args) ++ c :: tail := rfl
    rw [h1, h2, ← List.drop_drop, List.drop_left]
    rfl
  simp only [hE, if_true, List.singleton_append]
  rw [show (Option.map (fun x => x + 1) (some (1 + args.length))).getD 0 =
    1 + args.length + 1 from rfl, hD]

/-- The first loop of `fillFunctionList` with `indentlevel ≤ 0` walks over tokens other
than `(`, `\x7b` and `\x7d` that stand in front of a name and pushes none of them. -/
theorem functionStarts_inert (indentlevel : Int) (pre : List Token) (N : Token)
    (l : List Token) (hi : indentlevel ≤ 0) (hN : isName N.str = true)
    (hpre : ∀ t ∈ pre, t.str ≠ ['('] ∧ t.str ≠ ['{'] ∧ t.str ≠ ['}']) :
    functionStarts indentlevel (pre ++ N :: l) = functionStarts indentlevel (N :: l) := by
  induction pre with
  | nil => rfl
  | cons a pre ih =>
    have ha := hpre a (List.mem_cons_self _ _)
    have hn : nextIndent indentlevel a = indentlevel := by
      rw [nextIndent, if_neg ha.2.1, if_neg ha.2.2]
    have hM : Match [.var, .word "("] (a :: (pre ++ N :: l)) = false := by
      cases pre with
      | nil =>
        simp [Match, MatchVarId, Atom.accepts,
          isName_ne_cons _ hN '(' [] (by decide) (by decide)]
      | cons b pre =>
        have hb := (hpre b (List.mem_cons_of_mem _ (List.mem_cons_self _ _))).1
        simp [Match, MatchVarId, Atom.accepts, hb]
    rw [List.cons_append, functionStarts, hn, if_neg (by omega), if_neg (by simp [hM]),
      ih (fun t ht => hpre t (List.mem_cons_of_mem _ ht))]

/-- Every token that the first loop of `fillFunctionList` pushes is a token of the
list. -/
theorem functionStarts_subset (ts : List Token) :
    ∀ indentlevel : Int, ∀ t ∈ functionStarts indentlevel ts, t ∈ ts := by
  generalize hk : ts.length = k
  induction k using Nat.strong_induction_on generalizing ts with
  | _ k ih =>
    intro indentlevel t ht
    cases ts with
    | nil => rw [functionStarts] at ht; cases ht
    | cons tok rest =>
      rw [functionStarts] at ht
      split at ht
      · exact List.mem_cons_of_mem _ (ih rest.length (by rw [← hk]; simp) rest rfl _ t ht)
      · split at ht
        · rcases List.mem_append.1 ht with h | h
          · split at h
            · rw [List.mem_singleton.1 h]; exact List.mem_cons_self _ _
            · cases h
          · exact List.mem_cons_of_mem _ (List.mem_of_mem_drop
              (ih _ (by rw [← hk]; simp only [List.length_drop, List.length_cons]; omega) _ rfl
                _ t h))
        · exact List.mem_cons_of_mem _ (ih rest.length (by rw [← hk]; simp) rest rfl _ t ht)

/-- C33 (amended): `fillFunctionList` records a name token `N` that its walk reaches with
`indentlevel ≤ 0` (for one, an `N` with only tokens other than `(`, `\x7b` and `\x7d` in
front of it) whenever `N` is followed by `(`, no `;`, `\x7b` or `)` stands between that
`(` and the first `)` behind it, that first `)` is followed by `\x7b` or by `const \x7b`,
and no function start that is detected behind it has the text of `N`: the first loop,
standing on `N`, pushes `N` and goes on behind the `)`, and `N` is in the list that
`fillFunctionList` leaves. -/
theorem functionList_records (pre args tail : List Token) (N o c : Token)
    (hpre : ∀ t ∈ pre, t.str ≠ ['('] ∧ t.str ≠ ['{'] ∧ t.str ≠ ['}'])
    (hN : isName N.str = true) (ho : o.str = ['('])
    (hargs : ∀ t ∈ args, t.str ≠ [';'] ∧ t.str ≠ ['{'] ∧ t.str ≠ [')'])
    (hc : c.str = [')'])
    (htail : Match [.word ")", .optional ["const"], .word "\x7b"] (c :: tail) = true)
    (huniq : ∀ t ∈ functionStarts 0 tail, t.str ≠ N.str) :
    (∀ indentlevel : Int, indentlevel ≤ 0 →
      functionStarts indentlevel (N :: o :: (args ++ c :: tail)) =
        N :: functionStarts indentlevel tail) ∧
    N ∈ fillFunctionList (pre ++ N :: o :: (args ++ c :: tail)) := by
  refine ⟨fun i hi => functionStarts_detect i N o c args tail hi hN ho hargs hc htail, ?_⟩
  rw [fillFunctionList, functionStarts_inert 0 pre N _ (le_refl _) hN hpre,
    functionStarts_detect 0 N o c args tail (le_refl _) hN ho hargs hc htail,
    removeDuplicates_eq_filter, List.mem_filter, decide_eq_true_eq]
  refine ⟨List.mem_cons_self _ _, ?_⟩
  rw [List.countP_cons_of_pos _ _ (by simp)]
  have h0 : (functionStarts 0 tail).countP (fun g => decide (g.str = N.str)) = 0 := by
    rw [List.countP_eq_zero]
    intro t ht
    simpa using huniq t ht
  omega

set_option maxRecDepth 8000 in
/-- An instance of C33 (amended): in `static int f ( int a ) const \x7b \x7d g ( ) \x7b \x7d`
the token `f` is in the list of `fillFunctionList`. -/
theorem functionList_records_witness :
    (⟨"f".toList, 1, 0, 0⟩ : Token) ∈ fillFunctionList
      (line1 ["static", "int", "f", "(", "int", "a", ")", "const", "\x7b", "\x7d", "g", "(", ")",
        "\x7b", "\x7d"]) :=
  (functionList_records (line1 ["static", "int"]) (line1 ["int", "a"])
    (line1 ["const", "\x7b", "\x7d", "g", "(", ")", "\x7b", "\x7d"]) ⟨"f".toList, 1, 0, 0⟩
    ⟨"(".toList, 1, 0, 0⟩ ⟨")".toList, 1, 0, 0⟩ (by decide) (by decide) rfl (by decide) rfl
    (by decide)
    (by
      have h : functionStarts 0 (line1 ["const", "\x7b", "\x7d", "g", "(", ")", "\x7b", "\x7d"]) =
          line1 ["g"] := by
        simp +decide [functionStarts, line1, nextIndent, implementationEnd, Match, MatchVarId,
          Atom.accepts, isName]
      rw [h]
      decide)).2

set_option maxRecDepth 8000 in
/-- C33 as stated fails on `void m ( int ( * p ) ( int ) ) \x7b \x7d`: the name `m` stands at
brace depth 0 in front of a `(`, the `)` that matches this `(` (the tenth token behind it,
found with the nesting taken into account) is followed by `\x7b`, and `fillFunctionList`
records nothing, since its loop stops at the first `)`, which is followed by `(`. -/
theorem functionList_nested_counterexample :
    fillFunctionList
        (line1 ["void", "m", "(", "int", "(", "*", "p", ")", "(", "int", ")", ")", "\x7b",
          "\x7d"]) = [] ∧
      Match [.var, .word "("]
        ((line1 ["void", "m", "(", "int", "(", "*", "p", ")", "(", "int", ")", ")", "\x7b",
          "\x7d"]).drop 1) = true ∧
      parenEnd 1
        ((line1 ["void", "m", "(", "int", "(", "*", "p", ")", "(", "int", ")", ")", "\x7b",
          "\x7d"]).drop 3) = some 8 ∧
      simpleMatch [")", "\x7b"]
        ((line1 ["void", "m", "(", "int", "(", "*", "p", ")", "(", "int", ")", ")", "\x7b",
          "\x7d"]).drop 11) = true := by
  refine ⟨?_, by decide, by decide, by decide⟩
  have h : functionStarts 0
      (line1 ["void", "m", "(", "int", "(", "*", "p", ")", "(", "int", ")", ")", "\x7b",
        "\x7d"]) = [] := by
    simp +decide [functionStarts, line1, nextIndent, implementationEnd, Match, MatchVarId,
      Atom.accepts, isName, strchr, Token.aaaa0]
  rw [fillFunctionList, h, removeDuplicates]

/-- A token behind the marking loop is a token of the input, or it has the text of the
variable and the id of the loop. -/
theorem markVariable_new (varname : List Char) (varId : Nat) (ts : List Token) :
    ∀ (indentlevel parlevel : Int) (dot : Bool) (t : Token),
      t ∈ markVariable varname varId indentlevel parlevel dot ts →
      t ∈ ts ∨ (t.str = varname ∧ t.varId = varId) := by
  induction ts with
  | nil =>
    intro _ _ _ t h
    rw [markVariable] at h
    cases h
  | cons tok2 rest ih =>
    intro i p d t h
    rw [markVariable] at h
    split_ifs at h with h1 h2 h3 h4 h5 h6 h7 h8
    all_goals
      first
      | exact Or.inl h
      | (rcases List.mem_cons.1 h with rfl | h
         · first
           | exact Or.inl (List.mem_cons_self _ _)
           | exact Or.inr ⟨h1.2, rfl⟩
         · exact (ih _ _ _ t h).imp (List.mem_cons_of_mem _) id)

/-- The links of a list stay when one more id gets a name. -/
theorem linked_update (c : Nat) (name : Nat → List Char) (s : List Char) (ts : List Token)
    (h : Linked c name ts) : Linked (c + 1) (Function.update name (c + 1) s) ts := by
  intro t ht hv
  obtain ⟨h1, h2⟩ := h t ht hv
  refine ⟨by omega, ?_⟩
  rw [Function.update_noteq (by omega), h2]

/-- The links of a list with one more token. -/
theorem linked_cons (c : Nat) (name : Nat → List Char) (t : Token) (ts : List Token)
    (ht : t.varId ≠ 0 → t.varId ≤ c ∧ t.str = name t.varId) (h : Linked c name ts) :
    Linked c name (t :: ts) := by
  intro x hx hv
  rcases List.mem_cons.1 hx with rfl | hx
  · exact ht hv
  · exact h x hx hv

/-- The links of a token stay under more ids whose names agree with the old ones. -/
theorem linked_token_mono (c c1 : Nat) (name name1 : Nat → List Char) (t : Token)
    (hc : c ≤ c1) (hag : ∀ k, k ≤ c → name1 k = name k)
    (ht : t.varId ≠ 0 → t.varId ≤ c ∧ t.str = name t.varId) :
    t.varId ≠ 0 → t.varId ≤ c1 ∧ t.str = name1 t.varId := by
  intro hv
  obtain ⟨h1, h2⟩ := ht hv
  exact ⟨by omega, by rw [hag _ h1, h2]⟩

/-- The marking loop with the next id links this id to the variable name. -/
theorem linked_markVariable (c : Nat) (name : Nat → List Char) (varname : List Char)
    (ts : List Token) (h : Linked c name ts) (indentlevel parlevel : Int) (dot : Bool) :
    Linked (c + 1) (Function.update name (c + 1) varname)
      (markVariable varname (c + 1) indentlevel parlevel dot ts) := by
  intro t ht hv
  rcases markVariable_new varname (c + 1) ts indentlevel parlevel dot t ht with h1 | h1
  · exact linked_update c name varname ts h t h1 hv
  · rw [h1.1, h1.2]
    exact ⟨le_refl _, by rw [Function.update_same]⟩

/-- A declaration keeps the links: the counter does not fall, and the names of the ids
up to the old counter stay. -/
theorem linked_declareVariable (c : Nat) (name : Nat → List Char) (tok : Token)
    (rest : List Token) (h : Linked c name rest) :
    ∃ name1, Linked (declareVariable c tok rest).2 name1 (declareVariable c tok rest).1 ∧
      c ≤ (declareVariable c tok rest).2 ∧ ∀ k, k ≤ c → name1 k = name k := by
  unfold declareVariable
  split_ifs with h1 h2
  · exact ⟨name, h, le_refl _, fun _ _ => rfl⟩
  · exact ⟨_, linked_markVariable c name _ rest h 0 0 false, by simp,
      fun k hk => Function.update_noteq (by omega) _ _⟩
  · exact ⟨name, h, le_refl _, fun _ _ => rfl⟩

/-- The loop "Set variable ids" keeps the links. -/
theorem linked_setVarIdLoop (ts : List Token) :
    ∀ (first : Bool) (c : Nat) (name : Nat → List Char), Linked c name ts →
      ∃ name1, Linked (setVarIdLoop first c ts).2 name1 (setVarIdLoop first c ts).1 ∧
        c ≤ (setVarIdLoop first c ts).2 ∧ ∀ k, k ≤ c → name1 k = name k := by
  generalize hk : ts.length = k
  induction k using Nat.strong_induction_on generalizing ts with
  | _ k ih =>
    intro first c name h
    cases ts with
    | nil => rw [setVarIdLoop.eq_def]; exact ⟨name, h, le_refl _, fun _ _ => rfl⟩
    | cons tok rest =>
      have htok := h tok (List.mem_cons_self _ _)
      have hrest : Linked c name rest := fun t ht => h t (List.mem_cons_of_mem _ ht)
      have hlen : rest.length < k := by rw [← hk]; simp
      rw [setVarIdLoop.eq_def]
      dsimp only
      split_ifs with h1 h2
      · obtain ⟨n1, hl, hc, hag⟩ := ih _ hlen rest rfl false c name hrest
        exact ⟨n1, linked_cons _ _ _ _ (linked_token_mono c _ name n1 tok hc hag htok) hl,
          hc, hag⟩
      · cases rest with
        | nil => exact ⟨name, h, le_refl _, fun _ _ => rfl⟩
        | cons type rest1 =>
          dsimp only
          have htype := hrest type (List.mem_cons_self _ _)
          have hrest1 : Linked c name rest1 := fun t ht => hrest t (List.mem_cons_of_mem _ ht)
          have hlen1 : (declareVariable c type rest1).1.length < k := by
            rw [length_declareVariable, ← hk]
            simp only [List.length_cons]
            omega
          obtain ⟨n0, hl0, hc0, hag0⟩ := linked_declareVariable c name type rest1 hrest1
          obtain ⟨n1, hl, hc, hag⟩ := ih _ hlen1 _ rfl false _ n0 hl0
          have hag1 : ∀ k, k ≤ c → n1 k = name k := fun k hk => by
            rw [hag k (by omega), hag0 k hk]
          exact ⟨n1, linked_cons _ _ _ _
              (linked_token_mono c _ name n1 tok (by omega) hag1 htok)
              (linked_cons _ _ _ _ (linked_token_mono c _ name n1 type (by omega) hag1 htype)
                hl),
            by omega, hag1⟩
      · have hlen1 : (declareVariable c tok rest).1.length < k := by
          rw [length_declareVariable]
          exact hlen
        obtain ⟨n0, hl0, hc0, hag0⟩ := linked_declareVariable c name tok rest hrest
        obtain ⟨n1, hl, hc, hag⟩ := ih _ hlen1 _ rfl false _ n0 hl0
        have hag1 : ∀ k, k ≤ c → n1 k = name k := fun k hk => by
          rw [hag k (by omega), hag0 k hk]
        exact ⟨n1, linked_cons _ _ _ _
            (linked_token_mono c _ name n1 tok (by omega) hag1 htok) hl,
          by omega, hag1⟩

/-- The inner loop of "Struct/Class members" keeps the links when its id is linked to
the name of the member. -/
theorem linked_markMember (owner : Nat) (member : List Char) (varId c : Nat)
    (name : Nat → List Char) (hv : varId ≤ c) (hn : name varId = member) (ts : List Token) :
    Linked c name ts → Linked c name (markMember owner member varId ts) := by
  generalize hk : ts.length = k
  induction k using Nat.strong_induction_on generalizing ts with
  | _ k ih =>
    intro h
    cases ts with
    | nil => rw [markMember]; exact h
    | cons tok2 rest =>
      have htok := h tok2 (List.mem_cons_self _ _)
      have hrest : Linked c name rest := fun t ht => h t (List.mem_cons_of_mem _ ht)
      rw [markMember]
      split_ifs with h1
      · obtain ⟨d, m, more, rfl, hm⟩ := simpleMatch_dot_name member rest h1.2
        have hnew : Linked c name (setVarIdAt varId 1 (d :: m :: more)) := by
          intro t ht hvt
          simp only [setVarIdAt, List.mem_cons] at ht
          rcases ht with rfl | rfl | ht
          · exact hrest _ (List.mem_cons_self _ _) hvt
          · exact ⟨hv, by rw [hn]; exact hm⟩
          · exact hrest t (List.mem_cons_of_mem _ (List.mem_cons_of_mem _ ht)) hvt
        have hlen : (setVarIdAt varId 1 (d :: m :: more)).length < k := by
          rw [length_setVarIdAt, ← hk]
          simp
        exact linked_cons _ _ _ _ htok (ih _ hlen _ rfl hnew)
      · have hlen : rest.length < k := by rw [← hk]; simp
        exact linked_cons _ _ _ _ htok (ih _ hlen rest rfl hrest)

/-- The inner loop of "Struct/Class members" keeps the first token. -/
theorem markMember_cons (owner : Nat) (member : List Char) (varId : Nat) (tok : Token)
    (rest : List Token) :
    markMember owner member varId (tok :: rest) =
      tok :: (markMember owner member varId (tok :: rest)).tail := by
  rw [markMember]
  split_ifs <;> rfl

/-- The loop "Struct/Class members" keeps the links. -/
theorem linked_setMemberIds (ts : List Token) :
    ∀ (c : Nat) (name : Nat → List Char), Linked c name ts →
      ∃ c1 name1, Linked c1 name1 (setMemberIds c ts) ∧ c ≤ c1 ∧
        ∀ k, k ≤ c → name1 k = name k := by
  generalize hk : ts.length = k
  induction k using Nat.strong_induction_on generalizing ts with
  | _ k ih =>
    intro c name h
    cases ts with
    | nil => rw [setMemberIds]; exact ⟨c, name, h, le_refl _, fun _ _ => rfl⟩
    | cons tok rest =>
      have htok := h tok (List.mem_cons_self _ _)
      have hrest : Linked c name rest := fun t ht => h t (List.mem_cons_of_mem _ ht)
      rw [setMemberIds]
      split_ifs with h1
      · have hmark := linked_markMember tok.varId (strAt (tok :: rest) 2) (c + 1) (c + 1)
          (Function.update name (c + 1) (strAt (tok :: rest) 2)) (le_refl _)
          (Function.update_same _ _ _) (tok :: rest)
          (linked_update c name _ _ h)
        have htail : Linked (c + 1) (Function.update name (c + 1) (strAt (tok :: rest) 2))
            (markMember tok.varId (strAt (tok :: rest) 2) (c + 1) (tok :: rest)).tail :=
          fun t ht => hmark t (List.mem_of_mem_tail ht)
        have hlen : (markMember tok.varId (strAt (tok :: rest) 2) (c + 1)
            (tok :: rest)).tail.length < k := by
          rw [List.length_tail, length_markMember, ← hk]
          simp
        obtain ⟨c1, n1, hl, hc, hag⟩ := ih _ hlen _ rfl _ _ htail
        have hag1 : ∀ k, k ≤ c → n1 k = name k := fun k hk => by
          rw [hag k (by omega), Function.update_noteq (by omega)]
        exact ⟨c1, n1, linked_cons _ _ _ _
          (linked_token_mono c c1 name n1 tok (by omega) hag1 htok) hl, by omega, hag1⟩
      · have hlen : rest.length < k := by rw [← hk]; simp
        obtain ⟨c1, n1, hl, hc, hag⟩ := ih _ hlen rest rfl c name hrest
        exact ⟨c1, n1, linked_cons _ _ _ _ (linked_token_mono c c1 name n1 tok hc hag htok) hl,
          hc, hag⟩

/-- C39: after `setVarId` any two tokens that carry the same variable id above 0 have
the same text, for the ids of the loop "Set variable ids" and for the ids of the loop
"Struct/Class members" alike. -/
theorem setVarId_id_links_one_name (ts : List Token) (t1 t2 : Token)
    (h1 : t1 ∈ setVarId ts) (h2 : t2 ∈ setVarId ts) (hv : t1.varId ≠ 0)
    (he : t1.varId = t2.varId) : t1.str = t2.str := by
  have h0 : Linked 0 (fun _ => []) (ts.map (fun t => { t with varId := 0 })) := by
    intro t ht hvt
    obtain ⟨a, -, rfl⟩ := List.mem_map.1 ht
    exact absurd rfl hvt
  obtain ⟨n0, hl0, -, -⟩ := linked_setVarIdLoop _ true 0 _ h0
  obtain ⟨c1, n1, hl, -, -⟩ := linked_setMemberIds _ _ n0 hl0
  have hl1 : Linked c1 n1 (setVarId ts) := hl
  rw [(hl1 t1 h1 hv).2, (hl1 t2 h2 (he ▸ hv)).2, he]

set_option maxRecDepth 8000 in
set_option maxHeartbeats 4000000 in
/-- The ids that `setVarId` gives in `struct S s ; s . a = 1 ;` on line 1 with `s . a ;`
on line 2: the variable `s` gets the id 1 and its member `a` the id 2. -/
theorem setVarId_memberExample :
    setVarId (line1 ["struct", "S", "s", ";", "s", ".", "a", "=", "1", ";"] ++
        [⟨"s".toList, 2, 0, 0⟩, ⟨".".toList, 2, 0, 0⟩, ⟨"a".toList, 2, 0, 0⟩,
          ⟨";".toList, 2, 0, 0⟩]) =
      [tokenOf "struct" 0, tokenOf "S" 0, tokenOf "s" 1, tokenOf ";" 0, tokenOf "s" 1,
        tokenOf "." 0, tokenOf "a" 2, tokenOf "=" 0, tokenOf "1" 0, tokenOf ";" 0,
        ⟨"s".toList, 2, 0, 1⟩, ⟨".".toList, 2, 0, 0⟩, ⟨"a".toList, 2, 0, 2⟩,
        ⟨";".toList, 2, 0, 0⟩] := by
  simp +decide [setVarId, line1, tokenOf, setVarIdLoop, declareVariable, declaredName,
    markVariable, setMemberIds, markMember, setVarIdAt, Match, MatchVarId, simpleMatch,
    Atom.accepts, isName, matchType, varIdAt, strAt, getElem?_first]

/-- An instance of C39: in `struct S s ; s . a = 1 ;` with `s . a ;` on the next line, the
token `a` of line 1 and the token `a` of line 2 carry the id 2, and they have one text. -/
theorem setVarId_id_links_one_name_witness :
    (⟨"a".toList, 1, 0, 2⟩ : Token) ∈
        setVarId (line1 ["struct", "S", "s", ";", "s", ".", "a", "=", "1", ";"] ++
          [⟨"s".toList, 2, 0, 0⟩, ⟨".".toList, 2, 0, 0⟩, ⟨"a".toList, 2, 0, 0⟩,
            ⟨";".toList, 2, 0, 0⟩]) ∧
      (⟨"a".toList, 2, 0, 2⟩ : Token) ∈
        setVarId (line1 ["struct", "S", "s", ";", "s", ".", "a", "=", "1", ";"] ++
          [⟨"s".toList, 2, 0, 0⟩, ⟨".".toList, 2, 0, 0⟩, ⟨"a".toList, 2, 0, 0⟩,
            ⟨";".toList, 2, 0, 0⟩]) ∧
      (⟨"a".toList, 1, 0, 2⟩ : Token).str = (⟨"a".toList, 2, 0, 2⟩ : Token).str :=
  ⟨by rw [setVarId_memberExample]; decide, by rw [setVarId_memberExample]; decide,
    setVarId_id_links_one_name _ ⟨"a".toList, 1, 0, 2⟩ ⟨"a".toList, 2, 0, 2⟩
      (by rw [setVarId_memberExample]; decide) (by rw [setVarId_memberExample]; decide)
      (by decide) rfl⟩

/-- The text `0x` does not occur in a run of decimal digits. -/
theorem strstr_digits (s : List Char) (h : ∀ c ∈ s, isdigit c = true) :
    strstr ['0', 'x'] s = false := by
  induction s with
  | nil => rfl
  | cons c s ih =>
    rw [strstr, ih (fun x hx => h x (List.mem_cons_of_mem _ hx)), Bool.or_false]
    rw [decide_eq_false_iff_not]
    intro ht
    cases s with
    | nil => simp at ht
    | cons d s =>
      simp only [List.length_cons, List.length_nil, List.take_succ_cons, List.take_zero,
        List.cons.injEq, and_true] at ht
      have hd := h d (List.mem_cons_of_mem _ (List.mem_cons_self _ _))
      rw [ht.2] at hd
      revert hd
      decide

/-- The number of the format binary64 that is nearest to a natural number below `2 ^ 53`
is the number. -/
theorem binary64_exact (n : Nat) (h : n < 2 ^ 53) : binary64 n 1 = some (n : ℚ) := by
  by_cases h0 : n = 0
  · subst h0
    simp [binary64]
  have hlog : Nat.log2 n < 53 := (Nat.log2_lt h0).2 h
  have hle : 2 ^ Nat.log2 n ≤ n := Nat.log2_self_le h0
  have hl1 : Nat.log2 1 = 0 := by
    have := (Nat.log2_lt (n := 1) (k := 1) (by decide)).2 (by decide)
    omega
  have hexp : binaryExponent n 1 = (Nat.log2 n : Int) := by
    rw [binaryExponent, hl1]
    simp only [Nat.sub_zero, Nat.zero_sub, pow_zero, mul_one, one_mul]
    rw [if_pos hle]
    simp
  have hk : max (binaryExponent n 1 - 52) (-1074) = (Nat.log2 n : Int) - 52 := by
    rw [hexp]
    omega
  have hneg : (-((Nat.log2 n : Int) - 52)).toNat = 52 - Nat.log2 n := by omega
  have hpos : ((Nat.log2 n : Int) - 52).toNat = 0 := by omega
  have hpow : (0 : Nat) < 2 ^ (52 - Nat.log2 n) := Nat.pos_pow_of_pos _ (by decide)
  have hround : roundHalfEven (n * 2 ^ (52 - Nat.log2 n)) 1 = n * 2 ^ (52 - Nat.log2 n) := by
    rw [roundHalfEven, if_neg (by simp [Nat.mod_one])]
    simp
  have hfin : ¬ 2 ^ 1024 * 2 ^ (52 - Nat.log2 n) ≤ n * 2 ^ (52 - Nat.log2 n) := by
    intro hc
    have := Nat.le_of_mul_le_mul_right hc hpow
    have h2 := Nat.pow_le_pow_right (show 0 < 2 by decide) (show 53 ≤ 1024 by decide)
    exact absurd (lt_of_lt_of_le h h2) (not_lt.2 this)
  rw [binary64, if_neg (by simp [h0])]
  simp only [hk, hneg, hpos, pow_zero, mul_one, one_mul, hround]
  rw [if_neg hfin]
  congr 1
  rw [Nat.cast_mul]
  have hq : ((2 ^ (52 - Nat.log2 n) : Nat) : ℚ) ≠ 0 := by
    exact_mod_cast (Nat.ne_of_gt hpow)
  field_simp

/-- The function `atof` of the example platform reads the decimal text of a natural
number below `2 ^ 53` without an error. -/
theorem exampleAtof_decimal (n : Nat) (h : n < 2 ^ 53) :
    exampleAtof (decimal n) = some (n : ℚ) := by
  obtain ⟨d, ds, hdec, hd⟩ := decimal_head n
  have hall := (decimal_digits n).2
  have hsp : isspace d = false := by
    revert hd
    generalize hk : d.toNat = k
    simp only [isdigit, isspace, hk]
    intro hd
    simp only [Bool.decide_and, Bool.and_eq_true, decide_eq_true_eq] at hd
    simp only [Bool.decide_or, Bool.decide_and, Bool.or_eq_false_iff, decide_eq_false_iff_not,
      Bool.and_eq_false_iff]
    omega
  have hm : d ≠ '-' := by rintro rfl; revert hd; decide
  have hp : d ≠ '+' := by rintro rfl; revert hd; decide
  have h1 : (decimal n).dropWhile isspace = decimal n := by
    rw [hdec, List.dropWhile_cons_of_neg (by simp [hsp])]
  have h2 : (decimal n).takeWhile isdigit = decimal n :=
    List.takeWhile_eq_self_iff.2 hall
  have h3 : (decimal n).dropWhile isdigit = [] :=
    List.dropWhile_eq_nil_iff.2 hall
  have hh : (decimal n).head? = some d := by rw [hdec]; rfl
  have hne : decimal n ≠ [] := (decimal_digits n).1
  unfold exampleAtof
  simp only [h1, hh, Option.some.injEq, hm, hp, or_self, if_false, h2, h3, List.head?_nil,
    List.append_nil, hne, List.tail_nil, List.takeWhile_nil, List.length_nil,
    digitsValue_decimal, reduceCtorEq]
  simp [digitsValue, binary64_exact n h]

/-- The operand of a comparison for the decimal text of a natural number, on a platform
whose `atof` reads this text without an error. -/
theorem operand_decimal (p : Platform) (n : Nat) (h : p.atof (decimal n) = some (n : ℚ)) :
    operand p (decimal n) = some (n : ℚ) := by
  rw [operand, strstr_digits _ (decimal_digits n).2]
  simpa using h

/-- In front of a window that starts with a number, the first `if … else if` of the body
of `simplifyConditions` deletes nothing. -/
theorem conditionsDelete_number (tok A : Token) (more : List Token) (ret : Bool) (a : Nat)
    (hA : A.str = decimal a) :
    conditionsDelete tok (A :: more) ret = (A :: more, ret) := by
  have h1 : (A.str = ['t', 'r', 'u', 'e']) = False := by
    rw [hA]; exact decimal_ne_cons a _ _ (by decide)
  have h2 : (A.str = ['f', 'a', 'l', 's', 'e']) = False := by
    rw [hA]; exact decimal_ne_cons a _ _ (by decide)
  have h3 : (A.str = ['&', '&']) = False := by
    rw [hA]; exact decimal_ne_cons a _ _ (by decide)
  have h4 : (A.str = ['|', '|']) = False := by
    rw [hA]; exact decimal_ne_cons a _ _ (by decide)
  simp [conditionsDelete, simpleMatch, Match, MatchVarId, Atom.accepts, h1, h2, h3, h4]

/-- Standing on `(`, `&&` or `||`, the `if` for `if|while ( %num%` changes nothing. -/
theorem conditionsNumber_connective (tok : Token) (rest : List Token) (ret : Bool)
    (htok : tok.str = ['('] ∨ tok.str = "&&".toList ∨ tok.str = "||".toList) :
    conditionsNumber tok rest ret = some (rest, ret) := by
  have h : Match [.oneOf ["if", "while"], .word "(", .num] (tok :: rest) = false := by
    rcases htok with h | h | h <;> simp [Match, MatchVarId, Atom.accepts, h]
  rw [conditionsNumber, if_neg (by simp [h])]

/-- With a token other than `)`, `&&` and `||` behind the number, the `if` on
`tok2 = tok->tokAt(2)` changes nothing; standing on `(` it changes nothing. -/
theorem conditionsConnective_other (tok A C : Token) (more : List Token) (ret : Bool)
    (h : tok.str = ['('] ∨
      (C.str ≠ [')'] ∧ C.str ≠ "&&".toList ∧ C.str ≠ "||".toList)) :
    conditionsConnective tok (A :: C :: more) ret = (A :: C :: more, ret) := by
  rw [conditionsConnective]
  simp only [List.get?_cons_succ, List.get?_cons_zero]
  rw [if_neg]
  rintro ⟨h1, -, h3⟩
  rcases h with h | h
  · rw [h] at h1
    revert h1
    decide
  · rcases h3 with h3 | h3 | h3
    · exact h.1 h3
    · exact h.2.1 h3
    · exact h.2.2 h3

/-- The part "Reduce (%num% == %num%)" standing on a window `tok A C B tok4` of two
decimal numbers between `(`, `&&`, `||` and `)`, `&&`, `||`, on a platform whose `atof`
reads the two numbers without an error. -/
theorem conditionsCompare_window (p : Platform) (ret : Bool) (before more : List Token)
    (tok A C B tok4 : Token) (a b : Nat)
    (hpa : p.atof (decimal a) = some (a : ℚ)) (hpb : p.atof (decimal b) = some (b : ℚ))
    (htok : tok.str = ['('] ∨ tok.str = "&&".toList ∨ tok.str = "||".toList)
    (hA : A.str = decimal a) (hB : B.str = decimal b)
    (h4 : tok4.str = [')'] ∨ tok4.str = "&&".toList ∨ tok4.str = "||".toList) :
    conditionsCompare p before tok (A :: C :: B :: tok4 :: more) ret =
      match compareOperands C.str (a : ℚ) (b : ℚ) with
      | some result =>
        .ok { before := before, passed := [tok, A.setStr (boolText result)],
              rest := tok4 :: more, state := true, stop := false }
      | none =>
        .ok { before := before, passed := [tok], rest := A :: C :: B :: tok4 :: more,
              state := ret, stop := false } := by
  have hM : Match [.num, .any, .num] (A :: C :: B :: tok4 :: more) = true := by
    simp [Match, MatchVarId, Atom.accepts, hA, hB, isNumber_decimal]
  have h1 : tok.str = "&&".toList ∨ tok.str = "||".toList ∨ tok.str = ['('] := by tauto
  have h2 : tok4.str = "&&".toList ∨ tok4.str = "||".toList ∨ tok4.str = [')'] := by tauto
  rw [conditionsCompare]
  simp only [List.get?_cons_succ, List.get?_cons_zero]
  rw [if_pos ⟨h1, hM, h2⟩]
  have s0 : strAt (A :: C :: B :: tok4 :: more) 0 = A.str := by simp [strAt]
  have s1 : strAt (A :: C :: B :: tok4 :: more) 1 = C.str := by simp [strAt]
  have s2 : strAt (A :: C :: B :: tok4 :: more) 2 = B.str := by simp [strAt]
  rw [s0, s1, s2, hA, hB, operand_decimal p a hpa, operand_decimal p b hpb]
  dsimp only
  cases hc : compareOperands C.str (a : ℚ) (b : ℚ) <;> simp

/-- The chain of `if (cmp == …)` on two natural numbers is the comparison of the
numbers. -/
theorem compareOperands_nat (cmp : List Char) (a b : Nat) :
    compareOperands cmp (a : ℚ) (b : ℚ) =
      if cmp = "==".toList then some (decide (a = b))
      else if cmp = "!=".toList then some (decide (a ≠ b))
      else if cmp = ">=".toList then some (decide (a ≥ b))
      else if cmp = ">".toList then some (decide (a > b))
      else if cmp = "<=".toList then some (decide (a ≤ b))
      else if cmp = "<".toList then some (decide (a < b))
      else none := by
  unfold compareOperands
  simp only [Nat.cast_inj, Nat.cast_le, Nat.cast_lt, ne_eq, ge_iff_le, gt_iff_lt]

/-- C36 (amended): on a platform whose `atof` reads the decimal integers below `2 ^ 53`
without an error (a `double` of 53 bits), in the round of the loop of
`simplifyConditions` that stands on the first token of a window `tok A CMP B tok4`, where
`tok` is `(`, `&&` or `||`, `A` and `B` are the decimal literals of two natural numbers
below `2 ^ 53` and `tok4` is `)`, `&&` or `||`: for each of the six comparisons the three
tokens `A CMP B` become the one token `true` if the comparison of the integers holds and
`false` otherwise, and the result is `true`; with any other middle token the window is
left unchanged, provided that `tok` is `(` or the middle token is none of `)`, `&&`,
`||` (behind `&&` or `||` such a middle token makes the rule for a number between
connectives rewrite `A`). -/
theorem conditions_compare_round (p : Platform) (ret : Bool) (before more : List Token)
    (tok A C B tok4 : Token) (a b : Nat) (ha : a < 2 ^ 53) (hb : b < 2 ^ 53)
    (hp : ∀ n : Nat, n < 2 ^ 53 → p.atof (decimal n) = some (n : ℚ))
    (htok : tok.str = ['('] ∨ tok.str = "&&".toList ∨ tok.str = "||".toList)
    (hA : A.str = decimal a) (hB : B.str = decimal b)
    (h4 : tok4.str = [')'] ∨ tok4.str = "&&".toList ∨ tok4.str = "||".toList) :
    (∀ r : Bool,
      (C.str = "==".toList ∧ r = decide (a = b)) ∨ (C.str = "!=".toList ∧ r = decide (a ≠ b)) ∨
        (C.str = "<".toList ∧ r = decide (a < b)) ∨ (C.str = "<=".toList ∧ r = decide (a ≤ b)) ∨
        (C.str = ">".toList ∧ r = decide (a > b)) ∨ (C.str = ">=".toList ∧ r = decide (a ≥ b)) →
      conditionsBody p ret before tok (A :: C :: B :: tok4 :: more) =
        .ok { before := before, passed := [tok, A.setStr (boolText r)], rest := tok4 :: more,
              state := true, stop := false }) ∧
    (C.str ≠ "==".toList ∧ C.str ≠ "!=".toList ∧ C.str ≠ "<".toList ∧ C.str ≠ "<=".toList ∧
        C.str ≠ ">".toList ∧ C.str ≠ ">=".toList ∧
        (tok.str = ['('] ∨ (C.str ≠ [')'] ∧ C.str ≠ "&&".toList ∧ C.str ≠ "||".toList)) →
      conditionsBody p ret before tok (A :: C :: B :: tok4 :: more) =
        .ok { before := before, passed := [tok], rest := A :: C :: B :: tok4 :: more,
              state := ret, stop := false }) := by
  have hbody : ∀ hC : tok.str = ['('] ∨
      (C.str ≠ [')'] ∧ C.str ≠ "&&".toList ∧ C.str ≠ "||".toList),
      conditionsBody p ret before tok (A :: C :: B :: tok4 :: more) =
        conditionsCompare p before tok (A :: C :: B :: tok4 :: more) ret := by
    intro hC
    rw [conditionsBody, conditionsDelete_number tok A _ ret a hA,
      conditionsNumber_connective tok _ ret htok]
    dsimp only
    rw [conditionsConnective_other tok A C _ ret hC]
  constructor
  · intro r hr
    have hC : C.str ≠ [')'] ∧ C.str ≠ "&&".toList ∧ C.str ≠ "||".toList := by
      rcases hr with h | h | h | h | h | h <;> rw [h.1] <;> decide
    rw [hbody (Or.inr hC), conditionsCompare_window p ret before more tok A C B tok4 a b
      (hp a ha) (hp b hb) htok hA hB h4, compareOperands_nat]
    rcases hr with h | h | h | h | h | h <;> rw [h.1, h.2] <;> simp +decide
  · rintro ⟨n1, n2, n3, n4, n5, n6, hC⟩
    rw [hbody hC, conditionsCompare_window p ret before more tok A C B tok4 a b
      (hp a ha) (hp b hb) htok hA hB h4, compareOperands_nat, if_neg n1, if_neg n2,
      if_neg n6, if_neg n5, if_neg n4, if_neg n3]

/-- The function `atof` of the example platform reads the decimal integers below
`2 ^ 53` without an error. -/
theorem examplePlatform_atof (n : Nat) (h : n < 2 ^ 53) :
    examplePlatform.atof (decimal n) = some (n : ℚ) := by
  rw [show examplePlatform.atof = exampleAtof from rfl]
  exact exampleAtof_decimal n h

/-- An instance of C36 (amended) on the example platform: standing on the `(` of
`( 3 < 5 )`, the round gives `( true` in front of the `)`. -/
theorem conditions_compare_round_witness :
    conditionsBody examplePlatform false [] ⟨"(".toList, 1, 0, 0⟩ (line1 ["3", "<", "5", ")"]) =
      .ok { before := [], passed := line1 ["(", "true"], rest := line1 [")"], state := true,
            stop := false } :=
  (conditions_compare_round examplePlatform false [] [] ⟨"(".toList, 1, 0, 0⟩
    ⟨"3".toList, 1, 0, 0⟩ ⟨"<".toList, 1, 0, 0⟩ ⟨"5".toList, 1, 0, 0⟩ ⟨")".toList, 1, 0, 0⟩ 3 5
    (by norm_num) (by norm_num) examplePlatform_atof (Or.inl rfl)
    (by decide) (by decide) (Or.inl rfl)).1 true (Or.inr (Or.inr (Or.inl ⟨rfl, by decide⟩)))

set_option maxRecDepth 8000 in
set_option maxHeartbeats 4000000 in
/-- C36 as stated fails on `( 1 && 2 ) ;`: the middle token `&&` of the window
`( 1 && 2 )` is none of the six comparisons, and `simplifyConditions` changes the window
to `( 1 && true )`. -/
theorem conditions_compare_counterexample :
    simplifyConditions examplePlatform 6 (line1 ["(", "1", "&&", "2", ")", ";"]) =
        .ok (line1 ["(", "1", "&&", "true", ")", ";"], true) ∧
      line1 ["(", "1", "&&", "true", ")"] ≠ line1 ["(", "1", "&&", "2", ")"] := by
  refine ⟨?_, by decide⟩
  have h1 := operand_decimal examplePlatform 1 (examplePlatform_atof 1 (by norm_num))
  have h2 := operand_decimal examplePlatform 2 (examplePlatform_atof 2 (by norm_num))
  rw [show decimal 1 = ['1'] by decide] at h1
  rw [show decimal 2 = ['2'] by decide] at h2
  simp +decide [line1, simplifyConditions, h1, h2, compareOperands, conditionsBody, conditionsDelete, conditionsNumber,
    conditionsConnective, conditionsCompare, cursorLoop, Result.bind, truthText, setStrAt,
    Token.setStr, Match, Atom.accepts, simpleMatch, strchr, strAt, Token.aaaa0, getElem?_first,
    isName]

/-- The statement `istr >> ivalue` reads the decimal text of a number in the range of
`int`. -/
theorem istreamInt_decimal (p : Platform) (n : Nat) (h : n ≤ p.INT_MAX) :
    istreamInt p (decimal n) = (n : Int) := by
  obtain ⟨d, ds, hdec, hd⟩ := decimal_head n
  have hall := (decimal_digits n).2
  have hsp : isspace d = false := by
    revert hd
    generalize hk : d.toNat = k
    simp only [isdigit, isspace, hk]
    intro hd
    simp only [Bool.decide_and, Bool.and_eq_true, decide_eq_true_eq] at hd
    simp only [Bool.decide_or, Bool.decide_and, Bool.or_eq_false_iff, decide_eq_false_iff_not,
      Bool.and_eq_false_iff]
    omega
  have hm : d ≠ '-' := by rintro rfl; revert hd; decide
  have hp : d ≠ '+' := by rintro rfl; revert hd; decide
  have h1 : (decimal n).dropWhile isspace = decimal n := by
    rw [hdec, List.dropWhile_cons_of_neg (by simp [hsp])]
  have h2 : (decimal n).takeWhile isdigit = decimal n :=
    List.takeWhile_eq_self_iff.2 hall
  have hh : (decimal n).head? = some d := by rw [hdec]; rfl
  unfold istreamInt
  simp only [h1, hh, Option.some.injEq, hm, hp, or_self, if_false, h2, digitsValue_decimal,
    (decimal_digits n).1]
  rw [if_pos]
  constructor
  · have : (0 : Int) ≤ (n : Int) := Int.ofNat_nonneg n
    have : (0 : Int) ≤ (p.INT_MAX : Int) := Int.ofNat_nonneg _
    omega
  · exact_mod_cast h

/-- The function `incdec` with `++` on the decimal text of `n`, where `n + 1` is in the
range of `int`. -/
theorem incdec_plus (p : Platform) (n : Nat) (h : n + 1 ≤ p.INT_MAX) :
    incdec p (decimal n) ['+', '+'] = some (decimal (n + 1)) := by
  rw [incdec, if_pos (by decide), istreamInt_decimal p n (by omega), intResult, if_pos]
  · simp only [Option.map_some', decimalInt]
    rw [if_neg (by omega)]
    congr 1
  · constructor
    · have : (0 : Int) ≤ (p.INT_MAX : Int) := Int.ofNat_nonneg _
      omega
    · exact_mod_cast h

/-- The function `incdec` with `--` on the decimal text of `n` in the range of `int`. -/
theorem incdec_minus (p : Platform) (n : Nat) (h : n ≤ p.INT_MAX) :
    incdec p (decimal n) ['-', '-'] = some (decimalInt ((n : Int) - 1)) := by
  rw [incdec, if_neg (by decide), if_pos (by decide), istreamInt_decimal p n h, intResult,
    if_pos]
  · rfl
  · constructor
    · have : (0 : Int) ≤ (p.INT_MAX : Int) := Int.ofNat_nonneg _
      omega
    · have : ((n : Int)) ≤ (p.INT_MAX : Int) := by exact_mod_cast h
      omega

/-- The statement `tok2->tokAt(2)->str(value.c_str())` when two nodes or more are in
front of the node the round started at. -/
theorem setLiteral_cons2 (a b tok : Token) (l passed rest : List Token) (value : List Char)
    (ret : Bool) :
    Known.setLiteral ⟨a :: b :: l, passed, tok, rest, value, ret⟩ =
      ⟨a :: b.setStr value :: l, passed, tok, rest, value, ret⟩ := by
  simp [Known.setLiteral, setStrAt]

/-- The text of an `int` starts with `-` or a digit. -/
theorem decimalInt_ne_cons (v : Int) (ch : Char) (cs : List Char) (h : isdigit ch = false)
    (h2 : ch ≠ '-') : (decimalInt v = ch :: cs) = False := by
  apply eq_false
  intro e
  obtain ⟨d, ds, hd, hdig⟩ := decimalInt_head v
  rw [hd] at e
  injection e with e1 e2
  subst e1
  rcases hdig with rfl | hdig
  · exact h2 rfl
  · rw [hdig] at h
    cases h

set_option maxRecDepth 8000 in
set_option maxHeartbeats 4000000 in
/-- The round of the loop over `tok2` of `simplifyKnownVariables` that stands on the `v` of
`v = n ; y = v ++ ; \x7d`. -/
theorem knownBlockBody_postInc (p : Platform) (m n i : Nat) (s : Int × Bool)
    (before more : List Token) (v : List Char) (y : Token) (hv : isName v = true)
    (hy : isName y.str = true) (hi : i ≠ 0) (hyi : y.varId ≠ i) (hn : n + 1 ≤ p.INT_MAX) :
    knownBlockBody p (m + 9) s before ⟨v, 1, 0, i⟩
        (idLine [(['='], 0), (decimal n, 0), ([';'], 0)] ++ y :: idLine [(['='], 0), (v, i), (['+', '+'], 0), ([';'], 0), (['}'], 0)] ++ more) =
      .ok { before := before, passed := [⟨v, 1, 0, i⟩],
            rest := idLine [(['='], 0), (decimal (n + 1), 0), ([';'], 0)] ++ y :: idLine [(['='], 0), (decimal n, 0), ([';'], 0), (['}'], 0)] ++ more,
            state := (s.1, true), stop := false } := by
  have hinc := incdec_plus p n hn
  simp (disch := decide) [idLine, setStrAt, Token.setStr, knownBlockBody, knownBody,
    knownAfter, knownBefore, knownCalculation, knownCondition, setLiteral_cons2, cursorLoop,
    Result.bind, Result.map, Result.ofOption, Match, MatchVarId, Atom.accepts, isString,
    isBool, simpleMatch, matchType, strchr, strAt, varIdAt, Token.aaaa0, getElem?_first,
    hv, hy, hi, hyi, Ne.symm hi, Ne.symm hyi, hinc, isName_not_number _ hv,
    isName_not_number _ hy, isName_ne_cons _ hv, isName_ne_cons _ hy, cons_ne_isName _ hv,
    cons_ne_isName _ hy, isName_head _ hv, isName_head _ hy, decimal_ne_cons, decimal_ne_nil,
    isName_decimal, isNumber_decimal, decimal_head?, decimal_headD, decimalInt_ne_cons]

set_option maxRecDepth 8000 in
set_option maxHeartbeats 4000000 in
/-- The round of the loop over `tok2` of `simplifyKnownVariables` that stands on the `v` of
`v = n ; y = ++ v ; \x7d`. -/
theorem knownBlockBody_preInc (p : Platform) (m n i : Nat) (s : Int × Bool)
    (before more : List Token) (v : List Char) (y : Token) (hv : isName v = true)
    (hy : isName y.str = true) (hi : i ≠ 0) (hyi : y.varId ≠ i) (hn : n + 1 ≤ p.INT_MAX) :
    knownBlockBody p (m + 9) s before ⟨v, 1, 0, i⟩
        (idLine [(['='], 0), (decimal n, 0), ([';'], 0)] ++ y :: idLine [(['='], 0), (['+', '+'], 0), (v, i), ([';'], 0), (['}'], 0)] ++ more) =
      .ok { before := before, passed := [⟨v, 1, 0, i⟩],
            rest := idLine [(['='], 0), (decimal (n + 1), 0), ([';'], 0)] ++ y :: idLine [(['='], 0), (decimal (n + 1), 0), ([';'], 0), (['}'], 0)] ++ more,
            state := (s.1, true), stop := false } := by
  have hinc := incdec_plus p n hn
  simp (disch := decide) [idLine, setStrAt, Token.setStr, knownBlockBody, knownBody,
    knownAfter, knownBefore, knownCalculation, knownCondition, setLiteral_cons2, cursorLoop,
    Result.bind, Result.map, Result.ofOption, Match, MatchVarId, Atom.accepts, isString,
    isBool, simpleMatch, matchType, strchr, strAt, varIdAt, Token.aaaa0, getElem?_first,
    hv, hy, hi, hyi, Ne.symm hi, Ne.symm hyi, hinc, isName_not_number _ hv,
    isName_not_number _ hy, isName_ne_cons _ hv, isName_ne_cons _ hy, cons_ne_isName _ hv,
    cons_ne_isName _ hy, isName_head _ hv, isName_head _ hy, decimal_ne_cons, decimal_ne_nil,
    isName_decimal, isNumber_decimal, decimal_head?, decimal_headD, decimalInt_ne_cons]

set_option maxRecDepth 8000 in
set_option maxHeartbeats 4000000 in
/-- The round of the loop over `tok2` of `simplifyKnownVariables` that stands on the `v` of
`v = n ; y = v -- ; \x7d`. -/
theorem knownBlockBody_postDec (p : Platform) (m n i : Nat) (s : Int × Bool)
    (before more : List Token) (v : List Char) (y : Token) (hv : isName v = true)
    (hy : isName y.str = true) (hi : i ≠ 0) (hyi : y.varId ≠ i) (hn : n ≤ p.INT_MAX) :
    knownBlockBody p (m + 9) s before ⟨v, 1, 0, i⟩
        (idLine [(['='], 0), (decimal n, 0), ([';'], 0)] ++ y :: idLine [(['='], 0), (v, i), (['-', '-'], 0), ([';'], 0), (['}'], 0)] ++ more) =
      .ok { before := before, passed := [⟨v, 1, 0, i⟩],
            rest := idLine [(['='], 0), (decimalInt ((n : Int) - 1), 0), ([';'], 0)] ++ y :: idLine [(['='], 0), (decimal n, 0), ([';'], 0), (['}'], 0)] ++ more,
            state := (s.1, true), stop := false } := by
  have hinc := incdec_minus p n hn
  simp (disch := decide) [idLine, setStrAt, Token.setStr, knownBlockBody, knownBody,
    knownAfter, knownBefore, knownCalculation, knownCondition, setLiteral_cons2, cursorLoop,
    Result.bind, Result.map, Result.ofOption, Match, MatchVarId, Atom.accepts, isString,
    isBool, simpleMatch, matchType, strchr, strAt, varIdAt, Token.aaaa0, getElem?_first,
    hv, hy, hi, hyi, Ne.symm hi, Ne.symm hyi, hinc, isName_not_number _ hv,
    isName_not_number _ hy, isName_ne_cons _ hv, isName_ne_cons _ hy, cons_ne_isName _ hv,
    cons_ne_isName _ hy, isName_head _ hv, isName_head _ hy, decimal_ne_cons, decimal_ne_nil,
    isName_decimal, isNumber_decimal, decimal_head?, decimal_headD, decimalInt_ne_cons]

set_option maxRecDepth 8000 in
set_option maxHeartbeats 4000000 in
/-- The round of the loop over `tok2` of `simplifyKnownVariables` that stands on the `v` of
`v = n ; y = -- v ; \x7d`. -/
theorem knownBlockBody_preDec (p : Platform) (m n i : Nat) (s : Int × Bool)
    (before more : List Token) (v : List Char) (y : Token) (hv : isName v = true)
    (hy : isName y.str = true) (hi : i ≠ 0) (hyi : y.varId ≠ i) (hn : n ≤ p.INT_MAX) :
    knownBlockBody p (m + 9) s before ⟨v, 1, 0, i⟩
        (idLine [(['='], 0), (decimal n, 0), ([';'], 0)] ++ y :: idLine [(['='], 0), (['-', '-'], 0), (v, i), ([';'], 0), (['}'], 0)] ++ more) =
      .ok { before := before, passed := [⟨v, 1, 0, i⟩],
            rest := idLine [(['='], 0), (decimalInt ((n : Int) - 1), 0), ([';'], 0)] ++ y :: idLine [(['='], 0), (decimalInt ((n : Int) - 1), 0), ([';'], 0), (['}'], 0)] ++ more,
            state := (s.1, true), stop := false } := by
  have hinc := incdec_minus p n hn
  simp (disch := decide) [idLine, setStrAt, Token.setStr, knownBlockBody, knownBody,
    knownAfter, knownBefore, knownCalculation, knownCondition, setLiteral_cons2, cursorLoop,
    Result.bind, Result.map, Result.ofOption, Match, MatchVarId, Atom.accepts, isString,
    isBool, simpleMatch, matchType, strchr, strAt, varIdAt, Token.aaaa0, getElem?_first,
    hv, hy, hi, hyi, Ne.symm hi, Ne.symm hyi, hinc, isName_not_number _ hv,
    isName_not_number _ hy, isName_ne_cons _ hv, isName_ne_cons _ hy, cons_ne_isName _ hv,
    cons_ne_isName _ hy, isName_head _ hv, isName_head _ hy, decimal_ne_cons, decimal_ne_nil,
    isName_decimal, isNumber_decimal, decimal_head?, decimal_headD, decimalInt_ne_cons]

set_option maxRecDepth 8000 in
set_option maxHeartbeats 4000000 in
/-- The round of the loop over `tok2` of `simplifyKnownVariables` that stands on the `v` of
`v = n ; v ++ ; \x7d`. -/
theorem knownBlockBody_alone (p : Platform) (m n i : Nat) (s : Int × Bool)
    (before more : List Token) (v : List Char) (hv : isName v = true)
    (hi : i ≠ 0) (hn : n + 1 ≤ p.INT_MAX) :
    knownBlockBody p (m + 9) s before ⟨v, 1, 0, i⟩
        (idLine [(['='], 0), (decimal n, 0), ([';'], 0), (v, i), (['+', '+'], 0), ([';'], 0), (['}'], 0)] ++ more) =
      .ok { before := before, passed := [⟨v, 1, 0, i⟩],
            rest := idLine [(['='], 0), (decimal (n + 1), 0), ([';'], 0), ([';'], 0), (['}'], 0)] ++ more,
            state := (s.1, true), stop := false } := by
  have hinc := incdec_plus p n hn
  simp (disch := decide) [idLine, setStrAt, Token.setStr, knownBlockBody, knownBody,
    knownAfter, knownBefore, knownCalculation, knownCondition, setLiteral_cons2, cursorLoop,
    Result.bind, Result.map, Result.ofOption, Match, MatchVarId, Atom.accepts, isString,
    isBool, simpleMatch, matchType, strchr, strAt, varIdAt, Token.aaaa0, getElem?_first,
    hv, hi, Ne.symm hi, hinc, isName_not_number _ hv,
    isName_ne_cons _ hv, cons_ne_isName _ hv, isName_head _ hv, decimal_ne_cons, decimal_ne_nil,
    isName_decimal, isNumber_decimal, decimal_head?, decimal_headD, decimalInt_ne_cons]

/-- C37 (amended): in the round of the loop over `tok2` of `simplifyKnownVariables` that
stands on the `v` of `v = n ;` inside a block, for a name `v` with a variable id and the
decimal literal of a natural number `n` with `n + 1` in the range of `int`: a following
`y = v ++ ;` becomes `y = n ;` and `y = ++ v ;` becomes `y = n+1 ;`, with `--` they become
`y = n ;` and `y = n-1 ;`, and of a following stand-alone statement `v ++ ;` the two tokens
`v ++` are deleted (its `;` stays); in each case the literal of the assignment `v = n ;`
becomes the updated value (`n+1` or `n-1`) and the result is `true`. -/
theorem known_increment (p : Platform) (m n i : Nat) (s : Int × Bool)
    (before more : List Token) (v : List Char) (y : Token) (hv : isName v = true)
    (hy : isName y.str = true) (hi : i ≠ 0) (hyi : y.varId ≠ i) (hn : n + 1 ≤ p.INT_MAX) :
    knownBlockBody p (m + 9) s before ⟨v, 1, 0, i⟩
        (idLine [(['='], 0), (decimal n, 0), ([';'], 0)] ++ y ::
          idLine [(['='], 0), (v, i), (['+', '+'], 0), ([';'], 0), (['}'], 0)] ++ more) =
      .ok { before := before, passed := [⟨v, 1, 0, i⟩],
            rest := idLine [(['='], 0), (decimal (n + 1), 0), ([';'], 0)] ++ y ::
              idLine [(['='], 0), (decimal n, 0), ([';'], 0), (['}'], 0)] ++ more,
            state := (s.1, true), stop := false } ∧
    knownBlockBody p (m + 9) s before ⟨v, 1, 0, i⟩
        (idLine [(['='], 0), (decimal n, 0), ([';'], 0)] ++ y ::
          idLine [(['='], 0), (['+', '+'], 0), (v, i), ([';'], 0), (['}'], 0)] ++ more) =
      .ok { before := before, passed := [⟨v, 1, 0, i⟩],
            rest := idLine [(['='], 0), (decimal (n + 1), 0), ([';'], 0)] ++ y ::
              idLine [(['='], 0), (decimal (n + 1), 0), ([';'], 0), (['}'], 0)] ++ more,
            state := (s.1, true), stop := false } ∧
    knownBlockBody p (m + 9) s before ⟨v, 1, 0, i⟩
        (idLine [(['='], 0), (decimal n, 0), ([';'], 0)] ++ y ::
          idLine [(['='], 0), (v, i), (['-', '-'], 0), ([';'], 0), (['}'], 0)] ++ more) =
      .ok { before := before, passed := [⟨v, 1, 0, i⟩],
            rest := idLine [(['='], 0), (decimalInt ((n : Int) - 1), 0), ([';'], 0)] ++ y ::
              idLine [(['='], 0), (decimal n, 0), ([';'], 0), (['}'], 0)] ++ more,
            state := (s.1, true), stop := false } ∧
    knownBlockBody p (m + 9) s before ⟨v, 1, 0, i⟩
        (idLine [(['='], 0), (decimal n, 0), ([';'], 0)] ++ y ::
          idLine [(['='], 0), (['-', '-'], 0), (v, i), ([';'], 0), (['}'], 0)] ++ more) =
      .ok { before := before, passed := [⟨v, 1, 0, i⟩],
            rest := idLine [(['='], 0), (decimalInt ((n : Int) - 1), 0), ([';'], 0)] ++ y ::
              idLine [(['='], 0), (decimalInt ((n : Int) - 1), 0), ([';'], 0), (['}'], 0)] ++
                more,
            state := (s.1, true), stop := false } ∧
    knownBlockBody p (m + 9) s before ⟨v, 1, 0, i⟩
        (idLine [(['='], 0), (decimal n, 0), ([';'], 0), (v, i), (['+', '+'], 0), ([';'], 0),
          (['}'], 0)] ++ more) =
      .ok { before := before, passed := [⟨v, 1, 0, i⟩],
            rest := idLine [(['='], 0), (decimal (n + 1), 0), ([';'], 0), ([';'], 0),
              (['}'], 0)] ++ more,
            state := (s.1, true), stop := false } :=
  ⟨knownBlockBody_postInc p m n i s before more v y hv hy hi hyi hn,
    knownBlockBody_preInc p m n i s before more v y hv hy hi hyi hn,
    knownBlockBody_postDec p m n i s before more v y hv hy hi hyi (by omega),
    knownBlockBody_preDec p m n i s before more v y hv hy hi hyi (by omega),
    knownBlockBody_alone p m n i s before more v hv hi hn⟩

/-- An instance of C37 (amended) on the example platform: in `) \x7b v = 3 ; y = v ++ ; \x7d`
the round on `v` gives `v = 4 ; y = 3 ; \x7d`. -/
theorem known_increment_witness :
    knownBlockBody examplePlatform 9 (1, false) (line1 [")", "\x7b"]) ⟨"v".toList, 1, 0, 1⟩
        (idLine [(['='], 0), (decimal 3, 0), ([';'], 0)] ++ ⟨"y".toList, 1, 0, 2⟩ ::
          idLine [(['='], 0), ("v".toList, 1), (['+', '+'], 0), ([';'], 0), (['}'], 0)] ++ []) =
      .ok { before := line1 [")", "\x7b"], passed := [⟨"v".toList, 1, 0, 1⟩],
            rest := idLine [(['='], 0), (decimal (3 + 1), 0), ([';'], 0)] ++
              ⟨"y".toList, 1, 0, 2⟩ ::
              idLine [(['='], 0), (decimal 3, 0), ([';'], 0), (['}'], 0)] ++ [],
            state := (1, true), stop := false } :=
  (known_increment examplePlatform 0 3 1 (1, false) (line1 [")", "\x7b"]) [] "v".toList
    ⟨"y".toList, 1, 0, 2⟩ (by decide) (by decide) (by decide) (by decide) (by decide)).1

set_option maxRecDepth 8000 in
set_option maxHeartbeats 4000000 in
/-- C37 as stated fails on `) \x7b v = 99999999999 ; y = v -- ; \x7d` on the example platform
(`int` of 32 bits): the literal is not in the range of `int`, `istr >> ivalue` stores the
largest `int`, and the literal of the assignment becomes `2147483646`, not
`99999999998`. -/
theorem known_increment_counterexample :
    simplifyKnownVariables examplePlatform 12
        (idLine [([')'], 0), (['{'], 0), ("v".toList, 1), (['='], 0), ("99999999999".toList, 0),
          ([';'], 0), ("y".toList, 2), (['='], 0), ("v".toList, 1), (['-', '-'], 0), ([';'], 0),
          (['}'], 0)]) =
      .ok (idLine [([')'], 0), (['{'], 0), ("v".toList, 1), (['='], 0),
          ("2147483646".toList, 0), ([';'], 0), ("y".toList, 2), (['='], 0),
          ("99999999999".toList, 0), ([';'], 0), (['}'], 0)], true) ∧
      decimalInt (99999999999 - 1) ≠ "2147483646".toList := by
  refine ⟨?_, by decide⟩
  have hinc : incdec examplePlatform "99999999999".toList ['-', '-'] =
      some "2147483646".toList := by decide
  simp only [String.toList] at hinc
  simp +decide [idLine, setStrAt, Token.setStr, simplifyKnownVariables, knownVariablesBody,
    knownBlockBody, knownBody, knownAfter, knownBefore, knownCalculation, knownCondition,
    setLiteral_cons2, cursorLoop, Result.bind, Result.map, Result.ofOption, Match, MatchVarId,
    Atom.accepts, isString, isBool, simpleMatch, matchType, strchr, strAt, varIdAt,
    Token.aaaa0, getElem?_first, isName, isNumber, hinc]

/-- The marking loop of `setVarId` for a name: up to the node of its `break` every token
with the text of the variable that is not behind a `.` gets the id, and the nodes from
there on are unchanged. -/
theorem markVariable_scope (varname : List Char) (varId : Nat) (hname : isName varname = true)
    (ts : List Token) :
    ∀ (indentlevel parlevel : Int) (dot : Bool),
      markVariable varname varId indentlevel parlevel dot ts =
        markNames varname varId dot (ts.take ((markEnd indentlevel parlevel ts).getD ts.length))
          ++ ts.drop ((markEnd indentlevel parlevel ts).getD ts.length) := by
  have hsym : ∀ (s : List Char) (ch : Char), isalpha ch = false → ch ≠ '_' →
      s = [ch] → ¬ s = varname := by
    intro s ch h1 h2 hs hv
    rw [hs] at hv
    rw [← hv] at hname
    simp [isName, h1, h2] at hname
  have hget : ∀ (o : Option Nat) (k : Nat), (o.map (· + 1)).getD (k + 1) = o.getD k + 1 := by
    intro o k
    cases o <;> rfl
  induction ts with
  | nil => intro _ _ _; rfl
  | cons tok2 rest ih =>
    intro il pl dot
    rw [markVariable, markEnd]
    by_cases h1 : ¬ dot = true ∧ tok2.str = varname
    · have n1 : tok2.str ≠ ['{'] := fun h => hsym _ '{' (by decide) (by decide) h h1.2
      have n2 : tok2.str ≠ ['}'] := fun h => hsym _ '}' (by decide) (by decide) h h1.2
      have n3 : tok2.str ≠ ['('] := fun h => hsym _ '(' (by decide) (by decide) h h1.2
      have n4 : tok2.str ≠ [')'] := fun h => hsym _ ')' (by decide) (by decide) h h1.2
      have n5 : tok2.str ≠ [';'] := fun h => hsym _ ';' (by decide) (by decide) h h1.2
      rw [if_pos h1, if_neg n1, if_neg n2, if_neg n3, if_neg n4, if_neg (fun h => n5 h.2),
        List.length_cons, hget, List.take_succ_cons, List.drop_succ_cons, markNames, if_pos h1,
        ih]
      rfl
    · rw [if_neg h1]
      split_ifs <;>
        simp only [List.length_cons, hget, List.take_succ_cons, List.drop_succ_cons, markNames,
          if_neg h1, ih, List.cons_append, Option.getD_some, List.take_zero, List.drop_zero,
          List.nil_append]

/-- On a list whose front holds no `\x7b`, `\x7d` or `)`, with a `\x7d` behind it, the
marking loop that starts with `indentlevel` 0 and a `parlevel` that is not negative leaves
at this `\x7d`. -/
theorem markEnd_flat (body after : List Token) (close : Token) (hclose : close.str = ['}'])
    (hbody : ∀ t ∈ body, t.str ≠ ['{'] ∧ t.str ≠ ['}'] ∧ t.str ≠ [')']) :
    ∀ parlevel : Int, 0 ≤ parlevel →
      markEnd 0 parlevel (body ++ close :: after) = some body.length := by
  induction body with
  | nil =>
    intro pl _
    rw [List.nil_append, markEnd, if_neg (by rw [hclose]; decide), if_pos hclose,
      if_pos (by decide)]
    rfl
  | cons t body ih =>
    intro pl hpl
    have ht := hbody t (List.mem_cons_self _ _)
    have ih1 := ih (fun x hx => hbody x (List.mem_cons_of_mem _ hx))
    rw [List.cons_append, markEnd, if_neg ht.1, if_neg ht.2.1]
    by_cases h3 : t.str = ['(']
    · rw [if_pos h3, ih1 (pl + 1) (by omega)]; rfl
    · rw [if_neg h3, if_neg ht.2.2, if_neg (fun h => by omega), ih1 pl hpl]; rfl

/-- C34 (amended): for a declaration that `setVarId` finds at the node `tok` (not `else`
or `return`; the loop "Determine name of declared variable" ends at `;`, `[` or `=` with
the name `varname`), the counter becomes `c + 1`, and in the nodes behind `tok` every
token with the text `varname` that is not immediately behind a `.` gets the id `c + 1` up
to the node at which the marking loop leaves, and the nodes from there on are unchanged.
The loop leaves at the `\x7d` that closes the enclosing block, or in front of it at the
first `;` behind a `)` that closes a parenthesis opened in front of the declaration; for a
block without inner braces and without `)` up to its `\x7d` it leaves at that `\x7d`. -/
theorem declaration_scope (c : Nat) (tok : Token) (rest : List Token) (varname : List Char)
    (hkey : Match [.oneOf ["else", "return"]] [tok] = false)
    (hdecl : Match [.chars ";[="] (declaredName none rest).2 = true)
    (hname : (declaredName none rest).1 = some varname) :
    declareVariable c tok rest =
      (markNames varname (c + 1) false (rest.take ((markEnd 0 0 rest).getD rest.length)) ++
        rest.drop ((markEnd 0 0 rest).getD rest.length), c + 1) ∧
    (∀ (body after : List Token) (close : Token), rest = body ++ close :: after →
      close.str = ['}'] → (∀ t ∈ body, t.str ≠ ['{'] ∧ t.str ≠ ['}'] ∧ t.str ≠ [')']) →
      declareVariable c tok rest =
        (markNames varname (c + 1) false body ++ close :: after, c + 1)) := by
  have hn : isName varname = true :=
    declaredName_isName rest none (fun _ e => by cases e) varname hname
  have h1 : declareVariable c tok rest =
      (markNames varname (c + 1) false (rest.take ((markEnd 0 0 rest).getD rest.length)) ++
        rest.drop ((markEnd 0 0 rest).getD rest.length), c + 1) := by
    rw [declareVariable, if_neg (by simp [hkey]), if_pos ⟨hdecl, by simp [hname]⟩, hname,
      Option.getD_some, markVariable_scope varname (c + 1) hn rest 0 0 false]
  refine ⟨h1, ?_⟩
  intro body after close hrest hclose hbody
  rw [h1, hrest, markEnd_flat body after close hclose hbody 0 (le_refl _), Option.getD_some,
    List.take_left, List.drop_left]

set_option maxRecDepth 8000 in
/-- An instance of C34 (amended): behind the `int` of `\x7b int a ; a = 1 ; b . a = 2 ; \x7d
a = 3 ;` the two tokens `a` of the block that are not behind a `.` get the id 1, and the
`a` behind the `.` and the `a` behind the `\x7d` get none. -/
theorem declaration_scope_witness :
    declareVariable 0 ⟨"int".toList, 1, 0, 0⟩
        (line1 ["a", ";", "a", "=", "1", ";", "b", ".", "a", "=", "2", ";", "\x7d", "a", "=",
          "3", ";"]) =
      ([tokenOf "a" 1, tokenOf ";" 0, tokenOf "a" 1, tokenOf "=" 0, tokenOf "1" 0,
        tokenOf ";" 0, tokenOf "b" 0, tokenOf "." 0, tokenOf "a" 0, tokenOf "=" 0,
        tokenOf "2" 0, tokenOf ";" 0, tokenOf "\x7d" 0, tokenOf "a" 0, tokenOf "=" 0,
        tokenOf "3" 0, tokenOf ";" 0], 1) :=
  ((declaration_scope 0 ⟨"int".toList, 1, 0, 0⟩
    (line1 ["a", ";", "a", "=", "1", ";", "b", ".", "a", "=", "2", ";", "\x7d", "a", "=", "3",
      ";"]) "a".toList (by decide) (by decide) (by decide)).2
    (line1 ["a", ";", "a", "=", "1", ";", "b", ".", "a", "=", "2", ";"])
    (line1 ["a", "=", "3", ";"]) ⟨"\x7d".toList, 1, 0, 0⟩ (by decide) (by decide)
    (by decide)).trans (by decide)

set_option maxRecDepth 8000 in
set_option maxHeartbeats 4000000 in
/-- C34 as stated fails on `\x7b for ( int i = 0 ; i < 3 ; i ++ ) x ; i = 5 ; \x7d`: the
declaration `int i` is found inside the block, and the later token `i` of `i = 5 ;`, in
the same block and not behind a `.`, gets no id: the marking loop leaves at the `;`
behind `x`, where `parlevel` is negative. -/
theorem declaration_scope_counterexample :
    setVarId (line1 ["\x7b", "for", "(", "int", "i", "=", "0", ";", "i", "<", "3", ";", "i", "++",
        ")", "x", ";", "i", "=", "5", ";", "\x7d"]) =
      [tokenOf "\x7b" 0, tokenOf "for" 0, tokenOf "(" 0, tokenOf "int" 0, tokenOf "i" 1,
        tokenOf "=" 0, tokenOf "0" 0, tokenOf ";" 0, tokenOf "i" 1, tokenOf "<" 0, tokenOf "3" 0,
        tokenOf ";" 0, tokenOf "i" 1, tokenOf "++" 0, tokenOf ")" 0, tokenOf "x" 0,
        tokenOf ";" 0, tokenOf "i" 0, tokenOf "=" 0, tokenOf "5" 0, tokenOf ";" 0,
        tokenOf "\x7d" 0] := by
  simp +decide [setVarId, line1, tokenOf, setVarIdLoop, declareVariable, declaredName,
    markVariable, setMemberIds, markMember, setVarIdAt, Match, MatchVarId, simpleMatch,
    Atom.accepts, isName, matchType, varIdAt, strAt, getElem?_first]

/-- The measure of the empty stream. -/
@[simp] theorem streamMeasure_nil : streamMeasure [] = 0 := rfl

/-- The measure of a stream with one more token. -/
@[simp] theorem streamMeasure_cons (t : Token) (ts : List Token) :
    streamMeasure (t :: ts) = tokenWeight t + streamMeasure ts := by
  simp [streamMeasure]

/-- The measure of two streams in a row. -/
@[simp] theorem streamMeasure_append (l1 l2 : List Token) :
    streamMeasure (l1 ++ l2) = streamMeasure l1 + streamMeasure l2 := by
  simp [streamMeasure]

/-- The weight of a token is at least 3. -/
theorem tokenWeight_ge (t : Token) : 3 ≤ tokenWeight t := by
  unfold tokenWeight
  omega

/-- The weight of a token behind `str(s)` is at most 4, and it is 3 when `s` is no
number. -/
theorem tokenWeight_setStr (t : Token) (s : List Char) :
    tokenWeight (t.setStr s) ≤ 4 ∧ (isNumber s = false → tokenWeight (t.setStr s) = 3) := by
  unfold tokenWeight Token.setStr
  constructor
  · simp only [ne_eq, not_true_eq_false, if_false]
    split <;> omega
  · intro h
    simp [h]

/-- The weight of a token with a variable id is at least 5, the weight of a number is at
least 4. -/
theorem tokenWeight_id (t : Token) :
    (t.varId ≠ 0 → 5 ≤ tokenWeight t) ∧ (isNumber t.str = true → 4 ≤ tokenWeight t) := by
  unfold tokenWeight
  constructor
  · intro h
    rw [if_pos h]
    omega
  · intro h
    rw [if_pos h]
    omega

/-- The measure of the front of a stream and of the rest add up to the measure. -/
theorem streamMeasure_take_drop (k : Nat) (l : List Token) :
    streamMeasure (l.take k) + streamMeasure (l.drop k) = streamMeasure l := by
  rw [← streamMeasure_append, List.take_append_drop]

/-- A stream has at most a third of its measure in tokens. -/
theorem length_le_streamMeasure (l : List Token) : 3 * l.length ≤ streamMeasure l := by
  induction l with
  | nil => simp
  | cons t l ih =>
    have := tokenWeight_ge t
    simp only [List.length_cons, streamMeasure_cons]
    omega

/-- The measure of the tokens behind the first `k` is at most the measure less 3 for
each of the `k`. -/
theorem streamMeasure_drop (k : Nat) (l : List Token) (h : k ≤ l.length) :
    streamMeasure (l.drop k) + 3 * k ≤ streamMeasure l := by
  have h1 := streamMeasure_take_drop k l
  have h2 := length_le_streamMeasure (l.take k)
  rw [List.length_take, Nat.min_eq_left h] at h2
  omega

/-- A loop with a cursor does not raise a measure `f` of the stream that none of its
rounds raises, and when it sets the flag, a round has lowered the measure. -/
theorem cursorLoop_measure {σ : Type} (f : List Token → Nat) (flag : σ → Bool)
    (body : σ → List Token → Token → List Token → Result (Step σ))
    (hb : ∀ s before tok rest st, body s before tok rest = .ok st →
      f (st.before ++ st.passed ++ st.rest) ≤ f (before ++ tok :: rest) ∧
      (flag st.state = true → flag s = true ∨
        f (st.before ++ st.passed ++ st.rest) < f (before ++ tok :: rest))) :
    ∀ (fuel : Nat) (s : σ) (before ts : List Token) (out : List Token × σ),
      cursorLoop body fuel s before ts = .ok out →
      f out.1 ≤ f (before ++ ts) ∧
      (flag out.2 = true → flag s = true ∨ f out.1 < f (before ++ ts)) := by
  intro fuel
  induction fuel with
  | zero =>
    intro s before ts out h
    cases ts with
    | nil =>
      rw [cursorLoop] at h
      cases h
      simp
    | cons t r => rw [cursorLoop] at h; cases h
  | succ n ih =>
    intro s before ts out h
    cases ts with
    | nil =>
      rw [cursorLoop] at h
      cases h
      simp
    | cons t r =>
      rw [cursorLoop] at h
      cases hbody : body s before t r with
      | ok st =>
        rw [hbody] at h
        simp only [Result.bind] at h
        obtain ⟨h1, h2⟩ := hb s before t r st hbody
        split at h
        · cases h
          exact ⟨h1, h2⟩
        · obtain ⟨h3, h4⟩ := ih st.state (st.before ++ st.passed) st.rest out h
          refine ⟨le_trans h3 h1, fun ho => ?_⟩
          rcases h4 ho with h5 | h5
          · rcases h2 h5 with h6 | h6
            · exact Or.inl h6
            · exact Or.inr (lt_of_le_of_lt h3 h6)
          · exact Or.inr (lt_of_lt_of_le h5 h1)
      | undefined => rw [hbody] at h; cases h
      | unfinished => rw [hbody] at h; cases h

/-- A loop with a cursor ends within a third of the measure of the nodes from the cursor on
in rounds when, on the streams of a measure up to `B`, no round runs out of rounds itself,
raises the measure of the list behind the cursor or raises the measure of the stream. -/
theorem cursorLoop_finished {σ : Type} (B : Nat)
    (body : σ → List Token → Token → List Token → Result (Step σ))
    (hb : ∀ s before tok rest, streamMeasure (before ++ tok :: rest) ≤ B →
      body s before tok rest ≠ .unfinished)
    (hs : ∀ s before tok rest st, body s before tok rest = .ok st →
      streamMeasure st.rest ≤ streamMeasure rest ∧
      streamMeasure (st.before ++ st.passed ++ st.rest) ≤ streamMeasure (before ++ tok :: rest)) :
    ∀ (fuel : Nat) (s : σ) (before ts : List Token), streamMeasure ts ≤ 3 * fuel →
      streamMeasure (before ++ ts) ≤ B → cursorLoop body fuel s before ts ≠ .unfinished := by
  intro fuel
  induction fuel with
  | zero =>
    intro s before ts h _
    cases ts with
    | nil => rw [cursorLoop]; exact fun e => by cases e
    | cons t r =>
      have := tokenWeight_ge t
      simp only [streamMeasure_cons] at h
      omega
  | succ n ih =>
    intro s before ts h hB
    cases ts with
    | nil => rw [cursorLoop]; exact fun e => by cases e
    | cons t r =>
      rw [cursorLoop]
      cases hbody : body s before t r with
      | ok st =>
        simp only [Result.bind]
        obtain ⟨h1, h2⟩ := hs s before t r st hbody
        split
        · exact fun e => by cases e
        · apply ih
          · have := tokenWeight_ge t
            simp only [streamMeasure_cons] at h
            omega
          · exact le_trans h2 hB
      | undefined => exact fun e => by cases e
      | unfinished => exact absurd hbody (hb s before t r hB)

/-- The measure of a part of a stream from which tokens in the middle are taken out. -/
theorem streamMeasure_cut (l : List Token) (a b c : Nat) (h : a + b ≤ c) :
    streamMeasure ((l.drop a).take b ++ l.drop c) ≤ streamMeasure (l.drop a) := by
  have h1 := streamMeasure_take_drop b (l.drop a)
  rw [List.drop_drop] at h1
  have h2 : l.drop c = (l.drop (a + b)).drop (c - (a + b)) := by
    rw [List.drop_drop]
    congr 1
    omega
  have h3 := streamMeasure_take_drop (c - (a + b)) (l.drop (a + b))
  rw [streamMeasure_append, h2]
  omega

/-- The measure of the tokens behind the first `k` is at most the measure. -/
theorem streamMeasure_drop_le (k : Nat) (l : List Token) :
    streamMeasure (l.drop k) ≤ streamMeasure l := by
  have := streamMeasure_take_drop k l
  omega

/-- The measure of the first `k` tokens is at most the measure. -/
theorem streamMeasure_take_le (k : Nat) (l : List Token) :
    streamMeasure (l.take k) ≤ streamMeasure l := by
  have := streamMeasure_take_drop k l
  omega

/-- A round of the loop of `simplifyRedundantParanthesis` keeps the nodes in front of the
cursor and the node of the cursor, and gives the list behind it a measure that is not
larger. -/
theorem paranthesisBody_step (u : Unit) (before : List Token) (tok : Token)
    (rest : List Token) :
    ∃ st, paranthesisBody u before tok rest = .ok st ∧ st.before = before ∧
      st.passed = [tok] ∧ streamMeasure st.rest ≤ streamMeasure rest := by
  unfold paranthesisBody
  split
  · split
    · exact ⟨_, rfl, rfl, rfl, le_refl _⟩
    · rename_i j _
      split
      · refine ⟨_, rfl, rfl, rfl, ?_⟩
        have h := streamMeasure_cut rest 1 (j - 1) (j + 1) (by omega)
        exact le_trans h (streamMeasure_drop_le 1 rest)
      · exact ⟨_, rfl, rfl, rfl, le_refl _⟩
  · exact ⟨_, rfl, rfl, rfl, le_refl _⟩

/-- The method `simplifyRedundantParanthesis` ends when it has a third of the measure of
the stream in rounds, and it does not raise the measure. -/
theorem simplifyRedundantParanthesis_measure (fuel : Nat) (ts : List Token) :
    (streamMeasure ts ≤ 3 * fuel → simplifyRedundantParanthesis fuel ts ≠ .unfinished) ∧
    ∀ out, simplifyRedundantParanthesis fuel ts = .ok out →
      streamMeasure out.1 ≤ streamMeasure ts ∧ out.2 = false := by
  have hs : ∀ (s : Unit) before tok rest st, paranthesisBody s before tok rest = .ok st →
      streamMeasure st.rest ≤ streamMeasure rest ∧
      streamMeasure (st.before ++ st.passed ++ st.rest) ≤
        streamMeasure (before ++ tok :: rest) := by
    intro s before tok rest st h
    obtain ⟨st', h1, h2, h3, h4⟩ := paranthesisBody_step s before tok rest
    rw [h1] at h
    cases h
    refine ⟨h4, ?_⟩
    rw [h2, h3]
    simp only [streamMeasure_append, streamMeasure_cons, streamMeasure_nil]
    omega
  constructor
  · intro hf
    have h := cursorLoop_finished (streamMeasure ts) paranthesisBody
      (fun s before tok rest _ => by
        obtain ⟨st, h1, -⟩ := paranthesisBody_step s before tok rest
        rw [h1]
        exact fun e => by cases e)
      hs fuel () [] ts hf (le_refl _)
    unfold simplifyRedundantParanthesis
    cases hc : cursorLoop paranthesisBody fuel () [] ts with
    | ok v => exact fun e => by cases e
    | undefined => exact fun e => by cases e
    | unfinished => exact absurd hc h
  · intro out ho
    unfold simplifyRedundantParanthesis at ho
    cases hc : cursorLoop paranthesisBody fuel () [] ts with
    | ok v =>
      rw [hc] at ho
      simp only [Result.map, Result.bind, Result.ok.injEq] at ho
      rw [← ho]
      exact ⟨(cursorLoop_measure streamMeasure (fun _ => false) paranthesisBody
        (fun s before tok rest st h => ⟨(hs s before tok rest st h).2, fun e => by cases e⟩)
        fuel () [] ts v hc).1, rfl⟩
    | undefined => rw [hc] at ho; simp [Result.map, Result.bind] at ho
    | unfinished => rw [hc] at ho; simp [Result.map, Result.bind] at ho

/-- The measure behind `tok->tokAt(i)->str(s)`: at most 1 more; not more for a text that
is no number; and less when a number gets a text that is no number. -/
theorem setStrAt_measure (i : Nat) (s : List Char) (l : List Token) :
    streamMeasure (setStrAt i s l) ≤ streamMeasure l + 1 ∧
    (isNumber s = false → streamMeasure (setStrAt i s l) ≤ streamMeasure l) ∧
    (isNumber s = false → ∀ t, l.get? i = some t → 4 ≤ tokenWeight t →
      streamMeasure (setStrAt i s l) < streamMeasure l) := by
  have h1 := streamMeasure_take_drop i l
  unfold setStrAt
  cases hd : l.drop i with
  | nil =>
    have h2 : l.drop (i + 1) = [] := by
      rw [← List.drop_drop, hd]
      rfl
    have h3 : l.get? i = none := by
      rw [List.get?_eq_getElem?, ← List.head?_drop, hd]
      rfl
    rw [hd] at h1
    rw [h2]
    simp only [List.take_nil, List.map_nil, List.append_nil, streamMeasure_nil] at h1 ⊢
    refine ⟨by omega, fun _ => by omega, fun _ t ht => ?_⟩
    rw [h3] at ht
    cases ht
  | cons a r =>
    have h2 : l.drop (i + 1) = r := by
      rw [← List.drop_drop, hd]
      rfl
    have h3 : l.get? i = some a := by
      rw [List.get?_eq_getElem?, ← List.head?_drop, hd]
      rfl
    rw [hd] at h1
    rw [h2]
    have ha := tokenWeight_ge a
    have hw := tokenWeight_setStr a s
    simp only [List.take_succ_cons, List.take_zero, List.map_cons, List.map_nil,
      streamMeasure_append, streamMeasure_cons, streamMeasure_nil] at h1 ⊢
    refine ⟨by omega, fun hn => ?_, fun hn t ht h4 => ?_⟩
    · have := hw.2 hn
      omega
    · have := hw.2 hn
      rw [h3] at ht
      cases ht
      omega

/-- A stream that a pattern of words matches has a token for every word. -/
theorem simpleMatch_length (ws : List String) :
    ∀ ts : List Token, simpleMatch ws ts = true → ws.length ≤ ts.length := by
  induction ws with
  | nil => intro ts _; exact Nat.zero_le _
  | cons w ws ih =>
    intro ts h
    cases ts with
    | nil => simp [simpleMatch, Match, MatchVarId] at h
    | cons t ts =>
      simp only [simpleMatch, List.map_cons, Match, MatchVarId, Bool.and_eq_true] at h
      have := ih ts h.2
      simp only [List.length_cons]
      omega

/-- The texts `true` and `false` are no numbers. -/
theorem isNumber_truthText (s : List Char) : isNumber (truthText s) = false := by
  unfold truthText
  split <;> rfl

/-- The texts `true` and `false` are no numbers. -/
theorem isNumber_boolText (b : Bool) : isNumber (boolText b) = false := by
  cases b <;> rfl

/-- The first `if … else if` of the body of `simplifyConditions` does not raise the measure
of the list behind `tok`, and lowers it when it sets `ret`. -/
theorem conditionsDelete_measure (tok : Token) (rest : List Token) (ret : Bool) :
    streamMeasure (conditionsDelete tok rest ret).1 ≤ streamMeasure rest ∧
    ((conditionsDelete tok rest ret).2 = true → ret = true ∨
      streamMeasure (conditionsDelete tok rest ret).1 < streamMeasure rest) := by
  have hlen : ∀ a b c : String, simpleMatch [a, b, c] (tok :: rest) = true ∨
      simpleMatch [a, b, c] (tok :: rest) = true ∨ simpleMatch [a, b, c] rest = true →
      2 ≤ rest.length := by
    intro a b c h
    rcases h with h | h | h
    · have := simpleMatch_length _ _ h
      simp only [List.length_cons, List.length_nil] at this
      omega
    · have := simpleMatch_length _ _ h
      simp only [List.length_cons, List.length_nil] at this
      omega
    · have := simpleMatch_length _ _ h
      simp only [List.length_cons, List.length_nil] at this
      omega
  have hdrop : 2 ≤ rest.length → streamMeasure (rest.drop 2) < streamMeasure rest := by
    intro h
    have := streamMeasure_drop 2 rest h
    omega
  unfold conditionsDelete
  split
  · rename_i h
    have h2 : 2 ≤ rest.length := by
      rcases h with h | h | h
      · exact hlen _ _ _ (Or.inl h)
      · exact hlen _ _ _ (Or.inl h)
      · exact hlen _ _ _ (Or.inr (Or.inr h))
    exact ⟨le_of_lt (hdrop h2), fun _ => Or.inr (hdrop h2)⟩
  · split
    · rename_i h
      have h2 : 2 ≤ rest.length := by
        rcases h with h | h | h
        · exact hlen _ _ _ (Or.inl h)
        · exact hlen _ _ _ (Or.inl h)
        · exact hlen _ _ _ (Or.inr (Or.inr h))
      exact ⟨le_of_lt (hdrop h2), fun _ => Or.inr (hdrop h2)⟩
    · exact ⟨le_refl _, fun h => Or.inl h⟩

/-- The `if` "Change numeric constant in condition to true or false" does not raise the
measure of the list behind `tok`, and lowers it when it sets `ret`. -/
theorem conditionsNumber_measure (tok : Token) (rest : List Token) (ret : Bool)
    (r : List Token × Bool) (h : conditionsNumber tok rest ret = some r) :
    streamMeasure r.1 ≤ streamMeasure rest ∧
    (r.2 = true → ret = true ∨ streamMeasure r.1 < streamMeasure rest) := by
  unfold conditionsNumber at h
  split at h
  · rename_i hM
    split at h
    · cases h
    · split at h
      · cases h
        match rest, hM with
        | [], hM => simp [Match, MatchVarId] at hM
        | [_], hM => simp [Match, MatchVarId] at hM
        | a :: b :: more, hM =>
          simp only [Match, MatchVarId, Atom.accepts, Bool.and_eq_true] at hM
          have hb : 4 ≤ tokenWeight b := (tokenWeight_id b).2 hM.2.2.1
          have := (setStrAt_measure 1 (truthText (strAt (a :: b :: more) 1)) (a :: b :: more)).2.2
            (isNumber_truthText _) b rfl hb
          exact ⟨le_of_lt this, fun _ => Or.inr this⟩
      · cases h
        exact ⟨le_refl _, fun h => Or.inl h⟩
  · cases h
    exact ⟨le_refl _, fun h => Or.inl h⟩

/-- The `if` on `tok2 = tok->tokAt(2)` does not raise the measure of the list behind
`tok`, and lowers it when it sets `ret`. -/
theorem conditionsConnective_measure (tok : Token) (rest : List Token) (ret : Bool) :
    streamMeasure (conditionsConnective tok rest ret).1 ≤ streamMeasure rest ∧
    ((conditionsConnective tok rest ret).2 = true → ret = true ∨
      streamMeasure (conditionsConnective tok rest ret).1 < streamMeasure rest) := by
  unfold conditionsConnective
  split
  · exact ⟨le_refl _, fun h => Or.inl h⟩
  · split
    · rename_i hc
      match rest, hc.2.1 with
      | [], hM => simp [Match, MatchVarId] at hM
      | a :: more, hM =>
        simp only [Match, MatchVarId, Atom.accepts, Bool.and_eq_true] at hM
        have ha : 4 ≤ tokenWeight a := (tokenWeight_id a).2 hM.1
        have := (setStrAt_measure 0 (truthText (strAt (a :: more) 0)) (a :: more)).2.2
          (isNumber_truthText _) a rfl ha
        exact ⟨le_of_lt this, fun _ => Or.inr this⟩
    · exact ⟨le_refl _, fun h => Or.inl h⟩

/-- The part "Reduce (%num% == %num%)" keeps the nodes in front of `tok`, does not raise
the measure of the nodes from `tok` on or of those behind it, and lowers the measure when
it sets `ret`. -/
theorem conditionsCompare_measure (p : Platform) (before : List Token) (tok : Token)
    (rest : List Token) (ret : Bool) (st : Step Bool)
    (h : conditionsCompare p before tok rest ret = .ok st) :
    st.before = before ∧
    streamMeasure st.passed + streamMeasure st.rest ≤ tokenWeight tok + streamMeasure rest ∧
    streamMeasure st.rest ≤ streamMeasure rest ∧
    (st.state = true → ret = true ∨
      streamMeasure st.passed + streamMeasure st.rest < tokenWeight tok + streamMeasure rest) := by
  have hsame : ∀ stop : Bool,
      (⟨before, [tok], rest, ret, stop⟩ : Step Bool).before = before ∧
      streamMeasure (⟨before, [tok], rest, ret, stop⟩ : Step Bool).passed +
        streamMeasure (⟨before, [tok], rest, ret, stop⟩ : Step Bool).rest ≤
          tokenWeight tok + streamMeasure rest ∧
      streamMeasure (⟨before, [tok], rest, ret, stop⟩ : Step Bool).rest ≤ streamMeasure rest ∧
      ((⟨before, [tok], rest, ret, stop⟩ : Step Bool).state = true → ret = true ∨
        streamMeasure (⟨before, [tok], rest, ret, stop⟩ : Step Bool).passed +
          streamMeasure (⟨before, [tok], rest, ret, stop⟩ : Step Bool).rest <
            tokenWeight tok + streamMeasure rest) := by
    intro stop
    refine ⟨rfl, ?_, le_refl _, fun h => Or.inl h⟩
    simp only [streamMeasure_cons, streamMeasure_nil]
    omega
  unfold conditionsCompare at h
  split at h
  · cases h
    exact hsame true
  · split at h
    · rename_i hc
      split at h
      · split at h
        · cases h
          match rest, hc.2.1 with
          | [], hM => simp [Match, MatchVarId] at hM
          | [_], hM => simp [Match, MatchVarId] at hM
          | [_, _], hM => simp [Match, MatchVarId] at hM
          | a :: b :: c :: more, hM =>
            have ha := tokenWeight_ge a
            have hb := tokenWeight_ge b
            have hc3 := tokenWeight_ge c
            have hw : ∀ r : Bool, tokenWeight (a.setStr (boolText r)) = 3 :=
              fun r => (tokenWeight_setStr a (boolText r)).2 (isNumber_boolText r)
            refine ⟨rfl, ?_, ?_, fun _ => Or.inr ?_⟩ <;>
              simp only [List.take_succ_cons, List.take_zero, List.map_cons, List.map_nil,
                List.drop_succ_cons, List.drop_zero, streamMeasure_cons, streamMeasure_nil,
                hw] <;>
              omega
        · cases h
          exact hsame false
      · cases h
    · cases h
      exact hsame false

/-- A round of the loop of `simplifyConditions` keeps the nodes in front of `tok`, does
not raise the measure of the nodes from `tok` on or of those behind it, and lowers the
measure when it sets `ret`. -/
theorem conditionsBody_measure (p : Platform) (ret : Bool) (before : List Token) (tok : Token)
    (rest : List Token) (st : Step Bool) (h : conditionsBody p ret before tok rest = .ok st) :
    st.before = before ∧
    streamMeasure st.passed + streamMeasure st.rest ≤ tokenWeight tok + streamMeasure rest ∧
    streamMeasure st.rest ≤ streamMeasure rest ∧
    (st.state = true → ret = true ∨
      streamMeasure st.passed + streamMeasure st.rest < tokenWeight tok + streamMeasure rest) := by
  unfold conditionsBody at h
  have h1 := conditionsDelete_measure tok rest ret
  split at h
  · cases h
  · rename_i r hr
    have h2 := conditionsNumber_measure tok _ _ r hr
    have h3 := conditionsConnective_measure tok r.1 r.2
    obtain ⟨h4, h5, h6, h7⟩ := conditionsCompare_measure p before tok _ _ st h
    refine ⟨h4, by omega, by omega, fun hs => ?_⟩
    rcases h7 hs with h8 | h8
    · rcases h3.2 h8 with h9 | h9
      · rcases h2.2 h9 with h10 | h10
        · rcases h1.2 h10 with h11 | h11
          · exact Or.inl h11
          · exact Or.inr (by omega)
        · exact Or.inr (by omega)
      · exact Or.inr (by omega)
    · exact Or.inr (by omega)

/-- A loop with a cursor ends and does not raise the measure, and lowers it when it sets
the flag of its state, when every round that returns does not raise the measure of the
nodes behind the cursor or of the stream and lowers the measure when it sets the flag, and
no round runs out of rounds on a stream of a measure up to `B`. -/
theorem cursorLoop_pass {σ : Type} (B : Nat) (flag : σ → Bool) (s0 : σ)
    (h0 : flag s0 = false)
    (body : σ → List Token → Token → List Token → Result (Step σ))
    (hb : ∀ s before tok rest, streamMeasure (before ++ tok :: rest) ≤ B →
      body s before tok rest ≠ .unfinished)
    (hs : ∀ s before tok rest st, body s before tok rest = .ok st →
      streamMeasure st.rest ≤ streamMeasure rest ∧
      streamMeasure (st.before ++ st.passed ++ st.rest) ≤
        streamMeasure (before ++ tok :: rest) ∧
      (flag st.state = true → flag s = true ∨
        streamMeasure (st.before ++ st.passed ++ st.rest) <
          streamMeasure (before ++ tok :: rest)))
    (fuel : Nat) (ts : List Token) :
    (streamMeasure ts ≤ 3 * fuel → streamMeasure ts ≤ B →
      cursorLoop body fuel s0 [] ts ≠ .unfinished) ∧
    ∀ out, cursorLoop body fuel s0 [] ts = .ok out →
      streamMeasure out.1 ≤ streamMeasure ts ∧
      (flag out.2 = true → streamMeasure out.1 < streamMeasure ts) := by
  constructor
  · intro hf hB
    exact cursorLoop_finished B body hb
      (fun s before tok rest st h => ⟨(hs s before tok rest st h).1,
        (hs s before tok rest st h).2.1⟩)
      fuel s0 [] ts hf (by simpa using hB)
  · intro out ho
    have := cursorLoop_measure streamMeasure flag body
      (fun s before tok rest st h => (hs s before tok rest st h).2)
      fuel s0 [] ts out ho
    simp only [List.nil_append] at this
    refine ⟨this.1, fun h => ?_⟩
    rcases this.2 h with h1 | h1
    · rw [h0] at h1
      cases h1
    · exact h1

/-- A round that keeps the nodes in front of the cursor and does not raise the measure of
the nodes from the cursor on does not raise the measure of the stream. -/
theorem step_of_parts {σ : Type} (flag : σ → Bool) (s : σ) (before rest : List Token)
    (tok : Token) (st : Step σ)
    (h : st.before = before ∧
      streamMeasure st.passed + streamMeasure st.rest ≤ tokenWeight tok + streamMeasure rest ∧
      streamMeasure st.rest ≤ streamMeasure rest ∧
      (flag st.state = true → flag s = true ∨
        streamMeasure st.passed + streamMeasure st.rest <
          tokenWeight tok + streamMeasure rest)) :
    streamMeasure st.rest ≤ streamMeasure rest ∧
    streamMeasure (st.before ++ st.passed ++ st.rest) ≤
      streamMeasure (before ++ tok :: rest) ∧
    (flag st.state = true → flag s = true ∨
      streamMeasure (st.before ++ st.passed ++ st.rest) <
        streamMeasure (before ++ tok :: rest)) := by
  obtain ⟨h1, h2, h3, h4⟩ := h
  rw [h1]
  simp only [streamMeasure_append, streamMeasure_cons]
  refine ⟨h3, by omega, fun hst => ?_⟩
  rcases h4 hst with h5 | h5
  · exact Or.inl h5
  · exact Or.inr (by omega)

/-- The method `simplifyConditions` ends when it has a third of the measure of the stream
in rounds; it does not raise the measure, and lowers it when its result is `true`. -/
theorem simplifyConditions_measure (p : Platform) (fuel : Nat) (ts : List Token) :
    (streamMeasure ts ≤ 3 * fuel → simplifyConditions p fuel ts ≠ .unfinished) ∧
    ∀ out, simplifyConditions p fuel ts = .ok out →
      streamMeasure out.1 ≤ streamMeasure ts ∧
      (out.2 = true → streamMeasure out.1 < streamMeasure ts) := by
  have h := cursorLoop_pass (streamMeasure ts) (fun b => b) false rfl (conditionsBody p)
    (fun s before tok rest _ => by
      unfold conditionsBody
      split
      · exact fun e => by cases e
      · unfold conditionsCompare
        split
        · exact fun e => by cases e
        · split
          · split
            · split
              · exact fun e => by cases e
              · exact fun e => by cases e
            · exact fun e => by cases e
          · exact fun e => by cases e)
    (fun s before tok rest st h => step_of_parts (fun b => b) s before rest tok st
      (conditionsBody_measure p s before tok rest st h)) fuel ts
  exact ⟨fun hf => h.1 hf (le_refl _), h.2⟩

/-- The measure of a cursor of the loop of `simplifyCalculations`: the measure of the
nodes it holds. -/
theorem cursor_measure_eq (c : Cursor) :
    streamMeasure (c.passed ++ [c.tok] ++ c.rest) =
      streamMeasure c.passed + tokenWeight c.tok + streamMeasure c.rest := by
  simp only [streamMeasure_append, streamMeasure_cons, streamMeasure_nil]
  omega

/-- The measure behind the fold of a calculation: three tokens less, and a token with a
new text. -/
theorem fold_measure (passed rest : List Token) (tok : Token) (h : 4 ≤ rest.length)
    (n : Token) (s : List Char) :
    streamMeasure (passed ++ [tok]) + tokenWeight (n.setStr s) + streamMeasure (rest.drop 3) <
      streamMeasure passed + tokenWeight tok + streamMeasure rest := by
  have hd := streamMeasure_drop 3 rest (by omega)
  have hw := (tokenWeight_setStr n s).1
  simp only [streamMeasure_append, streamMeasure_cons, streamMeasure_nil]
  omega

/-- A round of the loop of `simplifyCalculations` does not raise the measure of the nodes
of the cursor or of those behind `tok`, and lowers the measure when it sets `ret`. -/
theorem calcBody_measure (p : Platform) (c c' : Cursor) (h : calcBody p c = some c') :
    streamMeasure c'.passed + tokenWeight c'.tok + streamMeasure c'.rest ≤
      streamMeasure c.passed + tokenWeight c.tok + streamMeasure c.rest ∧
    (c'.ret = true → c.ret = true ∨
      streamMeasure c'.passed + tokenWeight c'.tok + streamMeasure c'.rest <
        streamMeasure c.passed + tokenWeight c.tok + streamMeasure c.rest) := by
  have h1 : streamMeasure (calcTimesOne c).passed + tokenWeight (calcTimesOne c).tok +
        streamMeasure (calcTimesOne c).rest ≤
        streamMeasure c.passed + tokenWeight c.tok + streamMeasure c.rest ∧
      ((calcTimesOne c).ret = true → c.ret = true ∨
        streamMeasure (calcTimesOne c).passed + tokenWeight (calcTimesOne c).tok +
          streamMeasure (calcTimesOne c).rest <
          streamMeasure c.passed + tokenWeight c.tok + streamMeasure c.rest) := by
    unfold calcTimesOne
    split
    · rename_i hm
      have h2 : 2 ≤ c.rest.length := by
        rcases hm with hm | hm
        · exact simpleMatch_length _ _ hm
        · exact simpleMatch_length _ _ hm
      have := streamMeasure_drop 2 c.rest h2
      exact ⟨by simp only; omega, fun _ => Or.inr (by simp only; omega)⟩
    · exact ⟨le_refl _, fun h => Or.inl h⟩
  have h2 : ∀ (d c2 : Cursor) (b : Bool), calcFold p d = some (c2, b) →
      streamMeasure c2.passed + tokenWeight c2.tok + streamMeasure c2.rest ≤
        streamMeasure d.passed + tokenWeight d.tok + streamMeasure d.rest ∧
      (c2.ret = true → d.ret = true ∨
        streamMeasure c2.passed + tokenWeight c2.tok + streamMeasure c2.rest <
          streamMeasure d.passed + tokenWeight d.tok + streamMeasure d.rest) := by
    intro d c2 b hf
    unfold calcFold at hf
    split at hf
    · rename_i hM
      split at hf
      · split at hf
        · cases hf
          exact ⟨le_refl _, fun h => Or.inl h⟩
        · split at hf
          · cases hf
          · cases hf
            have hlen : 4 ≤ d.rest.length := by
              cases hr : d.rest with
              | nil => rw [hr] at hM; simp [Match, MatchVarId] at hM
              | cons a r1 =>
                cases r1 with
                | nil => rw [hr] at hM; simp [Match, MatchVarId] at hM
                | cons b r2 =>
                  cases r2 with
                  | nil => rw [hr] at hM; simp [Match, MatchVarId] at hM
                  | cons c3 r3 =>
                    cases r3 with
                    | nil => rw [hr] at hM; simp [Match, MatchVarId] at hM
                    | cons d4 r4 => simp
            have key := fold_measure d.passed d.rest d.tok hlen
            exact ⟨le_of_lt (key _ _), fun _ => Or.inr (key _ _)⟩
      · cases hf
    · cases hf
      exact ⟨le_refl _, fun h => Or.inl h⟩
  have h3 : ∀ d : Cursor,
      streamMeasure (calcNumber d).passed + tokenWeight (calcNumber d).tok +
        streamMeasure (calcNumber d).rest ≤
        streamMeasure d.passed + tokenWeight d.tok + streamMeasure d.rest ∧
      ((calcNumber d).ret = true → d.ret = true ∨
        streamMeasure (calcNumber d).passed + tokenWeight (calcNumber d).tok +
          streamMeasure (calcNumber d).rest <
          streamMeasure d.passed + tokenWeight d.tok + streamMeasure d.rest) := by
    intro d
    unfold calcNumber
    split
    · split
      · rename_i a n b rest' heq
        have ha := tokenWeight_ge a
        have hb := tokenWeight_ge b
        rw [heq]
        simp only [streamMeasure_append, streamMeasure_cons, streamMeasure_nil]
        exact ⟨by omega, fun _ => Or.inr (by omega)⟩
      · exact ⟨le_refl _, fun h => Or.inl h⟩
    · exact ⟨le_refl _, fun h => Or.inl h⟩
  have h4 : ∀ d : Cursor,
      streamMeasure (calcVariable d).passed + tokenWeight (calcVariable d).tok +
        streamMeasure (calcVariable d).rest ≤
        streamMeasure d.passed + tokenWeight d.tok + streamMeasure d.rest ∧
      ((calcVariable d).ret = true → d.ret = true ∨
        streamMeasure (calcVariable d).passed + tokenWeight (calcVariable d).tok +
          streamMeasure (calcVariable d).rest <
          streamMeasure d.passed + tokenWeight d.tok + streamMeasure d.rest) := by
    intro d
    unfold calcVariable
    split
    · split
      · rename_i a n b rest' heq
        have ha := tokenWeight_ge a
        have hb := tokenWeight_ge b
        rw [heq]
        simp only [streamMeasure_append, streamMeasure_cons, streamMeasure_nil]
        exact ⟨by omega, fun _ => Or.inr (by omega)⟩
      · exact ⟨le_refl _, fun h => Or.inl h⟩
    · exact ⟨le_refl _, fun h => Or.inl h⟩
  unfold calcBody at h
  split at h
  · cases h
  · rename_i c2 hf
    cases h
    have := h2 _ _ _ hf
    refine ⟨by omega, fun hr => ?_⟩
    rcases this.2 hr with h5 | h5
    · rcases h1.2 h5 with h6 | h6
      · exact Or.inl h6
      · exact Or.inr (by omega)
    · exact Or.inr (by omega)
  · rename_i c2 hf
    cases h
    have a2 := h2 _ _ _ hf
    have a3 := h3 c2
    have a4 := h4 (calcNumber c2)
    refine ⟨by omega, fun hr => ?_⟩
    rcases a4.2 hr with h5 | h5
    · rcases a3.2 h5 with h6 | h6
      · rcases a2.2 h6 with h7 | h7
        · rcases h1.2 h7 with h8 | h8
          · exact Or.inl h8
          · exact Or.inr (by omega)
        · exact Or.inr (by omega)
      · exact Or.inr (by omega)
    · exact Or.inr (by omega)

/-- The loop of `simplifyCalculations` does not raise the measure, and lowers it when it
sets `ret`. -/
theorem calcLoop_measure (p : Platform) (ts : List Token) :
    ∀ (passed : List Token) (ret : Bool) (out : List Token × Bool),
      calcLoop p passed ts ret = some out →
      streamMeasure out.1 ≤ streamMeasure passed + streamMeasure ts ∧
      (out.2 = true → ret = true ∨
        streamMeasure out.1 < streamMeasure passed + streamMeasure ts) := by
  generalize hk : ts.length = k
  induction k using Nat.strong_induction_on generalizing ts with
  | _ k ih =>
    intro passed ret out h
    cases ts with
    | nil =>
      rw [calcLoop_nil] at h
      cases h
      exact ⟨by simp, fun h => Or.inl h⟩
    | cons tok rest =>
      rw [calcLoop_step] at h
      cases hb : calcBody p ⟨[], tok, rest, ret⟩ with
      | none => rw [hb] at h; cases h
      | some c =>
        rw [hb] at h
        have hlen := calcBody_rest p _ _ hb
        have hm := calcBody_measure p _ _ hb
        simp only [streamMeasure_nil, Nat.zero_add] at hm
        obtain ⟨h1, h2⟩ := ih c.rest.length (by rw [← hk]; simp only [List.length_cons] at hlen ⊢; omega)
          c.rest rfl _ _ out h
        simp only [streamMeasure_append, streamMeasure_cons, streamMeasure_nil] at h1 h2 ⊢
        refine ⟨by omega, fun ho => ?_⟩
        rcases h2 ho with h3 | h3
        · rcases hm.2 h3 with h4 | h4
          · exact Or.inl h4
          · exact Or.inr (by omega)
        · exact Or.inr (by omega)

/-- The method `simplifyCalculations` does not raise the measure of the stream, and lowers
it when its result is `true`. -/
theorem simplifyCalculations_measure (p : Platform) (ts : List Token)
    (out : List Token × Bool) (h : simplifyCalculations p ts = some out) :
    streamMeasure out.1 ≤ streamMeasure ts ∧
    (out.2 = true → streamMeasure out.1 < streamMeasure ts) := by
  have := calcLoop_measure p ts [] false out h
  simp only [streamMeasure_nil, Nat.zero_add] at this
  refine ⟨this.1, fun ho => ?_⟩
  rcases this.2 ho with h1 | h1
  · cases h1
  · exact h1

/-- The loop `while (simplifyCalculations()) ;` ends within as many rounds as the measure
of the stream, plus one. -/
theorem calculationsLoop_finished (p : Platform) :
    ∀ (fuel : Nat) (ts : List Token), streamMeasure ts < fuel →
      calculationsLoop p fuel ts ≠ .unfinished := by
  intro fuel
  induction fuel with
  | zero => intro ts h; omega
  | succ n ih =>
    intro ts h
    rw [calculationsLoop]
    cases hs : simplifyCalculations p ts with
    | none => exact fun e => by cases e
    | some r =>
      simp only [Result.ofOption, Result.bind]
      split
      · rename_i hr
        have := (simplifyCalculations_measure p ts r hs).2 hr
        exact ih r.1 (by omega)
      · exact fun e => by cases e

/-- The loop `while (simplifyCalculations()) ;` does not raise the measure of the
stream. -/
theorem calculationsLoop_measure (p : Platform) :
    ∀ (fuel : Nat) (ts out : List Token), calculationsLoop p fuel ts = .ok out →
      streamMeasure out ≤ streamMeasure ts := by
  intro fuel
  induction fuel with
  | zero => intro ts out h; rw [calculationsLoop] at h; cases h
  | succ n ih =>
    intro ts out h
    rw [calculationsLoop] at h
    cases hs : simplifyCalculations p ts with
    | none => rw [hs] at h; cases h
    | some r =>
      rw [hs] at h
      simp only [Result.ofOption, Result.bind] at h
      have hm := (simplifyCalculations_measure p ts r hs).1
      split at h
      · exact le_trans (ih r.1 out h) hm
      · cases h
        exact hm

/-- The inner loop of `simplifyFunctionReturn` does not raise the measure of the stream,
lowers it when it reports a window, and does not raise the measure of the nodes behind the
node `tok` of the outer loop. -/
theorem replaceCalls_measure (pattern : List Atom) (num : List Char)
    (l : List (Token × Bool)) :
    ∀ r, replaceCalls pattern num l = some r →
      streamMeasure (r.1.map Prod.fst) ≤ streamMeasure (l.map Prod.fst) ∧
      (r.2 = true → streamMeasure (r.1.map Prod.fst) < streamMeasure (l.map Prod.fst)) ∧
      streamMeasure (((r.1.dropWhile (fun e => !e.2)).drop 1).map Prod.fst) ≤
        streamMeasure (((l.dropWhile (fun e => !e.2)).drop 1).map Prod.fst) := by
  generalize hk : l.length = k
  induction k using Nat.strong_induction_on generalizing l with
  | _ k ih =>
    intro r h
    cases l with
    | nil =>
      rw [replaceCalls] at h
      cases h
      simp
    | cons tok2 l =>
      have hno : ∀ r1, replaceCalls pattern num l = some r1 →
          r = (tok2 :: r1.1, r1.2) →
          streamMeasure (r.1.map Prod.fst) ≤ streamMeasure ((tok2 :: l).map Prod.fst) ∧
          (r.2 = true →
            streamMeasure (r.1.map Prod.fst) < streamMeasure ((tok2 :: l).map Prod.fst)) ∧
          streamMeasure (((r.1.dropWhile (fun e => !e.2)).drop 1).map Prod.fst) ≤
            streamMeasure ((((tok2 :: l).dropWhile (fun e => !e.2)).drop 1).map Prod.fst) := by
        intro r1 hr he
        subst he
        obtain ⟨h1, h2, h3⟩ := ih l.length (by rw [← hk]; simp) l rfl r1 hr
        refine ⟨?_, fun hx => ?_, ?_⟩
        · simp only [List.map_cons, streamMeasure_cons]; omega
        · have := h2 hx
          simp only [List.map_cons, streamMeasure_cons]; omega
        · cases ht : tok2.2
          · simp only [List.dropWhile_cons, ht, Bool.not_false, if_true]
            exact h3
          · simp only [List.dropWhile_cons, ht, Bool.not_true, Bool.false_eq_true, if_false,
              List.drop_succ_cons, List.drop_zero]
            exact h1
      have hskip : replaceCalls pattern num (tok2 :: l) =
          (replaceCalls pattern num l).map (fun r => (tok2 :: r.1, r.2)) →
          streamMeasure (r.1.map Prod.fst) ≤ streamMeasure ((tok2 :: l).map Prod.fst) ∧
          (r.2 = true →
            streamMeasure (r.1.map Prod.fst) < streamMeasure ((tok2 :: l).map Prod.fst)) ∧
          streamMeasure (((r.1.dropWhile (fun e => !e.2)).drop 1).map Prod.fst) ≤
            streamMeasure ((((tok2 :: l).dropWhile (fun e => !e.2)).drop 1).map Prod.fst) := by
        intro he
        rw [he] at h
        cases hr : replaceCalls pattern num l with
        | none => rw [hr] at h; cases h
        | some r1 =>
          rw [hr] at h
          cases h
          exact hno r1 hr rfl
      have hsame : r = (tok2 :: l, false) →
          streamMeasure (r.1.map Prod.fst) ≤ streamMeasure ((tok2 :: l).map Prod.fst) ∧
          (r.2 = true →
            streamMeasure (r.1.map Prod.fst) < streamMeasure ((tok2 :: l).map Prod.fst)) ∧
          streamMeasure (((r.1.dropWhile (fun e => !e.2)).drop 1).map Prod.fst) ≤
            streamMeasure ((((tok2 :: l).dropWhile (fun e => !e.2)).drop 1).map Prod.fst) := by
        intro he
        subst he
        refine ⟨le_refl _, fun e => ?_, le_refl _⟩
        simp at e
      by_cases hM : Match pattern ((tok2 :: l).map Prod.fst) = true
      · rcases l with _ | ⟨n, _ | ⟨a, _ | ⟨b, l1⟩⟩⟩
        · simp only [replaceCalls, hM, if_true, Option.some.injEq] at h
          exact hsame h.symm
        · simp only [replaceCalls, hM, if_true, Option.some.injEq] at h
          exact hsame h.symm
        · simp only [replaceCalls, hM, if_true, Option.some.injEq] at h
          exact hsame h.symm
        · simp only [replaceCalls, hM, if_true] at h
          split at h
          · cases h
          · rename_i hab
            cases hr : replaceCalls pattern num l1 with
            | none => rw [hr] at h; cases h
            | some r1 =>
              rw [hr] at h
              cases h
              obtain ⟨h1, h2, h3⟩ := ih l1.length (by rw [← hk]; simp; omega) l1 rfl r1 hr
              have hw := (tokenWeight_setStr n.1 num).1
              have hn := tokenWeight_ge n.1
              have ha := tokenWeight_ge a.1
              have hb := tokenWeight_ge b.1
              have ha2 : a.2 = false := by
                cases hx : a.2
                · rfl
                · exact absurd (Or.inl hx) hab
              have hb2 : b.2 = false := by
                cases hx : b.2
                · rfl
                · exact absurd (Or.inr hx) hab
              refine ⟨?_, fun _ => ?_, ?_⟩
              · simp only [Option.map, List.map_cons, streamMeasure_cons]; omega
              · simp only [Option.map, List.map_cons, streamMeasure_cons]; omega
              · cases ht : tok2.2
                · cases hn2 : n.2
                  · simp only [Option.map, List.dropWhile_cons, ht, hn2, ha2, hb2,
                      Bool.not_false, if_true]
                    exact h3
                  · simp only [Option.map, List.dropWhile_cons, ht, hn2, Bool.not_false,
                      Bool.not_true, if_true, Bool.false_eq_true, if_false, List.drop_succ_cons,
                      List.drop_zero, List.map_cons, streamMeasure_cons]
                    omega
                · simp only [Option.map, List.dropWhile_cons, ht, Bool.not_true,
                    Bool.false_eq_true, if_false, List.drop_succ_cons, List.drop_zero,
                    List.map_cons, streamMeasure_cons]
                  omega
      · apply hskip
        rcases l with _ | ⟨n, _ | ⟨a, _ | ⟨b, l1⟩⟩⟩ <;> simp only [replaceCalls, hM] <;> rfl

/-- The nodes behind the node `tok` in the list of pairs of a round. -/
theorem dropWhile_flagged (before rest : List Token) (tok : Token) :
    ((before.map (fun t => (t, false)) ++ (tok, true) :: rest.map (fun t => (t, false))).dropWhile
      (fun e => !e.2)).drop 1 = rest.map (fun t => (t, false)) := by
  induction before with
  | nil => simp
  | cons a before ih => simp

/-- A round of the loop of `simplifyFunctionReturn` does not raise the measure of the
nodes behind the cursor or of the stream, and lowers the measure when it sets `ret`. -/
theorem functionReturnBody_measure (s : Int × Bool) (before : List Token) (tok : Token)
    (rest : List Token) (st : Step (Int × Bool))
    (h : functionReturnBody s before tok rest = .ok st) :
    streamMeasure st.rest ≤ streamMeasure rest ∧
    streamMeasure (st.before ++ st.passed ++ st.rest) ≤
      streamMeasure (before ++ tok :: rest) ∧
    (st.state.2 = true → s.2 = true ∨
      streamMeasure (st.before ++ st.passed ++ st.rest) <
        streamMeasure (before ++ tok :: rest)) := by
  unfold functionReturnBody at h
  split at h
  · cases h
    exact ⟨le_refl _, by simp, fun h => Or.inl h⟩
  · split at h
    · cases h
      exact ⟨le_refl _, by simp, fun h => Or.inl h⟩
    · split at h
      · split at h
        · cases h
        · rename_i r hr
          cases h
          obtain ⟨h1, h2, h3⟩ := replaceCalls_measure _ _ _ r hr
          rw [dropWhile_flagged] at h3
          have hin : (before.map (fun t => (t, false)) ++
              (tok, true) :: rest.map (fun t => (t, false))).map Prod.fst =
              before ++ tok :: rest := by
            simp [Function.comp_def]
          have hrest : (rest.map (fun t => (t, false))).map Prod.fst = rest := by
            simp [Function.comp_def]
          rw [hin] at h1 h2
          rw [hrest] at h3
          have hout : (r.1.takeWhile (fun e => !e.2)).map Prod.fst ++
              ((r.1.dropWhile (fun e => !e.2)).take 1).map Prod.fst ++
              ((r.1.dropWhile (fun e => !e.2)).drop 1).map Prod.fst = r.1.map Prod.fst := by
            rw [List.append_assoc, ← List.map_append, List.take_append_drop, ← List.map_append,
              List.takeWhile_append_dropWhile]
          refine ⟨h3, ?_, fun hx => ?_⟩
          · rw [hout]
            exact h1
          · rw [hout]
            simp only [Bool.or_eq_true] at hx
            rcases hx with hx | hx
            · exact Or.inl hx
            · exact Or.inr (h2 hx)
      · cases h
        exact ⟨le_refl _, by simp, fun h => Or.inl h⟩

/-- The method `simplifyFunctionReturn` ends when it has a third of the measure of the
stream in rounds; it does not raise the measure, and lowers it when its result is
`true`. -/
theorem simplifyFunctionReturn_measure (fuel : Nat) (ts : List Token) :
    (streamMeasure ts ≤ 3 * fuel → simplifyFunctionReturn fuel ts ≠ .unfinished) ∧
    ∀ out, simplifyFunctionReturn fuel ts = .ok out →
      streamMeasure out.1 ≤ streamMeasure ts ∧
      (out.2 = true → streamMeasure out.1 < streamMeasure ts) := by
  have h := cursorLoop_pass (streamMeasure ts) (fun s : Int × Bool => s.2) (0, false) rfl
    functionReturnBody
    (fun s before tok rest _ => by
      unfold functionReturnBody
      split
      · exact fun e => by cases e
      · split
        · exact fun e => by cases e
        · split
          · split
            · exact fun e => by cases e
            · exact fun e => by cases e
          · exact fun e => by cases e)
    functionReturnBody_measure fuel ts
  unfold simplifyFunctionReturn
  cases hc : cursorLoop functionReturnBody fuel (0, false) [] ts with
  | ok v =>
    refine ⟨fun _ e => (by cases e), fun out ho => ?_⟩
    simp only [Result.map, Result.bind, Result.ok.injEq] at ho
    rw [← ho]
    exact h.2 v hc
  | undefined =>
    exact ⟨fun _ e => (by cases e), fun out ho => by simp [Result.map, Result.bind] at ho⟩
  | unfinished =>
    exact ⟨fun hf => absurd hc (h.1 hf (le_refl _)),
      fun out ho => by simp [Result.map, Result.bind] at ho⟩

/-- The statement `tok->tokAt(i)->str(s)` keeps the number of nodes. -/
theorem length_setStrAt (i : Nat) (s : List Char) (l : List Token) :
    (setStrAt i s l).length = l.length := by
  unfold setStrAt
  simp only [List.length_append, List.length_map, List.length_take, List.length_drop]
  omega

/-- The statement `tok2->tokAt(2)->str(value.c_str())` raises the measure of the nodes of
the cursor and of the nodes behind `tok3` by 1 at most, and keeps the number of nodes
behind `tok3`, `value` and `ret`. -/
theorem setLiteral_measure (c : Known) :
    Known.total (Known.setLiteral c) ≤ Known.total c + 1 ∧
    streamMeasure (Known.setLiteral c).rest ≤ streamMeasure c.rest + 1 ∧
    (Known.setLiteral c).rest.length = c.rest.length ∧
    (Known.setLiteral c).ret = c.ret ∧ (Known.setLiteral c).value = c.value := by
  unfold Known.setLiteral
  split
  · have := (setStrAt_measure 1 c.value c.before).1
    refine ⟨?_, ?_, rfl, rfl, rfl⟩ <;> (try simp only [Known.total]) <;> omega
  · split
    · have := (setStrAt_measure (1 - c.before.length) c.value c.passed).1
      refine ⟨?_, ?_, rfl, rfl, rfl⟩ <;> (try simp only [Known.total]) <;> omega
    · split
      · have := (tokenWeight_setStr c.tok c.value).1
        have := tokenWeight_ge c.tok
        refine ⟨?_, ?_, rfl, rfl, rfl⟩ <;> (try simp only [Known.total]) <;> omega
      · have := (setStrAt_measure (1 - (c.before.length + c.passed.length + 1)) c.value
          c.rest).1
        refine ⟨?_, ?_, length_setStrAt _ _ _, rfl, rfl⟩ <;> (try simp only [Known.total]) <;>
          omega

/-- The `if` "Replace variable with numeric constant" does not raise the measure, and
lowers it when it sets `ret`. -/
theorem knownCondition_measure (varid : Nat) (hv : varid ≠ 0) (c : Known) :
    Known.total (knownCondition varid c) ≤ Known.total c ∧
    streamMeasure (knownCondition varid c).rest ≤ streamMeasure c.rest ∧
    ((knownCondition varid c).ret = true → c.ret = true ∨
      Known.total (knownCondition varid c) < Known.total c) := by
  obtain ⟨before, passed, tok, rest, value, ret⟩ := c
  unfold knownCondition
  dsimp only
  split
  · rename_i hM
    rcases rest with _ | ⟨n1, _ | ⟨n2, rest1⟩⟩
    · simp [MatchVarId] at hM
    · simp [MatchVarId] at hM
    · simp only [MatchVarId, Atom.accepts, Bool.and_eq_true, decide_eq_true_eq] at hM
      have h5 := (tokenWeight_id n2).1 (by rw [hM.2.2.1]; exact hv)
      have h4 := (tokenWeight_setStr n2 value).1
      simp only [Known.total, streamMeasure_append, streamMeasure_cons, streamMeasure_nil]
      exact ⟨by omega, by omega, fun _ => Or.inr (by omega)⟩
  · exact ⟨le_refl _, le_refl _, fun h => Or.inl h⟩

/-- The `if` "Variable is used in calculation" does not raise the measure, and lowers it
when it sets `ret`. -/
theorem knownCalculation_measure (varid : Nat) (hv : varid ≠ 0) (c : Known) :
    Known.total (knownCalculation varid c) ≤ Known.total c ∧
    streamMeasure (knownCalculation varid c).rest ≤ streamMeasure c.rest ∧
    ((knownCalculation varid c).ret = true → c.ret = true ∨
      Known.total (knownCalculation varid c) < Known.total c) := by
  obtain ⟨before, passed, tok, rest, value, ret⟩ := c
  unfold knownCalculation
  dsimp only
  split
  · rename_i hM
    rcases rest with _ | ⟨n1, rest1⟩
    · simp [MatchVarId] at hM
    · simp only [MatchVarId, Atom.accepts, Bool.and_eq_true, decide_eq_true_eq] at hM
      have h5 := (tokenWeight_id n1).1 (by rw [hM.2.1]; exact hv)
      have h4 := (tokenWeight_setStr n1 value).1
      simp only [Known.total, streamMeasure_append, streamMeasure_cons, streamMeasure_nil]
      exact ⟨by omega, by omega, fun _ => Or.inr (by omega)⟩
  · exact ⟨le_refl _, le_refl _, fun h => Or.inl h⟩

/-- The `if` on `%varid% ++|--` does not raise the measure, and lowers it when it sets
`ret`. -/
theorem knownAfter_measure (p : Platform) (varid : Nat) (hv : varid ≠ 0) (c c' : Known)
    (h : knownAfter p varid c = some c') :
    Known.total c' ≤ Known.total c ∧ streamMeasure c'.rest ≤ streamMeasure c.rest ∧
    (c'.ret = true → c.ret = true ∨ Known.total c' < Known.total c) := by
  obtain ⟨before, passed, tok, rest, value, ret⟩ := c
  unfold knownAfter at h
  dsimp only at h
  split at h
  · rename_i hM
    rcases rest with _ | ⟨n1, _ | ⟨op, more⟩⟩
    · simp [MatchVarId] at hM
    · simp [MatchVarId] at hM
    · simp only [MatchVarId, Atom.accepts, Bool.and_eq_true, decide_eq_true_eq] at hM
      have h5 := (tokenWeight_id n1).1 (by rw [hM.1]; exact hv)
      have h3 := tokenWeight_ge op
      split at h
      · cases h
      · rename_i value1 _
        split at h
        · cases h
          have hs := setLiteral_measure
            { before := before, passed := passed, tok := tok,
              rest := (n1 :: op :: more).drop 2, value := value1, ret := true }
          simp only [Known.total, List.drop_succ_cons, List.drop_zero, streamMeasure_cons]
            at hs ⊢
          exact ⟨by omega, by omega, fun _ => Or.inr (by omega)⟩
        · cases h
          have hs := setLiteral_measure
            { before := before, passed := passed ++ [tok], tok := n1.setStr value,
              rest := (op :: more).drop 1, value := value1, ret := true }
          have h4 := (tokenWeight_setStr n1 value).1
          simp only [Known.total, List.drop_succ_cons, List.drop_zero, streamMeasure_cons,
            streamMeasure_append, streamMeasure_nil] at hs ⊢
          exact ⟨by omega, by omega, fun _ => Or.inr (by omega)⟩
  · cases h
    exact ⟨le_refl _, le_refl _, fun h => Or.inl h⟩

/-- The `if` on `++|-- %varid%` does not raise the measure, and lowers it when it sets
`ret`. -/
theorem knownBefore_measure (p : Platform) (varid : Nat) (c c' : Known)
    (h : knownBefore p varid c = some c') :
    Known.total c' ≤ Known.total c ∧ streamMeasure c'.rest ≤ streamMeasure c.rest ∧
    (c'.ret = true → c.ret = true ∨ Known.total c' < Known.total c) := by
  unfold knownBefore at h
  split at h
  · rename_i hM
    have hlen : 2 ≤ c.rest.length := by
      rcases hr : c.rest with _ | ⟨n1, _ | ⟨op, more⟩⟩
      · rw [hr] at hM; simp [MatchVarId] at hM
      · rw [hr] at hM; simp [MatchVarId] at hM
      · simp
    split at h
    · cases h
    · rename_i value1 _
      dsimp only at h
      have hs := setLiteral_measure { c with value := value1 }
      generalize Known.setLiteral { c with value := value1 } = c1 at h hs
      have hX : streamMeasure (if Match [.word ";", .any, .any, .word ";"] (c1.tok :: c1.rest)
          then c1.rest.drop 2 else setStrAt 0 value1 (c1.rest.drop 1)) + 2 ≤
          streamMeasure c1.rest := by
        split
        · have := streamMeasure_drop 2 c1.rest (by rw [hs.2.2.1]; exact hlen)
          omega
        · have h1 := streamMeasure_drop 1 c1.rest (by rw [hs.2.2.1]; simp only; omega)
          have h2 := (setStrAt_measure 0 value1 (c1.rest.drop 1)).1
          omega
      generalize (if Match [.word ";", .any, .any, .word ";"] (c1.tok :: c1.rest)
          then c1.rest.drop 2 else setStrAt 0 value1 (c1.rest.drop 1)) = X at h hX
      cases X with
      | nil => cases h
      | cons n1 rest1 =>
        cases h
        have h3 := tokenWeight_ge n1
        simp only [Known.total, streamMeasure_cons, streamMeasure_append, streamMeasure_nil]
          at hs hX ⊢
        exact ⟨by omega, by omega, fun _ => Or.inr (by omega)⟩
  · cases h
    exact ⟨le_refl _, le_refl _, fun h => Or.inl h⟩

/-- A round of the loop over `tok3` does not raise the measure of the nodes behind the
cursor or of the stream, and lowers the measure when it sets `ret`. -/
theorem knownBody_measure (p : Platform) (varid : Nat) (hv : varid ≠ 0) (s : List Char × Bool)
    (before : List Token) (tok : Token) (rest : List Token) (st : Step (List Char × Bool))
    (h : knownBody p varid s before tok rest = .ok st) :
    streamMeasure st.rest ≤ streamMeasure rest ∧
    streamMeasure (st.before ++ st.passed ++ st.rest) ≤
      streamMeasure (before ++ tok :: rest) ∧
    (st.state.2 = true → s.2 = true ∨
      streamMeasure (st.before ++ st.passed ++ st.rest) <
        streamMeasure (before ++ tok :: rest)) := by
  unfold knownBody at h
  split at h
  · cases h
    exact ⟨le_refl _, by simp, fun h => Or.inl h⟩
  · have h1 := knownCondition_measure varid hv
      { before := before, passed := [], tok := tok, rest := rest, value := s.1, ret := s.2 }
    have h2 := knownCalculation_measure varid hv (knownCondition varid
      { before := before, passed := [], tok := tok, rest := rest, value := s.1, ret := s.2 })
    cases hA : knownAfter p varid (knownCalculation varid (knownCondition varid
        { before := before, passed := [], tok := tok, rest := rest, value := s.1,
          ret := s.2 })) with
    | none => rw [hA] at h; cases h
    | some cA =>
      rw [hA] at h
      simp only [Option.bind] at h
      have h3 := knownAfter_measure p varid hv _ cA hA
      cases hB : knownBefore p varid cA with
      | none => rw [hB] at h; cases h
      | some c =>
        rw [hB] at h
        cases h
        have h4 := knownBefore_measure p varid cA c hB
        simp only [Known.total, streamMeasure_append, streamMeasure_cons, streamMeasure_nil]
          at h1 h2 h3 h4 ⊢
        refine ⟨by omega, by omega, fun hr => ?_⟩
        rcases h4.2.2 hr with h5 | h5
        · rcases h3.2.2 h5 with h6 | h6
          · rcases h2.2.2 h6 with h7 | h7
            · rcases h1.2.2 h7 with h8 | h8
              · exact Or.inl h8
              · exact Or.inr (by omega)
            · exact Or.inr (by omega)
          · exact Or.inr (by omega)
        · exact Or.inr (by omega)

/-- A loop with a cursor whose rounds keep the nodes in front of the cursor and pass the
node of the cursor as it is gives a list that starts with these nodes; the measure of the
nodes from the cursor on is not raised, and it is lowered when the loop sets the flag. -/
theorem cursorLoop_stable {σ : Type} (flag : σ → Bool)
    (body : σ → List Token → Token → List Token → Result (Step σ))
    (hs : ∀ s before tok rest st, body s before tok rest = .ok st →
      st.before = before ∧ st.passed = [tok] ∧ streamMeasure st.rest ≤ streamMeasure rest ∧
      (flag st.state = true → flag s = true ∨ streamMeasure st.rest < streamMeasure rest)) :
    ∀ (fuel : Nat) (s : σ) (before ts : List Token) (out : List Token × σ),
      cursorLoop body fuel s before ts = .ok out →
      ∃ more, out.1 = before ++ more ∧ more.take 1 = ts.take 1 ∧
        streamMeasure more ≤ streamMeasure ts ∧
        (flag out.2 = true → flag s = true ∨ streamMeasure more < streamMeasure ts) := by
  intro fuel
  induction fuel with
  | zero =>
    intro s before ts out h
    cases ts with
    | nil =>
      rw [cursorLoop] at h
      cases h
      exact ⟨[], by simp, rfl, le_refl _, fun h => Or.inl h⟩
    | cons t r => rw [cursorLoop] at h; cases h
  | succ n ih =>
    intro s before ts out h
    cases ts with
    | nil =>
      rw [cursorLoop] at h
      cases h
      exact ⟨[], by simp, rfl, le_refl _, fun h => Or.inl h⟩
    | cons t r =>
      rw [cursorLoop] at h
      cases hbody : body s before t r with
      | ok st =>
        rw [hbody] at h
        simp only [Result.bind] at h
        obtain ⟨h1, h2, h3, h4⟩ := hs s before t r st hbody
        split at h
        · cases h
          refine ⟨t :: st.rest, by rw [h1, h2]; simp, rfl, ?_, fun hf => ?_⟩
          · simp only [streamMeasure_cons]; omega
          · rcases h4 hf with h5 | h5
            · exact Or.inl h5
            · exact Or.inr (by simp only [streamMeasure_cons]; omega)
        · obtain ⟨more, h5, -, h7, h8⟩ := ih st.state (st.before ++ st.passed) st.rest out h
          refine ⟨t :: more, by rw [h5, h1, h2]; simp, rfl, ?_, fun hf => ?_⟩
          · simp only [streamMeasure_cons]; omega
          · rcases h8 hf with h9 | h9
            · rcases h4 h9 with h10 | h10
              · exact Or.inl h10
              · exact Or.inr (by simp only [streamMeasure_cons]; omega)
            · exact Or.inr (by simp only [streamMeasure_cons]; omega)
      | undefined => rw [hbody] at h; cases h
      | unfinished => rw [hbody] at h; cases h

/-- A round of the loop over `tok3` does not run out of rounds. -/
theorem knownBody_finished (p : Platform) (varid : Nat) (s : List Char × Bool)
    (before : List Token) (tok : Token) (rest : List Token) :
    knownBody p varid s before tok rest ≠ .unfinished := by
  unfold knownBody
  split
  · exact fun e => by cases e
  · split
    · exact fun e => by cases e
    · exact fun e => by cases e

/-- A round of the loop over `tok2` ends when it has a third of the measure of the nodes
behind `tok2` in rounds; it keeps the nodes in front of `tok2` and `tok2`, does not raise
the measure of the nodes behind it, and lowers it when it sets `ret`. -/
theorem knownBlockBody_measure (p : Platform) (fuel : Nat) (s : Int × Bool)
    (before : List Token) (tok2 : Token) (rest : List Token) :
    (streamMeasure rest ≤ 3 * fuel → knownBlockBody p fuel s before tok2 rest ≠ .unfinished) ∧
    ∀ st, knownBlockBody p fuel s before tok2 rest = .ok st →
      st.before = before ∧ st.passed = [tok2] ∧ streamMeasure st.rest ≤ streamMeasure rest ∧
      (st.state.2 = true → s.2 = true ∨ streamMeasure st.rest < streamMeasure rest) := by
  unfold knownBlockBody
  split
  · exact ⟨fun _ e => (by cases e), fun st h => by
      cases h; exact ⟨rfl, rfl, le_refl _, fun h => Or.inl h⟩⟩
  · split
    · exact ⟨fun _ e => (by cases e), fun st h => by
        cases h; exact ⟨rfl, rfl, le_refl _, fun h => Or.inl h⟩⟩
    · split
      · split
        · exact ⟨fun _ e => (by cases e), fun st h => by
            cases h; exact ⟨rfl, rfl, le_refl _, fun h => Or.inl h⟩⟩
        · rename_i hv
          have hfin := cursorLoop_finished (streamMeasure rest) (knownBody p tok2.varId)
            (fun s1 b1 t1 r1 _ => knownBody_finished p tok2.varId s1 b1 t1 r1)
            (fun s1 b1 t1 r1 st1 h1 =>
              ⟨(knownBody_measure p tok2.varId hv s1 b1 t1 r1 st1 h1).1,
                (knownBody_measure p tok2.varId hv s1 b1 t1 r1 st1 h1).2.1⟩)
            fuel (strAt rest 1, s.2) [] rest
          have hm := cursorLoop_measure streamMeasure (fun s1 : List Char × Bool => s1.2)
            (knownBody p tok2.varId)
            (fun s1 b1 t1 r1 st1 h1 =>
              (knownBody_measure p tok2.varId hv s1 b1 t1 r1 st1 h1).2)
            fuel (strAt rest 1, s.2) [] rest
          cases hc : cursorLoop (knownBody p tok2.varId) fuel (strAt rest 1, s.2) [] rest with
          | ok r =>
            refine ⟨fun _ e => (by simp [Result.map, Result.bind] at e), fun st h => ?_⟩
            simp only [Result.map, Result.bind, Result.ok.injEq] at h
            rw [← h]
            have := hm r hc
            simp only [List.nil_append] at this
            exact ⟨rfl, rfl, this.1, this.2⟩
          | undefined =>
            exact ⟨fun _ e => (by simp [Result.map, Result.bind] at e),
              fun st h => by simp [Result.map, Result.bind] at h⟩
          | unfinished =>
            exact ⟨fun hf => absurd hc (hfin hf (by simp)),
              fun st h => by simp [Result.map, Result.bind] at h⟩
      · exact ⟨fun _ e => (by cases e), fun st h => by
          cases h; exact ⟨rfl, rfl, le_refl _, fun h => Or.inl h⟩⟩

/-- A round of the loop of `simplifyKnownVariables` ends when it has a third of the
measure of the stream in rounds; it keeps the nodes in front of `tok`, does not raise the
measure of the nodes from `tok` on or of those behind it, and lowers the measure when it
sets `ret`. -/
theorem knownVariablesBody_measure (p : Platform) (fuel : Nat) (ret : Bool)
    (before : List Token) (tok : Token) (rest : List Token) :
    (streamMeasure (before ++ tok :: rest) ≤ 3 * fuel →
      knownVariablesBody p fuel ret before tok rest ≠ .unfinished) ∧
    ∀ st, knownVariablesBody p fuel ret before tok rest = .ok st →
      st.before = before ∧
      streamMeasure st.passed + streamMeasure st.rest ≤ tokenWeight tok + streamMeasure rest ∧
      streamMeasure st.rest ≤ streamMeasure rest ∧
      (st.state = true → ret = true ∨
        streamMeasure st.passed + streamMeasure st.rest <
          tokenWeight tok + streamMeasure rest) := by
  unfold knownVariablesBody
  split
  · refine ⟨fun _ e => (by cases e), fun st h => ?_⟩
    cases h
    refine ⟨rfl, ?_, le_refl _, fun h => Or.inl h⟩
    simp only [streamMeasure_cons, streamMeasure_nil]
    omega
  · have hst := cursorLoop_stable (fun s1 : Int × Bool => s1.2) (knownBlockBody p fuel)
      (fun s1 b1 t1 r1 st1 h1 => (knownBlockBody_measure p fuel s1 b1 t1 r1).2 st1 h1)
      fuel (0, ret) [] (tok :: rest)
    have hfin := cursorLoop_finished (3 * fuel) (knownBlockBody p fuel)
      (fun s1 b1 t1 r1 hB => (knownBlockBody_measure p fuel s1 b1 t1 r1).1 (by
        simp only [streamMeasure_append, streamMeasure_cons] at hB
        omega))
      (fun s1 b1 t1 r1 st1 h1 => by
        obtain ⟨h2, h3, h4, -⟩ := (knownBlockBody_measure p fuel s1 b1 t1 r1).2 st1 h1
        refine ⟨h4, ?_⟩
        rw [h2, h3]
        simp only [streamMeasure_append, streamMeasure_cons, streamMeasure_nil]
        omega)
      fuel (0, ret) [] (tok :: rest)
    cases hc : cursorLoop (knownBlockBody p fuel) fuel (0, ret) [] (tok :: rest) with
    | ok r =>
      refine ⟨fun _ e => (by simp [Result.map, Result.bind] at e), fun st h => ?_⟩
      simp only [Result.map, Result.bind, Result.ok.injEq] at h
      rw [← h]
      obtain ⟨more, h1, h2, h3, h4⟩ := hst r hc
      simp only [List.nil_append] at h1
      have h5 := streamMeasure_take_drop 1 more
      rw [h2] at h5
      simp only [List.take_succ_cons, List.take_zero, streamMeasure_cons, streamMeasure_nil]
        at h5 h3 h4
      rw [h1, h2]
      have h7 := streamMeasure_drop_le 1 more
      refine ⟨rfl, ?_, ?_, fun hf => ?_⟩
      · simp only [List.take_succ_cons, List.take_zero, streamMeasure_cons, streamMeasure_nil]
        omega
      · dsimp only
        omega
      · rcases h4 hf with h6 | h6
        · exact Or.inl h6
        · refine Or.inr ?_
          simp only [List.take_succ_cons, List.take_zero, streamMeasure_cons,
            streamMeasure_nil]
          omega
    | undefined =>
      exact ⟨fun _ e => (by simp [Result.map, Result.bind] at e),
        fun st h => by simp [Result.map, Result.bind] at h⟩
    | unfinished =>
      refine ⟨fun hf => absurd hc (hfin ?_ ?_), fun st h => by simp [Result.map, Result.bind] at h⟩
      · simp only [streamMeasure_append] at hf
        omega
      · simp only [List.nil_append]
        simp only [streamMeasure_append] at hf
        omega

/-- The method `simplifyKnownVariables` ends when it has a third of the measure of the
stream in rounds; it does not raise the measure, and lowers it when its result is
`true`. -/
theorem simplifyKnownVariables_measure (p : Platform) (fuel : Nat) (ts : List Token) :
    (streamMeasure ts ≤ 3 * fuel → simplifyKnownVariables p fuel ts ≠ .unfinished) ∧
    ∀ out, simplifyKnownVariables p fuel ts = .ok out →
      streamMeasure out.1 ≤ streamMeasure ts ∧
      (out.2 = true → streamMeasure out.1 < streamMeasure ts) := by
  have h := cursorLoop_pass (3 * fuel) (fun b => b) false rfl (knownVariablesBody p fuel)
    (fun s before tok rest hB => (knownVariablesBody_measure p fuel s before tok rest).1 hB)
    (fun s before tok rest st h => step_of_parts (fun b => b) s before rest tok st
      ((knownVariablesBody_measure p fuel s before tok rest).2 st h)) fuel ts
  exact ⟨fun hf => h.1 hf hf, h.2⟩

/-- The nodes behind a later node weigh no more than the nodes behind an earlier one. -/
theorem streamMeasure_drop_mono (l : List Token) (k m : Nat) (h : k ≤ m) :
    streamMeasure (l.drop m) ≤ streamMeasure (l.drop k) := by
  have h1 : l.drop m = (l.drop k).drop (m - k) := by
    rw [List.drop_drop]
    congr 1
    omega
  rw [h1]
  exact streamMeasure_drop_le _ _

/-- A node that exists weighs 3 at least: the nodes behind it weigh less than the nodes
from it on. -/
theorem streamMeasure_drop_succ (l : List Token) (k : Nat) (h : k < l.length) :
    streamMeasure (l.drop (k + 1)) + 3 ≤ streamMeasure (l.drop k) := by
  have h1 : l.drop (k + 1) = (l.drop k).drop 1 := by
    rw [List.drop_drop]
  rw [h1]
  have h2 := streamMeasure_drop 1 (l.drop k) (by rw [List.length_drop]; omega)
  omega

/-- The statement `Token::eraseTokens(begin, end)` does not raise the measure. -/
theorem eraseTokens_measure (ts : List Token) (b : Nat) (e : Option Nat) :
    streamMeasure (eraseTokens ts b e) ≤ streamMeasure ts := by
  have h1 := streamMeasure_take_drop (b + 1) ts
  unfold eraseTokens
  cases e with
  | none => dsimp only; omega
  | some e1 =>
    dsimp only
    split
    · have h2 := streamMeasure_drop_mono ts (b + 1) e1 (by omega)
      rw [streamMeasure_append]
      omega
    · omega

/-- The statement `Token::eraseTokens(begin, end)` lowers the measure when a node stands
behind `begin` and `end` is not that node. -/
theorem eraseTokens_strict (ts : List Token) (b : Nat) (e : Option Nat)
    (hb : b + 1 < ts.length) (he : e ≠ some (b + 1)) :
    streamMeasure (eraseTokens ts b e) < streamMeasure ts := by
  have h1 := streamMeasure_take_drop (b + 1) ts
  have h3 := streamMeasure_drop_succ ts (b + 1) hb
  unfold eraseTokens
  cases e with
  | none => dsimp only; omega
  | some e1 =>
    dsimp only
    split
    · have h4 : b + 2 ≤ e1 := by
        rcases Nat.lt_or_ge (b + 1) e1 with h5 | h5
        · omega
        · exact absurd (congrArg some (show e1 = b + 1 by omega)) he
      have h2 := streamMeasure_drop_mono ts (b + 1 + 1) e1 h4
      rw [streamMeasure_append]
      omega
    · omega

/-- The nodes that `Token::eraseTokens(begin, end)` leaves behind a node that is not
behind the successor of `begin` weigh no more than the nodes that stood there. -/
theorem eraseTokens_drop (ts : List Token) (b : Nat) (e : Option Nat) (k : Nat)
    (hk : k ≤ b + 1) :
    streamMeasure ((eraseTokens ts b e).drop k) ≤ streamMeasure (ts.drop k) := by
  have h1 : ts.take (b + 1) = ts.take k ++ (ts.drop k).take (b + 1 - k) := by
    have h2 : b + 1 = k + (b + 1 - k) := by omega
    rw [h2, List.take_add]
    simp only [Nat.add_sub_cancel_left]
  have h3 : ∀ X : List Token, streamMeasure ((ts.take k ++ X).drop k) ≤ streamMeasure X := by
    intro X
    rw [List.drop_append_eq_append_drop,
      List.drop_eq_nil_of_le (by rw [List.length_take]; omega), List.nil_append]
    exact streamMeasure_drop_le _ _
  unfold eraseTokens
  cases e with
  | none =>
    dsimp only
    rw [h1]
    have h4 := h3 ((ts.drop k).take (b + 1 - k))
    have h5 := streamMeasure_take_le (b + 1 - k) (ts.drop k)
    omega
  | some e1 =>
    dsimp only
    split
    · rw [h1, List.append_assoc]
      have h4 := h3 ((ts.drop k).take (b + 1 - k) ++ ts.drop e1)
      have h5 := streamMeasure_cut ts k (b + 1 - k) e1 (by omega)
      omega
    · rw [h1]
      have h4 := h3 ((ts.drop k).take (b + 1 - k))
      have h5 := streamMeasure_take_le (b + 1 - k) (ts.drop k)
      omega

/-- The nodes that `Token::eraseTokens(begin, end)` leaves behind `begin` are the nodes
from `end` on. -/
theorem eraseTokens_behind (ts : List Token) (b : Nat) (e : Option Nat) (m : Nat)
    (he : ∀ e1, e = some e1 → m ≤ e1) :
    streamMeasure ((eraseTokens ts b e).drop (b + 1)) ≤ streamMeasure (ts.drop m) := by
  have h0 : (ts.take (b + 1)).drop (b + 1) = [] :=
    List.drop_eq_nil_of_le (by rw [List.length_take]; omega)
  unfold eraseTokens
  cases e with
  | none =>
    dsimp only
    rw [h0]
    exact Nat.zero_le _
  | some e1 =>
    dsimp only
    split
    · rw [List.drop_append_eq_append_drop, h0, List.nil_append]
      have h2 := streamMeasure_drop_le (b + 1 - (ts.take (b + 1)).length) (ts.drop e1)
      have h3 := streamMeasure_drop_mono ts m e1 (he e1 rfl)
      omega
    · rw [h0]
      exact Nat.zero_le _

/-- The statement `Token::eraseTokens(begin, end)` keeps the nodes up to `begin`. -/
theorem length_eraseTokens (ts : List Token) (b : Nat) (e : Option Nat)
    (hb : b + 1 ≤ ts.length) : b + 1 ≤ (eraseTokens ts b e).length := by
  unfold eraseTokens
  cases e with
  | none =>
    dsimp only
    rw [List.length_take]
    omega
  | some e1 =>
    dsimp only
    split
    · rw [List.length_append, List.length_take]
      omega
    · rw [List.length_take]
      omega

/-- The index of `tok` behind the statements
`if (tok->previous()) tok = tok->previous(); else tok->str(";");`. -/
theorem stepBack_snd (ts : List Token) (i : Nat) : (stepBack ts i).2 = i - 1 := by
  unfold stepBack
  split
  · rfl
  · dsimp only
    omega

/-- The node `tok->tokAt(k)` that is not null has the index `i + k`. -/
theorem indexAt_some (ts : List Token) (i k e : Nat) (h : indexAt ts i k = some e) :
    e = i + k ∧ e < ts.length := by
  unfold indexAt at h
  split at h
  · cases h
    exact ⟨rfl, by assumption⟩
  · cases h

/-- Stepping back and erasing the nodes up to a node `end` behind the successor of `tok`
lowers the measure, and the nodes behind the new `tok` weigh no more than those that
stood behind the old one. -/
theorem stepBack_erase (ts : List Token) (i : Nat) (e : Option Nat) (hi : i + 1 < ts.length)
    (he : ∀ e1, e = some e1 → i + 1 < e1) :
    streamMeasure (eraseTokens (stepBack ts i).1 (i - 1) e) < streamMeasure ts ∧
    streamMeasure ((eraseTokens (stepBack ts i).1 (i - 1) e).drop (i - 1 + 1)) ≤
      streamMeasure (ts.drop (i + 1)) := by
  have hne : e ≠ some (i - 1 + 1) := by
    intro h
    have := he _ h
    omega
  unfold stepBack
  split
  · dsimp only
    refine ⟨eraseTokens_strict ts (i - 1) e (by omega) hne,
      eraseTokens_behind ts (i - 1) e (i + 1) (fun e1 h1 => ?_)⟩
    have := he e1 h1
    omega
  · dsimp only
    have h0 : i = 0 := by omega
    subst h0
    simp only [Nat.zero_sub, Nat.zero_add] at hne ⊢
    have h1 := (setStrAt_measure 0 [';'] ts).2.1 (by decide)
    have h2 := eraseTokens_strict (setStrAt 0 [';'] ts) 0 e
      (by rw [length_setStrAt]; omega) hne
    have h3 := eraseTokens_behind (setStrAt 0 [';'] ts) 0 e 1 (fun e1 h4 => by
      have := he e1 h4
      omega)
    have h5 : (setStrAt 0 [';'] ts).drop 1 = ts.drop 1 := by
      cases ts with
      | nil => rfl
      | cons a l => simp [setStrAt]
    rw [h5] at h3
    exact ⟨by omega, h3⟩

/-- A round that ends on the node with the index `c` of a list with a lower measure,
with nodes behind it that weigh no more than the nodes behind the old `tok`. -/
theorem stepAt_measure (ts L : List Token) (i c : Nat) (s : Bool)
    (h1 : streamMeasure L < streamMeasure ts)
    (h2 : streamMeasure (L.drop (c + 1)) ≤ streamMeasure (ts.drop (i + 1))) :
    streamMeasure (stepAt L c s).rest ≤ streamMeasure (ts.drop (i + 1)) ∧
    streamMeasure ((stepAt L c s).before ++ (stepAt L c s).passed ++ (stepAt L c s).rest) <
      streamMeasure ts := by
  have h3 : L.take c ++ (L.drop c).take 1 ++ L.drop (c + 1) = L := by
    have h4 : L.drop (c + 1) = (L.drop c).drop 1 := by rw [List.drop_drop]
    rw [h4, List.append_assoc, List.take_append_drop, List.take_append_drop]
  unfold stepAt
  dsimp only
  rw [h3]
  exact ⟨h2, h1⟩

/-- The loop `while (lastTagInIf)` ends within as many rounds as the list has nodes, and a
node it ends on stands behind the node it started at. -/
theorem lastTagInIf_finished :
    ∀ (fuel pos : Nat) (l : List Token),
      (l.length ≤ fuel → lastTagInIf fuel pos l ≠ .unfinished) ∧
      ∀ k, lastTagInIf fuel pos l = .ok (some k) → pos < k := by
  intro fuel
  induction fuel with
  | zero =>
    intro pos l
    cases l with
    | nil => exact ⟨fun _ e => (by cases e), fun k e => (by cases e)⟩
    | cons t r =>
      refine ⟨fun h => ?_, fun k e => (by cases e)⟩
      simp only [List.length_cons] at h
      omega
  | succ n ih =>
    intro pos l
    cases l with
    | nil => exact ⟨fun _ e => (by cases e), fun k e => (by cases e)⟩
    | cons t r =>
      have hkey : ∀ pos1 x r1,
          (if t.str = ['('] then
            (findClosing ['('] [')'] 0 r).map (fun j => (pos + j + 2, r.drop (j + 1)))
          else some (pos, t :: r)) = some (pos1, x :: r1) →
          pos ≤ pos1 ∧ r1.length ≤ r.length := by
        intro pos1 x r1 h
        split at h
        · cases hf : findClosing ['('] [')'] 0 r with
          | none => rw [hf] at h; cases h
          | some j =>
            rw [hf] at h
            simp only [Option.map_some', Option.some.injEq, Prod.mk.injEq] at h
            have h1 := congrArg List.length h.2
            simp only [List.length_drop, List.length_cons] at h1
            omega
        · simp only [Option.some.injEq, Prod.mk.injEq, List.cons.injEq] at h
          rw [← h.2.2]
          omega
      simp only [lastTagInIf]
      generalize (if t.str = ['('] then
            (findClosing ['('] [')'] 0 r).map (fun j => (pos + j + 2, r.drop (j + 1)))
          else some (pos, t :: r)) = sc at hkey
      rcases sc with _ | ⟨pos1, _ | ⟨x, r1⟩⟩
      · exact ⟨fun _ e => (by cases e), fun k e => (by cases e)⟩
      · exact ⟨fun _ e => (by cases e), fun k e => (by cases e)⟩
      · obtain ⟨h1, h2⟩ := hkey pos1 x r1 rfl
        dsimp only
        cases hf : findClosing ['{'] ['}'] 0 r1 with
        | none => exact ⟨fun _ e => (by cases e), fun k e => (by cases e)⟩
        | some j =>
          dsimp only
          split
          · refine ⟨fun _ e => (by cases e), fun k e => ?_⟩
            split at e
            · cases e
            · cases e
              omega
          · split
            · refine ⟨fun h => (ih _ _).1 ?_, fun k e => ?_⟩
              · simp only [List.length_cons] at h
                rw [List.length_drop]
                omega
              · have := (ih _ _).2 k e
                omega
            · refine ⟨fun h => (ih _ _).1 ?_, fun k e => ?_⟩
              · simp only [List.length_cons] at h
                rw [List.length_drop]
                omega
              · have := (ih _ _).2 k e
                omega

/-- The part "Handle if without else" lowers the measure, and the nodes behind the new
`tok` weigh no more than those behind the old one. -/
theorem redundantIf_measure (ts : List Token) (i : Nat) (elseTag : Option Nat)
    (boolValue : Bool) (hi : i + 1 < ts.length) (he : ∀ e1, elseTag = some e1 → i + 1 < e1) :
    streamMeasure (redundantIf ts i elseTag boolValue).rest ≤ streamMeasure (ts.drop (i + 1)) ∧
    streamMeasure ((redundantIf ts i elseTag boolValue).before ++
        (redundantIf ts i elseTag boolValue).passed ++
        (redundantIf ts i elseTag boolValue).rest) < streamMeasure ts := by
  unfold redundantIf
  simp only [stepBack_snd]
  split
  · have h := stepBack_erase ts i elseTag hi he
    exact stepAt_measure ts _ i (i - 1) true h.1 h.2
  · have h := stepBack_erase ts i (indexAt ts (i - 1) 5) hi (fun e1 h1 => by
      have := indexAt_some _ _ _ _ h1
      omega)
    exact stepAt_measure ts _ i (i - 1) true h.1 h.2

/-- The part "Handle if with else" ends when the bound is the number of nodes at least; it
does not raise the measure and lowers it when it sets `ret`, and the nodes behind the new
`tok` weigh no more than those behind the old one. -/
theorem redundantElse_measure (fuel : Nat) (ts : List Token) (i t : Nat) (boolValue : Bool)
    (ht : i + 6 ≤ t) (htl : t < ts.length) :
    (ts.length ≤ fuel → redundantElse fuel ts i t boolValue ≠ .unfinished) ∧
    ∀ st, redundantElse fuel ts i t boolValue = .ok st →
      streamMeasure st.rest ≤ streamMeasure (ts.drop (i + 1)) ∧
      streamMeasure (st.before ++ st.passed ++ st.rest) ≤ streamMeasure ts ∧
      (st.state = true →
        streamMeasure (st.before ++ st.passed ++ st.rest) < streamMeasure ts) := by
  have hgood : ∀ (L : List Token) (c : Nat) (st : Step Bool),
      streamMeasure L < streamMeasure ts →
      streamMeasure (L.drop (c + 1)) ≤ streamMeasure (ts.drop (i + 1)) →
      stepAt L c true = st →
      streamMeasure st.rest ≤ streamMeasure (ts.drop (i + 1)) ∧
      streamMeasure (st.before ++ st.passed ++ st.rest) ≤ streamMeasure ts ∧
      (st.state = true →
        streamMeasure (st.before ++ st.passed ++ st.rest) < streamMeasure ts) := by
    intro L c st h1 h2 h3
    have h4 := stepAt_measure ts L i c true h1 h2
    rw [h3] at h4
    exact ⟨h4.1, Nat.le_of_lt h4.2, fun _ => h4.2⟩
  unfold redundantElse
  simp only [stepBack_snd]
  split
  · split
    · refine ⟨fun _ e => (by cases e), fun st h => ?_⟩
      simp only [Result.ok.injEq] at h
      refine hgood _ _ st (eraseTokens_strict ts i _ (by omega) (fun h1 => ?_)) ?_ h
      · have := indexAt_some _ _ _ _ h1
        omega
      · exact eraseTokens_behind ts i _ (i + 1) (fun e1 h1 => by
          have := indexAt_some _ _ _ _ h1
          omega)
    · have hl := lastTagInIf_finished fuel (t + 2) (ts.drop (t + 2))
      cases hc : lastTagInIf fuel (t + 2) (ts.drop (t + 2)) with
      | unfinished =>
        refine ⟨fun h => absurd hc (hl.1 ?_), fun st h => (by simp [Result.map, Result.bind] at h)⟩
        rw [List.length_drop]
        omega
      | undefined =>
        exact ⟨fun _ e => (by simp [Result.map, Result.bind] at e),
          fun st h => (by simp [Result.map, Result.bind] at h)⟩
      | ok last =>
        refine ⟨fun _ e => (by simp [Result.map, Result.bind] at e), fun st h => ?_⟩
        simp only [Result.map, Result.bind, Result.ok.injEq] at h
        refine hgood _ _ st (eraseTokens_strict ts (t - 1) last (by omega) (fun h1 => ?_))
          (eraseTokens_drop ts (t - 1) last (i + 1) (by omega)) h
        rw [h1] at hc
        have := hl.2 _ hc
        omega
  · split
    · refine ⟨fun _ e => (by cases e), fun st h => ?_⟩
      simp only [Result.ok.injEq] at h
      have h1 := stepBack_erase ts i (indexAt ts t 1) (by omega) (fun e1 h1 => by
        have := indexAt_some _ _ _ _ h1
        omega)
      exact hgood _ _ st h1.1 h1.2 h
    · split
      · cases hf : findClosing ['{'] ['}'] 0 (ts.drop (t + 2)) with
        | none =>
          refine ⟨fun _ e => (by cases e), fun st h => ?_⟩
          simp only [Result.ok.injEq] at h
          rw [← h]
          have h3 : ts.take i ++ (ts.drop i).take 1 ++ ts.drop (i + 1) = ts := by
            have h4 : ts.drop (i + 1) = (ts.drop i).drop 1 := by rw [List.drop_drop]
            rw [h4, List.append_assoc, List.take_append_drop, List.take_append_drop]
          simp only [stepAt, h3]
          exact ⟨le_refl _, le_refl _, fun e => (by cases e)⟩
        | some j =>
          refine ⟨fun _ e => (by cases e), fun st h => ?_⟩
          simp only [Result.ok.injEq] at h
          have h1 := eraseTokens_strict ts (t - 1) (indexAt ts (t + 1 + j + 1) 1) (by omega)
            (fun h1 => by
              have := indexAt_some _ _ _ _ h1
              omega)
          have h2 := length_eraseTokens ts (t - 1) (indexAt ts (t + 1 + j + 1) 1) (by omega)
          have h3 := stepBack_erase (eraseTokens ts (t - 1) (indexAt ts (t + 1 + j + 1) 1)) i
            (indexAt (eraseTokens ts (t - 1) (indexAt ts (t + 1 + j + 1) 1)) (i - 1) 5)
            (by omega) (fun e1 h1 => by
              have := indexAt_some _ _ _ _ h1
              omega)
          have h4 := eraseTokens_drop ts (t - 1) (indexAt ts (t + 1 + j + 1) 1) (i + 1)
            (by omega)
          exact hgood _ _ st (by omega) (by omega) h
      · refine ⟨fun _ e => (by cases e), fun st h => ?_⟩
        simp only [Result.ok.injEq] at h
        have h1 := stepBack_erase ts i (indexAt ts (i - 1) 5) (by omega) (fun e1 h1 => by
          have := indexAt_some _ _ _ _ h1
          omega)
        exact hgood _ _ st h1.1 h1.2 h

/-- A round of the loop of `removeReduntantConditions` ends when the bound is high enough
for the list; it does not raise the measure of the list or of the nodes behind `tok`, and
it lowers the measure when it sets `ret`. -/
theorem redundantBody_measure (fuel : Nat) (ret : Bool) (before : List Token) (tok : Token)
    (rest : List Token) :
    (streamMeasure (before ++ tok :: rest) ≤ 3 * fuel →
      redundantBody fuel ret before tok rest ≠ .unfinished) ∧
    ∀ st, redundantBody fuel ret before tok rest = .ok st →
      streamMeasure st.rest ≤ streamMeasure rest ∧
      streamMeasure (st.before ++ st.passed ++ st.rest) ≤
        streamMeasure (before ++ tok :: rest) ∧
      (st.state = true → ret = true ∨
        streamMeasure (st.before ++ st.passed ++ st.rest) <
          streamMeasure (before ++ tok :: rest)) := by
  have hplain : ∀ st : Step Bool,
      Result.ok { before := before, passed := [tok], rest := rest, state := ret,
                  stop := false } = Result.ok st →
      streamMeasure st.rest ≤ streamMeasure rest ∧
      streamMeasure (st.before ++ st.passed ++ st.rest) ≤
        streamMeasure (before ++ tok :: rest) ∧
      (st.state = true → ret = true ∨
        streamMeasure (st.before ++ st.passed ++ st.rest) <
          streamMeasure (before ++ tok :: rest)) := by
    intro st h
    cases h
    refine ⟨le_refl _, ?_, fun h => Or.inl h⟩
    simp only [List.append_assoc, List.singleton_append]
    exact le_refl _
  have hd : (before ++ tok :: rest).drop (before.length + 1) = rest := by
    rw [List.drop_append_eq_append_drop, List.drop_eq_nil_of_le (by omega), List.nil_append]
    have h1 : before.length + 1 - before.length = 1 := by omega
    rw [h1]
    rfl
  have hlen : (before ++ tok :: rest).length = before.length + 1 + rest.length := by
    simp only [List.length_append, List.length_cons]
    omega
  unfold redundantBody
  split
  · exact ⟨fun _ e => (by cases e), hplain⟩
  · split
    · exact ⟨fun _ e => (by cases e), hplain⟩
    · rename_i hM
      have h4 : 4 ≤ rest.length := by
        rcases rest with _ | ⟨a, _ | ⟨b, _ | ⟨c, _ | ⟨d, r⟩⟩⟩⟩ <;>
          first
          | (simp only [List.length_cons]; omega)
          | simp [Match, MatchVarId] at hM
      have hif := fun e hE => redundantIf_measure (before ++ tok :: rest) before.length e
        (decide (strAt rest 1 = "true".toList)) (by omega) hE
      rw [hd] at hif
      split
      · refine ⟨fun _ e => (by cases e), fun st h => ?_⟩
        simp only [Result.ok.injEq] at h
        have h5 := hif none (fun e1 h1 => by cases h1)
        rw [h] at h5
        exact ⟨h5.1, Nat.le_of_lt h5.2, fun _ => Or.inr h5.2⟩
      · rename_i t ht
        obtain ⟨j, -, h6⟩ := Option.bind_eq_some.mp ht
        have h7 := indexAt_some _ _ _ _ h6
        split
        · have h8 := redundantElse_measure fuel (before ++ tok :: rest) before.length t
            (decide (strAt rest 1 = "true".toList)) (by omega) h7.2
          rw [hd] at h8
          refine ⟨fun hf => h8.1 ?_, fun st h => ?_⟩
          · have := length_le_streamMeasure (before ++ tok :: rest)
            omega
          · obtain ⟨h9, h10, h11⟩ := h8.2 st h
            exact ⟨h9, h10, fun hs => Or.inr (h11 hs)⟩
        · refine ⟨fun _ e => (by cases e), fun st h => ?_⟩
          simp only [Result.ok.injEq] at h
          have h5 := hif (some t) (fun e1 h1 => by
            cases h1
            omega)
          rw [h] at h5
          exact ⟨h5.1, Nat.le_of_lt h5.2, fun _ => Or.inr h5.2⟩

/-- The method `removeReduntantConditions` ends when the bound is a third of the measure at
least, does not raise the measure, and lowers it when it returns true. -/
theorem removeReduntantConditions_measure (fuel : Nat) (ts : List Token) :
    (streamMeasure ts ≤ 3 * fuel → removeReduntantConditions fuel ts ≠ .unfinished) ∧
    ∀ out, removeReduntantConditions fuel ts = .ok out →
      streamMeasure out.1 ≤ streamMeasure ts ∧
      (out.2 = true → streamMeasure out.1 < streamMeasure ts) := by
  have h := cursorLoop_pass (3 * fuel) (fun b : Bool => b) false rfl (redundantBody fuel)
    (fun s before tok rest hB => (redundantBody_measure fuel s before tok rest).1 hB)
    (fun s before tok rest st h1 => (redundantBody_measure fuel s before tok rest).2 st h1)
    fuel ts
  exact ⟨fun hf => h.1 hf hf, h.2⟩

/-- A pass of the round in front of the passes `next`: when the pass ends for a bound of a
third of the measure, does not raise the measure and lowers it when it returns true, and
the passes behind it do so for every list that weighs no more, then so does the chain. -/
theorem round_chain (fuel : Nat) (ts l : List Token) (acc : Bool)
    (pass : Result (List Token × Bool))
    (next : List Token × Bool → Result (List Token × Bool))
    (hl : streamMeasure l ≤ streamMeasure ts)
    (hacc : acc = true → streamMeasure l < streamMeasure ts)
    (hp : (streamMeasure l ≤ 3 * fuel → pass ≠ .unfinished) ∧
      ∀ out, pass = .ok out → streamMeasure out.1 ≤ streamMeasure l ∧
        (out.2 = true → streamMeasure out.1 < streamMeasure l))
    (hn : ∀ r, streamMeasure r.1 ≤ streamMeasure ts →
      ((acc || r.2) = true → streamMeasure r.1 < streamMeasure ts) →
      (streamMeasure ts ≤ 3 * fuel → next r ≠ .unfinished) ∧
      ∀ out, next r = .ok out → streamMeasure out.1 ≤ streamMeasure ts ∧
        (out.2 = true → streamMeasure out.1 < streamMeasure ts)) :
    (streamMeasure ts ≤ 3 * fuel → pass.bind next ≠ .unfinished) ∧
    ∀ out, pass.bind next = .ok out → streamMeasure out.1 ≤ streamMeasure ts ∧
      (out.2 = true → streamMeasure out.1 < streamMeasure ts) := by
  cases hc : pass with
  | unfinished => exact ⟨fun h1 _ => hp.1 (by omega) hc, fun out e => (by cases e)⟩
  | undefined => exact ⟨fun _ e => (by cases e), fun out e => (by cases e)⟩
  | ok r =>
    obtain ⟨h1, h2⟩ := hp.2 r hc
    exact hn r (by omega) (fun h3 => by
      rcases Bool.or_eq_true_iff.mp h3 with h4 | h4
      · have := hacc h4
        omega
      · have := h2 h4
        omega)

/-- One round of the loop `while (modified)` ends when the bound is a third of the measure
at least, does not raise the measure, and lowers it when it sets `modified`. -/
theorem simplifyRound_measure (p : Platform) (fuel : Nat) (ts : List Token) :
    (streamMeasure ts ≤ 3 * fuel → simplifyRound p fuel ts ≠ .unfinished) ∧
    ∀ out, simplifyRound p fuel ts = .ok out →
      streamMeasure out.1 ≤ streamMeasure ts ∧
      (out.2 = true → streamMeasure out.1 < streamMeasure ts) := by
  unfold simplifyRound
  refine round_chain fuel ts ts false _ _ (le_refl _) (fun h => (by cases h))
    (simplifyConditions_measure p fuel ts) (fun r1 a1 b1 => ?_)
  refine round_chain fuel ts r1.1 _ _ _ a1 b1
    (simplifyFunctionReturn_measure fuel r1.1) (fun r2 a2 b2 => ?_)
  refine round_chain fuel ts r2.1 _ _ _ a2 b2
    (simplifyKnownVariables_measure p fuel r2.1) (fun r3 a3 b3 => ?_)
  refine round_chain fuel ts r3.1 _ _ _ a3 b3
    (removeReduntantConditions_measure fuel r3.1) (fun r4 a4 b4 => ?_)
  have h5 := simplifyRedundantParanthesis_measure fuel r4.1
  refine round_chain fuel ts r4.1 _ _ _ a4 b4
    ⟨h5.1, fun out e => ⟨(h5.2 out e).1, fun h => ?_⟩⟩ (fun r5 a5 b5 => ?_)
  · rw [(h5.2 out e).2] at h
    cases h
  refine round_chain fuel ts r5.1 _ _ _ a5 b5 ⟨fun _ e => ?_, fun out e => ?_⟩
    (fun r6 a6 b6 => ⟨fun _ e => (by cases e), fun out e => ?_⟩)
  · cases hs : simplifyCalculations p r5.1 with
    | none => rw [hs] at e; cases e
    | some v => rw [hs] at e; cases e
  · cases hs : simplifyCalculations p r5.1 with
    | none => rw [hs] at e; cases e
    | some v =>
      rw [hs] at e
      cases e
      exact simplifyCalculations_measure p r5.1 _ hs
  · cases e
    exact ⟨a6, fun h => b6 (by simpa using h)⟩

/-- The loop `while (modified)` ends within as many rounds as the measure of the list plus
one, each loop of its passes within a third of the measure. -/
theorem modifiedLoop_finished (p : Platform) (fuel : Nat) :
    ∀ (rounds : Nat) (ts : List Token), streamMeasure ts ≤ 3 * fuel →
      streamMeasure ts < rounds → modifiedLoop p fuel rounds ts ≠ .unfinished := by
  intro rounds
  induction rounds with
  | zero => intro ts _ h; omega
  | succ n ih =>
    intro ts h1 h2
    have h3 := simplifyRound_measure p fuel ts
    rw [modifiedLoop]
    cases hc : simplifyRound p fuel ts with
    | unfinished => exact absurd hc (h3.1 h1)
    | undefined => intro e; cases e
    | ok r =>
      obtain ⟨h4, h5⟩ := h3.2 r hc
      simp only [Result.bind]
      split
      · rename_i h6
        have := h5 h6
        exact ih r.1 (by omega) (by omega)
      · intro e
        cases e

/-- C38: the loop `while (simplifyCalculations())` and the loop `while (modified)` over
the six passes of `simplifyTokenList` end on every token list: with a bound above the
measure `streamMeasure` of the list (a natural number: 3 for each node, 2 more for a
variable id, 1 more for a number) neither loop runs out of rounds, and no loop inside the
six passes does. Every round that reports a change, a call of `simplifyCalculations` that
returns true or a round of the six passes that sets `modified`, gives a list with a
strictly lower measure. -/
theorem simplifyTokenList_loops_end (p : Platform) (fuel : Nat) (ts : List Token)
    (h : streamMeasure ts < fuel) :
    calculationsLoop p fuel ts ≠ .unfinished ∧
    modifiedLoop p fuel fuel ts ≠ .unfinished ∧
    simplifyRound p fuel ts ≠ .unfinished ∧
    (∀ out, simplifyCalculations p ts = some out → out.2 = true →
      streamMeasure out.1 < streamMeasure ts) ∧
    (∀ out, simplifyRound p fuel ts = .ok out → out.2 = true →
      streamMeasure out.1 < streamMeasure ts) :=
  ⟨calculationsLoop_finished p fuel ts h,
    modifiedLoop_finished p fuel fuel ts (by omega) h,
    (simplifyRound_measure p fuel ts).1 (by omega),
    fun out e => (simplifyCalculations_measure p ts out e).2,
    fun out e => ((simplifyRound_measure p fuel ts).2 out e).2⟩

/-- The measure of `if ( 2 < 3 ) { x = 1 + 2 ; }` is 46, and with the bound 47 both loops
end on it. -/
theorem simplifyTokenList_loops_end_witness :
    streamMeasure (line1 ["if", "(", "2", "<", "3", ")", "\x7b", "x", "=", "1", "+", "2", ";",
        "\x7d"]) < 47 ∧
      calculationsLoop examplePlatform 47
        (line1 ["if", "(", "2", "<", "3", ")", "\x7b", "x", "=", "1", "+", "2", ";",
          "\x7d"]) ≠ .unfinished ∧
      modifiedLoop examplePlatform 47 47
        (line1 ["if", "(", "2", "<", "3", ")", "\x7b", "x", "=", "1", "+", "2", ";",
          "\x7d"]) ≠ .unfinished :=
  ⟨by decide,
    (simplifyTokenList_loops_end examplePlatform 47 _ (by decide)).1,
    (simplifyTokenList_loops_end examplePlatform 47 _ (by decide)).2.1⟩

end Cppcheck
